import Mathlib

/-!
# agent86: a shallow embedding of the 8086 assembler, decoder and emulator

The definitions below follow `src/agent86.cpp` function by function and keep its
names.  Conventions of the embedding:

* C++ `int` values (operand values, displacements, addresses) are `Int`; bytes and
  register codes are `Nat`.  Conversions to `uint8_t` / `uint16_t` are written as
  explicit `% 256` / `% 65536`.
* `std::string` is `String`, `std::vector<T>` is `List T`, `std::map` is a
  key-sorted association list.
* Functions that mutate an `AssemblerContext&` or a `CPU&` return the new value.
* Loops are structural recursions, on the input or on an explicit fuel argument.
-/

namespace Agent86

/-! ## Agentic protocol definitions -/

/-- Diagnostic record: severity level, line, message and hint. -/
structure Diagnostic where
  level : String
  line : Nat
  message : String
  hint : String
  deriving DecidableEq, Repr

/-- BinaryMap is one listing entry produced in pass 2. -/
structure BinaryMap where
  address : Int
  sourceLine : Nat
  bytes : List Nat
  sourceCode : String
  size : Nat
  decoded : String
  deriving DecidableEq, Repr

/-! ## Lexer types -/

inductive TokenType where
  | LabelDef | Identifier | Number | String | Comma | Plus | Minus | Star | Slash
  | LParen | RParen | LBracket | RBracket | Colon | Unknown
  deriving DecidableEq, Repr

structure Token where
  type : TokenType
  value : String
  line : Nat
  deriving DecidableEq, Repr

/-! ## Assembler context -/

structure SymbolInfo where
  value : Int
  isConstant : Bool
  definedLine : Nat
  deriving DecidableEq, Repr

/-- AssemblerContext, with `agentState.diagnostics` and `agentState.listing` inlined. -/
structure AssemblerContext where
  diagnostics : List Diagnostic
  listing : List BinaryMap
  currentLineBytes : List Nat
  symbolTable : List (String × SymbolInfo)
  currentAddress : Int
  machineCode : List Nat
  isPass1 : Bool
  currentProcedureName : String
  globalError : Bool
  encounteredSymbol : Bool
  deriving DecidableEq, Repr

/-- Freshly constructed context (the member initialisers of the C++ struct). -/
def AssemblerContext.init : AssemblerContext :=
  { diagnostics := [], listing := [], currentLineBytes := [], symbolTable := [],
    currentAddress := 0, machineCode := [], isPass1 := true, currentProcedureName := "",
    globalError := false, encounteredSymbol := false }

/-! ## Helper functions -/

def logError (ctx : AssemblerContext) (line : Nat) (msg hint : String) : AssemblerContext :=
  { ctx with diagnostics := ctx.diagnostics ++ [⟨"ERROR", line, msg, hint⟩], globalError := true }

def logWarning (ctx : AssemblerContext) (line : Nat) (msg hint : String) : AssemblerContext :=
  { ctx with diagnostics := ctx.diagnostics ++ [⟨"WARNING", line, msg, hint⟩] }

/-- Function `toUpper`: `::toupper` applied to every character. -/
def toUpper (s : String) : String := String.mk (s.data.map Char.toUpper)

/-- First character of a string (`s[0]`), NUL for the empty string. -/
def firstChar (s : String) : Char := s.data.headD (Char.ofNat 0)

/-- Last character of a string (`s.back()`), NUL for the empty string. -/
def lastChar (s : String) : Char := s.data.getLastD (Char.ofNat 0)

/-- String without its last character (`s.pop_back()`). -/
def popBack (s : String) : String := String.mk s.data.dropLast

/-- String `std::to_string` of an `int`. -/
def intToString (v : Int) : String :=
  if v < 0 then "-" ++ Nat.repr v.natAbs else Nat.repr v.natAbs

/-- Symbol-table lookup (`symbolTable.count` / `symbolTable[...]`). -/
def symLookup : List (String × SymbolInfo) → String → Option SymbolInfo
  | [], _ => none
  | (k, v) :: rest, key => if k = key then some v else symLookup rest key

/-- Symbol-table assignment `symbolTable[key] = info`; keys stay in ascending order. -/
def symInsert : List (String × SymbolInfo) → String → SymbolInfo → List (String × SymbolInfo)
  | [], key, info => [(key, info)]
  | (k, v) :: rest, key, info =>
    if k = key then (k, info) :: rest
    else if key < k then (key, info) :: (k, v) :: rest
    else (k, v) :: symInsert rest key info

/-- The static register table of `isRegister`: name, (code, size). -/
def regTable : List (String × (Nat × Nat)) :=
  [("AL", (0, 8)), ("CL", (1, 8)), ("DL", (2, 8)), ("BL", (3, 8)),
   ("AH", (4, 8)), ("CH", (5, 8)), ("DH", (6, 8)), ("BH", (7, 8)),
   ("AX", (0, 16)), ("CX", (1, 16)), ("DX", (2, 16)), ("BX", (3, 16)),
   ("SP", (4, 16)), ("BP", (5, 16)), ("SI", (6, 16)), ("DI", (7, 16))]

/-- Function `isRegister`: `some (regCode, size)` when the name is a register. -/
def isRegister (s : String) : Option (Nat × Nat) := regTable.lookup (toUpper s)

/-! ## Number parser -/

def isDigitC (c : Char) : Bool := decide (48 ≤ c.toNat ∧ c.toNat ≤ 57)

def isXDigitC (c : Char) : Bool :=
  isDigitC c || decide (65 ≤ c.toNat ∧ c.toNat ≤ 70) || decide (97 ≤ c.toNat ∧ c.toNat ≤ 102)

def isAlphaC (c : Char) : Bool :=
  decide (65 ≤ c.toNat ∧ c.toNat ≤ 90) || decide (97 ≤ c.toNat ∧ c.toNat ≤ 122)

def isSpaceC (c : Char) : Bool := decide (c.toNat = 32 ∨ (9 ≤ c.toNat ∧ c.toNat ≤ 13))

/-- Value of one digit character in bases up to 16. -/
def digitVal (c : Char) : Nat :=
  if isDigitC c then c.toNat - 48
  else if 65 ≤ c.toNat ∧ c.toNat ≤ 70 then c.toNat - 55
  else c.toNat - 87

/-- Digit validation loop of `parseNumber`: the failure reason for the first bad character. -/
def validateDigits (original : String) (base : Nat) : List Char → Option String
  | [] => none
  | c :: rest =>
    if base = 2 ∧ c ≠ '0' ∧ c ≠ '1' then
      some ("Binary literal '" ++ original ++ "' contains non-binary digit '" ++ String.singleton c
        ++ "'. Valid binary digits: 0, 1.")
    else if base = 8 ∧ (c.toNat < 48 ∨ c.toNat > 55) then
      some ("Octal literal '" ++ original ++ "' contains non-octal digit '" ++ String.singleton c
        ++ "'. Valid octal digits: 0-7.")
    else if base = 16 ∧ ¬ isXDigitC c then
      some ("Hex literal '" ++ original ++ "' contains non-hex character '" ++ String.singleton c
        ++ "'. Valid hex digits: 0-9, A-F.")
    else if base = 10 ∧ ¬ isDigitC c then
      some ("Decimal literal '" ++ original ++ "' contains non-digit character '"
        ++ String.singleton c ++ "'.")
    else validateDigits original base rest

/-- The integer `stoll` reads from validated digits. -/
def digitsValue (base : Nat) (cs : List Char) : Nat :=
  cs.foldl (fun acc c => acc * base + digitVal c) 0

/-- Function `parseNumber`: (result, ok, reason). -/
def parseNumber (s0 : String) : Int × Bool × String :=
  if s0.data = [] then (0, false, "Empty numeric literal.")
  else
    let original := s0
    let u0 := toUpper s0
    let suffix := lastChar u0
    let (base, baseLabel, s, u) : Nat × String × String × String :=
      if suffix = 'H' then (16, "hex", popBack s0, popBack u0)
      else if suffix = 'B' then (2, "binary", popBack s0, popBack u0)
      else if suffix = 'O' ∨ suffix = 'Q' then (8, "octal", popBack s0, popBack u0)
      else if suffix = 'D' then (10, "decimal", popBack s0, popBack u0)
      else if u0.data.length > 2 ∧ u0.data.take 2 = ['0', 'X'] then
        (16, "hex", String.mk (s0.data.drop 2), String.mk (u0.data.drop 2))
      else if u0.data.length > 2 ∧ u0.data.take 2 = ['0', 'B'] then
        (2, "binary", String.mk (s0.data.drop 2), String.mk (u0.data.drop 2))
      else (10, "decimal", s0, u0)
    if s.data = [] then
      (0, false, "Numeric prefix with no digits following in '" ++ original ++ "'.")
    else
      match validateDigits original base u.data with
      | some reason => (0, false, reason)
      | none =>
        let result := digitsValue base s.data
        if result > 9223372036854775807 then
          (0, false, "Invalid " ++ baseLabel ++ " literal '" ++ original ++ "'.")
        else if result > 65535 then
          (0, false, "Numeric literal '" ++ original
            ++ "' overflows. Maximum value is 65535 (FFFFh) for 16-bit.")
        else ((result : Int), true, "")

/-! ## Lexer -/

/-- Token type of a single punctuation character. -/
def punctType (c : Char) : TokenType :=
  if c = ',' then .Comma
  else if c = '+' then .Plus
  else if c = '-' then .Minus
  else if c = '*' then .Star
  else if c = '/' then .Slash
  else if c = '(' then .LParen
  else if c = ')' then .RParen
  else if c = '[' then .LBracket
  else if c = ']' then .RBracket
  else if c = ':' then .Colon
  else .Unknown

def isPunct (c : Char) : Bool :=
  c = '[' || c = ']' || c = ',' || c = ':' || c = '+' || c = '-' || c = '*' || c = '/'
    || c = '(' || c = ')'

/-- Retag the last token as `LabelDef` (`tokens.back().type = LabelDef`). -/
def retagLast : List Token → List Token
  | [] => []
  | [t] => [{ t with type := .LabelDef }]
  | t :: rest => t :: retagLast rest

/-- The character loop of `tokenize`; returns the tokens and the pending `cur`. -/
def tokenizeLoop (lineNum : Nat) :
    List Char → List Token → String → Bool → List Token × String
  | [], tokens, cur, _ => (tokens, cur)
  | c :: rest, tokens, cur, inString =>
    if inString then
      if c = Char.ofNat 39 then
        tokenizeLoop lineNum rest (tokens ++ [⟨.String, cur, lineNum⟩]) "" false
      else tokenizeLoop lineNum rest tokens (cur.push c) true
    else if c = ';' then (tokens, cur)
    else if c = Char.ofNat 39 then tokenizeLoop lineNum rest tokens cur true
    else if isPunct c then
      let tokens1 := if cur.data ≠ [] then tokens ++ [⟨.Identifier, cur, lineNum⟩] else tokens
      let type := punctType c
      let tokens2 :=
        if type = .Colon then
          match tokens1.getLast? with
          | some t =>
            if t.type = .Identifier then retagLast tokens1
            else tokens1 ++ [⟨type, String.singleton c, lineNum⟩]
          | none => tokens1 ++ [⟨type, String.singleton c, lineNum⟩]
        else tokens1 ++ [⟨type, String.singleton c, lineNum⟩]
      tokenizeLoop lineNum rest tokens2 "" false
    else if isSpaceC c then
      if cur.data ≠ [] then tokenizeLoop lineNum rest (tokens ++ [⟨.Identifier, cur, lineNum⟩]) "" false
      else tokenizeLoop lineNum rest tokens cur false
    else tokenizeLoop lineNum rest tokens (cur.push c) false

/-- Function `tokenize`. -/
def tokenize (line : String) (lineNum : Nat) : List Token :=
  let (tokens, cur) := tokenizeLoop lineNum line.data [] "" false
  let tokens := if cur.data ≠ [] then tokens ++ [⟨.Identifier, cur, lineNum⟩] else tokens
  tokens.map fun t =>
    if t.type = .Identifier ∧ isDigitC (firstChar t.value) then { t with type := .Number } else t

/-! ## Diagnostic helpers (needed by parseExpression) -/

/-- One row of the edit-distance table: `pd`/`pu` are the previous row's diagonal and upper
cells, `left` is the cell just computed in the current row. -/
def editRowAux (ca : Char) : List Char → List Nat → Nat → List Nat
  | cb :: bs, pd :: pu :: ps, left =>
    let v := if ca.toUpper = cb.toUpper then pd else 1 + min (min pu left) pd
    v :: editRowAux ca bs (pu :: ps) v
  | _, _, _ => []

/-- Function `editDistance` (case-insensitive Levenshtein distance). -/
def editDistance (a b : String) : Nat :=
  let row0 := List.range (b.data.length + 1)
  let final := a.data.enum.foldl
    (fun prev ica => (ica.1 + 1) :: editRowAux ica.2 b.data prev (ica.1 + 1)) row0
  final.getLastD 0

/-- Function `findClosestSymbol` with `maxDist = 2`; the table is visited in key order. -/
def findClosestSymbol (table : List (String × SymbolInfo)) (target : String) : String :=
  (table.foldl (fun (acc : String × Nat) kv =>
      let d := editDistance kv.1 target
      if d > 0 ∧ d < acc.2 then (kv.1, d) else acc) ("", 3)).1

/-! ## Expression parser -/

/-- Line of `tokens[i]` (0 when the index is out of range). -/
def tokLine (tokens : List Token) (i : Nat) : Nat :=
  match tokens.get? i with
  | some t => t.line
  | none => 0

/-- Hint attached to "Undefined label" in pass 2. -/
def undefinedLabelHint (ctx : AssemblerContext) (uml : String) : String :=
  let hint1 :=
    if uml.data.length > 1 ∧ lastChar uml = 'H' ∧ uml.data.dropLast.all isXDigitC then
      "Did you mean 0" ++ uml ++ "? Hex literals starting with A-F must be prefixed with 0."
    else ""
  let hint2 :=
    if hint1.data = [] then
      if (isRegister uml).isSome then
        "'" ++ uml ++ "' is a register, not a label. Registers cannot be used in expressions directly."
      else hint1
    else hint1
  let hint3 :=
    if hint2.data = [] ∧ uml.data ≠ [] ∧ firstChar uml = '.' ∧ ctx.currentProcedureName.data = [] then
      "Local label '" ++ uml
        ++ "' used outside any PROC. Wrap your code in PROC/ENDP, or use a global label."
    else hint2
  if hint3.data = [] then
    let closest := findClosestSymbol ctx.symbolTable uml
    if closest.data ≠ [] then
      let h := "Did you mean '" ++ closest ++ "'?"
      match symLookup ctx.symbolTable closest with
      | some info => h ++ " (defined at line " ++ Nat.repr info.definedLine ++ ")"
      | none => h
    else hint3
  else hint3

/-- Hint attached to "Unexpected token in expression" in pass 2. -/
def unexpectedTokenHint (tok : String) : String :=
  let upper := toUpper tok
  if (isRegister upper).isSome then
    "'" ++ tok ++ "' is a register and cannot appear in an arithmetic expression. "
      ++ "If you meant a memory operand, use [" ++ tok ++ "]. "
      ++ "If you meant the value in the register, this must be computed at runtime, not assembly time."
  else if upper = "DB" ∨ upper = "DW" ∨ upper = "DD" ∨ upper = "EQU" ∨ upper = "PROC"
      ∨ upper = "ENDP" ∨ upper = "ORG" then
    "'" ++ tok ++ "' is a directive and cannot be used as a value in an expression."
  else if tok = "[" ∨ tok = "]" then
    "Brackets indicate a memory operand and cannot appear inside an arithmetic expression."
  else "'" ++ tok ++ "' is not a recognized number, label, or operator."

/-- The `while (idx < tokens.size())` loop of `parseExpression` over binary operators;
`parseRhs ctx idx prec` is the recursive call for the right-hand side. The values are
integers without bound: they are the `int` values of the source as long as no operation
leaves the range of `int` (`fitsInt`); where one does, `lhs += rhs`, `lhs -= rhs`,
`lhs *= rhs` or `lhs /= rhs` overflows in the source, which C++ leaves undefined, and
this definition follows no behaviour of the source. -/
def binLoop (parseRhs : AssemblerContext → Nat → Nat → AssemblerContext × Nat × Int)
    (tokens : List Token) (minPrec : Nat) :
    Nat → AssemblerContext → Nat → Int → AssemblerContext × Nat × Int
  | 0, ctx, idx, lhs => (ctx, idx, lhs)
  | n + 1, ctx, idx, lhs =>
    match tokens.get? idx with
    | none => (ctx, idx, lhs)
    | some t =>
      let opType := t.type
      if opType ≠ .Plus ∧ opType ≠ .Minus ∧ opType ≠ .Star ∧ opType ≠ .Slash then (ctx, idx, lhs)
      else
        let prec := if opType = .Plus ∨ opType = .Minus then 1 else 2
        if prec < minPrec then (ctx, idx, lhs)
        else
          let (ctx1, idx1, rhs) := parseRhs ctx (idx + 1) (prec + 1)
          if opType = .Plus then binLoop parseRhs tokens minPrec n ctx1 idx1 (lhs + rhs)
          else if opType = .Minus then binLoop parseRhs tokens minPrec n ctx1 idx1 (lhs - rhs)
          else if opType = .Star then binLoop parseRhs tokens minPrec n ctx1 idx1 (lhs * rhs)
          else if rhs ≠ 0 then binLoop parseRhs tokens minPrec n ctx1 idx1 (Int.tdiv lhs rhs)
          else
            binLoop parseRhs tokens minPrec n
              (logError ctx1 (tokLine tokens (idx1 - 1)) "Division by zero"
                "Expression contains division by zero. Check the divisor value or EQU constant.")
              idx1 lhs

/-- Function `parseExpression`, by recursion on a fuel that bounds the nesting depth.
Returns the context, the new `idx` and the value. The value is an integer without bound
where the source returns `int`: the two agree as long as `-val` and the operations of
`binLoop` stay in the range of `int` (`fitsInt`, `HasIntValue`). -/
def parseExpression : Nat → AssemblerContext → List Token → Nat → Nat →
    AssemblerContext × Nat × Int
  | 0, ctx, _, idx, _ => (ctx, idx, 0)
  | fuel + 1, ctx, tokens, idx, minPrec =>
    match tokens.get? idx with
    | none => (ctx, idx, 0)
    | some t =>
      let loop := binLoop (fun c i p => parseExpression fuel c tokens i p) tokens minPrec fuel
      if t.type = .Plus ∨ t.type = .Minus then
        let (ctx1, idx1, val) := parseExpression fuel ctx tokens (idx + 1) 100
        loop ctx1 idx1 (if t.type = .Minus then -val else val)
      else if t.type = .LParen then
        let (ctx1, idx1, lhs) := parseExpression fuel ctx tokens (idx + 1) 0
        match tokens.get? idx1 with
        | some t1 =>
          if t1.type = .RParen then loop ctx1 (idx1 + 1) lhs
          else loop (logError ctx1 (tokLine tokens (idx1 - 1)) "Expected ')'"
                  "Check for unmatched parentheses in your expression.") idx1 lhs
        | none => loop (logError ctx1 (tokLine tokens (idx1 - 1)) "Expected ')'"
                  "Check for unmatched parentheses in your expression.") idx1 lhs
      else if t.type = .Number then
        let (lhs, numOk, numReason) := parseNumber t.value
        let ctx1 := if numOk then ctx
          else logError ctx t.line ("Invalid numeric literal: " ++ t.value) numReason
        loop ctx1 (idx + 1) lhs
      else if t.type = .Identifier ∧ (isAlphaC (firstChar t.value) ∨ firstChar t.value = '.'
          ∨ firstChar t.value = '_' ∨ firstChar t.value = '?') then
        if t.value = "$" then loop ctx (idx + 1) ctx.currentAddress
        else
          let label :=
            if firstChar t.value = '.' ∧ ctx.currentProcedureName.data ≠ [] then
              ctx.currentProcedureName ++ t.value
            else t.value
          let uml := toUpper label
          let ctx1 := { ctx with encounteredSymbol := true }
          match symLookup ctx1.symbolTable uml with
          | some info => loop ctx1 (idx + 1) info.value
          | none =>
            let ctx2 := if ctx1.isPass1 then ctx1
              else logError ctx1 t.line ("Undefined label " ++ uml) (undefinedLabelHint ctx1 uml)
            loop ctx2 (idx + 1) 0
      else if t.type = .String then
        loop ctx (idx + 1) (if t.value.data ≠ [] then ((firstChar t.value).toNat % 256 : Nat) else 0)
      else
        let ctx1 := if ctx.isPass1 then ctx
          else logError ctx t.line ("Unexpected token in expression: " ++ t.value)
                (unexpectedTokenHint t.value)
        (ctx1, idx + 1, 0)

/-- Entry point used by the callers of `parseExpression`: enough fuel for any token list. -/
def parseExpr (ctx : AssemblerContext) (tokens : List Token) (idx minPrec : Nat) :
    AssemblerContext × Nat × Int :=
  parseExpression (tokens.length + 1) ctx tokens idx minPrec

/-! ## Instructions: operands -/

inductive OperandType where
  | REGISTER | IMMEDIATE | MEMORY | SEGREG
  deriving DecidableEq, Repr

/-- Struct `Operand` of the assembler. -/
structure Operand where
  type : OperandType
  reg : Nat
  size : Nat
  val : Int
  memReg : Int
  isLabel : Bool
  segmentPrefix : Int
  present : Bool
  involvesSymbol : Bool
  hasExplicitSize : Bool
  deriving DecidableEq, Repr

/-- The default-constructed `Operand()`. -/
def Operand.empty : Operand :=
  { type := .IMMEDIATE, reg := 0, size := 0, val := 0, memReg := -1, isLabel := false,
    segmentPrefix := -1, present := false, involvesSymbol := false, hasExplicitSize := false }

/-- Segment-override prefix byte named by an upper-cased identifier, or -1. -/
def segPrefixOf (s : String) : Int :=
  if s = "ES" then 0x26 else if s = "CS" then 0x2E else if s = "SS" then 0x36
  else if s = "DS" then 0x3E else -1

/-- Flags collected while scanning the inside of `[ ... ]`. -/
structure BracketState where
  ctx : AssemblerContext
  idx : Nat
  op : Operand
  hasBX : Bool
  hasBP : Bool
  hasSI : Bool
  hasDI : Bool
  displacement : Int

/-- The `while (... != RBracket)` loop of `parseOperand`. -/
def bracketLoop (tokens : List Token) : Nat → BracketState → BracketState
  | 0, st => st
  | n + 1, st =>
    match tokens.get? st.idx with
    | none => st
    | some t =>
      if t.type = .RBracket then st
      else if t.type = .Plus then bracketLoop tokens n { st with idx := st.idx + 1 }
      else if t.type = .LabelDef ∧ segPrefixOf (toUpper t.value) ≠ -1 then
        bracketLoop tokens n
          { st with op := { st.op with segmentPrefix := segPrefixOf (toUpper t.value) },
                    idx := st.idx + 1 }
      else
        match isRegister t.value with
        | some _ =>
          let u := toUpper t.value
          let st1 :=
            if u = "BX" then { st with hasBX := true }
            else if u = "BP" then { st with hasBP := true }
            else if u = "SI" then { st with hasSI := true }
            else if u = "DI" then { st with hasDI := true }
            else
              { st with ctx := (logError st.ctx t.line
                  ("Invalid register in memory operand: " ++ t.value)
                  "Only BX, BP, SI, and DI can be used inside []. AX, CX, DX, SP are not valid base/index registers on 8086.") }
          bracketLoop tokens n { st1 with idx := st1.idx + 1 }
        | none =>
          let (ctx1, idx1, v) := parseExpr { st.ctx with encounteredSymbol := false } tokens st.idx 0
          bracketLoop tokens n
            { st with ctx := ctx1, idx := idx1, displacement := st.displacement + v,
                      op := if ctx1.encounteredSymbol then { st.op with involvesSymbol := true }
                            else st.op }

/-- The R/M code `parseOperand` computes from the registers seen inside `[ ... ]`: -1 for a
direct address, `none` for an invalid combination. -/
def memRegOf (hasBX hasBP hasSI hasDI : Bool) : Option Int :=
  if hasBX ∧ hasSI then some 0
  else if hasBX ∧ hasDI then some 1
  else if hasBP ∧ hasSI then some 2
  else if hasBP ∧ hasDI then some 3
  else if hasSI ∧ ¬ hasBX ∧ ¬ hasBP then some 4
  else if hasDI ∧ ¬ hasBX ∧ ¬ hasBP then some 5
  else if hasBP ∧ ¬ hasSI ∧ ¬ hasDI then some 6
  else if hasBX ∧ ¬ hasSI ∧ ¬ hasDI then some 7
  else if ¬ hasBX ∧ ¬ hasBP ∧ ¬ hasSI ∧ ¬ hasDI then some (-1)
  else none

/-- The state the bracket loop of `parseOperand` starts from: `idx` is the position of the `[`,
`op` the operand built so far, `sizeOverride` the BYTE/WORD prefix (0 when absent). -/
def bracketStart (ctx : AssemblerContext) (idx : Nat) (op : Operand) (sizeOverride : Nat) :
    BracketState :=
  { ctx := ctx, idx := idx + 1,
    op := { op with type := .MEMORY, hasExplicitSize := decide (sizeOverride ≠ 0),
                    size := if sizeOverride ≠ 0 then sizeOverride else 16 },
    hasBX := false, hasBP := false, hasSI := false, hasDI := false, displacement := 0 }

/-- Position after the bracket loop: the closing `]` is skipped when present. -/
def bracketEnd (tokens : List Token) (st : BracketState) : Nat :=
  match tokens.get? st.idx with
  | some tr => if tr.type = .RBracket then st.idx + 1 else st.idx
  | none => st.idx

/-- The `[ ... ]` branch of `parseOperand`. -/
def parseMemory (ctx : AssemblerContext) (tokens : List Token) (idx : Nat) (op : Operand)
    (sizeOverride startIdx : Nat) : AssemblerContext × Nat × Operand :=
  let st := bracketLoop tokens tokens.length (bracketStart ctx idx op sizeOverride)
  let idx := bracketEnd tokens st
  let rm := memRegOf st.hasBX st.hasBP st.hasSI st.hasDI
  let ctx :=
    match rm with
    | some _ => st.ctx
    | none => logError st.ctx (tokLine tokens idx) "Invalid addressing mode combination"
        "Valid 8086 addressing modes: [BX+SI], [BX+DI], [BP+SI], [BP+DI], [SI], [DI], [BP], [BX], or [direct_address]. You cannot combine SI+DI, BX+BP, or use AX/CX/DX/SP inside brackets."
  (ctx, idx, { st.op with val := st.displacement, memReg := rm.getD (-1),
                          present := decide (idx > startIdx) })

/-- The register, segment-register and immediate branches of `parseOperand`: `t` is the token
read before the size prefix, `idx` the position after it. -/
def parseSimple (ctx : AssemblerContext) (tokens : List Token) (idx : Nat) (op : Operand)
    (t : Token) (startIdx : Nat) : AssemblerContext × Nat × Operand :=
  match isRegister t.value with
  | some (r, s) =>
    (ctx, idx + 1, { op with type := .REGISTER, reg := r, size := s,
                             present := decide (idx + 1 > startIdx) })
  | none =>
    let upper := toUpper t.value
    let segCode : Int :=
      if upper = "ES" then 0 else if upper = "CS" then 1 else if upper = "SS" then 2
      else if upper = "DS" then 3 else -1
    if segCode ≠ -1 ∧ t.type = .Identifier then
      (ctx, idx + 1, { op with type := .SEGREG, reg := segCode.toNat, size := 16,
                               present := decide (idx + 1 > startIdx) })
    else
      let (ctx1, idx1, v) := parseExpr ctx tokens idx 0
      (ctx1, idx1, { op with type := .IMMEDIATE, val := v,
                             present := decide (idx1 > startIdx) })

/-- The segment-override prefix a token gives in front of an operand, or -1. -/
def operandPrefix (t0 : Token) : Int :=
  if t0.type = .LabelDef then segPrefixOf (toUpper t0.value) else -1

/-- The BYTE/WORD size prefix a token gives, or 0. -/
def operandSizeOverride (t : Token) : Nat :=
  if t.type = .Identifier then
    if toUpper t.value = "BYTE" then 8 else if toUpper t.value = "WORD" then 16 else 0
  else 0

/-- Function `parseOperand`: the context, the new `idx` and the operand. -/
def parseOperand (ctx : AssemblerContext) (tokens : List Token) (idx0 : Nat) :
    AssemblerContext × Nat × Operand :=
  let op : Operand := Operand.empty
  let startIdx := idx0
  match tokens.get? idx0 with
  | none => (ctx, idx0, op)
  | some t0 =>
    -- segment override (e.g. `ES: [BX]`)
    let pfx := operandPrefix t0
    let op := if pfx ≠ -1 then { op with segmentPrefix := pfx } else op
    let idx := if pfx ≠ -1 then idx0 + 1 else idx0
    match tokens.get? idx with
    | none => (ctx, idx, { op with present := decide (idx > startIdx) })
    | some t =>
      -- BYTE / WORD size prefix
      let sizeOverride := operandSizeOverride t
      let idx := if sizeOverride ≠ 0 then idx + 1 else idx
      match tokens.get? idx with
      | none =>
        (ctx, idx, { op with present := if sizeOverride ≠ 0 then true else decide (idx > startIdx) })
      | some tb =>
        if tb.type = .LBracket then parseMemory ctx tokens idx op sizeOverride startIdx
        else parseSimple ctx tokens idx op t startIdx

/-! ## ISA knowledge base -/

structure OperandRule where
  type1 : String
  type2 : String
  constraints : String
  deriving DecidableEq, Repr

structure ISAEntry where
  mnemonic : String
  description : String
  validForms : List OperandRule
  deriving DecidableEq, Repr

/-- Part 1 of the knowledge base `isaDB`, in source order. -/
def isaDB1 : List ISAEntry := [
  .mk "MOV" "Move Data"
    [.mk "REG" "REG" "", .mk "REG" "IMM" "", .mk "REG" "MEM" "", .mk "MEM" "REG" "",
     .mk "MEM" "IMM" "", .mk "REG" "SREG" "", .mk "SREG" "REG" ""],
  .mk "ADD" "Arithmetic Add"
    [.mk "REG" "REG" "", .mk "REG" "MEM" "", .mk "MEM" "REG" "", .mk "REG" "IMM" "",
     .mk "MEM" "IMM" ""],
  .mk "SUB" "Arithmetic Sub"
    [.mk "REG" "REG" "", .mk "REG" "MEM" "", .mk "MEM" "REG" "", .mk "REG" "IMM" "",
     .mk "MEM" "IMM" ""],
  .mk "CMP" "Compare"
    [.mk "REG" "REG" "", .mk "REG" "MEM" "", .mk "MEM" "REG" "", .mk "REG" "IMM" "",
     .mk "MEM" "IMM" ""],
  .mk "AND" "Logical AND"
    [.mk "REG" "REG" "", .mk "REG" "MEM" "", .mk "MEM" "REG" "", .mk "REG" "IMM" "",
     .mk "MEM" "IMM" ""],
  .mk "OR" "Logical OR"
    [.mk "REG" "REG" "", .mk "REG" "MEM" "", .mk "MEM" "REG" "", .mk "REG" "IMM" "",
     .mk "MEM" "IMM" ""],
  .mk "XOR" "Logical XOR"
    [.mk "REG" "REG" "", .mk "REG" "MEM" "", .mk "MEM" "REG" "", .mk "REG" "IMM" "",
     .mk "MEM" "IMM" ""],
  .mk "TEST" "Logical TEST"
    [.mk "REG" "REG" "", .mk "REG" "MEM" "", .mk "MEM" "REG" "", .mk "REG" "IMM" "",
     .mk "MEM" "IMM" ""],
  .mk "INC" "Increment"
    [.mk "REG" "NONE" "", .mk "MEM" "NONE" ""],
  .mk "DEC" "Decrement"
    [.mk "REG" "NONE" "", .mk "MEM" "NONE" ""],
  .mk "NOT" "One's Compl"
    [.mk "REG" "NONE" "", .mk "MEM" "NONE" ""],
  .mk "NEG" "Two's Compl"
    [.mk "REG" "NONE" "", .mk "MEM" "NONE" ""],
  .mk "MUL" "Unsigned Multiply"
    [.mk "REG" "NONE" "Accumulator * Src", .mk "MEM" "NONE" ""],
  .mk "IMUL" "Signed Multiply"
    [.mk "REG" "NONE" "", .mk "MEM" "NONE" ""]]

/-- Part 2 of the knowledge base `isaDB`, in source order. -/
def isaDB2 : List ISAEntry := [
  .mk "DIV" "Unsigned Divide"
    [.mk "REG" "NONE" "Accumulator / Src", .mk "MEM" "NONE" ""],
  .mk "IDIV" "Signed Divide"
    [.mk "REG" "NONE" "", .mk "MEM" "NONE" ""],
  .mk "SHL" "Shift Left"
    [.mk "REG" "1" "8086", .mk "REG" "IMM" "186+ only", .mk "REG" "CL" "8086",
     .mk "MEM" "1" "8086", .mk "MEM" "IMM" "186+ only", .mk "MEM" "CL" "8086"],
  .mk "SHR" "Shift Right"
    [.mk "REG" "1" "8086", .mk "REG" "IMM" "186+ only", .mk "REG" "CL" "8086",
     .mk "MEM" "1" "8086", .mk "MEM" "IMM" "186+ only", .mk "MEM" "CL" "8086"],
  .mk "ROL" "Rotate Left"
    [.mk "REG" "1" "8086", .mk "REG" "IMM" "186+ only", .mk "REG" "CL" "8086",
     .mk "MEM" "1" "8086", .mk "MEM" "IMM" "186+ only", .mk "MEM" "CL" "8086"],
  .mk "ROR" "Rotate Right"
    [.mk "REG" "1" "8086", .mk "REG" "IMM" "186+ only", .mk "REG" "CL" "8086",
     .mk "MEM" "1" "8086", .mk "MEM" "IMM" "186+ only", .mk "MEM" "CL" "8086"],
  .mk "RCL" "Rotate thru Carry Left"
    [.mk "REG" "1" "8086", .mk "REG" "IMM" "186+ only", .mk "REG" "CL" "8086",
     .mk "MEM" "1" "8086", .mk "MEM" "IMM" "186+ only", .mk "MEM" "CL" "8086"],
  .mk "RCR" "Rotate thru Carry Right"
    [.mk "REG" "1" "8086", .mk "REG" "IMM" "186+ only", .mk "REG" "CL" "8086",
     .mk "MEM" "1" "8086", .mk "MEM" "IMM" "186+ only", .mk "MEM" "CL" "8086"],
  .mk "SAR" "Shift Arith Right"
    [.mk "REG" "1" "8086", .mk "REG" "IMM" "186+ only", .mk "REG" "CL" "8086",
     .mk "MEM" "1" "8086", .mk "MEM" "IMM" "186+ only", .mk "MEM" "CL" "8086"],
  .mk "PUSH" "Push to Stack"
    [.mk "REG16" "NONE" "", .mk "MEM16" "NONE" "", .mk "SEG" "NONE" ""],
  .mk "POP" "Pop from Stack"
    [.mk "REG16" "NONE" "", .mk "MEM16" "NONE" "", .mk "SEG" "NONE" ""],
  .mk "IN" "Input from Port"
    [.mk "AL/AX" "IMM" "Fixed port", .mk "AL/AX" "DX" "Variable port"],
  .mk "OUT" "Output to Port"
    [.mk "IMM" "AL/AX" "Fixed port", .mk "DX" "AL/AX" "Variable port"],
  .mk "LEA" "Load Eff. Addr"
    [.mk "REG16" "MEM" ""]]

/-- Part 3 of the knowledge base `isaDB`, in source order. -/
def isaDB3 : List ISAEntry := [
  .mk "JMP" "Unconditional Jump"
    [.mk "LABEL" "NONE" "Short/Near", .mk "IMM" "NONE" "Abs"],
  .mk "JZ" "Jump if Zero"
    [.mk "LABEL" "NONE" "Short only (-128 to +127)"],
  .mk "JE" "Jump if Equal"
    [.mk "LABEL" "NONE" "Short only"],
  .mk "JNZ" "Jump if Not Zero"
    [.mk "LABEL" "NONE" "Short only"],
  .mk "JNE" "Jump if Not Equal"
    [.mk "LABEL" "NONE" "Short only"],
  .mk "JL" "Jump if Less (signed)"
    [.mk "LABEL" "NONE" "Short only"],
  .mk "JNGE" "Jump if Not Greater/Equal"
    [.mk "LABEL" "NONE" "Short only"],
  .mk "JG" "Jump if Greater (signed)"
    [.mk "LABEL" "NONE" "Short only"],
  .mk "JNLE" "Jump if Not Less/Equal"
    [.mk "LABEL" "NONE" "Short only"],
  .mk "JLE" "Jump if Less/Equal (signed)"
    [.mk "LABEL" "NONE" "Short only"],
  .mk "JNG" "Jump if Not Greater"
    [.mk "LABEL" "NONE" "Short only"],
  .mk "JGE" "Jump if Greater/Equal (signed)"
    [.mk "LABEL" "NONE" "Short only"],
  .mk "JNL" "Jump if Not Less"
    [.mk "LABEL" "NONE" "Short only"],
  .mk "JA" "Jump if Above (unsigned)"
    [.mk "LABEL" "NONE" "Short only"]]

/-- Part 4 of the knowledge base `isaDB`, in source order. -/
def isaDB4 : List ISAEntry := [
  .mk "JNBE" "Jump if Not Below/Equal"
    [.mk "LABEL" "NONE" "Short only"],
  .mk "JB" "Jump if Below (unsigned)"
    [.mk "LABEL" "NONE" "Short only"],
  .mk "JNAE" "Jump if Not Above/Equal"
    [.mk "LABEL" "NONE" "Short only"],
  .mk "JAE" "Jump if Above/Equal (unsigned)"
    [.mk "LABEL" "NONE" "Short only"],
  .mk "JNB" "Jump if Not Below"
    [.mk "LABEL" "NONE" "Short only"],
  .mk "JBE" "Jump if Below/Equal (unsigned)"
    [.mk "LABEL" "NONE" "Short only"],
  .mk "JNA" "Jump if Not Above"
    [.mk "LABEL" "NONE" "Short only"],
  .mk "JC" "Jump if Carry"
    [.mk "LABEL" "NONE" "Short only"],
  .mk "JNC" "Jump if No Carry"
    [.mk "LABEL" "NONE" "Short only"],
  .mk "JS" "Jump if Sign"
    [.mk "LABEL" "NONE" "Short only"],
  .mk "JNS" "Jump if No Sign"
    [.mk "LABEL" "NONE" "Short only"],
  .mk "JO" "Jump if Overflow"
    [.mk "LABEL" "NONE" "Short only"],
  .mk "JNO" "Jump if No Overflow"
    [.mk "LABEL" "NONE" "Short only"],
  .mk "JP" "Jump if Parity (even)"
    [.mk "LABEL" "NONE" "Short only"]]

/-- Part 5 of the knowledge base `isaDB`, in source order. -/
def isaDB5 : List ISAEntry := [
  .mk "JPE" "Jump if Parity Even"
    [.mk "LABEL" "NONE" "Short only"],
  .mk "JNP" "Jump if No Parity (odd)"
    [.mk "LABEL" "NONE" "Short only"],
  .mk "JPO" "Jump if Parity Odd"
    [.mk "LABEL" "NONE" "Short only"],
  .mk "LOOP" "Loop CX times"
    [.mk "LABEL" "NONE" "Short only"],
  .mk "LOOPE" "Loop if Equal"
    [.mk "LABEL" "NONE" "Short only"],
  .mk "LOOPZ" "Loop if Zero"
    [.mk "LABEL" "NONE" "Short only"],
  .mk "LOOPNE" "Loop if Not Equal"
    [.mk "LABEL" "NONE" "Short only"],
  .mk "LOOPNZ" "Loop if Not Zero"
    [.mk "LABEL" "NONE" "Short only"],
  .mk "JCXZ" "Jump if CX Zero"
    [.mk "LABEL" "NONE" "Short only"],
  .mk "MOVSB" "Move String Byte"
    [.mk "NONE" "NONE" "DS:[SI] -> ES:[DI]"],
  .mk "MOVSW" "Move String Word"
    [.mk "NONE" "NONE" "DS:[SI] -> ES:[DI]"],
  .mk "CMPSB" "Compare String Byte"
    [.mk "NONE" "NONE" "DS:[SI] - ES:[DI]"],
  .mk "CMPSW" "Compare String Word"
    [.mk "NONE" "NONE" "DS:[SI] - ES:[DI]"],
  .mk "STOSB" "Store String Byte"
    [.mk "NONE" "NONE" "AL -> ES:[DI]"]]

/-- Part 6 of the knowledge base `isaDB`, in source order. -/
def isaDB6 : List ISAEntry := [
  .mk "STOSW" "Store String Word"
    [.mk "NONE" "NONE" "AX -> ES:[DI]"],
  .mk "LODSB" "Load String Byte"
    [.mk "NONE" "NONE" "DS:[SI] -> AL"],
  .mk "LODSW" "Load String Word"
    [.mk "NONE" "NONE" "DS:[SI] -> AX"],
  .mk "SCASB" "Scan String Byte"
    [.mk "NONE" "NONE" "AL - ES:[DI]"],
  .mk "SCASW" "Scan String Word"
    [.mk "NONE" "NONE" "AX - ES:[DI]"],
  .mk "CALL" "Call Procedure"
    [.mk "LABEL" "NONE" "Near", .mk "IMM" "NONE" "Abs"],
  .mk "RET" "Return"
    [.mk "NONE" "NONE" ""],
  .mk "INT" "Interrupt"
    [.mk "IMM" "NONE" "0-255"],
  .mk "CLD" "Clear Dir Flag"
    [.mk "NONE" "NONE" ""],
  .mk "STD" "Set Dir Flag"
    [.mk "NONE" "NONE" ""],
  .mk "CLI" "Clear Int Flag"
    [.mk "NONE" "NONE" ""],
  .mk "STI" "Set Int Flag"
    [.mk "NONE" "NONE" ""],
  .mk "CMC" "Compl Carry"
    [.mk "NONE" "NONE" ""],
  .mk "CLC" "Clear Carry"
    [.mk "NONE" "NONE" ""]]

/-- Part 7 of the knowledge base `isaDB`, in source order. -/
def isaDB7 : List ISAEntry := [
  .mk "STC" "Set Carry"
    [.mk "NONE" "NONE" ""],
  .mk "NOP" "No Operation"
    [.mk "NONE" "NONE" ""],
  .mk "XCHG" "Exchange"
    [.mk "REG" "REG" "Same size", .mk "REG" "MEM" "", .mk "MEM" "REG" ""],
  .mk "CBW" "Byte to Word"
    [.mk "NONE" "NONE" "Sign-extend AL into AX"],
  .mk "CWD" "Word to DWord"
    [.mk "NONE" "NONE" "Sign-extend AX into DX:AX"],
  .mk "LAHF" "Load Flags to AH"
    [.mk "NONE" "NONE" ""],
  .mk "SAHF" "Store AH to Flags"
    [.mk "NONE" "NONE" ""],
  .mk "PUSHF" "Push Flags"
    [.mk "NONE" "NONE" ""],
  .mk "POPF" "Pop Flags"
    [.mk "NONE" "NONE" ""],
  .mk "XLAT" "Table Lookup"
    [.mk "NONE" "NONE" "AL = DS:[BX + AL]"],
  .mk "HLT" "Halt CPU"
    [.mk "NONE" "NONE" ""],
  .mk "PUSHA" "Push All Regs"
    [.mk "NONE" "NONE" "80186+"],
  .mk "POPA" "Pop All Regs"
    [.mk "NONE" "NONE" "80186+"],
  .mk "SAL" "Shift Arith Left"
    [.mk "REG" "1" "= SHL", .mk "REG" "IMM" "186+ only", .mk "REG" "CL" "= SHL",
     .mk "MEM" "1" "= SHL", .mk "MEM" "IMM" "186+ only", .mk "MEM" "CL" "= SHL"]]

/-- The knowledge base `isaDB`. -/
def isaDB : List ISAEntry :=
  isaDB1 ++ isaDB2 ++ isaDB3 ++ isaDB4 ++ isaDB5 ++ isaDB6 ++ isaDB7

/-! ## Operand formatting and validation -/

/-- Function `getRegName`. -/
def getRegName (reg size : Nat) : String :=
  if size = 8 ∧ reg < 8 then ["AL", "CL", "DL", "BL", "AH", "CH", "DH", "BH"].getD reg "?"
  else if size = 16 ∧ reg < 8 then ["AX", "CX", "DX", "BX", "SP", "BP", "SI", "DI"].getD reg "?"
  else "?"

/-- Name of a segment register code, `"?"` when out of range. -/
def sregName (reg : Nat) : String := ["ES", "CS", "SS", "DS"].getD reg "?"

/-- Function `describeOperandType` (used in validation hints). -/
def describeOperandType (op : Operand) : String :=
  if ¬ op.present then "NONE"
  else match op.type with
    | .REGISTER => "REG" ++ Nat.repr op.size ++ "(" ++ getRegName op.reg op.size ++ ")"
    | .MEMORY => "MEM" ++ Nat.repr op.size
    | .IMMEDIATE => "IMM(" ++ intToString op.val ++ ")"
    | .SEGREG => "SREG(" ++ sregName op.reg ++ ")"

/-- The register expression of an R/M code, as `formatOperand` prints it. -/
def rmText (rm : Int) : String :=
  if rm = 0 then "BX+SI" else if rm = 1 then "BX+DI" else if rm = 2 then "BP+SI"
  else if rm = 3 then "BP+DI" else if rm = 4 then "SI" else if rm = 5 then "DI"
  else if rm = 6 then "BP" else if rm = 7 then "BX" else ""

/-- Function `formatOperand` (operand text of the listing). -/
def formatOperand (op : Operand) : String :=
  match op.type with
  | .REGISTER => "REG(" ++ getRegName op.reg op.size ++ ")"
  | .SEGREG => "SREG(" ++ sregName op.reg ++ ")"
  | .IMMEDIATE => "IMM(" ++ intToString op.val ++ ")"
  | .MEMORY =>
    "MEM(" ++ (if op.size = 8 then "BYTE " else "WORD ")
      ++ (if op.segmentPrefix ≠ -1 then "SEG:" else "")
      ++ (if op.memReg = -1 then "[" ++ intToString op.val ++ "]"
          else "[" ++ rmText op.memReg
            ++ (if op.val ≠ 0 then (if op.val > 0 then "+" else "") ++ intToString op.val else "")
            ++ "]")
      ++ ")"

/-- The `matches` lambda of `validateInstruction`. -/
def ruleMatches (op : Operand) (rule : String) : Bool :=
  if rule = "NONE" then !op.present
  else if ¬ op.present then false
  else if rule = "REG" then op.type = .REGISTER
  else if rule = "REG8" then op.type = .REGISTER ∧ op.size = 8
  else if rule = "REG16" then op.type = .REGISTER ∧ op.size = 16
  else if rule = "MEM" then op.type = .MEMORY
  else if rule = "MEM16" then op.type = .MEMORY
  else if rule = "IMM" then op.type = .IMMEDIATE
  else if rule = "LABEL" then op.type = .IMMEDIATE
  else if rule = "AL/AX" then op.type = .REGISTER ∧ op.reg = 0
  else if rule = "1" then op.type = .IMMEDIATE ∧ op.val = 1
  else if rule = "CL" then op.type = .REGISTER ∧ op.reg = 1 ∧ op.size = 8
  else if rule = "DX" then op.type = .REGISTER ∧ op.reg = 2 ∧ op.size = 16
  else if rule = "SEG" ∨ rule = "SREG" then op.type = .SEGREG
  else false

/-- The "Valid forms: ..." part of the validation hint. -/
def validFormsHint (mnemonic : String) : List OperandRule → String
  | [] => ""
  | form :: rest =>
    mnemonic ++ " " ++ form.type1
      ++ (if form.type2 ≠ "NONE" then ", " ++ form.type2 else "")
      ++ (if form.constraints.data ≠ [] then " (" ++ form.constraints ++ ")" else "")
      ++ (if rest ≠ [] then " | " else "")
      ++ validFormsHint mnemonic rest

/-- Function `validateInstruction`: the context (with the error, if any) and the verdict. -/
def validateInstruction (ctx : AssemblerContext) (mnemonic : String) (op1 op2 : Operand)
    (line : Nat) : AssemblerContext × Bool :=
  match isaDB.find? (fun entry => entry.mnemonic = mnemonic) with
  | none => (ctx, true)
  | some entry =>
    if entry.validForms.any (fun form => ruleMatches op1 form.type1 && ruleMatches op2 form.type2)
    then (ctx, true)
    else
      let hint := "Valid forms: " ++ validFormsHint mnemonic entry.validForms
        ++ ". You provided: " ++ describeOperandType op1
        ++ (if op2.present then ", " ++ describeOperandType op2 else "") ++ "."
      (logError ctx line ("Invalid operands for " ++ mnemonic) hint, false)

/-! ## Byte emission -/

/-- Conversion of an `int` to `uint8_t` (also `v & 0xFF`). -/
def toU8 (v : Int) : Nat := (v % 256).toNat

/-- Conversion of an `int` to `uint16_t` (also `v & 0xFFFF`). -/
def toU16 (v : Int) : Nat := (v % 65536).toNat

/-- Function `emitByte`; the argument is converted to `uint8_t`. -/
def emitByte (ctx : AssemblerContext) (byte : Nat) : AssemblerContext :=
  let ctx1 := if ¬ ctx.isPass1 then
      { ctx with machineCode := ctx.machineCode ++ [byte % 256],
                 currentLineBytes := ctx.currentLineBytes ++ [byte % 256] }
    else ctx
  { ctx1 with currentAddress := ctx1.currentAddress + 1 }

/-- Function `emitWord`; the argument is converted to `uint16_t`, low byte first. -/
def emitWord (ctx : AssemblerContext) (word0 : Nat) : AssemblerContext :=
  let word := word0 % 65536
  let ctx1 := if ¬ ctx.isPass1 then
      { ctx with machineCode := ctx.machineCode ++ [word &&& 0xFF, (word >>> 8) &&& 0xFF],
                 currentLineBytes := ctx.currentLineBytes ++ [word &&& 0xFF, (word >>> 8) &&& 0xFF] }
    else ctx
  { ctx1 with currentAddress := ctx1.currentAddress + 2 }

/-- The `mod` field `emitModRM` selects for a register-based memory operand. -/
def modOf (mem : Operand) : Nat :=
  let mod : Nat :=
    if mem.involvesSymbol then 2
    else if mem.val = 0 ∧ mem.memReg ≠ 6 then 0
    else if mem.val ≥ -128 ∧ mem.val ≤ 127 then 1
    else 2
  if mem.memReg = 6 ∧ mod = 0 then 1 else mod

/-- Function `emitModRM`: ModR/M byte and displacement of a memory operand. -/
def emitModRM (ctx : AssemblerContext) (regField : Nat) (mem : Operand) : AssemblerContext :=
  if mem.memReg = -1 then
    emitWord (emitByte ctx (0x06 ||| (regField <<< 3))) (toU16 mem.val)
  else
    let mod := modOf mem
    let ctx1 := emitByte ctx ((mod <<< 6) ||| (regField <<< 3) ||| mem.memReg.toNat)
    if mod = 1 then emitByte ctx1 (toU8 mem.val)
    else if mod = 2 then emitWord ctx1 (toU16 mem.val)
    else ctx1

/-! ## assembleLine: the instruction encoders

Each encoder returns the new context and a flag that is `true` when the C++ code
executes `return` inside the branch (skipping drift detection and the listing entry). -/

def truncWarn8 (ctx : AssemblerContext) (line : Nat) (val : Int) : AssemblerContext :=
  if ¬ ctx.isPass1 ∧ (val < -128 ∨ val > 255) then
    logWarning ctx line
      ("Immediate value " ++ intToString val ++ " truncated to 8-bit (result: "
        ++ Nat.repr (toU8 val) ++ ")")
      "Value exceeds 8-bit range (0-255 unsigned, -128 to 127 signed). The low 8 bits will be used."
  else ctx

def truncWarn16 (ctx : AssemblerContext) (line : Nat) (val : Int) : AssemblerContext :=
  if ¬ ctx.isPass1 ∧ (val < -32768 ∨ val > 65535) then
    logWarning ctx line
      ("Immediate value " ++ intToString val ++ " truncated to 16-bit (result: "
        ++ Nat.repr (toU16 val) ++ ")")
      "Value exceeds 16-bit range (0-65535 unsigned, -32768 to 32767 signed)."
  else ctx

def noSizeWarn (ctx : AssemblerContext) (line : Nat) (op1 : Operand) (ex : String) :
    AssemblerContext :=
  if ¬ op1.hasExplicitSize ∧ ¬ ctx.isPass1 then
    logWarning ctx line "No size prefix on memory-immediate operation, defaulting to WORD"
      ("Add BYTE or WORD before the memory operand to be explicit. Example: " ++ ex
        ++ " BYTE [BX], 5 or " ++ ex ++ " WORD [BX], 5")
  else ctx

/-- Encoder of `MOV`. -/
def encMOV (ctx : AssemblerContext) (op1 op2 : Operand) (line : Nat) : AssemblerContext × Bool :=
  if op1.type = .REGISTER ∧ op2.type = .REGISTER then
    if op1.size ≠ op2.size then
      (logError ctx line "Size mismatch between operands"
        ("Op1 is " ++ Nat.repr op1.size ++ "-bit (" ++ getRegName op1.reg op1.size
          ++ "), Op2 is " ++ Nat.repr op2.size ++ "-bit (" ++ getRegName op2.reg op2.size
          ++ "). Both operands must be the same width."), true)
    else if op1.size = 8 then
      (emitByte (emitByte ctx 0x88) (0xC0 ||| (op2.reg <<< 3) ||| op1.reg), false)
    else (emitByte (emitByte ctx 0x89) (0xC0 ||| (op2.reg <<< 3) ||| op1.reg), false)
  else if op1.type = .REGISTER ∧ op2.type = .IMMEDIATE then
    if op1.size = 8 then
      (emitByte (emitByte (truncWarn8 ctx line op2.val) (0xB0 + op1.reg)) (toU8 op2.val), false)
    else
      (emitWord (emitByte (truncWarn16 ctx line op2.val) (0xB8 + op1.reg)) (toU16 op2.val), false)
  else if op1.type = .REGISTER ∧ op2.type = .MEMORY then
    (emitModRM (emitByte ctx (if op1.size = 8 then 0x8A else 0x8B)) op1.reg op2, false)
  else if op1.type = .MEMORY ∧ op2.type = .REGISTER then
    (emitModRM (emitByte ctx (if op2.size = 8 then 0x88 else 0x89)) op2.reg op1, false)
  else if op1.type = .MEMORY ∧ op2.type = .IMMEDIATE then
    let opSize := op1.size
    let ctx := noSizeWarn ctx line op1 "MOV"
    let ctx := emitByte ctx (if opSize = 8 then 0xC6 else 0xC7)
    let ctx := emitModRM ctx 0 op1
    (if opSize = 8 then emitByte ctx (toU8 op2.val) else emitWord ctx (toU16 op2.val), false)
  else if op1.type = .REGISTER ∧ op2.type = .SEGREG then
    (emitByte (emitByte ctx 0x8C) (0xC0 ||| (op2.reg <<< 3) ||| op1.reg), false)
  else if op1.type = .SEGREG ∧ op2.type = .REGISTER then
    (emitByte (emitByte ctx 0x8E) (0xC0 ||| (op1.reg <<< 3) ||| op2.reg), false)
  else (ctx, false)

/-- Opcode base of the ALU `reg, reg` and `mem, reg` forms. -/
def aluBase (mnemonic : String) : Nat :=
  if mnemonic = "ADD" then 0x00 else if mnemonic = "OR" then 0x08
  else if mnemonic = "ADC" then 0x10 else if mnemonic = "SBB" then 0x18
  else if mnemonic = "AND" then 0x20 else if mnemonic = "SUB" then 0x28
  else if mnemonic = "XOR" then 0x30 else if mnemonic = "CMP" then 0x38
  else if mnemonic = "TEST" then 0x84 else 0

/-- Opcode base of the ALU `reg, mem` form. -/
def aluBaseRegMem (mnemonic : String) : Nat :=
  if mnemonic = "ADD" then 0x02 else if mnemonic = "OR" then 0x0A
  else if mnemonic = "ADC" then 0x12 else if mnemonic = "SBB" then 0x1A
  else if mnemonic = "AND" then 0x22 else if mnemonic = "SUB" then 0x2A
  else if mnemonic = "XOR" then 0x32 else if mnemonic = "CMP" then 0x3A
  else if mnemonic = "TEST" then 0x84 else 0

/-- ModR/M extension of the ALU immediate group 80/81. -/
def aluExt (mnemonic : String) : Nat :=
  if mnemonic = "ADD" then 0 else if mnemonic = "OR" then 1
  else if mnemonic = "ADC" then 2 else if mnemonic = "SBB" then 3
  else if mnemonic = "AND" then 4 else if mnemonic = "SUB" then 5
  else if mnemonic = "XOR" then 6 else if mnemonic = "CMP" then 7 else 0

/-- Encoder of ADD, ADC, SUB, SBB, CMP, AND, OR, XOR, TEST. -/
def encALU (ctx : AssemblerContext) (mnemonic : String) (op1 op2 : Operand) (line : Nat) :
    AssemblerContext × Bool :=
  if op1.type = .REGISTER ∧ op2.type = .REGISTER then
    let base := aluBase mnemonic
    let base := if op1.size = 16 then base + 1 else base
    (emitByte (emitByte ctx base) (0xC0 ||| (op2.reg <<< 3) ||| op1.reg), false)
  else if op1.type = .REGISTER ∧ op2.type = .IMMEDIATE then
    if mnemonic = "TEST" then
      if op1.size = 8 then
        (emitByte (emitByte (emitByte ctx 0xF6) (0xC0 ||| (0 <<< 3) ||| op1.reg)) (toU8 op2.val),
          true)
      else
        (emitWord (emitByte (emitByte ctx 0xF7) (0xC0 ||| (0 <<< 3) ||| op1.reg)) (toU16 op2.val),
          true)
    else
      let ext := aluExt mnemonic
      if op1.size = 8 then
        (emitByte (emitByte (emitByte (truncWarn8 ctx line op2.val) 0x80)
          (0xC0 ||| (ext <<< 3) ||| op1.reg)) (toU8 op2.val), false)
      else
        (emitWord (emitByte (emitByte (truncWarn16 ctx line op2.val) 0x81)
          (0xC0 ||| (ext <<< 3) ||| op1.reg)) (toU16 op2.val), false)
  else if op1.type = .REGISTER ∧ op2.type = .MEMORY then
    let base := aluBaseRegMem mnemonic
    let base := if op1.size = 16 ∨ (mnemonic = "TEST" ∧ op1.size = 16) then base + 1 else base
    (emitModRM (emitByte ctx base) op1.reg op2, false)
  else if op1.type = .MEMORY ∧ op2.type = .REGISTER then
    let base := aluBase mnemonic
    let base := if op2.size = 16 ∨ (mnemonic = "TEST" ∧ op2.size = 16) then base + 1 else base
    (emitModRM (emitByte ctx base) op2.reg op1, false)
  else if op1.type = .MEMORY ∧ op2.type = .IMMEDIATE then
    let opSize := if op1.size ≠ 0 then op1.size else 16
    let ctx := noSizeWarn ctx line op1 mnemonic
    if mnemonic = "TEST" then
      let ctx := emitByte ctx (if opSize = 8 then 0xF6 else 0xF7)
      let ctx := emitModRM ctx 0 op1
      (if opSize = 8 then emitByte ctx (toU8 op2.val) else emitWord ctx (toU16 op2.val), false)
    else
      let ext := aluExt mnemonic
      let ctx := emitByte ctx (if opSize = 8 then 0x80 else 0x81)
      let ctx := emitModRM ctx ext op1
      (if opSize = 8 then emitByte ctx (toU8 op2.val) else emitWord ctx (toU16 op2.val), false)
  else (ctx, false)

/-- Encoder of INC, DEC, NOT, NEG. -/
def encUnary (ctx : AssemblerContext) (mnemonic : String) (op1 : Operand) :
    AssemblerContext × Bool :=
  let ext : Nat :=
    if mnemonic = "INC" then 0 else if mnemonic = "DEC" then 1
    else if mnemonic = "NOT" then 2 else if mnemonic = "NEG" then 3 else 0
  if op1.type = .REGISTER ∧ (mnemonic = "INC" ∨ mnemonic = "DEC") ∧ op1.size = 16 then
    if mnemonic = "INC" then (emitByte ctx (0x40 + op1.reg), true)
    else (emitByte ctx (0x48 + op1.reg), true)
  else
    let ctx :=
      if mnemonic = "INC" ∨ mnemonic = "DEC" then emitByte ctx (if op1.size = 8 then 0xFE else 0xFF)
      else emitByte ctx (if op1.size = 8 then 0xF6 else 0xF7)
    if op1.type = .REGISTER then (emitByte ctx (0xC0 ||| (ext <<< 3) ||| op1.reg), false)
    else if op1.type = .MEMORY then (emitModRM ctx ext op1, false)
    else (ctx, false)

/-- Encoder of MUL, IMUL, DIV, IDIV. -/
def encMulDiv (ctx : AssemblerContext) (mnemonic : String) (op1 : Operand) :
    AssemblerContext × Bool :=
  let ext : Nat :=
    if mnemonic = "MUL" then 4 else if mnemonic = "IMUL" then 5
    else if mnemonic = "DIV" then 6 else if mnemonic = "IDIV" then 7 else 0
  let ctx := emitByte ctx (if op1.size = 8 then 0xF6 else 0xF7)
  if op1.type = .REGISTER then (emitByte ctx ((3 <<< 6) ||| (ext <<< 3) ||| op1.reg), false)
  else if op1.type = .MEMORY then (emitModRM ctx ext op1, false)
  else (ctx, false)

/-- ModR/M extension of the shift/rotate group. -/
def shiftExt (mnemonic : String) : Nat :=
  if mnemonic = "ROL" then 0 else if mnemonic = "ROR" then 1
  else if mnemonic = "RCL" then 2 else if mnemonic = "RCR" then 3
  else if mnemonic = "SHL" ∨ mnemonic = "SAL" then 4
  else if mnemonic = "SHR" then 5 else if mnemonic = "SAR" then 7 else 0

/-- Encoder of SHL, SHR, SAR, SAL, ROL, ROR, RCL, RCR. -/
def encShift (ctx : AssemblerContext) (mnemonic : String) (op1 op2 : Operand) (line : Nat) :
    AssemblerContext × Bool :=
  if op1.type ≠ .REGISTER ∧ op1.type ≠ .MEMORY then (ctx, true)
  else
    let ext := shiftExt mnemonic
    let isMem : Bool := op1.type = .MEMORY
    let isCL : Bool := op2.type = .REGISTER ∧ op2.reg = 1 ∧ op2.size = 8
    let ctx :=
      if isMem ∧ ¬ op1.hasExplicitSize ∧ ¬ ctx.isPass1 then
        logWarning ctx line "No size prefix on memory shift/rotate, defaulting to WORD"
          ("Add BYTE or WORD before the memory operand to be explicit. Example: " ++ mnemonic
            ++ " BYTE [BX], 1 or " ++ mnemonic ++ " WORD [BX], 1")
      else ctx
    let opSize := if isMem then (if op1.size ≠ 0 then op1.size else 16) else op1.size
    let emitModRMByte := fun (c : AssemblerContext) =>
      if isMem then emitModRM c ext op1 else emitByte c (0xC0 ||| (ext <<< 3) ||| op1.reg)
    if op2.type = .IMMEDIATE ∧ op2.val = 1 then
      (emitModRMByte (emitByte ctx (if opSize = 8 then 0xD0 else 0xD1)), false)
    else if op2.type = .IMMEDIATE then
      let ctx :=
        if ¬ ctx.isPass1 then
          let op1Name := if isMem then "memory operand" else getRegName op1.reg op1.size
          logWarning ctx line
            (mnemonic ++ " with immediate count >1 uses 80186+ encoding (0xC0/0xC1)")
            ("For strict 8086 compatibility, load the count into CL first: MOV CL, "
              ++ intToString op2.val ++ " / " ++ mnemonic ++ " " ++ op1Name
              ++ ", CL. The immediate form (" ++ mnemonic
              ++ " dest, N where N>1) generates an 80186-only opcode.")
        else ctx
      let ctx := emitModRMByte (emitByte ctx (if opSize = 8 then 0xC0 else 0xC1))
      (emitByte ctx (toU8 op2.val), false)
    else if isCL then
      (emitModRMByte (emitByte ctx (if opSize = 8 then 0xD2 else 0xD3)), false)
    else (ctx, false)

/-- Encoder of `IN`. -/
def encIN (ctx : AssemblerContext) (op1 op2 : Operand) (line : Nat) : AssemblerContext × Bool :=
  if op1.type = .REGISTER ∧ op1.reg = 0 then
    if op2.type = .IMMEDIATE then
      (emitByte (emitByte ctx (if op1.size = 8 then 0xE4 else 0xE5)) (toU8 op2.val), false)
    else if op2.type = .REGISTER ∧ op2.reg = 2 ∧ op2.size = 16 then
      (emitByte ctx (if op1.size = 8 then 0xEC else 0xED), false)
    else
      (logError ctx line "Invalid IN operands"
        "IN requires: IN AL, imm8 | IN AX, imm8 | IN AL, DX | IN AX, DX", false)
  else
    (logError ctx line "IN dest must be AL/AX"
      "The destination of IN must be AL (byte) or AX (word). Example: IN AL, 60h", false)

/-- Encoder of `OUT`. -/
def encOUT (ctx : AssemblerContext) (op1 op2 : Operand) (line : Nat) : AssemblerContext × Bool :=
  if op2.type = .REGISTER ∧ op2.reg = 0 then
    if op1.type = .IMMEDIATE then
      (emitByte (emitByte ctx (if op2.size = 8 then 0xE6 else 0xE7)) (toU8 op1.val), false)
    else if op1.type = .REGISTER ∧ op1.reg = 2 ∧ op1.size = 16 then
      (emitByte ctx (if op2.size = 8 then 0xEE else 0xEF), false)
    else
      (logError ctx line "Invalid OUT operands"
        "OUT requires: OUT imm8, AL | OUT imm8, AX | OUT DX, AL | OUT DX, AX", false)
  else
    (logError ctx line "OUT src must be AL/AX"
      "The source of OUT must be AL (byte) or AX (word). Example: OUT 60h, AL", false)

/-- Encoder of `LEA`. -/
def encLEA (ctx : AssemblerContext) (op1 op2 : Operand) (line : Nat) : AssemblerContext × Bool :=
  if op1.type = .REGISTER ∧ op2.type = .MEMORY then
    if op1.size ≠ 16 then
      (logError ctx line "LEA requires 16-bit register"
        "LEA only works with 16-bit registers (AX, BX, CX, DX, SI, DI, BP, SP). Use a 16-bit register as the destination.",
        true)
    else (emitModRM (emitByte ctx 0x8D) op1.reg op2, false)
  else
    (logError ctx line "Invalid operands for LEA"
      "LEA requires a 16-bit register and a memory operand. Example: LEA DI, [BX+SI+10h]", false)

/-- Encoder of near `JMP` (E9) and near `CALL` (E8). -/
def encNear (ctx : AssemblerContext) (opcode : Nat) (op1 : Operand) : AssemblerContext × Bool :=
  let targetAddr : Int := if op1.type = .IMMEDIATE then op1.val else 0
  let offset := targetAddr - (ctx.currentAddress + 3)
  (emitWord (emitByte ctx opcode) (toU16 offset), false)

/-- The table `jccOpcodes`. -/
def jccOpcodes : List (String × Nat) :=
  [("JO", 0x70), ("JNO", 0x71),
   ("JB", 0x72), ("JNAE", 0x72), ("JC", 0x72),
   ("JNB", 0x73), ("JAE", 0x73), ("JNC", 0x73),
   ("JZ", 0x74), ("JE", 0x74),
   ("JNZ", 0x75), ("JNE", 0x75),
   ("JBE", 0x76), ("JNA", 0x76),
   ("JA", 0x77), ("JNBE", 0x77),
   ("JS", 0x78), ("JNS", 0x79),
   ("JP", 0x7A), ("JPE", 0x7A),
   ("JNP", 0x7B), ("JPO", 0x7B),
   ("JL", 0x7C), ("JNGE", 0x7C),
   ("JGE", 0x7D), ("JNL", 0x7D),
   ("JLE", 0x7E), ("JNG", 0x7E),
   ("JG", 0x7F), ("JNLE", 0x7F)]

/-- The table `inversions` used for the out-of-range hint. -/
def inversions : List (String × String) :=
  [("JZ", "JNZ"), ("JE", "JNE"), ("JNZ", "JZ"), ("JNE", "JE"),
   ("JL", "JGE"), ("JNGE", "JGE"), ("JG", "JLE"), ("JNLE", "JLE"),
   ("JLE", "JG"), ("JNG", "JG"), ("JGE", "JL"), ("JNL", "JL"),
   ("JB", "JNB"), ("JNAE", "JNB"), ("JC", "JNC"), ("JA", "JBE"),
   ("JNBE", "JBE"), ("JBE", "JA"), ("JNA", "JA"), ("JAE", "JB"),
   ("JNB", "JB"), ("JNC", "JC"), ("JS", "JNS"), ("JNS", "JS"),
   ("JO", "JNO"), ("JNO", "JO"), ("JP", "JNP"), ("JPE", "JNP"),
   ("JNP", "JP"), ("JPO", "JP")]

/-- Hint of the "Conditional jump out of range" error. -/
def jccRangeHint (mnemonic : String) (offset : Int) : String :=
  "Displacement is " ++ intToString offset ++ " bytes (range: -128 to +127). "
    ++ (match inversions.lookup mnemonic with
        | some inv => "Restructure as: " ++ inv ++ " .skip / JMP target / .skip:"
        | none => "Use an inverted condition with a near JMP to reach far targets.")

/-- Encoder of the conditional jumps. -/
def encJcc (ctx : AssemblerContext) (mnemonic : String) (op1 : Operand) (line : Nat) :
    AssemblerContext × Bool :=
  match jccOpcodes.lookup mnemonic with
  | none => (ctx, false)
  | some opcode =>
    let targetAddr : Int := if op1.type = .IMMEDIATE then op1.val else 0
    let offset := targetAddr - (ctx.currentAddress + 2)
    let ctx :=
      if ¬ ctx.isPass1 ∧ (offset < -128 ∨ offset > 127) then
        logError ctx line ("Conditional jump out of range (" ++ intToString offset ++ ")")
          (jccRangeHint mnemonic offset)
      else ctx
    (emitByte (emitByte ctx opcode) (toU8 offset), false)

/-- Encoder of LOOP, LOOPE/LOOPZ, LOOPNE/LOOPNZ, JCXZ. -/
def encLoop (ctx : AssemblerContext) (mnemonic : String) (op1 : Operand) (line : Nat) :
    AssemblerContext × Bool :=
  let targetAddr : Int := if op1.type = .IMMEDIATE then op1.val else 0
  let offset := targetAddr - (ctx.currentAddress + 2)
  let ctx :=
    if ¬ ctx.isPass1 ∧ (offset < -128 ∨ offset > 127) then
      logError ctx line ("Loop jump out of range (" ++ intToString offset ++ ")")
        ("Displacement is " ++ intToString offset
          ++ " bytes (range: -128 to +127). Replace LOOP with an explicit decrement and near jump: DEC CX / JNZ target. For LOOPE/LOOPNE, add the additional flag check before the JNZ.")
    else ctx
  let ctx :=
    if mnemonic = "LOOP" then emitByte ctx 0xE2
    else if mnemonic = "LOOPE" ∨ mnemonic = "LOOPZ" then emitByte ctx 0xE1
    else if mnemonic = "LOOPNE" ∨ mnemonic = "LOOPNZ" then emitByte ctx 0xE0
    else if mnemonic = "JCXZ" then emitByte ctx 0xE3
    else ctx
  (emitByte ctx (toU8 offset), false)

/-- Encoder of PUSH and POP. -/
def encStack (ctx : AssemblerContext) (mnemonic : String) (op1 : Operand) (line : Nat) :
    AssemblerContext × Bool :=
  if op1.type = .REGISTER then
    if op1.size ≠ 16 then
      let regName := getRegName op1.reg op1.size
      let hint :=
        if op1.reg < 4 then
          "'" ++ regName ++ "' is 8-bit. PUSH/POP require 16-bit registers. Use "
            ++ ["AX", "CX", "DX", "BX"].getD op1.reg "" ++ " instead."
        else
          "'" ++ regName
            ++ "' is 8-bit. PUSH/POP require 16-bit registers (AX, BX, CX, DX, SI, DI, BP, SP)."
      (logError ctx line "Stack ops require 16-bit register" hint, true)
    else if mnemonic = "PUSH" then (emitByte ctx (0x50 + op1.reg), false)
    else (emitByte ctx (0x58 + op1.reg), false)
  else if op1.type = .MEMORY then
    let ctx := emitByte ctx (if mnemonic = "PUSH" then 0xFF else 0x8F)
    let ext := if mnemonic = "PUSH" then 6 else 0
    (emitModRM ctx ext op1, false)
  else if op1.type = .SEGREG then
    if op1.reg < 4 then
      if mnemonic = "PUSH" then (emitByte ctx ([0x06, 0x0E, 0x16, 0x1E].getD op1.reg 0), false)
      else if op1.reg = 1 then
        (logError ctx line "POP CS is not a valid instruction"
          "POP CS is architecturally invalid on 8086. To change CS, use a far JMP or far CALL.",
          true)
      else (emitByte ctx ([0x07, 0x0F, 0x17, 0x1F].getD op1.reg 0), false)
    else (ctx, false)
  else
    (logError ctx line "Invalid stack operand"
      "PUSH/POP accept: 16-bit register (AX, BX, etc.), memory (WORD [addr]), or segment register (DS, ES, SS). Immediates and 8-bit registers are not valid.",
      false)

/-- Encoder of `XCHG`. -/
def encXCHG (ctx : AssemblerContext) (op1 op2 : Operand) : AssemblerContext × Bool :=
  if op1.type = .REGISTER ∧ op2.type = .REGISTER ∧ op1.size = op2.size then
    if op1.size = 16 ∧ op1.reg = 0 then (emitByte ctx (0x90 + op2.reg), false)
    else if op1.size = 16 ∧ op2.reg = 0 then (emitByte ctx (0x90 + op1.reg), false)
    else
      let ctx := emitByte ctx (if op1.size = 8 then 0x86 else 0x87)
      (emitByte ctx ((3 <<< 6) ||| (op2.reg <<< 3) ||| op1.reg), false)
  else if op1.type = .REGISTER ∧ op2.type = .MEMORY then
    (emitModRM (emitByte ctx (if op1.size = 8 then 0x86 else 0x87)) op1.reg op2, false)
  else if op1.type = .MEMORY ∧ op2.type = .REGISTER then
    (emitModRM (emitByte ctx (if op2.size = 8 then 0x86 else 0x87)) op2.reg op1, false)
  else (ctx, false)

/-- Opcodes of the one-byte instructions without operands, in the order of the source. -/
def simpleOpcodes : List (String × Nat) :=
  [("MOVSB", 0xA4), ("MOVSW", 0xA5), ("CMPSB", 0xA6), ("CMPSW", 0xA7), ("STOSB", 0xAA),
   ("STOSW", 0xAB), ("LODSB", 0xAC), ("LODSW", 0xAD), ("SCASB", 0xAE), ("SCASW", 0xAF),
   ("RET", 0xC3),
   ("CLD", 0xFC), ("STD", 0xFD), ("CLI", 0xFA), ("STI", 0xFB), ("CMC", 0xF5), ("CLC", 0xF8),
   ("STC", 0xF9),
   ("NOP", 0x90), ("CBW", 0x98), ("CWD", 0x99), ("LAHF", 0x9F), ("SAHF", 0x9E),
   ("PUSHF", 0x9C), ("POPF", 0x9D), ("XLAT", 0xD7), ("XLATB", 0xD7), ("HLT", 0xF4),
   ("PUSHA", 0x60), ("POPA", 0x61)]

def isALU (m : String) : Bool :=
  m = "ADD" ∨ m = "ADC" ∨ m = "SUB" ∨ m = "SBB" ∨ m = "CMP" ∨ m = "AND" ∨ m = "OR" ∨ m = "XOR"
    ∨ m = "TEST"

def isShift (m : String) : Bool :=
  m = "SHL" ∨ m = "SHR" ∨ m = "SAR" ∨ m = "SAL" ∨ m = "ROL" ∨ m = "ROR" ∨ m = "RCL" ∨ m = "RCR"

def isLoop (m : String) : Bool :=
  m = "LOOP" ∨ m = "LOOPE" ∨ m = "LOOPZ" ∨ m = "LOOPNE" ∨ m = "LOOPNZ" ∨ m = "JCXZ"

/-- The mnemonic dispatch of `assembleLine` (from `// 1. MOV` to `// 12. XCHG`). -/
def encodeInstruction (ctx : AssemblerContext) (mnemonic : String) (op1 op2 : Operand)
    (line : Nat) : AssemblerContext × Bool :=
  if mnemonic = "MOV" then encMOV ctx op1 op2 line
  else if isALU mnemonic then encALU ctx mnemonic op1 op2 line
  else if mnemonic = "INC" ∨ mnemonic = "DEC" ∨ mnemonic = "NOT" ∨ mnemonic = "NEG" then
    encUnary ctx mnemonic op1
  else if mnemonic = "MUL" ∨ mnemonic = "IMUL" ∨ mnemonic = "DIV" ∨ mnemonic = "IDIV" then
    encMulDiv ctx mnemonic op1
  else if mnemonic = "INT" then
    if op1.type = .IMMEDIATE then (emitByte (emitByte ctx 0xCD) (toU8 op1.val), false)
    else (ctx, false)
  else if isShift mnemonic then encShift ctx mnemonic op1 op2 line
  else if mnemonic = "IN" then encIN ctx op1 op2 line
  else if mnemonic = "OUT" then encOUT ctx op1 op2 line
  else if mnemonic = "LEA" then encLEA ctx op1 op2 line
  else if mnemonic = "JMP" then encNear ctx 0xE9 op1
  else if mnemonic.data.length ≥ 2 ∧ firstChar mnemonic = 'J' ∧ mnemonic ≠ "JMP"
      ∧ mnemonic ≠ "JCXZ" then
    encJcc ctx mnemonic op1 line
  else if isLoop mnemonic then encLoop ctx mnemonic op1 line
  else if mnemonic = "PUSH" ∨ mnemonic = "POP" then encStack ctx mnemonic op1 line
  else if mnemonic = "CALL" then encNear ctx 0xE8 op1
  else if mnemonic = "XCHG" then encXCHG ctx op1 op2
  else
    match simpleOpcodes.lookup mnemonic with
    | some opcode => (emitByte ctx opcode, false)
    | none => (ctx, false)

/-! ## assembleLine -/

/-- The `DB` operand loop. -/
def dbLoop (tokens : List Token) : Nat → AssemblerContext → Nat → AssemblerContext
  | 0, ctx, _ => ctx
  | n + 1, ctx, idx =>
    match tokens.get? idx with
    | none => ctx
    | some t =>
      let isExpr : Bool :=
        if t.type = .String then
          match tokens.get? (idx + 1) with
          | some t1 => t1.value = "+" ∨ t1.value = "-" ∨ t1.value = "*" ∨ t1.value = "/"
          | none => false
        else true
      let (ctx1, idx1) : AssemblerContext × Nat :=
        if ¬ isExpr ∧ t.type = .String then
          (t.value.data.foldl (fun c ch => emitByte c ch.toNat) ctx, idx + 1)
        else
          let (c, i, val) := parseExpr ctx tokens idx 0
          (emitByte c (toU8 val), i)
      match tokens.get? idx1 with
      | none => ctx1
      | some tc =>
        if tc.type = .Comma then dbLoop tokens n ctx1 (idx1 + 1)
        else
          dbLoop tokens n
            (if ¬ ctx1.isPass1 then
              logError ctx1 tc.line "Expected comma in DB"
                "DB values must be comma-separated. Example: DB 'Hello', 0Dh, 0Ah, '$'"
             else ctx1) (idx1 + 1)

/-- The `DW` (`wide = false`) and `DD` (`wide = true`) operand loops. -/
def dwLoop (tokens : List Token) (wide : Bool) : Nat → AssemblerContext → Nat → AssemblerContext
  | 0, ctx, _ => ctx
  | n + 1, ctx, idx =>
    match tokens.get? idx with
    | none => ctx
    | some _ =>
      let (c, idx1, val) := parseExpr ctx tokens idx 0
      let ctx1 :=
        if wide then emitWord (emitWord c (toU16 val)) (toU16 (val / 65536))
        else emitWord c (toU16 val)
      match tokens.get? idx1 with
      | none => ctx1
      | some tc =>
        if tc.type = .Comma then dwLoop tokens wide n ctx1 (idx1 + 1)
        else
          dwLoop tokens wide n
            (if ¬ ctx1.isPass1 then
              (if wide then
                logError ctx1 tc.line "Expected comma in DD"
                  "DD values must be comma-separated. Example: DD 12345678h"
               else
                logError ctx1 tc.line "Expected comma in DW"
                  "DW values must be comma-separated. Example: DW 1234h, 5678h")
             else ctx1) (idx1 + 1)

/-- The loop `for (k = 0; k < count; ++k) emitByte(ctx, 0)` of RESB/RESW. -/
def emitZeros : Nat → AssemblerContext → AssemblerContext
  | 0, ctx => ctx
  | n + 1, ctx => emitZeros n (emitByte ctx 0)

/-- The name of the last `LabelDef` among the first `n` tokens (PROC handling). -/
def procLabel (tokens : List Token) (n : Nat) : String :=
  (tokens.take n).foldl (fun acc t => if t.type = .LabelDef then
      (if t.value.data ≠ [] ∧ lastChar t.value = ':' then popBack t.value else t.value)
    else acc) ""

/-- The instruction part of `assembleLine`, from `// --- Instructions ---` to the end. -/
def assembleInstruction (ctx : AssemblerContext) (tokens : List Token) (idx : Nat)
    (mnemonic : String) (startAddr : Int) (lineNum : Nat) (sourceLine : String) :
    AssemblerContext :=
  let line0 := tokLine tokens 0
  let (ctx, p, op1) := parseOperand ctx tokens idx
  let (ctx, p, op2) : AssemblerContext × Nat × Operand :=
    match tokens.get? p with
    | some t => if t.value = "," then parseOperand ctx tokens (p + 1) else (ctx, p, Operand.empty)
    | none => (ctx, p, Operand.empty)
  let ctx :=
    match tokens.get? p with
    | some t => logError ctx t.line "Extra tokens at end of line"
        "Unexpected content after instruction. Check for missing commas, stray characters, or a comment that doesn't start with ';'."
    | none => ctx
  let (ctx, ok) := validateInstruction ctx mnemonic op1 op2 line0
  if ¬ ok then ctx
  else
    let decodedStr := mnemonic
      ++ (if op1.present then
            " " ++ formatOperand op1 ++ (if op2.present then ", " ++ formatOperand op2 else "")
          else "")
    let ctx := if op1.segmentPrefix ≠ -1 then emitByte ctx op1.segmentPrefix.toNat else ctx
    let ctx := if op2.segmentPrefix ≠ -1 then emitByte ctx op2.segmentPrefix.toNat else ctx
    let (ctx, returned) := encodeInstruction ctx mnemonic op1 op2 line0
    if returned then ctx
    else
      let ctx :=
        if ¬ ctx.isPass1 ∧ ctx.currentLineBytes = [] ∧ ¬ ctx.globalError then
          logError ctx line0
            ("Internal: mnemonic '" ++ mnemonic
              ++ "' passed ISA validation but has no code path in assembleLine")
            "This is an assembler bug. The instruction is listed in the ISA database but no encoder handles it. Please report this."
        else ctx
      if ¬ ctx.isPass1 then
        { ctx with listing := ctx.listing ++
            [{ address := startAddr, sourceLine := lineNum, bytes := ctx.currentLineBytes,
               sourceCode := sourceLine, size := ctx.currentLineBytes.length,
               decoded := decodedStr }] }
      else ctx

/-- Function `assembleLine`. -/
def assembleLine (ctx : AssemblerContext) (tokens : List Token) (lineNum : Nat)
    (sourceLine : String) : AssemblerContext :=
  match tokens with
  | [] => ctx
  | tok0 :: _ =>
    let startAddr := ctx.currentAddress
    let ctx := { ctx with currentLineBytes := [] }
    -- 0. EQU
    if tokens.length ≥ 3 ∧ tok0.type = .Identifier
        ∧ toUpper ((tokens.get? 1).map Token.value |>.getD "") = "EQU" then
      let label := toUpper tok0.value
      let (ctx, _, val) := parseExpr ctx tokens 2 0
      { ctx with symbolTable := symInsert ctx.symbolTable label ⟨val, true, tok0.line⟩ }
    else
      -- 1. label
      let (ctx, idx) : AssemblerContext × Nat :=
        if tok0.type = .LabelDef then
          let label := tok0.value
          let label := if label.data ≠ [] ∧ lastChar label = ':' then popBack label else label
          let (ctx, label) : AssemblerContext × String :=
            if firstChar label = '.' then
              if ctx.currentProcedureName.data ≠ [] then (ctx, ctx.currentProcedureName ++ label)
              else
                (logWarning ctx tok0.line ("Local label " ++ label ++ " outside procedure")
                  "Local labels (starting with '.') must be inside a PROC/ENDP block. Either wrap your code in a PROC or use a global label (no '.' prefix).",
                 label)
            else (ctx, label)
          let label := toUpper label
          let ctx :=
            if ctx.isPass1 then
              let ctx :=
                match symLookup ctx.symbolTable label with
                | some info =>
                  if ¬ info.isConstant then
                    logWarning ctx tok0.line
                      ("Label '" ++ label ++ "' redefined (previous definition at line "
                        ++ Nat.repr info.definedLine ++ ")")
                      "Each label should be defined once. If you need the same name in different scopes, use local labels with '.' prefix inside PROC/ENDP blocks."
                  else ctx
                | none => ctx
              { ctx with symbolTable :=
                  symInsert ctx.symbolTable label ⟨ctx.currentAddress, false, tok0.line⟩ }
            else ctx
          (ctx, 1)
        else (ctx, 0)
      match tokens.get? idx with
      | none => ctx
      | some tm =>
        let mnemonic := toUpper tm.value
        let idx := idx + 1
        -- 0. prefixes
        let (ctx, mnemonic, idx) : AssemblerContext × String × Nat :=
          if mnemonic = "REP" ∨ mnemonic = "REPE" ∨ mnemonic = "REPZ" then
            match tokens.get? idx with
            | some t => (emitByte ctx 0xF3, toUpper t.value, idx + 1)
            | none => (emitByte ctx 0xF3, mnemonic, idx)
          else if mnemonic = "REPNE" ∨ mnemonic = "REPNZ" then
            match tokens.get? idx with
            | some t => (emitByte ctx 0xF2, toUpper t.value, idx + 1)
            | none => (emitByte ctx 0xF2, mnemonic, idx)
          else (ctx, mnemonic, idx)
        -- 2. directives
        if mnemonic = "ORG" then
          let ctx :=
            if ctx.currentAddress > 0 ∧ ¬ ctx.isPass1 then
              logWarning ctx tok0.line "ORG directive after code has been emitted"
                "ORG sets the address counter but does not move existing code. Place ORG at the start of your source, before any instructions or data."
            else ctx
          let args := (tokens.drop idx).filter (fun t => t.type ≠ .Comma)
          match args with
          | [a] =>
            if a.type = .Number then
              let (v, numOk, numReason) := parseNumber a.value
              let ctx := { ctx with currentAddress := v }
              if ¬ numOk then
                logError ctx a.line ("Invalid numeric literal in ORG: " ++ a.value)
                  (if numReason.data = [] then
                    "ORG requires a numeric value. Common usage: ORG 100h (for .COM files)."
                   else numReason)
              else ctx
            else ctx
          | _ => ctx
        else if mnemonic = "DB" then dbLoop tokens tokens.length ctx idx
        else if mnemonic = "DW" then dwLoop tokens false tokens.length ctx idx
        else if mnemonic = "DD" then dwLoop tokens true tokens.length ctx idx
        else if mnemonic = "RESB" ∨ mnemonic = "RESW" then
          match tokens.get? idx with
          | some _ =>
            let (ctx, _, count) := parseExpr ctx tokens idx 0
            let count := if mnemonic = "RESW" then count * 2 else count
            emitZeros count.toNat ctx
          | none => ctx
        else if mnemonic = "PROC" then
          let procName := procLabel tokens (idx - 1)
          if procName.data ≠ [] then { ctx with currentProcedureName := toUpper procName }
          else
            logError ctx tok0.line "PROC without label"
              "PROC must be on the same line as a label. Example: myproc: PROC"
        else if mnemonic = "ENDP" then { ctx with currentProcedureName := "" }
        else assembleInstruction ctx tokens idx mnemonic startAddr lineNum sourceLine

/-- One pass of the driver loop in `main`: every line is tokenized and assembled;
`i` is the 0-based index of the first line. -/
def runPass : List String → Nat → AssemblerContext → AssemblerContext
  | [], _, ctx => ctx
  | l :: rest, i, ctx => runPass rest (i + 1) (assembleLine ctx (tokenize l (i + 1)) (i + 1) l)

/-- The context `main` resets between pass 1 and pass 2. -/
def startPass2 (ctx : AssemblerContext) (expandErrors : List Diagnostic) : AssemblerContext :=
  { ctx with diagnostics := expandErrors, globalError := false, isPass1 := false,
             currentAddress := 0, machineCode := [] }

/-- The two-pass driver of `main` (default assemble mode) on already expanded lines. -/
def assemble (lines : List String) (expandErrors : List Diagnostic) : AssemblerContext :=
  let ctx := { AssemblerContext.init with diagnostics := expandErrors }
  let ctx := runPass lines 0 { ctx with isPass1 := true, currentAddress := 0 }
  runPass lines 0 (startPass2 ctx expandErrors)

/-! ## Shared decoder: types -/

inductive OpKind where
  | NONE | REG8 | REG16 | SREG | MEM | IMM8 | IMM16
  deriving DecidableEq, Repr

structure DecodedOperand where
  kind : OpKind
  reg : Nat
  memRM : Int
  disp : Int
  size : Nat
  text : String
  deriving DecidableEq, Repr

/-- The default-constructed `DecodedOperand`. -/
def DecodedOperand.empty : DecodedOperand :=
  { kind := .NONE, reg := 0, memRM := -1, disp := 0, size := 0, text := "" }

structure DecodedInst where
  valid : Bool
  size : Nat
  opcode : Nat
  mnemonic : String
  op1 : DecodedOperand
  op2 : DecodedOperand
  wide : Bool
  segOverride : Int
  hasRep : Bool
  hasRepne : Bool
  prefixBytes : Nat
  prefixText : String
  jumpTarget : Int
  modrmExt : Int
  deriving DecidableEq, Repr

/-- The default-constructed `DecodedInst`. -/
def DecodedInst.empty : DecodedInst :=
  { valid := false, size := 0, opcode := 0, mnemonic := "", op1 := DecodedOperand.empty,
    op2 := DecodedOperand.empty, wide := false, segOverride := -1, hasRep := false,
    hasRepne := false, prefixBytes := 0, prefixText := "", jumpTarget := -1, modrmExt := -1 }

structure ModRMResult where
  operand : String
  reg : Nat
  bytesConsumed : Nat
  mod : Nat
  rm : Nat
  isReg : Bool
  disp : Int
  deriving DecidableEq, Repr

/-! ## Safe byte reading helpers -/

def hasBytesAt (code : List Nat) (offset count : Nat) : Bool := offset + count ≤ code.length

def readByte (code : List Nat) (offset : Nat) : Nat := code.getD offset 0

def readWord (code : List Nat) (offset : Nat) : Nat :=
  if offset + 1 < code.length then code.getD offset 0 ||| (code.getD (offset + 1) 0 <<< 8) else 0

/-- Function `readSignedByte`: the byte reinterpreted as `int8_t`. -/
def readSignedByte (code : List Nat) (offset : Nat) : Int :=
  let b := readByte code offset
  if b ≥ 128 then (b : Int) - 256 else b

/-- Reinterpretation of a 16-bit value as `int16_t`. -/
def toInt16 (w : Nat) : Int := if w ≥ 32768 then (w : Int) - 65536 else w

/-! ## Hex formatting helpers -/

/-- Upper-case hexadecimal digits of `n`, zero-padded to at least `width` characters
(`uppercase << hex << setfill('0') << setw(width)`). -/
def hexPad (width n : Nat) : String :=
  let ds := (Nat.toDigits 16 n).map Char.toUpper
  String.mk (List.replicate (width - ds.length) '0' ++ ds)

def hexByte (b : Nat) : String := hexPad 2 b

def hexImm8 (val : Nat) : String := "0x" ++ hexPad 2 val

def hexImm16 (val : Nat) : String := "0x" ++ hexPad 4 val

def dispStr (val : Int) : String :=
  if val = 0 then "" else (if val > 0 then "+" else "-") ++ "0x" ++ hexPad 2 val.natAbs

def dispStr16 (val : Int) : String :=
  if val = 0 then "" else (if val > 0 then "+" else "-") ++ "0x" ++ hexPad 4 val.natAbs

/-- Function `hexBytes`: hex bytes separated by blanks. -/
def hexBytes : List Nat → String
  | [] => ""
  | [b] => hexByte b
  | b :: rest => hexByte b ++ " " ++ hexBytes rest

/-! ## ModR/M decoder -/

def regs8 : List String := ["AL", "CL", "DL", "BL", "AH", "CH", "DH", "BH"]

def regs16 : List String := ["AX", "CX", "DX", "BX", "SP", "BP", "SI", "DI"]

/-- Register expression of an R/M field in a decoded memory operand. -/
def rmBase (rm : Nat) : String :=
  ["BX+SI", "BX+DI", "BP+SI", "BP+DI", "SI", "DI", "BP", "BX"].getD rm ""

/-- Function `decodeModRM`. -/
def decodeModRM (code : List Nat) (offset operandSize : Nat) : ModRMResult :=
  let res : ModRMResult :=
    { operand := "", reg := 0, bytesConsumed := 0, mod := 0, rm := 0, isReg := false, disp := 0 }
  if ¬ hasBytesAt code offset 1 then res
  else
    let modrm := readByte code offset
    let res := { res with mod := (modrm >>> 6) &&& 3, reg := (modrm >>> 3) &&& 7,
                          rm := modrm &&& 7, bytesConsumed := 1 }
    if res.mod = 3 then
      { res with isReg := true, disp := 0,
                 operand := if operandSize = 8 then regs8.getD res.rm ""
                            else regs16.getD res.rm "" }
    else
      let res := { res with isReg := false, operand := "[" }
      if res.mod = 0 ∧ res.rm = 6 then
        if ¬ hasBytesAt code (offset + 1) 2 then { res with bytesConsumed := 0 }
        else
          let d := readWord code (offset + 1)
          { res with bytesConsumed := res.bytesConsumed + 2, disp := d,
                     operand := res.operand ++ hexImm16 d ++ "]" }
      else
        let res := { res with operand := res.operand ++ rmBase res.rm }
        if res.mod = 1 then
          if ¬ hasBytesAt code (offset + res.bytesConsumed) 1 then { res with bytesConsumed := 0 }
          else
            let d := readSignedByte code (offset + res.bytesConsumed)
            { res with bytesConsumed := res.bytesConsumed + 1, disp := d,
                       operand := res.operand ++ dispStr d ++ "]" }
        else if res.mod = 2 then
          if ¬ hasBytesAt code (offset + res.bytesConsumed) 2 then { res with bytesConsumed := 0 }
          else
            let d := toInt16 (readWord code (offset + res.bytesConsumed))
            { res with bytesConsumed := res.bytesConsumed + 2, disp := d,
                       operand := res.operand ++ dispStr16 d ++ "]" }
        else { res with disp := 0, operand := res.operand ++ "]" }

/-! ## Operand construction helpers -/

def makeReg8 (reg : Nat) : DecodedOperand :=
  { DecodedOperand.empty with kind := .REG8, reg := reg &&& 7, size := 8,
                              text := regs8.getD (reg &&& 7) "" }

def makeReg16 (reg : Nat) : DecodedOperand :=
  { DecodedOperand.empty with kind := .REG16, reg := reg &&& 7, size := 16,
                              text := regs16.getD (reg &&& 7) "" }

def makeSreg (reg : Nat) : DecodedOperand :=
  { DecodedOperand.empty with kind := .SREG, reg := reg, size := 16,
                              text := if reg < 4 then sregName reg else "???" }

def makeImm8 (val : Nat) : DecodedOperand :=
  { DecodedOperand.empty with kind := .IMM8, disp := (val % 256 : Nat), size := 8,
                              text := hexImm8 (val % 256) }

def makeImm16 (val : Nat) : DecodedOperand :=
  { DecodedOperand.empty with kind := .IMM16, disp := (val % 65536 : Nat), size := 16,
                              text := hexImm16 (val % 65536) }

/-- Function `modrmToOperand`. -/
def modrmToOperand (m : ModRMResult) (operandSize : Nat) : DecodedOperand :=
  let op := { DecodedOperand.empty with text := m.operand, size := operandSize, disp := m.disp }
  if m.isReg then
    { op with kind := if operandSize = 8 then .REG8 else .REG16, reg := m.rm, memRM := -1 }
  else
    { op with kind := .MEM, memRM := if m.mod = 0 ∧ m.rm = 6 then -1 else (m.rm : Int) }

def regFromField (reg size : Nat) : DecodedOperand :=
  if size = 8 then makeReg8 reg else makeReg16 reg

/-- Function `addSizePrefix`. -/
def addSizePrefix (op : DecodedOperand) : DecodedOperand :=
  if op.kind = .MEM then { op with text := (if op.size = 8 then "BYTE " else "WORD ") ++ op.text }
  else op

/-- Function `formatInstruction`. -/
def formatInstruction (inst : DecodedInst) : String :=
  inst.prefixText ++ inst.mnemonic
    ++ (if inst.op1.kind ≠ .NONE then
          " " ++ inst.op1.text ++ (if inst.op2.kind ≠ .NONE then ", " ++ inst.op2.text else "")
        else "")

/-! ## Main decoder function -/

def aluNames : List String := ["ADD", "OR", "ADC", "SBB", "AND", "SUB", "XOR", "CMP"]

def jccNames : List String :=
  ["JO", "JNO", "JB", "JNB", "JZ", "JNZ", "JBE", "JA",
   "JS", "JNS", "JP", "JNP", "JL", "JGE", "JLE", "JG"]

/-- The prefix loop of `decodeInstruction`: the instruction record and `current`. -/
def decodePrefixes (code : List Nat) : Nat → DecodedInst → Nat → DecodedInst × Nat
  | 0, inst, current => (inst, current)
  | n + 1, inst, current =>
    if hasBytesAt code current 1 then
      let b := readByte code current
      let next := fun (i : DecodedInst) =>
        decodePrefixes code n { i with prefixBytes := i.prefixBytes + 1 } (current + 1)
      if b = 0xF2 then next { inst with hasRepne := true, prefixText := inst.prefixText ++ "REPNE " }
      else if b = 0xF3 then next { inst with hasRep := true, prefixText := inst.prefixText ++ "REP " }
      else if b = 0x26 then next { inst with segOverride := 0x26, prefixText := inst.prefixText ++ "ES: " }
      else if b = 0x2E then next { inst with segOverride := 0x2E, prefixText := inst.prefixText ++ "CS: " }
      else if b = 0x36 then next { inst with segOverride := 0x36, prefixText := inst.prefixText ++ "SS: " }
      else if b = 0x3E then next { inst with segOverride := 0x3E, prefixText := inst.prefixText ++ "DS: " }
      else (inst, current)
    else (inst, current)

/-- The lambda `finish` of `decodeInstruction`. -/
def finish (inst : DecodedInst) (totalSize : Nat) : DecodedInst :=
  { inst with valid := true, size := totalSize }

/-- A memory operand of the `A0`..`A3` forms (`MOV AL/AX <-> [moffs16]`). -/
def moffsOperand (addr size : Nat) : DecodedOperand :=
  { DecodedOperand.empty with kind := .MEM, memRM := -1, disp := addr, size := size,
                              text := "[" ++ hexImm16 addr ++ "]" }

/-- One-byte instructions without operands, as the decoder names them. -/
def simpleNames : List (Nat × String) :=
  [(0xA4, "MOVSB"), (0xA5, "MOVSW"), (0xA6, "CMPSB"), (0xA7, "CMPSW"), (0xAA, "STOSB"),
   (0xAB, "STOSW"), (0xAC, "LODSB"), (0xAD, "LODSW"), (0xAE, "SCASB"), (0xAF, "SCASW"),
   (0xFC, "CLD"), (0xFD, "STD"), (0xFA, "CLI"), (0xFB, "STI"), (0xF5, "CMC"), (0xF8, "CLC"),
   (0xF9, "STC"), (0x90, "NOP"), (0x98, "CBW"), (0x99, "CWD"), (0x9F, "LAHF"), (0x9E, "SAHF"),
   (0x9C, "PUSHF"), (0x9D, "POPF"), (0xD7, "XLAT"), (0xF4, "HLT"), (0x60, "PUSHA"),
   (0x61, "POPA")]

/-- The opcode dispatch of `decodeInstruction`, after the prefixes: `offset` is the start of
the instruction, `current` the position just after the opcode byte, `inst` carries the
prefix fields and the opcode. -/
def decodeOpcode (code : List Nat) (offset current : Nat) (inst : DecodedInst) : DecodedInst :=
  let opcode := inst.opcode
  let pb := inst.prefixBytes
  if opcode = 0x88 then
    let m := decodeModRM code current 8
    if m.bytesConsumed = 0 then inst
    else finish { inst with mnemonic := "MOV", wide := false, op1 := modrmToOperand m 8,
                            op2 := makeReg8 m.reg } (pb + 1 + m.bytesConsumed)
  else if opcode = 0x89 then
    let m := decodeModRM code current 16
    if m.bytesConsumed = 0 then inst
    else finish { inst with mnemonic := "MOV", wide := true, op1 := modrmToOperand m 16,
                            op2 := makeReg16 m.reg } (pb + 1 + m.bytesConsumed)
  else if opcode = 0x8A then
    let m := decodeModRM code current 8
    if m.bytesConsumed = 0 then inst
    else finish { inst with mnemonic := "MOV", wide := false, op1 := makeReg8 m.reg,
                            op2 := modrmToOperand m 8 } (pb + 1 + m.bytesConsumed)
  else if opcode = 0x8B then
    let m := decodeModRM code current 16
    if m.bytesConsumed = 0 then inst
    else finish { inst with mnemonic := "MOV", wide := true, op1 := makeReg16 m.reg,
                            op2 := modrmToOperand m 16 } (pb + 1 + m.bytesConsumed)
  else if opcode = 0x8C then
    let m := decodeModRM code current 16
    if m.bytesConsumed = 0 then inst
    else finish { inst with mnemonic := "MOV", wide := true, op1 := modrmToOperand m 16,
                            op2 := makeSreg m.reg } (pb + 1 + m.bytesConsumed)
  else if opcode = 0x8E then
    let m := decodeModRM code current 16
    if m.bytesConsumed = 0 then inst
    else finish { inst with mnemonic := "MOV", wide := true, op1 := makeSreg m.reg,
                            op2 := modrmToOperand m 16 } (pb + 1 + m.bytesConsumed)
  else if 0xB0 ≤ opcode ∧ opcode ≤ 0xB7 then
    if ¬ hasBytesAt code current 1 then inst
    else finish { inst with mnemonic := "MOV", wide := false, op1 := makeReg8 (opcode &&& 7),
                            op2 := makeImm8 (readByte code current) } (pb + 2)
  else if 0xB8 ≤ opcode ∧ opcode ≤ 0xBF then
    if ¬ hasBytesAt code current 2 then inst
    else finish { inst with mnemonic := "MOV", wide := true, op1 := makeReg16 (opcode &&& 7),
                            op2 := makeImm16 (readWord code current) } (pb + 3)
  else if opcode = 0xC6 then
    let m := decodeModRM code current 8
    if m.bytesConsumed = 0 ∨ m.reg ≠ 0 then inst
    else if ¬ hasBytesAt code (current + m.bytesConsumed) 1 then inst
    else finish { inst with mnemonic := "MOV", wide := false, modrmExt := 0,
                            op1 := addSizePrefix (modrmToOperand m 8),
                            op2 := makeImm8 (readByte code (current + m.bytesConsumed)) }
          (pb + 1 + m.bytesConsumed + 1)
  else if opcode = 0xC7 then
    let m := decodeModRM code current 16
    if m.bytesConsumed = 0 ∨ m.reg ≠ 0 then inst
    else if ¬ hasBytesAt code (current + m.bytesConsumed) 2 then inst
    else finish { inst with mnemonic := "MOV", wide := true, modrmExt := 0,
                            op1 := addSizePrefix (modrmToOperand m 16),
                            op2 := makeImm16 (readWord code (current + m.bytesConsumed)) }
          (pb + 1 + m.bytesConsumed + 2)
  -- ALU reg/mem forms
  else if opcode < 0x40 ∧ opcode &&& 4 = 0 then
    let opType := (opcode >>> 3) &&& 7
    let wide : Bool := opcode &&& 1 ≠ 0
    let inst := { inst with mnemonic := aluNames.getD opType "", wide := wide }
    let dirToReg : Bool := opcode &&& 2 ≠ 0
    let opSize := if wide then 16 else 8
    let m := decodeModRM code current opSize
    if m.bytesConsumed = 0 then inst
    else if dirToReg then
      finish { inst with op1 := regFromField m.reg opSize, op2 := modrmToOperand m opSize }
        (pb + 1 + m.bytesConsumed)
    else
      finish { inst with op1 := modrmToOperand m opSize, op2 := regFromField m.reg opSize }
        (pb + 1 + m.bytesConsumed)
  -- ALU accumulator immediate forms
  else if opcode < 0x40 ∧ opcode &&& 6 = 4 then
    let opType := (opcode >>> 3) &&& 7
    let wide : Bool := opcode &&& 1 ≠ 0
    let inst := { inst with mnemonic := aluNames.getD opType "", wide := wide }
    let immSize := if wide then 2 else 1
    if ¬ hasBytesAt code current immSize then inst
    else
      finish { inst with op1 := if wide then makeReg16 0 else makeReg8 0,
                         op2 := if wide then makeImm16 (readWord code current)
                                else makeImm8 (readByte code current) }
        (pb + 1 + immSize)
  -- ALU immediate group 80/81/82/83
  else if opcode = 0x80 ∨ opcode = 0x81 ∨ opcode = 0x82 ∨ opcode = 0x83 then
    let isWord : Bool := opcode = 0x81 ∨ opcode = 0x83
    let isSignExt : Bool := opcode = 0x83
    let opSize := if isWord then 16 else 8
    let m := decodeModRM code current opSize
    if m.bytesConsumed = 0 then inst
    else
      let inst := { inst with mnemonic := aluNames.getD m.reg "", wide := isWord,
                              modrmExt := m.reg, op1 := addSizePrefix (modrmToOperand m opSize) }
      let immSize := if isWord ∧ ¬ isSignExt then 2 else 1
      if ¬ hasBytesAt code (current + m.bytesConsumed) immSize then inst
      else
        let immVal : Int :=
          if immSize = 1 then (readByte code (current + m.bytesConsumed) % 256 : Nat)
          else (readWord code (current + m.bytesConsumed) : Nat)
        let immVal : Int :=
          if isSignExt then (if immVal % 256 ≥ 128 then immVal % 256 - 256 else immVal % 256)
          else immVal
        finish { inst with op2 := if isWord then makeImm16 (toU16 immVal)
                                  else makeImm8 (toU8 immVal) }
          (pb + 1 + m.bytesConsumed + immSize)
  -- TEST r/m, r
  else if opcode = 0x84 ∨ opcode = 0x85 then
    let wide : Bool := opcode = 0x85
    let inst := { inst with wide := wide }
    let opSize := if wide then 16 else 8
    let m := decodeModRM code current opSize
    if m.bytesConsumed = 0 then inst
    else finish { inst with mnemonic := "TEST", op1 := modrmToOperand m opSize,
                            op2 := regFromField m.reg opSize } (pb + 1 + m.bytesConsumed)
  -- Group 3: F6/F7
  else if opcode = 0xF6 ∨ opcode = 0xF7 then
    let wide : Bool := opcode = 0xF7
    let inst := { inst with wide := wide }
    let opSize := if wide then 16 else 8
    let m := decodeModRM code current opSize
    if m.bytesConsumed = 0 then inst
    else
      let inst := { inst with modrmExt := m.reg }
      if m.reg = 0 then
        let immSize := if wide then 2 else 1
        if ¬ hasBytesAt code (current + m.bytesConsumed) immSize then inst
        else
          finish { inst with mnemonic := "TEST", op1 := addSizePrefix (modrmToOperand m opSize),
                             op2 := if wide then makeImm16 (readWord code (current + m.bytesConsumed))
                                    else makeImm8 (readByte code (current + m.bytesConsumed)) }
            (pb + 1 + m.bytesConsumed + immSize)
      else if m.reg = 1 then inst
      else
        finish { inst with mnemonic := ["", "", "NOT", "NEG", "MUL", "IMUL", "DIV", "IDIV"].getD m.reg "",
                           op1 := addSizePrefix (modrmToOperand m opSize) }
          (pb + 1 + m.bytesConsumed)
  -- Group 4: FE
  else if opcode = 0xFE then
    let m := decodeModRM code current 8
    if m.bytesConsumed = 0 then inst
    else if m.reg ≠ 0 ∧ m.reg ≠ 1 then inst
    else
      finish { inst with mnemonic := if m.reg = 0 then "INC" else "DEC", wide := false,
                         modrmExt := m.reg, op1 := addSizePrefix (modrmToOperand m 8) }
        (pb + 1 + m.bytesConsumed)
  -- Group 5: FF
  else if opcode = 0xFF then
    let m := decodeModRM code current 16
    if m.bytesConsumed = 0 then inst
    else
      let inst := { inst with modrmExt := m.reg }
      if m.reg > 6 then inst
      else
        let inst := { inst with
          mnemonic := ["INC", "DEC", "CALL", "CALL FAR", "JMP", "JMP FAR", "PUSH"].getD m.reg "",
          wide := true }
        let op1 := modrmToOperand m 16
        let op1 := if op1.kind = .MEM ∧ (m.reg = 0 ∨ m.reg = 1) then addSizePrefix op1 else op1
        finish { inst with op1 := op1 } (pb + 1 + m.bytesConsumed)
  -- short-form INC/DEC/PUSH/POP
  else if 0x40 ≤ opcode ∧ opcode ≤ 0x47 then
    finish { inst with mnemonic := "INC", wide := true, op1 := makeReg16 (opcode &&& 7) } (pb + 1)
  else if 0x48 ≤ opcode ∧ opcode ≤ 0x4F then
    finish { inst with mnemonic := "DEC", wide := true, op1 := makeReg16 (opcode &&& 7) } (pb + 1)
  else if 0x50 ≤ opcode ∧ opcode ≤ 0x57 then
    finish { inst with mnemonic := "PUSH", wide := true, op1 := makeReg16 (opcode &&& 7) } (pb + 1)
  else if 0x58 ≤ opcode ∧ opcode ≤ 0x5F then
    finish { inst with mnemonic := "POP", wide := true, op1 := makeReg16 (opcode &&& 7) } (pb + 1)
  -- segment register PUSH/POP
  else if opcode = 0x06 then finish { inst with mnemonic := "PUSH", op1 := makeSreg 0 } (pb + 1)
  else if opcode = 0x0E then finish { inst with mnemonic := "PUSH", op1 := makeSreg 1 } (pb + 1)
  else if opcode = 0x16 then finish { inst with mnemonic := "PUSH", op1 := makeSreg 2 } (pb + 1)
  else if opcode = 0x1E then finish { inst with mnemonic := "PUSH", op1 := makeSreg 3 } (pb + 1)
  else if opcode = 0x07 then finish { inst with mnemonic := "POP", op1 := makeSreg 0 } (pb + 1)
  else if opcode = 0x17 then finish { inst with mnemonic := "POP", op1 := makeSreg 2 } (pb + 1)
  else if opcode = 0x1F then finish { inst with mnemonic := "POP", op1 := makeSreg 3 } (pb + 1)
  else if opcode = 0x8F then
    let m := decodeModRM code current 16
    if m.bytesConsumed = 0 ∨ m.reg ≠ 0 then inst
    else finish { inst with mnemonic := "POP", wide := true, modrmExt := 0,
                            op1 := modrmToOperand m 16 } (pb + 1 + m.bytesConsumed)
  -- shifts and rotates by 1 / CL
  else if opcode = 0xD0 ∨ opcode = 0xD1 ∨ opcode = 0xD2 ∨ opcode = 0xD3 then
    let wide : Bool := opcode &&& 1 ≠ 0
    let inst := { inst with wide := wide }
    let isCL : Bool := opcode &&& 2 ≠ 0
    let opSize := if wide then 16 else 8
    let m := decodeModRM code current opSize
    if m.bytesConsumed = 0 then inst
    else
      let inst := { inst with modrmExt := m.reg }
      if m.reg = 6 then inst
      else
        let inst := { inst with
          mnemonic := ["ROL", "ROR", "RCL", "RCR", "SHL", "SHR", "", "SAR"].getD m.reg "",
          op1 := modrmToOperand m opSize }
        if isCL then finish { inst with op2 := makeReg8 1 } (pb + 1 + m.bytesConsumed)
        else finish { inst with op2 := { makeImm8 1 with text := "1" } } (pb + 1 + m.bytesConsumed)
  -- shifts and rotates by imm8 (80186+)
  else if opcode = 0xC0 ∨ opcode = 0xC1 then
    let wide : Bool := opcode &&& 1 ≠ 0
    let inst := { inst with wide := wide }
    let opSize := if wide then 16 else 8
    let m := decodeModRM code current opSize
    if m.bytesConsumed = 0 then inst
    else if ¬ hasBytesAt code (current + m.bytesConsumed) 1 then inst
    else
      let inst := { inst with modrmExt := m.reg }
      let name := ["ROL", "ROR", "", "", "SHL", "SHR", "", ""].getD m.reg ""
      if name.data = [] then inst
      else
        finish { inst with mnemonic := name, op1 := modrmToOperand m opSize,
                           op2 := makeImm8 (readByte code (current + m.bytesConsumed)) }
          (pb + 1 + m.bytesConsumed + 1)
  -- JMP / CALL / RET
  else if opcode = 0xE9 ∨ opcode = 0xE8 then
    if ¬ hasBytesAt code current 2 then inst
    else
      let rel := toInt16 (readWord code current)
      let target : Int := ((offset : Int) + 3 + pb + rel) % 65536
      finish { inst with jumpTarget := target, mnemonic := if opcode = 0xE9 then "JMP" else "CALL",
                         op1 := makeImm16 target.toNat } (pb + 3)
  else if opcode = 0xC3 then finish { inst with mnemonic := "RET" } (pb + 1)
  -- conditional jumps
  else if 0x70 ≤ opcode ∧ opcode ≤ 0x7F then
    if ¬ hasBytesAt code current 1 then inst
    else
      let rel := readSignedByte code current
      let target : Int := ((offset : Int) + 2 + pb + rel) % 65536
      finish { inst with jumpTarget := target, mnemonic := jccNames.getD (opcode - 0x70) "",
                         op1 := makeImm16 target.toNat } (pb + 2)
  -- LOOP / LOOPE / LOOPNE / JCXZ
  else if opcode = 0xE2 ∨ opcode = 0xE1 ∨ opcode = 0xE0 ∨ opcode = 0xE3 then
    if ¬ hasBytesAt code current 1 then inst
    else
      let rel := readSignedByte code current
      let target : Int := ((offset : Int) + 2 + pb + rel) % 65536
      let name := if opcode = 0xE2 then "LOOP" else if opcode = 0xE1 then "LOOPE"
        else if opcode = 0xE0 then "LOOPNE" else "JCXZ"
      finish { inst with jumpTarget := target, mnemonic := name,
                         op1 := makeImm16 target.toNat } (pb + 2)
  -- I/O
  else if opcode = 0xE4 ∨ opcode = 0xE5 then
    if ¬ hasBytesAt code current 1 then inst
    else
      finish { inst with mnemonic := "IN", wide := decide (opcode = 0xE5),
                         op1 := if opcode = 0xE5 then makeReg16 0 else makeReg8 0,
                         op2 := makeImm8 (readByte code current) } (pb + 2)
  else if opcode = 0xE6 ∨ opcode = 0xE7 then
    if ¬ hasBytesAt code current 1 then inst
    else
      finish { inst with mnemonic := "OUT", wide := decide (opcode = 0xE7),
                         op1 := makeImm8 (readByte code current),
                         op2 := if opcode = 0xE7 then makeReg16 0 else makeReg8 0 } (pb + 2)
  else if opcode = 0xEC ∨ opcode = 0xED then
    finish { inst with mnemonic := "IN", wide := decide (opcode = 0xED),
                       op1 := if opcode = 0xED then makeReg16 0 else makeReg8 0,
                       op2 := makeReg16 2 } (pb + 1)
  else if opcode = 0xEE ∨ opcode = 0xEF then
    finish { inst with mnemonic := "OUT", wide := decide (opcode = 0xEF), op1 := makeReg16 2,
                       op2 := if opcode = 0xEF then makeReg16 0 else makeReg8 0 } (pb + 1)
  -- LEA
  else if opcode = 0x8D then
    let m := decodeModRM code current 16
    if m.bytesConsumed = 0 then inst
    else if m.isReg then inst
    else finish { inst with mnemonic := "LEA", wide := true, op1 := makeReg16 m.reg,
                            op2 := modrmToOperand m 16 } (pb + 1 + m.bytesConsumed)
  -- INT
  else if opcode = 0xCD then
    if ¬ hasBytesAt code current 1 then inst
    else finish { inst with mnemonic := "INT", op1 := makeImm8 (readByte code current) } (pb + 2)
  -- XCHG r16, AX
  else if 0x91 ≤ opcode ∧ opcode ≤ 0x97 then
    finish { inst with mnemonic := "XCHG", wide := true, op1 := makeReg16 0,
                       op2 := makeReg16 (opcode &&& 7) } (pb + 1)
  -- XCHG r/m, r
  else if opcode = 0x86 ∨ opcode = 0x87 then
    let wide : Bool := opcode &&& 1 ≠ 0
    let inst := { inst with wide := wide }
    let opSize := if wide then 16 else 8
    let m := decodeModRM code current opSize
    if m.bytesConsumed = 0 then inst
    else finish { inst with mnemonic := "XCHG", op1 := modrmToOperand m opSize,
                            op2 := regFromField m.reg opSize } (pb + 1 + m.bytesConsumed)
  -- JMP short
  else if opcode = 0xEB then
    if ¬ hasBytesAt code current 1 then inst
    else
      let rel := readSignedByte code current
      let target : Int := ((offset : Int) + 2 + pb + rel) % 65536
      finish { inst with jumpTarget := target, mnemonic := "JMP",
                         op1 := makeImm16 target.toNat } (pb + 2)
  -- MOV with memory offset (A0-A3)
  else if opcode = 0xA0 ∨ opcode = 0xA1 ∨ opcode = 0xA2 ∨ opcode = 0xA3 then
    if ¬ hasBytesAt code current 2 then inst
    else
      let addr := readWord code current
      let wide : Bool := opcode = 0xA1 ∨ opcode = 0xA3
      let memOp := moffsOperand addr (if wide then 16 else 8)
      let acc := if wide then makeReg16 0 else makeReg8 0
      if opcode = 0xA0 ∨ opcode = 0xA1 then
        finish { inst with mnemonic := "MOV", wide := wide, op1 := acc, op2 := memOp } (pb + 3)
      else
        finish { inst with mnemonic := "MOV", wide := wide, op1 := memOp, op2 := acc } (pb + 3)
  -- TEST accumulator, immediate
  else if opcode = 0xA8 then
    if ¬ hasBytesAt code current 1 then inst
    else finish { inst with mnemonic := "TEST", wide := false, op1 := makeReg8 0,
                            op2 := makeImm8 (readByte code current) } (pb + 2)
  else if opcode = 0xA9 then
    if ¬ hasBytesAt code current 2 then inst
    else finish { inst with mnemonic := "TEST", wide := true, op1 := makeReg16 0,
                            op2 := makeImm16 (readWord code current) } (pb + 3)
  else
    -- string, flag and miscellaneous one-byte instructions; otherwise unrecognized
    match simpleNames.lookup opcode with
    | some name => finish { inst with mnemonic := name } (pb + 1)
    | none => inst

/-- Function `decodeInstruction`. -/
def decodeInstruction (code : List Nat) (offset : Nat) : DecodedInst :=
  if offset ≥ code.length then DecodedInst.empty
  else
    let (inst, current) := decodePrefixes code code.length DecodedInst.empty offset
    if ¬ hasBytesAt code current 1 then inst
    else decodeOpcode code offset (current + 1) { inst with opcode := readByte code current }

/-! ## Disassembler (linear sweep of `disassembleFile`) -/

/-- One element of the `instructions` array the disassembler prints. -/
structure InstrRecord where
  addr : Nat
  bytes : List Nat
  hex : String
  asm : String
  size : Nat
  deriving DecidableEq, Repr

/-- Struct `DataRegion` of `disassembleFile`. -/
structure DataRegion where
  addr : Nat
  bytes : List Nat
  deriving DecidableEq, Repr

/-- Loop state of the sweep; `dataRunStart = -1` when no data run is open. -/
structure SweepState where
  offset : Nat
  dataRunStart : Int
  dataRunBytes : List Nat
  instructions : List InstrRecord
  dataRegions : List DataRegion
  deriving DecidableEq, Repr

/-- The `while (offset < code.size())` loop of `disassembleFile`. -/
def sweepLoop (code : List Nat) : Nat → SweepState → SweepState
  | 0, st => st
  | n + 1, st =>
    if st.offset < code.length then
      let inst := decodeInstruction code st.offset
      if inst.valid then
        let st1 :=
          if st.dataRunStart ≠ -1 then
            { st with dataRegions := st.dataRegions ++ [⟨st.dataRunStart.toNat, st.dataRunBytes⟩],
                      dataRunStart := -1, dataRunBytes := [] }
          else st
        let raw := (List.range inst.size).map (fun k => code.getD (st.offset + k) 0)
        sweepLoop code n
          { st1 with instructions := st1.instructions ++
                       [⟨st.offset, raw, hexBytes raw, formatInstruction inst, inst.size⟩],
                     offset := st.offset + inst.size }
      else
        sweepLoop code n
          { st with dataRunStart := if st.dataRunStart = -1 then st.offset else st.dataRunStart,
                    dataRunBytes := st.dataRunBytes ++ [code.getD st.offset 0],
                    offset := st.offset + 1 }
    else st

/-- The sweep of `disassembleFile` with the final flush: instruction records and data regions. -/
def disassemble (code : List Nat) : List InstrRecord × List DataRegion :=
  let st := sweepLoop code code.length
    { offset := 0, dataRunStart := -1, dataRunBytes := [], instructions := [], dataRegions := [] }
  let regions :=
    if st.dataRunStart ≠ -1 then st.dataRegions ++ [⟨st.dataRunStart.toNat, st.dataRunBytes⟩]
    else st.dataRegions
  (st.instructions, regions)

/-! ## 8086 emulator: types -/

/-- Array update `a[k] = v` on a register file or memory seen as a function. -/
def setAt (f : Nat → Nat) (k v : Nat) : Nat → Nat := fun i => if i = k then v else f i

/-- Struct `CPU`: `regs` (AX, CX, DX, BX, SP, BP, SI, DI), `sregs` (ES, CS, SS, DS), IP, FLAGS. -/
structure CPU where
  regs : Nat → Nat
  sregs : Nat → Nat
  ip : Nat
  flags : Nat

/-- The value-initialised `CPU`. -/
def CPU.init : CPU := { regs := fun _ => 0, sregs := fun _ => 0, ip := 0, flags := 0 }

def CPU.CF : Nat := 0
def CPU.PF : Nat := 2
def CPU.AF : Nat := 4
def CPU.ZF : Nat := 6
def CPU.SF : Nat := 7
def CPU.TF : Nat := 8
def CPU.IF_ : Nat := 9
def CPU.DF : Nat := 10
def CPU.OF : Nat := 11

def CPU.getFlag (cpu : CPU) (bit : Nat) : Bool := (cpu.flags >>> bit) &&& 1 ≠ 0

def CPU.setFlag (cpu : CPU) (bit : Nat) (v : Bool) : CPU :=
  if v then { cpu with flags := (cpu.flags ||| (1 <<< bit)) % 65536 }
  else { cpu with flags := cpu.flags &&& (0xFFFF ^^^ (1 <<< bit)) }

def CPU.getReg8 (cpu : CPU) (idx : Nat) : Nat :=
  if idx < 4 then cpu.regs idx &&& 0xFF else (cpu.regs (idx - 4) >>> 8) &&& 0xFF

def CPU.setReg8 (cpu : CPU) (idx val : Nat) : CPU :=
  if idx < 4 then { cpu with regs := setAt cpu.regs idx ((cpu.regs idx &&& 0xFF00) ||| (val % 256)) }
  else { cpu with regs := setAt cpu.regs (idx - 4)
                    ((cpu.regs (idx - 4) &&& 0x00FF) ||| ((val % 256) <<< 8)) }

def CPU.setReg (cpu : CPU) (idx val : Nat) : CPU :=
  { cpu with regs := setAt cpu.regs idx (val % 65536) }

def CPU.setSreg (cpu : CPU) (idx val : Nat) : CPU :=
  { cpu with sregs := setAt cpu.sregs idx (val % 65536) }

/-- Struct `Memory`: the flat 64 KiB array, the 8000-byte text VRAM and the dirty flag. -/
structure Memory where
  data : Nat → Nat
  vram : Nat → Nat
  vramDirty : Bool

def Memory.init : Memory := { data := fun _ => 0, vram := fun _ => 0, vramDirty := false }

def Memory.read8 (mem : Memory) (addr : Nat) : Nat := mem.data (addr % 65536)

def Memory.read16 (mem : Memory) (addr : Nat) : Nat :=
  mem.data (addr % 65536) ||| (mem.data ((addr % 65536 + 1) % 65536) <<< 8)

def Memory.write8 (mem : Memory) (addr val : Nat) : Memory :=
  { mem with data := setAt mem.data (addr % 65536) (val % 256) }

def Memory.write16 (mem : Memory) (addr val : Nat) : Memory :=
  { mem with data := setAt (setAt mem.data (addr % 65536) ((val % 65536) &&& 0xFF))
                       ((addr % 65536 + 1) % 65536) ((val % 65536) >>> 8) }

/-- Linear address `(uint32_t)seg * 16 + off`. -/
def linearAddr (seg off : Nat) : Nat := (seg % 65536) * 16 + off % 65536

def inVRAM (linear : Nat) : Bool := linear ≥ 0xB8000 ∧ linear < 0xB9F40

def Memory.sread8 (mem : Memory) (seg off : Nat) : Nat :=
  let linear := linearAddr seg off
  if inVRAM linear then mem.vram (linear - 0xB8000) else mem.data (off % 65536 &&& 0xFFFF)

def Memory.sread16 (mem : Memory) (seg off : Nat) : Nat :=
  let linear := linearAddr seg off
  if inVRAM linear then
    let idx := linear - 0xB8000
    let lo := mem.vram idx
    let hi := if idx + 1 < 8000 then mem.vram (idx + 1) else 0
    lo ||| (hi <<< 8)
  else
    mem.data (off % 65536 &&& 0xFFFF) ||| (mem.data (((off % 65536 + 1) &&& 0xFFFF) % 65536) <<< 8)

def Memory.swrite8 (mem : Memory) (seg off val : Nat) : Memory :=
  let linear := linearAddr seg off
  if inVRAM linear then
    { mem with vram := setAt mem.vram (linear - 0xB8000) (val % 256), vramDirty := true }
  else { mem with data := setAt mem.data (off % 65536 &&& 0xFFFF) (val % 256) }

def Memory.swrite16 (mem : Memory) (seg off val0 : Nat) : Memory :=
  let val := val0 % 65536
  let linear := linearAddr seg off
  if inVRAM linear then
    let idx := linear - 0xB8000
    let v1 := setAt mem.vram idx (val &&& 0xFF)
    { mem with vram := if idx + 1 < 8000 then setAt v1 (idx + 1) (val >>> 8) else v1,
               vramDirty := true }
  else
    { mem with data := setAt (setAt mem.data (off % 65536 &&& 0xFFFF) (val &&& 0xFF))
                         (((off % 65536 + 1) &&& 0xFFFF) % 65536) (val >>> 8) }

/-- Method `loadCOM`: the image is copied to offset 0x100, cut at 65536 - 0x100 bytes. -/
def Memory.loadCOM (mem : Memory) (binary : List Nat) : Memory :=
  let len := if binary.length > 65536 - 0x100 then 65536 - 0x100 else binary.length
  { mem with data := fun a =>
      if 0x100 ≤ a ∧ a < 0x100 + len then binary.getD (a - 0x100) 0 % 256 else mem.data a }

/-- Struct `VRAMState`. -/
structure VRAMState where
  cursorRow : Nat
  cursorCol : Nat
  defaultAttr : Nat
  cols : Nat
  rows : Nat
  deriving DecidableEq, Repr

def VRAMState.init : VRAMState :=
  { cursorRow := 0, cursorCol := 0, defaultAttr := 0x07, cols := 80, rows := 50 }

def VRAMState.cursorOffset (v : VRAMState) : Nat :=
  ((v.cursorRow * v.cols + v.cursorCol) % 65536 * 2) % 65536

/-- Method `scrollUp`: rows move up by `lines`, the vacated bottom rows are blanked. -/
def VRAMState.scrollUp (v : VRAMState) (mem : Memory) (lines : Nat) : Memory :=
  let bytesPerRow := v.cols * 2
  let shiftBytes := lines * bytesPerRow
  let totalBytes := v.rows * bytesPerRow
  { mem with
    vram := fun i =>
      if i < totalBytes - shiftBytes then mem.vram (i + shiftBytes)
      else if i < totalBytes then
        (if (i - (totalBytes - shiftBytes)) % 2 = 0 then 32 else v.defaultAttr)
      else mem.vram i,
    vramDirty := true }

def VRAMState.writeCharAtCursor (v : VRAMState) (mem : Memory) (ch attr : Nat) : Memory :=
  let off := v.cursorOffset
  if off + 1 < 8000 then
    { mem with vram := setAt (setAt mem.vram off (ch % 256)) (off + 1) (attr % 256),
               vramDirty := true }
  else mem

/-- Method `advance`: the new cursor state and memory. -/
def VRAMState.advance (v : VRAMState) (mem : Memory) : VRAMState × Memory :=
  let v1 := { v with cursorCol := (v.cursorCol + 1) % 256 }
  if v1.cursorCol ≥ v1.cols then
    let v2 := { v1 with cursorCol := 0, cursorRow := (v1.cursorRow + 1) % 256 }
    if v2.cursorRow ≥ v2.rows then
      ({ v2 with cursorRow := (v2.rows - 1) % 256 }, v2.scrollUp mem 1)
    else (v2, mem)
  else (v1, mem)

def VRAMState.clearScreen (v : VRAMState) (mem : Memory) : VRAMState × Memory :=
  ({ v with cursorRow := 0, cursorCol := 0 },
   { mem with
     vram := fun i => if i < v.rows * v.cols * 2 then (if i % 2 = 0 then 32 else v.defaultAttr)
                      else mem.vram i,
     vramDirty := true })

/-- Struct `IOCapture`; the buffers are byte strings. -/
structure IOCapture where
  stdoutBuf : List Nat
  stdinSource : List Nat
  stdinPos : Nat
  exitCode : Int
  deriving DecidableEq, Repr

/-- Method `readChar`: the character read (or -1) and the advanced capture. -/
def IOCapture.readChar (io : IOCapture) : Int × IOCapture :=
  if io.stdinPos < io.stdinSource.length then
    ((io.stdinSource.getD io.stdinPos 0 % 256 : Nat), { io with stdinPos := io.stdinPos + 1 })
  else (-1, io)

/-- Struct `EmulatorConfig` (the output-file and screenshot options are not modelled). -/
structure EmulatorConfig where
  maxCycles : Int
  breakpoints : List Nat
  watchRegs : List Nat
  memDumpAddr : Nat
  memDumpLen : Nat
  stdinInput : List Nat
  hasViewport : Bool
  vpCol : Nat
  vpRow : Nat
  vpWidth : Nat
  vpHeight : Nat
  vpAttrs : Bool
  deriving DecidableEq, Repr

/-- The default `EmulatorConfig`. -/
def EmulatorConfig.default : EmulatorConfig :=
  { maxCycles := 1000000, breakpoints := [], watchRegs := [], memDumpAddr := 0, memDumpLen := 0,
    stdinInput := [], hasViewport := false, vpCol := 0, vpRow := 0, vpWidth := 80,
    vpHeight := 50, vpAttrs := false }

structure Snapshot where
  addr : Nat
  cycle : Nat
  regs : List Nat
  sregs : List Nat
  ip : Nat
  flags : Nat
  nextInst : String
  stack : List Nat
  memDump : List Nat
  hitCount : Nat
  reason : String
  screenLines : List String
  screenAttrs : List String
  snapCursorRow : Nat
  snapCursorCol : Nat
  deriving DecidableEq, Repr

structure SkippedRecord where
  addr : Nat
  instruction : String
  reason : String
  count : Nat
  deriving DecidableEq, Repr

/-- Struct `EmulatorResult` (without the floating-point `fidelity` and the screenshot path). -/
structure EmulatorResult where
  success : Bool
  halted : Bool
  haltReason : String
  exitCode : Int
  cyclesExecuted : Nat
  output : List Nat
  snapshots : List Snapshot
  skipped : List SkippedRecord
  diagnostics : List String
  screen : List String
  screenAttrs : List String
  cursorRow : Nat
  cursorCol : Nat
  deriving DecidableEq, Repr

def EmulatorResult.init : EmulatorResult :=
  { success := false, halted := false, haltReason := "", exitCode := 0, cyclesExecuted := 0,
    output := [], snapshots := [], skipped := [], diagnostics := [], screen := [],
    screenAttrs := [], cursorRow := 0, cursorCol := 0 }

/-- Everything `executeInstruction` receives by reference. -/
structure EmuState where
  cpu : CPU
  mem : Memory
  io : IOCapture
  result : EmulatorResult
  memDirty : Bool
  vram : VRAMState

/-! ## Emulator core engine -/

/-- Function `resolveSegment`. -/
def resolveSegment (cpu : CPU) (op : DecodedOperand) (segOverride : Int) : Nat :=
  if segOverride = 0x26 then cpu.sregs 0
  else if segOverride = 0x2E then cpu.sregs 1
  else if segOverride = 0x36 then cpu.sregs 2
  else if segOverride = 0x3E then cpu.sregs 3
  else if op.memRM = 2 ∨ op.memRM = 3 ∨ op.memRM = 6 then cpu.sregs 2
  else cpu.sregs 3

/-- Function `calcEffectiveAddress`. -/
def calcEffectiveAddress (cpu : CPU) (op : DecodedOperand) : Nat :=
  let addr : Int :=
    if op.memRM = -1 then op.disp
    else
      (if op.memRM = 0 then ((cpu.regs 3 + cpu.regs 6 : Nat) : Int)
       else if op.memRM = 1 then ((cpu.regs 3 + cpu.regs 7 : Nat) : Int)
       else if op.memRM = 2 then ((cpu.regs 5 + cpu.regs 6 : Nat) : Int)
       else if op.memRM = 3 then ((cpu.regs 5 + cpu.regs 7 : Nat) : Int)
       else if op.memRM = 4 then (cpu.regs 6 : Int)
       else if op.memRM = 5 then (cpu.regs 7 : Int)
       else if op.memRM = 6 then (cpu.regs 5 : Int)
       else if op.memRM = 7 then (cpu.regs 3 : Int)
       else 0) + op.disp
  toU16 addr

/-- Function `readOperand`. -/
def readOperand (cpu : CPU) (mem : Memory) (op : DecodedOperand) (segOverride : Int) : Nat :=
  match op.kind with
  | .REG8 => cpu.getReg8 op.reg
  | .REG16 => cpu.regs op.reg
  | .SREG => cpu.sregs op.reg
  | .IMM8 => toU8 op.disp
  | .IMM16 => toU16 op.disp
  | .MEM =>
    let addr := calcEffectiveAddress cpu op
    let seg := resolveSegment cpu op segOverride
    if op.size = 8 then mem.sread8 seg addr else mem.sread16 seg addr
  | .NONE => 0

/-- Function `writeOperand` (the returned `bool` is never used by the callers). -/
def writeOperand (s : EmuState) (op : DecodedOperand) (val : Nat) (segOverride : Int) : EmuState :=
  match op.kind with
  | .REG8 => { s with cpu := s.cpu.setReg8 op.reg val }
  | .REG16 => { s with cpu := s.cpu.setReg op.reg val }
  | .SREG => { s with cpu := s.cpu.setSreg op.reg val }
  | .MEM =>
    let addr := calcEffectiveAddress s.cpu op
    let seg := resolveSegment s.cpu op segOverride
    { s with mem := if op.size = 8 then s.mem.swrite8 seg addr val else s.mem.swrite16 seg addr val,
             memDirty := true }
  | _ => s

/-- Function `parity8`. -/
def parity8 (val : Nat) : Bool :=
  ((List.range 8).foldl (fun bits i => bits + (((val % 256) >>> i) &&& 1)) 0) % 2 = 0

/-- Function `updateFlagsAdd`; `result` is a `uint32_t`, `dst` and `src` are `uint16_t`. -/
def updateFlagsAdd (cpu : CPU) (result dst src : Nat) (wide : Bool) : CPU :=
  let mask := if wide then 0xFFFF else 0xFF
  let signBit := if wide then 0x8000 else 0x80
  let res := (result &&& mask) % 65536
  let cpu := cpu.setFlag CPU.CF (result > mask)
  let cpu := cpu.setFlag CPU.ZF (res = 0)
  let cpu := cpu.setFlag CPU.SF (res &&& signBit ≠ 0)
  let cpu := cpu.setFlag CPU.OF ((dst ^^^ res) &&& (src ^^^ res) &&& signBit ≠ 0)
  let cpu := cpu.setFlag CPU.PF (parity8 (res &&& 0xFF))
  cpu.setFlag CPU.AF ((dst ^^^ src ^^^ res) &&& 0x10 ≠ 0)

/-- Function `updateFlagsSub`. -/
def updateFlagsSub (cpu : CPU) (result dst src : Nat) (wide : Bool) : CPU :=
  let mask := if wide then 0xFFFF else 0xFF
  let signBit := if wide then 0x8000 else 0x80
  let res := (result &&& mask) % 65536
  let cpu := cpu.setFlag CPU.CF (dst < src)
  let cpu := cpu.setFlag CPU.ZF (res = 0)
  let cpu := cpu.setFlag CPU.SF (res &&& signBit ≠ 0)
  let cpu := cpu.setFlag CPU.OF ((dst ^^^ src) &&& (dst ^^^ res) &&& signBit ≠ 0)
  let cpu := cpu.setFlag CPU.PF (parity8 (res &&& 0xFF))
  cpu.setFlag CPU.AF ((dst ^^^ src ^^^ res) &&& 0x10 ≠ 0)

/-- Function `updateFlagsLogic`. -/
def updateFlagsLogic (cpu : CPU) (result : Nat) (wide : Bool) : CPU :=
  let signBit := if wide then 0x8000 else 0x80
  let cpu := cpu.setFlag CPU.CF false
  let cpu := cpu.setFlag CPU.OF false
  let cpu := cpu.setFlag CPU.ZF (result = 0)
  let cpu := cpu.setFlag CPU.SF (result &&& signBit ≠ 0)
  let cpu := cpu.setFlag CPU.PF (parity8 (result &&& 0xFF))
  cpu.setFlag CPU.AF false

/-- Function `evalCondition`. -/
def evalCondition (cpu : CPU) (mnemonic : String) : Bool :=
  if mnemonic = "JO" then cpu.getFlag CPU.OF
  else if mnemonic = "JNO" then !cpu.getFlag CPU.OF
  else if mnemonic = "JB" then cpu.getFlag CPU.CF
  else if mnemonic = "JNB" then !cpu.getFlag CPU.CF
  else if mnemonic = "JZ" then cpu.getFlag CPU.ZF
  else if mnemonic = "JNZ" then !cpu.getFlag CPU.ZF
  else if mnemonic = "JBE" then cpu.getFlag CPU.CF || cpu.getFlag CPU.ZF
  else if mnemonic = "JA" then !cpu.getFlag CPU.CF && !cpu.getFlag CPU.ZF
  else if mnemonic = "JS" then cpu.getFlag CPU.SF
  else if mnemonic = "JNS" then !cpu.getFlag CPU.SF
  else if mnemonic = "JP" then cpu.getFlag CPU.PF
  else if mnemonic = "JNP" then !cpu.getFlag CPU.PF
  else if mnemonic = "JL" then cpu.getFlag CPU.SF != cpu.getFlag CPU.OF
  else if mnemonic = "JGE" then cpu.getFlag CPU.SF == cpu.getFlag CPU.OF
  else if mnemonic = "JLE" then cpu.getFlag CPU.ZF || (cpu.getFlag CPU.SF != cpu.getFlag CPU.OF)
  else if mnemonic = "JG" then !cpu.getFlag CPU.ZF && (cpu.getFlag CPU.SF == cpu.getFlag CPU.OF)
  else false

/-! ## Interrupt handling -/

/-- Function `ttyCharToVRAM`. -/
def ttyCharToVRAM (mem : Memory) (vram : VRAMState) (ch : Nat) : Memory × VRAMState :=
  if ch = 0x0D then (mem, { vram with cursorCol := 0 })
  else if ch = 0x0A then
    let v1 := { vram with cursorRow := (vram.cursorRow + 1) % 256 }
    if v1.cursorRow ≥ v1.rows then (v1.scrollUp mem 1, { v1 with cursorRow := (v1.rows - 1) % 256 })
    else (mem, v1)
  else if ch = 0x08 then
    (mem, if vram.cursorCol > 0 then { vram with cursorCol := vram.cursorCol - 1 } else vram)
  else if ch = 0x07 then (mem, vram)
  else
    let mem1 := vram.writeCharAtCursor mem ch vram.defaultAttr
    let (v1, mem2) := vram.advance mem1
    (mem2, v1)

/-- VRAM index of the character byte of cell (row `r`, column `c`). -/
def cellOff (vram : VRAMState) (r c : Nat) : Nat := (r * vram.cols + c) * 2

/-- INT 10h AH=06h/07h: the VRAM after clearing or scrolling the window; the nested loops of
the source are written as one function of the byte index. -/
def scrollWindow (vram : VRAMState) (v : Nat → Nat) (ah lines attr r1 c1 r2 c2 : Nat) : Nat → Nat :=
  fun i =>
    let cell := i / 2
    let r := cell / vram.cols
    let c := cell % vram.cols
    if r1 ≤ r ∧ r ≤ r2 ∧ c1 ≤ c ∧ c ≤ c2 then
      if lines = 0 then (if i % 2 = 0 then 32 else attr)
      else if ah = 0x06 then
        if r + lines ≤ r2 then v (cellOff vram (r + lines) c + i % 2)
        else (if i % 2 = 0 then 32 else attr)
      else
        if r1 + lines ≤ r then v (cellOff vram (r - lines) c + i % 2)
        else (if i % 2 = 0 then 32 else attr)
    else v i

/-- INT 10h AH=09h loop: `count` cells starting at `off` receive `ch` and `attr`. -/
def writeCells (off ch attr : Nat) : Nat → Nat → (Nat → Nat) → Nat → Nat
  | 0, _, v => v
  | n + 1, i, v =>
    let currentOff := (off + i * 2) % 65536
    writeCells off ch attr n (i + 1)
      (if currentOff + 1 < 8000 then setAt (setAt v currentOff ch) (currentOff + 1) attr else v)

/-- INT 10h AH=0Ah loop: characters only, walking columns and rows. -/
def writeChars (vram : VRAMState) (ch : Nat) : Nat → Nat → Nat → (Nat → Nat) → Nat → Nat
  | 0, _, _, v => v
  | n + 1, col, row, v =>
    if row < vram.rows then
      let off := (row * vram.cols + col) * 2
      let v1 := if off + 1 < 8000 then setAt v off ch else v
      if col + 1 ≥ vram.cols then writeChars vram ch n 0 (row + 1) v1
      else writeChars vram ch n (col + 1) row v1
    else v

/-- Function `handleInt10`. -/
def handleInt10 (s : EmuState) : EmuState :=
  let cpu := s.cpu
  let vram := s.vram
  let ah := cpu.getReg8 4
  if ah = 0x00 then
    let (v, m) := vram.clearScreen s.mem
    { s with vram := v, mem := m }
  else if ah = 0x02 then
    let row := cpu.getReg8 6
    let col := cpu.getReg8 2
    if row < vram.rows ∧ col < vram.cols then
      { s with vram := { vram with cursorRow := row, cursorCol := col } }
    else s
  else if ah = 0x03 then
    let cpu := cpu.setReg8 6 vram.cursorRow
    let cpu := cpu.setReg8 2 vram.cursorCol
    { s with cpu := cpu.setReg 1 0x0607 }
  else if ah = 0x06 ∨ ah = 0x07 then
    let lines := cpu.getReg8 0
    let attr := cpu.getReg8 7
    let r1 := cpu.getReg8 5
    let c1 := cpu.getReg8 1
    let r2 := cpu.getReg8 6
    let c2 := cpu.getReg8 2
    let r2 := if r2 ≥ vram.rows then (vram.rows - 1) % 256 else r2
    let c2 := if c2 ≥ vram.cols then (vram.cols - 1) % 256 else c2
    if r1 > r2 ∨ c1 > c2 then s
    else
      { s with mem := { s.mem with vram := scrollWindow vram s.mem.vram ah lines attr r1 c1 r2 c2,
                                   vramDirty := true } }
  else if ah = 0x08 then
    let off := vram.cursorOffset
    if off + 1 < 8000 then
      { s with cpu := (cpu.setReg8 0 (s.mem.vram off)).setReg8 4 (s.mem.vram (off + 1)) }
    else s
  else if ah = 0x09 then
    let ch := cpu.getReg8 0
    let attr := cpu.getReg8 3
    let count := cpu.regs 1
    { s with mem := { s.mem with vram := writeCells vram.cursorOffset ch attr count 0 s.mem.vram,
                                 vramDirty := true } }
  else if ah = 0x0A then
    let ch := cpu.getReg8 0
    let cx := cpu.regs 1
    { s with mem := { s.mem with
                      vram := writeChars vram ch cx vram.cursorCol vram.cursorRow s.mem.vram,
                      vramDirty := true } }
  else if ah = 0x0E then
    let (m, v) := ttyCharToVRAM s.mem vram (cpu.getReg8 0)
    { s with mem := m, vram := v }
  else if ah = 0x0F then
    { s with cpu := ((cpu.setReg8 0 3).setReg8 4 80).setReg8 7 0 }
  else
    let rec_ : SkippedRecord := ⟨cpu.ip, "INT 10h AH=" ++ hexByte ah, "Unimplemented Video function", 1⟩
    { s with result := { s.result with skipped := s.result.skipped ++ [rec_] } }

/-- Output limit `MAX_OUTPUT` of `handleInt21`. -/
def MAX_OUTPUT : Nat := 4096

/-- Append one character to the captured stdout (when below the limit) and send it to the
teletype. -/
def putChar (s : EmuState) (ch : Nat) : EmuState :=
  let io := if s.io.stdoutBuf.length < MAX_OUTPUT
    then { s.io with stdoutBuf := s.io.stdoutBuf ++ [ch % 256] } else s.io
  let (m, v) := ttyCharToVRAM s.mem s.vram (ch % 256)
  { s with io := io, mem := m, vram := v }

/-- INT 21h AH=09h loop over at most 65536 characters of a `$`-terminated string. -/
def printString (seg off : Nat) : Nat → Nat → Bool → EmuState → EmuState
  | 0, _, _, s => s
  | n + 1, i, truncated, s =>
    let ch := s.mem.sread8 seg ((off + i) % 65536)
    if ch = 36 then s
    else
      let (io, result, truncated) : IOCapture × EmulatorResult × Bool :=
        if s.io.stdoutBuf.length < MAX_OUTPUT then
          ({ s.io with stdoutBuf := s.io.stdoutBuf ++ [ch % 256] }, s.result, truncated)
        else if ¬ truncated then
          (s.io, { s.result with diagnostics := s.result.diagnostics ++
            ["Output truncated at " ++ Nat.repr MAX_OUTPUT
              ++ " bytes (no '$' terminator found - possible bad pointer in DX="
              ++ hexImm16 off ++ ")"] }, true)
        else (s.io, s.result, truncated)
      let (m, v) := ttyCharToVRAM s.mem s.vram ch
      printString seg off n (i + 1) truncated { s with io := io, result := result, mem := m, vram := v }

/-- Function `handleInt21`. -/
def handleInt21 (s : EmuState) : EmuState :=
  let cpu := s.cpu
  let ah := cpu.getReg8 4
  if ah = 0x01 then
    let (ch, io) := s.io.readChar
    let ch : Int := if ch < 0 then 0x0D else ch
    let s := { s with io := io, cpu := cpu.setReg8 0 (toU8 ch) }
    putChar s (toU8 ch)
  else if ah = 0x02 then putChar s (cpu.getReg8 2)
  else if ah = 0x06 then
    let dl := cpu.getReg8 2
    if dl = 0xFF then
      let (ch, io) := s.io.readChar
      if ch < 0 then { s with io := io, cpu := (cpu.setFlag CPU.ZF true).setReg8 0 0 }
      else { s with io := io, cpu := (cpu.setFlag CPU.ZF false).setReg8 0 (toU8 ch) }
    else putChar s dl
  else if ah = 0x09 then printString (cpu.sregs 3) (cpu.regs 2) 65536 0 false s
  else if ah = 0x4C then
    let code : Int := (cpu.getReg8 0 : Nat)
    let reason := "INT 21h/4Ch exit (code=" ++ intToString code ++ ")"
    { s with io := { s.io with exitCode := code },
             result := { s.result with halted := true, haltReason := reason, exitCode := code } }
  else if ah = 0x2A then
    { s with cpu := (((cpu.setReg 1 2026).setReg8 6 2).setReg8 2 13).setReg8 0 5 }
  else if ah = 0x2C then
    { s with cpu := (((cpu.setReg8 4 12).setReg8 1 0).setReg8 6 0).setReg8 2 0 }
  else if ah = 0x30 then
    { s with cpu := (cpu.setReg8 0 5).setReg8 4 0 }
  else
    let rec_ : SkippedRecord := ⟨cpu.ip, "INT 21h AH=" ++ hexByte ah, "Unimplemented DOS function", 1⟩
    { s with result := { s.result with skipped := s.result.skipped ++ [rec_] } }

/-- Function `handleInterrupt`. -/
def handleInterrupt (s : EmuState) (intNum : Nat) : EmuState :=
  if intNum = 0x20 then
    let reason := "INT 20h program terminate"
    { s with result := { s.result with halted := true, haltReason := reason, exitCode := 0 } }
  else if intNum = 0x21 then handleInt21 s
  else if intNum = 0x10 then handleInt10 s
  else
    let rec_ : SkippedRecord := ⟨s.cpu.ip, "INT " ++ hexByte intNum, "Unimplemented interrupt", 1⟩
    { s with result := { s.result with skipped := s.result.skipped ++ [rec_] } }

/-! ## Instruction execution -/

/-- Reinterpretation of an 8-bit value as `int8_t`. -/
def toInt8 (b : Nat) : Int := if b % 256 ≥ 128 then ((b % 256 : Nat) : Int) - 256 else (b % 256 : Nat)

/-- Wrap-around of `uint32_t` arithmetic. -/
def toU32 (v : Int) : Nat := (v % 4294967296).toNat

/-- The ALU branch of `executeInstruction` after both operands are read: the CPU with the
new flags and the value written back to the first operand (`none` for CMP and TEST). -/
def execALU (cpu : CPU) (mn : String) (a b : Nat) (wide : Bool) : CPU × Option Nat :=
  let mask := if wide then 0xFFFF else 0xFF
  if mn = "ADD" then
    let res := a + b
    (updateFlagsAdd cpu res a b wide, some ((res &&& mask) % 65536))
  else if mn = "ADC" then
    let cf : Nat := if cpu.getFlag CPU.CF then 1 else 0
    let res := a + b + cf
    (updateFlagsAdd cpu res a ((b + cf) % 65536) wide, some ((res &&& mask) % 65536))
  else if mn = "SUB" then
    let res := toU32 ((a : Int) - b)
    (updateFlagsSub cpu res a b wide, some ((res &&& mask) % 65536))
  else if mn = "SBB" then
    let cf : Nat := if cpu.getFlag CPU.CF then 1 else 0
    let res := toU32 ((a : Int) - b - cf)
    (updateFlagsSub cpu res a ((b + cf) % 65536) wide, some ((res &&& mask) % 65536))
  else if mn = "CMP" then
    let res := toU32 ((a : Int) - b)
    (updateFlagsSub cpu res a b wide, none)
  else if mn = "AND" then
    let res := a &&& b
    (updateFlagsLogic cpu (res % 65536) wide, some ((res &&& mask) % 65536))
  else if mn = "OR" then
    let res := a ||| b
    (updateFlagsLogic cpu (res % 65536) wide, some ((res &&& mask) % 65536))
  else if mn = "XOR" then
    let res := a ^^^ b
    (updateFlagsLogic cpu (res % 65536) wide, some ((res &&& mask) % 65536))
  else
    let res := a &&& b
    (updateFlagsLogic cpu (res % 65536) wide, none)

/-- A `for (i = 0; i < cnt; i++)` loop over a state. -/
def repeatN {α : Type} (f : α → α) : Nat → α → α
  | 0, x => x
  | n + 1, x => repeatN f n (f x)

/-- The shift/rotate branch of `executeInstruction` for a count `cnt > 0`: new CPU flags and
the result value. -/
def execShift (cpu : CPU) (mn : String) (val cnt : Nat) (wide : Bool) : CPU × Nat :=
  let mask := if wide then 0xFFFF else 0xFF
  let signBit := if wide then 0x8000 else 0x80
  if mn = "SHL" then
    let (cpu, res) := repeatN (fun (p : CPU × Nat) =>
      (p.1.setFlag CPU.CF (p.2 &&& signBit ≠ 0), ((p.2 <<< 1) &&& mask) % 65536)) cnt (cpu, val)
    let cpu := if cnt = 1 then cpu.setFlag CPU.OF (decide (res &&& signBit ≠ 0) != cpu.getFlag CPU.CF)
      else cpu
    let cpu := cpu.setFlag CPU.ZF (res &&& mask = 0)
    let cpu := cpu.setFlag CPU.SF (res &&& signBit ≠ 0)
    (cpu.setFlag CPU.PF (parity8 (res &&& 0xFF)), res)
  else if mn = "SHR" then
    let cpu := if cnt = 1 then cpu.setFlag CPU.OF (val &&& signBit ≠ 0) else cpu
    let (cpu, res) := repeatN (fun (p : CPU × Nat) =>
      (p.1.setFlag CPU.CF (p.2 &&& 1 ≠ 0), ((p.2 >>> 1) &&& mask) % 65536)) cnt (cpu, val)
    let cpu := cpu.setFlag CPU.ZF (res &&& mask = 0)
    let cpu := cpu.setFlag CPU.SF (res &&& signBit ≠ 0)
    (cpu.setFlag CPU.PF (parity8 (res &&& 0xFF)), res)
  else if mn = "SAR" then
    let cpu := if cnt = 1 then cpu.setFlag CPU.OF false else cpu
    let (cpu, res) := repeatN (fun (p : CPU × Nat) =>
      (p.1.setFlag CPU.CF (p.2 &&& 1 ≠ 0),
       if wide then toU16 (toInt16 p.2 / 2) else toU8 (toInt8 p.2 / 2))) cnt (cpu, val)
    let res := res &&& mask
    let cpu := cpu.setFlag CPU.ZF (res = 0)
    let cpu := cpu.setFlag CPU.SF (res &&& signBit ≠ 0)
    (cpu.setFlag CPU.PF (parity8 (res &&& 0xFF)), res)
  else if mn = "ROL" then
    let res := repeatN (fun (r : Nat) =>
      (((r <<< 1) ||| (if r &&& signBit ≠ 0 then 1 else 0)) &&& mask) % 65536) cnt val
    let cpu := cpu.setFlag CPU.CF (res &&& 1 ≠ 0)
    (if cnt = 1 then cpu.setFlag CPU.OF (decide (res &&& signBit ≠ 0) != cpu.getFlag CPU.CF) else cpu, res)
  else if mn = "ROR" then
    let res := repeatN (fun (r : Nat) =>
      let r1 := ((r >>> 1) &&& mask) % 65536
      if r &&& 1 ≠ 0 then r1 ||| signBit else r1) cnt val
    let cpu := cpu.setFlag CPU.CF (res &&& signBit ≠ 0)
    (if cnt = 1 then
       cpu.setFlag CPU.OF (decide (res &&& signBit ≠ 0) != decide (res &&& (signBit >>> 1) ≠ 0))
     else cpu, res)
  else if mn = "RCL" then
    let (cpu, res) := repeatN (fun (p : CPU × Nat) =>
      (p.1.setFlag CPU.CF (p.2 &&& signBit ≠ 0),
       (((p.2 <<< 1) ||| (if p.1.getFlag CPU.CF then 1 else 0)) &&& mask) % 65536)) cnt (cpu, val)
    (if cnt = 1 then cpu.setFlag CPU.OF (decide (res &&& signBit ≠ 0) != cpu.getFlag CPU.CF) else cpu, res)
  else
    let (cpu, res) := repeatN (fun (p : CPU × Nat) =>
      let r1 := ((p.2 >>> 1) &&& mask) % 65536
      (p.1.setFlag CPU.CF (p.2 &&& 1 ≠ 0), if p.1.getFlag CPU.CF then r1 ||| signBit else r1))
      cnt (cpu, val)
    (if cnt = 1 then
       cpu.setFlag CPU.OF (decide (res &&& signBit ≠ 0) != decide (res &&& (signBit >>> 1) ≠ 0))
     else cpu, res)

/-- Halt the run with a reason (`result.halted = true; result.haltReason = ...`). -/
def haltWith (s : EmuState) (reason : String) : EmuState :=
  { s with result := { s.result with halted := true, haltReason := reason } }

def addSkipped (s : EmuState) (instruction reason : String) : EmuState :=
  let rec_ : SkippedRecord := ⟨s.cpu.ip, instruction, reason, 1⟩
  { s with result := { s.result with skipped := s.result.skipped ++ [rec_] } }

/-- `cpu.regs[i] += d` on a `uint16_t` register, `d` possibly negative. -/
def addReg (cpu : CPU) (i : Nat) (d : Int) : CPU := cpu.setReg i (toU16 ((cpu.regs i : Int) + d))

/-- Push a word: `SP -= 2; mem.write16(SP, val)`. -/
def push16 (s : EmuState) (val : Nat) : EmuState :=
  let cpu := addReg s.cpu 4 (-2)
  { s with cpu := cpu, mem := s.mem.write16 (cpu.regs 4) val }

/-- The lambda `doOne` of the string operations. -/
def doOne (s : EmuState) (inst : DecodedInst) : EmuState :=
  let mn := inst.mnemonic
  let cpu := s.cpu
  let mem := s.mem
  let isWord : Bool := lastChar mn = 'W'
  let step : Int := if isWord then 2 else 1
  let dir : Int := if cpu.getFlag CPU.DF then -step else step
  let srcSeg := resolveSegment cpu inst.op1 inst.segOverride
  let dstSeg := cpu.sregs 0
  let kind := String.mk (mn.data.take 4)
  if kind = "MOVS" then
    let mem := if isWord then mem.swrite16 dstSeg (cpu.regs 7) (mem.sread16 srcSeg (cpu.regs 6))
      else mem.swrite8 dstSeg (cpu.regs 7) (mem.sread8 srcSeg (cpu.regs 6))
    { s with mem := mem, cpu := addReg (addReg cpu 6 dir) 7 dir, memDirty := true }
  else if kind = "CMPS" then
    let a := if isWord then mem.sread16 srcSeg (cpu.regs 6) else mem.sread8 srcSeg (cpu.regs 6)
    let b := if isWord then mem.sread16 dstSeg (cpu.regs 7) else mem.sread8 dstSeg (cpu.regs 7)
    let cpu := updateFlagsSub cpu (toU32 ((a : Int) - b)) a b isWord
    { s with cpu := addReg (addReg cpu 6 dir) 7 dir }
  else if kind = "STOS" then
    let mem := if isWord then mem.swrite16 dstSeg (cpu.regs 7) (cpu.regs 0)
      else mem.swrite8 dstSeg (cpu.regs 7) (cpu.getReg8 0)
    { s with mem := mem, cpu := addReg cpu 7 dir, memDirty := true }
  else if kind = "LODS" then
    let cpu := if isWord then cpu.setReg 0 (mem.sread16 srcSeg (cpu.regs 6))
      else cpu.setReg8 0 (mem.sread8 srcSeg (cpu.regs 6))
    { s with cpu := addReg cpu 6 dir }
  else if kind = "SCAS" then
    let a := if isWord then cpu.regs 0 else cpu.getReg8 0
    let b := if isWord then mem.sread16 dstSeg (cpu.regs 7) else mem.sread8 dstSeg (cpu.regs 7)
    let cpu := updateFlagsSub cpu (toU32 ((a : Int) - b)) a b isWord
    { s with cpu := addReg cpu 7 dir }
  else s

/-- The `while (cpu.regs[1] != 0)` loop of a REP-prefixed string operation. -/
def repLoop (inst : DecodedInst) (isCompare : Bool) : Nat → EmuState → EmuState
  | 0, s => s
  | n + 1, s =>
    if s.cpu.regs 1 ≠ 0 then
      let s := doOne s inst
      let s := { s with cpu := addReg s.cpu 1 (-1) }
      if isCompare ∧ inst.hasRep ∧ ¬ s.cpu.getFlag CPU.ZF then s
      else if isCompare ∧ inst.hasRepne ∧ s.cpu.getFlag CPU.ZF then s
      else repLoop inst isCompare n s
    else s

def isStringOp (mn : String) : Bool :=
  mn = "MOVSB" ∨ mn = "MOVSW" ∨ mn = "CMPSB" ∨ mn = "CMPSW" ∨ mn = "STOSB" ∨ mn = "STOSW"
    ∨ mn = "LODSB" ∨ mn = "LODSW" ∨ mn = "SCASB" ∨ mn = "SCASW"

/-- DIV and IDIV of `executeInstruction`, `val` being the operand already read. The signed
divisions are the truncated divisions of the integers; the `int32_t` division of -2^31 by -1,
which has no defined result in C++, is singled out by `idivUndefined` below: there the
"Division overflow" of this definition is no behaviour of the source (`undefinedStep`). -/
def execDiv (s : EmuState) (inst : DecodedInst) (val : Nat) : EmuState :=
  let cpu := s.cpu
  if val = 0 then haltWith s "Division by zero"
  else if inst.mnemonic = "DIV" then
    if inst.wide then
      let dividend := ((cpu.regs 2 <<< 16) ||| cpu.regs 0) % 4294967296
      let quot := dividend / val
      let rem := (dividend % val) % 65536
      if quot > 0xFFFF then haltWith s "Division overflow"
      else { s with cpu := (cpu.setReg 0 quot).setReg 2 rem }
    else
      let dividend := cpu.regs 0
      let divisor := val &&& 0xFF
      let quot := (dividend / divisor) % 65536
      let rem := (dividend % divisor) % 256
      if quot > 0xFF then haltWith s "Division overflow"
      else { s with cpu := (cpu.setReg8 0 quot).setReg8 4 rem }
  else
    if inst.wide then
      let d0 := ((cpu.regs 2 <<< 16) ||| cpu.regs 0) % 4294967296
      let dividend : Int := if d0 ≥ 2147483648 then (d0 : Int) - 4294967296 else d0
      let divisor := toInt16 val
      let quot := Int.tdiv dividend divisor
      let rem := toInt16 (toU16 (Int.tmod dividend divisor))
      if quot > 32767 ∨ quot < -32768 then haltWith s "Division overflow"
      else { s with cpu := (cpu.setReg 0 (toU16 quot)).setReg 2 (toU16 rem) }
    else
      let dividend := toInt16 (cpu.regs 0)
      let divisor := toInt8 (val &&& 0xFF)
      let quot := toInt16 (toU16 (Int.tdiv dividend divisor))
      let rem := toInt8 (toU8 (Int.tmod dividend divisor))
      if quot > 127 ∨ quot < -128 then haltWith s "Division overflow"
      else { s with cpu := (cpu.setReg8 0 (toU8 quot)).setReg8 4 (toU8 rem) }

/-- Function `executeInstruction`. -/
def executeInstruction (s : EmuState) (inst : DecodedInst) : EmuState :=
  let mn := inst.mnemonic
  let cpu := s.cpu
  let mem := s.mem
  let so := inst.segOverride
  if mn = "ADD" ∨ mn = "ADC" ∨ mn = "SUB" ∨ mn = "SBB" ∨ mn = "CMP" ∨ mn = "AND" ∨ mn = "OR"
      ∨ mn = "XOR" ∨ mn = "TEST" then
    let a := readOperand cpu mem inst.op1 so
    let b := readOperand cpu mem inst.op2 so
    let (cpu1, w) := execALU cpu mn a b inst.wide
    match w with
    | some v => writeOperand { s with cpu := cpu1 } inst.op1 v so
    | none => { s with cpu := cpu1 }
  else if mn = "INC" ∨ mn = "DEC" then
    let val := readOperand cpu mem inst.op1 so
    let mask := if inst.wide then 0xFFFF else 0xFF
    let savedCF := cpu.getFlag CPU.CF
    let res := if mn = "INC" then val + 1 else toU32 ((val : Int) - 1)
    let cpu1 := if mn = "INC" then updateFlagsAdd cpu res val 1 inst.wide
      else updateFlagsSub cpu res val 1 inst.wide
    let s1 := writeOperand { s with cpu := cpu1 } inst.op1 ((res &&& mask) % 65536) so
    { s1 with cpu := s1.cpu.setFlag CPU.CF savedCF }
  else if mn = "NOT" then
    let val := readOperand cpu mem inst.op1 so
    let mask := if inst.wide then 0xFFFF else 0xFF
    writeOperand s inst.op1 (((4294967295 - val) &&& mask) % 65536) so
  else if mn = "NEG" then
    let val := readOperand cpu mem inst.op1 so
    let mask := if inst.wide then 0xFFFF else 0xFF
    let res := toU32 (0 - (val : Int))
    let cpu1 := (updateFlagsSub cpu res 0 val inst.wide).setFlag CPU.CF (val ≠ 0)
    writeOperand { s with cpu := cpu1 } inst.op1 ((res &&& mask) % 65536) so
  else if mn = "MUL" then
    let val := readOperand cpu mem inst.op1 so
    if inst.wide then
      let res := (cpu.regs 0 * val) % 4294967296
      let cpu1 := (cpu.setReg 0 (res &&& 0xFFFF)).setReg 2 (res >>> 16)
      let hi : Bool := cpu1.regs 2 ≠ 0
      { s with cpu := (cpu1.setFlag CPU.CF hi).setFlag CPU.OF hi }
    else
      let res := (cpu.getReg8 0 * (val &&& 0xFF)) % 65536
      let cpu1 := cpu.setReg 0 res
      let hi : Bool := res >>> 8 ≠ 0
      { s with cpu := (cpu1.setFlag CPU.CF hi).setFlag CPU.OF hi }
  else if mn = "IMUL" then
    let val := readOperand cpu mem inst.op1 so
    if inst.wide then
      let res : Int := toInt16 (cpu.regs 0) * toInt16 val
      let cpu1 := (cpu.setReg 0 (toU16 res)).setReg 2 (toU32 res >>> 16)
      let ext : Bool := toInt16 (cpu1.regs 0) ≠ res
      { s with cpu := (cpu1.setFlag CPU.CF ext).setFlag CPU.OF ext }
    else
      let res : Int := toInt8 (cpu.getReg8 0) * toInt8 (val &&& 0xFF)
      let cpu1 := cpu.setReg 0 (toU16 res)
      let ext : Bool := toInt8 (toU8 res) ≠ res
      { s with cpu := (cpu1.setFlag CPU.CF ext).setFlag CPU.OF ext }
  else if mn = "DIV" ∨ mn = "IDIV" then
    execDiv s inst (readOperand cpu mem inst.op1 so)
  else if mn = "SHL" ∨ mn = "SHR" ∨ mn = "SAR" ∨ mn = "ROL" ∨ mn = "ROR" ∨ mn = "RCL"
      ∨ mn = "RCR" then
    let val := readOperand cpu mem inst.op1 so
    let cnt := readOperand cpu mem inst.op2 so &&& 0x1F
    if cnt = 0 then s
    else
      let mask := if inst.wide then 0xFFFF else 0xFF
      let (cpu1, res) := execShift cpu mn val cnt inst.wide
      writeOperand { s with cpu := cpu1 } inst.op1 ((res &&& mask) % 65536) so
  else if mn = "MOV" then
    writeOperand s inst.op1 (readOperand cpu mem inst.op2 so) so
  else if mn = "XCHG" then
    let a := readOperand cpu mem inst.op1 so
    let b := readOperand cpu mem inst.op2 so
    writeOperand (writeOperand s inst.op1 b so) inst.op2 a so
  else if mn = "LEA" then
    writeOperand s inst.op1 (calcEffectiveAddress cpu inst.op2) (-1)
  else if mn = "PUSH" then
    { push16 s (readOperand cpu mem inst.op1 so) with memDirty := true }
  else if mn = "POP" then
    let val := mem.read16 (cpu.regs 4)
    writeOperand { s with cpu := addReg cpu 4 2 } inst.op1 val so
  else if mn = "JMP" then
    if inst.jumpTarget ≥ 0 then { s with cpu := { cpu with ip := toU16 inst.jumpTarget } }
    else { s with cpu := { cpu with ip := readOperand cpu mem inst.op1 so } }
  else if mn = "CALL" then
    let s1 := { push16 s cpu.ip with memDirty := true }
    if inst.jumpTarget ≥ 0 then { s1 with cpu := { s1.cpu with ip := toU16 inst.jumpTarget } }
    else { s1 with cpu := { s1.cpu with ip := readOperand s1.cpu s1.mem inst.op1 so } }
  else if mn = "RET" then
    { s with cpu := addReg { cpu with ip := mem.read16 (cpu.regs 4) } 4 2 }
  else if mn.data.length ≥ 2 ∧ firstChar mn = 'J' ∧ mn ≠ "JMP" ∧ inst.jumpTarget ≥ 0 then
    if evalCondition cpu mn then { s with cpu := { cpu with ip := toU16 inst.jumpTarget } } else s
  else if mn = "LOOP" ∨ mn = "LOOPE" ∨ mn = "LOOPNE" ∨ mn = "JCXZ" then
    if mn = "JCXZ" then
      if cpu.regs 1 = 0 then { s with cpu := { cpu with ip := toU16 inst.jumpTarget } } else s
    else
      let cpu1 := addReg cpu 1 (-1)
      let branch : Bool :=
        if mn = "LOOP" then cpu1.regs 1 ≠ 0
        else if mn = "LOOPE" then cpu1.regs 1 ≠ 0 ∧ cpu1.getFlag CPU.ZF
        else if mn = "LOOPNE" then cpu1.regs 1 ≠ 0 ∧ ¬ cpu1.getFlag CPU.ZF
        else false
      if branch then { s with cpu := { cpu1 with ip := toU16 inst.jumpTarget } }
      else { s with cpu := cpu1 }
  else if isStringOp mn then
    let hasRepPrefix : Bool := inst.hasRep ∨ inst.hasRepne
    let kind := String.mk (mn.data.take 4)
    let isCompare : Bool := kind = "CMPS" ∨ kind = "SCAS"
    if hasRepPrefix then repLoop inst isCompare 65536 s else doOne s inst
  else if mn = "CLC" then { s with cpu := cpu.setFlag CPU.CF false }
  else if mn = "STC" then { s with cpu := cpu.setFlag CPU.CF true }
  else if mn = "CMC" then { s with cpu := cpu.setFlag CPU.CF (!cpu.getFlag CPU.CF) }
  else if mn = "CLD" then { s with cpu := cpu.setFlag CPU.DF false }
  else if mn = "STD" then { s with cpu := cpu.setFlag CPU.DF true }
  else if mn = "CLI" then { s with cpu := cpu.setFlag CPU.IF_ false }
  else if mn = "STI" then { s with cpu := cpu.setFlag CPU.IF_ true }
  else if mn = "PUSHF" then { push16 s cpu.flags with memDirty := true }
  else if mn = "POPF" then
    { s with cpu := addReg { cpu with flags := mem.read16 (cpu.regs 4) } 4 2 }
  else if mn = "NOP" then s
  else if mn = "CBW" then { s with cpu := cpu.setReg 0 (toU16 (toInt8 (cpu.getReg8 0))) }
  else if mn = "CWD" then
    { s with cpu := cpu.setReg 2 (if toInt16 (cpu.regs 0) < 0 then 0xFFFF else 0x0000) }
  else if mn = "LAHF" then { s with cpu := cpu.setReg8 4 (cpu.flags &&& 0xFF) }
  else if mn = "SAHF" then
    { s with cpu := { cpu with flags := ((cpu.flags &&& 0xFF00) ||| cpu.getReg8 4) % 65536 } }
  else if mn = "XLAT" then
    let addr := (cpu.regs 3 + cpu.getReg8 0) % 65536
    { s with cpu := cpu.setReg8 0 (mem.sread8 (cpu.sregs 3) addr) }
  else if mn = "HLT" then
    haltWith s ("HLT instruction at " ++ hexImm16 (toU16 ((cpu.ip : Int) - inst.size)))
  else if mn = "PUSHA" then
    let origSP := cpu.regs 4
    let s1 := [0, 1, 2, 3, 4, 5, 6, 7].foldl
      (fun (st : EmuState) r => push16 st (if r = 4 then origSP else st.cpu.regs r)) s
    { s1 with memDirty := true }
  else if mn = "POPA" then
    let pop := fun (c : CPU) (r : Nat) => addReg (c.setReg r (mem.read16 (c.regs 4))) 4 2
    let c := pop (pop (pop cpu 7) 6) 5
    let c := addReg c 4 2
    { s with cpu := pop (pop (pop (pop c 3) 2) 1) 0 }
  else if mn = "INT" then handleInterrupt s (toU8 inst.op1.disp)
  else if mn = "IN" ∨ mn = "OUT" then addSkipped s (formatInstruction inst) "I/O not emulated"
  else addSkipped s mn "Unimplemented instruction"

/-! ## Breakpoints, watchpoints and the main loop -/

/-- Function `captureViewport`: text rows and (when requested) attribute rows. -/
def captureViewport (mem : Memory) (config : EmulatorConfig) : List String × List String :=
  if ¬ config.hasViewport then ([], [])
  else
    let rows := (List.range config.vpHeight).filter (fun r => config.vpRow + r < 50)
    let cells := fun (r : Nat) =>
      (List.range config.vpWidth).filter (fun c => config.vpCol + c < 80) |>.map
        (fun c => ((config.vpRow + r) * 80 + (config.vpCol + c)) * 2)
    let text := rows.map fun r => String.mk ((cells r).map fun off =>
      let ch := mem.vram off
      if ch ≥ 0x20 ∧ ch < 0x7F then Char.ofNat ch else '.')
    let attrs := if config.vpAttrs
      then rows.map fun r => String.join ((cells r).map fun off => hexPad 2 (mem.vram (off + 1)))
      else []
    (text, attrs)

/-- Function `captureSnapshot`. -/
def captureSnapshot (cpu : CPU) (mem : Memory) (code : List Nat) (cycle : Nat) (reason : String)
    (config : EmulatorConfig) (vram : VRAMState) (snapshots : List Snapshot) : List Snapshot :=
  if snapshots.length ≥ 100 then snapshots
  else
    let inst := decodeInstruction code cpu.ip
    let sp := cpu.regs 4
    let ss := cpu.sregs 2
    let vp := captureViewport mem config
    snapshots ++ [{
      addr := cpu.ip, cycle := cycle,
      regs := (List.range 8).map cpu.regs, sregs := (List.range 4).map cpu.sregs,
      ip := cpu.ip, flags := cpu.flags,
      nextInst := if inst.valid then formatInstruction inst else "???",
      stack := (List.range 8).map (fun i => mem.sread16 ss ((sp + i * 2) % 65536)),
      memDump := (List.range config.memDumpLen).map (fun i => mem.read8 ((config.memDumpAddr + i) % 65536)),
      hitCount := 1, reason := reason,
      screenLines := vp.1, screenAttrs := vp.2,
      snapCursorRow := vram.cursorRow, snapCursorCol := vram.cursorCol }]

/-- Increment `hitCount` of the last snapshot taken at `addr`. -/
def bumpLastHit (addr : Nat) (snaps : List Snapshot) : List Snapshot :=
  let rec go : List Snapshot → List Snapshot × Bool
    | [] => ([], false)
    | sn :: rest =>
      let (rest1, done) := go rest
      if done then (sn :: rest1, true)
      else if sn.addr = addr then ({ sn with hitCount := sn.hitCount + 1 } :: rest1, true)
      else (sn :: rest1, false)
  (go snaps).1

/-- Function `checkBreakpoints`. -/
def checkBreakpoints (s : EmuState) (code : List Nat) (config : EmulatorConfig) (cycle : Nat) :
    EmuState :=
  let ip := s.cpu.ip
  if ip ∈ config.breakpoints then
    let hits := (s.result.snapshots.filter
      (fun sn => sn.addr = ip ∧ "Breakpoint".data <:+: sn.reason.data)).length
    if hits < 10 then
      let snaps := captureSnapshot s.cpu s.mem code cycle ("Breakpoint at " ++ hexImm16 ip)
        config s.vram s.result.snapshots
      { s with result := { s.result with snapshots := snaps } }
    else { s with result := { s.result with snapshots := bumpLastHit ip s.result.snapshots } }
  else s

/-- Function `checkWatchpoints`; the watched registers are visited in the order of the set. -/
def checkWatchpoints (s : EmuState) (prevRegs : Nat → Nat) (code : List Nat)
    (config : EmulatorConfig) (cycle : Nat) : EmuState :=
  config.watchRegs.foldl (fun st regIdx =>
    if st.cpu.regs regIdx ≠ prevRegs regIdx then
      let msg := "Watchpoint: " ++ getRegName regIdx 16 ++ " changed from "
        ++ hexImm16 (prevRegs regIdx) ++ " to " ++ hexImm16 (st.cpu.regs regIdx)
      let snaps := captureSnapshot st.cpu st.mem code cycle msg config st.vram st.result.snapshots
      { st with result := { st.result with snapshots := snaps } }
    else st) s

/-- The `while (cycle < config.maxCycles)` loop of `runEmulator`; the fuel is the number of
cycles still allowed.  Returns the cycle counter and the state. -/
def emuLoop (code : List Nat) (config : EmulatorConfig) : Nat → Nat → EmuState → Nat × EmuState
  | 0, cycle, s => (cycle, s)
  | n + 1, cycle, s =>
    let prevRegs := s.cpu.regs
    let s := if config.breakpoints ≠ [] then checkBreakpoints s code config cycle else s
    let inst := decodeInstruction code s.cpu.ip
    if ¬ inst.valid then (cycle, haltWith s ("Invalid opcode at " ++ hexImm16 s.cpu.ip))
    else
      let s := { s with cpu := { s.cpu with ip := (s.cpu.ip + inst.size) % 65536 } }
      let s := executeInstruction s inst
      let cycle := cycle + 1
      if s.result.halted then (cycle, s)
      else
        let s := if config.watchRegs ≠ [] then checkWatchpoints s prevRegs code config cycle else s
        emuLoop code config n cycle s

/-- The machine state `runEmulator` starts the loop from. -/
def initialState (binary : List Nat) (config : EmulatorConfig) : EmuState :=
  let cpu := { CPU.init with ip := 0x100, regs := setAt CPU.init.regs 4 0xFFFE, flags := 0x0202,
                             sregs := setAt CPU.init.sregs 3 0 }
  let (vram, mem) := VRAMState.init.clearScreen Memory.init
  let mem := mem.loadCOM binary
  let mem := (mem.write8 0x0000 0xCD).write8 0x0001 0x20
  { cpu := cpu, mem := mem,
    io := { stdoutBuf := [], stdinSource := config.stdinInput, stdinPos := 0, exitCode := 0 },
    result := EmulatorResult.init, memDirty := false, vram := vram }

/-- Function `runEmulator`: the result and the final CPU (`cpuOut`). -/
def runEmulator (binary : List Nat) (config : EmulatorConfig) : EmulatorResult × CPU :=
  let s0 := initialState binary config
  let code := (List.range 65536).map s0.mem.data
  let (cycle, s) := emuLoop code config config.maxCycles.toNat 0 s0
  let result :=
    if ¬ s.result.halted ∧ (cycle : Int) ≥ config.maxCycles then
      { s.result with halted := true,
                      haltReason := "Cycle limit reached (" ++ intToString config.maxCycles ++ ")" }
    else s.result
  let vp := captureViewport s.mem config
  ({ result with success := true, cyclesExecuted := cycle, output := s.io.stdoutBuf,
                 screen := vp.1, screenAttrs := vp.2,
                 cursorRow := s.vram.cursorRow, cursorCol := s.vram.cursorCol }, s.cpu)

/-! ## Closed forms used in the statements -/

/-- The bytes `emitModRM` produces for a memory operand, as one list. -/
def modRMBytes (g : Nat) (mem : Operand) : List Nat :=
  if mem.memReg = -1 then [0x06 ||| (g <<< 3), toU16 mem.val % 256, toU16 mem.val / 256]
  else if modOf mem = 1 then [(1 <<< 6) ||| (g <<< 3) ||| mem.memReg.toNat, toU8 mem.val]
  else if modOf mem = 2 then
    [(2 <<< 6) ||| (g <<< 3) ||| mem.memReg.toNat, toU16 mem.val % 256, toU16 mem.val / 256]
  else [(0 <<< 6) ||| (g <<< 3) ||| mem.memReg.toNat]

/-- A pass-2 context with nothing emitted yet. -/
def pass2Ctx : AssemblerContext := { AssemblerContext.init with isPass1 := false }

/-- A memory operand `[rm + val]` without size prefix, as `parseOperand` builds it. -/
def memOperand (rm val : Int) (sym : Bool) : Operand :=
  { Operand.empty with type := .MEMORY, size := 16, memReg := rm, val := val, present := true,
                       involvesSymbol := sym }

/-- The displacement the decoder reads back from the bytes of `emitModRM`. -/
def decodedDisp (mem : Operand) : Int :=
  if mem.memReg = -1 then (toU16 mem.val : Int)
  else if modOf mem = 1 then mem.val
  else if modOf mem = 2 then toInt16 (toU16 mem.val)
  else 0

/-- An immediate operand with value `v`, as `parseOperand` builds it. -/
def immOperand (v : Int) : Operand :=
  { Operand.empty with type := .IMMEDIATE, val := v, present := true }

/-- The instruction texts and offsets the disassembler lists for a buffer. -/
def disasmListing (code : List Nat) : List (Nat × String) :=
  (disassemble code).1.map (fun r => (r.addr, r.asm))

/-- Bytes of `MOV mem, imm`: C6/C7, the ModR/M bytes with extension 0, the immediate. -/
def movMemImmBytes (op1 : Operand) (v : Int) : List Nat :=
  if op1.size = 8 then 0xC6 :: (modRMBytes 0 op1 ++ [toU8 v])
  else 0xC7 :: (modRMBytes 0 op1 ++ [toU16 v % 256, toU16 v / 256])

/-- A memory operand `BYTE [rm + val]`, as `parseOperand` builds it. -/
def byteMemOperand (rm val : Int) : Operand :=
  { memOperand rm val false with size := 8, hasExplicitSize := true }

/-- Opcodes of the short relative branches: the table `jccOpcodes` and the LOOP family. -/
def shortBranchOpcodes : List (String × Nat) :=
  jccOpcodes ++ [("LOOP", 0xE2), ("LOOPE", 0xE1), ("LOOPZ", 0xE1), ("LOOPNE", 0xE0),
                 ("LOOPNZ", 0xE0), ("JCXZ", 0xE3)]

/-! ## Reference flags of the 8086 (the specification's words, for comparison) -/

/-- Value of an 8-bit pattern read as a signed (two's complement) number. -/
def signed8 (x : Nat) : Int := if x ≥ 128 then (x : Int) - 256 else x

/-- Reference 8-bit result of ADD, SUB, AND, OR, XOR. -/
def refResult8 (mn : String) (a b : Nat) : Nat :=
  if mn = "ADD" then (a + b) % 256
  else if mn = "SUB" then (a + 256 - b) % 256
  else if mn = "AND" then a &&& b
  else if mn = "OR" then a ||| b
  else a ^^^ b

/-- Reference CF: carry out of bit 7 (ADD), borrow (SUB), 0 for the logical operations. -/
def refCF (mn : String) (a b : Nat) : Bool :=
  if mn = "ADD" then decide (a + b ≥ 256) else if mn = "SUB" then decide (a < b) else false

/-- Reference AF: carry (ADD) or borrow (SUB) out of bit 3, 0 for the logical operations. -/
def refAF (mn : String) (a b : Nat) : Bool :=
  if mn = "ADD" then decide (a % 16 + b % 16 ≥ 16)
  else if mn = "SUB" then decide (a % 16 < b % 16) else false

/-- Reference ZF: the 8-bit result is 0. -/
def refZF (mn : String) (a b : Nat) : Bool := decide (refResult8 mn a b = 0)

/-- Reference SF: bit 7 of the result. -/
def refSF (mn : String) (a b : Nat) : Bool := (refResult8 mn a b).testBit 7

/-- Number of 1 bits among the low 8 bits. -/
def onesCount8 (r : Nat) : Nat := ((List.range 8).filter (fun i => r.testBit i)).length

/-- Reference PF: the result has an even number of 1 bits. -/
def refPF (mn : String) (a b : Nat) : Bool := decide (onesCount8 (refResult8 mn a b) % 2 = 0)

/-- Reference OF: the signed result of the operation does not fit in -128..127. -/
def refOF (mn : String) (a b : Nat) : Bool :=
  if mn = "ADD" then decide (signed8 a + signed8 b < -128 ∨ signed8 a + signed8 b > 127)
  else if mn = "SUB" then decide (signed8 a - signed8 b < -128 ∨ signed8 a - signed8 b > 127)
  else false

/-- A register operand, as `parseOperand` builds it. -/
def regOperand (reg size : Nat) : Operand :=
  { Operand.empty with type := .REGISTER, reg := reg, size := size, present := true }

/-- The scenario program with the byte `c` as the DL immediate. -/
def putcharProgram (c : Nat) : List Nat := [0xB4, 0x02, 0xB2, c, 0xCD, 0x21, 0xCD, 0x20]

/-- A source whose shift count is an EQU constant defined further down. -/
def forwardCountProgram : List String := ["SHL AX, CNT", "L: NOP", "CNT EQU 1", "JMP L"]

/-- The context after pass 1 of a source (the first loop of the driver). -/
def afterPass1 (lines : List String) : AssemblerContext :=
  runPass lines 0 { AssemblerContext.init with isPass1 := true, currentAddress := 0 }

/-- A token that names a symbol: an identifier starting with a letter, `.`, `_` or `?` that is
not a register name. -/
def isSymbolToken (t : Token) : Bool :=
  decide (t.type = .Identifier) &&
  (isAlphaC (firstChar t.value) || decide (firstChar t.value = '.')
    || decide (firstChar t.value = '_') || decide (firstChar t.value = '?')) &&
  (isRegister t.value).isNone

/-- Going from `(ctx, idx)` to the result `r` passes no symbol token without setting
`encounteredSymbol`, and keeps the flag once set. -/
def Advances (tokens : List Token) (ctx : AssemblerContext) (idx : Nat)
    (r : AssemblerContext × Nat × Int) : Prop :=
  idx ≤ r.2.1 ∧ (ctx.encounteredSymbol = true → r.1.encounteredSymbol = true)
  ∧ ∀ j t, idx ≤ j → j < r.2.1 → tokens.get? j = some t → isSymbolToken t = true →
      r.1.encounteredSymbol = true

/-- Invariant of the bracket loop between two of its states. -/
def BracketInv (tokens : List Token) (st st1 : BracketState) : Prop :=
  st.idx ≤ st1.idx ∧ (st.op.involvesSymbol = true → st1.op.involvesSymbol = true)
  ∧ ∀ j t, st.idx ≤ j → j < st1.idx → tokens.get? j = some t → isSymbolToken t = true →
      st1.op.involvesSymbol = true

/-- The tokens of the line `MOV AX, [BX+LBL]`. -/
def symbolOperandTokens : List Token := tokenize "MOV AX, [BX+LBL]" 1

/-- Operand kinds compared by the round trip: 8/16-bit register, segment register, memory,
immediate, or no operand. -/
inductive OperandClass where
  | none | reg8 | reg16 | sreg | mem | imm
  deriving DecidableEq, Repr

/-- Kind of a decoded operand. -/
def classOfDecoded (d : DecodedOperand) : OperandClass :=
  match d.kind with
  | .NONE => .none
  | .REG8 => .reg8
  | .REG16 => .reg16
  | .SREG => .sreg
  | .MEM => .mem
  | .IMM8 => .imm
  | .IMM16 => .imm

/-- Kind of an assembled operand. -/
def classOfOperand (op : Operand) : OperandClass :=
  if ¬ op.present then .none
  else
    match op.type with
    | .REGISTER => if op.size = 8 then .reg8 else .reg16
    | .SEGREG => .sreg
    | .MEMORY => .mem
    | .IMMEDIATE => .imm

/-- The prefix bytes `decodeInstruction` skips: REPNE, REP and the four segment overrides. -/
def prefixList : List Nat := [0xF2, 0xF3, 0x26, 0x2E, 0x36, 0x3E]

/-- The instruction body `body` (opcode first, no prefix) decodes, after any prefixes, to a valid
instruction named `name` that spans the whole body and has operands of kinds `k1`, `k2`. -/
def DecodesTo (body : List Nat) (name : String) (k1 k2 : OperandClass) : Prop :=
  ∃ op rest, body = op :: rest ∧ op ∉ prefixList ∧
    ∀ (offset : Nat) (inst : DecodedInst), inst.opcode = op →
      inst.op1 = DecodedOperand.empty → inst.op2 = DecodedOperand.empty →
      (decodeOpcode body offset 1 inst).valid = true
      ∧ (decodeOpcode body offset 1 inst).size = inst.prefixBytes + body.length
      ∧ (decodeOpcode body offset 1 inst).mnemonic = name
      ∧ classOfDecoded (decodeOpcode body offset 1 inst).op1 = k1
      ∧ classOfDecoded (decodeOpcode body offset 1 inst).op2 = k2

/-- The bytes `mb` are a ModR/M byte with its displacement: whatever follows them, `decodeModRM`
consumes exactly `mb`, finds the register field `g` and a register (`isReg`) or memory operand. -/
def RMBytes (mb : List Nat) (g : Nat) (isReg : Bool) : Prop :=
  mb ≠ [] ∧ ∀ (rest : List Nat) (sz : Nat),
    (decodeModRM (mb ++ rest) 0 sz).reg = g
    ∧ (decodeModRM (mb ++ rest) 0 sz).bytesConsumed = mb.length
    ∧ (decodeModRM (mb ++ rest) 0 sz).isReg = isReg

/-- Kind of the operand a ModR/M byte denotes. -/
def rmClass (isReg : Bool) (sz : Nat) : OperandClass :=
  if isReg then (if sz = 8 then .reg8 else .reg16) else .mem

/-- Kind of a register of `sz` bits. -/
def regClass (sz : Nat) : OperandClass := if sz = 8 then .reg8 else .reg16

/-- Opcodes with a ModR/M byte and a general register in its `reg` field: opcode, mnemonic,
operand size, and whether the register is the first operand. -/
def rmRegTable : List (Nat × String × Nat × Bool) :=
  [(0x88, "MOV", 8, false), (0x89, "MOV", 16, false), (0x8A, "MOV", 8, true),
   (0x8B, "MOV", 16, true),
   (0x00, "ADD", 8, false), (0x01, "ADD", 16, false), (0x02, "ADD", 8, true),
   (0x03, "ADD", 16, true),
   (0x08, "OR", 8, false), (0x09, "OR", 16, false), (0x0A, "OR", 8, true),
   (0x0B, "OR", 16, true),
   (0x10, "ADC", 8, false), (0x11, "ADC", 16, false), (0x12, "ADC", 8, true),
   (0x13, "ADC", 16, true),
   (0x18, "SBB", 8, false), (0x19, "SBB", 16, false), (0x1A, "SBB", 8, true),
   (0x1B, "SBB", 16, true),
   (0x20, "AND", 8, false), (0x21, "AND", 16, false), (0x22, "AND", 8, true),
   (0x23, "AND", 16, true),
   (0x28, "SUB", 8, false), (0x29, "SUB", 16, false), (0x2A, "SUB", 8, true),
   (0x2B, "SUB", 16, true),
   (0x30, "XOR", 8, false), (0x31, "XOR", 16, false), (0x32, "XOR", 8, true),
   (0x33, "XOR", 16, true),
   (0x38, "CMP", 8, false), (0x39, "CMP", 16, false), (0x3A, "CMP", 8, true),
   (0x3B, "CMP", 16, true),
   (0x84, "TEST", 8, false), (0x85, "TEST", 16, false),
   (0x86, "XCHG", 8, false), (0x87, "XCHG", 16, false)]

/-- Group opcodes whose ModR/M `reg` field selects the instruction, without immediate:
opcode, extension, mnemonic, operand size, kind of the second operand. -/
def groupTable : List (Nat × Nat × String × Nat × OperandClass) :=
  [(0xF6, 2, "NOT", 8, .none), (0xF6, 3, "NEG", 8, .none), (0xF6, 4, "MUL", 8, .none),
   (0xF6, 5, "IMUL", 8, .none), (0xF6, 6, "DIV", 8, .none), (0xF6, 7, "IDIV", 8, .none),
   (0xF7, 2, "NOT", 16, .none), (0xF7, 3, "NEG", 16, .none), (0xF7, 4, "MUL", 16, .none),
   (0xF7, 5, "IMUL", 16, .none), (0xF7, 6, "DIV", 16, .none), (0xF7, 7, "IDIV", 16, .none),
   (0xFE, 0, "INC", 8, .none), (0xFE, 1, "DEC", 8, .none),
   (0xFF, 0, "INC", 16, .none), (0xFF, 1, "DEC", 16, .none), (0xFF, 6, "PUSH", 16, .none),
   (0x8F, 0, "POP", 16, .none),
   (0xD0, 0, "ROL", 8, .imm), (0xD0, 1, "ROR", 8, .imm), (0xD0, 2, "RCL", 8, .imm),
   (0xD0, 3, "RCR", 8, .imm), (0xD0, 4, "SHL", 8, .imm), (0xD0, 5, "SHR", 8, .imm),
   (0xD0, 7, "SAR", 8, .imm),
   (0xD1, 0, "ROL", 16, .imm), (0xD1, 1, "ROR", 16, .imm), (0xD1, 2, "RCL", 16, .imm),
   (0xD1, 3, "RCR", 16, .imm), (0xD1, 4, "SHL", 16, .imm), (0xD1, 5, "SHR", 16, .imm),
   (0xD1, 7, "SAR", 16, .imm),
   (0xD2, 0, "ROL", 8, .reg8), (0xD2, 1, "ROR", 8, .reg8), (0xD2, 2, "RCL", 8, .reg8),
   (0xD2, 3, "RCR", 8, .reg8), (0xD2, 4, "SHL", 8, .reg8), (0xD2, 5, "SHR", 8, .reg8),
   (0xD2, 7, "SAR", 8, .reg8),
   (0xD3, 0, "ROL", 16, .reg8), (0xD3, 1, "ROR", 16, .reg8), (0xD3, 2, "RCL", 16, .reg8),
   (0xD3, 3, "RCR", 16, .reg8), (0xD3, 4, "SHL", 16, .reg8), (0xD3, 5, "SHR", 16, .reg8),
   (0xD3, 7, "SAR", 16, .reg8)]

/-- Group opcodes followed by an immediate: opcode, extension, mnemonic, operand size,
number of immediate bytes. -/
def groupImmTable : List (Nat × Nat × String × Nat × Nat) :=
  [(0x80, 0, "ADD", 8, 1), (0x80, 1, "OR", 8, 1), (0x80, 2, "ADC", 8, 1), (0x80, 3, "SBB", 8, 1),
   (0x80, 4, "AND", 8, 1), (0x80, 5, "SUB", 8, 1), (0x80, 6, "XOR", 8, 1), (0x80, 7, "CMP", 8, 1),
   (0x81, 0, "ADD", 16, 2), (0x81, 1, "OR", 16, 2), (0x81, 2, "ADC", 16, 2),
   (0x81, 3, "SBB", 16, 2), (0x81, 4, "AND", 16, 2), (0x81, 5, "SUB", 16, 2),
   (0x81, 6, "XOR", 16, 2), (0x81, 7, "CMP", 16, 2),
   (0xC6, 0, "MOV", 8, 1), (0xC7, 0, "MOV", 16, 2),
   (0xF6, 0, "TEST", 8, 1), (0xF7, 0, "TEST", 16, 2),
   (0xC0, 0, "ROL", 8, 1), (0xC0, 1, "ROR", 8, 1), (0xC0, 4, "SHL", 8, 1), (0xC0, 5, "SHR", 8, 1),
   (0xC1, 0, "ROL", 16, 1), (0xC1, 1, "ROR", 16, 1), (0xC1, 4, "SHL", 16, 1),
   (0xC1, 5, "SHR", 16, 1)]

/-- One-byte opcodes with a 16-bit register in the low three bits: base, mnemonic, kind of
the second operand. -/
def regOpcodeTable : List (Nat × String × OperandClass) :=
  [(0x40, "INC", .none), (0x48, "DEC", .none), (0x50, "PUSH", .none), (0x58, "POP", .none)]

/-- Opcodes without operand bytes: opcode, mnemonic, operand kinds. -/
def fixedTable : List (Nat × String × OperandClass × OperandClass) :=
  [(0x06, "PUSH", .sreg, .none), (0x0E, "PUSH", .sreg, .none), (0x16, "PUSH", .sreg, .none),
   (0x1E, "PUSH", .sreg, .none), (0x07, "POP", .sreg, .none), (0x17, "POP", .sreg, .none),
   (0x1F, "POP", .sreg, .none),
   (0xEC, "IN", .reg8, .reg16), (0xED, "IN", .reg16, .reg16),
   (0xEE, "OUT", .reg16, .reg8), (0xEF, "OUT", .reg16, .reg16),
   (0xC3, "RET", .none, .none),
   (0xA4, "MOVSB", .none, .none), (0xA5, "MOVSW", .none, .none), (0xA6, "CMPSB", .none, .none),
   (0xA7, "CMPSW", .none, .none), (0xAA, "STOSB", .none, .none), (0xAB, "STOSW", .none, .none),
   (0xAC, "LODSB", .none, .none), (0xAD, "LODSW", .none, .none), (0xAE, "SCASB", .none, .none),
   (0xAF, "SCASW", .none, .none), (0xFC, "CLD", .none, .none), (0xFD, "STD", .none, .none),
   (0xFA, "CLI", .none, .none), (0xFB, "STI", .none, .none), (0xF5, "CMC", .none, .none),
   (0xF8, "CLC", .none, .none), (0xF9, "STC", .none, .none), (0x90, "NOP", .none, .none),
   (0x98, "CBW", .none, .none), (0x99, "CWD", .none, .none), (0x9F, "LAHF", .none, .none),
   (0x9E, "SAHF", .none, .none), (0x9C, "PUSHF", .none, .none), (0x9D, "POPF", .none, .none),
   (0xD7, "XLAT", .none, .none), (0xF4, "HLT", .none, .none), (0x60, "PUSHA", .none, .none),
   (0x61, "POPA", .none, .none)]

/-- Opcodes followed by immediate bytes only: opcode, number of immediate bytes, mnemonic,
operand kinds. -/
def immTable : List (Nat × Nat × String × OperandClass × OperandClass) :=
  [(0xB0, 1, "MOV", .reg8, .imm), (0xB1, 1, "MOV", .reg8, .imm), (0xB2, 1, "MOV", .reg8, .imm),
   (0xB3, 1, "MOV", .reg8, .imm), (0xB4, 1, "MOV", .reg8, .imm), (0xB5, 1, "MOV", .reg8, .imm),
   (0xB6, 1, "MOV", .reg8, .imm), (0xB7, 1, "MOV", .reg8, .imm),
   (0xB8, 2, "MOV", .reg16, .imm), (0xB9, 2, "MOV", .reg16, .imm), (0xBA, 2, "MOV", .reg16, .imm),
   (0xBB, 2, "MOV", .reg16, .imm), (0xBC, 2, "MOV", .reg16, .imm), (0xBD, 2, "MOV", .reg16, .imm),
   (0xBE, 2, "MOV", .reg16, .imm), (0xBF, 2, "MOV", .reg16, .imm),
   (0xE4, 1, "IN", .reg8, .imm), (0xE5, 1, "IN", .reg16, .imm),
   (0xE6, 1, "OUT", .imm, .reg8), (0xE7, 1, "OUT", .imm, .reg16),
   (0xE9, 2, "JMP", .imm, .none), (0xE8, 2, "CALL", .imm, .none),
   (0xCD, 1, "INT", .imm, .none),
   (0x70, 1, "JO", .imm, .none), (0x71, 1, "JNO", .imm, .none), (0x72, 1, "JB", .imm, .none),
   (0x73, 1, "JNB", .imm, .none), (0x74, 1, "JZ", .imm, .none), (0x75, 1, "JNZ", .imm, .none),
   (0x76, 1, "JBE", .imm, .none), (0x77, 1, "JA", .imm, .none), (0x78, 1, "JS", .imm, .none),
   (0x79, 1, "JNS", .imm, .none), (0x7A, 1, "JP", .imm, .none), (0x7B, 1, "JNP", .imm, .none),
   (0x7C, 1, "JL", .imm, .none), (0x7D, 1, "JGE", .imm, .none), (0x7E, 1, "JLE", .imm, .none),
   (0x7F, 1, "JG", .imm, .none),
   (0xE2, 1, "LOOP", .imm, .none), (0xE1, 1, "LOOPE", .imm, .none),
   (0xE0, 1, "LOOPNE", .imm, .none), (0xE3, 1, "JCXZ", .imm, .none)]

/-- Mnemonics the decoder prints under another name. -/
def aliasTable : List (String × String) :=
  [("JE", "JZ"), ("JNE", "JNZ"), ("JC", "JB"), ("JNAE", "JB"), ("JNC", "JNB"), ("JAE", "JNB"),
   ("JNA", "JBE"), ("JNBE", "JA"), ("JPE", "JP"), ("JPO", "JNP"), ("JNGE", "JL"), ("JNL", "JGE"),
   ("JNG", "JLE"), ("JNLE", "JG"), ("LOOPZ", "LOOPE"), ("LOOPNZ", "LOOPNE"), ("SAL", "SHL")]

/-- Name under which the decoder prints an assembled mnemonic. -/
def canonicalName (mn : String) : String := (aliasTable.lookup mn).getD mn

/-- Ranges `parseOperand` guarantees for the fields the encoders read. -/
def Operand.WellFormed (op : Operand) : Prop :=
  (op.type = .REGISTER → op.reg < 8 ∧ (op.size = 8 ∨ op.size = 16))
  ∧ (op.type = .SEGREG → op.reg < 4)
  ∧ (op.type = .MEMORY → -1 ≤ op.memReg ∧ op.memReg ≤ 7)

/-- The operand pairs of the ISA table entry of a mnemonic. -/
def formsOf (mn : String) : Option (List (String × String)) :=
  (isaDB.find? (fun entry => entry.mnemonic = mn)).map
    (fun entry => entry.validForms.map (fun form => (form.type1, form.type2)))

/-- Some operand pair of `forms` matches the operands. -/
def validFor (forms : List (String × String)) (op1 op2 : Operand) : Bool :=
  forms.any (fun f => ruleMatches op1 f.1 && ruleMatches op2 f.2)

/-- In pass 2, context `c1` holds the line bytes of `c` followed by `body`. -/
def Emits (c c1 : AssemblerContext) (body : List Nat) : Prop :=
  c1.isPass1 = false ∧ c1.currentLineBytes = c.currentLineBytes ++ body

/-- The operand pairs of `MOV`. -/
def movForms : List (String × String) :=
  [("REG", "REG"), ("REG", "IMM"), ("REG", "MEM"), ("MEM", "REG"), ("MEM", "IMM"),
   ("REG", "SREG"), ("SREG", "REG")]

/-- The operand pairs of the two-operand arithmetic and logic instructions. -/
def aluForms : List (String × String) :=
  [("REG", "REG"), ("REG", "MEM"), ("MEM", "REG"), ("REG", "IMM"), ("MEM", "IMM")]

/-- The arithmetic and logic mnemonics of opcodes 00-3B and group 80/81. -/
def aluList : List String := ["ADD", "OR", "ADC", "SBB", "AND", "SUB", "XOR", "CMP"]

/-- Operand kinds the decoder reports for an assembled instruction: `TEST` and `XCHG` with a
register first and a memory operand second are decoded with the memory operand first. -/
def expectedKinds (mn : String) (op1 op2 : Operand) : OperandClass × OperandClass :=
  if (mn = "TEST" ∨ mn = "XCHG") ∧ op1.type = .REGISTER ∧ op2.type = .MEMORY then
    (classOfOperand op2, classOfOperand op1)
  else (classOfOperand op1, classOfOperand op2)

/-- The operand pairs of the one-operand instructions on a register or memory operand. -/
def unaryForms : List (String × String) := [("REG", "NONE"), ("MEM", "NONE")]

/-- One-operand group instructions: mnemonic, opcode of the byte form, ModR/M extension. -/
def unaryTable : List (String × Nat × Nat) :=
  [("INC", 0xFE, 0), ("DEC", 0xFE, 1), ("NOT", 0xF6, 2), ("NEG", 0xF6, 3),
   ("MUL", 0xF6, 4), ("IMUL", 0xF6, 5), ("DIV", 0xF6, 6), ("IDIV", 0xF6, 7)]

/-- The operand pairs of the shift and rotate instructions. -/
def shiftForms : List (String × String) :=
  [("REG", "1"), ("REG", "IMM"), ("REG", "CL"), ("MEM", "1"), ("MEM", "IMM"), ("MEM", "CL")]

/-- Shift and rotate instructions: mnemonic, ModR/M extension, decoded name. -/
def shiftTable : List (String × Nat × String) :=
  [("ROL", 0, "ROL"), ("ROR", 1, "ROR"), ("RCL", 2, "RCL"), ("RCR", 3, "RCR"),
   ("SHL", 4, "SHL"), ("SAL", 4, "SHL"), ("SHR", 5, "SHR"), ("SAR", 7, "SAR")]

/-- The operand pairs of `IN`. -/
def inForms : List (String × String) := [("AL/AX", "IMM"), ("AL/AX", "DX")]

/-- The operand pairs of `OUT`. -/
def outForms : List (String × String) := [("IMM", "AL/AX"), ("DX", "AL/AX")]

/-- The operand pair of `LEA`. -/
def leaForms : List (String × String) := [("REG16", "MEM")]

/-- The operand pair of `INT`. -/
def intForms : List (String × String) := [("IMM", "NONE")]

/-- The operand pairs of `JMP` and `CALL`. -/
def nearForms : List (String × String) := [("LABEL", "NONE"), ("IMM", "NONE")]

/-- The operand pair of the conditional jumps and loops. -/
def shortForms : List (String × String) := [("LABEL", "NONE")]

/-- The operand pairs of `PUSH` and `POP`. -/
def stackForms : List (String × String) := [("REG16", "NONE"), ("MEM16", "NONE"), ("SEG", "NONE")]

/-- The operand pairs of `XCHG`. -/
def xchgForms : List (String × String) := [("REG", "REG"), ("REG", "MEM"), ("MEM", "REG")]

/-- The operand pair of the instructions without operands. -/
def noForms : List (String × String) := [("NONE", "NONE")]

/-- The instructions without operands of the ISA table, with their opcodes. -/
def simpleTable : List (String × Nat) :=
  [("MOVSB", 0xA4), ("MOVSW", 0xA5), ("CMPSB", 0xA6), ("CMPSW", 0xA7), ("STOSB", 0xAA),
   ("STOSW", 0xAB), ("LODSB", 0xAC), ("LODSW", 0xAD), ("SCASB", 0xAE), ("SCASW", 0xAF),
   ("RET", 0xC3),
   ("CLD", 0xFC), ("STD", 0xFD), ("CLI", 0xFA), ("STI", 0xFB), ("CMC", 0xF5), ("CLC", 0xF8),
   ("STC", 0xF9),
   ("NOP", 0x90), ("CBW", 0x98), ("CWD", 0x99), ("LAHF", 0x9F), ("SAHF", 0x9E),
   ("PUSHF", 0x9C), ("POPF", 0x9D), ("XLAT", 0xD7), ("HLT", 0xF4),
   ("PUSHA", 0x60), ("POPA", 0x61)]

/-- Instruction forms whose bytes decode to something else than was assembled: two registers
of different widths in an arithmetic, logic, `TEST` or `XCHG` instruction; `MOV` between an
8-bit register and a segment register; `RCL`, `RCR`, `SAR` with an immediate count other than
1; `XCHG AX, AX`. -/
def roundTripException (mn : String) (op1 op2 : Operand) : Bool :=
  ((isALU mn ∨ mn = "XCHG") ∧ op1.type = .REGISTER ∧ op2.type = .REGISTER ∧ op1.size ≠ op2.size)
  ∨ (mn = "MOV" ∧ op1.type = .REGISTER ∧ op2.type = .SEGREG ∧ op1.size = 8)
  ∨ (mn = "MOV" ∧ op1.type = .SEGREG ∧ op2.type = .REGISTER ∧ op2.size = 8)
  ∨ ((mn = "RCL" ∨ mn = "RCR" ∨ mn = "SAR") ∧ op2.type = .IMMEDIATE ∧ op2.val ≠ 1)
  ∨ (mn = "XCHG" ∧ op1.type = .REGISTER ∧ op2.type = .REGISTER ∧ op1.size = 16 ∧ op1.reg = 0
      ∧ op2.reg = 0)

/-- The mnemonics of LOOP, LOOPE/LOOPZ, LOOPNE/LOOPNZ and JCXZ with their opcodes. -/
def loopTable : List (String × Nat) :=
  [("LOOP", 0xE2), ("LOOPE", 0xE1), ("LOOPZ", 0xE1), ("LOOPNE", 0xE0), ("LOOPNZ", 0xE0),
   ("JCXZ", 0xE3)]

/-- Mnemonic `mn` is in the list `l` and its ISA table entry has the operand pairs `forms`. -/
def InGroup (l : List String) (forms : List (String × String)) (mn : String) : Prop :=
  mn ∈ l ∧ formsOf mn = some forms

instance (l : List String) (forms : List (String × String)) (mn : String) :
    Decidable (InGroup l forms mn) := by
  unfold InGroup; infer_instance

/-- Classification of a mnemonic of the ISA table: its encoder group and operand pairs. -/
def isaGroup (mn : String) : Prop :=
  InGroup ["MOV"] movForms mn
  ∨ InGroup aluList aluForms mn
  ∨ InGroup ["TEST"] aluForms mn
  ∨ InGroup (unaryTable.map Prod.fst) unaryForms mn
  ∨ (InGroup (shiftTable.map Prod.fst) shiftForms mn
      ∧ (mn, shiftExt mn, canonicalName mn) ∈ shiftTable)
  ∨ InGroup ["IN"] inForms mn
  ∨ InGroup ["OUT"] outForms mn
  ∨ InGroup ["LEA"] leaForms mn
  ∨ InGroup ["INT"] intForms mn
  ∨ InGroup ["JMP", "CALL"] nearForms mn
  ∨ InGroup (jccOpcodes.map Prod.fst) shortForms mn
  ∨ InGroup (loopTable.map Prod.fst) shortForms mn
  ∨ InGroup ["PUSH", "POP"] stackForms mn
  ∨ InGroup ["XCHG"] xchgForms mn
  ∨ InGroup (simpleTable.map Prod.fst) noForms mn

instance (mn : String) : Decidable (isaGroup mn) := by
  unfold isaGroup; infer_instance

/-- A pass-2 context in which the segment prefix `ES:` (26) of the line is already emitted. -/
def prefixedCtx : AssemblerContext := { pass2Ctx with currentLineBytes := [0x26] }

/-- The opcode bases of the two-operand arithmetic and logic instructions, as the
specification lists them. -/
def aluOpcodeBase : List (String × Nat) :=
  [("ADD", 0x00), ("OR", 0x08), ("ADC", 0x10), ("SBB", 0x18), ("AND", 0x20), ("SUB", 0x28),
   ("XOR", 0x30), ("CMP", 0x38), ("TEST", 0x84)]

/-- The ModR/M extensions of the shift and rotate instructions, as the specification lists
them. -/
def shiftExtTable : List (String × Nat) :=
  [("ROL", 0), ("ROR", 1), ("RCL", 2), ("RCR", 3), ("SHL", 4), ("SHR", 5), ("SAR", 7)]

/-- Number of bytes `decodeModRM` consumes at position `k` (0 when bytes are missing). -/
def modRMLength (code : List Nat) (k : Nat) : Nat := (decodeModRM code k 0).bytesConsumed

/-- Size bounds of a decoder result. -/
def SizeOk (code : List Nat) (current pb : Nat) (r : DecodedInst) : Prop :=
  r.valid = true → pb + 1 ≤ r.size ∧ r.size + current ≤ code.length + pb + 1

/-- The state the sweep of `disassembleFile` starts from. -/
def sweepInit : SweepState :=
  { offset := 0, dataRunStart := -1, dataRunBytes := [], instructions := [], dataRegions := [] }

/-- The data regions of a sweep state once its open run, if any, is flushed. -/
def flushedRegions (st : SweepState) : List DataRegion :=
  if st.dataRunStart ≠ -1 then st.dataRegions ++ [⟨st.dataRunStart.toNat, st.dataRunBytes⟩]
  else st.dataRegions

/-- Offset `k` lies in the segment of `n` bytes that starts at `a`. -/
def covers (a n k : Nat) : Bool := decide (a ≤ k ∧ k < a + n)

/-- Number of instruction records whose bytes include offset `k`. -/
def instrCover (l : List InstrRecord) (k : Nat) : Nat :=
  l.countP (fun r => covers r.addr r.size k)

/-- Number of data regions whose bytes include offset `k`. -/
def regionCover (l : List DataRegion) (k : Nat) : Nat :=
  l.countP (fun g => covers g.addr g.bytes.length k)

/-- One iteration of the sweep loop at an offset inside the buffer. -/
def sweepStep (code : List Nat) (st : SweepState) : SweepState :=
  let inst := decodeInstruction code st.offset
  if inst.valid then
    let st1 :=
      if st.dataRunStart ≠ -1 then
        { st with dataRegions := st.dataRegions ++ [⟨st.dataRunStart.toNat, st.dataRunBytes⟩],
                  dataRunStart := -1, dataRunBytes := [] }
      else st
    let raw := (List.range inst.size).map (fun k => code.getD (st.offset + k) 0)
    { st1 with instructions := st1.instructions ++
                 [⟨st.offset, raw, hexBytes raw, formatInstruction inst, inst.size⟩],
               offset := st.offset + inst.size }
  else
    { st with dataRunStart := if st.dataRunStart = -1 then st.offset else st.dataRunStart,
              dataRunBytes := st.dataRunBytes ++ [code.getD st.offset 0],
              offset := st.offset + 1 }

/-- Invariant of the sweep loop. -/
structure SweepInv (code : List Nat) (st : SweepState) : Prop where
  bound : st.offset ≤ code.length
  run : (st.dataRunStart = -1 ∧ st.dataRunBytes = [])
    ∨ (0 ≤ st.dataRunStart ∧ st.dataRunBytes ≠ []
        ∧ st.dataRunStart.toNat + st.dataRunBytes.length = st.offset)
  cover : ∀ k, instrCover st.instructions k + regionCover (flushedRegions st) k
    = if k < st.offset then 1 else 0
  sizes : (st.instructions.map InstrRecord.size).sum
    + ((flushedRegions st).map (fun g => g.bytes.length)).sum = st.offset
  instrs : ∀ r ∈ st.instructions, (decodeInstruction code r.addr).valid = true
    ∧ r.size = (decodeInstruction code r.addr).size ∧ 1 ≤ r.size ∧ r.addr + r.size ≤ st.offset
  instrOrder : st.instructions.Pairwise (fun a b => a.addr + a.size ≤ b.addr)
  regions : ∀ g ∈ flushedRegions st, g.bytes ≠ [] ∧ g.addr + g.bytes.length ≤ st.offset
    ∧ g.bytes = (code.drop g.addr).take g.bytes.length
    ∧ ∀ k, g.addr ≤ k → k < g.addr + g.bytes.length → (decodeInstruction code k).valid = false
  closed : ∀ g ∈ st.dataRegions, g.addr + g.bytes.length < st.offset
    ∧ (st.dataRunStart ≠ -1 → g.addr + g.bytes.length < st.dataRunStart.toNat)
  regionOrder : st.dataRegions.Pairwise (fun a b => a.addr + a.bytes.length < b.addr)

/-- Whether the elements compared by the `i`-th iteration (from 0) of a repeated `CMPSB` or
`SCASB` started in state `s` are equal: the byte at DS:SI+i (or AL for `SCASB`) against the
byte at ES:DI+i. -/
def cmpEqualAt (s : EmuState) (inst : DecodedInst) (i : Nat) : Bool :=
  let b := s.mem.sread8 (s.cpu.sregs 0) (s.cpu.regs 7 + i)
  let a := if inst.mnemonic = "CMPSB" then
      s.mem.sread8 (resolveSegment s.cpu inst.op1 inst.segOverride) (s.cpu.regs 6 + i)
    else s.cpu.getReg8 0
  decide (a = b)

/-- Position, counted from 1, of the first of `n` elements at which `stop` holds, or `n` when
there is none. -/
def stopPosition (stop : Nat → Bool) (n : Nat) : Nat :=
  match (List.range n).find? stop with
  | some i => i + 1
  | none => n

/-- The element at which a repeated compare stops: the first that differs under REPE, the
first that matches under REPNE. -/
def repStop (s : EmuState) (inst : DecodedInst) (i : Nat) : Bool :=
  if inst.hasRep then !cmpEqualAt s inst i else cmpEqualAt s inst i

/-- One iteration of the REP loop: the string operation, then `CX--`. -/
def repIter (s : EmuState) (inst : DecodedInst) : EmuState :=
  { doOne s inst with cpu := addReg (doOne s inst).cpu 1 (-1) }

/-- Well-formedness of an emulator state: 16-bit registers, byte-sized memory cells. -/
def EmuState.WellFormed (s : EmuState) : Prop :=
  (∀ i, s.cpu.regs i < 65536) ∧ (∀ i, s.mem.data i < 256 ∧ s.mem.vram i < 256)

/-- A state with CX = 5, SI = 0x200, DI = 0x300, DS = ES = 0 and a memory that is zero except
for the byte 1 at offset 0x302. -/
def compareState : EmuState :=
  { cpu := { CPU.init with
      regs := fun i => if i = 1 then 5 else if i = 6 then 0x200 else if i = 7 then 0x300 else 0 },
    mem := { Memory.init with data := fun a => if a = 0x302 then 1 else 0 },
    io := { stdoutBuf := [], stdinSource := [], stdinPos := 0, exitCode := 0 },
    result := EmulatorResult.init, memDirty := false, vram := VRAMState.init }

/-- The decoded instruction `REPE CMPSB`. -/
def repeCmpsb : DecodedInst := { DecodedInst.empty with mnemonic := "CMPSB", hasRep := true }

/-- Signed overflow of the exact 8-bit sum `a + b + c` (8086 OF after ADC). -/
def refAdcOF8 (a b c : Nat) : Bool :=
  decide (signed8 a + signed8 b + (c : Int) < -128 ∨ signed8 a + signed8 b + (c : Int) > 127)

/-- Borrow of the exact difference `a - b - c` (8086 CF after SBB). -/
def refSbbCF (a b c : Nat) : Bool := decide (a < b + c)

/-- The 32-bit dividend DX:AX. -/
def dxax (cpu : CPU) : Nat := cpu.regs 2 * 65536 + cpu.regs 0

/-- Value of a 16-bit pattern read as a signed number. -/
def signed16 (x : Nat) : Int := if x ≥ 32768 then (x : Int) - 65536 else x

/-- Value of a 32-bit pattern read as a signed number. -/
def signed32 (x : Nat) : Int := if x ≥ 2147483648 then (x : Int) - 4294967296 else x

/-- The one input on which the `int32_t` division of the 16-bit `IDIV` itself overflows in
C++ (undefined behaviour): DX:AX = 0x80000000 divided by -1. -/
def idivUndefined (cpu : CPU) (v : Nat) : Prop :=
  signed32 (dxax cpu) = -2147483648 ∧ signed16 v = -1

/-- A state with DX:AX = 0xFFFF:0xFFF9 (the signed number -7) and BX = 2. -/
def divState : EmuState :=
  { cpu := { CPU.init with
      regs := fun i => if i = 0 then 0xFFF9 else if i = 2 then 0xFFFF else if i = 3 then 2 else 0 },
    mem := Memory.init,
    io := { stdoutBuf := [], stdinSource := [], stdinPos := 0, exitCode := 0 },
    result := EmulatorResult.init, memDirty := false, vram := VRAMState.init }

/-- The decoded instruction `IDIV BX`. -/
def idivBX : DecodedInst :=
  { DecodedInst.empty with mnemonic := "IDIV", op1 := makeReg16 3, wide := true }

/-- The halt flag and halt reason of a state. -/
def haltInfo (s : EmuState) : Bool × String := (s.result.halted, s.result.haltReason)

/-- A halt, when reported, comes with a reason. -/
def HaltOk (h : Bool × String) : Prop := h.1 = true → h.2 ≠ ""

/-- One step keeps the halt information or reports a halt with a reason. -/
def HaltStep (s s1 : EmuState) : Prop :=
  haltInfo s1 = haltInfo s ∨ (s1.result.halted = true ∧ s1.result.haltReason ≠ "")

/-- A state with its snapshot list replaced (what the breakpoint and watchpoint checks do). -/
def withSnaps (s : EmuState) (snaps : List Snapshot) : EmuState :=
  { s with result := { s.result with snapshots := snaps } }

/-- The state after one valid iteration of the main loop: IP advanced past the instruction
decoded at IP, then the instruction executed. -/
def stepState (code : List Nat) (s : EmuState) : EmuState :=
  executeInstruction
    { s with cpu := { s.cpu with
                      ip := (s.cpu.ip + (decodeInstruction code s.cpu.ip).size) % 65536 } }
    (decodeInstruction code s.cpu.ip)

/-- The record the interrupt handlers push for `INT n` in state `s`, when they skip it:
an interrupt number other than 20h, 21h, 10h, or a sub-function (AH) of INT 21h / INT 10h
that has no case of its own. -/
def skippedEntry (s : EmuState) (n : Nat) : Option SkippedRecord :=
  let ah := s.cpu.getReg8 4
  if n = 0x20 then none
  else if n = 0x21 then
    if ah ∈ [0x01, 0x02, 0x06, 0x09, 0x4C, 0x2A, 0x2C, 0x30] then none
    else some ⟨s.cpu.ip, "INT 21h AH=" ++ hexByte ah, "Unimplemented DOS function", 1⟩
  else if n = 0x10 then
    if ah ∈ [0x00, 0x02, 0x03, 0x06, 0x07, 0x08, 0x09, 0x0A, 0x0E, 0x0F] then none
    else some ⟨s.cpu.ip, "INT 10h AH=" ++ hexByte ah, "Unimplemented Video function", 1⟩
  else some ⟨s.cpu.ip, "INT " ++ hexByte n, "Unimplemented interrupt", 1⟩

/-- The decoded instruction `INT 3`. -/
def int3 : DecodedInst :=
  { DecodedInst.empty with mnemonic := "INT", op1 := makeImm8 3 }

/-- The characters `0`..`9`. -/
def decimalDigits : List Char := "0123456789".data

/-- The hexadecimal digit characters, in both cases. -/
def hexDigits : List Char := "0123456789abcdefABCDEF".data

/-- Value of a decimal or hexadecimal digit character: its position in `0123456789ABCDEF`
after upper-casing. -/
def digitOf (c : Char) : Nat := "0123456789ABCDEF".data.indexOf c.toUpper

/-- Value of a digit string in base `b`, most significant digit first. -/
def numeralValue (b : Nat) (cs : List Char) : Nat := Nat.ofDigits b (cs.reverse.map digitOf)

/-- The 8086 addressing-mode table of the specification: the set of base and index
registers and its R/M code. -/
def addressingModes : List (List String × Int) :=
  [(["BX", "SI"], 0), (["BX", "DI"], 1), (["BP", "SI"], 2), (["BP", "DI"], 3),
   (["SI"], 4), (["DI"], 5), (["BP"], 6), (["BX"], 7)]

/-- The R/M code the table gives for the registers named in a bracket: the entry whose set
holds exactly the named registers; -1 (direct address) when no register is named. -/
def tableRM (hasBX hasBP hasSI hasDI : Bool) : Option Int :=
  if ¬ hasBX ∧ ¬ hasBP ∧ ¬ hasSI ∧ ¬ hasDI then some (-1)
  else
    (addressingModes.find? (fun p =>
      decide ("BX" ∈ p.1) == hasBX && decide ("BP" ∈ p.1) == hasBP
        && decide ("SI" ∈ p.1) == hasSI && decide ("DI" ∈ p.1) == hasDI)).map (fun p => p.2)

/-- A token between `[` and the displacement: a `+` or one of the registers BX, BP, SI, DI
in either case. -/
def IsBaseOrIndex (t : Token) : Prop :=
  (t.type = .Plus ∧ t.value = "+")
  ∨ (t.type = .Identifier ∧ toUpper t.value ∈ ["BX", "BP", "SI", "DI"])

instance (t : Token) : Decidable (IsBaseOrIndex t) := by
  unfold IsBaseOrIndex; exact inferInstance

/-- Some token of `body` names the register `r`. -/
def names (body : List Token) (r : String) : Bool := body.any (fun t => toUpper t.value = r)

/-- The three levels of the usual expression grammar. -/
inductive Level where
  | expr | term | unary
  deriving DecidableEq, Repr

/-- The usual grammar of arithmetic expressions over token lists, with the value of each
phrase: `expr ::= term | expr (+|-) term`, `term ::= unary | term (*|/) unary`,
`unary ::= literal | ( expr ) | (+|-) unary`; the binary operators associate to the left,
`/` is the integer division truncating toward zero, and a divisor is never zero. -/
inductive HasValue : Level → List Token → Int → Prop where
  | num (t : Token) (v : Int) (r : String) :
      t.type = .Number → parseNumber t.value = (v, true, r) → HasValue .unary [t] v
  | paren (lp rp : Token) (ts : List Token) (v : Int) :
      lp.type = .LParen → rp.type = .RParen → HasValue .expr ts v →
      HasValue .unary (lp :: ts ++ [rp]) v
  | pos (op : Token) (ts : List Token) (v : Int) :
      op.type = .Plus → HasValue .unary ts v → HasValue .unary (op :: ts) v
  | neg (op : Token) (ts : List Token) (v : Int) :
      op.type = .Minus → HasValue .unary ts v → HasValue .unary (op :: ts) (-v)
  | unary (ts : List Token) (v : Int) : HasValue .unary ts v → HasValue .term ts v
  | mul (op : Token) (ts us : List Token) (a b : Int) :
      HasValue .term ts a → op.type = .Star → HasValue .unary us b →
      HasValue .term (ts ++ op :: us) (a * b)
  | div (op : Token) (ts us : List Token) (a b : Int) :
      HasValue .term ts a → op.type = .Slash → HasValue .unary us b → b ≠ 0 →
      HasValue .term (ts ++ op :: us) (Int.tdiv a b)
  | term (ts : List Token) (v : Int) : HasValue .term ts v → HasValue .expr ts v
  | add (op : Token) (ts us : List Token) (a b : Int) :
      HasValue .expr ts a → op.type = .Plus → HasValue .term us b →
      HasValue .expr (ts ++ op :: us) (a + b)
  | sub (op : Token) (ts us : List Token) (a b : Int) :
      HasValue .expr ts a → op.type = .Minus → HasValue .term us b →
      HasValue .expr (ts ++ op :: us) (a - b)

/-- The token list `B` does not start with a binary operator of precedence `p` or more. -/
def StopsAt (B : List Token) (p : Nat) : Prop :=
  ∀ t, B.head? = some t →
    (t.type ≠ .Star ∧ t.type ≠ .Slash) ∧ (p ≤ 1 → t.type ≠ .Plus ∧ t.type ≠ .Minus)

/-- Context `c1` differs from `c` at most by appended diagnostics, the error flag and the
symbol flag: nothing was emitted and nothing was defined. -/
def Frame (c c1 : AssemblerContext) : Prop :=
  c1.machineCode = c.machineCode ∧ c1.currentLineBytes = c.currentLineBytes
  ∧ c1.currentAddress = c.currentAddress ∧ c1.isPass1 = c.isPass1 ∧ c1.listing = c.listing
  ∧ c1.symbolTable = c.symbolTable ∧ c1.currentProcedureName = c.currentProcedureName
  ∧ ∃ ds, c1.diagnostics = c.diagnostics ++ ds

/-- The operand part of `assembleInstruction`: both operands and the "Extra tokens" check. -/
def parseOperands (ctx : AssemblerContext) (tokens : List Token) (idx : Nat) :
    AssemblerContext × Operand × Operand :=
  let (ctx, p, op1) := parseOperand ctx tokens idx
  let (ctx, p, op2) : AssemblerContext × Nat × Operand :=
    match tokens.get? p with
    | some t => if t.value = "," then parseOperand ctx tokens (p + 1) else (ctx, p, Operand.empty)
    | none => (ctx, p, Operand.empty)
  let ctx :=
    match tokens.get? p with
    | some t => logError ctx t.line "Extra tokens at end of line"
        "Unexpected content after instruction. Check for missing commas, stray characters, or a comment that doesn't start with ';'."
    | none => ctx
  (ctx, op1, op2)

/-- The WARNING of `truncWarn8` for the value `v` on line `line`. -/
def truncation8 (line : Nat) (v : Int) : Diagnostic :=
  ⟨"WARNING", line,
    "Immediate value " ++ intToString v ++ " truncated to 8-bit (result: "
      ++ Nat.repr (toU8 v) ++ ")",
    "Value exceeds 8-bit range (0-255 unsigned, -128 to 127 signed). The low 8 bits will be used."⟩

/-- The WARNING of `truncWarn16` for the value `v` on line `line`. -/
def truncation16 (line : Nat) (v : Int) : Diagnostic :=
  ⟨"WARNING", line,
    "Immediate value " ++ intToString v ++ " truncated to 16-bit (result: "
      ++ Nat.repr (toU16 v) ++ ")",
    "Value exceeds 16-bit range (0-65535 unsigned, -32768 to 32767 signed)."⟩

/-- The bytes of an immediate stored into a destination of `size` bits: the low byte for 8
bits, the low word, low byte first, otherwise. -/
def immediateBytes (size : Nat) (v : Int) : List Nat :=
  if size = 8 then [toU8 v] else [toU16 v % 256, toU16 v / 256]

/-! ## Macro preprocessor -/

/-- Struct `SourceLocation`. -/
structure SourceLocation where
  file : String
  line : Nat
  deriving DecidableEq, Repr

/-- Struct `MacroDefinition`. -/
structure MacroDefinition where
  name : String
  params : List String
  locals : List String
  body : List String
  definedAtLine : Nat
  deriving DecidableEq, Repr

/-- The `MacroTable`, a map from upper-cased names to definitions. -/
abbrev MacroTable := List (String × MacroDefinition)

/-- Assignment `macros[name] = def`. -/
def MacroTable.set (macros : MacroTable) (name : String) (d : MacroDefinition) : MacroTable :=
  if (macros.lookup name).isSome then
    macros.map (fun p => if p.1 = name then (name, d) else p)
  else macros ++ [(name, d)]

def MAX_MACRO_EXPANSION_ITERATIONS : Nat := 10000

/-- Membership in the set `" \t\r\n"`. -/
def isTrimC (c : Char) : Bool := c = ' ' || c.toNat = 9 || c.toNat = 13 || c.toNat = 10

/-- Membership in the set `" \t"`. -/
def isBlankC (c : Char) : Bool := c = ' ' || c.toNat = 9

/-- Removal of trailing whitespace (`find_last_not_of(" \t\r\n")`). -/
def trimRight (cs : List Char) : List Char := (cs.reverse.dropWhile isTrimC).reverse

/-- Function `macroTrim`. -/
def macroTrim (s : String) : String := String.mk (trimRight (s.data.dropWhile isTrimC))

/-- Struct `LineParts`. -/
structure LineParts where
  tok1 : String
  tok2 : String
  rest : String
  deriving DecidableEq, Repr

/-- The token loop of `splitMacroLine`: characters up to a blank or `;` outside quotes;
`inQuote` holds inside the inner loop that runs to the closing quote. Returns the token and
the characters left. -/
def scanToken : Bool → List Char → List Char × List Char
  | _, [] => ([], [])
  | inQuote, c :: cs =>
    if inQuote then
      let r := scanToken (c ≠ Char.ofNat 39) cs
      (c :: r.1, r.2)
    else if isBlankC c ∨ c = ';' then ([], c :: cs)
    else
      let r := scanToken (c = Char.ofNat 39) cs
      (c :: r.1, r.2)

/-- The loop of `splitMacroLine` that copies the rest up to a `;` outside a string. -/
def stripComment : Bool → List Char → List Char
  | _, [] => []
  | inStr, c :: cs =>
    if c = Char.ofNat 39 then c :: stripComment (!inStr) cs
    else if c = ';' ∧ ¬ inStr then []
    else c :: stripComment inStr cs

/-- Function `splitMacroLine`. -/
def splitMacroLine (line : String) : LineParts :=
  let l0 := line.data.dropWhile isBlankC
  match l0 with
  | [] => ⟨"", "", ""⟩
  | c :: _ =>
    if c = ';' then ⟨"", "", ""⟩
    else
      let r1 := scanToken false l0
      let l1 := r1.2.dropWhile isBlankC
      match l1 with
      | [] => ⟨String.mk r1.1, "", ""⟩
      | c1 :: _ =>
        if c1 = ';' then ⟨String.mk r1.1, "", ""⟩
        else
          let r2 := scanToken false l1
          let l2 := r2.2.dropWhile isBlankC
          match l2 with
          | [] => ⟨String.mk r1.1, String.mk r2.1, ""⟩
          | c2 :: _ =>
            if c2 = ';' then ⟨String.mk r1.1, String.mk r2.1, ""⟩
            else ⟨String.mk r1.1, String.mk r2.1, String.mk (trimRight (stripComment false l2))⟩

/-- The pieces between commas (`current` is the piece being collected). -/
def splitOnComma : List Char → List Char → List (List Char)
  | cur, [] => [cur]
  | cur, c :: cs => if c = ',' then cur :: splitOnComma [] cs else splitOnComma (cur ++ [c]) cs

/-- Function `parseCommaSeparatedIdents`. -/
def parseCommaSeparatedIdents (s : String) : List String :=
  ((splitOnComma [] (s.data.takeWhile (fun c => c ≠ ';'))).map
    (fun cs => macroTrim (String.mk cs))).filter (fun t => t.data ≠ [])

/-- The digit test of `parseSimpleNumber` for a base. -/
def simpleDigitOk (base : Nat) (c : Char) : Bool :=
  if base = 2 then c = '0' || c = '1'
  else if base = 8 then decide (48 ≤ c.toNat ∧ c.toNat ≤ 55)
  else if base = 10 then isDigitC c
  else isXDigitC c

/-- Function `parseSimpleNumber`: the value and the `ok` flag. -/
def parseSimpleNumber (s : String) : Nat × Bool :=
  if s.data = [] then (0, false)
  else
    let u := (toUpper s).data
    let suffix := lastChar (toUpper s)
    let p : Nat × List Char :=
      if suffix = 'H' then (16, u.dropLast)
      else if suffix = 'B' then (2, u.dropLast)
      else if suffix = 'O' ∨ suffix = 'Q' then (8, u.dropLast)
      else if suffix = 'D' then (10, u.dropLast)
      else if u.length > 2 ∧ u.take 2 = ['0', 'X'] then (16, u.drop 2)
      else if u.length > 2 ∧ u.take 2 = ['0', 'B'] then (2, u.drop 2)
      else (10, u)
    if p.2 = [] then (0, false)
    else if ¬ p.2.all (simpleDigitOk p.1) then (0, false)
    else if digitsValue p.1 p.2 > 1000000 then (0, false)
    else (digitsValue p.1 p.2, true)

/-- The set `reserved` of `isMacroReservedWord`. -/
def reservedWords : List String :=
  ["AX", "BX", "CX", "DX", "SP", "BP", "SI", "DI",
   "AL", "AH", "BL", "BH", "CL", "CH", "DL", "DH",
   "CS", "DS", "ES", "SS", "IP",
   "MOV", "ADD", "SUB", "MUL", "DIV", "IMUL", "IDIV",
   "INC", "DEC", "NEG", "NOT",
   "AND", "OR", "XOR", "TEST", "CMP",
   "PUSH", "POP", "PUSHF", "POPF",
   "JMP", "JE", "JNE", "JZ", "JNZ", "JG", "JGE", "JL", "JLE",
   "JA", "JAE", "JB", "JBE", "JC", "JNC", "JO", "JNO", "JS", "JNS",
   "JCXZ", "LOOP", "LOOPE", "LOOPNE", "LOOPZ", "LOOPNZ",
   "CALL", "RET", "RETF", "INT", "IRET", "INTO",
   "NOP", "HLT", "CLC", "STC", "CMC", "CLD", "STD", "CLI", "STI",
   "SHL", "SHR", "SAL", "SAR", "ROL", "ROR", "RCL", "RCR",
   "LEA", "LDS", "LES", "XCHG", "XLAT", "XLATB",
   "CBW", "CWD", "AAA", "AAD", "AAM", "AAS", "DAA", "DAS",
   "IN", "OUT", "INS", "OUTS", "INSB", "INSW", "OUTSB", "OUTSW",
   "MOVSB", "MOVSW", "CMPSB", "CMPSW", "SCASB", "SCASW",
   "LODSB", "LODSW", "STOSB", "STOSW",
   "REP", "REPE", "REPNE", "REPZ", "REPNZ",
   "LOCK", "WAIT", "ESC",
   "LAHF", "SAHF",
   "ORG", "DB", "DW", "EQU", "PROC", "ENDP", "SEGMENT", "ENDS",
   "ASSUME", "END", "INCLUDE",
   "MACRO", "ENDM", "LOCAL", "REPT", "IRP",
   "BYTE", "WORD", "PTR", "OFFSET", "SHORT", "NEAR", "FAR",
   "DUP"]

/-- Function `isMacroReservedWord`. -/
def isMacroReservedWord (upper : String) : Bool := decide (upper ∈ reservedWords)

/-- The identifier characters of `substituteParams`: `isalnum`, `_`, `?`, `.`. -/
def isIdentC (c : Char) : Bool :=
  isAlphaC c || isDigitC c || c = '_' || c = '?' || c = '.'

/-- The replacement of one word in `substituteParams`: the argument of the first parameter
with that name (empty when the argument is missing), else the replacement of the first local
with that name, else the word itself. -/
def replaceWord (paramNames argValues localNames localReplacements : List String)
    (word : List Char) : List Char :=
  let upper := toUpper (String.mk word)
  match paramNames.indexOf? upper with
  | some p => (argValues.getD p "").data
  | none =>
    match localNames.indexOf? upper with
    | some l => (localReplacements.getD l "").data
    | none => word

/-- The `while (i < len)` loop of `substituteParams` outside a comment; the fuel bounds the
number of turns. -/
def substLoop (paramNames argValues localNames localReplacements : List String) :
    Nat → Bool → List Char → List Char
  | 0, _, _ => []
  | _ + 1, _, [] => []
  | fuel + 1, inString, c :: cs =>
    if c = ';' ∧ ¬ inString then c :: cs
    else if c = Char.ofNat 39 then
      c :: substLoop paramNames argValues localNames localReplacements fuel (!inString) cs
    else if inString then
      c :: substLoop paramNames argValues localNames localReplacements fuel inString cs
    else if c = '&' then
      substLoop paramNames argValues localNames localReplacements fuel inString cs
    else if isIdentC c then
      replaceWord paramNames argValues localNames localReplacements ((c :: cs).takeWhile isIdentC)
        ++ substLoop paramNames argValues localNames localReplacements fuel inString
            ((c :: cs).dropWhile isIdentC)
    else c :: substLoop paramNames argValues localNames localReplacements fuel inString cs

/-- Function `substituteParams`. -/
def substituteParams (line : String) (paramNames argValues localNames localReplacements :
    List String) : String :=
  String.mk (substLoop paramNames argValues localNames localReplacements line.data.length false
    line.data)

/-- The character loop of `parseMacroArguments`: returns the arguments pushed and the
pending `current`. -/
def argLoop : List Char → List Char → Nat → Bool → List String → List String × List Char
  | [], cur, _, _, args => (args, cur)
  | c :: cs, cur, depth, inString, args =>
    if c = ';' ∧ ¬ inString ∧ depth = 0 then (args, cur)
    else if c = Char.ofNat 39 ∧ depth = 0 then argLoop cs (cur ++ [c]) depth (!inString) args
    else if c = '<' ∧ ¬ inString then argLoop cs (cur ++ [c]) (depth + 1) inString args
    else if c = '>' ∧ ¬ inString ∧ depth > 0 then argLoop cs (cur ++ [c]) (depth - 1) inString args
    else if c = ',' ∧ ¬ inString ∧ depth = 0 then
      argLoop cs [] depth inString (args ++ [macroTrim (String.mk cur)])
    else argLoop cs (cur ++ [c]) depth inString args

/-- Function `parseMacroArguments`. -/
def parseMacroArguments (argStr : String) : List String :=
  if (macroTrim argStr).data = [] then []
  else
    let r := argLoop argStr.data [] 0 false []
    let t := macroTrim (String.mk r.2)
    if t.data ≠ [] then r.1 ++ [t] else r.1

/-- The loop of `findMatchingEndm` from line `i` with the current nesting depth. -/
def endmLoop : List String → Nat → Nat → Option Nat
  | [], _, _ => none
  | l :: rest, i, depth =>
    let lp := splitMacroLine l
    if toUpper lp.tok2 = "MACRO" ∨ toUpper lp.tok1 = "REPT" ∨ toUpper lp.tok1 = "IRP" then
      endmLoop rest (i + 1) (depth + 1)
    else if toUpper lp.tok1 = "ENDM" then
      if depth - 1 = 0 then some i else endmLoop rest (i + 1) (depth - 1)
    else endmLoop rest (i + 1) depth

/-- Function `findMatchingEndm`: the index of the matching ENDM, `none` for -1. -/
def findMatchingEndm (lines : List String) (startAfter : Nat) : Option Nat :=
  endmLoop (lines.drop startAfter) startAfter 1

/-- The arguments `lines`, `sourceMap` and `outErrors` the expansion functions update. -/
structure ExpandState where
  lines : List String
  sourceMap : List SourceLocation
  errors : List Diagnostic
  deriving DecidableEq, Repr

/-- The line number `sourceMap[i].line`. -/
def ExpandState.lineAt (st : ExpandState) (i : Nat) : Nat :=
  match st.sourceMap.get? i with
  | some loc => loc.line
  | none => 0

def ExpandState.fail (st : ExpandState) (d : Diagnostic) : ExpandState :=
  { st with errors := st.errors ++ [d] }

/-- The splice at the end of the expansion functions: lines `first..last` are replaced by
`expansion`, every new line mapped to the location of line `first`. -/
def ExpandState.splice (st : ExpandState) (first last : Nat) (expansion : List String) :
    ExpandState :=
  { st with
    lines := st.lines.take first ++ expansion ++ st.lines.drop (last + 1),
    sourceMap := st.sourceMap.take first
      ++ List.replicate expansion.length ((st.sourceMap.get? first).getD ⟨"", 0⟩)
      ++ st.sourceMap.drop (last + 1) }

/-- The lines `first+1 .. last-1` of a block. -/
def blockBody (lines : List String) (first last : Nat) : List String :=
  (lines.drop (first + 1)).take (last - (first + 1))

/-- Function `expandRept`: the new state and the success flag. -/
def expandRept (st : ExpandState) (reptLine : Nat) : ExpandState × Bool :=
  let lp := splitMacroLine (st.lines.getD reptLine "")
  if lp.tok2.data = [] then
    (st.fail ⟨"ERROR", st.lineAt reptLine, "REPT directive missing repeat count",
      "Usage: REPT <count>"⟩, false)
  else
    let r := parseSimpleNumber lp.tok2
    if ¬ r.2 then
      (st.fail ⟨"ERROR", st.lineAt reptLine, "REPT count must be a non-negative numeric literal",
        "Got: '" ++ lp.tok2 ++ "'"⟩, false)
    else
      match findMatchingEndm st.lines (reptLine + 1) with
      | none => (st.fail ⟨"ERROR", st.lineAt reptLine, "REPT without matching ENDM", ""⟩, false)
      | some endmLine =>
        let body := blockBody st.lines reptLine endmLine
        let expansion := ["; >>> REPT " ++ lp.tok2]
          ++ (List.replicate r.1 body).flatten ++ ["; <<< END REPT"]
        (st.splice reptLine endmLine expansion, true)

/-- The search for the `>` that closes the first `<` in `expandIrp`. -/
def closeLoop : List Char → Nat → Int → Option Nat
  | [], _, _ => none
  | c :: cs, i, depth =>
    if c = '<' then closeLoop cs (i + 1) (depth + 1)
    else if c = '>' then
      if depth - 1 = 0 then some i else closeLoop cs (i + 1) (depth - 1)
    else closeLoop cs (i + 1) depth

/-- Function `expandIrp`: the new state and the success flag. -/
def expandIrp (st : ExpandState) (irpLine : Nat) : ExpandState × Bool :=
  let lp := splitMacroLine (st.lines.getD irpLine "")
  let usage := "Usage: IRP param, <item1, item2, ...>"
  if lp.tok2.data = [] then
    (st.fail ⟨"ERROR", st.lineAt irpLine, "IRP directive missing parameter name", usage⟩, false)
  else
    let upperTok2 := toUpper lp.tok2
    let paramName := if lastChar upperTok2 = ',' then popBack upperTok2 else upperTok2
    let trimmed := macroTrim lp.rest
    if lastChar upperTok2 ≠ ',' ∧ (trimmed.data = [] ∨ firstChar trimmed ≠ ',') then
      (st.fail ⟨"ERROR", st.lineAt irpLine, "IRP directive missing comma after parameter name",
        usage⟩, false)
    else
      let rest := if lastChar upperTok2 ≠ ',' then macroTrim (String.mk (trimmed.data.drop 1))
        else trimmed
      if rest.data = [] ∨ firstChar rest ≠ '<' then
        (st.fail ⟨"ERROR", st.lineAt irpLine, "IRP directive missing angle-bracket list",
          usage⟩, false)
      else
        match closeLoop rest.data 0 0 with
        | none =>
          (st.fail ⟨"ERROR", st.lineAt irpLine, "IRP directive has unmatched '<'", usage⟩, false)
        | some closePos =>
          let items := parseCommaSeparatedIdents
            (String.mk ((rest.data.drop 1).take (closePos - 1)))
          match findMatchingEndm st.lines (irpLine + 1) with
          | none => (st.fail ⟨"ERROR", st.lineAt irpLine, "IRP without matching ENDM", ""⟩, false)
          | some endmLine =>
            let body := blockBody st.lines irpLine endmLine
            let expansion := ["; >>> IRP " ++ lp.tok2]
              ++ (items.map (fun item =>
                    body.map (fun bline => substituteParams bline [paramName] [item] [] []))).flatten
              ++ ["; <<< END IRP"]
            (st.splice irpLine endmLine expansion, true)

/-- The body loop of the definition capture in `expandMacros`: a LOCAL line adds its names
to the locals, any other line is a body line. -/
def collectLine (d : MacroDefinition) (line : String) : MacroDefinition :=
  let bodyLp := splitMacroLine line
  if toUpper bodyLp.tok1 = "LOCAL" then
    let localArgs :=
      if bodyLp.rest.data ≠ [] then bodyLp.tok2 ++ " " ++ bodyLp.rest else bodyLp.tok2
    { d with locals := d.locals ++ (parseCommaSeparatedIdents localArgs).map toUpper }
  else { d with body := d.body ++ [line] }

/-- The loop that turns the lines `first..last` of a definition into comments. -/
def commentOut (lines : List String) (first last : Nat) : List String :=
  lines.take first
    ++ ((lines.drop first).take (last + 1 - first)).map (fun l => "; [MACRO DEF] " ++ l)
    ++ lines.drop (last + 1)

/-- Phase 1 of `expandMacros` from line `i`: the state, the table and the success flag. The
fuel bounds the number of turns of a loop in which `i` grows every turn. -/
def phase1 : Nat → Nat → ExpandState → MacroTable → ExpandState × MacroTable × Bool
  | 0, _, st, macros => (st, macros, true)
  | fuel + 1, i, st, macros =>
    match st.lines.get? i with
    | none => (st, macros, true)
    | some line =>
      let lp := splitMacroLine line
      let u1 := toUpper lp.tok1
      let u2 := toUpper lp.tok2
      if u2 = "MACRO" then
        let macroName := toUpper lp.tok1
        if isMacroReservedWord macroName then
          (st.fail ⟨"ERROR", st.lineAt i,
            "Cannot define macro with reserved name '" ++ macroName ++ "'", ""⟩, macros, false)
        else
          let st1 :=
            match macros.lookup macroName with
            | some old =>
              st.fail ⟨"WARNING", st.lineAt i,
                "Macro '" ++ macroName ++ "' redefined (previous at line "
                  ++ Nat.repr (old.definedAtLine + 1) ++ ")", ""⟩
            | none => st
          let params :=
            if lp.rest.data ≠ [] then (parseCommaSeparatedIdents lp.rest).map toUpper else []
          match findMatchingEndm st1.lines (i + 1) with
          | none =>
            (st1.fail ⟨"ERROR", st1.lineAt i,
              "MACRO '" ++ macroName ++ "' without matching ENDM", ""⟩, macros, false)
          | some endmLine =>
            let d := (blockBody st1.lines i endmLine).foldl collectLine
              { name := macroName, params := params, locals := [], body := [],
                definedAtLine := i }
            phase1 fuel (endmLine + 1)
              { st1 with lines := commentOut st1.lines i endmLine } (macros.set macroName d)
      else if u1 = "REPT" ∨ u1 = "IRP" then
        match findMatchingEndm st.lines (i + 1) with
        | none =>
          (st.fail ⟨"ERROR", st.lineAt i, u1 ++ " without matching ENDM", ""⟩, macros, false)
        | some endmLine => phase1 fuel (endmLine + 1) st macros
      else if u1 = "ENDM" then
        (st.fail ⟨"ERROR", st.lineAt i, "ENDM without matching MACRO, REPT, or IRP", ""⟩,
          macros, false)
      else phase1 fuel (i + 1) st macros

/-- The quick check after phase 1: some line starts with REPT or IRP. -/
def hasReptIrp (lines : List String) : Bool :=
  lines.any (fun line =>
    toUpper (splitMacroLine line).tok1 = "REPT" ∨ toUpper (splitMacroLine line).tok1 = "IRP")

/-- The name `snprintf(buf, sizeof(buf), "??%04X", n)` gives. -/
def localLabel (n : Nat) : String := "??" ++ hexPad 4 n

/-- The loop that generates the replacements of `count` locals from the counter: the
replacements and the new counter. -/
def genLocals : Nat → Nat → List String × Nat
  | 0, counter => ([], counter)
  | count + 1, counter =>
    let r := genLocals count (counter + 1)
    (localLabel counter :: r.1, r.2)

/-- The expansion of the invocation of `d` on line `i`: the new state and counter. -/
def expandInvocation (st : ExpandState) (i : Nat) (d : MacroDefinition)
    (macroName argStr labelPrefix : String) (localCounter : Nat) : ExpandState × Nat :=
  let args := parseMacroArguments argStr
  let st1 :=
    if args.length < d.params.length then
      st.fail ⟨"WARNING", st.lineAt i,
        "Macro '" ++ macroName ++ "' invoked with " ++ Nat.repr args.length
          ++ " args, expected " ++ Nat.repr d.params.length,
        "Missing arguments will be empty strings"⟩
    else if args.length > d.params.length then
      st.fail ⟨"WARNING", st.lineAt i,
        "Macro '" ++ macroName ++ "' invoked with " ++ Nat.repr args.length
          ++ " args, expected " ++ Nat.repr d.params.length,
        "Extra arguments will be ignored"⟩
    else st
  let r := genLocals d.locals.length localCounter
  let expansion :=
    (if labelPrefix.data ≠ [] then [labelPrefix] else [])
      ++ ["; >>> MACRO " ++ macroName]
      ++ d.body.map (fun bodyLine => substituteParams bodyLine d.params args d.locals r.1)
      ++ ["; <<< END MACRO " ++ macroName]
  (st1.splice i i expansion, r.2)

/-- What one sweep of phase 2 does. -/
inductive SweepOutcome where
  | stable
  | expanded (st : ExpandState) (localCounter : Nat)
  | failed (st : ExpandState)
  deriving DecidableEq, Repr

/-- One sweep of phase 2 from line `i` (`rest` holds the lines from `i` on): the first
REPT, IRP or invocation found is expanded and the sweep ends. -/
def expansionSweep (macros : MacroTable) (st : ExpandState) (localCounter : Nat) :
    List String → Nat → SweepOutcome
  | [], _ => .stable
  | line :: rest, i =>
    let trimmed := macroTrim line
    if trimmed.data = [] ∨ firstChar trimmed = ';' then
      expansionSweep macros st localCounter rest (i + 1)
    else
      let lp := splitMacroLine line
      let u1 := toUpper lp.tok1
      let u2 := toUpper lp.tok2
      if u1 = "REPT" then
        if (expandRept st i).2 then .expanded (expandRept st i).1 localCounter
        else .failed (expandRept st i).1
      else if u1 = "IRP" then
        if (expandIrp st i).2 then .expanded (expandIrp st i).1 localCounter
        else .failed (expandIrp st i).1
      else
        let p : String × String × String :=
          if (macros.lookup u1).isSome then
            (u1,
             if lp.rest.data ≠ [] then
               (if lp.tok2.data ≠ [] then lp.tok2 ++ " " ++ lp.rest else lp.rest)
             else lp.tok2,
             "")
          else if lp.tok1.data ≠ [] ∧ lastChar lp.tok1 = ':' ∧ (macros.lookup u2).isSome then
            (u2, lp.rest, lp.tok1)
          else ("", "", "")
        if p.1.data ≠ [] then
          match macros.lookup p.1 with
          | some d =>
            .expanded (expandInvocation st i d p.1 p.2.1 p.2.2 localCounter).1
              (expandInvocation st i d p.1 p.2.1 p.2.2 localCounter).2
          | none => expansionSweep macros st localCounter rest (i + 1)
        else expansionSweep macros st localCounter rest (i + 1)

/-- Phase 2 of `expandMacros`: at most `n` sweeps. -/
def phase2 (macros : MacroTable) : Nat → ExpandState → Nat → ExpandState × Nat × Bool
  | 0, st, localCounter =>
    (st.fail ⟨"ERROR", 0,
      "Macro expansion iteration limit exceeded (" ++ Nat.repr MAX_MACRO_EXPANSION_ITERATIONS
        ++ ")",
      "Check for recursive or mutually-recursive macro invocations"⟩, localCounter, false)
  | n + 1, st, localCounter =>
    match expansionSweep macros st localCounter st.lines 0 with
    | .stable => (st, localCounter, true)
    | .expanded st1 counter1 => phase2 macros n st1 counter1
    | .failed st1 => (st1, localCounter, false)

/-- Function `expandMacros`; the static `localCounter` is passed in and returned. -/
def expandMacros (st : ExpandState) (localCounter : Nat) : ExpandState × Nat × Bool :=
  let r := phase1 st.lines.length 0 st []
  if ¬ r.2.2 then (r.1, localCounter, false)
  else if r.2.1.isEmpty ∧ ¬ hasReptIrp r.1.lines then (r.1, localCounter, true)
  else phase2 r.2.1 MAX_MACRO_EXPANSION_ITERATIONS r.1 localCounter

/-- The arguments of `expandMacros` for a source read from one file. -/
def sourceState (lines : List String) : ExpandState :=
  { lines := lines, sourceMap := (List.range lines.length).map (fun i => ⟨"", i + 1⟩),
    errors := [] }

/-- The upper-case hexadecimal digit characters. -/
def upperHexDigits : List Char := "0123456789ABCDEF".data

/-- A piece of a macro body line outside strings and comments: a word (a maximal run of
identifier characters) or a single separator character. -/
inductive Segment where
  | word (cs : List Char)
  | sep (c : Char)
  deriving DecidableEq, Repr

/-- The characters of a list of segments. -/
def renderSegments : List Segment → List Char
  | [] => []
  | .word cs :: rest => cs ++ renderSegments rest
  | .sep c :: rest => c :: renderSegments rest

/-- The segments are the words and separators of a line: words are non-empty runs of
identifier characters, no two words are adjacent, and a separator is no identifier
character, quote, `;` or `&`. -/
def segmentsOk : List Segment → Bool
  | [] => true
  | .sep c :: rest =>
    !isIdentC c && c ≠ Char.ofNat 39 && c ≠ ';' && c ≠ '&' && segmentsOk rest
  | .word cs :: rest =>
    cs ≠ [] && cs.all isIdentC
      && (match rest with
          | .word _ :: _ => false
          | _ => true)
      && segmentsOk rest

/-- The segments with every word replaced as `substituteParams` replaces words. -/
def replaceSegments (paramNames argValues localNames localReplacements : List String) :
    List Segment → List Segment
  | [] => []
  | .word cs :: rest =>
    .word (replaceWord paramNames argValues localNames localReplacements cs)
      :: replaceSegments paramNames argValues localNames localReplacements rest
  | .sep c :: rest =>
    .sep c :: replaceSegments paramNames argValues localNames localReplacements rest

/-- A source with a macro that declares the local `done`, invoked twice. -/
def putcSource : List String :=
  ["PUTC MACRO ch", "LOCAL done", "    MOV DL, ch", "    CMP DL, 0", "    JE done",
   "    MOV AH, 02h", "    INT 21h", "done:", "ENDM", "PUTC 'A'", "PUTC 'B'", "INT 20h"]

/-- The definition phase 1 captures from `putcSource`. -/
def putcDefinition : MacroDefinition :=
  { name := "PUTC", params := ["CH"], locals := ["DONE"],
    body := ["    MOV DL, ch", "    CMP DL, 0", "    JE done", "    MOV AH, 02h", "    INT 21h",
             "done:"],
    definedAtLine := 0 }

/-- A line phase 1 of `expandMacros` passes over: no definition, no REPT, IRP or ENDM. -/
def inertLine (line : String) : Bool :=
  toUpper (splitMacroLine line).tok2 ≠ "MACRO" ∧ toUpper (splitMacroLine line).tok1 ≠ "REPT"
    ∧ toUpper (splitMacroLine line).tok1 ≠ "IRP" ∧ toUpper (splitMacroLine line).tok1 ≠ "ENDM"

/-- The names the specification reserves: the mnemonics of the ISA database, the register
names and the assembler directives. -/
def specReservedNames : List String :=
  isaDB.map (fun e => e.mnemonic) ++ regTable.map (fun p => p.1)
    ++ ["ORG", "DB", "DW", "DD", "RESB", "RESW", "EQU", "PROC", "ENDP", "MACRO", "ENDM",
        "LOCAL", "REPT", "IRP", "INCLUDE"]

/-- The reserved names that are missing from the set of `isMacroReservedWord`. -/
def unprotectedNames : List String :=
  ["DD", "RESB", "RESW", "JNGE", "JNLE", "JNG", "JNL", "JNBE", "JNAE", "JNB", "JNA", "JP",
   "JPE", "JNP", "JPO", "PUSHA", "POPA"]

/-- The error of a definition with a reserved name. -/
def reservedNameError (line : Nat) (name : String) : Diagnostic :=
  ⟨"ERROR", line, "Cannot define macro with reserved name '" ++ name ++ "'", ""⟩

/-- The state and counter after `k` sweeps of phase 2 that each expanded something; `none`
when one of them found nothing to expand or failed. -/
def afterSweeps (macros : MacroTable) : Nat → ExpandState → Nat → Option (ExpandState × Nat)
  | 0, st, localCounter => some (st, localCounter)
  | k + 1, st, localCounter =>
    match expansionSweep macros st localCounter st.lines 0 with
    | .expanded st1 counter1 => afterSweeps macros k st1 counter1
    | _ => none

/-- The error pushed when the sweeps of phase 2 are used up. -/
def iterationLimitError : Diagnostic :=
  ⟨"ERROR", 0, "Macro expansion iteration limit exceeded (10000)",
    "Check for recursive or mutually-recursive macro invocations"⟩

/-- A line the sweeps of phase 2 skip: blank, or a comment. -/
def skippedLine (line : String) : Bool :=
  (macroTrim line).data = [] ∨ firstChar (macroTrim line) = ';'

/-- The macro `M` whose body is the one line `M`. -/
def selfMacro : MacroDefinition :=
  { name := "M", params := [], locals := [], body := ["M"], definedAtLine := 0 }

/-- The states in which the first line that is not skipped is the invocation `M`. -/
def SelfShape (st : ExpandState) : Prop :=
  ∃ pre post, st.lines = pre ++ "M" :: post ∧ ∀ l ∈ pre, skippedLine l = true

/-- Whether the character loop of `tokenize` is inside a quoted string after the characters
`cs`, started in the state `inString`; the scan stops, outside any string, at a `;` met
outside a string. -/
def endsInString : List Char → Bool → Bool
  | [], inString => inString
  | c :: rest, true => if c = Char.ofNat 39 then endsInString rest false else endsInString rest true
  | c :: rest, false =>
    if c = ';' then false
    else if c = Char.ofNat 39 then endsInString rest true
    else endsInString rest false

/-- What `decodeOpcode` guarantees about its result, `pb` being the number of prefix bytes
and `current` the offset after the opcode byte: the prefix count is kept, an invalid result
has size 0, and a valid result covers the prefixes and the opcode and ends inside the
buffer. -/
def DecodeOk (code : List Nat) (current pb : Nat) (r : DecodedInst) : Prop :=
  r.prefixBytes = pb
  ∧ (r.valid = false → r.size = 0)
  ∧ (r.valid = true → pb + 1 ≤ r.size ∧ r.size + current ≤ code.length + pb + 1)

/-- What the decoder guarantees about an operand of an instruction with opcode `opcode`: the
register index is in 0..7, and the index of a segment register is in 0..3 unless the opcode
is 8C or 8E. -/
def OperandOk (opcode : Nat) (op : DecodedOperand) : Prop :=
  op.reg < 8 ∧ (op.kind = .SREG → op.reg < 4 ∨ opcode = 0x8C ∨ opcode = 0x8E)

/-- Both operands of a decoder result are as `OperandOk` says. -/
def RegsOk (opcode : Nat) (r : DecodedInst) : Prop :=
  OperandOk opcode r.op1 ∧ OperandOk opcode r.op2

/-- The operand the emulator would address for the assembler operand `mem`: its R/M code
and its displacement, unencoded. -/
def assembledOperand (mem : Operand) : DecodedOperand :=
  { DecodedOperand.empty with kind := .MEM, memRM := mem.memReg, disp := mem.val }

/-- The cursor invariant: the screen is 80 columns by 50 rows and the cursor is on it. -/
def CursorOk (v : VRAMState) : Prop :=
  v.rows = 50 ∧ v.cols = 80 ∧ v.cursorRow < 50 ∧ v.cursorCol < 80

/-- The emulator states reached from an initial state by teletype output, the INT 10h and
INT 21h handlers, and any change of the components other than the cursor state (registers,
memory, captured I/O, result). -/
inductive ScreenReachable : EmuState → Prop
  | start (binary : List Nat) (config : EmulatorConfig) :
      ScreenReachable (initialState binary config)
  | other (s : EmuState) (cpu : CPU) (mem : Memory) (io : IOCapture) (result : EmulatorResult)
      (memDirty : Bool) : ScreenReachable s →
      ScreenReachable { s with cpu := cpu, mem := mem, io := io, result := result,
                               memDirty := memDirty }
  | teletype (s : EmuState) (ch : Nat) : ScreenReachable s →
      ScreenReachable { s with mem := (ttyCharToVRAM s.mem s.vram ch).1,
                               vram := (ttyCharToVRAM s.mem s.vram ch).2 }
  | int10 (s : EmuState) : ScreenReachable s → ScreenReachable (handleInt10 s)
  | int21 (s : EmuState) : ScreenReachable s → ScreenReachable (handleInt21 s)

/-- The segment-override bytes `assembleInstruction` emits in front of the instruction. -/
def emitSegmentPrefixes (ctx : AssemblerContext) (op1 op2 : Operand) : AssemblerContext :=
  let ctx := if op1.segmentPrefix ≠ -1 then emitByte ctx op1.segmentPrefix.toNat else ctx
  if op2.segmentPrefix ≠ -1 then emitByte ctx op2.segmentPrefix.toNat else ctx

/-- The drift check of `assembleInstruction`: an error when a validated mnemonic emitted
nothing in pass 2. -/
def driftCheck (ctx : AssemblerContext) (mnemonic : String) (line0 : Nat) : AssemblerContext :=
  if ¬ ctx.isPass1 ∧ ctx.currentLineBytes = [] ∧ ¬ ctx.globalError then
    logError ctx line0
      ("Internal: mnemonic '" ++ mnemonic
        ++ "' passed ISA validation but has no code path in assembleLine")
      "This is an assembler bug. The instruction is listed in the ISA database but no encoder handles it. Please report this."
  else ctx

/-- The text `decodedStr` of a listing entry. -/
def decodedText (mnemonic : String) (op1 op2 : Operand) : String :=
  mnemonic
    ++ (if op1.present then
          " " ++ formatOperand op1 ++ (if op2.present then ", " ++ formatOperand op2 else "")
        else "")

/-- The part of `assembleInstruction` after validation has accepted the operands: the
segment-prefix bytes, the encoder, the drift check and the listing entry. -/
def encodeAndList (ctx : AssemblerContext) (mnemonic : String) (op1 op2 : Operand)
    (line0 : Nat) (startAddr : Int) (lineNum : Nat) (sourceLine : String) : AssemblerContext :=
  let e := encodeInstruction (emitSegmentPrefixes ctx op1 op2) mnemonic op1 op2 line0
  if e.2 then e.1
  else
    let ctx := driftCheck e.1 mnemonic line0
    if ¬ ctx.isPass1 then
      { ctx with listing := ctx.listing ++
          [{ address := startAddr, sourceLine := lineNum, bytes := ctx.currentLineBytes,
             sourceCode := sourceLine, size := ctx.currentLineBytes.length,
             decoded := decodedText mnemonic op1 op2 }] }
    else ctx

/-- The relation between the context before and after an encoder ran: the pass flag and the
listing are unchanged, and the same bytes were appended to the machine code and to the bytes
of the current line. -/
def Appends (c c1 : AssemblerContext) : Prop :=
  c1.isPass1 = c.isPass1 ∧ c1.listing = c.listing
  ∧ ∃ bs, c1.machineCode = c.machineCode ++ bs ∧ c1.currentLineBytes = c.currentLineBytes ++ bs

/-- The R/M code the if-chain of `parseOperand` gives to a set of registers that names both
SI and DI, or both BX and BP. -/
def acceptedRM (hasBX hasBP hasSI hasDI : Bool) : Int :=
  if hasBX ∧ hasSI then 0
  else if hasBX ∧ hasDI then 1
  else if hasBP ∧ hasSI then 2
  else if hasBP ∧ hasDI then 3
  else if hasSI then 4
  else 6

/-! ## Where the source has no defined behaviour -/

/-- The values of the C++ type `int` of the source (32 bits, two's complement). -/
def fitsInt (v : Int) : Prop := -2147483648 ≤ v ∧ v ≤ 2147483647

instance (v : Int) : Decidable (fitsInt v) := by
  unfold fitsInt; exact inferInstance

/-- The grammar of `HasValue` with the arithmetic of the source's type: a phrase has an `int`
value when every operation of its derivation (`-val`, `lhs += rhs`, `lhs -= rhs`,
`lhs *= rhs`, `lhs /= rhs`) gives a value of type `int`. On these phrases no signed
overflow occurs in `parseExpression`, and the unbounded integers of `binLoop` and
`parseExpression` compute what the C++ `int` computes. -/
inductive HasIntValue : Level → List Token → Int → Prop where
  | num (t : Token) (v : Int) (r : String) :
      t.type = .Number → parseNumber t.value = (v, true, r) → HasIntValue .unary [t] v
  | paren (lp rp : Token) (ts : List Token) (v : Int) :
      lp.type = .LParen → rp.type = .RParen → HasIntValue .expr ts v →
      HasIntValue .unary (lp :: ts ++ [rp]) v
  | pos (op : Token) (ts : List Token) (v : Int) :
      op.type = .Plus → HasIntValue .unary ts v → HasIntValue .unary (op :: ts) v
  | neg (op : Token) (ts : List Token) (v : Int) :
      op.type = .Minus → HasIntValue .unary ts v → fitsInt (-v) →
      HasIntValue .unary (op :: ts) (-v)
  | unary (ts : List Token) (v : Int) : HasIntValue .unary ts v → HasIntValue .term ts v
  | mul (op : Token) (ts us : List Token) (a b : Int) :
      HasIntValue .term ts a → op.type = .Star → HasIntValue .unary us b → fitsInt (a * b) →
      HasIntValue .term (ts ++ op :: us) (a * b)
  | div (op : Token) (ts us : List Token) (a b : Int) :
      HasIntValue .term ts a → op.type = .Slash → HasIntValue .unary us b → b ≠ 0 →
      fitsInt (Int.tdiv a b) → HasIntValue .term (ts ++ op :: us) (Int.tdiv a b)
  | term (ts : List Token) (v : Int) : HasIntValue .term ts v → HasIntValue .expr ts v
  | add (op : Token) (ts us : List Token) (a b : Int) :
      HasIntValue .expr ts a → op.type = .Plus → HasIntValue .term us b → fitsInt (a + b) →
      HasIntValue .expr (ts ++ op :: us) (a + b)
  | sub (op : Token) (ts us : List Token) (a b : Int) :
      HasIntValue .expr ts a → op.type = .Minus → HasIntValue .term us b → fitsInt (a - b) →
      HasIntValue .expr (ts ++ op :: us) (a - b)

instance (cpu : CPU) (v : Nat) : Decidable (idivUndefined cpu v) := by
  unfold idivUndefined; exact inferInstance

/-- An operand that indexes a register file outside its bounds: `cpu.sregs` has the four
entries 0..3, `cpu.regs` the eight entries 0..7 (`readOperand`, `writeOperand`). -/
def operandOutOfRange (op : DecodedOperand) : Prop :=
  (op.kind = .SREG ∧ 4 ≤ op.reg) ∨ ((op.kind = .REG8 ∨ op.kind = .REG16) ∧ 8 ≤ op.reg)

instance (op : DecodedOperand) : Decidable (operandOutOfRange op) := by
  unfold operandOutOfRange; exact inferInstance

/-- The executions of `executeInstruction` for which C++ defines no behaviour, so that the
source gives no result the embedding could follow: an operand that indexes `cpu.sregs` or
`cpu.regs` out of bounds, a byte `DIV`/`IDIV` whose divisor byte is zero while the operand
read is not, and the `int32_t` division of -2^31 by -1 in the 16-bit `IDIV`
(`idivUndefined`). The instruction pointer plays no part in it. -/
def undefinedStep (cpu : CPU) (mem : Memory) (inst : DecodedInst) : Prop :=
  operandOutOfRange inst.op1 ∨ operandOutOfRange inst.op2
  ∨ ((inst.mnemonic = "DIV" ∨ inst.mnemonic = "IDIV") ∧ inst.wide = false
      ∧ readOperand cpu mem inst.op1 inst.segOverride ≠ 0
      ∧ readOperand cpu mem inst.op1 inst.segOverride &&& 0xFF = 0)
  ∨ (inst.mnemonic = "IDIV" ∧ inst.wide = true
      ∧ idivUndefined cpu (readOperand cpu mem inst.op1 inst.segOverride))

instance (cpu : CPU) (mem : Memory) (inst : DecodedInst) :
    Decidable (undefinedStep cpu mem inst) := by
  unfold undefinedStep; exact inferInstance

/-- The machine state at the head of iteration `k` of the main loop of `runEmulator` (the
state `emuLoop` arrives at with `k` cycles allowed). -/
def stateAfter (binary : List Nat) (config : EmulatorConfig) (k : Nat) : EmuState :=
  (emuLoop ((List.range 65536).map (initialState binary config).mem.data) config k 0
    (initialState binary config)).2

/-- Iteration `k` of the run of `binary` executes an instruction without defined behaviour:
after `k` cycles the run has not halted, the bytes at IP decode to a valid instruction, and
executing it is an `undefinedStep`. -/
def undefinedAt (binary : List Nat) (config : EmulatorConfig) (k : Nat) : Prop :=
  (stateAfter binary config k).result.halted = false
  ∧ (decodeInstruction ((List.range 65536).map (initialState binary config).mem.data)
        (stateAfter binary config k).cpu.ip).valid = true
  ∧ undefinedStep (stateAfter binary config k).cpu (stateAfter binary config k).mem
      (decodeInstruction ((List.range 65536).map (initialState binary config).mem.data)
        (stateAfter binary config k).cpu.ip)

instance (binary : List Nat) (config : EmulatorConfig) (k : Nat) :
    Decidable (undefinedAt binary config k) := by
  unfold undefinedAt; exact inferInstance

/-- The configurations on which `runEmulator` stays inside the defined behaviour of C++
whatever the binary: every watched register is a register index 0..7 (`cpu.regs[regIdx]`
in `checkWatchpoints`), and `maxCycles` is below the largest `int`
(`result.cyclesExecuted + 1` in `computeFidelity`). -/
def configInRange (config : EmulatorConfig) : Prop :=
  (∀ r ∈ config.watchRegs, r < 8) ∧ config.maxCycles < 2147483647

instance (config : EmulatorConfig) : Decidable (configInRange config) := by
  unfold configInRange; exact inferInstance

end Agent86

/-! # Lemmas and theorems -/

namespace Agent86

/-! ## Byte arithmetic lemmas -/

theorem and_255 (w : Nat) : w &&& 0xFF = w % 256 := by
  have h := Nat.and_pow_two_sub_one_eq_mod w 8
  simpa using h

theorem shr8_and_255 (w : Nat) (h : w < 65536) : (w >>> 8) &&& 0xFF = w / 256 := by
  rw [and_255, Nat.shiftRight_eq_div_pow]
  have : w / 2 ^ 8 < 256 := by
    have : (2:Nat) ^ 8 = 256 := by norm_num
    rw [this]; omega
  rw [Nat.mod_eq_of_lt this]; norm_num

theorem toU16_lt (v : Int) : toU16 v < 65536 := by
  unfold toU16; omega

theorem toU8_lt (v : Int) : toU8 v < 256 := by
  unfold toU8; omega

/-- The ModR/M byte built from 2 + 3 + 3 bits fits a byte and splits back into its fields. -/
theorem modrm_fields (mod g r : Nat) (hm : mod < 4) (hg : g < 8) (hr : r < 8) :
    ((mod <<< 6) ||| (g <<< 3) ||| r) < 256
    ∧ ((((mod <<< 6) ||| (g <<< 3) ||| r) >>> 6) &&& 3) = mod
    ∧ ((((mod <<< 6) ||| (g <<< 3) ||| r) >>> 3) &&& 7) = g
    ∧ (((mod <<< 6) ||| (g <<< 3) ||| r) &&& 7) = r := by
  interval_cases mod <;> interval_cases g <;> interval_cases r <;> decide


/-! ## Emission lemmas -/

@[simp] theorem emitByte_isPass1 (ctx : AssemblerContext) (b : Nat) :
    (emitByte ctx b).isPass1 = ctx.isPass1 := by
  unfold emitByte; split <;> rfl

@[simp] theorem emitWord_isPass1 (ctx : AssemblerContext) (w : Nat) :
    (emitWord ctx w).isPass1 = ctx.isPass1 := by
  unfold emitWord; split <;> rfl

theorem emitByte_bytes (ctx : AssemblerContext) (b : Nat) (hp : ctx.isPass1 = false) :
    (emitByte ctx b).currentLineBytes = ctx.currentLineBytes ++ [b % 256] := by
  simp [emitByte, hp]

theorem emitWord_bytes (ctx : AssemblerContext) (w : Nat) (hp : ctx.isPass1 = false)
    (hw : w < 65536) :
    (emitWord ctx w).currentLineBytes = ctx.currentLineBytes ++ [w % 256, w / 256] := by
  simp [emitWord, hp, Nat.mod_eq_of_lt hw, shr8_and_255 w hw]
  exact and_255 w

@[simp] theorem emitByte_address (ctx : AssemblerContext) (b : Nat) :
    (emitByte ctx b).currentAddress = ctx.currentAddress + 1 := by
  unfold emitByte; split <;> rfl

@[simp] theorem emitWord_address (ctx : AssemblerContext) (w : Nat) :
    (emitWord ctx w).currentAddress = ctx.currentAddress + 2 := by
  unfold emitWord; split <;> rfl

theorem modOf_lt (mem : Operand) : modOf mem < 3 := by
  unfold modOf; simp only; split_ifs <;> omega

theorem emitModRM_bytes (ctx : AssemblerContext) (g : Nat) (mem : Operand)
    (hp : ctx.isPass1 = false) (hg : g < 8) (hr : -1 ≤ mem.memReg ∧ mem.memReg ≤ 7) :
    (emitModRM ctx g mem).currentLineBytes = ctx.currentLineBytes ++ modRMBytes g mem := by
  unfold emitModRM modRMBytes
  by_cases hd : mem.memReg = -1
  · have h6 : (0x06 ||| (g <<< 3)) % 256 = 0x06 ||| (g <<< 3) := by
      interval_cases g <;> decide
    simp [hd, emitWord_bytes, emitByte_bytes, hp, toU16_lt, h6]
  · obtain ⟨r, hr'⟩ : ∃ r : Nat, mem.memReg = r := ⟨mem.memReg.toNat, by omega⟩
    have hr8 : r < 8 := by omega
    have hm := modOf_lt mem
    have hb0 : g <<< 3 ||| r < 256 := by
      have := (modrm_fields 0 g r (by omega) hg hr8).1
      simpa using this
    have hb1 : 64 ||| g <<< 3 ||| r < 256 := (modrm_fields 1 g r (by omega) hg hr8).1
    have hb2 : 128 ||| g <<< 3 ||| r < 256 := (modrm_fields 2 g r (by omega) hg hr8).1
    simp only [hd, if_false]
    rw [hr']
    simp only [Int.toNat_ofNat]
    by_cases h1 : modOf mem = 1
    · simp [h1, emitByte_bytes, hp, hb1, Nat.mod_eq_of_lt (toU8_lt _)]
    · by_cases h2 : modOf mem = 2
      · simp [h2, emitByte_bytes, emitWord_bytes, hp, hb2, toU16_lt]
      · have h0 : modOf mem = 0 := by omega
        simp [h0, emitByte_bytes, hp, hb0]

@[simp] theorem emitModRM_isPass1 (ctx : AssemblerContext) (g : Nat) (mem : Operand) :
    (emitModRM ctx g mem).isPass1 = ctx.isPass1 := by
  unfold emitModRM; simp only; split_ifs <;> simp

theorem emitModRM_address (ctx : AssemblerContext) (g : Nat) (mem : Operand) :
    (emitModRM ctx g mem).currentAddress = ctx.currentAddress + (modRMBytes g mem).length := by
  unfold emitModRM modRMBytes
  by_cases hd : mem.memReg = -1
  · simp [hd]; omega
  · have hm := modOf_lt mem
    by_cases h1 : modOf mem = 1
    · simp [hd, h1]; omega
    · by_cases h2 : modOf mem = 2
      · simp [hd, h2]; omega
      · simp [hd, h1, h2]

/-! ## Decoder lemmas: reading at a shifted position -/

theorem hasBytesAt_append (pre l : List Nat) (k n : Nat) :
    hasBytesAt (pre ++ l) (pre.length + k) n = hasBytesAt l k n := by
  simp [hasBytesAt, Nat.add_assoc]

theorem readByte_append (pre l : List Nat) (k : Nat) :
    readByte (pre ++ l) (pre.length + k) = readByte l k := by
  unfold readByte
  rw [List.getD_append_right _ _ _ _ (Nat.le_add_right _ _), Nat.add_sub_cancel_left]

theorem readWord_append (pre l : List Nat) (k : Nat) :
    readWord (pre ++ l) (pre.length + k) = readWord l k := by
  have h := readByte_append pre l k
  have h' := readByte_append pre l (k + 1)
  unfold readByte at h h'
  unfold readWord
  rw [Nat.add_assoc, h, h', List.length_append]
  have : (pre.length + (k + 1) < pre.length + l.length) = (k + 1 < l.length) := by
    apply propext; omega
  simp only [this]

theorem readSignedByte_append (pre l : List Nat) (k : Nat) :
    readSignedByte (pre ++ l) (pre.length + k) = readSignedByte l k := by
  simp [readSignedByte, readByte_append]

theorem decodeModRM_append (pre l : List Nat) (k sz : Nat) :
    decodeModRM (pre ++ l) (pre.length + k) sz = decodeModRM l k sz := by
  simp only [decodeModRM, Nat.add_assoc, hasBytesAt_append, readByte_append, readWord_append,
    readSignedByte_append]

set_option maxHeartbeats 1000000 in
theorem decodeOpcode_append (pre l : List Nat) (offset c : Nat) (inst : DecodedInst) :
    decodeOpcode (pre ++ l) offset (pre.length + c) inst = decodeOpcode l offset c inst := by
  simp only [decodeOpcode, Nat.add_assoc, hasBytesAt_append, readByte_append, readWord_append,
    readSignedByte_append, decodeModRM_append]



theorem word_recombine (w : Nat) (_h : w < 65536) : (w % 256) ||| ((w / 256) <<< 8) = w := by
  rw [Nat.shiftLeft_eq, Nat.lor_comm, Nat.mul_comm]
  have h2 : w % 256 < 2 ^ 8 := by norm_num; omega
  rw [← Nat.mul_add_lt_is_or h2]
  norm_num; omega

theorem readWord_pair (lo hi : Nat) (rest : List Nat) :
    readWord (lo :: hi :: rest) 0 = lo ||| (hi <<< 8) := by
  simp [readWord]

theorem modOf_one_range (mem : Operand) (h : modOf mem = 1) : -128 ≤ mem.val ∧ mem.val ≤ 127 := by
  by_cases hs : mem.involvesSymbol = true
  · simp [modOf, hs] at h
  · by_cases h0 : mem.val = 0 ∧ mem.memReg ≠ 6
    · rw [h0.1]; omega
    · by_cases h1 : -128 ≤ mem.val ∧ mem.val ≤ 127
      · exact h1
      · simp [modOf, hs, h0, h1] at h

theorem signed_byte_roundtrip (v : Int) (h : -128 ≤ v ∧ v ≤ 127) :
    (if toU8 v ≥ 128 then ((toU8 v : Nat) : Int) - 256 else (toU8 v : Nat)) = v := by
  unfold toU8
  split_ifs with h1 <;> omega

theorem decodeModRM_modRMBytes (g : Nat) (mem : Operand) (rest : List Nat) (sz : Nat)
    (hg : g < 8) (hr : -1 ≤ mem.memReg ∧ mem.memReg ≤ 7) :
    (decodeModRM (modRMBytes g mem ++ rest) 0 sz).reg = g
    ∧ (decodeModRM (modRMBytes g mem ++ rest) 0 sz).bytesConsumed = (modRMBytes g mem).length
    ∧ (decodeModRM (modRMBytes g mem ++ rest) 0 sz).isReg = false
    ∧ (decodeModRM (modRMBytes g mem ++ rest) 0 sz).disp = decodedDisp mem
    ∧ (modrmToOperand (decodeModRM (modRMBytes g mem ++ rest) 0 sz) sz).memRM = mem.memReg := by
  unfold modRMBytes decodedDisp
  by_cases hd : mem.memReg = -1
  · obtain ⟨hlt, hmod, hreg, hrm⟩ := modrm_fields 0 g 6 (by omega) hg (by omega)
    have h6 : 0x06 ||| (g <<< 3) = (0 <<< 6) ||| (g <<< 3) ||| 6 := by
      interval_cases g <;> decide
    simp only [hd, if_true, h6]
    generalize (0 <<< 6) ||| (g <<< 3) ||| 6 = b0 at *
    have hw := word_recombine (toU16 mem.val) (toU16_lt _)
    simp [decodeModRM, modrmToOperand, hasBytesAt, readByte, readWord, hmod, hreg, hrm, hw]
  · obtain ⟨r, hr'⟩ : ∃ r : Nat, mem.memReg = r := ⟨mem.memReg.toNat, by omega⟩
    have hr8 : r < 8 := by omega
    have hm := modOf_lt mem
    simp only [hd, if_false, hr', Int.toNat_ofNat]
    by_cases h1 : modOf mem = 1
    · obtain ⟨hlt, hmod, hreg, hrm⟩ := modrm_fields 1 g r (by omega) hg hr8
      simp only [h1, if_true]
      generalize (1 <<< 6) ||| (g <<< 3) ||| r = b0 at *
      have hs := signed_byte_roundtrip mem.val (modOf_one_range mem h1)
      simp [decodeModRM, modrmToOperand, hasBytesAt, readByte, readSignedByte, hmod, hreg, hrm]
      exact hs
    · by_cases h2 : modOf mem = 2
      · obtain ⟨hlt, hmod, hreg, hrm⟩ := modrm_fields 2 g r (by omega) hg hr8
        simp only [h2, if_true]
        generalize (2 <<< 6) ||| (g <<< 3) ||| r = b0 at *
        have hw := word_recombine (toU16 mem.val) (toU16_lt _)
        simp [decodeModRM, modrmToOperand, hasBytesAt, readByte, readWord, hmod, hreg, hrm, hw]
      · have h0 : modOf mem = 0 := by omega
        have hr6 : r ≠ 6 := by
          intro h6
          unfold modOf at h0
          simp only [hr', h6] at h0
          split_ifs at h0
          rename_i ha _
          exact ha.2 (by norm_num)
        obtain ⟨hlt, hmod, hreg, hrm⟩ := modrm_fields 0 g r (by omega) hg hr8
        simp only [h0]
        generalize (0 <<< 6) ||| (g <<< 3) ||| r = b0 at *
        simp [decodeModRM, modrmToOperand, hasBytesAt, readByte, hmod, hreg, hrm, hr6]

theorem readByte_cons_succ (b : Nat) (l : List Nat) (k : Nat) :
    readByte (b :: l) (k + 1) = readByte l k := by
  simp [readByte]

theorem hasBytesAt_cons_succ (b : Nat) (l : List Nat) (k n : Nat) :
    hasBytesAt (b :: l) (k + 1) n = hasBytesAt l k n := by
  have := hasBytesAt_append [b] l k n
  simpa [Nat.add_comm] using this

theorem readWord_cons_succ (b : Nat) (l : List Nat) (k : Nat) :
    readWord (b :: l) (k + 1) = readWord l k := by
  have := readWord_append [b] l k
  simpa [Nat.add_comm] using this

theorem decodeModRM_cons_one (b : Nat) (l : List Nat) (sz : Nat) :
    decodeModRM (b :: l) 1 sz = decodeModRM l 0 sz := by
  have := decodeModRM_append [b] l 0 sz
  simpa using this

theorem readByte_at_length (l : List Nat) (b : Nat) (rest : List Nat) :
    readByte (l ++ b :: rest) l.length = b := by
  have := readByte_append l (b :: rest) 0
  simpa [readByte] using this

theorem hasBytesAt_at_length (l r : List Nat) (n : Nat) :
    hasBytesAt (l ++ r) l.length n = decide (n ≤ r.length) := by
  simp [hasBytesAt]

theorem readWord_at_length (l : List Nat) (w : Nat) (hw : w < 65536) (rest : List Nat) :
    readWord (l ++ (w % 256) :: (w / 256) :: rest) l.length = w := by
  have := readWord_append l ((w % 256) :: (w / 256) :: rest) 0
  rw [Nat.add_zero] at this
  rw [this, readWord_pair, word_recombine w hw]

theorem modRMBytes_length_pos (g : Nat) (mem : Operand) : 0 < (modRMBytes g mem).length := by
  unfold modRMBytes; split_ifs <;> simp

theorem modrmToOperand_mem (m : ModRMResult) (sz : Nat) (h : m.isReg = false) :
    modrmToOperand m sz =
      { kind := .MEM, reg := 0, memRM := if m.mod = 0 ∧ m.rm = 6 then -1 else (m.rm : Int),
        disp := m.disp, size := sz, text := m.operand } := by
  simp [modrmToOperand, h, DecodedOperand.empty]

/-- Decoding `C6 /0 ib` as emitted for `MOV BYTE mem, imm`. -/
theorem decodeOpcode_mov_mem_imm8 (mem : Operand) (v : Int) (offset : Nat)
    (inst : DecodedInst) (hop : inst.opcode = 0xC6)
    (hr : -1 ≤ mem.memReg ∧ mem.memReg ≤ 7) :
    (decodeOpcode (0xC6 :: (modRMBytes 0 mem ++ [toU8 v])) offset 1 inst).valid = true
    ∧ (decodeOpcode (0xC6 :: (modRMBytes 0 mem ++ [toU8 v])) offset 1 inst).size
        = inst.prefixBytes + (0xC6 :: (modRMBytes 0 mem ++ [toU8 v])).length
    ∧ (decodeOpcode (0xC6 :: (modRMBytes 0 mem ++ [toU8 v])) offset 1 inst).mnemonic = "MOV"
    ∧ (decodeOpcode (0xC6 :: (modRMBytes 0 mem ++ [toU8 v])) offset 1 inst).op1.kind = .MEM
    ∧ (decodeOpcode (0xC6 :: (modRMBytes 0 mem ++ [toU8 v])) offset 1 inst).op1.memRM = mem.memReg
    ∧ (decodeOpcode (0xC6 :: (modRMBytes 0 mem ++ [toU8 v])) offset 1 inst).op1.disp
        = decodedDisp mem
    ∧ (decodeOpcode (0xC6 :: (modRMBytes 0 mem ++ [toU8 v])) offset 1 inst).op2.kind = .IMM8
    ∧ (decodeOpcode (0xC6 :: (modRMBytes 0 mem ++ [toU8 v])) offset 1 inst).op2.disp
        = (toU8 v : Int) := by
  have hm := decodeModRM_modRMBytes 0 mem [toU8 v] 8 (by omega) hr
  have hl := modRMBytes_length_pos 0 mem
  generalize hmg : decodeModRM (modRMBytes 0 mem ++ [toU8 v]) 0 8 = m at hm
  obtain ⟨h1, h2, h3, h4, h5⟩ := hm
  rw [modrmToOperand_mem m 8 h3] at h5
  simp only at h5
  have hne : modRMBytes 0 mem ≠ [] := by
    intro h; rw [h] at hl; simp at hl
  have hhas : hasBytesAt (0xC6 :: (modRMBytes 0 mem ++ [toU8 v]))
      (1 + (modRMBytes 0 mem).length) 1 = true := by
    rw [Nat.add_comm, hasBytesAt_cons_succ, hasBytesAt_at_length]; simp
  have hrd : readByte (0xC6 :: (modRMBytes 0 mem ++ [toU8 v]))
      (1 + (modRMBytes 0 mem).length) = toU8 v := by
    rw [Nat.add_comm, readByte_cons_succ, readByte_at_length]
  simp [decodeOpcode, hop, decodeModRM_cons_one, hmg, hne, h1, hhas, hrd, finish, addSizePrefix,
    modrmToOperand_mem m 8 h3, makeImm8, h4, h5, h2, Nat.mod_eq_of_lt (toU8_lt v)]
  omega

/-! ## C5: ModR/M displacement encoding -/

/-- C5. For a memory operand with R/M code in 0..7, register field `g` and displacement `d`,
`emitModRM` emits in pass 2 the byte `(mod<<6)|(g<<3)|r` with mod=10 and the two little-endian
displacement bytes when the operand involves a symbol; otherwise mod=00 and no displacement
byte when `d = 0` and the R/M code is not 6 (BP); otherwise mod=01 and one displacement byte
when `-128 <= d <= 127`; otherwise mod=10 and two bytes.  `[BP]` alone is therefore mod=01 with
a zero displacement byte, and a direct operand (R/M = -1) is mod=00, r/m=110 followed by the
16-bit displacement. -/
theorem C5_modrm_displacement_encoding (ctx : AssemblerContext) (g : Nat) (mem : Operand)
    (hp : ctx.isPass1 = false) (hg : g < 8) (hr : -1 ≤ mem.memReg ∧ mem.memReg ≤ 7) :
    (emitModRM ctx g mem).currentLineBytes = ctx.currentLineBytes ++
      (if mem.memReg = -1 then
         [(0 <<< 6) ||| (g <<< 3) ||| 6, toU16 mem.val % 256, toU16 mem.val / 256]
       else if mem.involvesSymbol then
         [(2 <<< 6) ||| (g <<< 3) ||| mem.memReg.toNat, toU16 mem.val % 256, toU16 mem.val / 256]
       else if mem.val = 0 ∧ mem.memReg ≠ 6 then [(0 <<< 6) ||| (g <<< 3) ||| mem.memReg.toNat]
       else if -128 ≤ mem.val ∧ mem.val ≤ 127 then
         [(1 <<< 6) ||| (g <<< 3) ||| mem.memReg.toNat, toU8 mem.val]
       else
         [(2 <<< 6) ||| (g <<< 3) ||| mem.memReg.toNat, toU16 mem.val % 256, toU16 mem.val / 256])
    ∧ (mem.memReg = 6 → mem.val = 0 → mem.involvesSymbol = false →
        (emitModRM ctx g mem).currentLineBytes
          = ctx.currentLineBytes ++ [(1 <<< 6) ||| (g <<< 3) ||| 6, 0]) := by
  have key := emitModRM_bytes ctx g mem hp hg hr
  have h6 : 0x06 ||| (g <<< 3) = (0 <<< 6) ||| (g <<< 3) ||| 6 := by
    interval_cases g <;> decide
  constructor
  · rw [key]; congr 1
    unfold modRMBytes modOf
    by_cases hd : mem.memReg = -1
    · simp [hd, h6]
    · by_cases hs : mem.involvesSymbol = true
      · simp [hd, hs]
      · by_cases h0 : mem.val = 0 ∧ mem.memReg ≠ 6
        · simp [hd, hs, h0]
        · by_cases h1 : -128 ≤ mem.val ∧ mem.val ≤ 127
          · simp [hd, hs, h0, h1]
          · simp [hd, hs, h0, h1]
  · intro h6' hv hs
    rw [key]
    simp [modRMBytes, modOf, h6', hv, hs, toU8]

/-- C5 at `[BP]` with register field 0 in a fresh pass-2 context: bytes 46 00. -/
theorem C5_modrm_displacement_encoding_witness :
    (emitModRM pass2Ctx 0 (memOperand 6 0 false)).currentLineBytes = [0x46, 0] :=
  (C5_modrm_displacement_encoding pass2Ctx 0 (memOperand 6 0 false) rfl (by decide)
    (by decide)).2 rfl rfl rfl


/-! ## C10: the disassembly scenario -/

/-- C10 (as the code behaves). Disassembling `B8 05 00 40 40 48 EB FA` from offset 0 yields five
instructions at offsets 0, 3, 4, 5, 6 with the texts `MOV AX, 0x0005`, `INC AX`, `INC AX`,
`DEC AX` and, for the short jump, the absolute target `JMP 0x0002`; there is no data region. -/
theorem C10_disassembly_scenario :
    disasmListing [0xB8, 0x05, 0x00, 0x40, 0x40, 0x48, 0xEB, 0xFA]
      = [(0, "MOV AX, 0x0005"), (3, "INC AX"), (4, "INC AX"), (5, "DEC AX"), (6, "JMP 0x0002")]
    ∧ (disassemble [0xB8, 0x05, 0x00, 0x40, 0x40, 0x48, 0xEB, 0xFA]).2 = [] := by
  decide

/-- C10 as stated fails: the fifth text is not `JMP -0x06`. -/
theorem C10_counterexample :
    ¬ (disasmListing [0xB8, 0x05, 0x00, 0x40, 0x40, 0x48, 0xEB, 0xFA]
        = [(0, "MOV AX, 0x0005"), (3, "INC AX"), (4, "INC AX"), (5, "DEC AX"), (6, "JMP -0x06")]) := by
  decide

theorem decodeInstruction_cons (op : Nat) (rest : List Nat)
    (h : op ∉ [0xF2, 0xF3, 0x26, 0x2E, 0x36, 0x3E]) :
    decodeInstruction (op :: rest) 0
      = decodeOpcode (op :: rest) 0 1 { DecodedInst.empty with opcode := op } := by
  simp only [List.mem_cons, List.mem_singleton, not_or, List.not_mem_nil, not_false_eq_true,
    and_true] at h
  obtain ⟨h1, h2, h3, h4, h5, h6⟩ := h
  simp [decodeInstruction, decodePrefixes, hasBytesAt, readByte, h1, h2, h3, h4, h5, h6]

@[simp] theorem logWarning_isPass1 (ctx : AssemblerContext) (line : Nat) (m h : String) :
    (logWarning ctx line m h).isPass1 = ctx.isPass1 := by
  rfl

@[simp] theorem logWarning_bytes (ctx : AssemblerContext) (line : Nat) (m h : String) :
    (logWarning ctx line m h).currentLineBytes = ctx.currentLineBytes := by
  rfl

@[simp] theorem noSizeWarn_isPass1 (ctx : AssemblerContext) (line : Nat) (o : Operand) (e : String) :
    (noSizeWarn ctx line o e).isPass1 = ctx.isPass1 := by
  unfold noSizeWarn; split <;> simp

@[simp] theorem noSizeWarn_bytes (ctx : AssemblerContext) (line : Nat) (o : Operand) (e : String) :
    (noSizeWarn ctx line o e).currentLineBytes = ctx.currentLineBytes := by
  unfold noSizeWarn; split <;> simp


/-- Decoding `C7 /0 iw` as emitted for `MOV WORD mem, imm`. -/
theorem decodeOpcode_mov_mem_imm16 (mem : Operand) (v : Int) (offset : Nat)
    (inst : DecodedInst) (hop : inst.opcode = 0xC7)
    (hr : -1 ≤ mem.memReg ∧ mem.memReg ≤ 7) :
    (decodeOpcode (0xC7 :: (modRMBytes 0 mem ++ [toU16 v % 256, toU16 v / 256])) offset 1 inst).valid
        = true
    ∧ (decodeOpcode (0xC7 :: (modRMBytes 0 mem ++ [toU16 v % 256, toU16 v / 256])) offset 1 inst).size
        = inst.prefixBytes + (0xC7 :: (modRMBytes 0 mem ++ [toU16 v % 256, toU16 v / 256])).length
    ∧ (decodeOpcode (0xC7 :: (modRMBytes 0 mem ++ [toU16 v % 256, toU16 v / 256])) offset 1
        inst).mnemonic = "MOV"
    ∧ (decodeOpcode (0xC7 :: (modRMBytes 0 mem ++ [toU16 v % 256, toU16 v / 256])) offset 1
        inst).op1.kind = .MEM
    ∧ (decodeOpcode (0xC7 :: (modRMBytes 0 mem ++ [toU16 v % 256, toU16 v / 256])) offset 1
        inst).op1.memRM = mem.memReg
    ∧ (decodeOpcode (0xC7 :: (modRMBytes 0 mem ++ [toU16 v % 256, toU16 v / 256])) offset 1
        inst).op1.disp = decodedDisp mem
    ∧ (decodeOpcode (0xC7 :: (modRMBytes 0 mem ++ [toU16 v % 256, toU16 v / 256])) offset 1
        inst).op2.kind = .IMM16
    ∧ (decodeOpcode (0xC7 :: (modRMBytes 0 mem ++ [toU16 v % 256, toU16 v / 256])) offset 1
        inst).op2.disp = (toU16 v : Int) := by
  have hm := decodeModRM_modRMBytes 0 mem [toU16 v % 256, toU16 v / 256] 16 (by omega) hr
  have hl := modRMBytes_length_pos 0 mem
  generalize hmg : decodeModRM (modRMBytes 0 mem ++ [toU16 v % 256, toU16 v / 256]) 0 16 = m at hm
  obtain ⟨h1, h2, h3, h4, h5⟩ := hm
  rw [modrmToOperand_mem m 16 h3] at h5
  simp only at h5
  have hne : modRMBytes 0 mem ≠ [] := by
    intro h; rw [h] at hl; simp at hl
  have hhas : hasBytesAt (0xC7 :: (modRMBytes 0 mem ++ [toU16 v % 256, toU16 v / 256]))
      (1 + (modRMBytes 0 mem).length) 2 = true := by
    rw [Nat.add_comm, hasBytesAt_cons_succ, hasBytesAt_at_length]; simp
  have hrd : readWord (0xC7 :: (modRMBytes 0 mem ++ [toU16 v % 256, toU16 v / 256]))
      (1 + (modRMBytes 0 mem).length) = toU16 v := by
    rw [Nat.add_comm, readWord_cons_succ, readWord_at_length _ _ (toU16_lt v)]
  simp [decodeOpcode, hop, decodeModRM_cons_one, hmg, hne, h1, hhas, hrd, finish, addSizePrefix,
    modrmToOperand_mem m 16 h3, makeImm16, h4, h5, h2, Nat.mod_eq_of_lt (toU16_lt v)]
  omega

theorem encMOV_mem_imm_bytes (ctx : AssemblerContext) (op1 op2 : Operand) (line : Nat)
    (hp : ctx.isPass1 = false) (h1 : op1.type = .MEMORY) (h2 : op2.type = .IMMEDIATE)
    (hr : -1 ≤ op1.memReg ∧ op1.memReg ≤ 7) :
    (encMOV ctx op1 op2 line).1.currentLineBytes
      = ctx.currentLineBytes ++ movMemImmBytes op1 op2.val := by
  unfold encMOV movMemImmBytes
  by_cases h8 : op1.size = 8
  · simp [h1, h2, h8, emitByte_bytes, emitModRM_bytes, hp, hr, Nat.mod_eq_of_lt (toU8_lt _)]
  · simp [h1, h2, h8, emitByte_bytes, emitWord_bytes, emitModRM_bytes, hp, hr, toU16_lt]

theorem decodedDisp_in_range (mem : Operand)
    (h : if mem.memReg = -1 then 0 ≤ mem.val ∧ mem.val ≤ 65535
         else -32768 ≤ mem.val ∧ mem.val ≤ 32767) :
    decodedDisp mem = mem.val := by
  unfold decodedDisp
  by_cases hd : mem.memReg = -1
  · simp only [hd, if_true] at h ⊢
    unfold toU16; omega
  · simp only [hd, if_false] at h ⊢
    by_cases h1 : modOf mem = 1
    · simp [h1]
    · by_cases h2 : modOf mem = 2
      · simp only [h2, if_true]
        unfold toInt16 toU16
        split_ifs <;> omega
      · have := modOf_lt mem
        have h0 : modOf mem = 0 := by omega
        simp only [h0]
        unfold modOf at h0
        simp only at h0
        split_ifs at h0 with ha hc
        omega

/-! ## C9: MOV with a memory destination and an immediate -/

/-- C9 (as the code behaves). `MOV BYTE [BX+SI+2], 5` assembles to C6 40 02 05, which decodes to
the text `MOV BYTE [BX+SI+0x02], 0x05` with size 4.  In general, in pass 2, MOV with a memory
destination (R/M code -1..7) and an immediate emits C6 (BYTE) or C7, the ModR/M bytes with
extension 0, then the low 8/16 bits of the immediate, little-endian; decoding these bytes gives
a valid MOV whose size is the number of bytes, whose first operand is a memory operand with the
same R/M code and with the displacement as the encoding reads it back (`decodedDisp`: the value
modulo 2^16, equal to the assembled displacement when that lies in 0..65535 for a direct
operand and in -32768..32767 otherwise), and whose second operand is an IMM8/IMM16 holding the
low 8/16 bits of the immediate. -/
theorem C9_mov_mem_imm (ctx : AssemblerContext) (op1 op2 : Operand) (line : Nat)
    (hp : ctx.isPass1 = false) (h1 : op1.type = .MEMORY) (h2 : op2.type = .IMMEDIATE)
    (hr : -1 ≤ op1.memReg ∧ op1.memReg ≤ 7) :
    ((assemble ["MOV BYTE [BX+SI+2], 5"] []).machineCode = [0xC6, 0x40, 0x02, 0x05]
      ∧ (assemble ["MOV BYTE [BX+SI+2], 5"] []).diagnostics = []
      ∧ formatInstruction (decodeInstruction [0xC6, 0x40, 0x02, 0x05] 0)
          = "MOV BYTE [BX+SI+0x02], 0x05"
      ∧ (decodeInstruction [0xC6, 0x40, 0x02, 0x05] 0).size = 4)
    ∧ (encMOV ctx op1 op2 line).1.currentLineBytes
        = ctx.currentLineBytes ++ movMemImmBytes op1 op2.val
    ∧ movMemImmBytes op1 op2.val
        = (if op1.size = 8 then [0xC6] else [0xC7]) ++ modRMBytes 0 op1
          ++ (if op1.size = 8 then [toU8 op2.val] else [toU16 op2.val % 256, toU16 op2.val / 256])
    ∧ (decodeInstruction (movMemImmBytes op1 op2.val) 0).valid = true
    ∧ (decodeInstruction (movMemImmBytes op1 op2.val) 0).size
        = (movMemImmBytes op1 op2.val).length
    ∧ (decodeInstruction (movMemImmBytes op1 op2.val) 0).mnemonic = "MOV"
    ∧ (decodeInstruction (movMemImmBytes op1 op2.val) 0).op1.kind = .MEM
    ∧ (decodeInstruction (movMemImmBytes op1 op2.val) 0).op1.memRM = op1.memReg
    ∧ (decodeInstruction (movMemImmBytes op1 op2.val) 0).op1.disp = decodedDisp op1
    ∧ ((if op1.memReg = -1 then 0 ≤ op1.val ∧ op1.val ≤ 65535
        else -32768 ≤ op1.val ∧ op1.val ≤ 32767) →
        (decodeInstruction (movMemImmBytes op1 op2.val) 0).op1.disp = op1.val)
    ∧ (decodeInstruction (movMemImmBytes op1 op2.val) 0).op2.kind
        = (if op1.size = 8 then .IMM8 else .IMM16)
    ∧ (decodeInstruction (movMemImmBytes op1 op2.val) 0).op2.disp
        = (if op1.size = 8 then (toU8 op2.val : Int) else (toU16 op2.val : Int)) := by
  refine ⟨by decide, encMOV_mem_imm_bytes ctx op1 op2 line hp h1 h2 hr, ?_, ?_⟩
  · unfold movMemImmBytes; split_ifs <;> simp
  · by_cases h8 : op1.size = 8
    · have hb : movMemImmBytes op1 op2.val = 0xC6 :: (modRMBytes 0 op1 ++ [toU8 op2.val]) := by
        simp [movMemImmBytes, h8]
      rw [hb, decodeInstruction_cons _ _ (by decide)]
      obtain ⟨a1, a2, a3, a4, a5, a6, a7, a8⟩ := decodeOpcode_mov_mem_imm8 op1 op2.val 0
        { DecodedInst.empty with opcode := 0xC6 } rfl hr
      refine ⟨a1, ?_, a3, a4, a5, a6, ?_, ?_, ?_⟩
      · rw [a2]; simp [DecodedInst.empty]
      · intro hin; rw [a6]; exact decodedDisp_in_range op1 hin
      · rw [a7]; simp [h8]
      · rw [a8]; simp [h8]
    · have hb : movMemImmBytes op1 op2.val
          = 0xC7 :: (modRMBytes 0 op1 ++ [toU16 op2.val % 256, toU16 op2.val / 256]) := by
        simp [movMemImmBytes, h8]
      rw [hb, decodeInstruction_cons _ _ (by decide)]
      obtain ⟨a1, a2, a3, a4, a5, a6, a7, a8⟩ := decodeOpcode_mov_mem_imm16 op1 op2.val 0
        { DecodedInst.empty with opcode := 0xC7 } rfl hr
      refine ⟨a1, ?_, a3, a4, a5, a6, ?_, ?_, ?_⟩
      · rw [a2]; simp [DecodedInst.empty]
      · intro hin; rw [a6]; exact decodedDisp_in_range op1 hin
      · rw [a7]; simp [h8]
      · rw [a8]; simp [h8]

/-- C9 at `MOV BYTE [BX+SI+2], 5` in a fresh pass-2 context. -/
theorem C9_mov_mem_imm_witness :
    (encMOV pass2Ctx (byteMemOperand 0 2) (immOperand 5) 1).1.currentLineBytes
        = [0xC6, 0x40, 0x02, 0x05]
    ∧ (decodeInstruction [0xC6, 0x40, 0x02, 0x05] 0).size = 4
    ∧ (decodeInstruction [0xC6, 0x40, 0x02, 0x05] 0).op1.disp = 2 := by
  have h := C9_mov_mem_imm pass2Ctx (byteMemOperand 0 2) (immOperand 5) 1 rfl rfl rfl
    (by decide)
  have hb : movMemImmBytes (byteMemOperand 0 2) (immOperand 5).val = [0xC6, 0x40, 0x02, 0x05] := by
    decide
  rw [hb] at h
  exact ⟨h.2.1, h.2.2.2.2.1, h.2.2.2.2.2.2.2.2.2.1 (by decide)⟩

/-- C9 as stated fails on the displacement: `MOV BYTE [BX+40000], 5` assembles without
diagnostic from an operand with displacement 40000, and the decoder returns -25536. -/
theorem C9_counterexample :
    (assemble ["MOV BYTE [BX+40000], 5"] []).machineCode = [0xC6, 0x87, 0x40, 0x9C, 0x05]
    ∧ (assemble ["MOV BYTE [BX+40000], 5"] []).diagnostics = []
    ∧ (parseOperand AssemblerContext.init (tokenize "MOV BYTE [BX+40000], 5" 1) 1).2.2.val = 40000
    ∧ (decodeInstruction [0xC6, 0x87, 0x40, 0x9C, 0x05] 0).op1.disp = -25536 := by
  decide

theorem decodeInstruction_at (pre : List Nat) (op : Nat) (rest : List Nat)
    (h : op ∉ [0xF2, 0xF3, 0x26, 0x2E, 0x36, 0x3E]) :
    decodeInstruction (pre ++ op :: rest) pre.length
      = decodeOpcode (op :: rest) pre.length 1 { DecodedInst.empty with opcode := op } := by
  simp only [List.mem_cons, List.mem_singleton, not_or, List.not_mem_nil, not_false_eq_true,
    and_true] at h
  obtain ⟨h1, h2, h3, h4, h5, h6⟩ := h
  have hb : readByte (pre ++ op :: rest) pre.length = op := readByte_at_length pre op rest
  have hh : hasBytesAt (pre ++ op :: rest) pre.length 1 = true := by
    rw [hasBytesAt_at_length]; simp
  have hlen : (pre ++ op :: rest).length = (pre.length + rest.length) + 1 := by
    simp [Nat.add_assoc]
  have hd : decodePrefixes (pre ++ op :: rest) (pre ++ op :: rest).length DecodedInst.empty
      pre.length = (DecodedInst.empty, pre.length) := by
    rw [hlen]
    simp [decodePrefixes, hh, hb, h1, h2, h3, h4, h5, h6]
  have hlt : ¬ (pre.length ≥ (pre ++ op :: rest).length) := by
    rw [hlen]; omega
  unfold decodeInstruction
  rw [if_neg hlt, hd]
  simp only [hh, hb]
  exact decodeOpcode_append pre (op :: rest) pre.length 1 _

theorem decodeOpcode_near (op : Nat) (w : Nat) (hw : w < 65536) (rest : List Nat) (offset : Nat)
    (inst : DecodedInst) (hop : inst.opcode = op) (h : op = 0xE9 ∨ op = 0xE8) :
    (decodeOpcode (op :: (w % 256) :: (w / 256) :: rest) offset 1 inst).jumpTarget
      = ((offset : Int) + 3 + inst.prefixBytes + toInt16 w) % 65536 := by
  have hr : readWord (op :: (w % 256) :: (w / 256) :: rest) 1 = w := by
    have := readWord_at_length [op] w hw rest
    simpa using this
  rcases h with rfl | rfl <;>
    simp [decodeOpcode, hop, hr, hasBytesAt, finish]

theorem decodeOpcode_short (op : Nat) (b : Nat) (rest : List Nat) (offset : Nat)
    (inst : DecodedInst) (hop : inst.opcode = op)
    (h : (0x70 ≤ op ∧ op ≤ 0x7F) ∨ (0xE0 ≤ op ∧ op ≤ 0xE3)) :
    (decodeOpcode (op :: b :: rest) offset 1 inst).jumpTarget
      = ((offset : Int) + 2 + inst.prefixBytes + (if b ≥ 128 then (b : Int) - 256 else b))
          % 65536 := by
  rcases h with ⟨h1, h2⟩ | ⟨h1, h2⟩ <;> interval_cases op <;>
    simp [decodeOpcode, hop, hasBytesAt, finish, readSignedByte, readByte]


@[simp] theorem logError_isPass1 (ctx : AssemblerContext) (line : Nat) (m h : String) :
    (logError ctx line m h).isPass1 = ctx.isPass1 := rfl

@[simp] theorem logError_bytes (ctx : AssemblerContext) (line : Nat) (m h : String) :
    (logError ctx line m h).currentLineBytes = ctx.currentLineBytes := rfl

@[simp] theorem logError_address (ctx : AssemblerContext) (line : Nat) (m h : String) :
    (logError ctx line m h).currentAddress = ctx.currentAddress := rfl

theorem encNear_bytes (ctx : AssemblerContext) (op : Nat) (T : Int) (hp : ctx.isPass1 = false)
    (hop : op < 256) :
    (encNear ctx op (immOperand T)).1.currentLineBytes
      = ctx.currentLineBytes ++ [op, toU16 (T - (ctx.currentAddress + 3)) % 256,
          toU16 (T - (ctx.currentAddress + 3)) / 256] := by
  simp [encNear, immOperand, emitByte_bytes, emitWord_bytes, hp, toU16_lt,
    Nat.mod_eq_of_lt hop]

theorem encJcc_bytes (ctx : AssemblerContext) (mn : String) (op : Nat) (T : Int) (line : Nat)
    (hp : ctx.isPass1 = false) (h : jccOpcodes.lookup mn = some op) (hop : op < 256) :
    (encJcc ctx mn (immOperand T) line).1.currentLineBytes
      = ctx.currentLineBytes ++ [op, toU8 (T - (ctx.currentAddress + 2))] := by
  unfold encJcc
  rw [h]
  simp only [immOperand, if_true]
  split_ifs <;>
    simp [emitByte_bytes, hp, Nat.mod_eq_of_lt hop, Nat.mod_eq_of_lt (toU8_lt _)]

theorem near_target (A : Nat) (T : Int) (hT : 0 ≤ T ∧ T ≤ 65535) :
    ((A : Int) + 3 + (0 : Nat) + toInt16 (toU16 (T - (A + 3)))) % 65536 = T := by
  unfold toInt16 toU16
  split_ifs <;> omega

theorem short_target (A : Nat) (T : Int) (hT : 0 ≤ T ∧ T ≤ 65535)
    (hr : -128 ≤ T - (A + 2) ∧ T - (A + 2) ≤ 127) :
    ((A : Int) + 2 + (0 : Nat)
      + (if toU8 (T - (A + 2)) ≥ 128 then ((toU8 (T - (A + 2)) : Nat) : Int) - 256
         else (toU8 (T - (A + 2)) : Nat))) % 65536 = T := by
  rw [signed_byte_roundtrip _ hr]
  omega

theorem encLoop_bytes (ctx : AssemblerContext) (mn : String) (op : Nat) (T : Int) (line : Nat)
    (hp : ctx.isPass1 = false)
    (h : (mn, op) ∈ [("LOOP", 0xE2), ("LOOPE", 0xE1), ("LOOPZ", 0xE1), ("LOOPNE", 0xE0),
                     ("LOOPNZ", 0xE0), ("JCXZ", 0xE3)]) :
    (encLoop ctx mn (immOperand T) line).1.currentLineBytes
      = ctx.currentLineBytes ++ [op, toU8 (T - (ctx.currentAddress + 2))] := by
  unfold encLoop
  simp only [immOperand, if_true]
  by_cases he : ¬ ctx.isPass1 ∧ (T - (ctx.currentAddress + 2) < -128
      ∨ T - (ctx.currentAddress + 2) > 127)
  · rw [if_pos he]
    fin_cases h <;> simp [emitByte_bytes, hp, Nat.mod_eq_of_lt (toU8_lt _)]
  · rw [if_neg he]
    fin_cases h <;> simp [emitByte_bytes, hp, Nat.mod_eq_of_lt (toU8_lt _)]

theorem encodeInstruction_jcc (ctx : AssemblerContext) (mn : String) (op : Nat)
    (o1 o2 : Operand) (line : Nat) (h : (mn, op) ∈ jccOpcodes) :
    encodeInstruction ctx mn o1 o2 line = encJcc ctx mn o1 line
    ∧ jccOpcodes.lookup mn = some op ∧ 0x70 ≤ op ∧ op ≤ 0x7F := by
  unfold jccOpcodes at h
  fin_cases h <;>
    simp [encodeInstruction, isALU, isShift, firstChar, jccOpcodes, List.lookup]

theorem encodeInstruction_loop (ctx : AssemblerContext) (mn : String) (op : Nat)
    (o1 o2 : Operand) (line : Nat)
    (h : (mn, op) ∈ [("LOOP", 0xE2), ("LOOPE", 0xE1), ("LOOPZ", 0xE1), ("LOOPNE", 0xE0),
                     ("LOOPNZ", 0xE0), ("JCXZ", 0xE3)]) :
    encodeInstruction ctx mn o1 o2 line = encLoop ctx mn o1 line
    ∧ 0xE0 ≤ op ∧ op ≤ 0xE3 := by
  fin_cases h <;>
    simp [encodeInstruction, isALU, isShift, isLoop, firstChar]

/-! ## C7: relative branches round-trip their target -/

/-- C7. In pass 2, with the address counter at `A` (the length of the buffer `pre` that precedes
the instruction) and a target `T` in 0..65535: JMP/CALL are encoded as E9/E8 followed by the
little-endian 16-bit value `(T - (A+3)) mod 2^16`, and every Jcc mnemonic, LOOP, LOOPE/LOOPZ,
LOOPNE/LOOPNZ and JCXZ as its opcode followed by the byte `(T - (A+2)) mod 2^8`; decoding these
bytes placed at offset `A` returns `jumpTarget = T` for JMP and CALL always, and for the short
forms whenever `-128 <= T - (A+2) <= 127`. -/
theorem C7_relative_branch_round_trip (ctx : AssemblerContext) (pre : List Nat) (T : Int)
    (o2 : Operand) (line : Nat) (hp : ctx.isPass1 = false)
    (hA : ctx.currentAddress = (pre.length : Int)) (hT : 0 ≤ T ∧ T ≤ 65535) :
    (∀ mn op, (mn, op) ∈ [("JMP", 0xE9), ("CALL", 0xE8)] →
      (encodeInstruction ctx mn (immOperand T) o2 line).1.currentLineBytes
          = ctx.currentLineBytes
            ++ [op, toU16 (T - (pre.length + 3)) % 256, toU16 (T - (pre.length + 3)) / 256]
      ∧ (decodeInstruction
          (pre ++ [op, toU16 (T - (pre.length + 3)) % 256, toU16 (T - (pre.length + 3)) / 256])
          pre.length).jumpTarget = T)
    ∧ (∀ mn op, (mn, op) ∈ shortBranchOpcodes →
      (encodeInstruction ctx mn (immOperand T) o2 line).1.currentLineBytes
          = ctx.currentLineBytes ++ [op, toU8 (T - (pre.length + 2))]
      ∧ (-128 ≤ T - (pre.length + 2) ∧ T - (pre.length + 2) ≤ 127 →
          (decodeInstruction (pre ++ [op, toU8 (T - (pre.length + 2))]) pre.length).jumpTarget
            = T)) := by
  constructor
  · intro mn op h
    have hdisp : encodeInstruction ctx mn (immOperand T) o2 line
        = encNear ctx op (immOperand T) ∧ (op = 0xE9 ∨ op = 0xE8) := by
      fin_cases h <;> simp [encodeInstruction, isALU, isShift, isLoop, firstChar]
    obtain ⟨hd, hop⟩ := hdisp
    have hop256 : op < 256 := by omega
    have hnp : op ∉ [0xF2, 0xF3, 0x26, 0x2E, 0x36, 0x3E] := by
      rcases hop with rfl | rfl <;> decide
    refine ⟨?_, ?_⟩
    · rw [hd, encNear_bytes ctx op T hp hop256, hA]
    · rw [decodeInstruction_at pre op _ hnp,
        decodeOpcode_near op _ (toU16_lt _) [] pre.length _ rfl hop]
      exact near_target pre.length T hT
  · intro mn op h
    unfold shortBranchOpcodes at h
    rw [List.mem_append] at h
    have hdisp : (encodeInstruction ctx mn (immOperand T) o2 line).1.currentLineBytes
          = ctx.currentLineBytes ++ [op, toU8 (T - (ctx.currentAddress + 2))]
        ∧ ((0x70 ≤ op ∧ op ≤ 0x7F) ∨ (0xE0 ≤ op ∧ op ≤ 0xE3)) := by
      rcases h with h | h
      · obtain ⟨h1, h2, h3, h4⟩ := encodeInstruction_jcc ctx mn op (immOperand T) o2 line h
        exact ⟨by rw [h1, encJcc_bytes ctx mn op T line hp h2 (by omega)], Or.inl ⟨h3, h4⟩⟩
      · obtain ⟨h1, h3, h4⟩ := encodeInstruction_loop ctx mn op (immOperand T) o2 line h
        exact ⟨by rw [h1, encLoop_bytes ctx mn op T line hp h], Or.inr ⟨h3, h4⟩⟩
    obtain ⟨hd, hop⟩ := hdisp
    have hnp : op ∉ [0xF2, 0xF3, 0x26, 0x2E, 0x36, 0x3E] := by
      simp only [List.mem_cons, List.mem_singleton, List.not_mem_nil, or_false, not_or]
      omega
    refine ⟨?_, ?_⟩
    · rw [hd, hA]
    · intro hr
      rw [decodeInstruction_at pre op _ hnp, decodeOpcode_short op _ [] pre.length _ rfl hop]
      exact short_target pre.length T hT hr

/-- C7 at `A = 5` (after five NOP bytes) with target 2: `JMP 2` is E9 FA FF, `JZ 2` is 74 FB,
and both decode at offset 5 to `jumpTarget = 2`. -/
theorem C7_relative_branch_round_trip_witness :
    (decodeInstruction [0x90, 0x90, 0x90, 0x90, 0x90, 0xE9, 0xFA, 0xFF] 5).jumpTarget = 2
    ∧ (decodeInstruction [0x90, 0x90, 0x90, 0x90, 0x90, 0x74, 0xFB] 5).jumpTarget = 2 := by
  have h := C7_relative_branch_round_trip { pass2Ctx with currentAddress := 5 }
    [0x90, 0x90, 0x90, 0x90, 0x90] 2 Operand.empty 1 rfl rfl (by decide)
  exact ⟨(h.1 "JMP" 0xE9 (by decide)).2, (h.2 "JZ" 0x74 (by decide)).2 (by decide)⟩

@[simp] theorem emitByte_diagnostics (ctx : AssemblerContext) (b : Nat) :
    (emitByte ctx b).diagnostics = ctx.diagnostics := by
  unfold emitByte; split <;> rfl

@[simp] theorem emitWord_diagnostics (ctx : AssemblerContext) (w : Nat) :
    (emitWord ctx w).diagnostics = ctx.diagnostics := by
  unfold emitWord; split <;> rfl

/-! ## C8: range check of the conditional jumps -/

theorem inversions_flip_bit0 (mn : String) (op : Nat) (h : (mn, op) ∈ jccOpcodes) :
    (inversions.lookup mn).isSome = true
    ∧ jccOpcodes.lookup ((inversions.lookup mn).getD "") = some (op ^^^ 1) := by
  unfold jccOpcodes at h
  fin_cases h <;> decide

set_option maxRecDepth 100000 in
/-- C8. In pass 2, a conditional jump (any mnemonic of `jccOpcodes`) at address `A` to target `T`
appends to the diagnostics exactly one ERROR "Conditional jump out of range (d)" on its line when
`d = T - (A+2)` is below -128 or above 127, and nothing otherwise (so -128 and +127 are accepted
without diagnostic).  The hint of the error proposes `Restructure as: <inv> .skip / JMP target /
.skip:` where `<inv>`, the entry of the table `inversions`, is a mnemonic whose opcode differs
only in bit 0 (JNZ for JZ).  The program `JZ far / RESB 130 / far: NOP` gets this error on
line 1. -/
theorem C8_conditional_jump_range (ctx : AssemblerContext) (mn : String) (op : Nat) (T : Int)
    (o2 : Operand) (line : Nat) (hp : ctx.isPass1 = false) (h : (mn, op) ∈ jccOpcodes) :
    (inversions.lookup mn).isSome = true
    ∧ jccOpcodes.lookup ((inversions.lookup mn).getD "") = some (op ^^^ 1)
    ∧ (encodeInstruction ctx mn (immOperand T) o2 line).1.diagnostics
        = ctx.diagnostics ++
          (if T - (ctx.currentAddress + 2) < -128 ∨ T - (ctx.currentAddress + 2) > 127 then
            [{ level := "ERROR", line := line,
               message := "Conditional jump out of range ("
                 ++ intToString (T - (ctx.currentAddress + 2)) ++ ")",
               hint := "Displacement is " ++ intToString (T - (ctx.currentAddress + 2))
                 ++ " bytes (range: -128 to +127). "
                 ++ ("Restructure as: " ++ (inversions.lookup mn).getD ""
                      ++ " .skip / JMP target / .skip:") }]
           else [])
    ∧ inversions.lookup "JZ" = some "JNZ"
    ∧ (assemble ["JZ far", "RESB 130", "far: NOP"] []).diagnostics
        = [{ level := "ERROR", line := 1, message := "Conditional jump out of range (130)",
             hint := "Displacement is 130 bytes (range: -128 to +127). Restructure as: JNZ .skip / JMP target / .skip:" }] := by
  obtain ⟨hi, hj⟩ := inversions_flip_bit0 mn op h
  refine ⟨hi, hj, ?_, by decide, by decide⟩
  obtain ⟨h1, h2, _, _⟩ := encodeInstruction_jcc ctx mn op (immOperand T) o2 line h
  rw [h1]
  unfold encJcc
  rw [h2]
  simp only [immOperand, if_true]
  cases hl : inversions.lookup mn with
  | none => rw [hl] at hi; simp at hi
  | some inv =>
    by_cases hr : T - (ctx.currentAddress + 2) < -128 ∨ T - (ctx.currentAddress + 2) > 127
    · simp [hp, hr, logError, jccRangeHint, hl]
    · simp [hp, hr]

/-- C8 at `JZ` from address 0: target 130 is out of range (displacement 128), and target 129
(displacement 127) is accepted. -/
theorem C8_conditional_jump_range_witness :
    ((encodeInstruction pass2Ctx "JZ" (immOperand 130) Operand.empty 1).1.diagnostics.map
        (fun d => d.message)) = ["Conditional jump out of range (128)"]
    ∧ (encodeInstruction pass2Ctx "JZ" (immOperand 129) Operand.empty 1).1.diagnostics = [] := by
  have h1 := (C8_conditional_jump_range pass2Ctx "JZ" 0x74 130 Operand.empty 1
    rfl (by decide)).2.2.1
  have h2 := (C8_conditional_jump_range pass2Ctx "JZ" 0x74 129 Operand.empty 1
    rfl (by decide)).2.2.1
  rw [h1, h2]
  exact ⟨by decide, by decide⟩

/-! ## Flag lemmas -/

theorem getFlag_eq_testBit (cpu : CPU) (bit : Nat) : cpu.getFlag bit = cpu.flags.testBit bit := by
  unfold CPU.getFlag
  rw [Nat.and_one_is_mod, Nat.testBit_to_div_mod, Nat.shiftRight_eq_div_pow]
  by_cases h : cpu.flags / 2 ^ bit % 2 = 1
  · simp [h]
  · have : cpu.flags / 2 ^ bit % 2 = 0 := by omega
    simp [this]

theorem getFlag_setFlag (cpu : CPU) (f g : Nat) (v : Bool) (hf : f < 16) (hg : g < 16) :
    (cpu.setFlag f v).getFlag g = if g = f then v else cpu.getFlag g := by
  rw [getFlag_eq_testBit, getFlag_eq_testBit]
  unfold CPU.setFlag
  have h16 : (0xFFFF : Nat) = 2 ^ 16 - 1 := by norm_num
  have hm : (65536 : Nat) = 2 ^ 16 := by norm_num
  cases v
  · simp only [Bool.false_eq_true, if_false, Nat.testBit_and, Nat.testBit_xor, h16,
      Nat.testBit_two_pow_sub_one, Nat.one_shiftLeft, Nat.testBit_two_pow]
    by_cases h : g = f
    · subst h; simp [hg]
    · have h' : ¬ f = g := fun e => h e.symm
      simp [h, h', hg]
  · simp only [if_true, hm, Nat.testBit_mod_two_pow, Nat.testBit_or, Nat.one_shiftLeft,
      Nat.testBit_two_pow]
    by_cases h : g = f
    · subst h; simp [hg]
    · have h' : ¬ f = g := fun e => h e.symm
      simp [h, h', hg]


theorem and_bit_ne_zero (x i : Nat) : (x &&& 2 ^ i ≠ 0) ↔ x.testBit i = true := by
  rw [Nat.and_two_pow]
  cases h : x.testBit i <;> simp [Nat.pos_pow_of_pos]

theorem testBit7_lt (x : Nat) (h : x < 256) : x.testBit 7 = decide (128 ≤ x) := by
  rw [Nat.testBit_to_div_mod]
  congr 1
  apply propext
  norm_num
  omega

theorem testBit4_eq (x : Nat) : x.testBit 4 = decide (x / 16 % 2 = 1) := by
  rw [Nat.testBit_to_div_mod]

set_option maxRecDepth 100000 in
theorem parity8_ref : ∀ r, r < 256 → parity8 (r &&& 0xFF) = decide (onesCount8 r % 2 = 0) := by
  decide

theorem sub_res8 (a b : Nat) (ha : a < 256) (hb : b < 256) :
    (toU32 ((a : Int) - b) &&& 0xFF) % 65536 = (a + 256 - b) % 256 := by
  rw [and_255]
  unfold toU32
  omega


theorem flag_sf (r : Nat) : decide (r &&& 0x80 ≠ 0) = r.testBit 7 := by
  have h7 := and_bit_ne_zero r 7
  rw [show (2 : Nat) ^ 7 = 128 from rfl] at h7
  cases hb : r.testBit 7
  · rw [hb] at h7; simp only [decide_eq_false_iff_not]; exact fun hc => by simpa using h7.1 hc
  · rw [hb] at h7; simp only [decide_eq_true_eq]; exact h7.2 rfl

theorem flag_of_add (a b : Nat) (ha : a < 256) (hb : b < 256) :
    decide ((a ^^^ (a + b) % 256) &&& (b ^^^ (a + b) % 256) &&& 0x80 ≠ 0)
      = decide (signed8 a + signed8 b < -128 ∨ signed8 a + signed8 b > 127) := by
  have h := and_bit_ne_zero ((a ^^^ (a + b) % 256) &&& (b ^^^ (a + b) % 256)) 7
  rw [show (2 : Nat) ^ 7 = 128 from rfl] at h
  have hr : (a + b) % 256 < 256 := Nat.mod_lt _ (by norm_num)
  congr 1
  apply propext
  rw [h, Nat.testBit_and, Nat.testBit_xor, Nat.testBit_xor, testBit7_lt a ha, testBit7_lt b hb,
    testBit7_lt _ hr]
  unfold signed8
  by_cases h1 : 128 ≤ a <;> by_cases h2 : 128 ≤ b <;> by_cases h3 : 128 ≤ (a + b) % 256 <;>
    simp [h1, h2, h3] <;> omega

theorem flag_of_sub (a b : Nat) (ha : a < 256) (hb : b < 256) :
    decide ((a ^^^ b) &&& (a ^^^ (a + 256 - b) % 256) &&& 0x80 ≠ 0)
      = decide (signed8 a - signed8 b < -128 ∨ signed8 a - signed8 b > 127) := by
  have h := and_bit_ne_zero ((a ^^^ b) &&& (a ^^^ (a + 256 - b) % 256)) 7
  rw [show (2 : Nat) ^ 7 = 128 from rfl] at h
  have hr : (a + 256 - b) % 256 < 256 := Nat.mod_lt _ (by norm_num)
  congr 1
  apply propext
  rw [h, Nat.testBit_and, Nat.testBit_xor, Nat.testBit_xor, testBit7_lt a ha, testBit7_lt b hb,
    testBit7_lt _ hr]
  unfold signed8
  by_cases h1 : 128 ≤ a <;> by_cases h2 : 128 ≤ b <;> by_cases h3 : 128 ≤ (a + 256 - b) % 256 <;>
    simp [h1, h2, h3] <;> omega

theorem flag_af_add (a b : Nat) :
    decide ((a ^^^ b ^^^ (a + b) % 256) &&& 0x10 ≠ 0) = decide (a % 16 + b % 16 ≥ 16) := by
  have h := and_bit_ne_zero (a ^^^ b ^^^ (a + b) % 256) 4
  rw [show (2 : Nat) ^ 4 = 16 from rfl] at h
  congr 1
  apply propext
  rw [h, Nat.testBit_xor, Nat.testBit_xor, testBit4_eq a, testBit4_eq b, testBit4_eq]
  by_cases h1 : a / 16 % 2 = 1 <;> by_cases h2 : b / 16 % 2 = 1 <;>
    by_cases h3 : (a + b) % 256 / 16 % 2 = 1 <;> simp [h1, h2, h3] <;> omega

theorem flag_af_sub (a b : Nat) (hb : b < 256) :
    decide ((a ^^^ b ^^^ (a + 256 - b) % 256) &&& 0x10 ≠ 0) = decide (a % 16 < b % 16) := by
  have h := and_bit_ne_zero (a ^^^ b ^^^ (a + 256 - b) % 256) 4
  rw [show (2 : Nat) ^ 4 = 16 from rfl] at h
  congr 1
  apply propext
  rw [h, Nat.testBit_xor, Nat.testBit_xor, testBit4_eq a, testBit4_eq b, testBit4_eq]
  by_cases h1 : a / 16 % 2 = 1 <;> by_cases h2 : b / 16 % 2 = 1 <;>
    by_cases h3 : (a + 256 - b) % 256 / 16 % 2 = 1 <;> simp [h1, h2, h3] <;> omega



theorem execALU_flags_8bit (cpu : CPU) (mn : String) (a b : Nat) (ha : a < 256) (hb : b < 256)
    (hmn : mn ∈ ["ADD", "SUB", "AND", "OR", "XOR"]) :
    (execALU cpu mn a b false).2 = some (refResult8 mn a b)
    ∧ (execALU cpu mn a b false).1.getFlag CPU.CF = refCF mn a b
    ∧ (execALU cpu mn a b false).1.getFlag CPU.AF = refAF mn a b
    ∧ (execALU cpu mn a b false).1.getFlag CPU.ZF = refZF mn a b
    ∧ (execALU cpu mn a b false).1.getFlag CPU.SF = refSF mn a b
    ∧ (execALU cpu mn a b false).1.getFlag CPU.PF = refPF mn a b
    ∧ (execALU cpu mn a b false).1.getFlag CPU.OF = refOF mn a b := by
  have hadd : ((a + b) &&& 0xFF) % 65536 = (a + b) % 256 := by rw [and_255]; omega
  have hsub := sub_res8 a b ha hb
  have hand : a &&& b < 256 := Nat.and_lt_two_pow a (n := 8) hb
  have hor : a ||| b < 256 := Nat.or_lt_two_pow (n := 8) ha hb
  have hxor : a ^^^ b < 256 := Nat.xor_lt_two_pow (n := 8) ha hb
  have hpar : ∀ r, r < 256 → parity8 (r &&& 255) = decide (onesCount8 r % 2 = 0) := parity8_ref
  have hm : ∀ r, r < 256 → r % 65536 = r := fun r h => Nat.mod_eq_of_lt (by omega)
  have hm2 : ∀ r, r < 256 → (r &&& 255) % 65536 = r := fun r h => by
    rw [and_255]; omega
  simp only [List.mem_cons, List.mem_singleton, List.not_mem_nil, or_false] at hmn
  rcases hmn with rfl | rfl | rfl | rfl | rfl
  · simp only [execALU, updateFlagsAdd, refResult8, refCF, refAF, refZF, refSF, refPF, refOF,
      CPU.CF, CPU.AF, CPU.ZF, CPU.SF, CPU.PF, CPU.OF, if_true, if_false,
      Bool.false_eq_true, String.reduceEq, hadd]
    simp (disch := omega) only [getFlag_setFlag]
    refine ⟨trivial, ?_, flag_af_add a b, ?_, flag_sf _, hpar _ (Nat.mod_lt _ (by norm_num)),
      flag_of_add a b ha hb⟩
    · simp
      omega
    · simp
  · simp only [execALU, updateFlagsSub, refResult8, refCF, refAF, refZF, refSF, refPF, refOF,
      CPU.CF, CPU.AF, CPU.ZF, CPU.SF, CPU.PF, CPU.OF, if_true, if_false,
      Bool.false_eq_true, String.reduceEq, hsub]
    simp (disch := omega) only [getFlag_setFlag]
    refine ⟨by simp, ?_, flag_af_sub a b hb, ?_, flag_sf _, hpar _ (Nat.mod_lt _ (by norm_num)),
      flag_of_sub a b ha hb⟩
    · simp
    · simp
  · simp only [execALU, updateFlagsLogic, refResult8, refCF, refAF, refZF, refSF, refPF, refOF,
      CPU.CF, CPU.AF, CPU.ZF, CPU.SF, CPU.PF, CPU.OF, if_true, if_false,
      Bool.false_eq_true, String.reduceEq, hm _ hand, hm2 _ hand]
    simp (disch := omega) only [getFlag_setFlag]
    refine ⟨by simp, by simp, by simp, by simp, flag_sf _, hpar _ hand, by simp⟩
  · simp only [execALU, updateFlagsLogic, refResult8, refCF, refAF, refZF, refSF, refPF, refOF,
      CPU.CF, CPU.AF, CPU.ZF, CPU.SF, CPU.PF, CPU.OF, if_true, if_false,
      Bool.false_eq_true, String.reduceEq, hm _ hor, hm2 _ hor]
    simp (disch := omega) only [getFlag_setFlag]
    refine ⟨by simp, by simp, by simp, by simp, flag_sf _, hpar _ hor, by simp⟩
  · simp only [execALU, updateFlagsLogic, refResult8, refCF, refAF, refZF, refSF, refPF, refOF,
      CPU.CF, CPU.AF, CPU.ZF, CPU.SF, CPU.PF, CPU.OF, if_true, if_false,
      Bool.false_eq_true, String.reduceEq, hm _ hxor, hm2 _ hxor]
    simp (disch := omega) only [getFlag_setFlag]
    refine ⟨by simp, by simp, by simp, by simp, flag_sf _, hpar _ hxor, by simp⟩


theorem writeOperand_flags (s : EmuState) (op : DecodedOperand) (v : Nat) (so : Int) :
    (writeOperand s op v so).cpu.flags = s.cpu.flags := by
  unfold writeOperand
  cases op.kind <;> simp [CPU.setReg8, CPU.setReg, CPU.setSreg]
  split <;> rfl

theorem executeInstruction_alu_flags (s : EmuState) (inst : DecodedInst)
    (h : inst.mnemonic ∈ ["ADD", "SUB", "AND", "OR", "XOR"]) :
    (executeInstruction s inst).cpu.flags
      = (execALU s.cpu inst.mnemonic (readOperand s.cpu s.mem inst.op1 inst.segOverride)
          (readOperand s.cpu s.mem inst.op2 inst.segOverride) inst.wide).1.flags := by
  have hb : inst.mnemonic = "ADD" ∨ inst.mnemonic = "ADC" ∨ inst.mnemonic = "SUB"
      ∨ inst.mnemonic = "SBB" ∨ inst.mnemonic = "CMP" ∨ inst.mnemonic = "AND"
      ∨ inst.mnemonic = "OR" ∨ inst.mnemonic = "XOR" ∨ inst.mnemonic = "TEST" := by
    simp only [List.mem_cons, List.mem_singleton, List.not_mem_nil, or_false] at h
    rcases h with h | h | h | h | h <;> simp [h]
  unfold executeInstruction
  simp only [hb, if_true]
  split
  · exact writeOperand_flags _ _ _ _
  · rfl

/-! ## C4: flags of the 8-bit ALU operations -/

/-- C4. Executing ADD, SUB, AND, OR or XOR on 8-bit operand values `a` and `b` leaves the flags
of the 8086 reference: CF is the carry out of bit 7 for ADD, the borrow `a < b` for SUB and 0 for
the logical operations; AF is the carry/borrow out of bit 3 (0 for logical); ZF is set iff the
8-bit result is 0; SF is bit 7 of the result; PF is set iff the result has an even number of
1 bits; OF is the signed overflow (0 for logical). -/
theorem C4_flags_8bit (s : EmuState) (inst : DecodedInst) (a b : Nat)
    (hmn : inst.mnemonic ∈ ["ADD", "SUB", "AND", "OR", "XOR"]) (hw : inst.wide = false)
    (ha : readOperand s.cpu s.mem inst.op1 inst.segOverride = a)
    (hb : readOperand s.cpu s.mem inst.op2 inst.segOverride = b)
    (ha8 : a < 256) (hb8 : b < 256) :
    (executeInstruction s inst).cpu.getFlag CPU.CF = refCF inst.mnemonic a b
    ∧ (executeInstruction s inst).cpu.getFlag CPU.AF = refAF inst.mnemonic a b
    ∧ (executeInstruction s inst).cpu.getFlag CPU.ZF = refZF inst.mnemonic a b
    ∧ (executeInstruction s inst).cpu.getFlag CPU.SF = refSF inst.mnemonic a b
    ∧ (executeInstruction s inst).cpu.getFlag CPU.PF = refPF inst.mnemonic a b
    ∧ (executeInstruction s inst).cpu.getFlag CPU.OF = refOF inst.mnemonic a b := by
  have hf := executeInstruction_alu_flags s inst hmn
  rw [ha, hb, hw] at hf
  obtain ⟨_, h1, h2, h3, h4, h5, h6⟩ := execALU_flags_8bit s.cpu inst.mnemonic a b ha8 hb8 hmn
  simp only [CPU.getFlag, hf] at h1 h2 h3 h4 h5 h6 ⊢
  exact ⟨h1, h2, h3, h4, h5, h6⟩

/-- C4 at an 8-bit ADD of the operand values 100 and 200 in the initial machine state: the
result 44 carries out of bit 7 (CF set) without signed overflow (OF clear). -/
theorem C4_flags_8bit_witness :
    (executeInstruction (initialState [] EmulatorConfig.default)
        { DecodedInst.empty with mnemonic := "ADD", op1 := makeImm8 100, op2 := makeImm8 200 }
      ).cpu.getFlag CPU.CF = true
    ∧ (executeInstruction (initialState [] EmulatorConfig.default)
        { DecodedInst.empty with mnemonic := "ADD", op1 := makeImm8 100, op2 := makeImm8 200 }
      ).cpu.getFlag CPU.OF = false := by
  have h := C4_flags_8bit (initialState [] EmulatorConfig.default)
    { DecodedInst.empty with mnemonic := "ADD", op1 := makeImm8 100, op2 := makeImm8 200 }
    100 200 (by decide) rfl (by decide) (by decide) (by decide) (by decide)
  exact ⟨h.1, h.2.2.2.2.2⟩

/-! ## Emulator lemmas: stepping the main loop -/

theorem emuLoop_step (code : List Nat) (cfg : EmulatorConfig) (n cycle : Nat) (s : EmuState)
    (hbp : cfg.breakpoints = []) (hw : cfg.watchRegs = [])
    (hv : (decodeInstruction code s.cpu.ip).valid = true) :
    emuLoop code cfg (n + 1) cycle s
      = if (executeInstruction
              { s with cpu := { s.cpu with ip := (s.cpu.ip
                  + (decodeInstruction code s.cpu.ip).size) % 65536 } }
              (decodeInstruction code s.cpu.ip)).result.halted
        then (cycle + 1, executeInstruction
              { s with cpu := { s.cpu with ip := (s.cpu.ip
                  + (decodeInstruction code s.cpu.ip).size) % 65536 } }
              (decodeInstruction code s.cpu.ip))
        else emuLoop code cfg n (cycle + 1) (executeInstruction
              { s with cpu := { s.cpu with ip := (s.cpu.ip
                  + (decodeInstruction code s.cpu.ip).size) % 65536 } }
              (decodeInstruction code s.cpu.ip)) := by
  rw [emuLoop]
  simp [hbp, hw, hv]

theorem code_split (f : Nat → Nat) :
    (List.range 65536).map f
      = (List.range 256).map f
        ++ (f 256 :: f 257 :: f 258 :: f 259 :: f 260 :: f 261 :: f 262 :: f 263
            :: (List.range 65272).map (fun i => f (264 + i))) := by
  have h1 : List.range 65536
      = List.range 256 ++ List.map (fun x => 256 + x) (List.range 65280) :=
    List.range_add 256 65280
  have h2 : List.range 65280 = List.range 8 ++ List.map (fun x => 8 + x) (List.range 65272) :=
    List.range_add 8 65272
  have h3 : List.range 8 = [0, 1, 2, 3, 4, 5, 6, 7] := by decide
  have e : List.range 65536 = List.range 256
      ++ List.map (fun x => 256 + x)
          ([0, 1, 2, 3, 4, 5, 6, 7] ++ List.map (fun x => 8 + x) (List.range 65272)) :=
    h1.trans (congrArg (fun l => List.range 256 ++ List.map (fun x => 256 + x) l)
      (h2.trans (congrArg (fun l => l ++ List.map (fun x => 8 + x) (List.range 65272)) h3)))
  have hf : (f ∘ (fun x => 256 + x) ∘ fun x => 8 + x) = fun i => f (264 + i) := by
    funext i
    have h : 256 + (8 + i) = 264 + i := by omega
    simp only [Function.comp, h]
  refine (congrArg (List.map f) e).trans ?_
  simp only [List.map_append, List.map_map, List.map_cons, List.map_nil, List.cons_append,
    List.nil_append, Nat.add_zero, hf]


theorem decode_mov_r8_imm8 (pre post : List Nat) (op r v : Nat)
    (h : (op, r) ∈ [(0xB4, 4), (0xB2, 2)]) :
    decodeInstruction (pre ++ op :: v :: post) pre.length
      = { DecodedInst.empty with opcode := op, valid := true, size := 2, mnemonic := "MOV",
                                 wide := false, op1 := makeReg8 r, op2 := makeImm8 v } := by
  have hnp : op ∉ [0xF2, 0xF3, 0x26, 0x2E, 0x36, 0x3E] := by
    fin_cases h <;> decide
  rw [decodeInstruction_at pre op _ hnp]
  fin_cases h <;>
    simp [decodeOpcode, hasBytesAt, readByte, finish, DecodedInst.empty, makeReg8] <;>
    exact ⟨by decide, by decide⟩

theorem decode_int (pre post : List Nat) (n : Nat) :
    decodeInstruction (pre ++ 0xCD :: n :: post) pre.length
      = { DecodedInst.empty with opcode := 0xCD, valid := true, size := 2, mnemonic := "INT",
                                 op1 := makeImm8 n } := by
  rw [decodeInstruction_at pre 0xCD _ (by decide)]
  simp [decodeOpcode, hasBytesAt, readByte, finish, DecodedInst.empty]

theorem exec_mov_r8_imm8 (s : EmuState) (inst : DecodedInst) (r v : Nat)
    (hm : inst.mnemonic = "MOV") (h1 : inst.op1 = makeReg8 r) (h2 : inst.op2 = makeImm8 v) :
    executeInstruction s inst = { s with cpu := s.cpu.setReg8 (r &&& 7) (v % 256) } := by
  unfold executeInstruction
  have e : ((v : Int) % 256).toNat = v % 256 := by omega
  simp [hm, h1, h2, readOperand, writeOperand, makeReg8, makeImm8, toU8, e]

theorem exec_int (s : EmuState) (inst : DecodedInst) (n : Nat)
    (hm : inst.mnemonic = "INT") (h1 : inst.op1 = makeImm8 n) :
    executeInstruction s inst = handleInterrupt s (n % 256) := by
  unfold executeInstruction
  have e : ((n : Int) % 256).toNat = n % 256 := by omega
  simp [hm, h1, makeImm8, toU8, firstChar, isStringOp, e]


theorem init_code (c : Nat) (hc : c < 256) (cfg : EmulatorConfig) :
    ∃ pre post : List Nat, pre.length = 256 ∧
      (List.range 65536).map (initialState (putcharProgram c) cfg).mem.data
        = pre ++ (0xB4 :: 0x02 :: 0xB2 :: c :: 0xCD :: 0x21 :: 0xCD :: 0x20 :: post) := by
  refine ⟨(List.range 256).map (initialState (putcharProgram c) cfg).mem.data,
    (List.range 65272).map (fun i => (initialState (putcharProgram c) cfg).mem.data (264 + i)),
    by simp, ?_⟩
  rw [code_split]
  congr 1
  simp [initialState, Memory.loadCOM, Memory.write8, VRAMState.clearScreen, Memory.init,
    putcharProgram, setAt, Nat.mod_eq_of_lt hc]

theorem step_mov (code : List Nat) (cfg : EmulatorConfig) (n cycle : Nat) (s : EmuState)
    (hbp : cfg.breakpoints = []) (hw : cfg.watchRegs = []) (r v : Nat) (inst : DecodedInst)
    (hd : decodeInstruction code s.cpu.ip = inst) (hv : inst.valid = true)
    (hm : inst.mnemonic = "MOV") (h1 : inst.op1 = makeReg8 r) (h2 : inst.op2 = makeImm8 v)
    (hh : s.result.halted = false) :
    emuLoop code cfg (n + 1) cycle s
      = emuLoop code cfg n (cycle + 1)
          { s with cpu := (CPU.setReg8 { s.cpu with ip := (s.cpu.ip + inst.size) % 65536 }
              (r &&& 7) (v % 256)) } := by
  rw [emuLoop_step code cfg n cycle s hbp hw (by rw [hd]; exact hv), hd,
    exec_mov_r8_imm8 _ inst r v hm h1 h2]
  simp [hh]

theorem step_int (code : List Nat) (cfg : EmulatorConfig) (n cycle : Nat) (s : EmuState)
    (hbp : cfg.breakpoints = []) (hw : cfg.watchRegs = []) (num : Nat) (inst : DecodedInst)
    (hd : decodeInstruction code s.cpu.ip = inst) (hv : inst.valid = true)
    (hm : inst.mnemonic = "INT") (h1 : inst.op1 = makeImm8 num) :
    emuLoop code cfg (n + 1) cycle s
      = if (handleInterrupt { s with cpu := { s.cpu with ip := (s.cpu.ip + inst.size) % 65536 } }
              (num % 256)).result.halted
        then (cycle + 1, handleInterrupt
              { s with cpu := { s.cpu with ip := (s.cpu.ip + inst.size) % 65536 } } (num % 256))
        else emuLoop code cfg n (cycle + 1) (handleInterrupt
              { s with cpu := { s.cpu with ip := (s.cpu.ip + inst.size) % 65536 } }
              (num % 256)) := by
  rw [emuLoop_step code cfg n cycle s hbp hw (by rw [hd]; exact hv), hd,
    exec_int _ inst num hm h1]

theorem handleInterrupt_putchar (s : EmuState) (h : s.cpu.getReg8 4 = 2) :
    handleInterrupt s 0x21 = putChar s (s.cpu.getReg8 2) := by
  simp [handleInterrupt, handleInt21, h]

theorem putChar_cpu (s : EmuState) (ch : Nat) : (putChar s ch).cpu = s.cpu := rfl

theorem putChar_result (s : EmuState) (ch : Nat) : (putChar s ch).result = s.result := rfl

theorem putChar_buf (s : EmuState) (ch : Nat) (h : s.io.stdoutBuf.length < MAX_OUTPUT) :
    (putChar s ch).io.stdoutBuf = s.io.stdoutBuf ++ [ch % 256] := by
  simp [putChar, h]

theorem emuLoop_putchar (pre post : List Nat) (c : Nat) (hc : c < 256) (cfg : EmulatorConfig)
    (hbp : cfg.breakpoints = []) (hw : cfg.watchRegs = []) (s : EmuState) (n : Nat)
    (hlen : pre.length = 256) (hip : s.cpu.ip = 256) (hbuf : s.io.stdoutBuf = [])
    (h0 : s.cpu.regs 0 = 0) (h2 : s.cpu.regs 2 = 0) (hh : s.result.halted = false) :
    (emuLoop (pre ++ (0xB4 :: 0x02 :: 0xB2 :: c :: 0xCD :: 0x21 :: 0xCD :: 0x20 :: post))
        cfg (n + 4) 0 s).1 = 4
    ∧ (emuLoop (pre ++ (0xB4 :: 0x02 :: 0xB2 :: c :: 0xCD :: 0x21 :: 0xCD :: 0x20 :: post))
        cfg (n + 4) 0 s).2.io.stdoutBuf = [c]
    ∧ (emuLoop (pre ++ (0xB4 :: 0x02 :: 0xB2 :: c :: 0xCD :: 0x21 :: 0xCD :: 0x20 :: post))
        cfg (n + 4) 0 s).2.result.halted = true
    ∧ (emuLoop (pre ++ (0xB4 :: 0x02 :: 0xB2 :: c :: 0xCD :: 0x21 :: 0xCD :: 0x20 :: post))
        cfg (n + 4) 0 s).2.result.haltReason = "INT 20h program terminate"
    ∧ (emuLoop (pre ++ (0xB4 :: 0x02 :: 0xB2 :: c :: 0xCD :: 0x21 :: 0xCD :: 0x20 :: post))
        cfg (n + 4) 0 s).2.result.exitCode = 0 := by
  -- the four decoded instructions
  have d1 := decode_mov_r8_imm8 pre (0xB2 :: c :: 0xCD :: 0x21 :: 0xCD :: 0x20 :: post)
    0xB4 4 0x02 (by decide)
  have d2 := decode_mov_r8_imm8 (pre ++ [0xB4, 0x02]) (0xCD :: 0x21 :: 0xCD :: 0x20 :: post)
    0xB2 2 c (by decide)
  have d3 := decode_int (pre ++ [0xB4, 0x02, 0xB2, c]) (0xCD :: 0x20 :: post) 0x21
  have d4 := decode_int (pre ++ [0xB4, 0x02, 0xB2, c, 0xCD, 0x21]) post 0x20
  simp only [List.length_append, List.length_cons, List.length_nil, hlen, List.append_assoc,
    List.cons_append, List.nil_append] at d1 d2 d3 d4
  norm_num at d1 d2 d3 d4
  generalize pre ++ (0xB4 :: 0x02 :: 0xB2 :: c :: 0xCD :: 0x21 :: 0xCD :: 0x20 :: post) = code
    at d1 d2 d3 d4 ⊢
  obtain ⟨i1, e1, v1, m1, o1, p1, z1⟩ : ∃ i, decodeInstruction code 256 = i ∧ i.valid = true
      ∧ i.mnemonic = "MOV" ∧ i.op1 = makeReg8 4 ∧ i.op2 = makeImm8 2 ∧ i.size = 2 :=
    ⟨_, d1, rfl, rfl, rfl, rfl, rfl⟩
  obtain ⟨i2, e2, v2, m2, o2, p2, z2⟩ : ∃ i, decodeInstruction code 258 = i ∧ i.valid = true
      ∧ i.mnemonic = "MOV" ∧ i.op1 = makeReg8 2 ∧ i.op2 = makeImm8 c ∧ i.size = 2 :=
    ⟨_, d2, rfl, rfl, rfl, rfl, rfl⟩
  obtain ⟨i3, e3, v3, m3, o3, z3⟩ : ∃ i, decodeInstruction code 260 = i ∧ i.valid = true
      ∧ i.mnemonic = "INT" ∧ i.op1 = makeImm8 0x21 ∧ i.size = 2 :=
    ⟨_, d3, rfl, rfl, rfl, rfl⟩
  obtain ⟨i4, e4, v4, m4, o4, z4⟩ : ∃ i, decodeInstruction code 262 = i ∧ i.valid = true
      ∧ i.mnemonic = "INT" ∧ i.op1 = makeImm8 0x20 ∧ i.size = 2 :=
    ⟨_, d4, rfl, rfl, rfl, rfl⟩
  clear d1 d2 d3 d4
  have k4 : (4 &&& 7 : Nat) = 4 := rfl
  have k2 : (2 &&& 7 : Nat) = 2 := rfl
  -- MOV AH, 02h
  rw [show n + 4 = (n + 3) + 1 from rfl,
    step_mov code cfg (n + 3) 0 s hbp hw 4 2 i1 (by rw [hip]; exact e1) v1 m1 o1 p1 hh]
  generalize hS1 : ({ s with cpu := (CPU.setReg8 { s.cpu with ip := (s.cpu.ip + i1.size) % 65536 }
      (4 &&& 7) (2 % 256)) } : EmuState) = S1
  have a1 : S1.cpu.ip = 258 := by rw [← hS1]; simp [CPU.setReg8, hip, z1, k4]
  have a2 : S1.result.halted = false := by rw [← hS1]; exact hh
  have a3 : S1.io.stdoutBuf = [] := by rw [← hS1]; exact hbuf
  have a4 : S1.cpu.regs 0 = 512 := by rw [← hS1]; simp [CPU.setReg8, setAt, h0, k4]
  have a5 : S1.cpu.regs 2 = 0 := by rw [← hS1]; simp [CPU.setReg8, setAt, h2, k4]
  clear hS1
  -- MOV DL, c
  rw [show n + 3 = (n + 2) + 1 from rfl,
    step_mov code cfg (n + 2) (0 + 1) S1 hbp hw 2 c i2 (by rw [a1]; exact e2) v2 m2 o2 p2 a2]
  generalize hS2 : ({ S1 with cpu := (CPU.setReg8
      { S1.cpu with ip := (S1.cpu.ip + i2.size) % 65536 } (2 &&& 7) (c % 256)) } : EmuState) = S2
  have b1 : S2.cpu.ip = 260 := by rw [← hS2]; simp [CPU.setReg8, a1, z2, k2]
  have b2 : S2.result.halted = false := by rw [← hS2]; exact a2
  have b3 : S2.io.stdoutBuf = [] := by rw [← hS2]; exact a3
  have b4 : S2.cpu.getReg8 4 = 2 := by rw [← hS2]; simp [CPU.setReg8, CPU.getReg8, setAt, a4, k2]; rfl
  have b5 : S2.cpu.getReg8 2 = c := by
    rw [← hS2]; simp [CPU.setReg8, CPU.getReg8, setAt, a5, and_255, Nat.mod_eq_of_lt hc, k2]
  clear hS2
  -- INT 21h
  rw [show n + 2 = (n + 1) + 1 from rfl,
    step_int code cfg (n + 1) (0 + 1 + 1) S2 hbp hw 0x21 i3 (by rw [b1]; exact e3) v3 m3 o3]
  generalize hS3 : handleInterrupt { S2 with cpu := { S2.cpu with ip := (S2.cpu.ip + i3.size) % 65536 } }
      (0x21 % 256) = S3
  rw [show (0x21 % 256 : Nat) = 0x21 from rfl, handleInterrupt_putchar
    { S2 with cpu := { S2.cpu with ip := (S2.cpu.ip + i3.size) % 65536 } } b4] at hS3
  have c1 : S3.cpu.ip = 262 := by rw [← hS3, putChar_cpu]; simp [b1, z3]
  have c2 : S3.result.halted = false := by rw [← hS3, putChar_result]; exact b2
  have c3 : S3.io.stdoutBuf = [c] := by
    rw [← hS3, putChar_buf _ _ (by simp [b3, MAX_OUTPUT])]
    have b5' : ({ S2 with cpu := { S2.cpu with ip := (S2.cpu.ip + i3.size) % 65536 } }
        : EmuState).cpu.getReg8 2 = c := b5
    rw [b5']
    simp [b3, Nat.mod_eq_of_lt hc]
  clear hS3
  simp only [c2, Bool.false_eq_true, if_false]
  -- INT 20h
  rw [step_int code cfg n (0 + 1 + 1 + 1) S3 hbp hw 0x20 i4 (by rw [c1]; exact e4) v4 m4 o4]
  simp [handleInterrupt, c3]

theorem runEmulator_halted (binary : List Nat) (cfg : EmulatorConfig)
    (h : (emuLoop ((List.range 65536).map (initialState binary cfg).mem.data) cfg
            cfg.maxCycles.toNat 0 (initialState binary cfg)).2.result.halted = true) :
    (runEmulator binary cfg).1.output
        = (emuLoop ((List.range 65536).map (initialState binary cfg).mem.data) cfg
            cfg.maxCycles.toNat 0 (initialState binary cfg)).2.io.stdoutBuf
    ∧ (runEmulator binary cfg).1.haltReason
        = (emuLoop ((List.range 65536).map (initialState binary cfg).mem.data) cfg
            cfg.maxCycles.toNat 0 (initialState binary cfg)).2.result.haltReason
    ∧ (runEmulator binary cfg).1.exitCode
        = (emuLoop ((List.range 65536).map (initialState binary cfg).mem.data) cfg
            cfg.maxCycles.toNat 0 (initialState binary cfg)).2.result.exitCode
    ∧ (runEmulator binary cfg).1.cyclesExecuted
        = (emuLoop ((List.range 65536).map (initialState binary cfg).mem.data) cfg
            cfg.maxCycles.toNat 0 (initialState binary cfg)).1 := by
  unfold runEmulator
  dsimp only
  generalize emuLoop ((List.range 65536).map (initialState binary cfg).mem.data) cfg
    cfg.maxCycles.toNat 0 (initialState binary cfg) = r at h ⊢
  obtain ⟨cy, sf⟩ := r
  simp only at h
  simp [h]

theorem runEmulator_putchar (c : Nat) (hc : c < 256) :
    (runEmulator (putcharProgram c) EmulatorConfig.default).1.output = [c]
    ∧ (runEmulator (putcharProgram c) EmulatorConfig.default).1.haltReason
        = "INT 20h program terminate"
    ∧ (runEmulator (putcharProgram c) EmulatorConfig.default).1.exitCode = 0
    ∧ (runEmulator (putcharProgram c) EmulatorConfig.default).1.cyclesExecuted = 4 := by
  obtain ⟨pre, post, hlen, hcode⟩ := init_code c hc EmulatorConfig.default
  have key := emuLoop_putchar pre post c hc EmulatorConfig.default rfl rfl
    (initialState (putcharProgram c) EmulatorConfig.default) 999996 hlen rfl rfl
    (by simp [initialState, setAt, CPU.init]) (by simp [initialState, setAt, CPU.init]) rfl
  rw [← hcode] at key
  obtain ⟨k1, k2, k3, k4, k5⟩ := key
  have hfuel : EmulatorConfig.default.maxCycles.toNat = 999996 + 4 := by decide
  obtain ⟨r1, r2, r3, r4⟩ := runEmulator_halted (putcharProgram c) EmulatorConfig.default
    (by rw [hfuel]; exact k3)
  rw [hfuel] at r1 r2 r3 r4
  exact ⟨r1.trans k2, r2.trans k4, r3.trans k5, r4.trans k1⟩

@[simp] theorem truncWarn8_isPass1 (ctx : AssemblerContext) (line : Nat) (v : Int) :
    (truncWarn8 ctx line v).isPass1 = ctx.isPass1 := by
  unfold truncWarn8; split <;> simp

@[simp] theorem truncWarn8_bytes (ctx : AssemblerContext) (line : Nat) (v : Int) :
    (truncWarn8 ctx line v).currentLineBytes = ctx.currentLineBytes := by
  unfold truncWarn8; split <;> simp

@[simp] theorem truncWarn16_isPass1 (ctx : AssemblerContext) (line : Nat) (v : Int) :
    (truncWarn16 ctx line v).isPass1 = ctx.isPass1 := by
  unfold truncWarn16; split <;> simp

@[simp] theorem truncWarn16_bytes (ctx : AssemblerContext) (line : Nat) (v : Int) :
    (truncWarn16 ctx line v).currentLineBytes = ctx.currentLineBytes := by
  unfold truncWarn16; split <;> simp

/-! ## C3: the character-output scenario -/

/-- C3. The program `ORG 100h / MOV AH,02h / MOV DL,'A' / INT 21h / INT 20h` assembles to exactly
the 8 bytes B4 02 B2 41 CD 21 CD 20 with no diagnostic.  For every byte `c`, `MOV DL, c` is
encoded in pass 2 as B2 c, and emulating B4 02 B2 c CD 21 CD 20 (default configuration) runs
4 cycles and gives the captured output consisting of the single byte `c`, the halt reason
"INT 20h program terminate" and exit code 0. -/
theorem C3_putchar_program (c : Nat) (hc : c < 256) :
    (assemble ["ORG 100h", "MOV AH, 02h", "MOV DL, 'A'", "INT 21h", "INT 20h"] []).machineCode
        = [0xB4, 0x02, 0xB2, 0x41, 0xCD, 0x21, 0xCD, 0x20]
    ∧ (assemble ["ORG 100h", "MOV AH, 02h", "MOV DL, 'A'", "INT 21h", "INT 20h"] []).diagnostics
        = []
    ∧ (assemble ["ORG 100h", "MOV AH, 02h", "MOV DL, 'A'", "INT 21h", "INT 20h"] []).globalError
        = false
    ∧ (encodeInstruction pass2Ctx "MOV" (regOperand 2 8) (immOperand c) 1).1.currentLineBytes
        = [0xB2, c]
    ∧ (runEmulator [0xB4, 0x02, 0xB2, c, 0xCD, 0x21, 0xCD, 0x20] EmulatorConfig.default).1.output
        = [c]
    ∧ (runEmulator [0xB4, 0x02, 0xB2, c, 0xCD, 0x21, 0xCD, 0x20]
        EmulatorConfig.default).1.haltReason = "INT 20h program terminate"
    ∧ (runEmulator [0xB4, 0x02, 0xB2, c, 0xCD, 0x21, 0xCD, 0x20]
        EmulatorConfig.default).1.exitCode = 0
    ∧ (runEmulator [0xB4, 0x02, 0xB2, c, 0xCD, 0x21, 0xCD, 0x20]
        EmulatorConfig.default).1.cyclesExecuted = 4 := by
  obtain ⟨r1, r2, r3, r4⟩ := runEmulator_putchar c hc
  unfold putcharProgram at r1 r2 r3 r4
  refine ⟨by decide, by decide, by decide, ?_, r1, r2, r3, r4⟩
  have e : toU8 (c : Int) = c := by unfold toU8; omega
  simp [encodeInstruction, encMOV, regOperand, immOperand, Operand.empty, emitByte_bytes,
    pass2Ctx, AssemblerContext.init, e, Nat.mod_eq_of_lt hc]

/-- C3 at `c = 'A'` (0x41): the emulated output is "A", the run halts at INT 20h with exit
code 0. -/
theorem C3_putchar_program_witness :
    (runEmulator [0xB4, 0x02, 0xB2, 0x41, 0xCD, 0x21, 0xCD, 0x20] EmulatorConfig.default).1.output
        = [0x41]
    ∧ (runEmulator [0xB4, 0x02, 0xB2, 0x41, 0xCD, 0x21, 0xCD, 0x20]
        EmulatorConfig.default).1.haltReason = "INT 20h program terminate"
    ∧ (runEmulator [0xB4, 0x02, 0xB2, 0x41, 0xCD, 0x21, 0xCD, 0x20]
        EmulatorConfig.default).1.exitCode = 0 := by
  have h := C3_putchar_program 0x41 (by decide)
  exact ⟨h.2.2.2.2.1, h.2.2.2.2.2.1, h.2.2.2.2.2.2.1⟩

/-! ## C2: pass stability -/

set_option maxRecDepth 100000 in
/-- C2 fails on the code. The source `SHL AX, CNT / L: NOP / CNT EQU 1 / JMP L` assembles without
any diagnostic, but its first line advances the address counter by 3 bytes in pass 1 (CNT is
still 0, encoding C1 E0 00) and by 2 bytes in pass 2 (CNT is 1, encoding D1 E0): pass 1 records
label `L` at address 3 while the line defining it is at address 2 in pass 2, and `JMP L` is
emitted as a jump to address 3, its own address. -/
theorem C2_pass_sizes_differ :
    (assemble forwardCountProgram []).diagnostics = []
    ∧ (assemble forwardCountProgram []).globalError = false
    ∧ (assembleLine (afterPass1 []) (tokenize "SHL AX, CNT" 1) 1 "SHL AX, CNT").currentAddress = 3
    ∧ (assembleLine (startPass2 (afterPass1 forwardCountProgram) []) (tokenize "SHL AX, CNT" 1) 1
        "SHL AX, CNT").currentAddress = 2
    ∧ symLookup (afterPass1 forwardCountProgram).symbolTable "L"
        = some { value := 3, isConstant := false, definedLine := 2 }
    ∧ (assemble forwardCountProgram []).listing.map (fun b => (b.sourceLine, b.address, b.size))
        = [(1, 0, 2), (2, 2, 1), (4, 3, 3)]
    ∧ (assemble forwardCountProgram []).machineCode = [0xD1, 0xE0, 0x90, 0xE9, 0xFD, 0xFF]
    ∧ (decodeInstruction (assemble forwardCountProgram []).machineCode 3).jumpTarget = 3 := by
  decide!

/-! ## Parser lemmas: symbol tokens set `encounteredSymbol` -/

theorem adv_refl (tokens : List Token) (ctx : AssemblerContext) (idx : Nat) (v : Int) :
    Advances tokens ctx idx (ctx, idx, v) :=
  ⟨Nat.le_refl _, id, fun j _ h1 h2 _ _ => absurd h2 (by simp only; omega)⟩

theorem adv_trans (tokens : List Token) (ctx c1 : AssemblerContext) (idx i1 : Nat) (v1 : Int)
    (r : AssemblerContext × Nat × Int)
    (h1 : Advances tokens ctx idx (c1, i1, v1)) (h2 : Advances tokens c1 i1 r) :
    Advances tokens ctx idx r := by
  obtain ⟨a1, a2, a3⟩ := h1
  obtain ⟨b1, b2, b3⟩ := h2
  simp only at a1 a2 a3
  refine ⟨Nat.le_trans a1 b1, fun h => b2 (a2 h), fun j t hj1 hj2 hg hs => ?_⟩
  by_cases hlt : j < i1
  · exact b2 (a3 j t hj1 hlt hg hs)
  · exact b3 j t (by omega) hj2 hg hs

theorem adv_value (tokens : List Token) (ctx c1 : AssemblerContext) (idx i1 : Nat) (v v1 : Int)
    (h : Advances tokens ctx idx (c1, i1, v)) : Advances tokens ctx idx (c1, i1, v1) := h

theorem adv_skip (tokens : List Token) (ctx : AssemblerContext) (idx : Nat) (v : Int) (t : Token)
    (hg : tokens.get? idx = some t) (hn : isSymbolToken t = false) :
    Advances tokens ctx idx (ctx, idx + 1, v) := by
  refine ⟨Nat.le_succ _, id, fun j t1 h1 h2 hg1 hs => ?_⟩
  simp only at h2
  have : j = idx := by omega
  subst this
  rw [hg] at hg1
  cases hg1
  rw [hn] at hs
  cases hs

theorem adv_flag (tokens : List Token) (ctx c1 : AssemblerContext) (idx i1 : Nat) (v : Int)
    (hle : idx ≤ i1) (hf : c1.encounteredSymbol = true) : Advances tokens ctx idx (c1, i1, v) :=
  ⟨hle, fun _ => hf, fun _ _ _ _ _ _ => hf⟩

theorem adv_logError (tokens : List Token) (ctx c1 : AssemblerContext) (idx i1 : Nat) (v : Int)
    (line : Nat) (m h : String) (ha : Advances tokens ctx idx (c1, i1, v)) :
    Advances tokens ctx idx (logError c1 line m h, i1, v) := ha

theorem not_symbol_of_type (t : Token) (h : t.type ≠ .Identifier) : isSymbolToken t = false := by
  simp [isSymbolToken, h]

theorem binLoop_advances (tokens : List Token) (minPrec : Nat)
    (parseRhs : AssemblerContext → Nat → Nat → AssemblerContext × Nat × Int)
    (hrhs : ∀ c i p, Advances tokens c i (parseRhs c i p)) :
    ∀ n ctx idx lhs, Advances tokens ctx idx (binLoop parseRhs tokens minPrec n ctx idx lhs) := by
  intro n
  induction n with
  | zero => intro ctx idx lhs; exact adv_refl tokens ctx idx lhs
  | succ n ih =>
    intro ctx idx lhs
    unfold binLoop
    cases hg : tokens.get? idx with
    | none => exact adv_refl tokens ctx idx lhs
    | some t =>
      simp only
      by_cases hop : t.type ≠ .Plus ∧ t.type ≠ .Minus ∧ t.type ≠ .Star ∧ t.type ≠ .Slash
      · rw [if_pos hop]; exact adv_refl tokens ctx idx lhs
      · rw [if_neg hop]
        have hni : t.type ≠ .Identifier := by
          intro hi; apply hop; rw [hi]; decide
        have hstep : Advances tokens ctx idx (ctx, idx + 1, 0) :=
          adv_skip tokens ctx idx 0 t hg (not_symbol_of_type t hni)
        split_ifs
        all_goals
          first
          | exact adv_refl tokens ctx idx lhs
          | exact adv_trans tokens ctx _ idx _ 0 _
              (adv_trans tokens ctx ctx idx (idx + 1) 0 _ hstep (hrhs ctx (idx + 1) _))
              (ih _ _ _)

theorem parseExpression_advances (tokens : List Token) :
    ∀ fuel ctx idx minPrec,
      Advances tokens ctx idx (parseExpression fuel ctx tokens idx minPrec) := by
  intro fuel
  induction fuel with
  | zero => intro ctx idx minPrec; exact adv_refl tokens ctx idx 0
  | succ fuel ih =>
    intro ctx idx minPrec
    unfold parseExpression
    cases hg : tokens.get? idx with
    | none => exact adv_refl tokens ctx idx 0
    | some t =>
      simp only
      have hloop : ∀ c i l, Advances tokens c i
          (binLoop (fun c i p => parseExpression fuel c tokens i p) tokens minPrec fuel c i l) :=
        binLoop_advances tokens minPrec _ (fun c i p => ih c i p) fuel
      by_cases h1 : t.type = .Plus ∨ t.type = .Minus
      · rw [if_pos h1]
        have hni : t.type ≠ .Identifier := by
          rcases h1 with h | h <;> rw [h] <;> decide
        exact adv_trans tokens ctx _ idx _ 0 _
          (adv_trans tokens ctx ctx idx (idx + 1) 0 _
            (adv_skip tokens ctx idx 0 t hg (not_symbol_of_type t hni)) (ih ctx (idx + 1) 100))
          (hloop _ _ _)
      · rw [if_neg h1]
        by_cases h2 : t.type = .LParen
        · rw [if_pos h2]
          have hni : t.type ≠ .Identifier := by rw [h2]; decide
          have hin : Advances tokens ctx idx (parseExpression fuel ctx tokens (idx + 1) 0) :=
            adv_trans tokens ctx ctx idx (idx + 1) 0 _
              (adv_skip tokens ctx idx 0 t hg (not_symbol_of_type t hni)) (ih ctx (idx + 1) 0)
          cases hg1 : tokens.get? (parseExpression fuel ctx tokens (idx + 1) 0).2.1 with
          | none => exact adv_trans tokens ctx _ idx _ 0 _ hin (hloop _ _ _)
          | some t1 =>
            simp only
            by_cases h3 : t1.type = .RParen
            · rw [if_pos h3]
              have hni1 : t1.type ≠ .Identifier := by rw [h3]; decide
              exact adv_trans tokens ctx _ idx _ 0 _
                (adv_trans tokens ctx _ idx _ 0 _ hin
                  (adv_skip tokens _ _ 0 t1 hg1 (not_symbol_of_type t1 hni1)))
                (hloop _ _ _)
            · rw [if_neg h3]
              exact adv_trans tokens ctx _ idx _ 0 _ hin (hloop _ _ _)
        · rw [if_neg h2]
          by_cases h3 : t.type = .Number
          · rw [if_pos h3]
            have hni : t.type ≠ .Identifier := by rw [h3]; decide
            split_ifs <;>
              exact adv_trans tokens ctx _ idx _ 0 _
                (adv_skip tokens ctx idx 0 t hg (not_symbol_of_type t hni)) (hloop _ _ _)
          · rw [if_neg h3]
            by_cases h4 : t.type = .Identifier ∧ (isAlphaC (firstChar t.value) = true
                ∨ firstChar t.value = '.' ∨ firstChar t.value = '_' ∨ firstChar t.value = '?')
            · rw [if_pos h4]
              have hne : t.value ≠ "$" := by
                intro h
                obtain ⟨_, h4'⟩ := h4
                rw [h] at h4'
                revert h4'
                decide
              rw [if_neg hne]
              split <;>
                first
                | exact adv_trans tokens ctx _ idx _ 0 _
                    (adv_flag tokens ctx _ idx (idx + 1) 0 (Nat.le_succ _) rfl) (hloop _ _ _)
                | (split_ifs <;>
                    exact adv_trans tokens ctx _ idx _ 0 _
                      (adv_flag tokens ctx _ idx (idx + 1) 0 (Nat.le_succ _) rfl) (hloop _ _ _))
            · rw [if_neg h4]
              have hns : isSymbolToken t = false := by
                unfold isSymbolToken
                by_cases hi : t.type = .Identifier
                · have hno := fun h => h4 ⟨hi, h⟩
                  simp only [Bool.and_eq_false_iff, Bool.or_eq_false_iff, Bool.and_eq_true,
                    Bool.or_eq_true, decide_eq_true_eq, decide_eq_false_iff_not]
                  left; right
                  refine ⟨⟨⟨?_, fun hc => hno (Or.inr (Or.inl hc))⟩,
                    fun hc => hno (Or.inr (Or.inr (Or.inl hc)))⟩,
                    fun hc => hno (Or.inr (Or.inr (Or.inr hc)))⟩
                  cases hb : isAlphaC (firstChar t.value)
                  · rfl
                  · exact absurd (Or.inl hb) hno
                · simp [hi]
              by_cases h5 : t.type = .String
              · rw [if_pos h5]
                exact adv_trans tokens ctx _ idx _ 0 _
                  (adv_skip tokens ctx idx 0 t hg hns) (hloop _ _ _)
              · rw [if_neg h5]
                split_ifs <;> exact adv_skip tokens ctx idx 0 t hg hns

theorem binv_refl (tokens : List Token) (st : BracketState) : BracketInv tokens st st :=
  ⟨Nat.le_refl _, id, fun j _ h1 h2 _ _ => absurd h2 (by omega)⟩

theorem binv_trans (tokens : List Token) (a b c : BracketState)
    (h1 : BracketInv tokens a b) (h2 : BracketInv tokens b c) : BracketInv tokens a c := by
  obtain ⟨a1, a2, a3⟩ := h1
  obtain ⟨b1, b2, b3⟩ := h2
  refine ⟨Nat.le_trans a1 b1, fun h => b2 (a2 h), fun j t hj1 hj2 hg hs => ?_⟩
  by_cases hlt : j < b.idx
  · exact b2 (a3 j t hj1 hlt hg hs)
  · exact b3 j t (by omega) hj2 hg hs

theorem binv_skip (tokens : List Token) (st st1 : BracketState) (t : Token)
    (hg : tokens.get? st.idx = some t) (hn : isSymbolToken t = false)
    (hi : st1.idx = st.idx + 1) (ho : st1.op.involvesSymbol = st.op.involvesSymbol) :
    BracketInv tokens st st1 := by
  refine ⟨by omega, fun h => by rw [ho]; exact h, fun j t1 h1 h2 hg1 hs => ?_⟩
  have : j = st.idx := by omega
  subst this
  rw [hg] at hg1
  cases hg1
  rw [hn] at hs
  cases hs

theorem bracketLoop_inv (tokens : List Token) :
    ∀ n st, BracketInv tokens st (bracketLoop tokens n st) := by
  intro n
  induction n with
  | zero => intro st; exact binv_refl tokens st
  | succ n ih =>
    intro st
    unfold bracketLoop
    cases hg : tokens.get? st.idx with
    | none => exact binv_refl tokens st
    | some t =>
      simp only
      by_cases h1 : t.type = .RBracket
      · rw [if_pos h1]; exact binv_refl tokens st
      · rw [if_neg h1]
        by_cases h2 : t.type = .Plus
        · rw [if_pos h2]
          have hni : t.type ≠ .Identifier := by rw [h2]; decide
          refine binv_trans tokens st _ _ ?_ (ih _)
          exact binv_skip tokens st _ t hg (not_symbol_of_type t hni) rfl rfl
        · rw [if_neg h2]
          by_cases h3 : t.type = .LabelDef ∧ segPrefixOf (toUpper t.value) ≠ -1
          · rw [if_pos h3]
            have hni : t.type ≠ .Identifier := by rw [h3.1]; decide
            refine binv_trans tokens st _ _ ?_ (ih _)
            exact binv_skip tokens st _ t hg (not_symbol_of_type t hni) rfl rfl
          · rw [if_neg h3]
            cases hr : isRegister t.value with
            | some p =>
              simp only
              have hns : isSymbolToken t = false := by simp [isSymbolToken, hr]
              refine binv_trans tokens st _ _ ?_ (ih _)
              refine binv_skip tokens st _ t hg hns ?_ ?_
              · simp only; split_ifs <;> rfl
              · simp only; split_ifs <;> rfl
            | none =>
              simp only
              refine binv_trans tokens st _ _ ?_ (ih _)
              have hadv := parseExpression_advances tokens (tokens.length + 1)
                { st.ctx with encounteredSymbol := false } st.idx 0
              obtain ⟨a1, _, a3⟩ := hadv
              refine ⟨a1, fun h => ?_, fun j t1 hj1 hj2 hg1 hs => ?_⟩
              · simp only [parseExpr]
                split_ifs
                · rfl
                · exact h
              · have hf := a3 j t1 hj1 hj2 hg1 hs
                simp only [parseExpr, hf, if_true]

theorem parseMemory_fields (ctx : AssemblerContext) (tokens : List Token) (idx : Nat)
    (op : Operand) (so start : Nat) :
    (parseMemory ctx tokens idx op so start).2.2.involvesSymbol
        = (bracketLoop tokens tokens.length (bracketStart ctx idx op so)).op.involvesSymbol
    ∧ (parseMemory ctx tokens idx op so start).2.1
        = bracketEnd tokens (bracketLoop tokens tokens.length (bracketStart ctx idx op so)) :=
  ⟨rfl, rfl⟩

theorem parseSimple_type (ctx : AssemblerContext) (tokens : List Token) (idx : Nat)
    (op : Operand) (t : Token) (start : Nat) :
    (parseSimple ctx tokens idx op t start).2.2.type ≠ .MEMORY := by
  unfold parseSimple
  split
  · simp
  · simp only
    split_ifs <;> simp

theorem bracketEnd_symbol (tokens : List Token) (st : BracketState) (j : Nat) (tj : Token)
    (hj : j < bracketEnd tokens st) (htj : tokens.get? j = some tj)
    (hs : isSymbolToken tj = true) : j < st.idx := by
  unfold bracketEnd at hj
  cases hg : tokens.get? st.idx with
  | none => rw [hg] at hj; exact hj
  | some tr =>
    rw [hg] at hj
    simp only at hj
    by_cases hr : tr.type = .RBracket
    · rw [if_pos hr] at hj
      by_cases he : j = st.idx
      · subst he
        rw [hg] at htj
        cases htj
        rw [not_symbol_of_type tj (by rw [hr]; decide)] at hs
        cases hs
      · omega
    · rw [if_neg hr] at hj; exact hj

/-- A bracketed operand is parsed by `parseMemory` from the position `i2` of its `[`; no
token of the operand before `i2` is a `[`. -/
theorem parseOperand_memory (ctx : AssemblerContext) (tokens : List Token) (idx : Nat)
    (hmem : (parseOperand ctx tokens idx).2.2.type = .MEMORY) :
    ∃ i2 op1 so, (∀ b tb, tokens.get? b = some tb → tb.type = .LBracket → idx ≤ b → i2 ≤ b)
      ∧ parseOperand ctx tokens idx = parseMemory ctx tokens i2 op1 so idx := by
  revert hmem
  unfold parseOperand
  cases h0 : tokens.get? idx with
  | none => intro hmem; simp [Operand.empty] at hmem
  | some t0 =>
    simp only
    have hi1 : ∀ b tb, tokens.get? b = some tb → tb.type = .LBracket → idx ≤ b →
        (if operandPrefix t0 ≠ -1 then idx + 1 else idx) ≤ b := by
      intro b tb hb hbt hib
      by_cases hp : operandPrefix t0 ≠ -1
      · rw [if_pos hp]
        have hl : t0.type = .LabelDef := by
          by_contra hc
          exact hp (by simp [operandPrefix, hc])
        have hne : b ≠ idx := by
          intro he
          rw [he, h0] at hb
          cases hb
          rw [hl] at hbt
          cases hbt
        omega
      · rw [if_neg hp]; exact hib
    generalize (if operandPrefix t0 ≠ -1 then idx + 1 else idx) = i1 at hi1 ⊢
    have hop1t : (if operandPrefix t0 ≠ -1
        then { Operand.empty with segmentPrefix := operandPrefix t0 }
        else Operand.empty).type = .IMMEDIATE := by
      split_ifs <;> rfl
    generalize (if operandPrefix t0 ≠ -1
        then { Operand.empty with segmentPrefix := operandPrefix t0 }
        else Operand.empty) = op1 at hop1t ⊢
    cases h1 : tokens.get? i1 with
    | none => intro hmem; simp [hop1t] at hmem
    | some t =>
      simp only
      have hi2 : ∀ b tb, tokens.get? b = some tb → tb.type = .LBracket → idx ≤ b →
          (if operandSizeOverride t ≠ 0 then i1 + 1 else i1) ≤ b := by
        intro b tb hb hbt hib
        have hb1 := hi1 b tb hb hbt hib
        by_cases hp : operandSizeOverride t ≠ 0
        · rw [if_pos hp]
          have hl : t.type = .Identifier := by
            by_contra hc
            exact hp (by simp [operandSizeOverride, hc])
          have hne : b ≠ i1 := by
            intro he
            rw [he, h1] at hb
            cases hb
            rw [hl] at hbt
            cases hbt
          omega
        · rw [if_neg hp]; exact hb1
      generalize (if operandSizeOverride t ≠ 0 then i1 + 1 else i1) = i2 at hi2 ⊢
      cases h2 : tokens.get? i2 with
      | none => intro hmem; simp [hop1t] at hmem
      | some tb2 =>
        simp only
        by_cases hlb : tb2.type = .LBracket
        · rw [if_pos hlb]
          intro _
          exact ⟨i2, op1, operandSizeOverride t, hi2, rfl⟩
        · rw [if_neg hlb]
          intro hmem
          exact absurd hmem (parseSimple_type ctx tokens i2 op1 t idx)

theorem memRegOf_range (a b c d : Bool) :
    -1 ≤ (memRegOf a b c d).getD (-1) ∧ (memRegOf a b c d).getD (-1) ≤ 7 := by
  cases a <;> cases b <;> cases c <;> cases d <;> decide

theorem parseOperand_involvesSymbol (ctx : AssemblerContext) (tokens : List Token)
    (idx b j : Nat) (tb tj : Token)
    (hmem : (parseOperand ctx tokens idx).2.2.type = .MEMORY)
    (hb : tokens.get? b = some tb) (hbt : tb.type = .LBracket) (hib : idx ≤ b) (hbj : b < j)
    (hj : j < (parseOperand ctx tokens idx).2.1)
    (htj : tokens.get? j = some tj) (hs : isSymbolToken tj = true) :
    (parseOperand ctx tokens idx).2.2.involvesSymbol = true
    ∧ -1 ≤ (parseOperand ctx tokens idx).2.2.memReg
    ∧ (parseOperand ctx tokens idx).2.2.memReg ≤ 7 := by
  obtain ⟨i2, op1, so, hfirst, heq⟩ := parseOperand_memory ctx tokens idx hmem
  rw [heq] at hj ⊢
  obtain ⟨e1, e2⟩ := parseMemory_fields ctx tokens i2 op1 so idx
  rw [e2] at hj
  have hjs := bracketEnd_symbol tokens _ j tj hj htj hs
  have hinv := bracketLoop_inv tokens tokens.length (bracketStart ctx i2 op1 so)
  have hb2 := hfirst b tb hb hbt hib
  refine ⟨?_, ?_, ?_⟩
  · rw [e1]
    exact hinv.2.2 j tj (by simp only [bracketStart]; omega) hjs htj hs
  · exact (memRegOf_range _ _ _ _).1
  · exact (memRegOf_range _ _ _ _).2

theorem modRMBytes_symbol (g : Nat) (mem : Operand) (hs : mem.involvesSymbol = true)
    (hr : 0 ≤ mem.memReg) :
    modRMBytes g mem
      = [(2 <<< 6) ||| (g <<< 3) ||| mem.memReg.toNat, toU16 mem.val % 256, toU16 mem.val / 256] := by
  have hd : mem.memReg ≠ -1 := by omega
  have hm : modOf mem = 2 := by simp [modOf, hs]
  simp [modRMBytes, hd, hm]

/-! ## C6: symbols in memory operands force the 16-bit displacement -/

/-- C6. When the tokens consumed by a bracketed memory operand contain, after its `[`, a symbol
name (an identifier starting with a letter, `.`, `_` or `?` that is not a register name: the
names the expression parser looks up, defined or not), `parseOperand` marks the operand
`involvesSymbol`; if the operand uses a base or index register (R/M code 0..7), `emitModRM` then
advances the address counter by exactly 3 in any context (either pass, any symbol table) and in
pass 2 emits the ModR/M byte with mod=10 followed by the two little-endian displacement bytes,
whatever the displacement value. -/
theorem C6_symbol_forces_disp16 (ctx : AssemblerContext) (tokens : List Token)
    (idx b j : Nat) (tb tj : Token) (c : AssemblerContext) (g : Nat)
    (hmem : (parseOperand ctx tokens idx).2.2.type = .MEMORY)
    (hreg : 0 ≤ (parseOperand ctx tokens idx).2.2.memReg)
    (hb : tokens.get? b = some tb) (hbt : tb.type = .LBracket) (hib : idx ≤ b) (hbj : b < j)
    (hj : j < (parseOperand ctx tokens idx).2.1)
    (htj : tokens.get? j = some tj) (hs : isSymbolToken tj = true) (hg : g < 8) :
    (parseOperand ctx tokens idx).2.2.involvesSymbol = true
    ∧ modOf (parseOperand ctx tokens idx).2.2 = 2
    ∧ (emitModRM c g (parseOperand ctx tokens idx).2.2).currentAddress = c.currentAddress + 3
    ∧ (c.isPass1 = false →
        (emitModRM c g (parseOperand ctx tokens idx).2.2).currentLineBytes
          = c.currentLineBytes ++
            [(2 <<< 6) ||| (g <<< 3) ||| (parseOperand ctx tokens idx).2.2.memReg.toNat,
             toU16 (parseOperand ctx tokens idx).2.2.val % 256,
             toU16 (parseOperand ctx tokens idx).2.2.val / 256]) := by
  obtain ⟨h1, h2, h3⟩ := parseOperand_involvesSymbol ctx tokens idx b j tb tj hmem hb hbt hib hbj
    hj htj hs
  have hbytes := modRMBytes_symbol g _ h1 hreg
  refine ⟨h1, by simp [modOf, h1], ?_, fun hp => ?_⟩
  · rw [emitModRM_address, hbytes]; rfl
  · rw [emitModRM_bytes c g _ hp hg ⟨h2, h3⟩, hbytes]

set_option maxRecDepth 100000 in
/-- C6 at `MOV AX, [BX+LBL]` in pass 1 with `LBL` not yet defined (value 0): the operand is
marked `involvesSymbol` and its ModR/M part is the three bytes 87 00 00 (mod=10, r/m=BX). -/
theorem C6_symbol_forces_disp16_witness :
    (parseOperand AssemblerContext.init symbolOperandTokens 3).2.2.involvesSymbol = true
    ∧ (parseOperand AssemblerContext.init symbolOperandTokens 3).2.2.val = 0
    ∧ (emitModRM pass2Ctx 0
        (parseOperand AssemblerContext.init symbolOperandTokens 3).2.2).currentLineBytes
        = [0x87, 0x00, 0x00] := by
  have h := C6_symbol_forces_disp16 AssemblerContext.init symbolOperandTokens 3 3 6
    ⟨.LBracket, "[", 1⟩ ⟨.Identifier, "LBL", 1⟩ pass2Ctx 0
    (by decide) (by decide) (by decide) rfl (by decide) (by decide) (by decide) (by decide)
    (by decide) (by decide)
  refine ⟨h.1, by decide, ?_⟩
  rw [h.2.2.2 rfl]
  decide

/-! ## C1: assembled instructions decode to what was assembled -/

theorem decodePrefixes_run (pfx : List Nat) (op : Nat) (rest : List Nat)
    (hop : op ∉ prefixList) :
    ∀ (pre : List Nat) (inst : DecodedInst) (fuel : Nat), (∀ b ∈ pfx, b ∈ prefixList) →
      pfx.length < fuel →
      ∃ inst1, decodePrefixes (pre ++ (pfx ++ op :: rest)) fuel inst pre.length
          = (inst1, pre.length + pfx.length)
        ∧ inst1.prefixBytes = inst.prefixBytes + pfx.length
        ∧ inst1.op1 = inst.op1 ∧ inst1.op2 = inst.op2 := by
  induction pfx with
  | nil =>
    intro pre inst fuel _ hf
    obtain ⟨n, rfl⟩ : ∃ n, fuel = n + 1 := ⟨fuel - 1, by simp at hf; omega⟩
    refine ⟨inst, ?_, by simp, rfl, rfl⟩
    have hb : readByte (pre ++ op :: rest) pre.length = op := readByte_at_length pre op rest
    have hh : hasBytesAt (pre ++ op :: rest) pre.length 1 = true := by
      rw [hasBytesAt_at_length]; simp
    simp only [prefixList, List.mem_cons, List.mem_singleton, not_or, List.not_mem_nil,
      or_false] at hop
    obtain ⟨h1, h2, h3, h4, h5, h6⟩ := hop
    simp [decodePrefixes, hh, hb, h1, h2, h3, h4, h5, h6]
  | cons b pfx ih =>
    intro pre inst fuel hall hf
    obtain ⟨n, rfl⟩ : ∃ n, fuel = n + 1 := ⟨fuel - 1, by simp at hf; omega⟩
    have hbp : b ∈ prefixList := hall b (List.mem_cons_self _ _)
    have hall' : ∀ x ∈ pfx, x ∈ prefixList := fun x hx => hall x (List.mem_cons_of_mem _ hx)
    have hb : readByte (pre ++ (b :: pfx ++ op :: rest)) pre.length = b :=
      readByte_at_length pre b _
    have hh : hasBytesAt (pre ++ (b :: pfx ++ op :: rest)) pre.length 1 = true := by
      rw [hasBytesAt_at_length]; simp
    have hcode : pre ++ (b :: pfx ++ op :: rest) = (pre ++ [b]) ++ (pfx ++ op :: rest) := by simp
    have hlen : (pre ++ [b]).length = pre.length + 1 := by simp
    have step : ∀ i : DecodedInst, i.prefixBytes = inst.prefixBytes + 1 → i.op1 = inst.op1 →
        i.op2 = inst.op2 → ∃ inst1,
        decodePrefixes (pre ++ (b :: pfx ++ op :: rest)) n i (pre.length + 1)
          = (inst1, pre.length + (b :: pfx).length)
        ∧ inst1.prefixBytes = inst.prefixBytes + (b :: pfx).length
        ∧ inst1.op1 = inst.op1 ∧ inst1.op2 = inst.op2 := by
      intro i hi1 hi2 hi3
      obtain ⟨i1, e1, e2, e3, e4⟩ := ih (pre ++ [b]) i n hall' (by simp at hf; omega)
      rw [hlen, ← hcode] at e1
      refine ⟨i1, by rw [e1]; simp [Nat.add_assoc, Nat.add_comm 1], ?_, e3.trans hi2,
        e4.trans hi3⟩
      rw [e2, hi1]; simp; omega
    unfold decodePrefixes
    simp only [hh, hb, if_true]
    simp only [prefixList, List.mem_cons, List.mem_singleton, List.not_mem_nil, or_false] at hbp
    rcases hbp with rfl | rfl | rfl | rfl | rfl | rfl
    all_goals
      simp only [Nat.reduceEqDiff, if_true, if_false]
      exact step _ rfl rfl rfl

theorem decodeInstruction_of_DecodesTo (pfx body : List Nat) (name : String)
    (k1 k2 : OperandClass) (hpfx : ∀ b ∈ pfx, b ∈ prefixList) (h : DecodesTo body name k1 k2) :
    (decodeInstruction (pfx ++ body) 0).valid = true
    ∧ (decodeInstruction (pfx ++ body) 0).size = (pfx ++ body).length
    ∧ (decodeInstruction (pfx ++ body) 0).mnemonic = name
    ∧ classOfDecoded (decodeInstruction (pfx ++ body) 0).op1 = k1
    ∧ classOfDecoded (decodeInstruction (pfx ++ body) 0).op2 = k2 := by
  obtain ⟨op, rest, rfl, hop, hd⟩ := h
  obtain ⟨i1, e1, e2, e3, e4⟩ := decodePrefixes_run pfx op rest hop [] DecodedInst.empty
    (pfx ++ op :: rest).length hpfx (by simp)
  simp only [List.nil_append, List.length_nil, Nat.zero_add] at e1
  have hb : readByte (pfx ++ op :: rest) pfx.length = op := readByte_at_length pfx op rest
  have hh : hasBytesAt (pfx ++ op :: rest) pfx.length 1 = true := by
    rw [hasBytesAt_at_length]; simp
  have hlt : ¬ (0 ≥ (pfx ++ op :: rest).length) := by simp
  have key : decodeInstruction (pfx ++ op :: rest) 0
      = decodeOpcode (op :: rest) 0 1 { i1 with opcode := op } := by
    unfold decodeInstruction
    rw [if_neg hlt, e1]
    simp only [hh, hb]
    exact decodeOpcode_append pfx (op :: rest) 0 1 _
  rw [key]
  obtain ⟨d1, d2, d3, d4, d5⟩ := hd 0 { i1 with opcode := op } rfl e3 e4
  refine ⟨d1, ?_, d3, d4, d5⟩
  rw [d2]
  simp [e2, DecodedInst.empty]

theorem rmBytes_mem (g : Nat) (mem : Operand) (hg : g < 8)
    (hr : -1 ≤ mem.memReg ∧ mem.memReg ≤ 7) : RMBytes (modRMBytes g mem) g false := by
  refine ⟨?_, fun rest sz => ?_⟩
  · have hl := modRMBytes_length_pos g mem
    intro h; rw [h] at hl; simp at hl
  · obtain ⟨h1, h2, h3, _, _⟩ := decodeModRM_modRMBytes g mem rest sz hg hr
    exact ⟨h1, h2, h3⟩

theorem rmBytes_reg (g r : Nat) (hg : g < 8) (hr : r < 8) :
    RMBytes [0xC0 ||| (g <<< 3) ||| r] g true := by
  refine ⟨by simp, fun rest sz => ?_⟩
  obtain ⟨_, f2, f3, f4⟩ := modrm_fields 3 g r (by omega) hg hr
  have e : (3 <<< 6 : Nat) = 0xC0 := by decide
  rw [e] at f2 f3 f4
  simp [decodeModRM, hasBytesAt, readByte, f2, f3]

theorem class_modrmToOperand (m : ModRMResult) (sz : Nat) :
    classOfDecoded (modrmToOperand m sz) = rmClass m.isReg sz := by
  unfold modrmToOperand rmClass classOfDecoded
  cases h : m.isReg <;> simp
  split_ifs <;> rfl

theorem class_addSizePrefix (d : DecodedOperand) :
    classOfDecoded (addSizePrefix d) = classOfDecoded d := by
  unfold addSizePrefix classOfDecoded
  split_ifs <;> rfl

theorem class_regFromField (g sz : Nat) :
    classOfDecoded (regFromField g sz) = if sz = 8 then .reg8 else .reg16 := by
  unfold regFromField
  split_ifs <;> rfl

@[simp] theorem class_makeReg8 (r : Nat) : classOfDecoded (makeReg8 r) = .reg8 := rfl

@[simp] theorem class_makeReg16 (r : Nat) : classOfDecoded (makeReg16 r) = .reg16 := rfl

@[simp] theorem class_makeSreg (r : Nat) : classOfDecoded (makeSreg r) = .sreg := rfl

@[simp] theorem class_makeImm8 (v : Nat) : classOfDecoded (makeImm8 v) = .imm := rfl

@[simp] theorem class_makeImm16 (v : Nat) : classOfDecoded (makeImm16 v) = .imm := rfl

@[simp] theorem class_empty : classOfDecoded DecodedOperand.empty = .none := rfl

set_option maxHeartbeats 4000000 in
theorem decodes_rm_reg (op : Nat) (name : String) (sz : Nat) (regFirst : Bool)
    (h : (op, name, sz, regFirst) ∈ rmRegTable) (mb : List Nat) (g : Nat) (isReg : Bool)
    (hrm : RMBytes mb g isReg) :
    DecodesTo (op :: mb) name
      (if regFirst then regClass sz else rmClass isReg sz)
      (if regFirst then rmClass isReg sz else regClass sz) := by
  obtain ⟨hne, hm⟩ := hrm
  have hm1 := hm [] sz
  rw [List.append_nil] at hm1
  have hlen : 0 < mb.length := List.length_pos.mpr hne
  refine ⟨op, mb, rfl, ?_, fun offset inst hop h1 h2 => ?_⟩
  · unfold rmRegTable at h
    fin_cases h <;> decide
  · generalize hmg : decodeModRM mb 0 sz = m at hm1
    obtain ⟨e1, e2, e3⟩ := hm1
    have hz : ¬ (m.bytesConsumed = 0) := by omega
    unfold rmRegTable at h
    fin_cases h <;>
      simp +decide [decodeOpcode, hop, decodeModRM_cons_one, hmg, hne, finish, class_modrmToOperand,
        class_regFromField, e2, e3, regClass, aluNames] <;>
      omega

theorem decodes_mov_sreg (mb : List Nat) (g : Nat) (isReg : Bool) (hrm : RMBytes mb g isReg) :
    DecodesTo (0x8C :: mb) "MOV" (rmClass isReg 16) .sreg
    ∧ DecodesTo (0x8E :: mb) "MOV" .sreg (rmClass isReg 16) := by
  obtain ⟨hne, hm⟩ := hrm
  have hm1 := hm [] 16
  rw [List.append_nil] at hm1
  generalize hmg : decodeModRM mb 0 16 = m at hm1
  obtain ⟨e1, e2, e3⟩ := hm1
  constructor
  · refine ⟨0x8C, mb, rfl, by decide, fun offset inst hop h1 h2 => ?_⟩
    simp +decide [decodeOpcode, hop, decodeModRM_cons_one, hmg, hne, finish,
      class_modrmToOperand, e2, e3]
    omega
  · refine ⟨0x8E, mb, rfl, by decide, fun offset inst hop h1 h2 => ?_⟩
    simp +decide [decodeOpcode, hop, decodeModRM_cons_one, hmg, hne, finish,
      class_modrmToOperand, e2, e3]
    omega

theorem decodes_lea (mb : List Nat) (g : Nat) (hrm : RMBytes mb g false) :
    DecodesTo (0x8D :: mb) "LEA" .reg16 .mem := by
  obtain ⟨hne, hm⟩ := hrm
  have hm1 := hm [] 16
  rw [List.append_nil] at hm1
  generalize hmg : decodeModRM mb 0 16 = m at hm1
  obtain ⟨e1, e2, e3⟩ := hm1
  refine ⟨0x8D, mb, rfl, by decide, fun offset inst hop h1 h2 => ?_⟩
  simp +decide [decodeOpcode, hop, decodeModRM_cons_one, hmg, hne, finish,
    class_modrmToOperand, e2, e3, rmClass]
  omega

set_option maxHeartbeats 4000000 in
theorem decodes_group (op ext : Nat) (name : String) (sz : Nat) (k2 : OperandClass)
    (h : (op, ext, name, sz, k2) ∈ groupTable) (mb : List Nat) (isReg : Bool)
    (hrm : RMBytes mb ext isReg) :
    DecodesTo (op :: mb) name (rmClass isReg sz) k2 := by
  obtain ⟨hne, hm⟩ := hrm
  have hm1 := hm [] sz
  rw [List.append_nil] at hm1
  refine ⟨op, mb, rfl, ?_, fun offset inst hop h1 h2 => ?_⟩
  · unfold groupTable at h
    fin_cases h <;> decide
  · generalize hmg : decodeModRM mb 0 sz = m at hm1
    obtain ⟨e1, e2, e3⟩ := hm1
    unfold groupTable at h
    fin_cases h <;>
      simp +decide [decodeOpcode, hop, decodeModRM_cons_one, hmg, hne, finish,
        class_modrmToOperand, class_addSizePrefix, e1, e2, e3, h2] <;>
      first
        | omega
        | (refine ⟨by omega, ?_⟩
           split_ifs <;> simp [class_modrmToOperand, class_addSizePrefix, e3])

set_option maxHeartbeats 4000000 in
theorem decodes_group_imm (op ext : Nat) (name : String) (sz n : Nat)
    (h : (op, ext, name, sz, n) ∈ groupImmTable) (mb : List Nat) (isReg : Bool)
    (hrm : RMBytes mb ext isReg) (ib : List Nat) (hib : ib.length = n) :
    DecodesTo (op :: (mb ++ ib)) name (rmClass isReg sz) .imm := by
  obtain ⟨hne, hm⟩ := hrm
  have hm1 := hm ib sz
  refine ⟨op, mb ++ ib, rfl, ?_, fun offset inst hop h1 h2 => ?_⟩
  · unfold groupImmTable at h
    fin_cases h <;> decide
  · generalize hmg : decodeModRM (mb ++ ib) 0 sz = m at hm1
    obtain ⟨e1, e2, e3⟩ := hm1
    have hhas : hasBytesAt (op :: (mb ++ ib)) (1 + mb.length) n = true := by
      rw [Nat.add_comm, hasBytesAt_cons_succ, hasBytesAt_at_length]; simp [hib]
    unfold groupImmTable at h
    fin_cases h <;>
      simp +decide [decodeOpcode, hop, decodeModRM_cons_one, hmg, hne, finish,
        class_modrmToOperand, class_addSizePrefix, e1, e2, e3, hhas, hib] <;>
      omega

theorem decodes_reg_opcode (base : Nat) (name : String) (k2 : OperandClass)
    (h : (base, name, k2) ∈ regOpcodeTable) (r : Nat) (hr : r < 8) :
    DecodesTo [base + r] name .reg16 k2 := by
  refine ⟨base + r, [], rfl, ?_, fun offset inst hop h1 h2 => ?_⟩
  · unfold regOpcodeTable at h
    fin_cases h <;> interval_cases r <;> decide
  · unfold regOpcodeTable at h
    fin_cases h <;> interval_cases r <;>
      simp +decide [decodeOpcode, hop, finish, h2]

theorem decodes_xchg_acc (r : Nat) (h0 : 0 < r) (hr : r < 8) :
    DecodesTo [0x90 + r] "XCHG" .reg16 .reg16 := by
  refine ⟨0x90 + r, [], rfl, ?_, fun offset inst hop h1 h2 => ?_⟩
  · interval_cases r <;> decide
  · interval_cases r <;> simp +decide [decodeOpcode, hop, finish]

set_option maxHeartbeats 4000000 in
theorem decodes_fixed (op : Nat) (name : String) (k1 k2 : OperandClass)
    (h : (op, name, k1, k2) ∈ fixedTable) : DecodesTo [op] name k1 k2 := by
  refine ⟨op, [], rfl, ?_, fun offset inst hop h1 h2 => ?_⟩
  · unfold fixedTable at h
    fin_cases h <;> decide
  · unfold fixedTable at h
    fin_cases h <;>
      simp +decide [decodeOpcode, hop, finish, h1, h2, simpleNames, List.lookup]

set_option maxHeartbeats 4000000 in
theorem decodes_imm (op n : Nat) (name : String) (k1 k2 : OperandClass)
    (h : (op, n, name, k1, k2) ∈ immTable) (ib : List Nat) (hib : ib.length = n) :
    DecodesTo (op :: ib) name k1 k2 := by
  refine ⟨op, ib, rfl, ?_, fun offset inst hop h1 h2 => ?_⟩
  · unfold immTable at h
    fin_cases h <;> decide
  · have hhas : hasBytesAt (op :: ib) 1 n = true := by
      simp [hasBytesAt, hib]; omega
    unfold immTable at h
    fin_cases h <;>
      simp +decide [decodeOpcode, hop, finish, h1, h2, hhas, hib, jccNames]

theorem emits_refl (c : AssemblerContext) (hp : c.isPass1 = false) : Emits c c [] :=
  ⟨hp, by simp⟩

theorem emits_byte {c c1 : AssemblerContext} {body : List Nat} (h : Emits c c1 body) (b : Nat)
    (hb : b < 256) : Emits c (emitByte c1 b) (body ++ [b]) := by
  refine ⟨by simp [h.1], ?_⟩
  rw [emitByte_bytes c1 b h.1, h.2, Nat.mod_eq_of_lt hb, List.append_assoc]

theorem emits_word {c c1 : AssemblerContext} {body : List Nat} (h : Emits c c1 body) (w : Nat)
    (hw : w < 65536) : Emits c (emitWord c1 w) (body ++ [w % 256, w / 256]) := by
  refine ⟨by simp [h.1], ?_⟩
  rw [emitWord_bytes c1 w h.1 hw, h.2, List.append_assoc]

theorem emits_modrm {c c1 : AssemblerContext} {body : List Nat} (h : Emits c c1 body) (g : Nat)
    (mem : Operand) (hg : g < 8) (hr : -1 ≤ mem.memReg ∧ mem.memReg ≤ 7) :
    Emits c (emitModRM c1 g mem) (body ++ modRMBytes g mem) := by
  refine ⟨by simp [h.1], ?_⟩
  rw [emitModRM_bytes c1 g mem h.1 hg hr, h.2, List.append_assoc]

theorem emits_rr {c c1 : AssemblerContext} {body : List Nat} (h : Emits c c1 body) (g r : Nat)
    (hg : g < 8) (hr : r < 8) :
    Emits c (emitByte c1 (0xC0 ||| (g <<< 3) ||| r)) (body ++ [0xC0 ||| (g <<< 3) ||| r]) := by
  have f := (modrm_fields 3 g r (by omega) hg hr).1
  have e : (3 <<< 6 : Nat) = 0xC0 := by decide
  rw [e] at f
  exact emits_byte h _ f

theorem emits_warning {c c1 : AssemblerContext} {body : List Nat} (h : Emits c c1 body)
    (line : Nat) (m t : String) : Emits c (logWarning c1 line m t) body :=
  ⟨by simp [h.1], by simp [h.2]⟩

theorem emits_truncWarn8 {c c1 : AssemblerContext} {body : List Nat} (h : Emits c c1 body)
    (line : Nat) (v : Int) : Emits c (truncWarn8 c1 line v) body :=
  ⟨by simp [h.1], by simp [h.2]⟩

theorem emits_truncWarn16 {c c1 : AssemblerContext} {body : List Nat} (h : Emits c c1 body)
    (line : Nat) (v : Int) : Emits c (truncWarn16 c1 line v) body :=
  ⟨by simp [h.1], by simp [h.2]⟩

theorem emits_noSizeWarn {c c1 : AssemblerContext} {body : List Nat} (h : Emits c c1 body)
    (line : Nat) (o : Operand) (e : String) : Emits c (noSizeWarn c1 line o e) body :=
  ⟨by simp [h.1], by simp [h.2]⟩

@[simp] theorem logError_globalError (ctx : AssemblerContext) (line : Nat) (m h : String) :
    (logError ctx line m h).globalError = true := rfl

@[simp] theorem emitByte_globalError (ctx : AssemblerContext) (b : Nat) :
    (emitByte ctx b).globalError = ctx.globalError := by
  unfold emitByte; split <;> rfl

@[simp] theorem emitWord_globalError (ctx : AssemblerContext) (w : Nat) :
    (emitWord ctx w).globalError = ctx.globalError := by
  unfold emitWord; split <;> rfl

@[simp] theorem emitModRM_globalError (ctx : AssemblerContext) (g : Nat) (mem : Operand) :
    (emitModRM ctx g mem).globalError = ctx.globalError := by
  unfold emitModRM; simp only; split_ifs <;> simp

theorem validate_forms (ctx : AssemblerContext) (mn : String) (op1 op2 : Operand) (line : Nat)
    (forms : List (String × String)) (hf : formsOf mn = some forms)
    (hv : (validateInstruction ctx mn op1 op2 line).2 = true) : validFor forms op1 op2 = true := by
  unfold formsOf at hf
  unfold validateInstruction at hv
  cases hfind : isaDB.find? (fun entry => entry.mnemonic = mn) with
  | none => rw [hfind] at hf; simp at hf
  | some entry =>
    rw [hfind] at hf hv
    simp only [Option.map_some', Option.some.injEq] at hf
    subst hf
    unfold validFor
    by_cases hany : (entry.validForms.any
        (fun form => ruleMatches op1 form.type1 && ruleMatches op2 form.type2)) = true
    · simpa [List.any_map, Function.comp] using hany
    · simp [hany] at hv

theorem shape_mov (op1 op2 : Operand) (h : validFor movForms op1 op2 = true) :
    op1.present = true ∧ op2.present = true ∧
    ((op1.type = .REGISTER ∧ op2.type = .REGISTER) ∨ (op1.type = .REGISTER ∧ op2.type = .IMMEDIATE)
     ∨ (op1.type = .REGISTER ∧ op2.type = .MEMORY) ∨ (op1.type = .MEMORY ∧ op2.type = .REGISTER)
     ∨ (op1.type = .MEMORY ∧ op2.type = .IMMEDIATE) ∨ (op1.type = .REGISTER ∧ op2.type = .SEGREG)
     ∨ (op1.type = .SEGREG ∧ op2.type = .REGISTER)) := by
  simp [validFor, movForms, ruleMatches] at h
  tauto

theorem class_reg (op : Operand) (hp : op.present = true) (ht : op.type = .REGISTER)
    (hw : op.WellFormed) : classOfOperand op = regClass op.size := by
  obtain ⟨_, hs⟩ := hw.1 ht
  unfold classOfOperand regClass
  rcases hs with hs | hs <;> simp [hp, ht, hs]

theorem class_reg_rm (op : Operand) (hp : op.present = true) (ht : op.type = .REGISTER)
    (hw : op.WellFormed) : classOfOperand op = rmClass true op.size := by
  obtain ⟨_, hs⟩ := hw.1 ht
  unfold classOfOperand rmClass
  rcases hs with hs | hs <;> simp [hp, ht, hs]

theorem class_mem (op : Operand) (hp : op.present = true) (ht : op.type = .MEMORY) (sz : Nat) :
    classOfOperand op = rmClass false sz := by
  simp [classOfOperand, rmClass, hp, ht]

theorem class_imm (op : Operand) (hp : op.present = true) (ht : op.type = .IMMEDIATE) :
    classOfOperand op = .imm := by
  simp [classOfOperand, hp, ht]

theorem class_sreg (op : Operand) (hp : op.present = true) (ht : op.type = .SEGREG) :
    classOfOperand op = .sreg := by
  simp [classOfOperand, hp, ht]

theorem class_absent (op : Operand) (hp : op.present = false) : classOfOperand op = .none := by
  simp [classOfOperand, hp]

theorem enc_mov (ctx : AssemblerContext) (op1 op2 : Operand) (line : Nat)
    (hp : ctx.isPass1 = false) (hv : validFor movForms op1 op2 = true)
    (hw1 : op1.WellFormed) (hw2 : op2.WellFormed)
    (hx1 : ¬ (op1.type = .REGISTER ∧ op2.type = .SEGREG ∧ op1.size = 8))
    (hx2 : ¬ (op1.type = .SEGREG ∧ op2.type = .REGISTER ∧ op2.size = 8))
    (herr : (encMOV ctx op1 op2 line).1.globalError = false) :
    ∃ body, Emits ctx (encMOV ctx op1 op2 line).1 body
      ∧ DecodesTo body "MOV" (classOfOperand op1) (classOfOperand op2) := by
  obtain ⟨p1, p2, hs⟩ := shape_mov op1 op2 hv
  have h0 := emits_refl ctx hp
  rcases hs with ⟨t1, t2⟩ | ⟨t1, t2⟩ | ⟨t1, t2⟩ | ⟨t1, t2⟩ | ⟨t1, t2⟩ | ⟨t1, t2⟩ | ⟨t1, t2⟩
  · -- reg, reg
    obtain ⟨r1, s1⟩ := hw1.1 t1
    obtain ⟨r2, s2⟩ := hw2.1 t2
    rw [class_reg_rm op1 p1 t1 hw1, class_reg op2 p2 t2 hw2]
    by_cases hsz : op1.size = op2.size
    · rcases s1 with s1 | s1
      · have e : encMOV ctx op1 op2 line
            = (emitByte (emitByte ctx 0x88) (0xC0 ||| (op2.reg <<< 3) ||| op1.reg), false) := by
          simp [encMOV, t1, t2, ← hsz, s1]
        rw [e, ← hsz, s1]
        exact ⟨_, emits_rr (emits_byte h0 _ (by decide)) _ _ r2 r1,
          decodes_rm_reg 0x88 "MOV" 8 false (by decide) _ _ _ (rmBytes_reg _ _ r2 r1)⟩
      · have e : encMOV ctx op1 op2 line
            = (emitByte (emitByte ctx 0x89) (0xC0 ||| (op2.reg <<< 3) ||| op1.reg), false) := by
          simp [encMOV, t1, t2, ← hsz, s1]
        rw [e, ← hsz, s1]
        exact ⟨_, emits_rr (emits_byte h0 _ (by decide)) _ _ r2 r1,
          decodes_rm_reg 0x89 "MOV" 16 false (by decide) _ _ _ (rmBytes_reg _ _ r2 r1)⟩
    · simp [encMOV, t1, t2, hsz] at herr
  · -- reg, imm
    obtain ⟨r1, s1⟩ := hw1.1 t1
    rw [class_reg op1 p1 t1 hw1, class_imm op2 p2 t2]
    rcases s1 with s1 | s1
    · have e : encMOV ctx op1 op2 line
          = (emitByte (emitByte (truncWarn8 ctx line op2.val) (0xB0 + op1.reg)) (toU8 op2.val),
              false) := by
        simp [encMOV, t1, t2, s1]
      rw [e, s1]
      refine ⟨_, emits_byte (emits_byte (emits_truncWarn8 h0 _ _) _ (by omega)) _ (toU8_lt _), ?_⟩
      refine decodes_imm (0xB0 + op1.reg) 1 "MOV" .reg8 .imm ?_ [toU8 op2.val] rfl
      generalize op1.reg = r at r1
      interval_cases r <;> decide
    · have e : encMOV ctx op1 op2 line
          = (emitWord (emitByte (truncWarn16 ctx line op2.val) (0xB8 + op1.reg)) (toU16 op2.val),
              false) := by
        simp [encMOV, t1, t2, s1]
      rw [e, s1]
      refine ⟨_, emits_word (emits_byte (emits_truncWarn16 h0 _ _) _ (by omega)) _ (toU16_lt _), ?_⟩
      refine decodes_imm (0xB8 + op1.reg) 2 "MOV" .reg16 .imm ?_ _ rfl
      generalize op1.reg = r at r1
      interval_cases r <;> decide
  · -- reg, mem
    obtain ⟨r1, s1⟩ := hw1.1 t1
    have m2 := hw2.2.2 t2
    rw [class_reg op1 p1 t1 hw1, class_mem op2 p2 t2 op1.size]
    have e : encMOV ctx op1 op2 line
        = (emitModRM (emitByte ctx (if op1.size = 8 then 0x8A else 0x8B)) op1.reg op2, false) := by
      simp [encMOV, t1, t2]
    rw [e]
    rcases s1 with s1 | s1
    · simp only [s1, if_true]
      exact ⟨_, emits_modrm (emits_byte h0 _ (by decide)) _ _ r1 m2,
        decodes_rm_reg 0x8A "MOV" 8 true (by decide) _ _ _ (rmBytes_mem _ _ r1 m2)⟩
    · simp only [s1]
      exact ⟨_, emits_modrm (emits_byte h0 _ (by decide)) _ _ r1 m2,
        decodes_rm_reg 0x8B "MOV" 16 true (by decide) _ _ _ (rmBytes_mem _ _ r1 m2)⟩
  · -- mem, reg
    obtain ⟨r2, s2⟩ := hw2.1 t2
    have m1 := hw1.2.2 t1
    rw [class_reg op2 p2 t2 hw2, class_mem op1 p1 t1 op2.size]
    have e : encMOV ctx op1 op2 line
        = (emitModRM (emitByte ctx (if op2.size = 8 then 0x88 else 0x89)) op2.reg op1, false) := by
      simp [encMOV, t1, t2]
    rw [e]
    rcases s2 with s2 | s2
    · simp only [s2, if_true]
      exact ⟨_, emits_modrm (emits_byte h0 _ (by decide)) _ _ r2 m1,
        decodes_rm_reg 0x88 "MOV" 8 false (by decide) _ _ _ (rmBytes_mem _ _ r2 m1)⟩
    · simp only [s2]
      exact ⟨_, emits_modrm (emits_byte h0 _ (by decide)) _ _ r2 m1,
        decodes_rm_reg 0x89 "MOV" 16 false (by decide) _ _ _ (rmBytes_mem _ _ r2 m1)⟩
  · -- mem, imm
    have m1 := hw1.2.2 t1
    rw [class_imm op2 p2 t2]
    by_cases s1 : op1.size = 8
    · have e : encMOV ctx op1 op2 line
          = (emitByte (emitModRM (emitByte (noSizeWarn ctx line op1 "MOV") 0xC6) 0 op1)
              (toU8 op2.val), false) := by
        simp [encMOV, t1, t2, s1]
      rw [e, class_mem op1 p1 t1 8]
      exact ⟨_, emits_byte (emits_modrm (emits_byte (emits_noSizeWarn h0 _ _ _) _ (by decide))
          _ _ (by decide) m1) _ (toU8_lt _),
        decodes_group_imm 0xC6 0 "MOV" 8 1 (by decide) _ _ (rmBytes_mem _ _ (by decide) m1) _ rfl⟩
    · have e : encMOV ctx op1 op2 line
          = (emitWord (emitModRM (emitByte (noSizeWarn ctx line op1 "MOV") 0xC7) 0 op1)
              (toU16 op2.val), false) := by
        simp [encMOV, t1, t2, s1]
      rw [e, class_mem op1 p1 t1 16]
      exact ⟨_, emits_word (emits_modrm (emits_byte (emits_noSizeWarn h0 _ _ _) _ (by decide))
          _ _ (by decide) m1) _ (toU16_lt _),
        decodes_group_imm 0xC7 0 "MOV" 16 2 (by decide) _ _ (rmBytes_mem _ _ (by decide) m1) _ rfl⟩
  · -- reg, sreg
    obtain ⟨r1, s1⟩ := hw1.1 t1
    have r2 := hw2.2.1 t2
    have s16 : op1.size = 16 := by
      rcases s1 with s1 | s1
      · exact absurd ⟨t1, t2, s1⟩ hx1
      · exact s1
    rw [class_reg_rm op1 p1 t1 hw1, class_sreg op2 p2 t2, s16]
    have e : encMOV ctx op1 op2 line
        = (emitByte (emitByte ctx 0x8C) (0xC0 ||| (op2.reg <<< 3) ||| op1.reg), false) := by
      simp [encMOV, t1, t2]
    rw [e]
    exact ⟨_, emits_rr (emits_byte h0 _ (by decide)) _ _ (by omega) r1,
      (decodes_mov_sreg _ _ _ (rmBytes_reg _ _ (by omega) r1)).1⟩
  · -- sreg, reg
    obtain ⟨r2, s2⟩ := hw2.1 t2
    have r1 := hw1.2.1 t1
    have s16 : op2.size = 16 := by
      rcases s2 with s2 | s2
      · exact absurd ⟨t1, t2, s2⟩ hx2
      · exact s2
    rw [class_reg_rm op2 p2 t2 hw2, class_sreg op1 p1 t1, s16]
    have e : encMOV ctx op1 op2 line
        = (emitByte (emitByte ctx 0x8E) (0xC0 ||| (op1.reg <<< 3) ||| op2.reg), false) := by
      simp [encMOV, t1, t2]
    rw [e]
    exact ⟨_, emits_rr (emits_byte h0 _ (by decide)) _ _ (by omega) r2,
      (decodes_mov_sreg _ _ _ (rmBytes_reg _ _ (by omega) r2)).2⟩

theorem shape_alu (op1 op2 : Operand) (h : validFor aluForms op1 op2 = true) :
    op1.present = true ∧ op2.present = true ∧
    ((op1.type = .REGISTER ∧ op2.type = .REGISTER) ∨ (op1.type = .REGISTER ∧ op2.type = .IMMEDIATE)
     ∨ (op1.type = .REGISTER ∧ op2.type = .MEMORY) ∨ (op1.type = .MEMORY ∧ op2.type = .REGISTER)
     ∨ (op1.type = .MEMORY ∧ op2.type = .IMMEDIATE)) := by
  simp [validFor, aluForms, ruleMatches] at h
  tauto

theorem enc_alu (ctx : AssemblerContext) (mn : String) (op1 op2 : Operand) (line : Nat)
    (hmn : mn ∈ aluList)
    (hp : ctx.isPass1 = false) (hv : validFor aluForms op1 op2 = true)
    (hw1 : op1.WellFormed) (hw2 : op2.WellFormed)
    (hx : ¬ (op1.type = .REGISTER ∧ op2.type = .REGISTER ∧ op1.size ≠ op2.size)) :
    ∃ body, Emits ctx (encALU ctx mn op1 op2 line).1 body
      ∧ DecodesTo body mn (classOfOperand op1) (classOfOperand op2) := by
  obtain ⟨p1, p2, hs⟩ := shape_alu op1 op2 hv
  have h0 := emits_refl ctx hp
  have hnt : mn ≠ "TEST" := by
    unfold aluList at hmn
    fin_cases hmn <;> decide
  have hb : aluBase mn + 1 < 256 ∧ aluBaseRegMem mn + 1 < 256 ∧ aluExt mn < 8 := by
    unfold aluList at hmn
    fin_cases hmn <;> decide
  rcases hs with ⟨t1, t2⟩ | ⟨t1, t2⟩ | ⟨t1, t2⟩ | ⟨t1, t2⟩ | ⟨t1, t2⟩
  · -- reg, reg
    obtain ⟨r1, s1⟩ := hw1.1 t1
    obtain ⟨r2, s2⟩ := hw2.1 t2
    have hsz : op2.size = op1.size := by
      by_contra hne
      exact hx ⟨t1, t2, fun h => hne h.symm⟩
    rw [class_reg_rm op1 p1 t1 hw1, class_reg op2 p2 t2 hw2, hsz]
    rcases s1 with s1 | s1
    · have e : encALU ctx mn op1 op2 line
          = (emitByte (emitByte ctx (aluBase mn)) (0xC0 ||| (op2.reg <<< 3) ||| op1.reg),
              false) := by
        simp [encALU, t1, t2, s1]
      rw [e, s1]
      refine ⟨_, emits_rr (emits_byte h0 _ (by omega)) _ _ r2 r1,
        decodes_rm_reg (aluBase mn) mn 8 false ?_ _ _ _ (rmBytes_reg _ _ r2 r1)⟩
      unfold aluList at hmn
      fin_cases hmn <;> decide
    · have e : encALU ctx mn op1 op2 line
          = (emitByte (emitByte ctx (aluBase mn + 1)) (0xC0 ||| (op2.reg <<< 3) ||| op1.reg),
              false) := by
        simp [encALU, t1, t2, s1]
      rw [e, s1]
      refine ⟨_, emits_rr (emits_byte h0 _ (by omega)) _ _ r2 r1,
        decodes_rm_reg (aluBase mn + 1) mn 16 false ?_ _ _ _ (rmBytes_reg _ _ r2 r1)⟩
      unfold aluList at hmn
      fin_cases hmn <;> decide
  · -- reg, imm
    obtain ⟨r1, s1⟩ := hw1.1 t1
    rw [class_reg_rm op1 p1 t1 hw1, class_imm op2 p2 t2]
    rcases s1 with s1 | s1
    · have e : encALU ctx mn op1 op2 line
          = (emitByte (emitByte (emitByte (truncWarn8 ctx line op2.val) 0x80)
              (0xC0 ||| (aluExt mn <<< 3) ||| op1.reg)) (toU8 op2.val), false) := by
        simp [encALU, t1, t2, s1, hnt]
      rw [e, s1]
      refine ⟨_, emits_byte (emits_rr (emits_byte (emits_truncWarn8 h0 _ _) _ (by decide)) _ _
          hb.2.2 r1) _ (toU8_lt _),
        decodes_group_imm 0x80 (aluExt mn) mn 8 1 ?_ _ _ (rmBytes_reg _ _ hb.2.2 r1) _ rfl⟩
      unfold aluList at hmn
      fin_cases hmn <;> decide
    · have e : encALU ctx mn op1 op2 line
          = (emitWord (emitByte (emitByte (truncWarn16 ctx line op2.val) 0x81)
              (0xC0 ||| (aluExt mn <<< 3) ||| op1.reg)) (toU16 op2.val), false) := by
        simp [encALU, t1, t2, s1, hnt]
      rw [e, s1]
      refine ⟨_, emits_word (emits_rr (emits_byte (emits_truncWarn16 h0 _ _) _ (by decide)) _ _
          hb.2.2 r1) _ (toU16_lt _),
        decodes_group_imm 0x81 (aluExt mn) mn 16 2 ?_ _ _ (rmBytes_reg _ _ hb.2.2 r1) _ rfl⟩
      unfold aluList at hmn
      fin_cases hmn <;> decide
  · -- reg, mem
    obtain ⟨r1, s1⟩ := hw1.1 t1
    have m2 := hw2.2.2 t2
    rw [class_reg op1 p1 t1 hw1, class_mem op2 p2 t2 op1.size]
    rcases s1 with s1 | s1
    · have e : encALU ctx mn op1 op2 line
          = (emitModRM (emitByte ctx (aluBaseRegMem mn)) op1.reg op2, false) := by
        simp [encALU, t1, t2, s1]
      rw [e, s1]
      refine ⟨_, emits_modrm (emits_byte h0 _ (by omega)) _ _ r1 m2,
        decodes_rm_reg (aluBaseRegMem mn) mn 8 true ?_ _ _ _ (rmBytes_mem _ _ r1 m2)⟩
      unfold aluList at hmn
      fin_cases hmn <;> decide
    · have e : encALU ctx mn op1 op2 line
          = (emitModRM (emitByte ctx (aluBaseRegMem mn + 1)) op1.reg op2, false) := by
        simp [encALU, t1, t2, s1]
      rw [e, s1]
      refine ⟨_, emits_modrm (emits_byte h0 _ (by omega)) _ _ r1 m2,
        decodes_rm_reg (aluBaseRegMem mn + 1) mn 16 true ?_ _ _ _ (rmBytes_mem _ _ r1 m2)⟩
      unfold aluList at hmn
      fin_cases hmn <;> decide
  · -- mem, reg
    obtain ⟨r2, s2⟩ := hw2.1 t2
    have m1 := hw1.2.2 t1
    rw [class_reg op2 p2 t2 hw2, class_mem op1 p1 t1 op2.size]
    rcases s2 with s2 | s2
    · have e : encALU ctx mn op1 op2 line
          = (emitModRM (emitByte ctx (aluBase mn)) op2.reg op1, false) := by
        simp [encALU, t1, t2, s2]
      rw [e, s2]
      refine ⟨_, emits_modrm (emits_byte h0 _ (by omega)) _ _ r2 m1,
        decodes_rm_reg (aluBase mn) mn 8 false ?_ _ _ _ (rmBytes_mem _ _ r2 m1)⟩
      unfold aluList at hmn
      fin_cases hmn <;> decide
    · have e : encALU ctx mn op1 op2 line
          = (emitModRM (emitByte ctx (aluBase mn + 1)) op2.reg op1, false) := by
        simp [encALU, t1, t2, s2]
      rw [e, s2]
      refine ⟨_, emits_modrm (emits_byte h0 _ (by omega)) _ _ r2 m1,
        decodes_rm_reg (aluBase mn + 1) mn 16 false ?_ _ _ _ (rmBytes_mem _ _ r2 m1)⟩
      unfold aluList at hmn
      fin_cases hmn <;> decide
  · -- mem, imm
    have m1 := hw1.2.2 t1
    rw [class_imm op2 p2 t2]
    by_cases s1 : op1.size = 8
    · have e : encALU ctx mn op1 op2 line
          = (emitByte (emitModRM (emitByte (noSizeWarn ctx line op1 mn) 0x80) (aluExt mn) op1)
              (toU8 op2.val), false) := by
        simp [encALU, t1, t2, s1, hnt]
      rw [e, class_mem op1 p1 t1 8]
      refine ⟨_, emits_byte (emits_modrm (emits_byte (emits_noSizeWarn h0 _ _ _) _ (by decide))
          _ _ hb.2.2 m1) _ (toU8_lt _),
        decodes_group_imm 0x80 (aluExt mn) mn 8 1 ?_ _ _ (rmBytes_mem _ _ hb.2.2 m1) _ rfl⟩
      unfold aluList at hmn
      fin_cases hmn <;> decide
    · have e : encALU ctx mn op1 op2 line
          = (emitWord (emitModRM (emitByte (noSizeWarn ctx line op1 mn) 0x81) (aluExt mn) op1)
              (toU16 op2.val), false) := by
        by_cases s0 : op1.size = 0 <;> simp [encALU, t1, t2, s1, s0, hnt]
      rw [e, class_mem op1 p1 t1 16]
      refine ⟨_, emits_word (emits_modrm (emits_byte (emits_noSizeWarn h0 _ _ _) _ (by decide))
          _ _ hb.2.2 m1) _ (toU16_lt _),
        decodes_group_imm 0x81 (aluExt mn) mn 16 2 ?_ _ _ (rmBytes_mem _ _ hb.2.2 m1) _ rfl⟩
      unfold aluList at hmn
      fin_cases hmn <;> decide

theorem enc_test (ctx : AssemblerContext) (op1 op2 : Operand) (line : Nat)
    (hp : ctx.isPass1 = false) (hv : validFor aluForms op1 op2 = true)
    (hw1 : op1.WellFormed) (hw2 : op2.WellFormed)
    (hx : ¬ (op1.type = .REGISTER ∧ op2.type = .REGISTER ∧ op1.size ≠ op2.size)) :
    ∃ body, Emits ctx (encALU ctx "TEST" op1 op2 line).1 body
      ∧ DecodesTo body "TEST" (expectedKinds "TEST" op1 op2).1 (expectedKinds "TEST" op1 op2).2 := by
  obtain ⟨p1, p2, hs⟩ := shape_alu op1 op2 hv
  have h0 := emits_refl ctx hp
  rcases hs with ⟨t1, t2⟩ | ⟨t1, t2⟩ | ⟨t1, t2⟩ | ⟨t1, t2⟩ | ⟨t1, t2⟩
  · -- reg, reg
    obtain ⟨r1, s1⟩ := hw1.1 t1
    obtain ⟨r2, s2⟩ := hw2.1 t2
    have hsz : op2.size = op1.size := by
      by_contra hne
      exact hx ⟨t1, t2, fun h => hne h.symm⟩
    have ek : expectedKinds "TEST" op1 op2 = (classOfOperand op1, classOfOperand op2) := by
      simp [expectedKinds, t1, t2]
    rw [ek, class_reg_rm op1 p1 t1 hw1, class_reg op2 p2 t2 hw2, hsz]
    rcases s1 with s1 | s1
    · have e : encALU ctx "TEST" op1 op2 line
          = (emitByte (emitByte ctx 0x84) (0xC0 ||| (op2.reg <<< 3) ||| op1.reg), false) := by
        simp [encALU, t1, t2, s1, aluBase]
      rw [e, s1]
      exact ⟨_, emits_rr (emits_byte h0 _ (by omega)) _ _ r2 r1,
        decodes_rm_reg 0x84 "TEST" 8 false (by decide) _ _ _ (rmBytes_reg _ _ r2 r1)⟩
    · have e : encALU ctx "TEST" op1 op2 line
          = (emitByte (emitByte ctx 0x85) (0xC0 ||| (op2.reg <<< 3) ||| op1.reg), false) := by
        simp [encALU, t1, t2, s1, aluBase]
      rw [e, s1]
      exact ⟨_, emits_rr (emits_byte h0 _ (by omega)) _ _ r2 r1,
        decodes_rm_reg 0x85 "TEST" 16 false (by decide) _ _ _ (rmBytes_reg _ _ r2 r1)⟩
  · -- reg, imm
    obtain ⟨r1, s1⟩ := hw1.1 t1
    have ek : expectedKinds "TEST" op1 op2 = (classOfOperand op1, classOfOperand op2) := by
      simp [expectedKinds, t1, t2]
    rw [ek, class_reg_rm op1 p1 t1 hw1, class_imm op2 p2 t2]
    rcases s1 with s1 | s1
    · have e : encALU ctx "TEST" op1 op2 line
          = (emitByte (emitByte (emitByte ctx 0xF6) (0xC0 ||| (0 <<< 3) ||| op1.reg))
              (toU8 op2.val), true) := by
        simp [encALU, t1, t2, s1]
      rw [e, s1]
      exact ⟨_, emits_byte (emits_rr (emits_byte h0 _ (by decide)) _ _ (by decide) r1) _
          (toU8_lt _),
        decodes_group_imm 0xF6 0 "TEST" 8 1 (by decide) _ _ (rmBytes_reg _ _ (by decide) r1) _ rfl⟩
    · have e : encALU ctx "TEST" op1 op2 line
          = (emitWord (emitByte (emitByte ctx 0xF7) (0xC0 ||| (0 <<< 3) ||| op1.reg))
              (toU16 op2.val), true) := by
        simp [encALU, t1, t2, s1]
      rw [e, s1]
      exact ⟨_, emits_word (emits_rr (emits_byte h0 _ (by decide)) _ _ (by decide) r1) _
          (toU16_lt _),
        decodes_group_imm 0xF7 0 "TEST" 16 2 (by decide) _ _ (rmBytes_reg _ _ (by decide) r1) _ rfl⟩
  · -- reg, mem: decoded as mem, reg
    obtain ⟨r1, s1⟩ := hw1.1 t1
    have m2 := hw2.2.2 t2
    have ek : expectedKinds "TEST" op1 op2 = (classOfOperand op2, classOfOperand op1) := by
      simp [expectedKinds, t1, t2]
    rw [ek, class_reg op1 p1 t1 hw1, class_mem op2 p2 t2 op1.size]
    rcases s1 with s1 | s1
    · have e : encALU ctx "TEST" op1 op2 line
          = (emitModRM (emitByte ctx 0x84) op1.reg op2, false) := by
        simp [encALU, t1, t2, s1, aluBaseRegMem]
      rw [e, s1]
      exact ⟨_, emits_modrm (emits_byte h0 _ (by omega)) _ _ r1 m2,
        decodes_rm_reg 0x84 "TEST" 8 false (by decide) _ _ _ (rmBytes_mem _ _ r1 m2)⟩
    · have e : encALU ctx "TEST" op1 op2 line
          = (emitModRM (emitByte ctx 0x85) op1.reg op2, false) := by
        simp [encALU, t1, t2, s1, aluBaseRegMem]
      rw [e, s1]
      exact ⟨_, emits_modrm (emits_byte h0 _ (by omega)) _ _ r1 m2,
        decodes_rm_reg 0x85 "TEST" 16 false (by decide) _ _ _ (rmBytes_mem _ _ r1 m2)⟩
  · -- mem, reg
    obtain ⟨r2, s2⟩ := hw2.1 t2
    have m1 := hw1.2.2 t1
    have ek : expectedKinds "TEST" op1 op2 = (classOfOperand op1, classOfOperand op2) := by
      simp [expectedKinds, t1, t2]
    rw [ek, class_reg op2 p2 t2 hw2, class_mem op1 p1 t1 op2.size]
    rcases s2 with s2 | s2
    · have e : encALU ctx "TEST" op1 op2 line
          = (emitModRM (emitByte ctx 0x84) op2.reg op1, false) := by
        simp [encALU, t1, t2, s2, aluBase]
      rw [e, s2]
      exact ⟨_, emits_modrm (emits_byte h0 _ (by omega)) _ _ r2 m1,
        decodes_rm_reg 0x84 "TEST" 8 false (by decide) _ _ _ (rmBytes_mem _ _ r2 m1)⟩
    · have e : encALU ctx "TEST" op1 op2 line
          = (emitModRM (emitByte ctx 0x85) op2.reg op1, false) := by
        simp [encALU, t1, t2, s2, aluBase]
      rw [e, s2]
      exact ⟨_, emits_modrm (emits_byte h0 _ (by omega)) _ _ r2 m1,
        decodes_rm_reg 0x85 "TEST" 16 false (by decide) _ _ _ (rmBytes_mem _ _ r2 m1)⟩
  · -- mem, imm
    have m1 := hw1.2.2 t1
    have ek : expectedKinds "TEST" op1 op2 = (classOfOperand op1, classOfOperand op2) := by
      simp [expectedKinds, t1, t2]
    rw [ek, class_imm op2 p2 t2]
    by_cases s1 : op1.size = 8
    · have e : encALU ctx "TEST" op1 op2 line
          = (emitByte (emitModRM (emitByte (noSizeWarn ctx line op1 "TEST") 0xF6) 0 op1)
              (toU8 op2.val), false) := by
        simp [encALU, t1, t2, s1]
      rw [e, class_mem op1 p1 t1 8]
      exact ⟨_, emits_byte (emits_modrm (emits_byte (emits_noSizeWarn h0 _ _ _) _ (by decide))
          _ _ (by decide) m1) _ (toU8_lt _),
        decodes_group_imm 0xF6 0 "TEST" 8 1 (by decide) _ _ (rmBytes_mem _ _ (by decide) m1) _ rfl⟩
    · have e : encALU ctx "TEST" op1 op2 line
          = (emitWord (emitModRM (emitByte (noSizeWarn ctx line op1 "TEST") 0xF7) 0 op1)
              (toU16 op2.val), false) := by
        by_cases s0 : op1.size = 0 <;> simp [encALU, t1, t2, s1, s0]
      rw [e, class_mem op1 p1 t1 16]
      exact ⟨_, emits_word (emits_modrm (emits_byte (emits_noSizeWarn h0 _ _ _) _ (by decide))
          _ _ (by decide) m1) _ (toU16_lt _),
        decodes_group_imm 0xF7 0 "TEST" 16 2 (by decide) _ _ (rmBytes_mem _ _ (by decide) m1) _ rfl⟩

theorem shape_unary (op1 op2 : Operand) (h : validFor unaryForms op1 op2 = true) :
    op1.present = true ∧ op2.present = false ∧ (op1.type = .REGISTER ∨ op1.type = .MEMORY) := by
  simp [validFor, unaryForms, ruleMatches] at h
  tauto

set_option maxHeartbeats 1000000 in
theorem enc_group1 (ctx : AssemblerContext) (mn : String) (b8 ext : Nat) (op1 op2 : Operand)
    (hmn : (mn, b8, ext) ∈ unaryTable)
    (hp : ctx.isPass1 = false) (hv : validFor unaryForms op1 op2 = true)
    (hw1 : op1.WellFormed) (line : Nat) :
    ∃ body, Emits ctx (encodeInstruction ctx mn op1 op2 line).1 body
      ∧ DecodesTo body mn (classOfOperand op1) (classOfOperand op2) := by
  obtain ⟨p1, p2, hs⟩ := shape_unary op1 op2 hv
  have h0 := emits_refl ctx hp
  have hb : b8 + 1 < 256 ∧ ext < 8 := by
    unfold unaryTable at hmn
    fin_cases hmn <;> decide
  rw [class_absent op2 p2]
  rcases hs with t1 | t1
  · obtain ⟨r1, s1⟩ := hw1.1 t1
    rw [class_reg_rm op1 p1 t1 hw1]
    rcases s1 with s1 | s1
    · have e : encodeInstruction ctx mn op1 op2 line
          = (emitByte (emitByte ctx b8) (0xC0 ||| (ext <<< 3) ||| op1.reg), false) := by
        unfold unaryTable at hmn
        fin_cases hmn <;> simp [encodeInstruction, isALU, encUnary, encMulDiv, t1, s1]
      rw [e, s1]
      refine ⟨_, emits_rr (emits_byte h0 _ (by omega)) _ _ hb.2 r1,
        decodes_group b8 ext mn 8 .none ?_ _ _ (rmBytes_reg _ _ hb.2 r1)⟩
      unfold unaryTable at hmn
      fin_cases hmn <;> decide
    · by_cases hinc : mn = "INC" ∨ mn = "DEC"
      · have e : encodeInstruction ctx mn op1 op2 line
            = (emitByte ctx ((if mn = "INC" then 0x40 else 0x48) + op1.reg), true) := by
          rcases hinc with hinc | hinc <;> simp [encodeInstruction, isALU, encUnary, t1, s1, hinc]
        rw [e, s1]
        refine ⟨_, emits_byte h0 _ (by split_ifs <;> omega), ?_⟩
        refine decodes_reg_opcode _ mn .none ?_ _ r1
        rcases hinc with hinc | hinc <;> simp [hinc, regOpcodeTable]
      · have e : encodeInstruction ctx mn op1 op2 line
            = (emitByte (emitByte ctx (b8 + 1)) (0xC0 ||| (ext <<< 3) ||| op1.reg), false) := by
          unfold unaryTable at hmn
          fin_cases hmn <;> simp [encodeInstruction, isALU, encUnary, encMulDiv, t1, s1] <;> simp at hinc
        rw [e, s1]
        refine ⟨_, emits_rr (emits_byte h0 _ (by omega)) _ _ hb.2 r1,
          decodes_group (b8 + 1) ext mn 16 .none ?_ _ _ (rmBytes_reg _ _ hb.2 r1)⟩
        unfold unaryTable at hmn
        fin_cases hmn <;> decide
  · have m1 := hw1.2.2 t1
    by_cases s1 : op1.size = 8
    · have e : encodeInstruction ctx mn op1 op2 line = (emitModRM (emitByte ctx b8) ext op1, false) := by
        unfold unaryTable at hmn
        fin_cases hmn <;> simp [encodeInstruction, isALU, encUnary, encMulDiv, t1, s1]
      rw [e, class_mem op1 p1 t1 8]
      refine ⟨_, emits_modrm (emits_byte h0 _ (by omega)) _ _ hb.2 m1,
        decodes_group b8 ext mn 8 .none ?_ _ _ (rmBytes_mem _ _ hb.2 m1)⟩
      unfold unaryTable at hmn
      fin_cases hmn <;> decide
    · have e : encodeInstruction ctx mn op1 op2 line = (emitModRM (emitByte ctx (b8 + 1)) ext op1, false) := by
        unfold unaryTable at hmn
        fin_cases hmn <;> simp [encodeInstruction, isALU, encUnary, encMulDiv, t1, s1]
      rw [e, class_mem op1 p1 t1 16]
      refine ⟨_, emits_modrm (emits_byte h0 _ (by omega)) _ _ hb.2 m1,
        decodes_group (b8 + 1) ext mn 16 .none ?_ _ _ (rmBytes_mem _ _ hb.2 m1)⟩
      unfold unaryTable at hmn
      fin_cases hmn <;> decide

theorem shape_shift (op1 op2 : Operand) (h : validFor shiftForms op1 op2 = true) :
    op1.present = true ∧ op2.present = true ∧ (op1.type = .REGISTER ∨ op1.type = .MEMORY)
    ∧ (op2.type = .IMMEDIATE ∨ (op2.type = .REGISTER ∧ op2.reg = 1 ∧ op2.size = 8)) := by
  simp [validFor, shiftForms, ruleMatches] at h
  tauto

theorem emits_ite_warning {c c1 : AssemblerContext} {body : List Nat} (h : Emits c c1 body)
    (P : Prop) [Decidable P] (line : Nat) (m t : String) :
    Emits c (if P then logWarning c1 line m t else c1) body := by
  split_ifs
  · exact emits_warning h _ _ _
  · exact h

theorem enc_shift (ctx : AssemblerContext) (mn : String) (ext : Nat) (cn : String)
    (op1 op2 : Operand) (line : Nat)
    (hmn : (mn, ext, cn) ∈ shiftTable)
    (hp : ctx.isPass1 = false) (hv : validFor shiftForms op1 op2 = true)
    (hw1 : op1.WellFormed)
    (hx : ¬ ((mn = "RCL" ∨ mn = "RCR" ∨ mn = "SAR") ∧ op2.type = .IMMEDIATE ∧ op2.val ≠ 1)) :
    ∃ body, Emits ctx (encodeInstruction ctx mn op1 op2 line).1 body
      ∧ DecodesTo body cn (classOfOperand op1) (classOfOperand op2) := by
  obtain ⟨p1, p2, hs1, hs2⟩ := shape_shift op1 op2 hv
  have h0 := emits_refl ctx hp
  have hb : ext < 8 := by
    unfold shiftTable at hmn
    fin_cases hmn <;> decide
  have e0 : encodeInstruction ctx mn op1 op2 line = encShift ctx mn op1 op2 line := by
    unfold shiftTable at hmn
    fin_cases hmn <;> simp [encodeInstruction, isALU, isShift]
  have ee : shiftExt mn = ext := by
    unfold shiftTable at hmn
    fin_cases hmn <;> simp [shiftExt]
  rw [e0]
  have hg : ∀ (op sz : Nat) (k2 : OperandClass),
      (op, sz, k2) ∈ [(0xD0, 8, OperandClass.imm), (0xD1, 16, .imm), (0xD2, 8, .reg8),
        (0xD3, 16, .reg8)] → (op, ext, cn, sz, k2) ∈ groupTable := by
    intro op sz k2 h
    unfold shiftTable at hmn
    fin_cases hmn <;> fin_cases h <;> decide
  have hgi : op2.type = .IMMEDIATE → op2.val ≠ 1 → ∀ (op sz : Nat),
      (op, sz) ∈ [(0xC0, 8), (0xC1, 16)] → (op, ext, cn, sz, 1) ∈ groupImmTable := by
    intro t2 hone op sz h
    unfold shiftTable at hmn
    fin_cases hmn <;> fin_cases h <;> first | decide | (exact absurd ⟨by simp, t2, hone⟩ hx)
  rcases hs1 with t1 | t1
  · obtain ⟨r1, s1⟩ := hw1.1 t1
    rw [class_reg_rm op1 p1 t1 hw1]
    have hrm := rmBytes_reg ext op1.reg hb r1
    rcases hs2 with t2 | ⟨t2, c1, c2⟩
    · rw [class_imm op2 p2 t2]
      by_cases hone : op2.val = 1
      · rcases s1 with s1 | s1
        · simp [encShift, t1, t2, hone, s1, ee]
          exact ⟨_, emits_rr (emits_byte h0 _ (by decide)) _ _ hb r1,
            decodes_group 0xD0 ext cn 8 .imm (hg _ _ _ (by decide)) _ _ hrm⟩
        · simp [encShift, t1, t2, hone, s1, ee]
          exact ⟨_, emits_rr (emits_byte h0 _ (by decide)) _ _ hb r1,
            decodes_group 0xD1 ext cn 16 .imm (hg _ _ _ (by decide)) _ _ hrm⟩
      · rcases s1 with s1 | s1
        · simp [encShift, t1, t2, hone, s1, ee, hp]
          exact ⟨_, emits_byte (emits_rr (emits_byte (emits_warning h0 _ _ _) _ (by decide)) _ _
              hb r1) _ (toU8_lt _),
            decodes_group_imm 0xC0 ext cn 8 1 (hgi t2 hone _ _ (by decide)) _ _ hrm _ rfl⟩
        · simp [encShift, t1, t2, hone, s1, ee, hp]
          exact ⟨_, emits_byte (emits_rr (emits_byte (emits_warning h0 _ _ _) _ (by decide)) _ _
              hb r1) _ (toU8_lt _),
            decodes_group_imm 0xC1 ext cn 16 1 (hgi t2 hone _ _ (by decide)) _ _ hrm _ rfl⟩
    · have k2 : classOfOperand op2 = .reg8 := by simp [classOfOperand, p2, t2, c2]
      rw [k2]
      rcases s1 with s1 | s1
      · simp [encShift, t1, t2, c1, c2, s1, ee]
        exact ⟨_, emits_rr (emits_byte h0 _ (by decide)) _ _ hb r1,
          decodes_group 0xD2 ext cn 8 .reg8 (hg _ _ _ (by decide)) _ _ hrm⟩
      · simp [encShift, t1, t2, c1, c2, s1, ee]
        exact ⟨_, emits_rr (emits_byte h0 _ (by decide)) _ _ hb r1,
          decodes_group 0xD3 ext cn 16 .reg8 (hg _ _ _ (by decide)) _ _ hrm⟩
  · have m1 := hw1.2.2 t1
    have hrm := rmBytes_mem ext op1 hb m1
    rcases hs2 with t2 | ⟨t2, c1, c2⟩
    · rw [class_imm op2 p2 t2]
      by_cases hone : op2.val = 1
      · by_cases s1 : op1.size = 8
        · simp [encShift, t1, t2, hone, s1, ee, hp]
          rw [class_mem op1 p1 t1 8]
          exact ⟨_, emits_modrm (emits_byte (emits_ite_warning h0 _ _ _ _) _ (by decide)) _ _ hb m1,
            decodes_group 0xD0 ext cn 8 .imm (hg _ _ _ (by decide)) _ _ hrm⟩
        · have e16 : (if op1.size = 0 then 16 else op1.size) ≠ 8 := by
            split_ifs <;> omega
          simp [encShift, t1, t2, hone, e16, ee, hp]
          rw [class_mem op1 p1 t1 16]
          exact ⟨_, emits_modrm (emits_byte (emits_ite_warning h0 _ _ _ _) _ (by decide)) _ _ hb m1,
            decodes_group 0xD1 ext cn 16 .imm (hg _ _ _ (by decide)) _ _ hrm⟩
      · by_cases s1 : op1.size = 8
        · simp [encShift, t1, t2, hone, s1, ee, hp]
          rw [class_mem op1 p1 t1 8]
          exact ⟨_, emits_byte (emits_modrm (emits_byte
              (emits_ite_warning (emits_ite_warning h0 _ _ _ _) _ _ _ _) _ (by decide)) _ _ hb m1)
              _ (toU8_lt _),
            decodes_group_imm 0xC0 ext cn 8 1 (hgi t2 hone _ _ (by decide)) _ _ hrm _ rfl⟩
        · have e16 : (if op1.size = 0 then 16 else op1.size) ≠ 8 := by
            split_ifs <;> omega
          simp [encShift, t1, t2, hone, e16, ee, hp]
          rw [class_mem op1 p1 t1 16]
          exact ⟨_, emits_byte (emits_modrm (emits_byte
              (emits_ite_warning (emits_ite_warning h0 _ _ _ _) _ _ _ _) _ (by decide)) _ _ hb m1)
              _ (toU8_lt _),
            decodes_group_imm 0xC1 ext cn 16 1 (hgi t2 hone _ _ (by decide)) _ _ hrm _ rfl⟩
    · have k2 : classOfOperand op2 = .reg8 := by simp [classOfOperand, p2, t2, c2]
      rw [k2]
      by_cases s1 : op1.size = 8
      · simp [encShift, t1, t2, c1, c2, s1, ee, hp]
        rw [class_mem op1 p1 t1 8]
        exact ⟨_, emits_modrm (emits_byte (emits_ite_warning h0 _ _ _ _) _ (by decide)) _ _ hb m1,
          decodes_group 0xD2 ext cn 8 .reg8 (hg _ _ _ (by decide)) _ _ hrm⟩
      · have e16 : (if op1.size = 0 then 16 else op1.size) ≠ 8 := by
          split_ifs <;> omega
        simp [encShift, t1, t2, c1, c2, e16, ee, hp]
        rw [class_mem op1 p1 t1 16]
        exact ⟨_, emits_modrm (emits_byte (emits_ite_warning h0 _ _ _ _) _ (by decide)) _ _ hb m1,
          decodes_group 0xD3 ext cn 16 .reg8 (hg _ _ _ (by decide)) _ _ hrm⟩

theorem emits_error {c c1 : AssemblerContext} {body : List Nat} (h : Emits c c1 body)
    (line : Nat) (m t : String) : Emits c (logError c1 line m t) body :=
  ⟨by simp [h.1], by simp [h.2]⟩

theorem emits_ite_error {c c1 : AssemblerContext} {body : List Nat} (h : Emits c c1 body)
    (P : Prop) [Decidable P] (line : Nat) (m t : String) :
    Emits c (if P then logError c1 line m t else c1) body := by
  split_ifs
  · exact emits_error h _ _ _
  · exact h

theorem enc_in (ctx : AssemblerContext) (op1 op2 : Operand) (line : Nat)
    (hp : ctx.isPass1 = false) (hv : validFor inForms op1 op2 = true) (hw1 : op1.WellFormed) :
    ∃ body, Emits ctx (encodeInstruction ctx "IN" op1 op2 line).1 body
      ∧ DecodesTo body "IN" (classOfOperand op1) (classOfOperand op2) := by
  have h0 := emits_refl ctx hp
  simp [validFor, inForms, ruleMatches] at hv
  have p1 : op1.present = true := by tauto
  have p2 : op2.present = true := by tauto
  have t1 : op1.type = .REGISTER := by tauto
  have g1 : op1.reg = 0 := by tauto
  have hs : op2.type = .IMMEDIATE ∨ (op2.type = .REGISTER ∧ op2.reg = 2 ∧ op2.size = 16) := by
    tauto
  obtain ⟨r1, s1⟩ := hw1.1 t1
  rw [class_reg op1 p1 t1 hw1]
  rcases hs with t2 | ⟨t2, g2, z2⟩
  · rw [class_imm op2 p2 t2]
    rcases s1 with s1 | s1
    · simp [encodeInstruction, isALU, isShift, encIN, t1, t2, g1, s1]
      exact ⟨_, emits_byte (emits_byte h0 _ (by decide)) _ (toU8_lt _),
        decodes_imm 0xE4 1 "IN" .reg8 .imm (by decide) _ rfl⟩
    · simp [encodeInstruction, isALU, isShift, encIN, t1, t2, g1, s1]
      exact ⟨_, emits_byte (emits_byte h0 _ (by decide)) _ (toU8_lt _),
        decodes_imm 0xE5 1 "IN" .reg16 .imm (by decide) _ rfl⟩
  · have k2 : classOfOperand op2 = .reg16 := by simp [classOfOperand, p2, t2, z2]
    rw [k2]
    rcases s1 with s1 | s1
    · simp [encodeInstruction, isALU, isShift, encIN, t1, t2, g1, g2, z2, s1]
      exact ⟨_, emits_byte h0 _ (by decide), decodes_fixed 0xEC "IN" .reg8 .reg16 (by decide)⟩
    · simp [encodeInstruction, isALU, isShift, encIN, t1, t2, g1, g2, z2, s1]
      exact ⟨_, emits_byte h0 _ (by decide), decodes_fixed 0xED "IN" .reg16 .reg16 (by decide)⟩

theorem enc_out (ctx : AssemblerContext) (op1 op2 : Operand) (line : Nat)
    (hp : ctx.isPass1 = false) (hv : validFor outForms op1 op2 = true) (hw2 : op2.WellFormed) :
    ∃ body, Emits ctx (encodeInstruction ctx "OUT" op1 op2 line).1 body
      ∧ DecodesTo body "OUT" (classOfOperand op1) (classOfOperand op2) := by
  have h0 := emits_refl ctx hp
  simp [validFor, outForms, ruleMatches] at hv
  have p1 : op1.present = true := by tauto
  have p2 : op2.present = true := by tauto
  have t2 : op2.type = .REGISTER := by tauto
  have g2 : op2.reg = 0 := by tauto
  have hs : op1.type = .IMMEDIATE ∨ (op1.type = .REGISTER ∧ op1.reg = 2 ∧ op1.size = 16) := by
    tauto
  obtain ⟨r2, s2⟩ := hw2.1 t2
  rw [class_reg op2 p2 t2 hw2]
  rcases hs with t1 | ⟨t1, g1, z1⟩
  · rw [class_imm op1 p1 t1]
    rcases s2 with s2 | s2
    · simp [encodeInstruction, isALU, isShift, encOUT, t1, t2, g2, s2]
      exact ⟨_, emits_byte (emits_byte h0 _ (by decide)) _ (toU8_lt _),
        decodes_imm 0xE6 1 "OUT" .imm .reg8 (by decide) _ rfl⟩
    · simp [encodeInstruction, isALU, isShift, encOUT, t1, t2, g2, s2]
      exact ⟨_, emits_byte (emits_byte h0 _ (by decide)) _ (toU8_lt _),
        decodes_imm 0xE7 1 "OUT" .imm .reg16 (by decide) _ rfl⟩
  · have k1 : classOfOperand op1 = .reg16 := by simp [classOfOperand, p1, t1, z1]
    rw [k1]
    rcases s2 with s2 | s2
    · simp [encodeInstruction, isALU, isShift, encOUT, t1, t2, g1, g2, z1, s2]
      exact ⟨_, emits_byte h0 _ (by decide), decodes_fixed 0xEE "OUT" .reg16 .reg8 (by decide)⟩
    · simp [encodeInstruction, isALU, isShift, encOUT, t1, t2, g1, g2, z1, s2]
      exact ⟨_, emits_byte h0 _ (by decide), decodes_fixed 0xEF "OUT" .reg16 .reg16 (by decide)⟩

theorem enc_lea (ctx : AssemblerContext) (op1 op2 : Operand) (line : Nat)
    (hp : ctx.isPass1 = false) (hv : validFor leaForms op1 op2 = true)
    (hw1 : op1.WellFormed) (hw2 : op2.WellFormed) :
    ∃ body, Emits ctx (encodeInstruction ctx "LEA" op1 op2 line).1 body
      ∧ DecodesTo body "LEA" (classOfOperand op1) (classOfOperand op2) := by
  have h0 := emits_refl ctx hp
  simp [validFor, leaForms, ruleMatches] at hv
  obtain ⟨⟨p1, t1, z1⟩, p2, t2⟩ := hv
  obtain ⟨r1, _⟩ := hw1.1 t1
  have m2 := hw2.2.2 t2
  have k1 : classOfOperand op1 = .reg16 := by simp [classOfOperand, p1, t1, z1]
  rw [k1, class_mem op2 p2 t2 16]
  simp [encodeInstruction, isALU, isShift, encLEA, t1, t2, z1]
  exact ⟨_, emits_modrm (emits_byte h0 _ (by decide)) _ _ r1 m2,
    decodes_lea _ _ (rmBytes_mem _ _ r1 m2)⟩

theorem enc_int (ctx : AssemblerContext) (op1 op2 : Operand) (line : Nat)
    (hp : ctx.isPass1 = false) (hv : validFor intForms op1 op2 = true) :
    ∃ body, Emits ctx (encodeInstruction ctx "INT" op1 op2 line).1 body
      ∧ DecodesTo body "INT" (classOfOperand op1) (classOfOperand op2) := by
  have h0 := emits_refl ctx hp
  simp [validFor, intForms, ruleMatches] at hv
  obtain ⟨⟨p1, t1⟩, p2⟩ := hv
  rw [class_imm op1 p1 t1, class_absent op2 p2]
  simp [encodeInstruction, isALU, t1]
  exact ⟨_, emits_byte (emits_byte h0 _ (by decide)) _ (toU8_lt _),
    decodes_imm 0xCD 1 "INT" .imm .none (by decide) _ rfl⟩

theorem enc_near (ctx : AssemblerContext) (mn : String) (op1 op2 : Operand) (line : Nat)
    (hmn : mn = "JMP" ∨ mn = "CALL")
    (hp : ctx.isPass1 = false) (hv : validFor nearForms op1 op2 = true) :
    ∃ body, Emits ctx (encodeInstruction ctx mn op1 op2 line).1 body
      ∧ DecodesTo body mn (classOfOperand op1) (classOfOperand op2) := by
  have h0 := emits_refl ctx hp
  simp [validFor, nearForms, ruleMatches] at hv
  obtain ⟨⟨p1, t1⟩, p2⟩ := hv
  rw [class_imm op1 p1 t1, class_absent op2 p2]
  rcases hmn with hmn | hmn
  · simp [hmn, encodeInstruction, isALU, isShift, encNear, t1]
    exact ⟨_, emits_word (emits_byte h0 _ (by decide)) _ (toU16_lt _),
      decodes_imm 0xE9 2 "JMP" .imm .none (by decide) _ rfl⟩
  · simp [hmn, encodeInstruction, isALU, isShift, isLoop, firstChar, encNear, t1]
    exact ⟨_, emits_word (emits_byte h0 _ (by decide)) _ (toU16_lt _),
      decodes_imm 0xE8 2 "CALL" .imm .none (by decide) _ rfl⟩

theorem enc_jcc (ctx : AssemblerContext) (mn : String) (op : Nat) (op1 op2 : Operand)
    (line : Nat) (hmn : (mn, op) ∈ jccOpcodes)
    (hp : ctx.isPass1 = false) (hv : validFor shortForms op1 op2 = true) :
    ∃ body, Emits ctx (encodeInstruction ctx mn op1 op2 line).1 body
      ∧ DecodesTo body (canonicalName mn) (classOfOperand op1) (classOfOperand op2) := by
  have h0 := emits_refl ctx hp
  simp [validFor, shortForms, ruleMatches] at hv
  obtain ⟨⟨p1, t1⟩, p2⟩ := hv
  rw [class_imm op1 p1 t1, class_absent op2 p2]
  obtain ⟨e0, hl, hlo, hhi⟩ := encodeInstruction_jcc ctx mn op op1 op2 line hmn
  rw [e0]
  unfold encJcc
  rw [hl]
  refine ⟨_, emits_byte (emits_byte (emits_ite_error h0 _ _ _ _) _ (by omega)) _ (toU8_lt _),
    decodes_imm op 1 (canonicalName mn) .imm .none ?_ _ rfl⟩
  unfold jccOpcodes at hmn
  fin_cases hmn <;> decide

theorem enc_loop (ctx : AssemblerContext) (mn : String) (op : Nat) (op1 op2 : Operand)
    (line : Nat)
    (hmn : (mn, op) ∈ [("LOOP", 0xE2), ("LOOPE", 0xE1), ("LOOPZ", 0xE1), ("LOOPNE", 0xE0),
                       ("LOOPNZ", 0xE0), ("JCXZ", 0xE3)])
    (hp : ctx.isPass1 = false) (hv : validFor shortForms op1 op2 = true) :
    ∃ body, Emits ctx (encodeInstruction ctx mn op1 op2 line).1 body
      ∧ DecodesTo body (canonicalName mn) (classOfOperand op1) (classOfOperand op2) := by
  have h0 := emits_refl ctx hp
  simp [validFor, shortForms, ruleMatches] at hv
  obtain ⟨⟨p1, t1⟩, p2⟩ := hv
  rw [class_imm op1 p1 t1, class_absent op2 p2]
  obtain ⟨e0, hlo, hhi⟩ := encodeInstruction_loop ctx mn op op1 op2 line hmn
  rw [e0]
  have e : encLoop ctx mn op1 line
      = (emitByte (emitByte
          (if ¬ ctx.isPass1 ∧ (op1.val - (ctx.currentAddress + 2) < -128
              ∨ op1.val - (ctx.currentAddress + 2) > 127) then
            logError ctx line
              ("Loop jump out of range (" ++ intToString (op1.val - (ctx.currentAddress + 2)) ++ ")")
              ("Displacement is " ++ intToString (op1.val - (ctx.currentAddress + 2))
                ++ " bytes (range: -128 to +127). Replace LOOP with an explicit decrement and near jump: DEC CX / JNZ target. For LOOPE/LOOPNE, add the additional flag check before the JNZ.")
           else ctx) op) (toU8 (op1.val - (ctx.currentAddress + 2))), false) := by
    fin_cases hmn <;> simp [encLoop, t1]
  rw [e]
  refine ⟨_, emits_byte (emits_byte (emits_ite_error h0 _ _ _ _) _ (by omega)) _ (toU8_lt _),
    decodes_imm op 1 (canonicalName mn) .imm .none ?_ _ rfl⟩
  fin_cases hmn <;> decide

set_option maxHeartbeats 1000000 in
theorem enc_simple (ctx : AssemblerContext) (mn : String) (op : Nat) (op1 op2 : Operand)
    (line : Nat) (hmn : (mn, op) ∈ simpleTable)
    (hp : ctx.isPass1 = false) (hv : validFor noForms op1 op2 = true) :
    ∃ body, Emits ctx (encodeInstruction ctx mn op1 op2 line).1 body
      ∧ DecodesTo body mn (classOfOperand op1) (classOfOperand op2) := by
  have h0 := emits_refl ctx hp
  simp [validFor, noForms, ruleMatches] at hv
  obtain ⟨p1, p2⟩ := hv
  rw [class_absent op1 p1, class_absent op2 p2]
  have e : encodeInstruction ctx mn op1 op2 line = (emitByte ctx op, false) := by
    unfold simpleTable at hmn
    fin_cases hmn <;>
      simp [encodeInstruction, isALU, isShift, isLoop, firstChar, simpleOpcodes, List.lookup]
  rw [e]
  refine ⟨_, emits_byte h0 _ ?_, decodes_fixed op mn .none .none ?_⟩
  · unfold simpleTable at hmn
    fin_cases hmn <;> decide
  · unfold simpleTable at hmn
    fin_cases hmn <;> decide

theorem enc_stack (ctx : AssemblerContext) (mn : String) (op1 op2 : Operand) (line : Nat)
    (hmn : mn = "PUSH" ∨ mn = "POP")
    (hp : ctx.isPass1 = false) (hv : validFor stackForms op1 op2 = true)
    (hw1 : op1.WellFormed)
    (herr : (encodeInstruction ctx mn op1 op2 line).1.globalError = false) :
    ∃ body, Emits ctx (encodeInstruction ctx mn op1 op2 line).1 body
      ∧ DecodesTo body mn (classOfOperand op1) (classOfOperand op2) := by
  have h0 := emits_refl ctx hp
  simp [validFor, stackForms, ruleMatches] at hv
  have p1 : op1.present = true := by tauto
  have p2 : op2.present = false := by tauto
  have hs : (op1.type = .REGISTER ∧ op1.size = 16) ∨ op1.type = .MEMORY ∨ op1.type = .SEGREG := by
    tauto
  have e0 : encodeInstruction ctx mn op1 op2 line = encStack ctx mn op1 line := by
    rcases hmn with hmn | hmn <;>
      simp [hmn, encodeInstruction, isALU, isShift, isLoop, firstChar]
  rw [e0] at herr ⊢
  rw [class_absent op2 p2]
  rcases hs with ⟨t1, z1⟩ | t1 | t1
  · obtain ⟨r1, _⟩ := hw1.1 t1
    have k1 : classOfOperand op1 = .reg16 := by simp [classOfOperand, p1, t1, z1]
    rw [k1]
    rcases hmn with hmn | hmn
    · simp [hmn, encStack, t1, z1]
      exact ⟨_, emits_byte h0 _ (by omega),
        decodes_reg_opcode 0x50 "PUSH" .none (by decide) _ r1⟩
    · simp [hmn, encStack, t1, z1]
      exact ⟨_, emits_byte h0 _ (by omega),
        decodes_reg_opcode 0x58 "POP" .none (by decide) _ r1⟩
  · have m1 := hw1.2.2 t1
    rw [class_mem op1 p1 t1 16]
    rcases hmn with hmn | hmn
    · simp [hmn, encStack, t1]
      exact ⟨_, emits_modrm (emits_byte h0 _ (by decide)) _ _ (by decide) m1,
        decodes_group 0xFF 6 "PUSH" 16 .none (by decide) _ _ (rmBytes_mem _ _ (by decide) m1)⟩
    · simp [hmn, encStack, t1]
      exact ⟨_, emits_modrm (emits_byte h0 _ (by decide)) _ _ (by decide) m1,
        decodes_group 0x8F 0 "POP" 16 .none (by decide) _ _ (rmBytes_mem _ _ (by decide) m1)⟩
  · have r1 := hw1.2.1 t1
    rw [class_sreg op1 p1 t1]
    generalize hr : op1.reg = r at r1 herr
    rcases hmn with hmn | hmn
    · interval_cases r <;> simp [hmn, encStack, t1, hr]
      · exact ⟨_, emits_byte h0 _ (by decide), decodes_fixed 0x06 "PUSH" .sreg .none (by decide)⟩
      · exact ⟨_, emits_byte h0 _ (by decide), decodes_fixed 0x0E "PUSH" .sreg .none (by decide)⟩
      · exact ⟨_, emits_byte h0 _ (by decide), decodes_fixed 0x16 "PUSH" .sreg .none (by decide)⟩
      · exact ⟨_, emits_byte h0 _ (by decide), decodes_fixed 0x1E "PUSH" .sreg .none (by decide)⟩
    · interval_cases r
      · simp [hmn, encStack, t1, hr]
        exact ⟨_, emits_byte h0 _ (by decide), decodes_fixed 0x07 "POP" .sreg .none (by decide)⟩
      · simp [hmn, encStack, t1, hr] at herr
      · simp [hmn, encStack, t1, hr]
        exact ⟨_, emits_byte h0 _ (by decide), decodes_fixed 0x17 "POP" .sreg .none (by decide)⟩
      · simp [hmn, encStack, t1, hr]
        exact ⟨_, emits_byte h0 _ (by decide), decodes_fixed 0x1F "POP" .sreg .none (by decide)⟩

theorem enc_xchg (ctx : AssemblerContext) (op1 op2 : Operand) (line : Nat)
    (hp : ctx.isPass1 = false) (hv : validFor xchgForms op1 op2 = true)
    (hw1 : op1.WellFormed) (hw2 : op2.WellFormed)
    (hx : ¬ (op1.type = .REGISTER ∧ op2.type = .REGISTER ∧ op1.size ≠ op2.size))
    (hx2 : ¬ (op1.type = .REGISTER ∧ op2.type = .REGISTER ∧ op1.size = 16 ∧ op1.reg = 0
      ∧ op2.reg = 0)) :
    ∃ body, Emits ctx (encodeInstruction ctx "XCHG" op1 op2 line).1 body
      ∧ DecodesTo body "XCHG" (expectedKinds "XCHG" op1 op2).1 (expectedKinds "XCHG" op1 op2).2 := by
  have h0 := emits_refl ctx hp
  simp [validFor, xchgForms, ruleMatches] at hv
  have p1 : op1.present = true := by tauto
  have p2 : op2.present = true := by tauto
  have hs : (op1.type = .REGISTER ∧ op2.type = .REGISTER)
      ∨ (op1.type = .REGISTER ∧ op2.type = .MEMORY)
      ∨ (op1.type = .MEMORY ∧ op2.type = .REGISTER) := by
    tauto
  have e0 : encodeInstruction ctx "XCHG" op1 op2 line = encXCHG ctx op1 op2 := by
    simp [encodeInstruction, isALU, isShift, isLoop, firstChar]
  rw [e0]
  rcases hs with ⟨t1, t2⟩ | ⟨t1, t2⟩ | ⟨t1, t2⟩
  · obtain ⟨r1, s1⟩ := hw1.1 t1
    obtain ⟨r2, s2⟩ := hw2.1 t2
    have hsz : op2.size = op1.size := by
      by_contra hne
      exact hx ⟨t1, t2, fun h => hne h.symm⟩
    have ek : expectedKinds "XCHG" op1 op2 = (classOfOperand op1, classOfOperand op2) := by
      simp [expectedKinds, t1, t2]
    rw [ek, class_reg_rm op1 p1 t1 hw1, class_reg op2 p2 t2 hw2, hsz]
    rcases s1 with s1 | s1
    · simp [encXCHG, t1, t2, hsz, s1]
      exact ⟨_, emits_rr (emits_byte h0 _ (by omega)) _ _ r2 r1,
        decodes_rm_reg 0x86 "XCHG" 8 false (by decide) _ _ _ (rmBytes_reg _ _ r2 r1)⟩
    · by_cases g1 : op1.reg = 0
      · have g2 : 0 < op2.reg := by
          rcases Nat.eq_zero_or_pos op2.reg with h | h
          · exact absurd ⟨t1, t2, s1, g1, h⟩ hx2
          · exact h
        simp [encXCHG, t1, t2, hsz, s1, g1]
        exact ⟨_, emits_byte h0 _ (by omega), decodes_xchg_acc _ g2 r2⟩
      · by_cases g2 : op2.reg = 0
        · simp [encXCHG, t1, t2, hsz, s1, g1, g2]
          exact ⟨_, emits_byte h0 _ (by omega), decodes_xchg_acc _ (by omega) r1⟩
        · simp [encXCHG, t1, t2, hsz, s1, g1, g2]
          exact ⟨_, emits_rr (emits_byte h0 _ (by omega)) _ _ r2 r1,
            decodes_rm_reg 0x87 "XCHG" 16 false (by decide) _ _ _ (rmBytes_reg _ _ r2 r1)⟩
  · obtain ⟨r1, s1⟩ := hw1.1 t1
    have m2 := hw2.2.2 t2
    have ek : expectedKinds "XCHG" op1 op2 = (classOfOperand op2, classOfOperand op1) := by
      simp [expectedKinds, t1, t2]
    rw [ek, class_reg op1 p1 t1 hw1, class_mem op2 p2 t2 op1.size]
    rcases s1 with s1 | s1
    · simp [encXCHG, t1, t2, s1]
      exact ⟨_, emits_modrm (emits_byte h0 _ (by omega)) _ _ r1 m2,
        decodes_rm_reg 0x86 "XCHG" 8 false (by decide) _ _ _ (rmBytes_mem _ _ r1 m2)⟩
    · simp [encXCHG, t1, t2, s1]
      exact ⟨_, emits_modrm (emits_byte h0 _ (by omega)) _ _ r1 m2,
        decodes_rm_reg 0x87 "XCHG" 16 false (by decide) _ _ _ (rmBytes_mem _ _ r1 m2)⟩
  · obtain ⟨r2, s2⟩ := hw2.1 t2
    have m1 := hw1.2.2 t1
    have ek : expectedKinds "XCHG" op1 op2 = (classOfOperand op1, classOfOperand op2) := by
      simp [expectedKinds, t1, t2]
    rw [ek, class_reg op2 p2 t2 hw2, class_mem op1 p1 t1 op2.size]
    rcases s2 with s2 | s2
    · simp [encXCHG, t1, t2, s2]
      exact ⟨_, emits_modrm (emits_byte h0 _ (by omega)) _ _ r2 m1,
        decodes_rm_reg 0x86 "XCHG" 8 false (by decide) _ _ _ (rmBytes_mem _ _ r2 m1)⟩
    · simp [encXCHG, t1, t2, s2]
      exact ⟨_, emits_modrm (emits_byte h0 _ (by omega)) _ _ r2 m1,
        decodes_rm_reg 0x87 "XCHG" 16 false (by decide) _ _ _ (rmBytes_mem _ _ r2 m1)⟩

set_option maxRecDepth 100000 in
theorem isa_groups : ∀ mn ∈ isaDB.map ISAEntry.mnemonic,
    isaGroup mn ∧ (mn ∉ shiftTable.map Prod.fst → mn ∉ jccOpcodes.map Prod.fst →
      mn ∉ loopTable.map Prod.fst → canonicalName mn = mn) := by
  decide

theorem decode_of_emits (ctx c1 : AssemblerContext) (body : List Nat) (name : String)
    (k1 k2 : OperandClass) (hpre : ∀ b ∈ ctx.currentLineBytes, b ∈ prefixList)
    (hem : Emits ctx c1 body) (hdec : DecodesTo body name k1 k2) :
    (decodeInstruction c1.currentLineBytes 0).valid = true
    ∧ (decodeInstruction c1.currentLineBytes 0).size = c1.currentLineBytes.length
    ∧ (decodeInstruction c1.currentLineBytes 0).mnemonic = name
    ∧ classOfDecoded (decodeInstruction c1.currentLineBytes 0).op1 = k1
    ∧ classOfDecoded (decodeInstruction c1.currentLineBytes 0).op2 = k2 := by
  rw [hem.2]
  exact decodeInstruction_of_DecodesTo _ _ _ _ _ hpre hdec

theorem expectedKinds_plain (mn : String) (op1 op2 : Operand) (h1 : mn ≠ "TEST")
    (h2 : mn ≠ "XCHG") : expectedKinds mn op1 op2 = (classOfOperand op1, classOfOperand op2) := by
  simp [expectedKinds, h1, h2]

set_option maxRecDepth 100000 in
theorem encode_decodes (ctx : AssemblerContext) (mn : String) (op1 op2 : Operand) (line : Nat)
    (hp : ctx.isPass1 = false)
    (hisa : mn ∈ isaDB.map ISAEntry.mnemonic)
    (hval : (validateInstruction ctx mn op1 op2 line).2 = true)
    (hw1 : op1.WellFormed) (hw2 : op2.WellFormed)
    (hexc : roundTripException mn op1 op2 = false)
    (herr : (encodeInstruction ctx mn op1 op2 line).1.globalError = false) :
    ∃ body, Emits ctx (encodeInstruction ctx mn op1 op2 line).1 body
      ∧ DecodesTo body (canonicalName mn) (expectedKinds mn op1 op2).1
          (expectedKinds mn op1 op2).2 := by
  obtain ⟨hg, hcn⟩ := isa_groups mn hisa
  simp only [roundTripException, decide_eq_false_iff_not, not_or] at hexc
  obtain ⟨x1, x2, x3, x4, x5⟩ := hexc
  unfold isaGroup InGroup at hg
  rcases hg with ⟨hm, hf⟩ | ⟨hm, hf⟩ | ⟨hm, hf⟩ | ⟨hm, hf⟩ | ⟨⟨hm, hf⟩, hs⟩ | ⟨hm, hf⟩ | ⟨hm, hf⟩
    | ⟨hm, hf⟩ | ⟨hm, hf⟩ | ⟨hm, hf⟩ | ⟨hm, hf⟩ | ⟨hm, hf⟩ | ⟨hm, hf⟩ | ⟨hm, hf⟩ | ⟨hm, hf⟩
  · -- MOV
    have hv := validate_forms ctx mn op1 op2 line _ hf hval
    simp only [List.mem_singleton] at hm
    subst hm
    have e0 : encodeInstruction ctx "MOV" op1 op2 line = encMOV ctx op1 op2 line := by
      simp [encodeInstruction]
    rw [e0] at herr ⊢
    rw [expectedKinds_plain _ _ _ (by decide) (by decide)]
    exact enc_mov ctx op1 op2 line hp hv hw1 hw2 (fun h => x2 ⟨rfl, h⟩) (fun h => x3 ⟨rfl, h⟩) herr
  · -- arithmetic and logic
    have hv := validate_forms ctx mn op1 op2 line _ hf hval
    have hn : mn ≠ "TEST" ∧ mn ≠ "XCHG" ∧ canonicalName mn = mn ∧ isALU mn = true
        ∧ encodeInstruction ctx mn op1 op2 line = encALU ctx mn op1 op2 line := by
      unfold aluList at hm
      fin_cases hm <;> simp [encodeInstruction, isALU, canonicalName, aliasTable, List.lookup]
    obtain ⟨n1, n2, n3, n4, e0⟩ := hn
    rw [e0, n3, expectedKinds_plain _ _ _ n1 n2]
    exact enc_alu ctx mn op1 op2 line hm hp hv hw1 hw2 (fun h => x1 ⟨Or.inl n4, h⟩)
  · -- TEST
    have hv := validate_forms ctx mn op1 op2 line _ hf hval
    simp only [List.mem_singleton] at hm
    subst hm
    have e0 : encodeInstruction ctx "TEST" op1 op2 line = encALU ctx "TEST" op1 op2 line := by
      simp [encodeInstruction, isALU]
    rw [e0]
    exact enc_test ctx op1 op2 line hp hv hw1 hw2 (fun h => x1 ⟨Or.inl (by decide), h⟩)
  · -- one-operand groups
    have hv := validate_forms ctx mn op1 op2 line _ hf hval
    have hc := hcn (by revert hm; unfold unaryTable; intro hm; fin_cases hm <;> decide)
      (by revert hm; unfold unaryTable; intro hm; fin_cases hm <;> decide)
      (by revert hm; unfold unaryTable; intro hm; fin_cases hm <;> decide)
    obtain ⟨⟨m, b, e⟩, hin, hmeq⟩ := List.mem_map.mp hm
    simp only at hmeq
    subst hmeq
    have hn : m ≠ "TEST" ∧ m ≠ "XCHG" := by
      unfold unaryTable at hin
      fin_cases hin <;> decide
    rw [hc, expectedKinds_plain _ _ _ hn.1 hn.2]
    exact enc_group1 ctx m b e op1 op2 hin hp hv hw1 line
  · -- shifts and rotates
    have hv := validate_forms ctx mn op1 op2 line _ hf hval
    have hn : mn ≠ "TEST" ∧ mn ≠ "XCHG" := by
      revert hm; unfold shiftTable; intro hm
      simp only [List.map, List.mem_cons, List.mem_singleton, List.not_mem_nil, or_false] at hm
      rcases hm with h | h | h | h | h | h | h | h <;> subst h <;> decide
    rw [expectedKinds_plain _ _ _ hn.1 hn.2]
    exact enc_shift ctx mn _ _ op1 op2 line hs hp hv hw1 x4
  · have hv := validate_forms ctx mn op1 op2 line _ hf hval
    simp only [List.mem_singleton] at hm
    subst hm
    rw [expectedKinds_plain _ _ _ (by decide) (by decide)]
    exact enc_in ctx op1 op2 line hp hv hw1
  · have hv := validate_forms ctx mn op1 op2 line _ hf hval
    simp only [List.mem_singleton] at hm
    subst hm
    rw [expectedKinds_plain _ _ _ (by decide) (by decide)]
    exact enc_out ctx op1 op2 line hp hv hw2
  · have hv := validate_forms ctx mn op1 op2 line _ hf hval
    simp only [List.mem_singleton] at hm
    subst hm
    rw [expectedKinds_plain _ _ _ (by decide) (by decide)]
    exact enc_lea ctx op1 op2 line hp hv hw1 hw2
  · have hv := validate_forms ctx mn op1 op2 line _ hf hval
    simp only [List.mem_singleton] at hm
    subst hm
    rw [expectedKinds_plain _ _ _ (by decide) (by decide)]
    exact enc_int ctx op1 op2 line hp hv
  · have hv := validate_forms ctx mn op1 op2 line _ hf hval
    simp only [List.mem_cons, List.mem_singleton, List.not_mem_nil, or_false] at hm
    have hn : mn ≠ "TEST" ∧ mn ≠ "XCHG" ∧ canonicalName mn = mn := by
      rcases hm with h | h <;> subst h <;> decide
    rw [hn.2.2, expectedKinds_plain _ _ _ hn.1 hn.2.1]
    exact enc_near ctx mn op1 op2 line hm hp hv
  · have hv := validate_forms ctx mn op1 op2 line _ hf hval
    obtain ⟨⟨m, o⟩, hin, hmeq⟩ := List.mem_map.mp hm
    simp only at hmeq
    subst hmeq
    have hn : m ≠ "TEST" ∧ m ≠ "XCHG" := by
      unfold jccOpcodes at hin
      fin_cases hin <;> decide
    rw [expectedKinds_plain _ _ _ hn.1 hn.2]
    exact enc_jcc ctx m o op1 op2 line hin hp hv
  · have hv := validate_forms ctx mn op1 op2 line _ hf hval
    obtain ⟨⟨m, o⟩, hin, hmeq⟩ := List.mem_map.mp hm
    simp only at hmeq
    subst hmeq
    have hn : m ≠ "TEST" ∧ m ≠ "XCHG" := by
      unfold loopTable at hin
      fin_cases hin <;> decide
    rw [expectedKinds_plain _ _ _ hn.1 hn.2]
    exact enc_loop ctx m o op1 op2 line hin hp hv
  · have hv := validate_forms ctx mn op1 op2 line _ hf hval
    simp only [List.mem_cons, List.mem_singleton, List.not_mem_nil, or_false] at hm
    have hn : mn ≠ "TEST" ∧ mn ≠ "XCHG" ∧ canonicalName mn = mn := by
      rcases hm with h | h <;> subst h <;> decide
    rw [hn.2.2, expectedKinds_plain _ _ _ hn.1 hn.2.1]
    exact enc_stack ctx mn op1 op2 line hm hp hv hw1 herr
  · have hv := validate_forms ctx mn op1 op2 line _ hf hval
    simp only [List.mem_singleton] at hm
    subst hm
    exact enc_xchg ctx op1 op2 line hp hv hw1 hw2 (fun h => x1 ⟨Or.inr rfl, h⟩)
      (fun h => x5 ⟨rfl, h⟩)
  · have hv := validate_forms ctx mn op1 op2 line _ hf hval
    have hc := hcn (by revert hm; unfold simpleTable; intro hm; fin_cases hm <;> decide)
      (by revert hm; unfold simpleTable; intro hm; fin_cases hm <;> decide)
      (by revert hm; unfold simpleTable; intro hm; fin_cases hm <;> decide)
    obtain ⟨⟨m, o⟩, hin, hmeq⟩ := List.mem_map.mp hm
    simp only at hmeq
    subst hmeq
    have hn : m ≠ "TEST" ∧ m ≠ "XCHG" := by
      unfold simpleTable at hin
      fin_cases hin <;> decide
    rw [hc, expectedKinds_plain _ _ _ hn.1 hn.2]
    exact enc_simple ctx m o op1 op2 line hin hp hv

/-- C1 (amended). In pass 2, after any prefix bytes of the line, for every mnemonic of the ISA
table `isaDB`, operands accepted by `validateInstruction` with fields in the ranges
`parseOperand` produces, and outside the forms of `roundTripException`: when the encoder
reports no error, `decodeInstruction` at offset 0 of the bytes of the line returns a valid
instruction whose size is the number of bytes, whose mnemonic is the decoder's name of the
assembled one (`canonicalName`: JE is JZ, SAL is SHL, ...) and whose operand kinds are the
assembled ones, in exchanged order for `TEST`/`XCHG reg, mem` (`expectedKinds`). -/
theorem C1_round_trip (ctx : AssemblerContext) (mn : String) (op1 op2 : Operand) (line : Nat)
    (hp : ctx.isPass1 = false)
    (hpre : ∀ b ∈ ctx.currentLineBytes, b ∈ prefixList)
    (hisa : mn ∈ isaDB.map ISAEntry.mnemonic)
    (hval : (validateInstruction ctx mn op1 op2 line).2 = true)
    (hw1 : op1.WellFormed) (hw2 : op2.WellFormed)
    (hexc : roundTripException mn op1 op2 = false)
    (herr : (encodeInstruction ctx mn op1 op2 line).1.globalError = false) :
    (decodeInstruction (encodeInstruction ctx mn op1 op2 line).1.currentLineBytes 0).valid = true
    ∧ (decodeInstruction (encodeInstruction ctx mn op1 op2 line).1.currentLineBytes 0).size
        = (encodeInstruction ctx mn op1 op2 line).1.currentLineBytes.length
    ∧ (decodeInstruction (encodeInstruction ctx mn op1 op2 line).1.currentLineBytes 0).mnemonic
        = canonicalName mn
    ∧ classOfDecoded
        (decodeInstruction (encodeInstruction ctx mn op1 op2 line).1.currentLineBytes 0).op1
        = (expectedKinds mn op1 op2).1
    ∧ classOfDecoded
        (decodeInstruction (encodeInstruction ctx mn op1 op2 line).1.currentLineBytes 0).op2
        = (expectedKinds mn op1 op2).2 := by
  obtain ⟨body, hem, hdec⟩ := encode_decodes ctx mn op1 op2 line hp hisa hval hw1 hw2 hexc herr
  exact decode_of_emits ctx _ body _ _ _ hpre hem hdec

set_option maxRecDepth 100000 in
/-- C1 at `ADD ES:[BX+4], CX`: the bytes 26 01 4F 04 decode to `ADD` with a memory and a 16-bit
register operand. -/
theorem C1_round_trip_witness :
    (encodeInstruction prefixedCtx "ADD" (memOperand 7 4 false) (regOperand 1 16) 1).1.currentLineBytes
        = [0x26, 0x01, 0x4F, 0x04]
    ∧ (decodeInstruction [0x26, 0x01, 0x4F, 0x04] 0).valid = true
    ∧ (decodeInstruction [0x26, 0x01, 0x4F, 0x04] 0).size = 4
    ∧ (decodeInstruction [0x26, 0x01, 0x4F, 0x04] 0).mnemonic = "ADD"
    ∧ classOfDecoded (decodeInstruction [0x26, 0x01, 0x4F, 0x04] 0).op1 = .mem
    ∧ classOfDecoded (decodeInstruction [0x26, 0x01, 0x4F, 0x04] 0).op2 = .reg16 := by
  have h := C1_round_trip prefixedCtx "ADD" (memOperand 7 4 false) (regOperand 1 16) 1 rfl
    (by decide) (by decide) (by decide) (by unfold Operand.WellFormed; decide)
    (by unfold Operand.WellFormed; decide) (by decide) (by decide)
  have hb : (encodeInstruction prefixedCtx "ADD" (memOperand 7 4 false) (regOperand 1 16)
      1).1.currentLineBytes = [0x26, 0x01, 0x4F, 0x04] := by
    decide
  rw [hb] at h
  exact ⟨hb, h.1, h.2.1, h.2.2.1, h.2.2.2.1, h.2.2.2.2⟩

set_option maxRecDepth 100000 in
/-- C1 as stated fails: `TEST AX, [BX]` assembles without diagnostic to 85 07, which decodes
with a memory operand first and a 16-bit register second; `L: JE L` assembles without
diagnostic to 74 FE, which decodes with the mnemonic `JZ`. -/
theorem C1_counterexample :
    (assemble ["TEST AX, [BX]"] []).diagnostics = []
    ∧ (assemble ["TEST AX, [BX]"] []).machineCode = [0x85, 0x07]
    ∧ (decodeInstruction [0x85, 0x07] 0).valid = true
    ∧ (decodeInstruction [0x85, 0x07] 0).op1.kind = .MEM
    ∧ (decodeInstruction [0x85, 0x07] 0).op2.kind = .REG16
    ∧ (assemble ["L: JE L"] []).diagnostics = []
    ∧ (assemble ["L: JE L"] []).machineCode = [0x74, 0xFE]
    ∧ (decodeInstruction [0x74, 0xFE] 0).valid = true
    ∧ (decodeInstruction [0x74, 0xFE] 0).mnemonic = "JZ" := by
  decide!

/-! ## C11: register-to-register arithmetic is bit-exact -/

/-- C11. In pass 2, for every mnemonic of ADD, OR, ADC, SBB, AND, SUB, XOR, CMP, TEST and
every destination/source register pair of the same width (8 or 16), the encoder emits exactly
two bytes, to the line bytes and to the machine code: the opcode base of the mnemonic, plus 1
when the registers are 16-bit, then the ModR/M byte `0xC0 | (source << 3) | destination`; it
advances the address by 2 and logs nothing. -/
theorem C11_alu_reg_reg (ctx : AssemblerContext) (mn : String) (base : Nat) (op1 op2 : Operand)
    (line : Nat) (hmn : (mn, base) ∈ aluOpcodeBase) (hp : ctx.isPass1 = false)
    (t1 : op1.type = .REGISTER) (t2 : op2.type = .REGISTER)
    (hw : op1.size = 8 ∨ op1.size = 16) (_hsz : op2.size = op1.size)
    (r1 : op1.reg < 8) (r2 : op2.reg < 8) :
    (encodeInstruction ctx mn op1 op2 line).1.currentLineBytes
      = ctx.currentLineBytes
          ++ [base + (if op1.size = 16 then 1 else 0), 0xC0 ||| (op2.reg <<< 3) ||| op1.reg]
    ∧ (encodeInstruction ctx mn op1 op2 line).1.machineCode
      = ctx.machineCode
          ++ [base + (if op1.size = 16 then 1 else 0), 0xC0 ||| (op2.reg <<< 3) ||| op1.reg]
    ∧ (encodeInstruction ctx mn op1 op2 line).1.currentAddress = ctx.currentAddress + 2
    ∧ (encodeInstruction ctx mn op1 op2 line).1.diagnostics = ctx.diagnostics := by
  have f := (modrm_fields 3 op2.reg op1.reg (by omega) r2 r1).1
  have e3 : (3 <<< 6 : Nat) = 0xC0 := by decide
  rw [e3] at f
  have hm := Nat.mod_eq_of_lt f
  unfold aluOpcodeBase at hmn
  rcases hw with hw | hw <;> fin_cases hmn <;>
    simp [encodeInstruction, isALU, encALU, aluBase, t1, t2, hw, emitByte, hp, hm] <;> omega

/-- C11 at `ADD AX, BX` and `TEST CL, DH` in a fresh pass-2 context. -/
theorem C11_alu_reg_reg_witness :
    (encodeInstruction pass2Ctx "ADD" (regOperand 0 16) (regOperand 3 16) 1).1.currentLineBytes
      = [0x01, 0xD8]
    ∧ (encodeInstruction pass2Ctx "TEST" (regOperand 1 8) (regOperand 6 8) 1).1.currentLineBytes
      = [0x84, 0xF1] := by
  have h1 := C11_alu_reg_reg pass2Ctx "ADD" 0x00 (regOperand 0 16) (regOperand 3 16) 1
    (by decide) rfl rfl rfl (by decide) rfl (by decide) (by decide)
  have h2 := C11_alu_reg_reg pass2Ctx "TEST" 0x84 (regOperand 1 8) (regOperand 6 8) 1
    (by decide) rfl rfl rfl (by decide) rfl (by decide) (by decide)
  exact ⟨h1.1, h2.1⟩

/-! ## C12: immediate-count shifts and the decoder -/

theorem decodeOpcode_shift_imm (op ext : Nat) (hop : op = 0xC0 ∨ op = 0xC1) (hext : ext < 8)
    (mb : List Nat) (isReg : Bool) (hrm : RMBytes mb ext isReg) (b : Nat) (offset : Nat)
    (inst : DecodedInst) (hi : inst.opcode = op) (hv : inst.valid = false) :
    (decodeOpcode (op :: (mb ++ [b])) offset 1 inst).valid = decide (ext ∈ [0, 1, 4, 5]) := by
  obtain ⟨hne, hm⟩ := hrm
  have hm1 := hm [b] (if op = 0xC1 then 16 else 8)
  generalize hmg : decodeModRM (mb ++ [b]) 0 (if op = 0xC1 then 16 else 8) = m at hm1
  obtain ⟨e1, e2, e3⟩ := hm1
  have hhas : hasBytesAt (op :: (mb ++ [b])) (1 + mb.length) 1 = true := by
    rw [Nat.add_comm, hasBytesAt_cons_succ, hasBytesAt_at_length]; simp
  rcases hop with hop | hop <;> subst hop <;> simp only [Nat.reduceEqDiff, if_false, if_true] at hmg
    <;> interval_cases ext <;>
    simp +decide [decodeOpcode, hi, decodeModRM_cons_one, hmg, hne, e1, e2, e3, hhas, finish, hv]

/-- C12 fails on the code for RCL, RCR and SAR. In pass 2, for every mnemonic of ROL, ROR, RCL,
RCR, SHL, SHR, SAR with its extension, every register operand and every immediate count other
than 1, the encoder emits C0 (8-bit) or C1 (16-bit), the ModR/M byte
`0xC0 | (ext << 3) | reg` and the count byte; `decodeInstruction` accepts these bytes exactly
when the mnemonic is ROL, ROR, SHL or SHR, and returns an invalid instruction for RCL, RCR
and SAR. -/
theorem C12_shift_imm_decoding (ctx : AssemblerContext) (mn : String) (ext : Nat)
    (op1 op2 : Operand) (line : Nat) (hmn : (mn, ext) ∈ shiftExtTable)
    (hp : ctx.isPass1 = false) (hb : ctx.currentLineBytes = [])
    (t1 : op1.type = .REGISTER) (hw : op1.size = 8 ∨ op1.size = 16) (r1 : op1.reg < 8)
    (t2 : op2.type = .IMMEDIATE) (hv : op2.val ≠ 1) :
    (encodeInstruction ctx mn op1 op2 line).1.currentLineBytes
      = [if op1.size = 8 then 0xC0 else 0xC1, 0xC0 ||| (ext <<< 3) ||| op1.reg, toU8 op2.val]
    ∧ (decodeInstruction (encodeInstruction ctx mn op1 op2 line).1.currentLineBytes 0).valid
      = decide (mn ∈ ["ROL", "ROR", "SHL", "SHR"]) := by
  have hext : ext < 8 := by
    unfold shiftExtTable at hmn
    fin_cases hmn <;> decide
  have h0 := emits_refl ctx hp
  have e0 : encodeInstruction ctx mn op1 op2 line = encShift ctx mn op1 op2 line := by
    unfold shiftExtTable at hmn
    fin_cases hmn <;> simp [encodeInstruction, isALU, isShift]
  have ee : shiftExt mn = ext := by
    unfold shiftExtTable at hmn
    fin_cases hmn <;> simp [shiftExt]
  have hem : Emits ctx (encShift ctx mn op1 op2 line).1
      [if op1.size = 8 then 0xC0 else 0xC1, 0xC0 ||| (ext <<< 3) ||| op1.reg, toU8 op2.val] := by
    rcases hw with hw | hw
    · simp [encShift, t1, t2, hv, hw, ee, hp]
      exact emits_byte (emits_rr (emits_byte (emits_warning h0 _ _ _) _ (by decide)) _ _ hext r1)
        _ (toU8_lt _)
    · simp [encShift, t1, t2, hv, hw, ee, hp]
      exact emits_byte (emits_rr (emits_byte (emits_warning h0 _ _ _) _ (by decide)) _ _ hext r1)
        _ (toU8_lt _)
  have hbytes : (encodeInstruction ctx mn op1 op2 line).1.currentLineBytes
      = [if op1.size = 8 then 0xC0 else 0xC1, 0xC0 ||| (ext <<< 3) ||| op1.reg,
          toU8 op2.val] := by
    rw [e0, hem.2, hb, List.nil_append]
  refine ⟨hbytes, ?_⟩
  rw [hbytes]
  have hd := decodeInstruction_at [] (if op1.size = 8 then 0xC0 else 0xC1)
    [0xC0 ||| (ext <<< 3) ||| op1.reg, toU8 op2.val] (by split_ifs <;> decide)
  simp only [List.nil_append, List.length_nil] at hd
  rw [hd]
  have hdd := decodeOpcode_shift_imm (if op1.size = 8 then 0xC0 else 0xC1) ext
    (by split_ifs <;> simp) hext _ _ (rmBytes_reg ext op1.reg hext r1) (toU8 op2.val) 0
    { DecodedInst.empty with opcode := if op1.size = 8 then 0xC0 else 0xC1 } rfl rfl
  rw [show [0xC0 ||| (ext <<< 3) ||| op1.reg, toU8 op2.val]
    = [0xC0 ||| (ext <<< 3) ||| op1.reg] ++ [toU8 op2.val] from rfl, hdd]
  unfold shiftExtTable at hmn
  fin_cases hmn <;> decide

/-- C12 at `RCL AX, 3`: the bytes C1 D0 03 do not decode. -/
theorem C12_shift_imm_decoding_witness :
    (encodeInstruction pass2Ctx "RCL" (regOperand 0 16) (immOperand 3) 1).1.currentLineBytes
      = [0xC1, 0xD0, 0x03]
    ∧ (decodeInstruction [0xC1, 0xD0, 0x03] 0).valid = false := by
  have h := C12_shift_imm_decoding pass2Ctx "RCL" 2 (regOperand 0 16) (immOperand 3) 1
    (by decide) rfl rfl rfl (by decide) (by decide) rfl (by decide)
  have hb : (encodeInstruction pass2Ctx "RCL" (regOperand 0 16) (immOperand 3)
      1).1.currentLineBytes = [0xC1, 0xD0, 0x03] := h.1
  have h2 := h.2
  rw [hb] at h2
  exact ⟨hb, h2⟩

/-! ## C13: the linear sweep partitions the buffer -/

theorem hasBytesAt_iff (code : List Nat) (a n : Nat) :
    hasBytesAt code a n = true ↔ a + n ≤ code.length := by
  simp [hasBytesAt]

theorem bytesConsumed_eq (code : List Nat) (k sz : Nat) :
    (decodeModRM code k sz).bytesConsumed = modRMLength code k := by
  unfold modRMLength decodeModRM
  simp only []
  split_ifs <;> rfl

theorem modRMLength_bound (code : List Nat) (k : Nat) :
    k + modRMLength code k ≤ code.length ∨ modRMLength code k = 0 := by
  unfold modRMLength decodeModRM
  simp only [hasBytesAt, decide_eq_true_eq]
  split_ifs <;> simp <;> omega

theorem sizeOk_finish (code : List Nat) (current pb : Nat) (r : DecodedInst) (t : Nat)
    (h : pb + 1 ≤ t ∧ t + current ≤ code.length + pb + 1) :
    SizeOk code current pb (finish r t) := fun _ => h

theorem sizeOk_invalid (code : List Nat) (current pb : Nat) (r : DecodedInst)
    (h : r.valid = false) : SizeOk code current pb r := by
  intro hv; rw [h] at hv; exact absurd hv (by decide)

theorem sizeOk_ite (code : List Nat) (current pb : Nat) (c : Prop) [Decidable c]
    (a b : DecodedInst) (ha : c → SizeOk code current pb a) (hb : ¬ c → SizeOk code current pb b) :
    SizeOk code current pb (if c then a else b) := by
  split_ifs with h
  · exact ha h
  · exact hb h

set_option maxHeartbeats 4000000 in
set_option maxRecDepth 100000 in
theorem decodeOpcode_bounds (code : List Nat) (offset current : Nat) (inst : DecodedInst)
    (hv : inst.valid = false) (hc : current ≤ code.length) :
    SizeOk code current inst.prefixBytes (decodeOpcode code offset current inst) := by
  have hb := modRMLength_bound code current
  unfold decodeOpcode
  simp only []
  repeat' (first
    | (apply sizeOk_ite <;> intro _)
    | (apply sizeOk_invalid; first | exact hv | rfl)
    | (apply sizeOk_finish
       simp only [bytesConsumed_eq, hasBytesAt, decide_eq_true_eq, not_le, not_lt] at *
       omega))
  cases List.lookup inst.opcode simpleNames with
  | none => exact sizeOk_invalid _ _ _ _ hv
  | some name =>
    apply sizeOk_finish
    omega

theorem decodePrefixes_inv (code : List Nat) :
    ∀ (n : Nat) (inst : DecodedInst) (current : Nat),
      (decodePrefixes code n inst current).1.valid = inst.valid
      ∧ (decodePrefixes code n inst current).2 + inst.prefixBytes
          = current + (decodePrefixes code n inst current).1.prefixBytes
      ∧ current ≤ (decodePrefixes code n inst current).2 := by
  intro n
  induction n with
  | zero => intro inst current; simp [decodePrefixes]
  | succ n ih =>
    intro inst current
    unfold decodePrefixes
    simp only []
    split_ifs <;> first
      | (refine ⟨rfl, rfl, le_refl _⟩)
      | (obtain ⟨h1, h2, h3⟩ := ih _ (current + 1)
         refine ⟨h1, ?_, by omega⟩
         simp only [] at h2 ⊢
         omega)

/-- A valid result of `decodeInstruction` has a positive size and lies inside the buffer. -/
theorem decodeInstruction_bounds (code : List Nat) (offset : Nat)
    (h : (decodeInstruction code offset).valid = true) :
    1 ≤ (decodeInstruction code offset).size
    ∧ offset + (decodeInstruction code offset).size ≤ code.length := by
  unfold decodeInstruction at h ⊢
  by_cases ho : offset ≥ code.length
  · rw [if_pos ho] at h
    exact absurd h (by decide)
  · rw [if_neg ho] at h ⊢
    obtain ⟨h1, h2, h3⟩ := decodePrefixes_inv code code.length DecodedInst.empty offset
    generalize decodePrefixes code code.length DecodedInst.empty offset = p at h h1 h2 h3 ⊢
    obtain ⟨inst, current⟩ := p
    simp only [] at h h1 h2 h3 ⊢
    have hpb : (DecodedInst.empty).prefixBytes = 0 := rfl
    rw [hpb] at h2
    by_cases hh : hasBytesAt code current 1 = true
    · simp only [hh, not_true_eq_false, if_false] at h ⊢
      have hcur : current + 1 ≤ code.length := (hasBytesAt_iff code current 1).mp hh
      have hs := decodeOpcode_bounds code offset (current + 1)
        { inst with opcode := readByte code current } h1 hcur h
      simp only [] at hs
      omega
    · rw [if_pos hh, h1] at h
      exact absurd h (by decide)

theorem sweepLoop_succ (code : List Nat) (n : Nat) (st : SweepState) :
    sweepLoop code (n + 1) st
      = if st.offset < code.length then sweepLoop code n (sweepStep code st) else st := by
  rw [sweepLoop]
  unfold sweepStep
  simp only []
  split_ifs <;> rfl

theorem sweepInv_init (code : List Nat) : SweepInv code sweepInit where
  bound := Nat.zero_le _
  run := Or.inl ⟨rfl, rfl⟩
  cover := fun k => by simp [sweepInit, instrCover, regionCover, flushedRegions]
  sizes := by simp [sweepInit, flushedRegions]
  instrs := fun r hr => by simp [sweepInit] at hr
  instrOrder := by simp [sweepInit]
  regions := fun g hg => by simp [sweepInit, flushedRegions] at hg
  closed := fun g hg => by simp [sweepInit] at hg
  regionOrder := by simp [sweepInit]

theorem take_drop_succ (code : List Nat) (s n : Nat) (h : s + n < code.length) :
    (code.drop s).take (n + 1) = (code.drop s).take n ++ [code.getD (s + n) 0] := by
  rw [List.take_succ]
  congr 1
  have h1 : (List.drop s code)[n]? = code[s + n]? := by
    rw [List.getElem?_drop]
  rw [h1, List.getD_eq_getElem?_getD, List.getElem?_eq_getElem h]
  rfl

theorem flushed_pairwise (code : List Nat) (st : SweepState) (h : SweepInv code st) :
    (flushedRegions st).Pairwise (fun a b => a.addr + a.bytes.length < b.addr) := by
  unfold flushedRegions
  split_ifs with ho
  · rw [List.pairwise_append]
    refine ⟨h.regionOrder, List.pairwise_singleton _ _, fun a ha b hb => ?_⟩
    simp only [List.mem_singleton] at hb
    subst hb
    exact (h.closed a ha).2 ho
  · exact h.regionOrder

theorem sweepStep_valid (code : List Nat) (st : SweepState) (h : SweepInv code st)
    (hv : (decodeInstruction code st.offset).valid = true) :
    SweepInv code (sweepStep code st)
    ∧ st.offset < (sweepStep code st).offset := by
  obtain ⟨hs1, hs2⟩ := decodeInstruction_bounds code st.offset hv
  have hfl : flushedRegions (sweepStep code st) = flushedRegions st := by
    unfold sweepStep flushedRegions
    simp only [hv, if_true]
    split_ifs <;> simp_all
  have hdr : (sweepStep code st).dataRegions = flushedRegions st := by
    unfold sweepStep flushedRegions
    simp only [hv, if_true]
    split_ifs <;> simp_all
  have hrs : (sweepStep code st).dataRunStart = -1 ∧ (sweepStep code st).dataRunBytes = [] := by
    unfold sweepStep
    simp only [hv, if_true]
    split_ifs with ho
    · exact ⟨rfl, rfl⟩
    · have := h.run
      simp only [ne_eq, not_not] at ho
      rcases this with ⟨_, h2⟩ | ⟨h1, _, _⟩
      · exact ⟨ho, h2⟩
      · exact ⟨ho, by omega⟩
  have hoff : (sweepStep code st).offset = st.offset + (decodeInstruction code st.offset).size := by
    unfold sweepStep
    simp only [hv, if_true]
  have hins : ∃ rec : InstrRecord, rec.addr = st.offset
      ∧ rec.size = (decodeInstruction code st.offset).size
      ∧ (sweepStep code st).instructions = st.instructions ++ [rec] := by
    unfold sweepStep
    simp only [hv, if_true]
    split_ifs <;> exact ⟨_, rfl, rfl, rfl⟩
  obtain ⟨rec, ha, hz, hins⟩ := hins
  refine ⟨⟨?_, ?_, ?_, ?_, ?_, ?_, ?_, ?_, ?_⟩, by omega⟩
  · omega
  · exact Or.inl hrs
  · intro k
    rw [hins, hfl, hoff]
    have := h.cover k
    simp only [instrCover, List.countP_append, List.countP_singleton, covers, ha, hz,
      decide_eq_true_eq] at this ⊢
    split_ifs at this ⊢ <;> omega
  · rw [hins, hfl, hoff]
    have := h.sizes
    simp only [List.map_append, List.sum_append, List.map_cons, List.map_nil, List.sum_cons,
      List.sum_nil, hz]
    omega
  · intro r hr
    rw [hins, List.mem_append, List.mem_singleton] at hr
    rcases hr with hr | hr
    · obtain ⟨a, b, c, d⟩ := h.instrs r hr
      exact ⟨a, b, c, by omega⟩
    · subst hr
      rw [ha, hz]
      exact ⟨hv, rfl, hs1, by omega⟩
  · rw [hins, List.pairwise_append]
    refine ⟨h.instrOrder, List.pairwise_singleton _ _, fun a hain b hb => ?_⟩
    simp only [List.mem_singleton] at hb
    subst hb
    rw [ha]
    exact (h.instrs a hain).2.2.2
  · intro g hg
    rw [hfl] at hg
    obtain ⟨a, b, c, d⟩ := h.regions g hg
    exact ⟨a, by omega, c, d⟩
  · intro g hg
    rw [hdr] at hg
    obtain ⟨a, b, c, d⟩ := h.regions g hg
    refine ⟨by omega, fun hne => absurd hrs.1 hne⟩
  · rw [hdr]
    exact flushed_pairwise code st h

theorem sweepStep_invalid (code : List Nat) (st : SweepState) (h : SweepInv code st)
    (hlt : st.offset < code.length)
    (hv : (decodeInstruction code st.offset).valid = false) :
    SweepInv code (sweepStep code st)
    ∧ st.offset < (sweepStep code st).offset := by
  have hoff : (sweepStep code st).offset = st.offset + 1 := by
    unfold sweepStep
    simp only [hv, Bool.false_eq_true, if_false]
  have hdr : (sweepStep code st).dataRegions = st.dataRegions := by
    unfold sweepStep
    simp only [hv, Bool.false_eq_true, if_false]
  have hins : (sweepStep code st).instructions = st.instructions := by
    unfold sweepStep
    simp only [hv, Bool.false_eq_true, if_false]
  have hrun : ∃ (s : Nat) (bs : List Nat),
      flushedRegions st = st.dataRegions ++ (if bs = [] then [] else [⟨s, bs⟩])
      ∧ s + bs.length = st.offset
      ∧ (st.dataRunStart ≠ -1 → st.dataRunStart.toNat = s)
      ∧ (sweepStep code st).dataRunStart = (s : Int)
      ∧ (sweepStep code st).dataRunBytes = bs ++ [code.getD st.offset 0] := by
    unfold sweepStep flushedRegions
    simp only [hv, Bool.false_eq_true, if_false]
    rcases h.run with ⟨r1, r2⟩ | ⟨r1, r2, r3⟩
    · refine ⟨st.offset, [], ?_, rfl, fun hne => absurd r1 hne, ?_, ?_⟩
      · simp [r1]
      · simp [r1]
      · simp [r2]
    · have hne : st.dataRunStart ≠ -1 := by omega
      refine ⟨st.dataRunStart.toNat, st.dataRunBytes, ?_, r3, fun _ => rfl, ?_, rfl⟩
      · simp [hne, r2]
      · simp [hne]
        omega
  obtain ⟨s, bs, hfl, hsum, hst, hrs, hrb⟩ := hrun
  have hfl2 : flushedRegions (sweepStep code st)
      = st.dataRegions ++ [⟨s, bs ++ [code.getD st.offset 0]⟩] := by
    unfold flushedRegions
    rw [hrs, hrb, hdr]
    have : ((s : Int) ≠ -1) := by omega
    simp [this]
  have hold : ∀ g ∈ st.dataRegions, g ∈ flushedRegions st := by
    intro g hg
    rw [hfl]
    exact List.mem_append_left _ hg
  have hbs : bs ≠ [] → (⟨s, bs⟩ : DataRegion) ∈ flushedRegions st := by
    intro hne
    rw [hfl, if_neg hne]
    simp
  refine ⟨⟨?_, ?_, ?_, ?_, ?_, ?_, ?_, ?_, ?_⟩, by omega⟩
  · omega
  · refine Or.inr ⟨by rw [hrs]; omega, by rw [hrb]; simp, ?_⟩
    rw [hrs, hrb, hoff]
    simp
    omega
  · intro k
    rw [hins, hfl2, hoff]
    have := h.cover k
    rw [hfl] at this
    clear hrs hrb hfl2 hfl hst hbs hold
    by_cases hb : bs = []
    · subst hb
      simp only [regionCover, List.countP_append, List.countP_singleton, List.countP_nil, covers,
        if_true, List.nil_append, List.length_singleton, List.length_nil, decide_eq_true_eq,
        Nat.add_zero] at this hsum ⊢
      split_ifs at this ⊢ <;> omega
    · simp only [regionCover, List.countP_append, List.countP_singleton, covers, hb, if_false,
        List.length_append, List.length_singleton, decide_eq_true_eq] at this ⊢
      split_ifs at this ⊢ <;> omega
  · rw [hins, hfl2, hoff]
    have := h.sizes
    rw [hfl] at this
    by_cases hb : bs = []
    · subst hb
      simp only [if_true, List.append_nil, List.nil_append, List.map_append, List.sum_append,
        List.map_cons, List.map_nil, List.sum_cons, List.sum_nil, List.length_singleton] at this ⊢
      omega
    · simp only [hb, if_false, List.map_append, List.sum_append, List.map_cons, List.map_nil,
        List.sum_cons, List.sum_nil, List.length_append, List.length_singleton] at this ⊢
      omega
  · intro r hr
    rw [hins] at hr
    obtain ⟨a, b, c, d⟩ := h.instrs r hr
    exact ⟨a, b, c, by omega⟩
  · rw [hins]
    exact h.instrOrder
  · intro g hg
    rw [hfl2, List.mem_append, List.mem_singleton] at hg
    rcases hg with hg | hg
    · obtain ⟨a, b, c, d⟩ := h.regions g (hold g hg)
      exact ⟨a, by omega, c, d⟩
    · subst hg
      simp only [List.length_append, List.length_singleton]
      refine ⟨by simp, by omega, ?_, ?_⟩
      · rw [take_drop_succ code s bs.length (by omega), hsum]
        congr 1
        by_cases hb : bs = []
        · subst hb; simp
        · exact (h.regions _ (hbs hb)).2.2.1
      · intro k hk1 hk2
        by_cases hk : k = st.offset
        · rw [hk]; exact hv
        · by_cases hb : bs = []
          · subst hb
            simp only [List.length_nil] at hsum hk2
            omega
          · exact (h.regions _ (hbs hb)).2.2.2 k hk1 (by simp only []; omega)
  · intro g hg
    rw [hdr] at hg
    obtain ⟨a, b⟩ := h.closed g hg
    refine ⟨by omega, fun _ => ?_⟩
    rw [hrs]
    simp only [Int.toNat_ofNat]
    by_cases ho : st.dataRunStart = -1
    · rcases h.run with ⟨_, r2⟩ | ⟨r1, _, _⟩
      · by_cases hb : bs = []
        · subst hb
          simp only [List.length_nil] at hsum
          omega
        · have := (h.regions _ (hbs hb))
          have hmem := hbs hb
          unfold flushedRegions at hmem
          rw [if_neg (by simpa using ho)] at hmem
          have := (h.closed _ hmem).1
          simp only [] at this
          omega
      · omega
    · have := b ho
      rw [hst ho] at this
      exact this
  · rw [hdr]
    exact h.regionOrder

theorem sweepStep_inv (code : List Nat) (st : SweepState) (h : SweepInv code st)
    (hlt : st.offset < code.length) :
    SweepInv code (sweepStep code st) ∧ st.offset < (sweepStep code st).offset := by
  cases hv : (decodeInstruction code st.offset).valid with
  | true => exact sweepStep_valid code st h hv
  | false => exact sweepStep_invalid code st h hlt hv

theorem sweepLoop_inv (code : List Nat) :
    ∀ (n : Nat) (st : SweepState), SweepInv code st → code.length ≤ st.offset + n →
      SweepInv code (sweepLoop code n st) ∧ (sweepLoop code n st).offset = code.length := by
  intro n
  induction n with
  | zero =>
    intro st h hn
    have := h.bound
    exact ⟨h, by simp only [sweepLoop]; omega⟩
  | succ n ih =>
    intro st h hn
    rw [sweepLoop_succ]
    by_cases hlt : st.offset < code.length
    · rw [if_pos hlt]
      obtain ⟨h1, h2⟩ := sweepStep_inv code st h hlt
      exact ih _ h1 (by omega)
    · rw [if_neg hlt]
      have := h.bound
      exact ⟨h, by omega⟩

theorem sweepLoop_fuel (code : List Nat) :
    ∀ (n : Nat) (st : SweepState), SweepInv code st → code.length ≤ st.offset + n →
      ∀ m, n ≤ m → sweepLoop code m st = sweepLoop code n st := by
  intro n
  induction n with
  | zero =>
    intro st h hn m _
    cases m with
    | zero => rfl
    | succ m =>
      rw [sweepLoop_succ, if_neg (by omega)]
      rfl
  | succ n ih =>
    intro st h hn m hm
    obtain ⟨m, rfl⟩ : ∃ m1, m = m1 + 1 := ⟨m - 1, by omega⟩
    rw [sweepLoop_succ, sweepLoop_succ]
    by_cases hlt : st.offset < code.length
    · rw [if_pos hlt, if_pos hlt]
      obtain ⟨h1, h2⟩ := sweepStep_inv code st h hlt
      exact ih _ h1 (by omega) m (by omega)
    · rw [if_neg hlt, if_neg hlt]

theorem disassemble_eq (code : List Nat) :
    disassemble code = ((sweepLoop code code.length sweepInit).instructions,
      flushedRegions (sweepLoop code code.length sweepInit)) := rfl

/-- C13. For every byte buffer the sweep loop of the disassembler reaches its exit within
`len` iterations (more fuel changes nothing, and the final offset is `len`); every offset below
`len` lies in exactly one instruction record or data region and no other offset lies in any;
the instruction sizes plus the data-region sizes sum to `len`; the instruction records are in
increasing address order without overlap, each with the positive size the decoder returns at
its address, where decoding succeeds; the data regions are in increasing address order and
never adjacent to one another, each non-empty, holding the bytes of the buffer at its offsets,
at all of which decoding failed. -/
theorem C13_linear_sweep_partitions (code : List Nat) :
    (∀ extra, sweepLoop code (code.length + extra) sweepInit = sweepLoop code code.length sweepInit)
    ∧ (sweepLoop code code.length sweepInit).offset = code.length
    ∧ (∀ k, instrCover (disassemble code).1 k + regionCover (disassemble code).2 k
        = if k < code.length then 1 else 0)
    ∧ ((disassemble code).1.map InstrRecord.size).sum
        + ((disassemble code).2.map (fun g => g.bytes.length)).sum = code.length
    ∧ (disassemble code).1.Pairwise (fun a b => a.addr + a.size ≤ b.addr)
    ∧ (disassemble code).2.Pairwise (fun a b => a.addr + a.bytes.length < b.addr)
    ∧ (∀ r ∈ (disassemble code).1, (decodeInstruction code r.addr).valid = true
        ∧ r.size = (decodeInstruction code r.addr).size ∧ 1 ≤ r.size)
    ∧ (∀ g ∈ (disassemble code).2, g.bytes ≠ []
        ∧ g.bytes = (code.drop g.addr).take g.bytes.length
        ∧ ∀ k, g.addr ≤ k → k < g.addr + g.bytes.length
            → (decodeInstruction code k).valid = false) := by
  have hinit := sweepInv_init code
  have h0 : code.length ≤ sweepInit.offset + code.length := by
    simp [sweepInit]
  obtain ⟨hinv, hoff⟩ := sweepLoop_inv code code.length sweepInit hinit h0
  rw [disassemble_eq]
  simp only []
  refine ⟨fun extra => sweepLoop_fuel code code.length sweepInit hinit h0 _ (by omega), hoff,
    ?_, ?_, hinv.instrOrder, flushed_pairwise code _ hinv, ?_, ?_⟩
  · intro k
    rw [hinv.cover k, hoff]
  · rw [hinv.sizes, hoff]
  · intro r hr
    obtain ⟨a, b, c, _⟩ := hinv.instrs r hr
    exact ⟨a, b, c⟩
  · intro g hg
    obtain ⟨a, _, c, d⟩ := hinv.regions g hg
    exact ⟨a, c, d⟩

/-! ## C14: repeated string compares -/

theorem repLoop_succ (inst : DecodedInst) (ic : Bool) (n : Nat) (s : EmuState) :
    repLoop inst ic (n + 1) s
      = if s.cpu.regs 1 ≠ 0 then
          if ic ∧ inst.hasRep ∧ ¬ (repIter s inst).cpu.getFlag CPU.ZF then repIter s inst
          else if ic ∧ inst.hasRepne ∧ (repIter s inst).cpu.getFlag CPU.ZF then repIter s inst
          else repLoop inst ic n (repIter s inst)
        else s := rfl

theorem stopPosition_zero (stop : Nat → Bool) : stopPosition stop 0 = 0 := rfl

theorem stopPosition_succ (stop : Nat → Bool) (n : Nat) :
    stopPosition stop (n + 1)
      = if stop 0 then 1 else 1 + stopPosition (fun i => stop (i + 1)) n := by
  unfold stopPosition
  rw [List.range_succ_eq_map, List.find?_cons]
  cases h : stop 0
  · simp only [Bool.false_eq_true, if_false]
    rw [List.find?_map]
    cases hf : List.find? (stop ∘ Nat.succ) (List.range n) with
    | none =>
      have : List.find? (fun i => stop (i + 1)) (List.range n) = none := hf
      simp [this]
      omega
    | some i =>
      have : List.find? (fun i => stop (i + 1)) (List.range n) = some i := hf
      simp [this]
      omega
  · simp

theorem sread8_congr (mem : Memory) (seg a b : Nat) (h : a % 65536 = b % 65536) :
    mem.sread8 seg a = mem.sread8 seg b := by
  unfold Memory.sread8 linearAddr
  rw [h]

theorem sread8_lt (mem : Memory) (seg a : Nat) (h : ∀ i, mem.data i < 256 ∧ mem.vram i < 256) :
    mem.sread8 seg a < 256 := by
  unfold Memory.sread8
  simp only []
  split_ifs
  · exact (h _).2
  · exact (h _).1

theorem getReg8_lt (cpu : CPU) (i : Nat) : cpu.getReg8 i < 256 := by
  unfold CPU.getReg8
  split_ifs <;> exact Nat.lt_of_le_of_lt Nat.and_le_right (by norm_num)

theorem updateFlagsSub_zf (cpu : CPU) (a b : Nat) (ha : a < 256) (hb : b < 256) :
    (updateFlagsSub cpu (toU32 ((a : Int) - b)) a b false).getFlag CPU.ZF = decide (a = b)
    ∧ (updateFlagsSub cpu (toU32 ((a : Int) - b)) a b false).getFlag CPU.DF = cpu.getFlag CPU.DF
    ∧ (updateFlagsSub cpu (toU32 ((a : Int) - b)) a b false).regs = cpu.regs
    ∧ (updateFlagsSub cpu (toU32 ((a : Int) - b)) a b false).sregs = cpu.sregs := by
  have hsub := sub_res8 a b ha hb
  have hr : ∀ (c : CPU) (f : Nat) (v : Bool), (c.setFlag f v).regs = c.regs
      ∧ (c.setFlag f v).sregs = c.sregs := by
    intro c f v
    unfold CPU.setFlag
    split_ifs <;> exact ⟨rfl, rfl⟩
  refine ⟨?_, ?_, ?_, ?_⟩
  · simp only [updateFlagsSub, CPU.CF, CPU.AF, CPU.ZF, CPU.SF, CPU.PF, CPU.OF, if_false,
      Bool.false_eq_true, hsub]
    simp (disch := omega) only [getFlag_setFlag]
    simp only [Nat.reduceEqDiff, if_false, if_true]
    congr 1
    apply propext
    constructor <;> intro h <;> omega
  · simp only [updateFlagsSub, CPU.CF, CPU.AF, CPU.ZF, CPU.SF, CPU.PF, CPU.OF, CPU.DF, if_false,
      Bool.false_eq_true]
    simp (disch := omega) only [getFlag_setFlag]
    simp only [Nat.reduceEqDiff, if_false]
  · simp only [updateFlagsSub, hr]
  · simp only [updateFlagsSub, hr]

theorem addReg_regs (cpu : CPU) (i : Nat) (d : Int) (j : Nat) :
    (addReg cpu i d).regs j = if j = i then toU16 ((cpu.regs i : Int) + d) else cpu.regs j := by
  simp [addReg, CPU.setReg, setAt, Nat.mod_eq_of_lt (toU16_lt _)]

theorem addReg_other (cpu : CPU) (i : Nat) (d : Int) :
    (addReg cpu i d).sregs = cpu.sregs ∧ (addReg cpu i d).flags = cpu.flags := ⟨rfl, rfl⟩

theorem addReg_getFlag (cpu : CPU) (i : Nat) (d : Int) (f : Nat) :
    (addReg cpu i d).getFlag f = cpu.getFlag f := rfl

theorem getReg8_congr (c1 c2 : CPU) (i : Nat) (h : c1.regs = c2.regs) :
    c1.getReg8 i = c2.getReg8 i := by
  unfold CPU.getReg8; rw [h]

theorem resolveSegment_congr (c1 c2 : CPU) (op : DecodedOperand) (so : Int)
    (h : c1.sregs = c2.sregs) : resolveSegment c1 op so = resolveSegment c2 op so := by
  unfold resolveSegment; rw [h]

/-- What one iteration of a repeated `CMPSB`/`SCASB` does with DF = 0. -/
theorem repIter_facts (s : EmuState) (inst : DecodedInst)
    (hmn : inst.mnemonic = "CMPSB" ∨ inst.mnemonic = "SCASB")
    (hdf : s.cpu.getFlag CPU.DF = false) (hw : s.WellFormed) :
    (repIter s inst).mem = s.mem
    ∧ (repIter s inst).cpu.sregs = s.cpu.sregs
    ∧ (repIter s inst).cpu.regs 0 = s.cpu.regs 0
    ∧ (repIter s inst).cpu.regs 1 = toU16 ((s.cpu.regs 1 : Int) - 1)
    ∧ (repIter s inst).cpu.regs 6
        = (if inst.mnemonic = "CMPSB" then (s.cpu.regs 6 + 1) % 65536 else s.cpu.regs 6)
    ∧ (repIter s inst).cpu.regs 7 = (s.cpu.regs 7 + 1) % 65536
    ∧ (repIter s inst).cpu.getFlag CPU.ZF = cmpEqualAt s inst 0
    ∧ (repIter s inst).cpu.getFlag CPU.DF = false
    ∧ (repIter s inst).WellFormed := by
  have e1 : lastChar "CMPSB" = 'B' := by decide
  have e2 : String.mk ("CMPSB".data.take 4) = "CMPS" := by decide
  have e3 : lastChar "SCASB" = 'B' := by decide
  have e4 : String.mk ("SCASB".data.take 4) = "SCAS" := by decide
  have hu : ∀ x : Nat, toU16 ((x : Int) + 1) = (x + 1) % 65536 := by
    intro x; unfold toU16; omega
  obtain ⟨hwr, hwm⟩ := hw
  rcases hmn with hm | hm
  · have ha := sread8_lt s.mem (resolveSegment s.cpu inst.op1 inst.segOverride) (s.cpu.regs 6) hwm
    have hb := sread8_lt s.mem (s.cpu.sregs 0) (s.cpu.regs 7) hwm
    obtain ⟨z1, z2, z3, z4⟩ := updateFlagsSub_zf s.cpu _ _ ha hb
    have hd : doOne s inst = { s with cpu := addReg (addReg (updateFlagsSub s.cpu
        (toU32 ((s.mem.sread8 (resolveSegment s.cpu inst.op1 inst.segOverride) (s.cpu.regs 6) : Int)
          - s.mem.sread8 (s.cpu.sregs 0) (s.cpu.regs 7)))
        (s.mem.sread8 (resolveSegment s.cpu inst.op1 inst.segOverride) (s.cpu.regs 6))
        (s.mem.sread8 (s.cpu.sregs 0) (s.cpu.regs 7)) false) 6 1) 7 1 } := by
      simp [doOne, hm, e1, e2, hdf]
    unfold repIter
    rw [hd]
    refine ⟨rfl, ?_, ?_, ?_, ?_, ?_, ?_, ?_, ?_, hwm⟩
    · simp only [addReg_other, z4]
    · simp only [addReg_regs, z3]; simp
    · simp only [addReg_regs, z3]; simp
      rfl
    · simp only [addReg_regs, z3, hm]; simp [hu]
    · simp only [addReg_regs, z3]; simp [hu]
    · simp only [addReg_getFlag, z1]
      simp [cmpEqualAt, hm]
    · simp only [addReg_getFlag, z2, hdf]
    · intro i
      simp only [addReg_regs, z3]
      split_ifs <;> first | exact toU16_lt _ | exact hwr i
  · have ha := getReg8_lt s.cpu 0
    have hb := sread8_lt s.mem (s.cpu.sregs 0) (s.cpu.regs 7) hwm
    obtain ⟨z1, z2, z3, z4⟩ := updateFlagsSub_zf s.cpu _ _ ha hb
    have hd : doOne s inst = { s with cpu := addReg (updateFlagsSub s.cpu
        (toU32 ((s.cpu.getReg8 0 : Int) - s.mem.sread8 (s.cpu.sregs 0) (s.cpu.regs 7)))
        (s.cpu.getReg8 0) (s.mem.sread8 (s.cpu.sregs 0) (s.cpu.regs 7)) false) 7 1 } := by
      simp [doOne, hm, e3, e4, hdf]
    unfold repIter
    rw [hd]
    refine ⟨rfl, ?_, ?_, ?_, ?_, ?_, ?_, ?_, ?_, hwm⟩
    · simp only [addReg_other, z4]
    · simp only [addReg_regs, z3]; simp
    · simp only [addReg_regs, z3]; simp
      rfl
    · simp only [addReg_regs, z3, hm]; simp
    · simp only [addReg_regs, z3]; simp [hu]
    · simp only [addReg_getFlag, z1]
      simp [cmpEqualAt, hm]
    · simp only [addReg_getFlag, z2, hdf]
    · intro i
      simp only [addReg_regs, z3]
      split_ifs <;> first | exact toU16_lt _ | exact hwr i

theorem cmpEqualAt_iter (s : EmuState) (inst : DecodedInst)
    (hmn : inst.mnemonic = "CMPSB" ∨ inst.mnemonic = "SCASB")
    (hdf : s.cpu.getFlag CPU.DF = false) (hw : s.WellFormed) (i : Nat) :
    cmpEqualAt (repIter s inst) inst i = cmpEqualAt s inst (i + 1) := by
  obtain ⟨f1, f2, f3, _, f6, f7, _, _, _⟩ := repIter_facts s inst hmn hdf hw
  unfold cmpEqualAt
  simp only [f1, f2, f6, f7]
  have h7 : s.mem.sread8 (s.cpu.sregs 0) ((s.cpu.regs 7 + 1) % 65536 + i)
      = s.mem.sread8 (s.cpu.sregs 0) (s.cpu.regs 7 + (i + 1)) :=
    sread8_congr _ _ _ _ (by omega)
  have hq : (repIter s inst).cpu.getReg8 0 = s.cpu.getReg8 0 := by
    unfold CPU.getReg8
    simp only [Nat.lt_irrefl, if_true, show (0 : Nat) < 4 from by norm_num, f3]
  have hs : resolveSegment (repIter s inst).cpu inst.op1 inst.segOverride
      = resolveSegment s.cpu inst.op1 inst.segOverride := resolveSegment_congr _ _ _ _ f2
  rw [h7, hq, hs]
  rcases hmn with hm | hm
  · have h6 : s.mem.sread8 (resolveSegment s.cpu inst.op1 inst.segOverride)
        ((s.cpu.regs 6 + 1) % 65536 + i)
        = s.mem.sread8 (resolveSegment s.cpu inst.op1 inst.segOverride)
            (s.cpu.regs 6 + (i + 1)) :=
      sread8_congr _ _ _ _ (by omega)
    simp only [hm, if_true, h6]
  · simp only [hm, String.reduceEq, if_false]

theorem repLoop_compare (inst : DecodedInst)
    (hmn : inst.mnemonic = "CMPSB" ∨ inst.mnemonic = "SCASB")
    (hrep : inst.hasRep ≠ inst.hasRepne) :
    ∀ (c fuel : Nat) (s : EmuState), s.cpu.regs 1 = c → c ≤ fuel →
      s.cpu.getFlag CPU.DF = false → s.WellFormed →
      (repLoop inst true fuel s).cpu.regs 1 = c - stopPosition (repStop s inst) c
      ∧ (repLoop inst true fuel s).cpu.regs 7
          = (s.cpu.regs 7 + stopPosition (repStop s inst) c) % 65536
      ∧ (repLoop inst true fuel s).cpu.regs 6
          = (if inst.mnemonic = "CMPSB" then
              (s.cpu.regs 6 + stopPosition (repStop s inst) c) % 65536
             else s.cpu.regs 6)
      ∧ (0 < c → (repLoop inst true fuel s).cpu.getFlag CPU.ZF
          = cmpEqualAt s inst (stopPosition (repStop s inst) c - 1))
      ∧ (c = 0 → repLoop inst true fuel s = s)
      ∧ 0 < stopPosition (repStop s inst) c + (if c = 0 then 1 else 0)
      ∧ stopPosition (repStop s inst) c ≤ c := by
  intro c
  induction c with
  | zero =>
    intro fuel s hc _ _ hw
    have hs : repLoop inst true fuel s = s := by
      cases fuel with
      | zero => rfl
      | succ f => rw [repLoop_succ]; simp [hc]
    rw [hs, stopPosition_zero]
    have h6 := hw.1 6
    have h7 := hw.1 7
    refine ⟨by omega, by omega, ?_, fun h => absurd h (by omega), fun _ => rfl, by simp, le_refl _⟩
    split_ifs <;> omega
  | succ c ih =>
    intro fuel s hc hf hdf hw
    obtain ⟨f, rfl⟩ : ∃ f, fuel = f + 1 := ⟨fuel - 1, by omega⟩
    obtain ⟨f1, f2, f3, f4, f6, f7, fz, fd, fw⟩ := repIter_facts s inst hmn hdf hw
    have h1r := hw.1 1
    have hcx : (repIter s inst).cpu.regs 1 = c := by
      rw [f4, hc]; unfold toU16; omega
    have hshift : (fun i => repStop s inst (i + 1)) = repStop (repIter s inst) inst := by
      funext i
      unfold repStop
      rw [cmpEqualAt_iter s inst hmn hdf hw i]
    rw [repLoop_succ, stopPosition_succ, hshift]
    have hne : s.cpu.regs 1 ≠ 0 := by omega
    rw [if_pos hne]
    have h6 := hw.1 6
    have h7 := hw.1 7
    by_cases hstop : repStop s inst 0 = true
    · -- the first element stops the loop
      have hres : (if (true = true) ∧ inst.hasRep = true
            ∧ ¬ (repIter s inst).cpu.getFlag CPU.ZF = true then repIter s inst
          else if (true = true) ∧ inst.hasRepne = true
            ∧ (repIter s inst).cpu.getFlag CPU.ZF = true then repIter s inst
          else repLoop inst true f (repIter s inst)) = repIter s inst := by
        rw [fz]
        unfold repStop at hstop
        cases h1 : inst.hasRep <;> cases h2 : inst.hasRepne <;>
          simp [h1, h2] at hrep hstop ⊢ <;> simp [hstop]
      rw [hres, if_pos hstop]
      refine ⟨by omega, f7, ?_, fun _ => fz, fun h => absurd h (by omega), by simp, by omega⟩
      rw [f6]
    · -- the loop goes on with the next element
      have hres : (if (true = true) ∧ inst.hasRep = true
            ∧ ¬ (repIter s inst).cpu.getFlag CPU.ZF = true then repIter s inst
          else if (true = true) ∧ inst.hasRepne = true
            ∧ (repIter s inst).cpu.getFlag CPU.ZF = true then repIter s inst
          else repLoop inst true f (repIter s inst)) = repLoop inst true f (repIter s inst) := by
        rw [fz]
        unfold repStop at hstop
        cases h1 : inst.hasRep <;> cases h2 : inst.hasRepne <;>
          simp [h1, h2] at hrep hstop ⊢ <;> simp [hstop]
      rw [hres, if_neg hstop]
      obtain ⟨i1, i7, i6, iz, i0, ip, il⟩ := ih f (repIter s inst) hcx (by omega) fd fw
      generalize stopPosition (repStop (repIter s inst) inst) c = k at i1 i7 i6 iz i0 ip il ⊢
      refine ⟨by omega, ?_, ?_, fun _ => ?_, fun h => absurd h (by omega), by simp, by omega⟩
      · rw [i7, f7]; omega
      · rw [i6, f6]
        split_ifs <;> omega
      · by_cases hc0 : c = 0
        · rw [i0 hc0, fz]
          have : k = 0 := by omega
          rw [this]
        · rw [iz (by omega), cmpEqualAt_iter s inst hmn hdf hw]
          have hk : 0 < k := by simpa [hc0] using ip
          congr 1
          omega

/-- C14. With DF = 0 and CX = n, executing a `CMPSB` or `SCASB` that carries exactly one of
the prefixes REPE (F3) and REPNE (F2) leaves CX = n - k, DI (and SI for `CMPSB`) advanced by
k modulo 2^16, and for n > 0 leaves ZF telling whether the k-th compared elements were equal,
where k is the position, counted from 1, of the first compared element that differs (REPE) or
matches (REPNE), and n when there is none; for n = 0 the state is unchanged. -/
theorem C14_rep_compare (s : EmuState) (inst : DecodedInst) (n : Nat)
    (hmn : inst.mnemonic = "CMPSB" ∨ inst.mnemonic = "SCASB")
    (hrep : inst.hasRep ≠ inst.hasRepne)
    (hdf : s.cpu.getFlag CPU.DF = false) (hcx : s.cpu.regs 1 = n) (hw : s.WellFormed) :
    (executeInstruction s inst).cpu.regs 1 = n - stopPosition (repStop s inst) n
    ∧ (executeInstruction s inst).cpu.regs 7
        = (s.cpu.regs 7 + stopPosition (repStop s inst) n) % 65536
    ∧ (executeInstruction s inst).cpu.regs 6
        = (if inst.mnemonic = "CMPSB" then
            (s.cpu.regs 6 + stopPosition (repStop s inst) n) % 65536
           else s.cpu.regs 6)
    ∧ (0 < n → (executeInstruction s inst).cpu.getFlag CPU.ZF
        = cmpEqualAt s inst (stopPosition (repStop s inst) n - 1))
    ∧ (n = 0 → executeInstruction s inst = s)
    ∧ stopPosition (repStop s inst) n ≤ n := by
  have hn : n ≤ 65536 := by
    have := hw.1 1
    omega
  have hex : executeInstruction s inst = repLoop inst true 65536 s := by
    have hp : (inst.hasRep || inst.hasRepne) = true := by
      cases h1 : inst.hasRep <;> cases h2 : inst.hasRepne <;> simp_all
    have e2 : String.mk ("CMPSB".data.take 4) = "CMPS" := by decide
    have e4 : String.mk ("SCASB".data.take 4) = "SCAS" := by decide
    have e5 : firstChar "CMPSB" ≠ 'J' := by decide
    have e6 : firstChar "SCASB" ≠ 'J' := by decide
    rcases hmn with hm | hm
    · simp [executeInstruction, hm, isStringOp, e2, hp, e5]
    · simp [executeInstruction, hm, isStringOp, e4, hp, e6]
  rw [hex]
  obtain ⟨a, b, c, d, e, _, g⟩ := repLoop_compare inst hmn hrep n 65536 s hcx hn hdf hw
  exact ⟨a, b, c, d, e, g⟩

/-- C14 at `REPE CMPSB` with CX = 5 over strings that differ at their third byte: three
iterations, CX = 2, SI and DI advanced by 3, ZF clear. -/
theorem C14_rep_compare_witness :
    (executeInstruction compareState repeCmpsb).cpu.regs 1 = 2
    ∧ (executeInstruction compareState repeCmpsb).cpu.regs 7 = 0x303
    ∧ (executeInstruction compareState repeCmpsb).cpu.regs 6 = 0x203
    ∧ (executeInstruction compareState repeCmpsb).cpu.getFlag CPU.ZF = false := by
  have hw : compareState.WellFormed := by
    constructor
    · intro i
      simp only [compareState]
      split_ifs <;> omega
    · intro i
      simp only [compareState, Memory.init]
      constructor
      · split_ifs <;> omega
      · omega
  have h := C14_rep_compare compareState repeCmpsb 5 (Or.inl rfl) (by decide) (by decide) rfl hw
  have hk : stopPosition (repStop compareState repeCmpsb) 5 = 3 := by decide
  rw [hk] at h
  have hz : cmpEqualAt compareState repeCmpsb (3 - 1) = false := by decide
  obtain ⟨h1, h7, h6, hzf, _, _⟩ := h
  refine ⟨h1, h7, ?_, ?_⟩
  · rw [h6]; rfl
  · rw [hzf (by decide), hz]

/-! ## C15: carry-in arithmetic and the flags -/

/-- C15 fails on the code. With the carry flag set on entry, the 8-bit `ADC` of 0x00 and 0x7F
leaves OF clear although the exact sum 0 + 127 + 1 overflows, and the 16-bit `SBB` of 0xFFFF
from any `a` leaves CF clear although the exact difference `a - 0xFFFF - 1` borrows: the
flags are computed from the source operand `b + carry`, truncated to 16 bits. -/
theorem C15_adc_sbb_flags_diverge (cpu : CPU) (a : Nat) (hcf : cpu.getFlag CPU.CF = true)
    (ha : a < 65536) :
    (execALU cpu "ADC" 0x00 0x7F false).1.getFlag CPU.OF = false
    ∧ refAdcOF8 0x00 0x7F 1 = true
    ∧ (execALU cpu "SBB" a 0xFFFF true).1.getFlag CPU.CF = false
    ∧ refSbbCF a 0xFFFF 1 = true := by
  have hcf0 : cpu.getFlag 0 = true := hcf
  refine ⟨?_, by decide, ?_, ?_⟩
  · simp only [execALU, String.reduceEq, if_false, if_true, updateFlagsAdd,
      Bool.false_eq_true, CPU.CF, CPU.AF, CPU.ZF, CPU.SF, CPU.PF, CPU.OF, hcf0]
    simp (disch := omega) only [getFlag_setFlag]
    simp +decide
  · simp only [execALU, String.reduceEq, if_false, if_true, updateFlagsSub,
      CPU.CF, CPU.AF, CPU.ZF, CPU.SF, CPU.PF, CPU.OF, hcf0]
    simp (disch := omega) only [getFlag_setFlag]
    simp
  · unfold refSbbCF
    simp only [decide_eq_true_eq]
    omega

/-- C15 observed on a CPU whose flags hold only CF. -/
theorem C15_adc_sbb_flags_diverge_witness :
    (execALU { CPU.init with flags := 1 } "ADC" 0x00 0x7F false).1.getFlag CPU.OF = false
    ∧ (execALU { CPU.init with flags := 1 } "SBB" 0x1234 0xFFFF true).1.getFlag CPU.CF = false := by
  have h := C15_adc_sbb_flags_diverge { CPU.init with flags := 1 } 0x1234 (by decide) (by decide)
  exact ⟨h.1, h.2.2.1⟩

/-! ## C16: division faults -/

theorem dxax_bits (cpu : CPU) (h0 : cpu.regs 0 < 65536) (h2 : cpu.regs 2 < 65536) :
    ((cpu.regs 2 <<< 16) ||| cpu.regs 0) % 4294967296 = dxax cpu := by
  unfold dxax
  rw [Nat.shiftLeft_eq, Nat.mul_comm]
  have hlt : cpu.regs 0 < 2 ^ 16 := by norm_num; omega
  rw [← Nat.mul_add_lt_is_or hlt]
  norm_num
  omega

theorem low_byte_or (a b : Nat) (hb : b < 256) : ((a &&& 0xFF00) ||| b) &&& 0xFF = b := by
  rw [Nat.and_distrib_right, Nat.and_assoc]
  have : (0xFF00 &&& 0xFF : Nat) = 0 := by decide
  rw [this, Nat.and_zero, Nat.zero_or, and_255]
  omega

theorem byte_pair (c d : Nat) (hc : c < 256) (hd : d < 256) :
    ((c &&& 0xFF) ||| (d <<< 8)) &&& 0xFF = c
    ∧ (((c &&& 0xFF) ||| (d <<< 8)) >>> 8) &&& 0xFF = d := by
  have hc2 : c &&& 0xFF = c := by rw [and_255]; omega
  have hlt : c < 2 ^ 8 := by norm_num; omega
  have e : (c ||| (d <<< 8)) = 2 ^ 8 * d + c := by
    rw [Nat.shiftLeft_eq, Nat.mul_comm, Nat.or_comm, Nat.mul_add_lt_is_or hlt]
  rw [hc2, e, and_255, and_255, Nat.shiftRight_eq_div_pow]
  norm_num
  omega

/-- AL and AH after `setReg8(0, q); setReg8(4, r)`. -/
theorem setReg8_al_ah (cpu : CPU) (q r : Nat) :
    ((cpu.setReg8 0 q).setReg8 4 r).getReg8 0 = q % 256
    ∧ ((cpu.setReg8 0 q).setReg8 4 r).getReg8 4 = r % 256 := by
  have hq : q % 256 < 256 := Nat.mod_lt _ (by norm_num)
  have hr : r % 256 < 256 := Nat.mod_lt _ (by norm_num)
  have hx : ∀ x : Nat, x &&& 255 = x % 256 := and_255
  have hx2 : ∀ x : Nat, x % 256 < 256 := fun x => Nat.mod_lt _ (by norm_num)
  obtain ⟨h2, h3⟩ := byte_pair (((cpu.regs 0 &&& 0xFF00) ||| (q % 256)) % 256) (r % 256)
    (hx2 _) hr
  have h1 := low_byte_or (cpu.regs 0) (q % 256) hq
  rw [and_255] at h1
  simp only [CPU.setReg8, CPU.getReg8, setAt, show (0 : Nat) < 4 from by norm_num,
    show ¬ (4 : Nat) < 4 from by norm_num, if_true, if_false, Nat.sub_self]
  rw [and_255 ((cpu.regs 0 &&& 0xFF00) ||| (q % 256))]
  rw [and_255 ((cpu.regs 0 &&& 0xFF00 ||| q % 256) % 256)] at h2 h3
  rw [Nat.mod_mod] at h2 h3
  exact ⟨by rw [h2, h1], h3⟩

theorem tmod_bounds (a b : Int) (hb : b ≠ 0) :
    -(b.natAbs : Int) < Int.tmod a b ∧ Int.tmod a b < (b.natAbs : Int)
    ∧ (0 ≤ a → 0 ≤ Int.tmod a b) ∧ (a ≤ 0 → Int.tmod a b ≤ 0) := by
  rcases a with m | m <;> rcases b with n | n
  · have hn : n ≠ 0 := by intro h; subst h; exact hb rfl
    have := Nat.mod_lt m (Nat.pos_of_ne_zero hn)
    clear hb
    simp only [Int.tmod, Int.natAbs_ofNat]
    simp only [Int.ofNat_eq_coe]
    have h2 := Int.natCast_mod m n
    have h3 := Nat.mod_le m n
    omega
  · have := Nat.mod_lt m (Nat.succ_pos n)
    clear hb
    simp only [Int.tmod, Int.natAbs_negSucc]
    simp only [Int.ofNat_eq_coe, Nat.succ_eq_add_one] at this ⊢
    have h2 := Int.natCast_mod m (n + 1)
    have h3 := Nat.mod_le m (n + 1)
    omega
  · have hn : n ≠ 0 := by intro h; subst h; exact hb rfl
    have := Nat.mod_lt (m + 1) (Nat.pos_of_ne_zero hn)
    clear hb
    simp only [Int.tmod, Int.natAbs_ofNat]
    simp only [Int.ofNat_eq_coe, Nat.succ_eq_add_one, Int.negSucc_eq] at this ⊢
    omega
  · have := Nat.mod_lt (m + 1) (Nat.succ_pos n)
    clear hb
    simp only [Int.tmod, Int.natAbs_negSucc]
    simp only [Int.ofNat_eq_coe, Nat.succ_eq_add_one, Int.negSucc_eq] at this ⊢
    omega

theorem signed16_toU16 (x : Int) (h1 : -32768 ≤ x) (h2 : x ≤ 32767) :
    signed16 (toU16 x % 65536) = x ∧ toInt16 (toU16 x) = x := by
  unfold signed16 toInt16 toU16
  constructor <;> split_ifs <;> omega

theorem signed8_toU8 (x : Int) (h1 : -128 ≤ x) (h2 : x ≤ 127) :
    signed8 (toU8 x % 256) = x ∧ toInt8 (toU8 x) = x := by
  unfold signed8 toInt8 toU8
  constructor <;> split_ifs <;> omega

theorem toInt16_toU16_wrap (x : Int) (h1 : -32768 ≤ x) (h2 : x ≤ 32768) :
    (toInt16 (toU16 x) > 127 ∨ toInt16 (toU16 x) < -128) ↔ (x > 127 ∨ x < -128) := by
  unfold toInt16 toU16
  split_ifs <;> omega

theorem signed_bounds (x : Nat) (h : x < 65536) :
    -32768 ≤ signed16 x ∧ signed16 x ≤ 32767 := by
  unfold signed16; split_ifs <;> omega

theorem signed8_bounds (x : Nat) (h : x < 256) :
    -128 ≤ signed8 x ∧ signed8 x ≤ 127 ∧ toInt8 (x &&& 0xFF) = signed8 x := by
  have : x &&& 0xFF = x := by rw [and_255]; omega
  rw [this]
  unfold signed8 toInt8; split_ifs <;> omega

theorem tdiv_abs_le (a b : Int) :
    -(a.natAbs : Int) ≤ Int.tdiv a b ∧ Int.tdiv a b ≤ (a.natAbs : Int) := by
  have h := Int.natAbs_tdiv a b
  have h2 := Nat.div_le_self a.natAbs b.natAbs
  have h3 : (Int.tdiv a b).natAbs ≤ a.natAbs := by rw [h]; exact h2
  omega

theorem executeInstruction_div (s : EmuState) (inst : DecodedInst)
    (hmn : inst.mnemonic = "DIV" ∨ inst.mnemonic = "IDIV") :
    executeInstruction s inst
      = execDiv s inst (readOperand s.cpu s.mem inst.op1 inst.segOverride) := by
  rcases hmn with hm | hm <;> simp [executeInstruction, hm]

theorem setReg_ax_dx (cpu : CPU) (q r : Nat) :
    ((cpu.setReg 0 q).setReg 2 r).regs 0 = q % 65536
    ∧ ((cpu.setReg 0 q).setReg 2 r).regs 2 = r % 65536 := by
  simp [CPU.setReg, setAt]

/-- C16. `DIV`/`IDIV` of the operand value `v` (16-bit; 8-bit in the byte form): a zero `v`
halts with "Division by zero"; a quotient above 0xFFFF / 0xFF (`DIV`) or outside
-32768..32767 / -128..127 (`IDIV`) halts with "Division overflow"; in both cases the CPU is
unchanged. Otherwise the run is not halted, AX (AL) holds the quotient and DX (AH) the
remainder, with dividend = quotient * divisor + remainder, the dividend being DX:AX (AX) and,
for `IDIV`, dividend and divisor being read as signed numbers with the quotient truncated
towards zero. The 16-bit `IDIV` of DX:AX = 0x80000000 by -1 is left out: there the C++
division is undefined. -/
theorem C16_division_faults (s : EmuState) (inst : DecodedInst)
    (hmn : inst.mnemonic = "DIV" ∨ inst.mnemonic = "IDIV")
    (hregs : ∀ i, s.cpu.regs i < 65536)
    (hv : readOperand s.cpu s.mem inst.op1 inst.segOverride < 65536)
    (hv8 : inst.wide = false → readOperand s.cpu s.mem inst.op1 inst.segOverride < 256) :
    (readOperand s.cpu s.mem inst.op1 inst.segOverride = 0 →
      executeInstruction s inst = haltWith s "Division by zero")
    ∧ (readOperand s.cpu s.mem inst.op1 inst.segOverride ≠ 0 → inst.mnemonic = "DIV" →
        inst.wide = true →
        (dxax s.cpu / readOperand s.cpu s.mem inst.op1 inst.segOverride > 0xFFFF →
          executeInstruction s inst = haltWith s "Division overflow")
        ∧ (dxax s.cpu / readOperand s.cpu s.mem inst.op1 inst.segOverride ≤ 0xFFFF →
          (executeInstruction s inst).result = s.result
          ∧ (executeInstruction s inst).cpu.regs 0
              = dxax s.cpu / readOperand s.cpu s.mem inst.op1 inst.segOverride
          ∧ (executeInstruction s inst).cpu.regs 2
              = dxax s.cpu % readOperand s.cpu s.mem inst.op1 inst.segOverride
          ∧ dxax s.cpu = (executeInstruction s inst).cpu.regs 0
              * readOperand s.cpu s.mem inst.op1 inst.segOverride
              + (executeInstruction s inst).cpu.regs 2))
    ∧ (readOperand s.cpu s.mem inst.op1 inst.segOverride ≠ 0 → inst.mnemonic = "DIV" →
        inst.wide = false →
        (s.cpu.regs 0 / readOperand s.cpu s.mem inst.op1 inst.segOverride > 0xFF →
          executeInstruction s inst = haltWith s "Division overflow")
        ∧ (s.cpu.regs 0 / readOperand s.cpu s.mem inst.op1 inst.segOverride ≤ 0xFF →
          (executeInstruction s inst).result = s.result
          ∧ (executeInstruction s inst).cpu.getReg8 0
              = s.cpu.regs 0 / readOperand s.cpu s.mem inst.op1 inst.segOverride
          ∧ (executeInstruction s inst).cpu.getReg8 4
              = s.cpu.regs 0 % readOperand s.cpu s.mem inst.op1 inst.segOverride
          ∧ s.cpu.regs 0 = (executeInstruction s inst).cpu.getReg8 0
              * readOperand s.cpu s.mem inst.op1 inst.segOverride
              + (executeInstruction s inst).cpu.getReg8 4))
    ∧ (readOperand s.cpu s.mem inst.op1 inst.segOverride ≠ 0 → inst.mnemonic = "IDIV" →
        inst.wide = true →
        ¬ idivUndefined s.cpu (readOperand s.cpu s.mem inst.op1 inst.segOverride) →
        ((Int.tdiv (signed32 (dxax s.cpu))
              (signed16 (readOperand s.cpu s.mem inst.op1 inst.segOverride)) > 32767
            ∨ Int.tdiv (signed32 (dxax s.cpu))
              (signed16 (readOperand s.cpu s.mem inst.op1 inst.segOverride)) < -32768) →
          executeInstruction s inst = haltWith s "Division overflow")
        ∧ (¬ (Int.tdiv (signed32 (dxax s.cpu))
              (signed16 (readOperand s.cpu s.mem inst.op1 inst.segOverride)) > 32767
            ∨ Int.tdiv (signed32 (dxax s.cpu))
              (signed16 (readOperand s.cpu s.mem inst.op1 inst.segOverride)) < -32768) →
          (executeInstruction s inst).result = s.result
          ∧ signed16 ((executeInstruction s inst).cpu.regs 0)
              = Int.tdiv (signed32 (dxax s.cpu))
                  (signed16 (readOperand s.cpu s.mem inst.op1 inst.segOverride))
          ∧ signed16 ((executeInstruction s inst).cpu.regs 2)
              = Int.tmod (signed32 (dxax s.cpu))
                  (signed16 (readOperand s.cpu s.mem inst.op1 inst.segOverride))
          ∧ signed32 (dxax s.cpu) = signed16 ((executeInstruction s inst).cpu.regs 0)
              * signed16 (readOperand s.cpu s.mem inst.op1 inst.segOverride)
              + signed16 ((executeInstruction s inst).cpu.regs 2)))
    ∧ (readOperand s.cpu s.mem inst.op1 inst.segOverride ≠ 0 → inst.mnemonic = "IDIV" →
        inst.wide = false →
        ((Int.tdiv (signed16 (s.cpu.regs 0))
              (signed8 (readOperand s.cpu s.mem inst.op1 inst.segOverride)) > 127
            ∨ Int.tdiv (signed16 (s.cpu.regs 0))
              (signed8 (readOperand s.cpu s.mem inst.op1 inst.segOverride)) < -128) →
          executeInstruction s inst = haltWith s "Division overflow")
        ∧ (¬ (Int.tdiv (signed16 (s.cpu.regs 0))
              (signed8 (readOperand s.cpu s.mem inst.op1 inst.segOverride)) > 127
            ∨ Int.tdiv (signed16 (s.cpu.regs 0))
              (signed8 (readOperand s.cpu s.mem inst.op1 inst.segOverride)) < -128) →
          (executeInstruction s inst).result = s.result
          ∧ signed8 ((executeInstruction s inst).cpu.getReg8 0)
              = Int.tdiv (signed16 (s.cpu.regs 0))
                  (signed8 (readOperand s.cpu s.mem inst.op1 inst.segOverride))
          ∧ signed8 ((executeInstruction s inst).cpu.getReg8 4)
              = Int.tmod (signed16 (s.cpu.regs 0))
                  (signed8 (readOperand s.cpu s.mem inst.op1 inst.segOverride))
          ∧ signed16 (s.cpu.regs 0) = signed8 ((executeInstruction s inst).cpu.getReg8 0)
              * signed8 (readOperand s.cpu s.mem inst.op1 inst.segOverride)
              + signed8 ((executeInstruction s inst).cpu.getReg8 4))) := by
  rw [executeInstruction_div s inst hmn]
  generalize readOperand s.cpu s.mem inst.op1 inst.segOverride = v at hv hv8 ⊢
  have h0 := hregs 0
  have h2 := hregs 2
  have hd := dxax_bits s.cpu h0 h2
  refine ⟨?_, ?_, ?_, ?_, ?_⟩
  · intro hz
    simp [execDiv, hz]
  · intro hz hm hwd
    have hq : dxax s.cpu / v * v ≤ dxax s.cpu := Nat.div_mul_le_self _ _
    have hr : dxax s.cpu % v < v := Nat.mod_lt _ (by omega)
    have hdm := Nat.div_add_mod (dxax s.cpu) v
    constructor
    · intro ho
      simp [execDiv, hz, hm, hwd, hd, ho]
    · intro ho
      have hno : ¬ (65535 < dxax s.cpu / v) := by omega
      have hr65 : dxax s.cpu % v % 65536 = dxax s.cpu % v := Nat.mod_eq_of_lt (by omega)
      have e : execDiv s inst v
          = { s with cpu := (s.cpu.setReg 0 (dxax s.cpu / v)).setReg 2 (dxax s.cpu % v) } := by
        simp [execDiv, hz, hm, hwd, hd, hno, hr65]
      obtain ⟨e0, e2⟩ := setReg_ax_dx s.cpu (dxax s.cpu / v) (dxax s.cpu % v)
      have e0' := e0.trans (Nat.mod_eq_of_lt (show dxax s.cpu / v < 65536 by omega))
      have e2' := e2.trans (Nat.mod_eq_of_lt (show dxax s.cpu % v < 65536 by omega))
      rw [e]
      refine ⟨rfl, e0', e2', ?_⟩
      simp only [e0', e2']
      rw [Nat.mul_comm]
      omega
  · intro hz hm hwd
    have hv' := hv8 hwd
    have hvm : v &&& 0xFF = v := by rw [and_255]; omega
    have hr : s.cpu.regs 0 % v < v := Nat.mod_lt _ (by omega)
    have hdm := Nat.div_add_mod (s.cpu.regs 0) v
    have hqle : s.cpu.regs 0 / v ≤ s.cpu.regs 0 := Nat.div_le_self _ _
    have hq65 : s.cpu.regs 0 / v % 65536 = s.cpu.regs 0 / v := Nat.mod_eq_of_lt (by omega)
    have hr256 : s.cpu.regs 0 % v % 256 = s.cpu.regs 0 % v := Nat.mod_eq_of_lt (by omega)
    constructor
    · intro ho
      simp [execDiv, hz, hm, hwd, hvm, hq65, ho]
    · intro ho
      have hno : ¬ (255 < s.cpu.regs 0 / v) := by omega
      have e : execDiv s inst v
          = { s with cpu := ((s.cpu.setReg8 0 (s.cpu.regs 0 / v)).setReg8 4
                (s.cpu.regs 0 % v)) } := by
        simp [execDiv, hz, hm, hwd, hvm, hq65, hr256, hno]
      obtain ⟨e0, e4⟩ := setReg8_al_ah s.cpu (s.cpu.regs 0 / v) (s.cpu.regs 0 % v)
      have e0' := e0.trans (Nat.mod_eq_of_lt (show s.cpu.regs 0 / v < 256 by omega))
      have e4' := e4.trans (Nat.mod_eq_of_lt (show s.cpu.regs 0 % v < 256 by omega))
      rw [e]
      refine ⟨rfl, e0', e4', ?_⟩
      simp only [e0', e4']
      rw [Nat.mul_comm]
      omega
  · intro hz hm hwd _hund
    have hne : inst.mnemonic ≠ "DIV" := by rw [hm]; decide
    obtain ⟨hs1, hs2⟩ := signed_bounds v hv
    have hd0 : signed16 v ≠ 0 := by unfold signed16; split_ifs <;> omega
    obtain ⟨tb1, tb2, -, -⟩ := tmod_bounds (signed32 (dxax s.cpu)) (signed16 v) hd0
    have hdm := Int.tdiv_add_tmod (signed32 (dxax s.cpu)) (signed16 v)
    have e : execDiv s inst v
        = if Int.tdiv (signed32 (dxax s.cpu)) (signed16 v) > 32767
              ∨ Int.tdiv (signed32 (dxax s.cpu)) (signed16 v) < -32768
          then haltWith s "Division overflow"
          else { s with cpu := ((s.cpu.setReg 0
                  (toU16 (Int.tdiv (signed32 (dxax s.cpu)) (signed16 v)))).setReg 2
                  (toU16 (toInt16 (toU16 (Int.tmod (signed32 (dxax s.cpu)) (signed16 v)))))) } := by
      unfold execDiv
      simp only [hz, hne, hwd, hd, if_false, if_true]
      rfl
    rw [e]
    constructor
    · intro ho
      rw [if_pos ho]
    · intro ho
      rw [if_neg ho]
      obtain ⟨e0, e2⟩ := setReg_ax_dx s.cpu
        (toU16 (Int.tdiv (signed32 (dxax s.cpu)) (signed16 v)))
        (toU16 (toInt16 (toU16 (Int.tmod (signed32 (dxax s.cpu)) (signed16 v)))))
      obtain ⟨q1, -⟩ := signed16_toU16 (Int.tdiv (signed32 (dxax s.cpu)) (signed16 v))
        (by omega) (by omega)
      obtain ⟨r1, r2⟩ := signed16_toU16 (Int.tmod (signed32 (dxax s.cpu)) (signed16 v))
        (by omega) (by omega)
      have hq : signed16 (({ s with cpu := ((s.cpu.setReg 0
                  (toU16 (Int.tdiv (signed32 (dxax s.cpu)) (signed16 v)))).setReg 2
                  (toU16 (toInt16 (toU16 (Int.tmod (signed32 (dxax s.cpu)) (signed16 v))))))
                  } : EmuState).cpu.regs 0)
          = Int.tdiv (signed32 (dxax s.cpu)) (signed16 v) := by
        show signed16 (((s.cpu.setReg 0 _).setReg 2 _).regs 0) = _
        rw [e0, q1]
      have hr : signed16 (({ s with cpu := ((s.cpu.setReg 0
                  (toU16 (Int.tdiv (signed32 (dxax s.cpu)) (signed16 v)))).setReg 2
                  (toU16 (toInt16 (toU16 (Int.tmod (signed32 (dxax s.cpu)) (signed16 v))))))
                  } : EmuState).cpu.regs 2)
          = Int.tmod (signed32 (dxax s.cpu)) (signed16 v) := by
        show signed16 (((s.cpu.setReg 0 _).setReg 2 _).regs 2) = _
        rw [e2, r2, r1]
      refine ⟨rfl, hq, hr, ?_⟩
      rw [hq, hr, Int.mul_comm]
      exact hdm.symm
  · intro hz hm hwd
    have hne : inst.mnemonic ≠ "DIV" := by rw [hm]; decide
    have hwf : inst.wide = false := hwd
    obtain ⟨hs1, hs2⟩ := signed_bounds (s.cpu.regs 0) h0
    have hv256 := hv8 hwd
    obtain ⟨hb1, hb2, hb3⟩ := signed8_bounds v hv256
    have hd0 : signed8 v ≠ 0 := by
      clear hb1 hb2 hb3
      unfold signed8
      split_ifs <;> omega
    obtain ⟨tb1, tb2, -, -⟩ := tmod_bounds (signed16 (s.cpu.regs 0)) (signed8 v) hd0
    obtain ⟨qb1, qb2⟩ := tdiv_abs_le (signed16 (s.cpu.regs 0)) (signed8 v)
    have hdm := Int.tdiv_add_tmod (signed16 (s.cpu.regs 0)) (signed8 v)
    have hwrap := toInt16_toU16_wrap (Int.tdiv (signed16 (s.cpu.regs 0)) (signed8 v))
      (by omega) (by omega)
    have e : execDiv s inst v
        = if toInt16 (toU16 (Int.tdiv (signed16 (s.cpu.regs 0)) (signed8 v))) > 127
              ∨ toInt16 (toU16 (Int.tdiv (signed16 (s.cpu.regs 0)) (signed8 v))) < -128
          then haltWith s "Division overflow"
          else { s with cpu := ((s.cpu.setReg8 0
                  (toU8 (toInt16 (toU16 (Int.tdiv (signed16 (s.cpu.regs 0)) (signed8 v)))))).setReg8 4
                  (toU8 (toInt8 (toU8 (Int.tmod (signed16 (s.cpu.regs 0)) (signed8 v)))))) } := by
      unfold execDiv
      simp only [hz, hne, hwf, hb3, if_false, if_true]
      rfl
    rw [e]
    constructor
    · intro ho
      rw [if_pos (hwrap.2 ho)]
    · intro ho
      rw [if_neg (fun h => ho (hwrap.1 h))]
      obtain ⟨-, q2⟩ := signed16_toU16 (Int.tdiv (signed16 (s.cpu.regs 0)) (signed8 v))
        (by omega) (by omega)
      obtain ⟨q1, -⟩ := signed8_toU8 (Int.tdiv (signed16 (s.cpu.regs 0)) (signed8 v))
        (by omega) (by omega)
      obtain ⟨r1, r2⟩ := signed8_toU8 (Int.tmod (signed16 (s.cpu.regs 0)) (signed8 v))
        (by omega) (by omega)
      rw [q2, r2]
      obtain ⟨e0, e4⟩ := setReg8_al_ah s.cpu
        (toU8 (Int.tdiv (signed16 (s.cpu.regs 0)) (signed8 v)))
        (toU8 (Int.tmod (signed16 (s.cpu.regs 0)) (signed8 v)))
      have hq : signed8 (({ s with cpu := ((s.cpu.setReg8 0
                  (toU8 (Int.tdiv (signed16 (s.cpu.regs 0)) (signed8 v)))).setReg8 4
                  (toU8 (Int.tmod (signed16 (s.cpu.regs 0)) (signed8 v)))) } : EmuState).cpu.getReg8 0)
          = Int.tdiv (signed16 (s.cpu.regs 0)) (signed8 v) := by
        show signed8 (((s.cpu.setReg8 0 _).setReg8 4 _).getReg8 0) = _
        rw [e0, q1]
      have hr : signed8 (({ s with cpu := ((s.cpu.setReg8 0
                  (toU8 (Int.tdiv (signed16 (s.cpu.regs 0)) (signed8 v)))).setReg8 4
                  (toU8 (Int.tmod (signed16 (s.cpu.regs 0)) (signed8 v)))) } : EmuState).cpu.getReg8 4)
          = Int.tmod (signed16 (s.cpu.regs 0)) (signed8 v) := by
        show signed8 (((s.cpu.setReg8 0 _).setReg8 4 _).getReg8 4) = _
        rw [e4, r1]
      refine ⟨rfl, hq, hr, ?_⟩
      rw [hq, hr, Int.mul_comm]
      exact hdm.symm

/-- C16 at `IDIV BX` with DX:AX = -7 and BX = 2: the run goes on with AX = -3 and DX = -1. -/
theorem C16_division_faults_witness :
    (executeInstruction divState idivBX).result = divState.result
    ∧ signed16 ((executeInstruction divState idivBX).cpu.regs 0) = -3
    ∧ signed16 ((executeInstruction divState idivBX).cpu.regs 2) = -1 := by
  have hv : readOperand divState.cpu divState.mem idivBX.op1 idivBX.segOverride = 2 := by
    decide
  have h := C16_division_faults divState idivBX (Or.inr rfl)
    (by intro i; simp only [divState]; split_ifs <;> omega)
    (by rw [hv]; norm_num) (by intro h; exact absurd h (by decide))
  rw [hv] at h
  obtain ⟨_, _, _, h4, _⟩ := h
  have hq : Int.tdiv (signed32 (dxax divState.cpu)) (signed16 2) = -3 := by decide
  have hr : Int.tmod (signed32 (dxax divState.cpu)) (signed16 2) = -1 := by decide
  obtain ⟨h1, h2, h3, _⟩ := (h4 (by decide) rfl rfl (fun hu => absurd hu.2 (by decide))).2
    (by rw [hq]; decide)
  rw [hq] at h2
  rw [hr] at h3
  exact ⟨h1, h2, h3⟩

/-! ## The main loop: halt bookkeeping and two small programs -/

theorem append_ne_empty (a b : String) (h : a ≠ "") : a ++ b ≠ "" := by
  intro e
  have := congrArg String.length e
  simp [String.length_append] at this
  exact h (String.ext (List.length_eq_zero.1 this.1))

theorem haltStep_refl (s s1 : EmuState) (h : s1.result = s.result) : HaltStep s s1 := by
  left; unfold haltInfo; rw [h]

theorem haltStep_ite (s : EmuState) (c : Prop) [Decidable c] (a b : EmuState)
    (ha : c → HaltStep s a) (hb : ¬ c → HaltStep s b) : HaltStep s (if c then a else b) := by
  split_ifs with h
  · exact ha h
  · exact hb h

theorem haltStep_haltWith (s s0 : EmuState) (reason : String) (h : reason ≠ "") :
    HaltStep s (haltWith s0 reason) := Or.inr ⟨rfl, h⟩

theorem writeOperand_result (s : EmuState) (op : DecodedOperand) (v : Nat) (so : Int) :
    (writeOperand s op v so).result = s.result := by
  unfold writeOperand
  split <;> rfl

theorem push16_result (s : EmuState) (v : Nat) : (push16 s v).result = s.result := rfl

theorem doOne_result (s : EmuState) (inst : DecodedInst) : (doOne s inst).result = s.result := by
  unfold doOne
  simp only []
  split_ifs <;> rfl

theorem repLoop_result (inst : DecodedInst) (b : Bool) :
    ∀ (n : Nat) (s : EmuState), (repLoop inst b n s).result = s.result := by
  intro n
  induction n with
  | zero => intro s; rfl
  | succ n ih =>
    intro s
    unfold repLoop
    simp only []
    split_ifs
    · exact doOne_result s inst
    · exact doOne_result s inst
    · rw [ih]; exact doOne_result s inst
    · rfl

theorem printString_haltInfo (seg off : Nat) :
    ∀ (n i : Nat) (t : Bool) (s : EmuState),
      haltInfo (printString seg off n i t s) = haltInfo s := by
  intro n
  induction n with
  | zero => intro i t s; rfl
  | succ n ih =>
    intro i t s
    unfold printString
    simp only []
    split_ifs
    · rfl
    · rw [ih]; rfl
    · rw [ih]; rfl
    · rw [ih]; rfl

theorem handleInt10_haltInfo (s : EmuState) : haltInfo (handleInt10 s) = haltInfo s := by
  unfold handleInt10
  simp only []
  split_ifs <;> rfl

theorem handleInt21_haltStep (s : EmuState) : HaltStep s (handleInt21 s) := by
  unfold handleInt21
  simp only []
  split_ifs <;>
    first
    | exact Or.inl rfl
    | exact Or.inl (printString_haltInfo _ _ _ _ _ _)
    | exact Or.inr ⟨rfl, append_ne_empty _ _ (append_ne_empty _ _ (by decide))⟩

theorem handleInterrupt_haltStep (s : EmuState) (n : Nat) : HaltStep s (handleInterrupt s n) := by
  unfold handleInterrupt
  split_ifs
  · exact Or.inr ⟨rfl, (by decide : ("INT 20h program terminate" : String) ≠ "")⟩
  · exact handleInt21_haltStep s
  · exact Or.inl (handleInt10_haltInfo s)
  · exact Or.inl rfl

theorem execDiv_haltStep (s : EmuState) (inst : DecodedInst) (v : Nat) :
    HaltStep s (execDiv s inst v) := by
  unfold execDiv
  simp only []
  split_ifs <;> first | exact haltStep_haltWith _ _ _ (by decide) | exact Or.inl rfl

theorem foldl_push_result (l : List Nat) (origSP : Nat) :
    ∀ s : EmuState, (l.foldl
      (fun (st : EmuState) r => push16 st (if r = 4 then origSP else st.cpu.regs r)) s).result
      = s.result := by
  induction l with
  | nil => intro s; rfl
  | cons a l ih => intro s; rw [List.foldl_cons, ih]; rfl

theorem executeInstruction_haltStep (s : EmuState) (inst : DecodedInst) :
    HaltStep s (executeInstruction s inst) := by
  unfold executeInstruction
  simp only []
  repeat' (first | (with_reducible apply haltStep_ite <;> intro _))
  all_goals first
    | with_reducible exact execDiv_haltStep _ _ _
    | with_reducible exact handleInterrupt_haltStep _ _
    | with_reducible exact haltStep_haltWith _ _ _ (append_ne_empty _ _ (by decide))
    | with_reducible exact haltStep_refl _ _ rfl
    | (apply haltStep_refl
       simp only [writeOperand_result, push16_result, repLoop_result, doOne_result,
         foldl_push_result])
    | (split <;> apply haltStep_refl <;> simp only [writeOperand_result])
    | (unfold addSkipped; exact Or.inl rfl)

theorem haltOk_step (s s1 : EmuState) (h : HaltOk (haltInfo s)) (hs : HaltStep s s1) :
    HaltOk (haltInfo s1) := by
  rcases hs with e | ⟨-, e2⟩
  · rw [e]; exact h
  · intro _; exact e2

theorem checkBreakpoints_eq (s : EmuState) (code : List Nat) (config : EmulatorConfig)
    (cycle : Nat) :
    ∃ snaps, checkBreakpoints s code config cycle = withSnaps s snaps := by
  unfold checkBreakpoints
  simp only []
  split_ifs
  · exact ⟨_, rfl⟩
  · exact ⟨_, rfl⟩
  · exact ⟨s.result.snapshots, rfl⟩

theorem checkWatchpoints_eq (prevRegs : Nat → Nat) (code : List Nat) (config : EmulatorConfig)
    (cycle : Nat) (s : EmuState) :
    ∃ snaps, checkWatchpoints s prevRegs code config cycle = withSnaps s snaps := by
  unfold checkWatchpoints
  generalize config.watchRegs = l
  induction l generalizing s with
  | nil => exact ⟨s.result.snapshots, rfl⟩
  | cons a l ih =>
    rw [List.foldl_cons]
    split_ifs
    · obtain ⟨sn, e⟩ := ih (withSnaps s (captureSnapshot s.cpu s.mem code cycle
        ("Watchpoint: " ++ getRegName a 16 ++ " changed from "
          ++ hexImm16 (prevRegs a) ++ " to " ++ hexImm16 (s.cpu.regs a))
        config s.vram s.result.snapshots))
      exact ⟨sn, e⟩
    · exact ih s

theorem loop_pre (s : EmuState) (code : List Nat) (config : EmulatorConfig) (cycle : Nat) :
    ∃ snaps, (if config.breakpoints ≠ [] then checkBreakpoints s code config cycle else s)
      = withSnaps s snaps := by
  split_ifs
  · exact checkBreakpoints_eq s code config cycle
  · exact ⟨s.result.snapshots, rfl⟩

theorem loop_post (s : EmuState) (prevRegs : Nat → Nat) (code : List Nat)
    (config : EmulatorConfig) (cycle : Nat) :
    ∃ snaps, (if config.watchRegs ≠ [] then checkWatchpoints s prevRegs code config cycle else s)
      = withSnaps s snaps := by
  split_ifs
  · exact checkWatchpoints_eq prevRegs code config cycle s
  · exact ⟨s.result.snapshots, rfl⟩

/-- One iteration of the main loop, with the snapshot lists the breakpoint and watchpoint
checks leave. -/
theorem emuLoop_succ (code : List Nat) (config : EmulatorConfig) (n cycle : Nat)
    (s : EmuState) :
    ∃ sn1 sn2, emuLoop code config (n + 1) cycle s =
      if (decodeInstruction code s.cpu.ip).valid = true then
        if (stepState code (withSnaps s sn1)).result.halted = true
        then (cycle + 1, stepState code (withSnaps s sn1))
        else emuLoop code config n (cycle + 1) (withSnaps (stepState code (withSnaps s sn1)) sn2)
      else (cycle, haltWith (withSnaps s sn1) ("Invalid opcode at " ++ hexImm16 s.cpu.ip)) := by
  obtain ⟨sn1, e1⟩ := loop_pre s code config cycle
  obtain ⟨sn2, e2⟩ := loop_post (stepState code (withSnaps s sn1)) s.cpu.regs code config
    (cycle + 1)
  refine ⟨sn1, sn2, ?_⟩
  rw [emuLoop]
  simp only [e1]
  change (if ¬ (decodeInstruction code s.cpu.ip).valid = true
      then (cycle, haltWith (withSnaps s sn1) ("Invalid opcode at " ++ hexImm16 s.cpu.ip))
      else if (stepState code (withSnaps s sn1)).result.halted = true
        then (cycle + 1, stepState code (withSnaps s sn1))
        else emuLoop code config n (cycle + 1)
          (if config.watchRegs ≠ [] then
            checkWatchpoints (stepState code (withSnaps s sn1)) s.cpu.regs code config (cycle + 1)
          else stepState code (withSnaps s sn1))) = _
  rw [e2]
  by_cases hv : (decodeInstruction code s.cpu.ip).valid = true
  · rw [if_neg (not_not.2 hv), if_pos hv]
  · rw [if_pos hv, if_neg hv]

theorem stepState_haltStep (code : List Nat) (s : EmuState) : HaltStep s (stepState code s) := by
  have h := executeInstruction_haltStep
    { s with cpu := { s.cpu with
                      ip := (s.cpu.ip + (decodeInstruction code s.cpu.ip).size) % 65536 } }
    (decodeInstruction code s.cpu.ip)
  exact h

/-- The main loop keeps "a halt has a reason", never counts past the cycles allowed, and
uses all of them unless it halts. -/
theorem emuLoop_spec (code : List Nat) (config : EmulatorConfig) :
    ∀ (n cycle : Nat) (s : EmuState), HaltOk (haltInfo s) →
      HaltOk (haltInfo (emuLoop code config n cycle s).2)
      ∧ (emuLoop code config n cycle s).1 ≤ cycle + n
      ∧ ((emuLoop code config n cycle s).2.result.halted = false →
          (emuLoop code config n cycle s).1 = cycle + n) := by
  intro n
  induction n with
  | zero =>
    intro cycle s h
    rw [emuLoop]
    exact ⟨h, Nat.le_refl _, fun _ => rfl⟩
  | succ n ih =>
    intro cycle s h
    obtain ⟨sn1, sn2, e⟩ := emuLoop_succ code config n cycle s
    rw [e]
    have h1 : HaltOk (haltInfo (stepState code (withSnaps s sn1))) :=
      haltOk_step (withSnaps s sn1) _ h (stepState_haltStep code _)
    split_ifs with hv hh
    · refine ⟨h1, by simp, fun hf => ?_⟩
      rw [hh] at hf
      exact absurd hf (by decide)
    · obtain ⟨i1, i2, i3⟩ := ih (cycle + 1) (withSnaps (stepState code (withSnaps s sn1)) sn2) h1
      refine ⟨i1, by omega, fun hf => ?_⟩
      rw [i3 hf]
      omega
    · refine ⟨fun _ => append_ne_empty _ _ (by decide), by simp, fun hf => ?_⟩
      exact absurd hf (by simp [haltWith])

theorem decode_ret (pre post : List Nat) :
    decodeInstruction (pre ++ 0xC3 :: post) pre.length
      = { DecodedInst.empty with opcode := 0xC3, valid := true, size := 1, mnemonic := "RET" } := by
  rw [decodeInstruction_at pre 0xC3 _ (by decide)]
  simp [decodeOpcode, finish, DecodedInst.empty]

theorem exec_ret (s : EmuState) (inst : DecodedInst) (hm : inst.mnemonic = "RET") :
    executeInstruction s inst
      = { s with cpu := addReg { s.cpu with ip := s.mem.read16 (s.cpu.regs 4) } 4 2 } := by
  unfold executeInstruction
  simp [hm]

theorem code_head (f : Nat → Nat) :
    (List.range 65536).map f = f 0 :: f 1 :: (List.range 65534).map (fun i => f (2 + i)) := by
  have h1 : List.range 65536 = List.range 2 ++ List.map (fun x => 2 + x) (List.range 65534) :=
    List.range_add 2 65534
  have h2 : List.range 2 = [0, 1] := by decide
  rw [h1, h2]
  simp [List.map_map, Function.comp]

/-- The flat memory `runEmulator` starts from: `CD 20` at offsets 0 and 1, the image (cut at
65536 - 0x100 bytes) from offset 0x100 on, zero elsewhere. -/
theorem init_data (binary : List Nat) (config : EmulatorConfig) (a : Nat) :
    (initialState binary config).mem.data a
      = if a = 1 then 0x20 else if a = 0 then 0xCD
        else if 0x100 ≤ a ∧ a < 0x100 + min binary.length (65536 - 0x100)
          then binary.getD (a - 0x100) 0 % 256 else 0 := by
  simp only [initialState, Memory.loadCOM, Memory.write8, VRAMState.clearScreen, Memory.init,
    setAt]
  have hmin : (if binary.length > 65536 - 0x100 then 65536 - 0x100 else binary.length)
      = min binary.length (65536 - 0x100) := by
    split_ifs <;> omega
  rw [hmin]

/-- The run of an image that starts with `RET`: two cycles, then the `INT 20h` at offset 0
ends it. -/
theorem emuLoop_ret (rest : List Nat) (config : EmulatorConfig) (n : Nat)
    (hlen : (0xC3 :: rest).length < 0xFEFE) :
    (emuLoop ((List.range 65536).map (initialState (0xC3 :: rest) config).mem.data) config
        (n + 2) 0 (initialState (0xC3 :: rest) config)).1 = 2
    ∧ (emuLoop ((List.range 65536).map (initialState (0xC3 :: rest) config).mem.data) config
        (n + 2) 0 (initialState (0xC3 :: rest) config)).2.result.halted = true
    ∧ (emuLoop ((List.range 65536).map (initialState (0xC3 :: rest) config).mem.data) config
        (n + 2) 0 (initialState (0xC3 :: rest) config)).2.result.haltReason
        = "INT 20h program terminate"
    ∧ (emuLoop ((List.range 65536).map (initialState (0xC3 :: rest) config).mem.data) config
        (n + 2) 0 (initialState (0xC3 :: rest) config)).2.result.exitCode = 0 := by
  have hd := init_data (0xC3 :: rest) config
  simp only [List.length_cons] at hlen
  have hmin : min (0xC3 :: rest).length (65536 - 0x100) = rest.length + 1 := by
    simp only [List.length_cons]; omega
  -- the bytes the run reads
  have b0 : (initialState (0xC3 :: rest) config).mem.data 0 = 0xCD := by rw [hd]; simp
  have b1 : (initialState (0xC3 :: rest) config).mem.data 1 = 0x20 := by rw [hd]; simp
  have b256 : (initialState (0xC3 :: rest) config).mem.data 256 = 0xC3 := by
    rw [hd, hmin]; simp
  have bFFFE : (initialState (0xC3 :: rest) config).mem.data 0xFFFE = 0 := by
    rw [hd, hmin]
    have : ¬ (0x100 ≤ 0xFFFE ∧ 0xFFFE < 0x100 + (rest.length + 1)) := by omega
    rw [if_neg (by decide), if_neg (by decide), if_neg this]
  have bFFFF : (initialState (0xC3 :: rest) config).mem.data 0xFFFF = 0 := by
    rw [hd, hmin]
    have : ¬ (0x100 ≤ 0xFFFF ∧ 0xFFFF < 0x100 + (rest.length + 1)) := by omega
    rw [if_neg (by decide), if_neg (by decide), if_neg this]
  -- the two instructions
  have d1 : decodeInstruction ((List.range 65536).map (initialState (0xC3 :: rest) config).mem.data)
      256 = { DecodedInst.empty with opcode := 0xC3, valid := true, size := 1,
                                     mnemonic := "RET" } := by
    have e := code_split (initialState (0xC3 :: rest) config).mem.data
    rw [b256] at e
    rw [e]
    have h := decode_ret ((List.range 256).map (initialState (0xC3 :: rest) config).mem.data)
      ((initialState (0xC3 :: rest) config).mem.data 257
        :: (initialState (0xC3 :: rest) config).mem.data 258
        :: (initialState (0xC3 :: rest) config).mem.data 259
        :: (initialState (0xC3 :: rest) config).mem.data 260
        :: (initialState (0xC3 :: rest) config).mem.data 261
        :: (initialState (0xC3 :: rest) config).mem.data 262
        :: (initialState (0xC3 :: rest) config).mem.data 263
        :: (List.range 65272).map (fun i => (initialState (0xC3 :: rest) config).mem.data (264 + i)))
    simpa using h
  have d2 : decodeInstruction ((List.range 65536).map (initialState (0xC3 :: rest) config).mem.data)
      0 = { DecodedInst.empty with opcode := 0xCD, valid := true, size := 2, mnemonic := "INT",
                                   op1 := makeImm8 0x20 } := by
    have e := code_head (initialState (0xC3 :: rest) config).mem.data
    rw [b0, b1] at e
    rw [e]
    exact decode_int []
      ((List.range 65534).map (fun i => (initialState (0xC3 :: rest) config).mem.data (2 + i)))
      0x20
  generalize hcode : (List.range 65536).map (initialState (0xC3 :: rest) config).mem.data = code
    at d1 d2 ⊢
  have i1 : (initialState (0xC3 :: rest) config).cpu.ip = 256 := rfl
  have i2 : (initialState (0xC3 :: rest) config).cpu.regs 4 = 0xFFFE := by
    simp [initialState, setAt]
  have i3 : (initialState (0xC3 :: rest) config).result.halted = false := rfl
  generalize initialState (0xC3 :: rest) config = s0 at b0 b1 b256 bFFFE bFFFF i1 i2 i3 ⊢
  -- first cycle: RET
  obtain ⟨sn1, sn2, e1⟩ := emuLoop_succ code config (n + 1) 0 s0
  rw [show n + 2 = (n + 1) + 1 from rfl, e1, i1, d1]
  have hs1 : stepState code (withSnaps s0 sn1)
      = { withSnaps s0 sn1 with cpu := addReg { s0.cpu with ip := 0 } 4 2 } := by
    unfold stepState
    have hip : (withSnaps s0 sn1).cpu.ip = 256 := i1
    rw [hip, d1, exec_ret _ _ rfl]
    have hr : (withSnaps s0 sn1).mem.read16 ((withSnaps s0 sn1).cpu.regs 4) = 0 := by
      show s0.mem.read16 (s0.cpu.regs 4) = 0
      rw [i2]
      simp [Memory.read16, bFFFE, bFFFF]
    simp only [hr]
    rfl
  rw [hs1]
  simp only [if_true]
  have hh1 : ({ withSnaps s0 sn1 with cpu := addReg { s0.cpu with ip := 0 } 4 2 }
      : EmuState).result.halted = false := i3
  rw [hh1]
  simp only [Bool.false_eq_true, if_false]
  -- second cycle: INT 20h at offset 0
  generalize hS1 : withSnaps ({ withSnaps s0 sn1 with cpu := addReg { s0.cpu with ip := 0 } 4 2 }
      : EmuState) sn2 = S1
  have j1 : S1.cpu.ip = 0 := by rw [← hS1]; rfl
  obtain ⟨sn3, sn4, e2⟩ := emuLoop_succ code config n (0 + 1) S1
  rw [e2, j1, d2]
  have hs2 : stepState code (withSnaps S1 sn3)
      = handleInterrupt { withSnaps S1 sn3 with cpu := { S1.cpu with ip := 2 } } 0x20 := by
    unfold stepState
    have hip : (withSnaps S1 sn3).cpu.ip = 0 := j1
    rw [hip, d2, exec_int _ _ 0x20 rfl rfl]
    rfl
  rw [hs2]
  simp [handleInterrupt]

theorem decode_jmp_self (pre post : List Nat) (hlen : pre.length = 256) :
    (decodeInstruction (pre ++ 0xEB :: 0xFE :: post) pre.length).valid = true
    ∧ (decodeInstruction (pre ++ 0xEB :: 0xFE :: post) pre.length).mnemonic = "JMP"
    ∧ (decodeInstruction (pre ++ 0xEB :: 0xFE :: post) pre.length).jumpTarget = 256 := by
  rw [decodeInstruction_at pre 0xEB _ (by decide), hlen]
  simp [decodeOpcode, hasBytesAt, finish, readSignedByte, readByte, DecodedInst.empty]

theorem exec_jmp (s : EmuState) (inst : DecodedInst) (hm : inst.mnemonic = "JMP")
    (ht : inst.jumpTarget = 256) :
    executeInstruction s inst = { s with cpu := { s.cpu with ip := 256 } } := by
  unfold executeInstruction
  simp [hm, ht, toU16]

/-- The program `JMP $` never halts: the main loop uses every cycle it is given. -/
theorem emuLoop_spin (code : List Nat) (config : EmulatorConfig)
    (hv : (decodeInstruction code 256).valid = true)
    (hm : (decodeInstruction code 256).mnemonic = "JMP")
    (ht : (decodeInstruction code 256).jumpTarget = 256) :
    ∀ (n cycle : Nat) (s : EmuState), s.cpu.ip = 256 → s.result.halted = false →
      (emuLoop code config n cycle s).2.result.halted = false := by
  intro n
  induction n with
  | zero =>
    intro cycle s _ hh
    rw [emuLoop]
    exact hh
  | succ n ih =>
    intro cycle s hip hh
    obtain ⟨sn1, sn2, e⟩ := emuLoop_succ code config n cycle s
    have hs : stepState code (withSnaps s sn1)
        = { withSnaps s sn1 with cpu := { s.cpu with ip := 256 } } := by
      unfold stepState
      have hip1 : (withSnaps s sn1).cpu.ip = 256 := hip
      rw [hip1, exec_jmp _ _ hm ht]
      rfl
    rw [e, hip, if_pos hv, hs]
    have hh1 : ({ withSnaps s sn1 with cpu := { s.cpu with ip := 256 } }
        : EmuState).result.halted = false := hh
    rw [hh1]
    simp only [Bool.false_eq_true, if_false]
    exact ih _ _ rfl hh

/-- The program `JMP $` (bytes `EB FE`) has not halted when the main loop ends. -/
theorem spin_not_halted (config : EmulatorConfig) :
    (emuLoop ((List.range 65536).map (initialState [0xEB, 0xFE] config).mem.data) config
        config.maxCycles.toNat 0 (initialState [0xEB, 0xFE] config)).2.result.halted = false := by
  have hd := init_data [0xEB, 0xFE] config
  have b256 : (initialState [0xEB, 0xFE] config).mem.data 256 = 0xEB := by rw [hd]; simp
  have b257 : (initialState [0xEB, 0xFE] config).mem.data 257 = 0xFE := by rw [hd]; simp
  have e := code_split (initialState [0xEB, 0xFE] config).mem.data
  rw [b256, b257] at e
  obtain ⟨d1, d2, d3⟩ := decode_jmp_self
    ((List.range 256).map (initialState [0xEB, 0xFE] config).mem.data)
    ((initialState [0xEB, 0xFE] config).mem.data 258
      :: (initialState [0xEB, 0xFE] config).mem.data 259
      :: (initialState [0xEB, 0xFE] config).mem.data 260
      :: (initialState [0xEB, 0xFE] config).mem.data 261
      :: (initialState [0xEB, 0xFE] config).mem.data 262
      :: (initialState [0xEB, 0xFE] config).mem.data 263
      :: (List.range 65272).map (fun i => (initialState [0xEB, 0xFE] config).mem.data (264 + i)))
    (by simp)
  rw [← e] at d1 d2 d3
  simp only [List.length_map, List.length_range] at d1 d2 d3
  exact emuLoop_spin _ config d1 d2 d3 _ 0 _ rfl rfl

theorem runEmulator_halted_flag (binary : List Nat) (cfg : EmulatorConfig)
    (h : (emuLoop ((List.range 65536).map (initialState binary cfg).mem.data) cfg
            cfg.maxCycles.toNat 0 (initialState binary cfg)).2.result.halted = true) :
    (runEmulator binary cfg).1.halted = true := by
  unfold runEmulator
  dsimp only
  generalize emuLoop ((List.range 65536).map (initialState binary cfg).mem.data) cfg
    cfg.maxCycles.toNat 0 (initialState binary cfg) = r at h ⊢
  obtain ⟨cy, sf⟩ := r
  simp only at h
  simp [h]

/-! ## C17: every defined run ends with a reported halt -/

theorem decode_mov_r16_imm16 (pre post : List Nat) (op r w : Nat) (hw : w < 65536)
    (h : (op, r) ∈ [(0xBA, 2), (0xBB, 3)]) :
    decodeInstruction (pre ++ op :: (w % 256) :: (w / 256) :: post) pre.length
      = { DecodedInst.empty with opcode := op, valid := true, size := 3, mnemonic := "MOV",
                                 wide := true, op1 := makeReg16 r, op2 := makeImm16 w } := by
  have hnp : op ∉ [0xF2, 0xF3, 0x26, 0x2E, 0x36, 0x3E] := by
    fin_cases h <;> decide
  have hr : readWord (op :: (w % 256) :: (w / 256) :: post) 1 = w := by
    have := readWord_at_length [op] w hw post
    simpa using this
  rw [decodeInstruction_at pre op _ hnp]
  fin_cases h <;>
    simp [decodeOpcode, hasBytesAt, hr, finish, DecodedInst.empty, makeReg16] <;>
    exact ⟨by decide, by decide⟩

theorem exec_mov_r16_imm16 (s : EmuState) (inst : DecodedInst) (r w : Nat)
    (hm : inst.mnemonic = "MOV") (h1 : inst.op1 = makeReg16 r) (h2 : inst.op2 = makeImm16 w) :
    executeInstruction s inst = { s with cpu := s.cpu.setReg (r &&& 7) (w % 65536) } := by
  unfold executeInstruction
  have e : ((w : Int) % 65536).toNat = w % 65536 := by omega
  simp [hm, h1, h2, readOperand, writeOperand, makeReg16, makeImm16, toU16, e]

/-- The bytes `F7 FB` decode to `IDIV BX`. -/
theorem decode_idiv_bx (pre post : List Nat) :
    (decodeInstruction (pre ++ 0xF7 :: 0xFB :: post) pre.length).valid = true
    ∧ (decodeInstruction (pre ++ 0xF7 :: 0xFB :: post) pre.length).mnemonic = "IDIV"
    ∧ (decodeInstruction (pre ++ 0xF7 :: 0xFB :: post) pre.length).wide = true
    ∧ (decodeInstruction (pre ++ 0xF7 :: 0xFB :: post) pre.length).op1.kind = .REG16
    ∧ (decodeInstruction (pre ++ 0xF7 :: 0xFB :: post) pre.length).op1.reg = 3 := by
  rw [decodeInstruction_at pre 0xF7 _ (by decide)]
  have hm : decodeModRM (0xF7 :: 0xFB :: post) 1 16
      = { operand := "BX", reg := 7, bytesConsumed := 1, mod := 3, rm := 3, isReg := true,
          disp := 0 } := by
    simp [decodeModRM, hasBytesAt, readByte]
    decide
  simp [decodeOpcode, hm, finish, DecodedInst.empty, modrmToOperand, addSizePrefix]

theorem step_mov16 (code : List Nat) (cfg : EmulatorConfig) (n cycle : Nat) (s : EmuState)
    (hbp : cfg.breakpoints = []) (hw : cfg.watchRegs = []) (r w : Nat) (inst : DecodedInst)
    (hd : decodeInstruction code s.cpu.ip = inst) (hv : inst.valid = true)
    (hm : inst.mnemonic = "MOV") (h1 : inst.op1 = makeReg16 r) (h2 : inst.op2 = makeImm16 w)
    (hh : s.result.halted = false) :
    emuLoop code cfg (n + 1) cycle s
      = emuLoop code cfg n (cycle + 1)
          { s with cpu := (CPU.setReg { s.cpu with ip := (s.cpu.ip + inst.size) % 65536 }
              (r &&& 7) (w % 65536)) } := by
  rw [emuLoop_step code cfg n cycle s hbp hw (by rw [hd]; exact hv), hd,
    exec_mov_r16_imm16 _ inst r w hm h1 h2]
  simp [hh]

/-- The image `MOV DX, 8000h / MOV BX, 0FFFFh / IDIV BX` in the code vector of the run. -/
theorem idiv_code (cfg : EmulatorConfig) :
    ∃ pre post : List Nat, pre.length = 256 ∧
      (List.range 65536).map
          (initialState [0xBA, 0x00, 0x80, 0xBB, 0xFF, 0xFF, 0xF7, 0xFB] cfg).mem.data
        = pre ++ (0xBA :: 0x00 :: 0x80 :: 0xBB :: 0xFF :: 0xFF :: 0xF7 :: 0xFB :: post) := by
  refine ⟨(List.range 256).map
      (initialState [0xBA, 0x00, 0x80, 0xBB, 0xFF, 0xFF, 0xF7, 0xFB] cfg).mem.data,
    (List.range 65272).map (fun i =>
      (initialState [0xBA, 0x00, 0x80, 0xBB, 0xFF, 0xFF, 0xF7, 0xFB] cfg).mem.data (264 + i)),
    by simp, ?_⟩
  rw [code_split]
  rfl

/-- Two cycles of `MOV DX, 8000h / MOV BX, 0FFFFh`: the run has not halted, IP is at the
`IDIV BX` that follows, and DX:AX = 8000:0000h, BX = 0FFFFh. -/
theorem emuLoop_idiv (pre post : List Nat) (cfg : EmulatorConfig)
    (hbp : cfg.breakpoints = []) (hw : cfg.watchRegs = []) (s : EmuState)
    (hlen : pre.length = 256) (hip : s.cpu.ip = 256) (h0 : s.cpu.regs 0 = 0)
    (hh : s.result.halted = false) :
    (emuLoop (pre ++ (0xBA :: 0x00 :: 0x80 :: 0xBB :: 0xFF :: 0xFF :: 0xF7 :: 0xFB :: post))
        cfg 2 0 s).2.result.halted = false
    ∧ (emuLoop (pre ++ (0xBA :: 0x00 :: 0x80 :: 0xBB :: 0xFF :: 0xFF :: 0xF7 :: 0xFB :: post))
        cfg 2 0 s).2.cpu.ip = 262
    ∧ (emuLoop (pre ++ (0xBA :: 0x00 :: 0x80 :: 0xBB :: 0xFF :: 0xFF :: 0xF7 :: 0xFB :: post))
        cfg 2 0 s).2.cpu.regs 0 = 0
    ∧ (emuLoop (pre ++ (0xBA :: 0x00 :: 0x80 :: 0xBB :: 0xFF :: 0xFF :: 0xF7 :: 0xFB :: post))
        cfg 2 0 s).2.cpu.regs 2 = 0x8000
    ∧ (emuLoop (pre ++ (0xBA :: 0x00 :: 0x80 :: 0xBB :: 0xFF :: 0xFF :: 0xF7 :: 0xFB :: post))
        cfg 2 0 s).2.cpu.regs 3 = 0xFFFF := by
  have d1 := decode_mov_r16_imm16 pre (0xBB :: 0xFF :: 0xFF :: 0xF7 :: 0xFB :: post)
    0xBA 2 0x8000 (by decide) (by decide)
  have d2 := decode_mov_r16_imm16 (pre ++ [0xBA, 0x00, 0x80]) (0xF7 :: 0xFB :: post)
    0xBB 3 0xFFFF (by decide) (by decide)
  simp only [List.length_append, List.length_cons, List.length_nil, hlen, List.append_assoc,
    List.cons_append, List.nil_append] at d1 d2
  norm_num at d1 d2
  generalize pre ++ (0xBA :: 0x00 :: 0x80 :: 0xBB :: 0xFF :: 0xFF :: 0xF7 :: 0xFB :: post) = code
    at d1 d2 ⊢
  obtain ⟨i1, e1, v1, m1, o1, p1, z1⟩ : ∃ i, decodeInstruction code 256 = i ∧ i.valid = true
      ∧ i.mnemonic = "MOV" ∧ i.op1 = makeReg16 2 ∧ i.op2 = makeImm16 0x8000 ∧ i.size = 3 :=
    ⟨_, d1, rfl, rfl, rfl, rfl, rfl⟩
  obtain ⟨i2, e2, v2, m2, o2, p2, z2⟩ : ∃ i, decodeInstruction code 259 = i ∧ i.valid = true
      ∧ i.mnemonic = "MOV" ∧ i.op1 = makeReg16 3 ∧ i.op2 = makeImm16 0xFFFF ∧ i.size = 3 :=
    ⟨_, d2, rfl, rfl, rfl, rfl, rfl⟩
  clear d1 d2
  have k2 : (2 &&& 7 : Nat) = 2 := rfl
  have k3 : (3 &&& 7 : Nat) = 3 := rfl
  -- MOV DX, 8000h
  rw [show (2 : Nat) = 1 + 1 from rfl,
    step_mov16 code cfg 1 0 s hbp hw 2 0x8000 i1 (by rw [hip]; exact e1) v1 m1 o1 p1 hh]
  generalize hS1 : ({ s with cpu := (CPU.setReg { s.cpu with ip := (s.cpu.ip + i1.size) % 65536 }
      (2 &&& 7) (0x8000 % 65536)) } : EmuState) = S1
  have a1 : S1.cpu.ip = 259 := by rw [← hS1]; simp [CPU.setReg, hip, z1]
  have a2 : S1.result.halted = false := by rw [← hS1]; exact hh
  have a3 : S1.cpu.regs 0 = 0 := by rw [← hS1]; simp [CPU.setReg, setAt, h0, k2]
  have a4 : S1.cpu.regs 2 = 0x8000 := by rw [← hS1]; simp [CPU.setReg, setAt, k2]
  clear hS1
  -- MOV BX, 0FFFFh
  rw [show (1 : Nat) = 0 + 1 from rfl,
    step_mov16 code cfg 0 (0 + 1) S1 hbp hw 3 0xFFFF i2 (by rw [a1]; exact e2) v2 m2 o2 p2 a2]
  generalize hS2 : ({ S1 with cpu := (CPU.setReg
      { S1.cpu with ip := (S1.cpu.ip + i2.size) % 65536 } (3 &&& 7) (0xFFFF % 65536)) }
      : EmuState) = S2
  have b1 : S2.cpu.ip = 262 := by rw [← hS2]; simp [CPU.setReg, a1, z2]
  have b2 : S2.result.halted = false := by rw [← hS2]; exact a2
  have b3 : S2.cpu.regs 0 = 0 := by rw [← hS2]; simp [CPU.setReg, setAt, a3, k3]
  have b4 : S2.cpu.regs 2 = 0x8000 := by rw [← hS2]; simp [CPU.setReg, setAt, a4, k3]
  have b5 : S2.cpu.regs 3 = 0xFFFF := by rw [← hS2]; simp [CPU.setReg, setAt, k3]
  clear hS2
  rw [emuLoop]
  exact ⟨b2, b1, b3, b4, b5⟩

/-- The run of `MOV DX, 8000h / MOV BX, 0FFFFh / IDIV BX` arrives at the division of
-2^31 by -1, which C++ leaves undefined. -/
theorem idiv_run_undefined (cfg : EmulatorConfig)
    (hbp : cfg.breakpoints = []) (hw : cfg.watchRegs = []) :
    undefinedAt [0xBA, 0x00, 0x80, 0xBB, 0xFF, 0xFF, 0xF7, 0xFB] cfg 2 := by
  obtain ⟨pre, post, hlen, hcode⟩ := idiv_code cfg
  have h0 : (initialState [0xBA, 0x00, 0x80, 0xBB, 0xFF, 0xFF, 0xF7, 0xFB] cfg).cpu.regs 0 = 0 := by
    simp [initialState, setAt, CPU.init]
  obtain ⟨r1, r2, r3, r4, r5⟩ := emuLoop_idiv pre post cfg hbp hw
    (initialState [0xBA, 0x00, 0x80, 0xBB, 0xFF, 0xFF, 0xF7, 0xFB] cfg) hlen rfl h0 rfl
  obtain ⟨d1, d2, d3, d4, d5⟩ := decode_idiv_bx (pre ++ [0xBA, 0x00, 0x80, 0xBB, 0xFF, 0xFF]) post
  simp only [List.length_append, List.length_cons, List.length_nil, hlen, List.append_assoc,
    List.cons_append, List.nil_append] at d1 d2 d3 d4 d5
  norm_num at d1 d2 d3 d4 d5
  unfold undefinedAt stateAfter
  rw [hcode]
  generalize emuLoop (pre ++ (0xBA :: 0x00 :: 0x80 :: 0xBB :: 0xFF :: 0xFF :: 0xF7 :: 0xFB :: post))
    cfg 2 0 (initialState [0xBA, 0x00, 0x80, 0xBB, 0xFF, 0xFF, 0xF7, 0xFB] cfg) = r
    at r1 r2 r3 r4 r5 ⊢
  rw [r2]
  refine ⟨r1, d1, Or.inr (Or.inr (Or.inr ⟨d2, d3, ?_, ?_⟩))⟩
  · simp only [dxax, r3, r4, signed32]
    decide
  · have hr : readOperand r.2.cpu r.2.mem
        (decodeInstruction
          (pre ++ (0xBA :: 0x00 :: 0x80 :: 0xBB :: 0xFF :: 0xFF :: 0xF7 :: 0xFB :: post)) 262).op1
        (decodeInstruction
          (pre ++ (0xBA :: 0x00 :: 0x80 :: 0xBB :: 0xFF :: 0xFF :: 0xF7 :: 0xFB :: post)) 262).segOverride
        = 0xFFFF := by
      simp only [readOperand, d4, d5, r5]
    rw [hr]
    decide

theorem decode_jmp_self_defined (pre post : List Nat) (cpu : CPU) (mem : Memory) :
    ¬ undefinedStep cpu mem (decodeInstruction (pre ++ 0xEB :: 0xFE :: post) pre.length) := by
  rw [decodeInstruction_at pre 0xEB _ (by decide)]
  simp [decodeOpcode, hasBytesAt, finish, readSignedByte, readByte, DecodedInst.empty,
    undefinedStep, operandOutOfRange, makeImm16, DecodedOperand.empty]

/-- The program `JMP $` stays at its instruction and never halts. -/
theorem emuLoop_spin_state (code : List Nat) (config : EmulatorConfig)
    (hv : (decodeInstruction code 256).valid = true)
    (hm : (decodeInstruction code 256).mnemonic = "JMP")
    (ht : (decodeInstruction code 256).jumpTarget = 256) :
    ∀ (n cycle : Nat) (s : EmuState), s.cpu.ip = 256 → s.result.halted = false →
      (emuLoop code config n cycle s).2.cpu.ip = 256
      ∧ (emuLoop code config n cycle s).2.result.halted = false := by
  intro n
  induction n with
  | zero =>
    intro cycle s hip hh
    rw [emuLoop]
    exact ⟨hip, hh⟩
  | succ n ih =>
    intro cycle s hip hh
    obtain ⟨sn1, sn2, e⟩ := emuLoop_succ code config n cycle s
    have hs : stepState code (withSnaps s sn1)
        = { withSnaps s sn1 with cpu := { s.cpu with ip := 256 } } := by
      unfold stepState
      have hip1 : (withSnaps s sn1).cpu.ip = 256 := hip
      rw [hip1, exec_jmp _ _ hm ht]
      rfl
    rw [e, hip, if_pos hv, hs]
    have hh1 : ({ withSnaps s sn1 with cpu := { s.cpu with ip := 256 } }
        : EmuState).result.halted = false := hh
    rw [hh1]
    simp only [Bool.false_eq_true, if_false]
    exact ih _ _ rfl hh

/-- The run of `JMP $` (bytes `EB FE`) executes no instruction without defined behaviour. -/
theorem spin_defined (config : EmulatorConfig) (k : Nat) :
    ¬ undefinedAt [0xEB, 0xFE] config k := by
  have hd := init_data [0xEB, 0xFE] config
  have b256 : (initialState [0xEB, 0xFE] config).mem.data 256 = 0xEB := by rw [hd]; simp
  have b257 : (initialState [0xEB, 0xFE] config).mem.data 257 = 0xFE := by rw [hd]; simp
  have e := code_split (initialState [0xEB, 0xFE] config).mem.data
  rw [b256, b257] at e
  obtain ⟨d1, d2, d3⟩ := decode_jmp_self
    ((List.range 256).map (initialState [0xEB, 0xFE] config).mem.data)
    ((initialState [0xEB, 0xFE] config).mem.data 258
      :: (initialState [0xEB, 0xFE] config).mem.data 259
      :: (initialState [0xEB, 0xFE] config).mem.data 260
      :: (initialState [0xEB, 0xFE] config).mem.data 261
      :: (initialState [0xEB, 0xFE] config).mem.data 262
      :: (initialState [0xEB, 0xFE] config).mem.data 263
      :: (List.range 65272).map (fun i => (initialState [0xEB, 0xFE] config).mem.data (264 + i)))
    (by simp)
  have d4 := fun cpu mem => decode_jmp_self_defined
    ((List.range 256).map (initialState [0xEB, 0xFE] config).mem.data)
    ((initialState [0xEB, 0xFE] config).mem.data 258
      :: (initialState [0xEB, 0xFE] config).mem.data 259
      :: (initialState [0xEB, 0xFE] config).mem.data 260
      :: (initialState [0xEB, 0xFE] config).mem.data 261
      :: (initialState [0xEB, 0xFE] config).mem.data 262
      :: (initialState [0xEB, 0xFE] config).mem.data 263
      :: (List.range 65272).map (fun i => (initialState [0xEB, 0xFE] config).mem.data (264 + i)))
    cpu mem
  rw [← e] at d1 d2 d3 d4
  simp only [List.length_map, List.length_range] at d1 d2 d3 d4
  have hs := emuLoop_spin_state _ config d1 d2 d3 k 0 (initialState [0xEB, 0xFE] config) rfl rfl
  intro hu
  unfold undefinedAt stateAfter at hu
  rw [hs.1] at hu
  exact d4 _ _ hu.2.2

/-- C17. Every run that stays inside the defined behaviour of the source ends with a reported
halt. The run of `binary` under `config` stays inside it when the configuration is in range
(`configInRange`: watched registers are register indices 0..7, `maxCycles` is below the
largest `int`) and no iteration of the main loop executes an instruction without defined
behaviour (`undefinedAt`: a segment-register index above 3, the `int32_t` division of -2^31
by -1). Then `runEmulator` returns `halted = true` with a non-empty reason, and
for `maxCycles >= 0` at most `maxCycles` executed cycles. When the main loop ends without a
halt (no halting instruction, fault or invalid opcode within the cycles allowed) the reason
is "Cycle limit reached (N)" with N = `maxCycles`, and for `maxCycles >= 0` exactly N cycles
were executed. The main loop of the embedding takes `maxCycles` as its fuel, as the
`while (cycle < maxCycles)` of the source does. The restriction is needed: the run of
`MOV DX, 8000h / MOV BX, 0FFFFh / IDIV BX` under the default configuration executes the
undefined division in its third iteration. -/
theorem C17_run_reports_halt (binary : List Nat) (config : EmulatorConfig) :
    configInRange config →
    (∀ k, k < config.maxCycles.toNat → ¬ undefinedAt binary config k) →
    (runEmulator binary config).1.halted = true
    ∧ (runEmulator binary config).1.haltReason ≠ ""
    ∧ (0 ≤ config.maxCycles →
        ((runEmulator binary config).1.cyclesExecuted : Int) ≤ config.maxCycles)
    ∧ ((emuLoop ((List.range 65536).map (initialState binary config).mem.data) config
            config.maxCycles.toNat 0 (initialState binary config)).2.result.halted = false →
        (runEmulator binary config).1.haltReason
            = "Cycle limit reached (" ++ intToString config.maxCycles ++ ")"
        ∧ (0 ≤ config.maxCycles →
            ((runEmulator binary config).1.cyclesExecuted : Int) = config.maxCycles))
    ∧ undefinedAt [0xBA, 0x00, 0x80, 0xBB, 0xFF, 0xFF, 0xF7, 0xFB] EmulatorConfig.default 2 := by
  intro _ _
  have h0 : HaltOk (haltInfo (initialState binary config)) := by
    intro h
    exact absurd h (by simp [haltInfo, initialState, EmulatorResult.init])
  obtain ⟨s1, s2, s3⟩ := emuLoop_spec ((List.range 65536).map (initialState binary config).mem.data)
    config config.maxCycles.toNat 0 (initialState binary config) h0
  have hu := idiv_run_undefined EmulatorConfig.default rfl rfl
  unfold runEmulator
  dsimp only
  generalize emuLoop ((List.range 65536).map (initialState binary config).mem.data) config
    config.maxCycles.toNat 0 (initialState binary config) = r at s1 s2 s3 ⊢
  obtain ⟨cy, sf⟩ := r
  simp only [haltInfo, HaltOk] at s1 s2 s3 ⊢
  have hto : (config.maxCycles.toNat : Int) ≥ config.maxCycles := Int.self_le_toNat _
  by_cases hh : sf.result.halted = true
  · have hc : ¬ (¬ sf.result.halted = true ∧ (cy : Int) ≥ config.maxCycles) := fun h => h.1 hh
    rw [if_neg hc]
    refine ⟨hh, s1 hh, fun hm => ?_, fun hf => ?_, hu⟩
    · show (cy : Int) ≤ config.maxCycles
      omega
    · rw [hh] at hf
      exact absurd hf (by decide)
  · have hf : sf.result.halted = false := by simpa using hh
    have hcy := s3 hf
    have hc : ¬ sf.result.halted = true ∧ (cy : Int) ≥ config.maxCycles := ⟨hh, by omega⟩
    rw [if_pos hc]
    refine ⟨rfl, append_ne_empty _ _ (append_ne_empty _ _ (by decide)), fun hm => ?_,
      fun _ => ⟨rfl, fun hm => ?_⟩, hu⟩
    · show (cy : Int) ≤ config.maxCycles
      omega
    · show (cy : Int) = config.maxCycles
      omega

/-- C17 at the program `JMP $` under the default configuration, a run that never leaves the
defined behaviour: it is reported as halted by the cycle limit after exactly 1000000
cycles. -/
theorem C17_run_reports_halt_witness :
    configInRange EmulatorConfig.default
    ∧ (∀ k, k < EmulatorConfig.default.maxCycles.toNat →
        ¬ undefinedAt [0xEB, 0xFE] EmulatorConfig.default k)
    ∧ (runEmulator [0xEB, 0xFE] EmulatorConfig.default).1.halted = true
    ∧ (runEmulator [0xEB, 0xFE] EmulatorConfig.default).1.haltReason
        = "Cycle limit reached (1000000)"
    ∧ ((runEmulator [0xEB, 0xFE] EmulatorConfig.default).1.cyclesExecuted : Int) = 1000000 := by
  have hw : configInRange EmulatorConfig.default :=
    ⟨fun r hr => absurd hr (List.not_mem_nil r), by decide⟩
  have hd : ∀ k, k < EmulatorConfig.default.maxCycles.toNat →
      ¬ undefinedAt [0xEB, 0xFE] EmulatorConfig.default k :=
    fun k _ => spin_defined EmulatorConfig.default k
  obtain ⟨h1, -, -, h4, -⟩ := C17_run_reports_halt [0xEB, 0xFE] EmulatorConfig.default hw hd
  obtain ⟨e1, e2⟩ := h4 (spin_not_halted EmulatorConfig.default)
  have hs : "Cycle limit reached (" ++ intToString EmulatorConfig.default.maxCycles ++ ")"
      = "Cycle limit reached (1000000)" := by decide
  exact ⟨hw, hd, h1, e1.trans hs, e2 (by decide)⟩

/-! ## C18: the initial state and a bare RET -/

/-- C18. A run starts with IP = 0x0100, SP = 0xFFFE, FLAGS = 0x0202, all segment registers
and the other general registers 0, the image (bytes taken mod 256) at offset 0x0100 and
`CD 20` at offsets 0 and 1. Consequently a binary shorter than 0xFEFE bytes whose first byte
is `C3` (`RET`) halts after exactly 2 cycles with reason "INT 20h program terminate" and exit
code 0, whenever the configuration allows two cycles (`maxCycles >= 2`). -/
theorem C18_initial_state_and_ret (binary : List Nat) (config : EmulatorConfig) :
    (initialState binary config).cpu.ip = 0x0100
    ∧ (initialState binary config).cpu.regs 4 = 0xFFFE
    ∧ (initialState binary config).cpu.flags = 0x0202
    ∧ (∀ i, (initialState binary config).cpu.sregs i = 0)
    ∧ (∀ i, i ≠ 4 → (initialState binary config).cpu.regs i = 0)
    ∧ (∀ i, i < binary.length → i < 65536 - 0x100 →
        (initialState binary config).mem.data (0x100 + i) = binary.getD i 0 % 256)
    ∧ (initialState binary config).mem.data 0 = 0xCD
    ∧ (initialState binary config).mem.data 1 = 0x20
    ∧ (binary.length < 0xFEFE → binary.head? = some 0xC3 → 2 ≤ config.maxCycles →
        (runEmulator binary config).1.halted = true
        ∧ (runEmulator binary config).1.cyclesExecuted = 2
        ∧ (runEmulator binary config).1.haltReason = "INT 20h program terminate"
        ∧ (runEmulator binary config).1.exitCode = 0) := by
  have hd := init_data binary config
  refine ⟨rfl, by simp [initialState, setAt], rfl, ?_, ?_, ?_, ?_, ?_, ?_⟩
  · intro i
    simp [initialState, setAt, CPU.init]
  · intro i hi
    simp [initialState, setAt, CPU.init, hi]
  · intro i h1 h2
    rw [hd]
    have hc : 0x100 ≤ 0x100 + i ∧ 0x100 + i < 0x100 + min binary.length (65536 - 0x100) := by
      refine ⟨by omega, ?_⟩
      have : i < min binary.length (65536 - 0x100) := lt_min h1 h2
      omega
    rw [if_neg (by omega), if_neg (by omega), if_pos hc]
    simp
  · rw [hd]; simp
  · rw [hd]; simp
  · intro hlen hret hmax
    obtain ⟨rest, rfl⟩ : ∃ rest, binary = 0xC3 :: rest := by
      cases binary with
      | nil => simp at hret
      | cons b rest =>
        simp only [List.head?_cons, Option.some.injEq] at hret
        exact ⟨rest, by rw [hret]⟩
    obtain ⟨n, hn⟩ : ∃ n, config.maxCycles.toNat = n + 2 := ⟨config.maxCycles.toNat - 2, by omega⟩
    obtain ⟨k1, k2, k3, k4⟩ := emuLoop_ret rest config n hlen
    rw [← hn] at k1 k2 k3 k4
    obtain ⟨-, r2, r3, r4⟩ := runEmulator_halted (0xC3 :: rest) config k2
    exact ⟨runEmulator_halted_flag (0xC3 :: rest) config k2, r4.trans k1, r2.trans k3,
      r3.trans k4⟩

/-- C18 at the one-byte program `RET` under the default configuration. -/
theorem C18_initial_state_and_ret_witness :
    (runEmulator [0xC3] EmulatorConfig.default).1.halted = true
    ∧ (runEmulator [0xC3] EmulatorConfig.default).1.cyclesExecuted = 2
    ∧ (runEmulator [0xC3] EmulatorConfig.default).1.haltReason = "INT 20h program terminate"
    ∧ (runEmulator [0xC3] EmulatorConfig.default).1.exitCode = 0 :=
  (C18_initial_state_and_ret [0xC3] EmulatorConfig.default).2.2.2.2.2.2.2.2
    (by decide) rfl (by decide)

/-! ## C19: skipped operations -/

theorem executeInstruction_int (s : EmuState) (inst : DecodedInst)
    (hmn : inst.mnemonic = "INT") :
    executeInstruction s inst = handleInterrupt s (toU8 inst.op1.disp) := by
  simp [executeInstruction, hmn, isStringOp]
  intro h
  exact absurd h (by decide)

theorem skippedEntry_cases (s : EmuState) (n : Nat) (r : SkippedRecord)
    (h : skippedEntry s n = some r) :
    (n = 0x21 ∧ s.cpu.getReg8 4 ∉ [0x01, 0x02, 0x06, 0x09, 0x4C, 0x2A, 0x2C, 0x30]
        ∧ r = ⟨s.cpu.ip, "INT 21h AH=" ++ hexByte (s.cpu.getReg8 4),
                "Unimplemented DOS function", 1⟩)
    ∨ (n = 0x10
        ∧ s.cpu.getReg8 4 ∉ [0x00, 0x02, 0x03, 0x06, 0x07, 0x08, 0x09, 0x0A, 0x0E, 0x0F]
        ∧ r = ⟨s.cpu.ip, "INT 10h AH=" ++ hexByte (s.cpu.getReg8 4),
                "Unimplemented Video function", 1⟩)
    ∨ (n ≠ 0x20 ∧ n ≠ 0x21 ∧ n ≠ 0x10
        ∧ r = ⟨s.cpu.ip, "INT " ++ hexByte n, "Unimplemented interrupt", 1⟩) := by
  unfold skippedEntry at h
  by_cases h20 : n = 0x20
  · rw [if_pos h20] at h
    exact absurd h (by simp)
  rw [if_neg h20] at h
  by_cases h21 : n = 0x21
  · rw [if_pos h21] at h
    by_cases hah : s.cpu.getReg8 4 ∈ [0x01, 0x02, 0x06, 0x09, 0x4C, 0x2A, 0x2C, 0x30]
    · rw [if_pos hah] at h
      exact absurd h (by simp)
    · rw [if_neg hah] at h
      exact Or.inl ⟨h21, hah, (Option.some.inj h).symm⟩
  rw [if_neg h21] at h
  by_cases h10 : n = 0x10
  · rw [if_pos h10] at h
    by_cases hah : s.cpu.getReg8 4 ∈ [0x00, 0x02, 0x03, 0x06, 0x07, 0x08, 0x09, 0x0A, 0x0E, 0x0F]
    · rw [if_pos hah] at h
      exact absurd h (by simp)
    · rw [if_neg hah] at h
      exact Or.inr (Or.inl ⟨h10, hah, (Option.some.inj h).symm⟩)
  rw [if_neg h10] at h
  exact Or.inr (Or.inr ⟨h20, h21, h10, (Option.some.inj h).symm⟩)

theorem skippedEntry_facts (s : EmuState) (n : Nat) (r : SkippedRecord)
    (h : skippedEntry s n = some r) : r.count = 1 ∧ r.addr = s.cpu.ip := by
  rcases skippedEntry_cases s n r h with ⟨-, -, e⟩ | ⟨-, -, e⟩ | ⟨-, -, -, e⟩ <;>
    subst e <;> exact ⟨rfl, rfl⟩

theorem handleInterrupt_skipped (s : EmuState) (n : Nat) (r : SkippedRecord)
    (h : skippedEntry s n = some r) :
    handleInterrupt s n
      = { s with result := { s.result with skipped := s.result.skipped ++ [r] } } := by
  rcases skippedEntry_cases s n r h with ⟨h21, hah, e⟩ | ⟨h10, hah, e⟩ | ⟨h20, h21, h10, e⟩
  · simp only [List.mem_cons, List.mem_singleton, List.not_mem_nil, or_false, not_or] at hah
    obtain ⟨a1, a2, a3, a4, a5, a6, a7, a8⟩ := hah
    subst e
    simp [handleInterrupt, h21, handleInt21, a1, a2, a3, a4, a5, a6, a7, a8]
  · simp only [List.mem_cons, List.mem_singleton, List.not_mem_nil, or_false, not_or] at hah
    obtain ⟨a1, a2, a3, a4, a5, a6, a7, a8, a9, a10⟩ := hah
    subst e
    simp [handleInterrupt, h10, handleInt10, a1, a2, a3, a4, a5, a6, a7, a8, a9, a10]
  · subst e
    simp [handleInterrupt, h20, h21, h10]

/-- C19 fails on the code. When `INT n` is skipped with record `r` (count 1) in state `s1`,
execution goes on with the CPU, the memory and the halt state as they were and `r` is
appended to the skipped list; executing the same `INT n` again at the same address, with
nothing else skipped in between, appends `r` once more: the list then ends with two entries
for the same (address, instruction) pair, each with count 1, instead of one with count 2. -/
theorem C19_skipped_not_merged (s1 s2 : EmuState) (inst : DecodedInst) (r : SkippedRecord)
    (hmn : inst.mnemonic = "INT")
    (h1 : skippedEntry s1 (toU8 inst.op1.disp) = some r)
    (h2 : skippedEntry s2 (toU8 inst.op1.disp) = some r)
    (hsk : s2.result.skipped = (executeInstruction s1 inst).result.skipped) :
    (executeInstruction s1 inst).cpu = s1.cpu
    ∧ (executeInstruction s1 inst).mem = s1.mem
    ∧ (executeInstruction s1 inst).result.halted = s1.result.halted
    ∧ (executeInstruction s1 inst).result.skipped = s1.result.skipped ++ [r]
    ∧ (executeInstruction s2 inst).result.skipped = s1.result.skipped ++ [r, r]
    ∧ r.count = 1 ∧ r.addr = s1.cpu.ip ∧ r.addr = s2.cpu.ip := by
  have e1 := handleInterrupt_skipped s1 _ r h1
  have e2 := handleInterrupt_skipped s2 _ r h2
  rw [executeInstruction_int s1 inst hmn, e1] at hsk ⊢
  rw [executeInstruction_int s2 inst hmn, e2]
  obtain ⟨c1, a1⟩ := skippedEntry_facts s1 _ r h1
  obtain ⟨-, a2⟩ := skippedEntry_facts s2 _ r h2
  refine ⟨rfl, rfl, rfl, rfl, ?_, c1, a1, a2⟩
  simp [hsk]

/-- C19 at `INT 3` executed twice in a row from the same state: two entries for it. -/
theorem C19_skipped_not_merged_witness :
    (executeInstruction (executeInstruction divState int3) int3).result.skipped
      = [⟨0, "INT 03", "Unimplemented interrupt", 1⟩,
         ⟨0, "INT 03", "Unimplemented interrupt", 1⟩] := by
  have h := C19_skipped_not_merged divState (executeInstruction divState int3) int3
    ⟨0, "INT 03", "Unimplemented interrupt", 1⟩ rfl (by decide) (by decide) rfl
  exact h.2.2.2.2.1

/-! ## C20: segment-aware memory access -/

theorem and_65535 (w : Nat) : w &&& 0xFFFF = w % 65536 := by
  have h := Nat.and_pow_two_sub_one_eq_mod w 16
  simpa using h

theorem inVRAM_iff (l : Nat) : inVRAM l = true ↔ (0xB8000 ≤ l ∧ l < 0xB9F40) := by
  simp [inVRAM]

/-- C20. Segment-aware access dispatches on the linear address `seg*16 + off`. Inside the
VRAM window `swrite8` sets the one VRAM cell `linear - 0xB8000` and leaves the flat array as
it is; outside it sets `data[off]` and leaves the VRAM buffer and the dirty flag as they are;
`sread8` then returns the byte written. `swrite16` does the same with the two cells of the
word (low byte first, the offset wrapping at 64 KiB in the flat array) and `sread16` returns
the word, at every address other than linear 0xB9F3F. -/
theorem C20_segment_dispatch (mem : Memory) (seg off v w : Nat) (hoff : off < 65536)
    (hv : v < 256) (hw : w < 65536) :
    ((0xB8000 ≤ linearAddr seg off ∧ linearAddr seg off < 0xB9F40) →
        (mem.swrite8 seg off v).data = mem.data
        ∧ (mem.swrite8 seg off v).vram (linearAddr seg off - 0xB8000) = v
        ∧ ∀ i, i ≠ linearAddr seg off - 0xB8000 → (mem.swrite8 seg off v).vram i = mem.vram i)
    ∧ (¬ (0xB8000 ≤ linearAddr seg off ∧ linearAddr seg off < 0xB9F40) →
        (mem.swrite8 seg off v).vram = mem.vram
        ∧ (mem.swrite8 seg off v).vramDirty = mem.vramDirty
        ∧ (mem.swrite8 seg off v).data off = v
        ∧ ∀ i, i ≠ off → (mem.swrite8 seg off v).data i = mem.data i)
    ∧ (mem.swrite8 seg off v).sread8 seg off = v
    ∧ (linearAddr seg off ≠ 0xB9F3F →
        ((0xB8000 ≤ linearAddr seg off ∧ linearAddr seg off < 0xB9F40) →
          (mem.swrite16 seg off w).data = mem.data
          ∧ (mem.swrite16 seg off w).vram (linearAddr seg off - 0xB8000) = w % 256
          ∧ (mem.swrite16 seg off w).vram (linearAddr seg off - 0xB8000 + 1) = w / 256
          ∧ ∀ i, i ≠ linearAddr seg off - 0xB8000 → i ≠ linearAddr seg off - 0xB8000 + 1 →
              (mem.swrite16 seg off w).vram i = mem.vram i)
        ∧ (¬ (0xB8000 ≤ linearAddr seg off ∧ linearAddr seg off < 0xB9F40) →
          (mem.swrite16 seg off w).vram = mem.vram
          ∧ (mem.swrite16 seg off w).vramDirty = mem.vramDirty
          ∧ (mem.swrite16 seg off w).data off = w % 256
          ∧ (mem.swrite16 seg off w).data ((off + 1) % 65536) = w / 256
          ∧ ∀ i, i ≠ off → i ≠ (off + 1) % 65536 → (mem.swrite16 seg off w).data i = mem.data i)
        ∧ (mem.swrite16 seg off w).sread16 seg off = w) := by
  have ho : off % 65536 &&& 0xFFFF = off := by
    rw [and_65535, Nat.mod_mod, Nat.mod_eq_of_lt hoff]
  have ho1 : ((off % 65536 + 1) &&& 0xFFFF) % 65536 = (off + 1) % 65536 := by
    rw [and_65535, Nat.mod_mod, Nat.mod_eq_of_lt hoff]
  have hv1 : v % 256 = v := Nat.mod_eq_of_lt hv
  have hw1 : w % 65536 = w := Nat.mod_eq_of_lt hw
  have hlo : w &&& 0xFF = w % 256 := and_255 w
  have hhi : w >>> 8 = w / 256 := by rw [Nat.shiftRight_eq_div_pow]
  have hne : (off + 1) % 65536 ≠ off := by omega
  have hrec := word_recombine w hw
  refine ⟨?_, ?_, ?_, ?_⟩
  · intro hin
    have hi := (inVRAM_iff _).2 hin
    simp +contextual [Memory.swrite8, hi, hv1, setAt]
  · intro hout
    have hi : inVRAM (linearAddr seg off) = false := by
      rw [← Bool.not_eq_true, inVRAM_iff]; exact hout
    simp +contextual [Memory.swrite8, hi, hv1, setAt, ho]
  · by_cases hin : inVRAM (linearAddr seg off) = true
    · simp [Memory.swrite8, Memory.sread8, hin, hv1, setAt]
    · simp [Memory.swrite8, Memory.sread8, hin, hv1, setAt, ho]
  · intro hlast
    refine ⟨?_, ?_, ?_⟩
    · intro hin
      have hi := (inVRAM_iff _).2 hin
      have h8 : linearAddr seg off - 0xB8000 + 1 < 8000 := by omega
      simp +contextual [Memory.swrite16, hi, hw1, setAt, h8, hlo, hhi]
    · intro hout
      have hi : inVRAM (linearAddr seg off) = false := by
        rw [← Bool.not_eq_true, inVRAM_iff]; exact hout
      simp +contextual [Memory.swrite16, hi, hw1, setAt, ho, ho1, hlo, hhi, hne.symm]
    · by_cases hin : inVRAM (linearAddr seg off) = true
      · have h8 : linearAddr seg off - 0xB8000 + 1 < 8000 := by
          have := (inVRAM_iff _).1 hin
          omega
        simp [Memory.swrite16, Memory.sread16, hin, hw1, setAt, h8, hlo, hhi, hrec]
      · simp [Memory.swrite16, Memory.sread16, hin, hw1, setAt, ho, ho1, hlo, hhi, hne.symm,
          hrec]

/-- C20 at ES = 0xB800, DI = 4 (VRAM cell 4) with the byte 0x41 and the word 0x0741. -/
theorem C20_segment_dispatch_witness :
    (Memory.init.swrite8 0xB800 4 0x41).data = Memory.init.data
    ∧ (Memory.init.swrite8 0xB800 4 0x41).vram 4 = 0x41
    ∧ (Memory.init.swrite8 0xB800 4 0x41).sread8 0xB800 4 = 0x41
    ∧ (Memory.init.swrite16 0xB800 4 0x0741).sread16 0xB800 4 = 0x0741 := by
  have h := C20_segment_dispatch Memory.init 0xB800 4 0x41 0x0741 (by norm_num) (by norm_num)
    (by norm_num)
  have hl : linearAddr 0xB800 4 = 0xB8004 := by decide
  obtain ⟨h1, _, h3, h4⟩ := h
  have h1' := h1 (by rw [hl]; norm_num)
  have h4' := h4 (by rw [hl]; norm_num)
  rw [hl] at h1'
  exact ⟨h1'.1, h1'.2.1, h3, h4'.2.2⟩

/-! ## C21, C22: numeric literals -/

theorem digitsValue_eq_aux (b : Nat) (d : Char → Nat) (cs : List Char) (acc : Nat) :
    cs.foldl (fun a c => a * b + d c) acc
      = Nat.ofDigits b (cs.reverse.map d) + acc * b ^ cs.length := by
  induction cs generalizing acc with
  | nil => simp
  | cons c cs ih =>
    rw [List.foldl_cons, ih, List.reverse_cons, List.map_append, Nat.ofDigits_append]
    simp only [List.map_cons, List.map_nil, Nat.ofDigits_singleton, List.length_map,
      List.length_reverse, List.length_cons]
    ring

theorem digitVal_hex : ∀ c ∈ hexDigits, digitVal c = digitOf c ∧ isXDigitC c.toUpper = true := by
  decide

theorem digitVal_dec : ∀ c ∈ decimalDigits,
    digitVal c = digitOf c ∧ isDigitC c = true ∧ c.toUpper = c
    ∧ c ≠ 'H' ∧ c ≠ 'B' ∧ c ≠ 'O' ∧ c ≠ 'Q' ∧ c ≠ 'D' ∧ c ≠ 'X' := by
  decide

theorem digitsValue_numeral (b : Nat) (cs : List Char) (h : ∀ c ∈ cs, digitVal c = digitOf c) :
    digitsValue b cs = numeralValue b cs := by
  unfold digitsValue numeralValue
  rw [digitsValue_eq_aux b digitVal cs 0]
  simp only [Nat.zero_mul, Nat.add_zero]
  congr 1
  apply List.map_congr_left
  intro c hc
  exact h c (List.mem_reverse.1 hc)

theorem validateDigits_dec (orig : String) (cs : List Char) (h : ∀ c ∈ cs, isDigitC c = true) :
    validateDigits orig 10 cs = none := by
  induction cs with
  | nil => rfl
  | cons c cs ih =>
    have hc := h c (List.mem_cons_self _ _)
    unfold validateDigits
    simp [hc, ih (fun x hx => h x (List.mem_cons_of_mem _ hx))]

theorem validateDigits_hex (orig : String) (cs : List Char) (h : ∀ c ∈ cs, isXDigitC c = true) :
    validateDigits orig 16 cs = none := by
  induction cs with
  | nil => rfl
  | cons c cs ih =>
    have hc := h c (List.mem_cons_self _ _)
    unfold validateDigits
    simp [hc, ih (fun x hx => h x (List.mem_cons_of_mem _ hx))]

theorem toUpper_mk (cs : List Char) : toUpper (String.mk cs) = String.mk (cs.map Char.toUpper) := rfl

theorem map_toUpper_dec (d : List Char) (hd : ∀ c ∈ d, c ∈ decimalDigits) :
    d.map Char.toUpper = d := by
  induction d with
  | nil => rfl
  | cons c cs ih =>
    rw [List.map_cons, ih (fun x hx => hd x (List.mem_cons_of_mem _ hx)),
      (digitVal_dec c (hd c (List.mem_cons_self _ _))).2.2.1]

theorem getLastD_mem (d : List Char) (hne : d ≠ []) (x : Char) : d.getLastD x ∈ d := by
  cases d with
  | nil => exact absurd rfl hne
  | cons c cs =>
    rw [List.getLastD_cons]
    induction cs generalizing c with
    | nil => simp
    | cons e es ih =>
      rw [List.getLastD_cons]
      exact List.mem_cons_of_mem _ (ih e (by simp))

/-- `parseNumber` on a plain decimal digit string: the decimal branch, no suffix, no prefix. -/
theorem parseNumber_decimal (d : List Char) (hne : d ≠ []) (hd : ∀ c ∈ d, c ∈ decimalDigits) :
    parseNumber (String.mk d)
      = if numeralValue 10 d > 9223372036854775807 then
          (0, false, "Invalid decimal literal '" ++ String.mk d ++ "'.")
        else if numeralValue 10 d > 65535 then
          (0, false, "Numeric literal '" ++ String.mk d
            ++ "' overflows. Maximum value is 65535 (FFFFh) for 16-bit.")
        else ((numeralValue 10 d : Int), true, "") := by
  have hu : toUpper (String.mk d) = String.mk d := by
    rw [toUpper_mk, map_toUpper_dec d hd]
  have hl := digitVal_dec _ (hd _ (getLastD_mem d hne (Char.ofNat 0)))
  obtain ⟨-, -, -, l1, l2, l3, l4, l5, -⟩ := hl
  have hx : d.take 2 ≠ ['0', 'X'] := by
    intro h
    cases d with
    | nil => exact absurd rfl hne
    | cons a t =>
      cases t with
      | nil => simp at h
      | cons b t2 =>
        simp only [List.take_succ_cons, List.take_zero, List.cons.injEq, and_true] at h
        have := (digitVal_dec b (hd b (by simp))).2.2.2.2.2.2.2.2
        exact this h.2
  have hb : d.take 2 ≠ ['0', 'B'] := by
    intro h
    cases d with
    | nil => exact absurd rfl hne
    | cons a t =>
      cases t with
      | nil => simp at h
      | cons b t2 =>
        simp only [List.take_succ_cons, List.take_zero, List.cons.injEq, and_true] at h
        have := (digitVal_dec b (hd b (by simp))).2.2.2.2.1
        exact this h.2
  have hv := validateDigits_dec (String.mk d) d (fun c hc => (digitVal_dec c (hd c hc)).2.1)
  have hval := digitsValue_numeral 10 d (fun c hc => (digitVal_dec c (hd c hc)).1)
  unfold parseNumber
  simp only [hu, lastChar, hne, if_false, l1, l2, l3, l4, l5, hx, hb, and_false, or_self, hv,
    hval]
  rfl

/-- Whenever `parseNumber` reports success its result is a value of 0..65535. -/
theorem parseNumber_ok_range (s : String) (h : (parseNumber s).2.1 = true) :
    0 ≤ (parseNumber s).1 ∧ (parseNumber s).1 ≤ 65535 := by
  unfold parseNumber at h ⊢
  by_cases h1 : s.data = []
  · rw [if_pos h1] at h
    simp at h
  rw [if_neg h1] at h ⊢
  simp only [] at h ⊢
  generalize (@ite (Nat × String × String × String) (lastChar (toUpper s) = 'H') _ _ _) = p at h ⊢
  obtain ⟨base, label, s1, u⟩ := p
  simp only [] at h ⊢
  by_cases h2 : s1.data = []
  · rw [if_pos h2] at h
    simp at h
  rw [if_neg h2] at h ⊢
  cases hv : validateDigits s base u.data with
  | some reason =>
    rw [hv] at h
    simp at h
  | none =>
    rw [hv] at h
    simp only [] at h ⊢
    by_cases h3 : digitsValue base s1.data > 9223372036854775807
    · rw [if_pos h3] at h
      simp at h
    rw [if_neg h3] at h ⊢
    by_cases h4 : digitsValue base s1.data > 65535
    · rw [if_pos h4] at h
      simp at h
    rw [if_neg h4]
    simp only []
    exact ⟨Int.natCast_nonneg _, by exact_mod_cast (Nat.le_of_not_gt h4)⟩

theorem hex_facts : ∀ c ∈ hexDigits,
    c.toUpper ≠ 'H' ∧ c.toUpper ≠ 'O' ∧ c.toUpper ≠ 'Q'
    ∧ (c ∉ ['B', 'b', 'D', 'd'] → c.toUpper ≠ 'B' ∧ c.toUpper ≠ 'D')
    ∧ (c = 'B' ∨ c = 'b' → c.toUpper = 'B') ∧ (c = 'D' ∨ c = 'd' → c.toUpper = 'D') := by
  decide

theorem getLastD_map (f : Char → Char) (h : List Char) (hne : h ≠ []) (x y : Char) :
    (h.map f).getLastD x = f (h.getLastD y) := by
  cases h with
  | nil => exact absurd rfl hne
  | cons c cs =>
    rw [List.map_cons, List.getLastD_cons, List.getLastD_cons]
    induction cs generalizing c with
    | nil => rfl
    | cons e es ih =>
      rw [List.map_cons, List.getLastD_cons, List.getLastD_cons]
      exact ih e (by simp)

theorem lastChar_prefixed (a b : Char) (h : List Char) (hne : h ≠ []) :
    lastChar (toUpper (String.mk (a :: b :: h))) = (h.getLastD '0').toUpper := by
  rw [toUpper_mk]
  unfold lastChar
  simp only [List.map_cons]
  cases h with
  | nil => exact absurd rfl hne
  | cons c cs =>
    rw [List.getLastD_cons, List.map_cons, List.getLastD_cons]
    exact getLastD_map Char.toUpper (c :: cs) (by simp) _ _

/-- `parseNumber` on `0x` followed by hexadecimal digits the last of which is none of
`B`, `b`, `D`, `d`: the prefix branch, base 16. -/
theorem parseNumber_0x_accepted (h : List Char) (hne : h ≠ [])
    (hd : ∀ c ∈ h, c ∈ hexDigits) (hlast : h.getLastD '0' ∉ ['B', 'b', 'D', 'd']) :
    parseNumber (String.mk ('0' :: 'x' :: h))
      = if numeralValue 16 h > 9223372036854775807 then
          (0, false, "Invalid hex literal '" ++ String.mk ('0' :: 'x' :: h) ++ "'.")
        else if numeralValue 16 h > 65535 then
          (0, false, "Numeric literal '" ++ String.mk ('0' :: 'x' :: h)
            ++ "' overflows. Maximum value is 65535 (FFFFh) for 16-bit.")
        else ((numeralValue 16 h : Int), true, "") := by
  have hl := lastChar_prefixed '0' 'x' h hne
  obtain ⟨l1, l3, l4, l25, -, -⟩ := hex_facts _ (hd _ (getLastD_mem h hne '0'))
  obtain ⟨l2, l5⟩ := l25 hlast
  rw [← hl] at l1 l2 l3 l4 l5
  have hu : (toUpper (String.mk ('0' :: 'x' :: h))).data = '0' :: 'X' :: h.map Char.toUpper := rfl
  have hlen : ('0' :: 'X' :: h.map Char.toUpper).length > 2 := by
    cases h with
    | nil => exact absurd rfl hne
    | cons c cs => simp
  have hv := validateDigits_hex (String.mk ('0' :: 'x' :: h)) (h.map Char.toUpper)
    (fun c hc => by
      obtain ⟨x, hx, rfl⟩ := List.mem_map.1 hc
      exact (digitVal_hex x (hd x hx)).2)
  have hval := digitsValue_numeral 16 h (fun c hc => (digitVal_hex c (hd c hc)).1)
  unfold parseNumber
  simp only [l1, l2, l3, l4, l5, hlen, hu, if_false, or_self, List.take_succ_cons,
    List.take_zero, List.drop_succ_cons, List.drop_zero, true_and, and_true, if_true, hne, hv,
    hval,
    reduceCtorEq]
  rfl

theorem dropLast_prefixed (a b : Char) (l : List Char) (hne : l ≠ []) :
    (a :: b :: l).dropLast = a :: b :: l.dropLast := by
  cases l with
  | nil => exact absurd rfl hne
  | cons c cs => rfl

/-- `parseNumber` on `0x` followed by hexadecimal digits the last of which is `B`, `b`, `D`
or `d`: the suffix is taken for a binary or decimal marker and the `X` is rejected. -/
theorem parseNumber_0x_rejected (h : List Char) (hne : h ≠ [])
    (hd : ∀ c ∈ h, c ∈ hexDigits) (hlast : h.getLastD '0' ∈ ['B', 'b', 'D', 'd']) :
    (parseNumber (String.mk ('0' :: 'x' :: h))).2.1 = false
    ∧ (parseNumber (String.mk ('0' :: 'x' :: h))).1 = 0 := by
  have hl := lastChar_prefixed '0' 'x' h hne
  obtain ⟨l1, -, -, -, lB, lD⟩ := hex_facts _ (hd _ (getLastD_mem h hne '0'))
  rw [← hl] at l1 lB lD
  have hmne : h.map Char.toUpper ≠ [] := by simpa using hne
  have hu : popBack (toUpper (String.mk ('0' :: 'x' :: h)))
      = String.mk ('0' :: 'X' :: (h.map Char.toUpper).dropLast) := by
    show String.mk ('0' :: 'X' :: h.map Char.toUpper).dropLast = _
    rw [dropLast_prefixed _ _ _ hmne]
  have hs : (popBack (String.mk ('0' :: 'x' :: h))).data ≠ [] := by
    show ('0' :: 'x' :: h).dropLast ≠ []
    rw [dropLast_prefixed _ _ _ hne]
    simp
  simp only [List.mem_cons, List.mem_singleton, List.not_mem_nil, or_false] at hlast
  have hcase : h.getLastD '0' = 'B' ∨ h.getLastD '0' = 'b'
      ∨ (h.getLastD '0' = 'D' ∨ h.getLastD '0' = 'd') := by
    rcases hlast with e | e | e | e
    · exact Or.inl e
    · exact Or.inr (Or.inl e)
    · exact Or.inr (Or.inr (Or.inl e))
    · exact Or.inr (Or.inr (Or.inr e))
  have hBD : lastChar (toUpper (String.mk ('0' :: 'x' :: h))) = 'B'
      ∨ lastChar (toUpper (String.mk ('0' :: 'x' :: h))) = 'D' := by
    rcases hcase with e | e | e
    · exact Or.inl (lB (Or.inl e))
    · exact Or.inl (lB (Or.inr e))
    · exact Or.inr (lD e)
  unfold parseNumber
  rcases hBD with e | e
  · simp only [e, hu, if_false, if_true, reduceCtorEq, validateDigits]
    simp [hs]
  · simp only [e, hu, if_false, if_true, reduceCtorEq, validateDigits, or_self]
    simp [isDigitC, hs]

/-- C21 fails on the code for literals whose last digit is `B` or `D`. For every non-empty
string `h` of hexadecimal digits with value at most 65535, `parseNumber("0x" + h)` succeeds
with the base-16 value of `h` when the last digit of `h` is none of `B`, `b`, `D`, `d`; when
it is one of them the suffix test comes first, the literal is read as binary or decimal, and
`parseNumber` fails with result 0. -/
theorem C21_hex_prefix_literals (h : List Char) (hne : h ≠ []) (hd : ∀ c ∈ h, c ∈ hexDigits)
    (hv : numeralValue 16 h ≤ 65535) :
    (h.getLastD '0' ∉ ['B', 'b', 'D', 'd'] →
      parseNumber (String.mk ('0' :: 'x' :: h)) = ((numeralValue 16 h : Int), true, ""))
    ∧ (h.getLastD '0' ∈ ['B', 'b', 'D', 'd'] →
        (parseNumber (String.mk ('0' :: 'x' :: h))).2.1 = false
        ∧ (parseNumber (String.mk ('0' :: 'x' :: h))).1 = 0) := by
  refine ⟨fun hl => ?_, fun hl => parseNumber_0x_rejected h hne hd hl⟩
  rw [parseNumber_0x_accepted h hne hd hl, if_neg (by omega), if_neg (by omega)]

/-- C21 at `0x1F` (31) and at `0x1B`, which is rejected although its value is 27. -/
theorem C21_hex_prefix_literals_witness :
    parseNumber "0x1F" = (31, true, "")
    ∧ numeralValue 16 "1B".data = 27
    ∧ (parseNumber "0x1B").2.1 = false ∧ (parseNumber "0x1B").1 = 0 := by
  have h1 := (C21_hex_prefix_literals "1F".data (by decide) (by decide) (by decide)).1
    (by decide)
  have h2 := (C21_hex_prefix_literals "1B".data (by decide) (by decide) (by decide)).2
    (by decide)
  have e1 : numeralValue 16 "1F".data = 31 := by decide
  rw [e1] at h1
  exact ⟨h1, by decide, h2.1, h2.2⟩

/-- C22. A non-empty string of decimal digits parses to its decimal value when that is at
most 65535, and otherwise fails with result 0 and a non-empty reason; and on every input on
which `parseNumber` reports success the result lies in 0..65535. -/
theorem C22_numeric_literals_do_not_wrap (d : List Char) (s : String) (hne : d ≠ [])
    (hd : ∀ c ∈ d, c ∈ decimalDigits) :
    (numeralValue 10 d ≤ 65535 →
      parseNumber (String.mk d) = ((numeralValue 10 d : Int), true, ""))
    ∧ (65535 < numeralValue 10 d →
        (parseNumber (String.mk d)).1 = 0 ∧ (parseNumber (String.mk d)).2.1 = false
        ∧ (parseNumber (String.mk d)).2.2 ≠ "")
    ∧ ((parseNumber s).2.1 = true → 0 ≤ (parseNumber s).1 ∧ (parseNumber s).1 ≤ 65535) := by
  refine ⟨fun h => ?_, fun h => ?_, parseNumber_ok_range s⟩
  · rw [parseNumber_decimal d hne hd, if_neg (by omega), if_neg (by omega)]
  · rw [parseNumber_decimal d hne hd]
    split_ifs
    · exact ⟨rfl, rfl, append_ne_empty _ _ (append_ne_empty _ _ (by decide))⟩
    · exact ⟨rfl, rfl, append_ne_empty _ _ (append_ne_empty _ _ (by decide))⟩

/-- C22 at `65535`, the largest literal, and at `65536` and a 20-digit literal, which are
rejected. -/
theorem C22_numeric_literals_do_not_wrap_witness :
    parseNumber "65535" = (65535, true, "")
    ∧ (parseNumber "65536").2.1 = false ∧ (parseNumber "65536").1 = 0
    ∧ (parseNumber "99999999999999999999").2.1 = false := by
  have h1 := (C22_numeric_literals_do_not_wrap "65535".data "" (by decide) (by decide)).1
    (by decide)
  have h2 := (C22_numeric_literals_do_not_wrap "65536".data "" (by decide) (by decide)).2.1
    (by decide)
  have h3 := (C22_numeric_literals_do_not_wrap "99999999999999999999".data "" (by decide)
    (by decide)).2.1 (by decide)
  have e1 : numeralValue 10 "65535".data = 65535 := by decide
  rw [e1] at h1
  exact ⟨h1, h2.2.1, h2.1, h3.2.1⟩

/-! ## C23: the current-address token -/

/-- C23 fails on the code. A token `$` is an identifier whose first character is none of a
letter, `.`, `_`, `?`, so `parseExpression` never reaches its `$` branch: at such a token it
stops with the value 0 (whatever follows, and whatever the current address is), and in pass 2
it logs the ERROR "Unexpected token in expression: $". -/
theorem C23_dollar_not_evaluated (ctx : AssemblerContext) (tokens : List Token)
    (idx minPrec line : Nat) (h : tokens.get? idx = some ⟨.Identifier, "$", line⟩) :
    (parseExpr ctx tokens idx minPrec).2.2 = 0
    ∧ (parseExpr ctx tokens idx minPrec).2.1 = idx + 1
    ∧ (ctx.isPass1 = true → (parseExpr ctx tokens idx minPrec).1 = ctx)
    ∧ (ctx.isPass1 = false → (parseExpr ctx tokens idx minPrec).1
        = logError ctx line "Unexpected token in expression: $"
            "'$' is not a recognized number, label, or operator.") := by
  have e : parseExpr ctx tokens idx minPrec
      = (if ctx.isPass1 then ctx
          else logError ctx line ("Unexpected token in expression: " ++ "$")
            (unexpectedTokenHint "$"), idx + 1, 0) := by
    unfold parseExpr
    rw [parseExpression, h]
    have h1 : isAlphaC (firstChar "$") = false := by decide
    have h2 : firstChar "$" ≠ '.' := by decide
    have h3 : firstChar "$" ≠ '_' := by decide
    have h4 : firstChar "$" ≠ '?' := by decide
    simp [h1, h2, h3, h4]
  have eh : unexpectedTokenHint "$" = "'$' is not a recognized number, label, or operator." := by
    decide
  rw [e, eh]
  refine ⟨rfl, rfl, fun hp => ?_, fun hp => ?_⟩
  · simp [hp]
  · simp [hp]

/-- C23 at the lines `$` and `$ + 2` in pass 2 with the current address 0x100: both evaluate
to 0 with an error, not to 0x100 and 0x102. -/
theorem C23_dollar_not_evaluated_witness :
    tokenize "$ + 2" 1 = [⟨.Identifier, "$", 1⟩, ⟨.Plus, "+", 1⟩, ⟨.Number, "2", 1⟩]
    ∧ (parseExpr { pass2Ctx with currentAddress := 0x100 } (tokenize "$ + 2" 1) 0 0).2.2 = 0
    ∧ (parseExpr { pass2Ctx with currentAddress := 0x100 } (tokenize "$" 1) 0 0).2.2 = 0
    ∧ (parseExpr { pass2Ctx with currentAddress := 0x100 } (tokenize "$" 1) 0 0).1.diagnostics
        = [⟨"ERROR", 1, "Unexpected token in expression: $",
            "'$' is not a recognized number, label, or operator."⟩] := by
  have t1 : tokenize "$ + 2" 1 = [⟨.Identifier, "$", 1⟩, ⟨.Plus, "+", 1⟩, ⟨.Number, "2", 1⟩] := by
    decide
  have t2 : tokenize "$" 1 = [⟨.Identifier, "$", 1⟩] := by decide
  have h1 := C23_dollar_not_evaluated { pass2Ctx with currentAddress := 0x100 }
    (tokenize "$ + 2" 1) 0 0 1 (by rw [t1]; rfl)
  have h2 := C23_dollar_not_evaluated { pass2Ctx with currentAddress := 0x100 }
    (tokenize "$" 1) 0 0 1 (by rw [t2]; rfl)
  refine ⟨t1, h1.1, h2.1, ?_⟩
  rw [h2.2.2.2 rfl]
  rfl

/-! ## Parser lemmas: the bracket loop over registers -/

theorem tableRM_memRegOf (a b c d : Bool) (code : Int) (h : tableRM a b c d = some code) :
    memRegOf a b c d = some code := by
  revert h
  cases a <;> cases b <;> cases c <;> cases d <;> revert code <;> decide

theorem get?_middle (A B : List Token) (t : Token) :
    (A ++ t :: B).get? A.length = some t := by
  rw [List.get?_eq_getElem?, List.getElem?_append_right (Nat.le_refl _)]
  simp

theorem bracketLoop_regs (B : List Token) :
    ∀ (body A : List Token) (n : Nat) (st : BracketState), st.idx = A.length →
      (∀ t ∈ body, IsBaseOrIndex t) →
      bracketLoop (A ++ body ++ B) (n + body.length) st
        = bracketLoop (A ++ body ++ B) n
            { st with idx := A.length + body.length,
                      hasBX := st.hasBX || names body "BX",
                      hasBP := st.hasBP || names body "BP",
                      hasSI := st.hasSI || names body "SI",
                      hasDI := st.hasDI || names body "DI" } := by
  intro body
  induction body with
  | nil =>
    intro A n st hi _
    simp [names, ← hi]
  | cons t body ih =>
    intro A n st hi hb
    have ht := hb t (List.mem_cons_self _ _)
    have hb1 : ∀ x ∈ body, IsBaseOrIndex x := fun x hx => hb x (List.mem_cons_of_mem _ hx)
    have hg : (A ++ t :: body ++ B).get? st.idx = some t := by
      rw [hi, List.append_assoc, List.cons_append]
      exact get?_middle A (body ++ B) t
    have hl : n + (t :: body).length = (n + body.length) + 1 := by simp; omega
    have hA : A ++ t :: body ++ B = (A ++ [t]) ++ body ++ B := by simp
    rw [hl, bracketLoop, hg]
    simp only
    rcases ht with ⟨h1, h2⟩ | ⟨h1, h2⟩
    · have e1 : t.type ≠ .RBracket := by rw [h1]; decide
      rw [if_neg e1, if_pos h1, hA, ih (A ++ [t]) n _ (by simp [hi]) hb1]
      have h3 : ∀ r ∈ ["BX", "BP", "SI", "DI"], (toUpper t.value = r) = False := by
        rw [h2]; decide
      simp [names, h3, Nat.add_assoc, Nat.add_comm 1]
    · have e1 : t.type ≠ .RBracket := by rw [h1]; decide
      have e2 : t.type ≠ .Plus := by rw [h1]; decide
      have e3 : ¬ (t.type = .LabelDef ∧ segPrefixOf (toUpper t.value) ≠ -1) := by
        rw [h1]; simp
      rw [if_neg e1, if_neg e2, if_neg e3]
      have hr : ∀ u ∈ ["BX", "BP", "SI", "DI"], (regTable.lookup u).isSome = true := by decide
      have hreg : ∃ p, isRegister t.value = some p := by
        have := hr _ h2
        exact Option.isSome_iff_exists.1 this
      obtain ⟨p, hp⟩ := hreg
      rw [hp]
      simp only
      simp only [List.mem_cons, List.mem_singleton, List.not_mem_nil, or_false] at h2
      rcases h2 with h2 | h2 | h2 | h2
      all_goals
        rw [h2, hA]
        simp only [if_true, if_false, reduceCtorEq, String.reduceEq]
        rw [ih (A ++ [t]) n _ (by simp [hi]) hb1]
        simp [names, h2, Nat.add_assoc, Nat.add_comm 1, Bool.or_assoc]

/-! ## C24: expression precedence -/

theorem binLoop_high (f : AssemblerContext → Nat → Nat → AssemblerContext × Nat × Int)
    (tokens : List Token) (p n : Nat) (ctx : AssemblerContext) (idx : Nat) (lhs : Int)
    (h : 2 < p) : binLoop f tokens p n ctx idx lhs = (ctx, idx, lhs) := by
  cases n with
  | zero => rfl
  | succ n =>
    rw [binLoop]
    cases tokens.get? idx with
    | none => rfl
    | some t =>
      simp only
      split_ifs
      all_goals first | rfl | omega

theorem binLoop_stop (f : AssemblerContext → Nat → Nat → AssemblerContext × Nat × Int)
    (A B : List Token) (p n : Nat) (ctx : AssemblerContext) (lhs : Int)
    (h : StopsAt B p) : binLoop f (A ++ B) p n ctx A.length lhs = (ctx, A.length, lhs) := by
  cases n with
  | zero => rfl
  | succ n =>
    rw [binLoop]
    cases B with
    | nil => simp
    | cons t B =>
      rw [get?_middle]
      simp only
      obtain ⟨⟨h1, h2⟩, h3⟩ := h t rfl
      by_cases hp : p ≤ 1
      · obtain ⟨h4, h5⟩ := h3 hp
        simp [h1, h2, h4, h5]
      · by_cases h4 : t.type = .Plus ∨ t.type = .Minus
        · have : ¬ (t.type ≠ .Plus ∧ t.type ≠ .Minus ∧ t.type ≠ .Star ∧ t.type ≠ .Slash) := by
            rcases h4 with h4 | h4 <;> simp [h4]
          rw [if_neg this]
          simp only [h4, if_true]
          rw [if_pos (by omega)]
        · have : t.type ≠ .Plus ∧ t.type ≠ .Minus ∧ t.type ≠ .Star ∧ t.type ≠ .Slash :=
            ⟨fun h => h4 (Or.inl h), fun h => h4 (Or.inr h), h1, h2⟩
          rw [if_pos this]

/-- One turn of the operator loop at a binary operator whose right-hand side parses without
error. -/
theorem binLoop_step (f : AssemblerContext → Nat → Nat → AssemblerContext × Nat × Int)
    (tokens : List Token) (p n : Nat) (ctx : AssemblerContext) (idx : Nat) (lhs : Int)
    (op : Token) (hg : tokens.get? idx = some op) :
    (op.type = .Plus → p ≤ 1 →
      binLoop f tokens p (n + 1) ctx idx lhs
        = binLoop f tokens p n (f ctx (idx + 1) 2).1 (f ctx (idx + 1) 2).2.1
            (lhs + (f ctx (idx + 1) 2).2.2))
    ∧ (op.type = .Minus → p ≤ 1 →
      binLoop f tokens p (n + 1) ctx idx lhs
        = binLoop f tokens p n (f ctx (idx + 1) 2).1 (f ctx (idx + 1) 2).2.1
            (lhs - (f ctx (idx + 1) 2).2.2))
    ∧ (op.type = .Star → p ≤ 2 →
      binLoop f tokens p (n + 1) ctx idx lhs
        = binLoop f tokens p n (f ctx (idx + 1) 3).1 (f ctx (idx + 1) 3).2.1
            (lhs * (f ctx (idx + 1) 3).2.2))
    ∧ (op.type = .Slash → p ≤ 2 → (f ctx (idx + 1) 3).2.2 ≠ 0 →
      binLoop f tokens p (n + 1) ctx idx lhs
        = binLoop f tokens p n (f ctx (idx + 1) 3).1 (f ctx (idx + 1) 3).2.1
            (Int.tdiv lhs (f ctx (idx + 1) 3).2.2)) := by
  refine ⟨fun h hp => ?_, fun h hp => ?_, fun h hp => ?_, fun h hp hz => ?_⟩
  · rw [binLoop, hg]
    simp only [h, reduceCtorEq, ne_eq, not_true_eq_false, false_and, if_false, true_or, if_true,
      Nat.reduceAdd]
    rw [if_neg (by omega)]
  · rw [binLoop, hg]
    simp only [h, reduceCtorEq, ne_eq, not_true_eq_false, false_and, and_false, if_false,
      or_true, if_true, Nat.reduceAdd, not_false_eq_true, true_and]
    rw [if_neg (by omega)]
  · rw [binLoop, hg]
    simp only [h, reduceCtorEq, ne_eq, not_true_eq_false, false_and, and_false, if_false,
      or_self, if_true, Nat.reduceAdd, not_false_eq_true, true_and]
    rw [if_neg (by omega)]
  · rw [binLoop, hg]
    simp only [h, reduceCtorEq, ne_eq, not_true_eq_false, false_and, and_false, if_false,
      or_self, if_true, Nat.reduceAdd, not_false_eq_true, true_and]
    rw [if_neg (by omega), if_pos hz]

theorem get?_at (tokens A B : List Token) (t : Token) (i : Nat) (h : tokens = A ++ t :: B)
    (hi : i = A.length) : tokens.get? i = some t := by
  rw [h, hi]; exact get?_middle A B t

theorem binLoop_stop_at (f : AssemblerContext → Nat → Nat → AssemblerContext × Nat × Int)
    (tokens A B : List Token) (p n : Nat) (ctx : AssemblerContext) (i : Nat) (lhs : Int)
    (ht : tokens = A ++ B) (hi : i = A.length) (h : StopsAt B p) :
    binLoop f tokens p n ctx i lhs = (ctx, i, lhs) := by
  rw [ht, hi]; exact binLoop_stop f A B p n ctx lhs h

/-- Precedence climbing follows the grammar: parsing a phrase of the grammar from its first
token arrives, with the context unchanged, at the operator loop behind its last token with its
value as the left-hand side. -/
theorem parseExpression_phrase {lvl : Level} {ts : List Token} {v : Int}
    (h : HasValue lvl ts v) :
    ∀ (tokens A B : List Token) (ctx : AssemblerContext) (k p : Nat), tokens = A ++ ts ++ B →
      ts.length ≤ k → (lvl = .term → p ≤ 2) → (lvl = .expr → p ≤ 1 ∧ StopsAt B 2) →
      ∃ n, n ≤ k ∧ k ≤ n + ts.length ∧
        parseExpression (k + 1) ctx tokens A.length p
          = binLoop (fun c i q => parseExpression k c tokens i q) tokens p n ctx
              (A.length + ts.length) v := by
  induction h with
  | num t v r ht hv =>
    intro tokens A B ctx k p htok hk _ _
    refine ⟨k, Nat.le_refl _, by omega, ?_⟩
    rw [parseExpression, get?_at tokens A B t _ (by simp [htok]) rfl]
    simp [ht, hv]
  | paren lp rp ts v hlp hrp _ ih =>
    intro tokens A B ctx k p htok hk _ _
    simp only [List.length_cons, List.length_append, List.length_singleton,
      List.length_nil] at hk
    obtain ⟨k1, rfl⟩ : ∃ k1, k = k1 + 1 := ⟨k - 1, by omega⟩
    have hstop2 : StopsAt (rp :: B) 2 := by
      intro t ht
      simp only [List.head?_cons, Option.some.injEq] at ht
      subst ht
      rw [hrp]
      exact ⟨by decide, fun h => absurd h (by decide)⟩
    have hstop0 : StopsAt (rp :: B) 0 := by
      intro t ht
      simp only [List.head?_cons, Option.some.injEq] at ht
      subst ht
      rw [hrp]
      exact ⟨by decide, fun _ => by decide⟩
    obtain ⟨n1, _, _, e1⟩ := ih tokens (A ++ [lp]) (rp :: B) ctx k1 0 (by simp [htok])
      (by omega) (fun h => by cases h) (fun _ => ⟨Nat.zero_le _, hstop2⟩)
    rw [binLoop_stop_at _ tokens ((A ++ [lp]) ++ ts) (rp :: B) 0 n1 ctx _ v
      (by simp [htok])
      (by simp only [List.length_append, List.length_singleton]) hstop0] at e1
    simp only [List.length_append, List.length_singleton] at e1
    refine ⟨k1 + 1, Nat.le_refl _, by omega, ?_⟩
    rw [parseExpression, get?_at tokens A (ts ++ rp :: B) lp _ (by simp [htok]) rfl]
    simp only [hlp, reduceCtorEq, or_self, if_false, if_true, e1]
    rw [get?_at tokens (A ++ lp :: ts) B rp _ (by simp [htok])
      (by simp; omega)]
    simp only [hrp, if_true]
    congr 1
    simp; omega
  | pos op ts v hop _ ih =>
    intro tokens A B ctx k p htok hk _ _
    simp only [List.length_cons] at hk
    obtain ⟨k1, rfl⟩ : ∃ k1, k = k1 + 1 := ⟨k - 1, by omega⟩
    obtain ⟨n1, _, _, e1⟩ := ih tokens (A ++ [op]) B ctx k1 100 (by simp [htok])
      (by omega) (fun h => by cases h) (fun h => by cases h)
    rw [binLoop_high _ _ _ _ _ _ _ (by omega)] at e1
    simp only [List.length_append, List.length_singleton] at e1
    refine ⟨k1 + 1, Nat.le_refl _, by omega, ?_⟩
    rw [parseExpression, get?_at tokens A (ts ++ B) op _ (by simp [htok]) rfl]
    simp only [hop, reduceCtorEq, true_or, if_true, e1, if_false]
    congr 1
    simp; omega
  | neg op ts v hop _ ih =>
    intro tokens A B ctx k p htok hk _ _
    simp only [List.length_cons] at hk
    obtain ⟨k1, rfl⟩ : ∃ k1, k = k1 + 1 := ⟨k - 1, by omega⟩
    obtain ⟨n1, _, _, e1⟩ := ih tokens (A ++ [op]) B ctx k1 100 (by simp [htok])
      (by omega) (fun h => by cases h) (fun h => by cases h)
    rw [binLoop_high _ _ _ _ _ _ _ (by omega)] at e1
    simp only [List.length_append, List.length_singleton] at e1
    refine ⟨k1 + 1, Nat.le_refl _, by omega, ?_⟩
    rw [parseExpression, get?_at tokens A (ts ++ B) op _ (by simp [htok]) rfl]
    simp only [hop, reduceCtorEq, or_true, if_true, e1]
    congr 1
    simp; omega
  | unary ts v _ ih =>
    intro tokens A B ctx k p htok hk _ _
    exact ih tokens A B ctx k p htok hk (fun h => by cases h) (fun h => by cases h)
  | mul op ts us a b _ hop _ ih1 ih2 =>
    intro tokens A B ctx k p htok hk hp _
    simp only [List.length_cons, List.length_append] at hk
    obtain ⟨k1, rfl⟩ : ∃ k1, k = k1 + 1 := ⟨k - 1, by omega⟩
    obtain ⟨n1, hn1, hn2, e1⟩ := ih1 tokens A (op :: us ++ B) ctx (k1 + 1) p
      (by simp [htok]) (by omega) hp (fun h => by cases h)
    obtain ⟨n2, _, _, e2⟩ := ih2 tokens (A ++ ts ++ [op]) B ctx k1 3 (by simp [htok])
      (by omega) (fun h => by cases h) (fun h => by cases h)
    rw [binLoop_high _ _ _ _ _ _ _ (by omega)] at e2
    simp only [List.length_append, List.length_singleton] at e2
    obtain ⟨n, rfl⟩ : ∃ n, n1 = n + 1 := ⟨n1 - 1, by omega⟩
    refine ⟨n, by omega, by simp only [List.length_cons, List.length_append]; omega, ?_⟩
    rw [e1, ((binLoop_step _ tokens p n ctx _ a op
      (get?_at tokens (A ++ ts) (us ++ B) op _ (by simp [htok]) (by simp))).2.2.1 hop (hp rfl))]
    simp only [e2]
    congr 1
    simp; omega
  | div op ts us a b _ hop _ hb ih1 ih2 =>
    intro tokens A B ctx k p htok hk hp _
    simp only [List.length_cons, List.length_append] at hk
    obtain ⟨k1, rfl⟩ : ∃ k1, k = k1 + 1 := ⟨k - 1, by omega⟩
    obtain ⟨n1, hn1, hn2, e1⟩ := ih1 tokens A (op :: us ++ B) ctx (k1 + 1) p
      (by simp [htok]) (by omega) hp (fun h => by cases h)
    obtain ⟨n2, _, _, e2⟩ := ih2 tokens (A ++ ts ++ [op]) B ctx k1 3 (by simp [htok])
      (by omega) (fun h => by cases h) (fun h => by cases h)
    rw [binLoop_high _ _ _ _ _ _ _ (by omega)] at e2
    simp only [List.length_append, List.length_singleton] at e2
    obtain ⟨n, rfl⟩ : ∃ n, n1 = n + 1 := ⟨n1 - 1, by omega⟩
    refine ⟨n, by omega, by simp only [List.length_cons, List.length_append]; omega, ?_⟩
    rw [e1, ((binLoop_step _ tokens p n ctx _ a op
      (get?_at tokens (A ++ ts) (us ++ B) op _ (by simp [htok]) (by simp))).2.2.2 hop (hp rfl)
      (by simp only [e2]; exact hb))]
    simp only [e2]
    congr 1
    simp; omega
  | term ts v _ ih =>
    intro tokens A B ctx k p htok hk _ hp
    exact ih tokens A B ctx k p htok hk (fun _ => by have := (hp rfl).1; omega)
      (fun h => by cases h)
  | add op ts us a b _ hop _ ih1 ih2 =>
    intro tokens A B ctx k p htok hk _ hp
    obtain ⟨hp1, hB⟩ := hp rfl
    simp only [List.length_cons, List.length_append] at hk
    obtain ⟨k1, rfl⟩ : ∃ k1, k = k1 + 1 := ⟨k - 1, by omega⟩
    have hstop : StopsAt (op :: us ++ B) 2 := by
      intro t ht
      simp only [List.cons_append, List.head?_cons, Option.some.injEq] at ht
      subst ht
      rw [hop]
      exact ⟨by decide, fun h => absurd h (by decide)⟩
    obtain ⟨n1, hn1, hn2, e1⟩ := ih1 tokens A (op :: us ++ B) ctx (k1 + 1) p
      (by simp [htok]) (by omega) (fun h => by cases h) (fun _ => ⟨hp1, hstop⟩)
    obtain ⟨n2, _, _, e2⟩ := ih2 tokens (A ++ ts ++ [op]) B ctx k1 2 (by simp [htok])
      (by omega) (fun _ => Nat.le_refl _) (fun h => by cases h)
    rw [binLoop_stop_at _ tokens ((A ++ ts ++ [op]) ++ us) B 2 n2 ctx _ b
      (by simp [htok])
      (by simp only [List.length_append, List.length_singleton]) hB] at e2
    simp only [List.length_append, List.length_singleton] at e2
    obtain ⟨n, rfl⟩ : ∃ n, n1 = n + 1 := ⟨n1 - 1, by omega⟩
    refine ⟨n, by omega, by simp only [List.length_cons, List.length_append]; omega, ?_⟩
    rw [e1, ((binLoop_step _ tokens p n ctx _ a op
      (get?_at tokens (A ++ ts) (us ++ B) op _ (by simp [htok]) (by simp))).1 hop hp1)]
    simp only [e2]
    congr 1
    simp; omega
  | sub op ts us a b _ hop _ ih1 ih2 =>
    intro tokens A B ctx k p htok hk _ hp
    obtain ⟨hp1, hB⟩ := hp rfl
    simp only [List.length_cons, List.length_append] at hk
    obtain ⟨k1, rfl⟩ : ∃ k1, k = k1 + 1 := ⟨k - 1, by omega⟩
    have hstop : StopsAt (op :: us ++ B) 2 := by
      intro t ht
      simp only [List.cons_append, List.head?_cons, Option.some.injEq] at ht
      subst ht
      rw [hop]
      exact ⟨by decide, fun h => absurd h (by decide)⟩
    obtain ⟨n1, hn1, hn2, e1⟩ := ih1 tokens A (op :: us ++ B) ctx (k1 + 1) p
      (by simp [htok]) (by omega) (fun h => by cases h) (fun _ => ⟨hp1, hstop⟩)
    obtain ⟨n2, _, _, e2⟩ := ih2 tokens (A ++ ts ++ [op]) B ctx k1 2 (by simp [htok])
      (by omega) (fun _ => Nat.le_refl _) (fun h => by cases h)
    rw [binLoop_stop_at _ tokens ((A ++ ts ++ [op]) ++ us) B 2 n2 ctx _ b
      (by simp [htok])
      (by simp only [List.length_append, List.length_singleton]) hB] at e2
    simp only [List.length_append, List.length_singleton] at e2
    obtain ⟨n, rfl⟩ : ∃ n, n1 = n + 1 := ⟨n1 - 1, by omega⟩
    refine ⟨n, by omega, by simp only [List.length_cons, List.length_append]; omega, ?_⟩
    rw [e1, ((binLoop_step _ tokens p n ctx _ a op
      (get?_at tokens (A ++ ts) (us ++ B) op _ (by simp [htok]) (by simp))).2.1 hop hp1)]
    simp only [e2]
    congr 1
    simp; omega

/-- A phrase of the expression grammar inside a token list, followed by no binary operator,
is parsed by `parseExpr` to its value; the context is unchanged and the index arrives behind
the phrase. -/
theorem parseExpr_phrase (ctx : AssemblerContext) (A ts B : List Token) (v : Int) (p : Nat)
    (h : HasValue .expr ts v) (hp : p ≤ 1) (hB : StopsAt B 0) :
    parseExpr ctx (A ++ ts ++ B) A.length p = (ctx, A.length + ts.length, v) := by
  have hB2 : StopsAt B 2 := fun t ht => ⟨(hB t ht).1, fun h => absurd h (by decide)⟩
  have hBp : StopsAt B p := fun t ht => ⟨(hB t ht).1, fun _ => (hB t ht).2 (Nat.zero_le _)⟩
  obtain ⟨n, _, _, e⟩ := parseExpression_phrase h (A ++ ts ++ B) A B ctx (A ++ ts ++ B).length p
    rfl (by simp; omega) (fun h => by cases h) (fun _ => ⟨hp, hB2⟩)
  unfold parseExpr
  rw [e]
  exact binLoop_stop_at _ (A ++ ts ++ B) (A ++ ts) B p n ctx _ v rfl (by simp) hBp

theorem stopsAt_nil (p : Nat) : StopsAt [] p := fun t ht => by cases ht

/-- A phrase with an `int` value is a phrase of the usual grammar, with the same value. -/
theorem hasIntValue_hasValue {lvl : Level} {ts : List Token} {v : Int}
    (h : HasIntValue lvl ts v) : HasValue lvl ts v := by
  induction h with
  | num t v r h1 h2 => exact .num t v r h1 h2
  | paren lp rp ts v h1 h2 _ ih => exact .paren lp rp ts v h1 h2 ih
  | pos op ts v h1 _ ih => exact .pos op ts v h1 ih
  | neg op ts v h1 _ _ ih => exact .neg op ts v h1 ih
  | unary ts v _ ih => exact .unary ts v ih
  | mul op ts us a b _ h2 _ _ ih1 ih2 => exact .mul op ts us a b ih1 h2 ih2
  | div op ts us a b _ h2 _ h4 _ ih1 ih2 => exact .div op ts us a b ih1 h2 ih2 h4
  | term ts v _ ih => exact .term ts v ih
  | add op ts us a b _ h2 _ _ ih1 ih2 => exact .add op ts us a b ih1 h2 ih2
  | sub op ts us a b _ h2 _ _ ih1 ih2 => exact .sub op ts us a b ih1 h2 ih2

/-- The value of a phrase with an `int` value is a value of type `int`. -/
theorem hasIntValue_fits {lvl : Level} {ts : List Token} {v : Int}
    (h : HasIntValue lvl ts v) : fitsInt v := by
  induction h with
  | num t v r _ h2 =>
    have hr := parseNumber_ok_range t.value (by rw [h2])
    rw [h2] at hr
    exact ⟨by have := hr.1; simp only at this; omega, by have := hr.2; simp only at this; omega⟩
  | paren _ _ _ _ _ _ _ ih => exact ih
  | pos _ _ _ _ _ ih => exact ih
  | neg _ _ _ _ _ h3 _ => exact h3
  | unary _ _ _ ih => exact ih
  | mul _ _ _ _ _ _ _ _ h4 _ _ => exact h4
  | div _ _ _ _ _ _ _ _ _ h5 _ _ => exact h5
  | term _ _ _ ih => exact ih
  | add _ _ _ _ _ _ _ _ h4 _ _ => exact h4
  | sub _ _ _ _ _ _ _ _ h4 _ _ => exact h4

/-- C24. For every token sequence that is a well-formed arithmetic expression of the usual
grammar (literals, unary and binary operators, parentheses, no division by zero) all of whose
operations stay inside the C++ type `int` (`HasIntValue`), `parseExpression` returns its
value `v` under the usual grammar, a value of type `int`, consumes the whole sequence and
leaves the context as it was (no diagnostic). The restriction is needed: `65535*65535` is a
well-formed expression of the usual grammar whose value 4294836225 is no value of type
`int`, so that the `lhs *= rhs` of the source overflows; the unbounded integers of the
embedding return 4294836225 there, which the source cannot. -/
theorem C24_expression_precedence (ctx : AssemblerContext) (ts : List Token) (v : Int)
    (h : HasIntValue .expr ts v) :
    parseExpr ctx ts 0 0 = (ctx, ts.length, v)
    ∧ HasValue .expr ts v
    ∧ fitsInt v
    ∧ HasValue .expr (tokenize "65535*65535" 1) 4294836225
    ∧ ¬ fitsInt 4294836225
    ∧ (parseExpr ctx (tokenize "65535*65535" 1) 0 0).2.2 = 4294836225 := by
  have hv := hasIntValue_hasValue h
  have e := parseExpr_phrase ctx [] ts [] v 0 hv (Nat.zero_le _) (stopsAt_nil 0)
  have t1 : tokenize "65535*65535" 1
      = [⟨.Number, "65535", 1⟩] ++ ⟨.Star, "*", 1⟩ :: [⟨.Number, "65535", 1⟩] := by decide
  have n1 : HasValue .unary [⟨.Number, "65535", 1⟩] 65535 := .num _ 65535 "" rfl (by decide)
  have d : HasValue .expr (tokenize "65535*65535" 1) (65535 * 65535) := by
    rw [t1]
    exact .term _ _ (.mul _ _ _ 65535 65535 (.unary _ _ n1) rfl n1)
  have e2 := parseExpr_phrase ctx [] _ [] _ 0 d (Nat.zero_le _) (stopsAt_nil 0)
  refine ⟨by simpa using e, hv, hasIntValue_fits h, d, by decide, ?_⟩
  have e3 : parseExpr ctx (tokenize "65535*65535" 1) 0 0
      = (ctx, (tokenize "65535*65535" 1).length, 65535 * 65535) := by simpa using e2
  rw [e3]
  rfl

/-- C24 at `2+3*4`, derived in the grammar as 2 + (3 * 4) = 14, and the other examples of the
claim evaluated: 10-3-2 = 5, -2*3 = -6, (2+3)*4 = 20, and 7 divided by -2 = -3. -/
theorem C24_expression_precedence_witness :
    parseExpr pass2Ctx (tokenize "2+3*4" 1) 0 0 = (pass2Ctx, 5, 14)
    ∧ parseExpr pass2Ctx (tokenize "10-3-2" 1) 0 0 = (pass2Ctx, 5, 5)
    ∧ parseExpr pass2Ctx (tokenize "-2*3" 1) 0 0 = (pass2Ctx, 4, -6)
    ∧ parseExpr pass2Ctx (tokenize "(2+3)*4" 1) 0 0 = (pass2Ctx, 7, 20)
    ∧ parseExpr pass2Ctx (tokenize "7 / -2" 1) 0 0 = (pass2Ctx, 4, -3) := by
  have t1 : tokenize "2+3*4" 1 = [⟨.Number, "2", 1⟩] ++ ⟨.Plus, "+", 1⟩ ::
      ([⟨.Number, "3", 1⟩] ++ ⟨.Star, "*", 1⟩ :: [⟨.Number, "4", 1⟩]) := by decide
  have n2 : HasIntValue .unary [⟨.Number, "2", 1⟩] 2 := .num _ 2 "" rfl (by decide)
  have n3 : HasIntValue .unary [⟨.Number, "3", 1⟩] 3 := .num _ 3 "" rfl (by decide)
  have n4 : HasIntValue .unary [⟨.Number, "4", 1⟩] 4 := .num _ 4 "" rfl (by decide)
  have d : HasIntValue .expr ([⟨.Number, "2", 1⟩] ++ ⟨.Plus, "+", 1⟩ ::
      ([⟨.Number, "3", 1⟩] ++ ⟨.Star, "*", 1⟩ :: [⟨.Number, "4", 1⟩])) (2 + 3 * 4) :=
    .add _ _ _ 2 (3 * 4) (.term _ _ (.unary _ _ n2)) rfl
      (.mul _ _ _ 3 4 (.unary _ _ n3) rfl n4 (by decide)) (by decide)
  have h := (C24_expression_precedence pass2Ctx _ _ d).1
  rw [← t1] at h
  exact ⟨h, by decide, by decide, by decide, by decide⟩

/-! ## Parser lemmas: parsing emits nothing -/

theorem frame_refl (c : AssemblerContext) : Frame c c :=
  ⟨rfl, rfl, rfl, rfl, rfl, rfl, rfl, [], by simp⟩

theorem frame_trans {a b c : AssemblerContext} (h1 : Frame a b) (h2 : Frame b c) : Frame a c := by
  obtain ⟨a1, a2, a3, a4, a5, a6, a7, d1, a8⟩ := h1
  obtain ⟨b1, b2, b3, b4, b5, b6, b7, d2, b8⟩ := h2
  exact ⟨b1.trans a1, b2.trans a2, b3.trans a3, b4.trans a4, b5.trans a5, b6.trans a6,
    b7.trans a7, d1 ++ d2, by rw [b8, a8, List.append_assoc]⟩

theorem frame_logError (c : AssemblerContext) (line : Nat) (m h : String) :
    Frame c (logError c line m h) :=
  ⟨rfl, rfl, rfl, rfl, rfl, rfl, rfl, _, rfl⟩

theorem frame_flag (c : AssemblerContext) (b : Bool) :
    Frame c { c with encounteredSymbol := b } :=
  ⟨rfl, rfl, rfl, rfl, rfl, rfl, rfl, [], by simp⟩

theorem frame_ite_logError (c : AssemblerContext) (p : Prop) [Decidable p] (line : Nat)
    (m h : String) : Frame c (if p then c else logError c line m h) := by
  split
  · exact frame_refl c
  · exact frame_logError c line m h

theorem binLoop_frame (tokens : List Token) (minPrec : Nat)
    (parseRhs : AssemblerContext → Nat → Nat → AssemblerContext × Nat × Int)
    (hrhs : ∀ c i p, Frame c (parseRhs c i p).1) :
    ∀ n ctx idx lhs, Frame ctx (binLoop parseRhs tokens minPrec n ctx idx lhs).1 := by
  intro n
  induction n with
  | zero => intro ctx idx lhs; exact frame_refl ctx
  | succ n ih =>
    intro ctx idx lhs
    unfold binLoop
    cases hg : tokens.get? idx with
    | none => exact frame_refl ctx
    | some t =>
      simp only
      split_ifs
      all_goals
        first
        | exact frame_refl ctx
        | exact frame_trans (hrhs ctx (idx + 1) _) (ih _ _ _)
        | exact frame_trans (frame_trans (hrhs ctx (idx + 1) _) (frame_logError _ _ _ _))
            (ih _ _ _)

theorem parseExpression_frame (tokens : List Token) :
    ∀ fuel ctx idx minPrec, Frame ctx (parseExpression fuel ctx tokens idx minPrec).1 := by
  intro fuel
  induction fuel with
  | zero => intro ctx idx minPrec; exact frame_refl ctx
  | succ fuel ih =>
    intro ctx idx minPrec
    unfold parseExpression
    cases hg : tokens.get? idx with
    | none => exact frame_refl ctx
    | some t =>
      simp only
      have hloop : ∀ c i l, Frame c
          (binLoop (fun c i p => parseExpression fuel c tokens i p) tokens minPrec fuel c i l).1 :=
        binLoop_frame tokens minPrec _ (fun c i p => ih c i p) fuel
      by_cases h1 : t.type = .Plus ∨ t.type = .Minus
      · rw [if_pos h1]
        exact frame_trans (ih ctx (idx + 1) 100) (hloop _ _ _)
      · rw [if_neg h1]
        by_cases h2 : t.type = .LParen
        · rw [if_pos h2]
          have hin := ih ctx (idx + 1) 0
          cases hg1 : tokens.get? (parseExpression fuel ctx tokens (idx + 1) 0).2.1 with
          | none =>
            exact frame_trans (frame_trans hin (frame_logError _ _ _ _)) (hloop _ _ _)
          | some t1 =>
            simp only
            by_cases h3 : t1.type = .RParen
            · rw [if_pos h3]
              exact frame_trans hin (hloop _ _ _)
            · rw [if_neg h3]
              exact frame_trans (frame_trans hin (frame_logError _ _ _ _)) (hloop _ _ _)
        · rw [if_neg h2]
          by_cases h3 : t.type = .Number
          · rw [if_pos h3]
            split_ifs
            · exact hloop _ _ _
            · exact frame_trans (frame_logError _ _ _ _) (hloop _ _ _)
          · rw [if_neg h3]
            by_cases h4 : t.type = .Identifier ∧ (isAlphaC (firstChar t.value) = true
                ∨ firstChar t.value = '.' ∨ firstChar t.value = '_' ∨ firstChar t.value = '?')
            · rw [if_pos h4]
              by_cases hd : t.value = "$"
              · rw [if_pos hd]; exact hloop _ _ _
              · rw [if_neg hd]
                split
                · exact frame_trans (frame_flag ctx true) (hloop _ _ _)
                · split_ifs
                  all_goals
                    first
                    | exact frame_trans (frame_flag ctx true) (hloop _ _ _)
                    | exact frame_trans (frame_trans (frame_flag ctx true)
                        (frame_logError _ _ _ _)) (hloop _ _ _)
            · rw [if_neg h4]
              by_cases h5 : t.type = .String
              · rw [if_pos h5]; exact hloop _ _ _
              · rw [if_neg h5]
                exact frame_ite_logError ctx _ _ _ _

theorem parseExpr_frame (ctx : AssemblerContext) (tokens : List Token) (idx minPrec : Nat) :
    Frame ctx (parseExpr ctx tokens idx minPrec).1 :=
  parseExpression_frame tokens _ ctx idx minPrec

/-! ## C25: the addressing-mode table -/

theorem hasValue_head {lvl : Level} {ts : List Token} {v : Int} (h : HasValue lvl ts v) :
    ∃ t rest, ts = t :: rest
      ∧ (t.type = .Number ∨ t.type = .LParen ∨ t.type = .Plus ∨ t.type = .Minus) := by
  induction h with
  | num t v r ht hv => exact ⟨t, [], rfl, Or.inl ht⟩
  | paren lp rp ts v hlp hrp _ _ => exact ⟨lp, ts ++ [rp], rfl, Or.inr (Or.inl hlp)⟩
  | pos op ts v hop _ _ => exact ⟨op, ts, rfl, Or.inr (Or.inr (Or.inl hop))⟩
  | neg op ts v hop _ _ => exact ⟨op, ts, rfl, Or.inr (Or.inr (Or.inr hop))⟩
  | unary ts v _ ih => exact ih
  | mul op ts us a b _ _ _ ih1 _ =>
    obtain ⟨t, rest, e, ht⟩ := ih1
    exact ⟨t, rest ++ op :: us, by rw [e]; rfl, ht⟩
  | div op ts us a b _ _ _ _ ih1 _ =>
    obtain ⟨t, rest, e, ht⟩ := ih1
    exact ⟨t, rest ++ op :: us, by rw [e]; rfl, ht⟩
  | term ts v _ ih => exact ih
  | add op ts us a b _ _ _ ih1 _ =>
    obtain ⟨t, rest, e, ht⟩ := ih1
    exact ⟨t, rest ++ op :: us, by rw [e]; rfl, ht⟩
  | sub op ts us a b _ _ _ ih1 _ =>
    obtain ⟨t, rest, e, ht⟩ := ih1
    exact ⟨t, rest ++ op :: us, by rw [e]; rfl, ht⟩

theorem bracketLoop_rbracket (tokens : List Token) (n : Nat) (st : BracketState) (rb : Token)
    (hg : tokens.get? st.idx = some rb) (hrb : rb.type = .RBracket) :
    bracketLoop tokens n st = st := by
  cases n with
  | zero => rfl
  | succ n => rw [bracketLoop, hg]; simp [hrb]

theorem stopsAt_rbracket (rb : Token) (rest : List Token) (p : Nat) (hrb : rb.type = .RBracket) :
    StopsAt (rb :: rest) p := by
  intro t ht
  simp only [List.head?_cons, Option.some.injEq] at ht
  subst ht
  rw [hrb]
  exact ⟨by decide, fun _ => by decide⟩

/-- The bracket loop at a displacement: an expression phrase that ends at the `]`. -/
theorem bracketLoop_disp (A disp rest : List Token) (rb : Token) (v : Int) (n : Nat)
    (st : BracketState) (hi : st.idx = A.length) (hrb : rb.type = .RBracket)
    (hd : HasValue .expr disp v)
    (hh : ∀ t, disp.head? = some t → t.type ≠ .Plus ∧ isRegister t.value = none) :
    bracketLoop (A ++ disp ++ rb :: rest) (n + 1) st
      = { st with ctx := { st.ctx with encounteredSymbol := false },
                  idx := A.length + disp.length, displacement := st.displacement + v } := by
  obtain ⟨t, dr, e, ht⟩ := hasValue_head hd
  obtain ⟨h1, h2⟩ := hh t (by rw [e]; rfl)
  have hg : (A ++ disp ++ rb :: rest).get? st.idx = some t := by
    rw [hi, e, List.append_assoc, List.cons_append]
    exact get?_middle A _ t
  have hx := parseExpr_phrase { st.ctx with encounteredSymbol := false } A disp (rb :: rest) v 0
    hd (Nat.zero_le _) (stopsAt_rbracket rb rest 0 hrb)
  rw [bracketLoop, hg]
  simp only
  have e1 : t.type ≠ .RBracket := by rcases ht with h | h | h | h <;> rw [h] <;> decide
  have e3 : ¬ (t.type = .LabelDef ∧ segPrefixOf (toUpper t.value) ≠ -1) := by
    rcases ht with h | h | h | h <;> rw [h] <;> simp
  rw [if_neg e1, if_neg h1, if_neg e3, h2]
  simp only
  rw [hi, hx]
  simp only [Bool.false_eq_true, if_false]
  refine bracketLoop_rbracket _ n _ rb ?_ hrb
  exact get?_at _ (A ++ disp) rest rb _ (by simp) (by simp)

/-- A `[` that starts an operand sends `parseOperand` to the bracket branch. -/
theorem parseOperand_bracket (ctx : AssemblerContext) (tokens : List Token) (idx : Nat)
    (lb : Token) (hg : tokens.get? idx = some lb) (hlb : lb.type = .LBracket) :
    parseOperand ctx tokens idx = parseMemory ctx tokens idx Operand.empty 0 idx := by
  have h1 : operandPrefix lb = -1 := by simp [operandPrefix, hlb]
  have h2 : operandSizeOverride lb = 0 := by simp [operandSizeOverride, hlb]
  unfold parseOperand
  rw [hg]
  simp only [h1, ne_eq, not_true_eq_false, if_false, hg, h2, hlb, if_true]

/-- The state in which the bracket loop stops for registers, an optional displacement
expression and the closing bracket. -/
theorem bracketLoop_operand (ctx : AssemblerContext) (pre body disp rest : List Token)
    (lb rb : Token) (v : Int) (op : Operand) (so : Nat) (hrb : rb.type = .RBracket)
    (hbody : ∀ t ∈ body, IsBaseOrIndex t)
    (hdisp : (disp = [] ∧ v = 0) ∨ (HasValue .expr disp v
      ∧ ∀ t, disp.head? = some t → t.type ≠ .Plus ∧ isRegister t.value = none)) :
    ∃ c, Frame ctx c ∧ c.diagnostics = ctx.diagnostics
      ∧ bracketLoop (pre ++ lb :: (body ++ disp ++ rb :: rest))
          (pre ++ lb :: (body ++ disp ++ rb :: rest)).length (bracketStart ctx pre.length op so)
        = { bracketStart ctx pre.length op so with
            ctx := c, idx := pre.length + 1 + body.length + disp.length,
            hasBX := names body "BX", hasBP := names body "BP", hasSI := names body "SI",
            hasDI := names body "DI", displacement := v } := by
  have htok : pre ++ lb :: (body ++ disp ++ rb :: rest)
      = (pre ++ [lb]) ++ body ++ (disp ++ rb :: rest) := by simp
  have hlen : (pre ++ lb :: (body ++ disp ++ rb :: rest)).length
      = (pre.length + disp.length + rest.length + 1) + 1 + body.length := by
    simp only [List.length_append, List.length_cons]; omega
  rw [hlen, htok, bracketLoop_regs (disp ++ rb :: rest) body (pre ++ [lb]) _ _
    (by simp [bracketStart]) hbody]
  rcases hdisp with ⟨hd, hv⟩ | ⟨hd, hh⟩
  · subst hd hv
    refine ⟨ctx, frame_refl ctx, rfl, ?_⟩
    rw [bracketLoop_rbracket _ _ _ rb
      (get?_at _ (pre ++ [lb] ++ body) rest rb _ (by simp) (by simp; omega)) hrb]
    simp [bracketStart]
  · refine ⟨{ ctx with encounteredSymbol := false }, frame_flag ctx false, rfl, ?_⟩
    have e : pre ++ [lb] ++ body ++ (disp ++ rb :: rest)
        = (pre ++ [lb] ++ body) ++ disp ++ rb :: rest := by simp
    rw [e, bracketLoop_disp (pre ++ [lb] ++ body) disp rest rb v _ _ (by simp; omega) hrb hd hh]
    simp [bracketStart]
    omega

theorem bracketLoop_frame (tokens : List Token) :
    ∀ n st, Frame st.ctx (bracketLoop tokens n st).ctx := by
  intro n
  induction n with
  | zero => intro st; exact frame_refl _
  | succ n ih =>
    intro st
    unfold bracketLoop
    cases hg : tokens.get? st.idx with
    | none => exact frame_refl _
    | some t =>
      simp only
      by_cases h1 : t.type = .RBracket
      · rw [if_pos h1]; exact frame_refl _
      · rw [if_neg h1]
        by_cases h2 : t.type = .Plus
        · rw [if_pos h2]; exact ih _
        · rw [if_neg h2]
          by_cases h3 : t.type = .LabelDef ∧ segPrefixOf (toUpper t.value) ≠ -1
          · rw [if_pos h3]; exact ih _
          · rw [if_neg h3]
            cases hr : isRegister t.value with
            | some p =>
              simp only
              refine frame_trans ?_ (ih _)
              simp only
              split_ifs
              all_goals first | exact frame_refl _ | exact frame_logError _ _ _ _
            | none =>
              simp only
              refine frame_trans ?_ (ih _)
              exact frame_trans (frame_flag st.ctx false) (parseExpr_frame _ tokens st.idx 0)

theorem parseMemory_frame (ctx : AssemblerContext) (tokens : List Token) (idx : Nat)
    (op : Operand) (so start : Nat) : Frame ctx (parseMemory ctx tokens idx op so start).1 := by
  unfold parseMemory
  simp only
  have h := bracketLoop_frame tokens tokens.length (bracketStart ctx idx op so)
  split
  · exact h
  · exact frame_trans h (frame_logError _ _ _ _)

theorem parseSimple_frame (ctx : AssemblerContext) (tokens : List Token) (idx : Nat)
    (op : Operand) (t : Token) (start : Nat) :
    Frame ctx (parseSimple ctx tokens idx op t start).1 := by
  unfold parseSimple
  split
  · exact frame_refl _
  · simp only
    split_ifs
    all_goals first | exact frame_refl _ | exact parseExpr_frame ctx tokens idx 0

theorem parseOperand_frame (ctx : AssemblerContext) (tokens : List Token) (idx : Nat) :
    Frame ctx (parseOperand ctx tokens idx).1 := by
  unfold parseOperand
  split
  · exact frame_refl _
  · simp only
    split
    · exact frame_refl _
    · split
      · exact frame_refl _
      · split_ifs
        all_goals
          first
          | exact parseMemory_frame _ _ _ _ _ _
          | exact parseSimple_frame _ _ _ _ _ _

theorem parseOperands_frame (ctx : AssemblerContext) (tokens : List Token) (idx : Nat) :
    Frame ctx (parseOperands ctx tokens idx).1 := by
  unfold parseOperands
  have h1 := parseOperand_frame ctx tokens idx
  simp only
  split
  · split
    · split_ifs
      · exact frame_trans (frame_trans h1 (parseOperand_frame _ _ _)) (frame_logError _ _ _ _)
      · exact frame_trans h1 (frame_logError _ _ _ _)
    · exact frame_trans h1 (frame_logError _ _ _ _)
  · split
    · split_ifs
      · exact frame_trans h1 (parseOperand_frame _ _ _)
      · exact h1
    · exact h1

theorem assembleInstruction_rejected (ctx : AssemblerContext) (tokens : List Token) (idx : Nat)
    (m : String) (startAddr : Int) (lineNum : Nat) (sourceLine : String)
    (h : (validateInstruction (parseOperands ctx tokens idx).1 m (parseOperands ctx tokens idx).2.1
      (parseOperands ctx tokens idx).2.2 (tokLine tokens 0)).2 = false) :
    assembleInstruction ctx tokens idx m startAddr lineNum sourceLine
      = (validateInstruction (parseOperands ctx tokens idx).1 m (parseOperands ctx tokens idx).2.1
          (parseOperands ctx tokens idx).2.2 (tokLine tokens 0)).1 := by
  unfold assembleInstruction
  simp only
  change (if ¬ (validateInstruction (parseOperands ctx tokens idx).1 m
      (parseOperands ctx tokens idx).2.1 (parseOperands ctx tokens idx).2.2
      (tokLine tokens 0)).2 = true then
        (validateInstruction (parseOperands ctx tokens idx).1 m
          (parseOperands ctx tokens idx).2.1 (parseOperands ctx tokens idx).2.2
          (tokLine tokens 0)).1
      else _) = _
  rw [if_pos (by rw [h]; decide)]

/-- C26 fails on the code for ADC, SBB and XLATB. For a mnemonic with an entry in the ISA
database, operands matching none of the entry's forms make `assembleInstruction` log the
ERROR "Invalid operands for ..." with the valid forms and the shapes supplied, and emit
nothing: machine code, line bytes, address and listing stay as they were. But ADC, SBB and
XLATB, which the encoder handles, have no entry, and for them validation accepts every operand
pair. -/
theorem C26_operand_shapes_validated (ctx : AssemblerContext) (tokens : List Token) (idx : Nat)
    (m : String) (startAddr : Int) (lineNum : Nat) (sourceLine : String) :
    (∀ entry, isaDB.find? (fun e => e.mnemonic = m) = some entry →
      entry.validForms.any (fun form =>
          ruleMatches (parseOperands ctx tokens idx).2.1 form.type1
            && ruleMatches (parseOperands ctx tokens idx).2.2 form.type2) = false →
      (∃ ds, (assembleInstruction ctx tokens idx m startAddr lineNum sourceLine).diagnostics
          = ctx.diagnostics ++ ds ++ [⟨"ERROR", tokLine tokens 0, "Invalid operands for " ++ m,
              "Valid forms: " ++ validFormsHint m entry.validForms ++ ". You provided: "
                ++ describeOperandType (parseOperands ctx tokens idx).2.1
                ++ (if (parseOperands ctx tokens idx).2.2.present
                    then ", " ++ describeOperandType (parseOperands ctx tokens idx).2.2 else "")
                ++ "."⟩])
      ∧ (assembleInstruction ctx tokens idx m startAddr lineNum sourceLine).machineCode
          = ctx.machineCode
      ∧ (assembleInstruction ctx tokens idx m startAddr lineNum sourceLine).currentLineBytes
          = ctx.currentLineBytes
      ∧ (assembleInstruction ctx tokens idx m startAddr lineNum sourceLine).currentAddress
          = ctx.currentAddress
      ∧ (assembleInstruction ctx tokens idx m startAddr lineNum sourceLine).listing
          = ctx.listing)
    ∧ (m ∈ ["ADC", "SBB", "XLATB"] →
        (isALU m = true ∨ (simpleOpcodes.lookup m).isSome = true)
        ∧ ∀ c op1 op2 line, validateInstruction c m op1 op2 line = (c, true)) := by
  refine ⟨fun entry hdb hbad => ?_, fun hm => ?_⟩
  · have hv : validateInstruction (parseOperands ctx tokens idx).1 m
        (parseOperands ctx tokens idx).2.1 (parseOperands ctx tokens idx).2.2 (tokLine tokens 0)
        = (logError (parseOperands ctx tokens idx).1 (tokLine tokens 0)
            ("Invalid operands for " ++ m)
            ("Valid forms: " ++ validFormsHint m entry.validForms ++ ". You provided: "
                ++ describeOperandType (parseOperands ctx tokens idx).2.1
                ++ (if (parseOperands ctx tokens idx).2.2.present
                    then ", " ++ describeOperandType (parseOperands ctx tokens idx).2.2 else "")
                ++ "."), false) := by
      unfold validateInstruction
      rw [hdb]
      simp only [hbad]
      rfl
    rw [assembleInstruction_rejected ctx tokens idx m startAddr lineNum sourceLine
      (by rw [hv]), hv]
    obtain ⟨f1, f2, f3, _, f5, _, _, ds, f8⟩ := parseOperands_frame ctx tokens idx
    exact ⟨⟨ds, by simp only [logError]; rw [f8]⟩, f1, f2, f3, f5⟩
  · have h3 : ∀ x ∈ ["ADC", "SBB", "XLATB"],
        (isALU x = true ∨ (simpleOpcodes.lookup x).isSome = true)
        ∧ isaDB.find? (fun e => e.mnemonic = x) = none := by decide
    obtain ⟨e1, e2⟩ := h3 m hm
    refine ⟨e1, fun c op1 op2 line => ?_⟩
    unfold validateInstruction
    rw [e2]

/-- C26 at `ADD AX`, rejected with nothing emitted, and at `ADC AX`, `SBB AL` and
`XLATB AX, BX`, which are assembled without any diagnostic. -/
theorem C26_operand_shapes_validated_witness :
    (assembleInstruction pass2Ctx (tokenize "ADD AX" 1) 1 "ADD" 0 1 "ADD AX").machineCode = []
    ∧ (assemble ["ADD AX"] []).diagnostics = [⟨"ERROR", 1, "Invalid operands for ADD",
        "Valid forms: ADD REG, REG | ADD REG, MEM | ADD MEM, REG | ADD REG, IMM | ADD MEM, IMM. You provided: REG16(AX)."⟩]
    ∧ (assemble ["ADD AX"] []).machineCode = []
    ∧ validateInstruction pass2Ctx "ADC" (regOperand 0 16) Operand.empty 1 = (pass2Ctx, true)
    ∧ (assemble ["ADC AX"] []).diagnostics = []
    ∧ (assemble ["ADC AX"] []).machineCode = [0x81, 0xD0, 0x00, 0x00]
    ∧ (assemble ["SBB AL"] []).diagnostics = []
    ∧ (assemble ["SBB AL"] []).machineCode = [0x80, 0xD8, 0x00]
    ∧ (assemble ["XLATB AX, BX"] []).diagnostics = []
    ∧ (assemble ["XLATB AX, BX"] []).machineCode = [0xD7] := by
  have h1 := (C26_operand_shapes_validated pass2Ctx (tokenize "ADD AX" 1) 1 "ADD" 0 1
    "ADD AX").1 (.mk "ADD" "Arithmetic Add"
      [.mk "REG" "REG" "", .mk "REG" "MEM" "", .mk "MEM" "REG" "", .mk "REG" "IMM" "",
       .mk "MEM" "IMM" ""]) (by decide) (by decide)
  have h2 := ((C26_operand_shapes_validated pass2Ctx [] 0 "ADC" 0 0 "").2 (by decide)).2
    pass2Ctx (regOperand 0 16) Operand.empty 1
  exact ⟨h1.2.1, by decide, by decide, h2, by decide, by decide, by decide, by decide,
    by decide, by decide⟩

/-! ## C27: truncation warnings -/

@[simp] theorem emitModRM_diagnostics (ctx : AssemblerContext) (g : Nat) (mem : Operand) :
    (emitModRM ctx g mem).diagnostics = ctx.diagnostics := by
  unfold emitModRM; simp only; split_ifs <;> simp

theorem noSizeWarn_explicit (ctx : AssemblerContext) (line : Nat) (op1 : Operand) (ex : String)
    (h : op1.hasExplicitSize = true) : noSizeWarn ctx line op1 ex = ctx := by
  simp [noSizeWarn, h]

theorem truncWarn8_out (ctx : AssemblerContext) (line : Nat) (v : Int)
    (hp : ctx.isPass1 = false) (hv : v < -128 ∨ v > 255) :
    (truncWarn8 ctx line v).diagnostics = ctx.diagnostics ++ [⟨"WARNING", line,
      "Immediate value " ++ intToString v ++ " truncated to 8-bit (result: "
        ++ Nat.repr (toU8 v) ++ ")",
      "Value exceeds 8-bit range (0-255 unsigned, -128 to 127 signed). The low 8 bits will be used."⟩] := by
  simp [truncWarn8, hp, hv, logWarning]

theorem truncWarn16_out (ctx : AssemblerContext) (line : Nat) (v : Int)
    (hp : ctx.isPass1 = false) (hv : v < -32768 ∨ v > 65535) :
    (truncWarn16 ctx line v).diagnostics = ctx.diagnostics ++ [⟨"WARNING", line,
      "Immediate value " ++ intToString v ++ " truncated to 16-bit (result: "
        ++ Nat.repr (toU16 v) ++ ")",
      "Value exceeds 16-bit range (0-65535 unsigned, -32768 to 32767 signed)."⟩] := by
  simp [truncWarn16, hp, hv, logWarning]

/-- The immediate bytes an instruction ends with: one byte for an 8-bit destination, the two
bytes of the word, low byte first, otherwise. -/
theorem immBytes_cases (ctx : AssemblerContext) (v : Int) (hp : ctx.isPass1 = false) :
    (emitByte ctx (toU8 v)).currentLineBytes = ctx.currentLineBytes ++ [toU8 v]
    ∧ (emitWord ctx (toU16 v)).currentLineBytes
        = ctx.currentLineBytes ++ [toU16 v % 256, toU16 v / 256] := by
  refine ⟨?_, emitWord_bytes ctx _ hp (toU16_lt v)⟩
  rw [emitByte_bytes ctx _ hp, Nat.mod_eq_of_lt (toU8_lt v)]

theorem emitModRM_appends (ctx : AssemblerContext) (g : Nat) (mem : Operand)
    (hp : ctx.isPass1 = false) :
    ∃ pre, (emitModRM ctx g mem).currentLineBytes = ctx.currentLineBytes ++ pre := by
  unfold emitModRM
  simp only
  split_ifs
  · exact ⟨_, by simp [emitWord, emitByte, hp]; rfl⟩
  · exact ⟨_, by simp [emitByte, hp]; rfl⟩
  · exact ⟨_, by simp [emitWord, emitByte, hp]; rfl⟩
  · exact ⟨_, by simp [emitByte, hp]; rfl⟩

theorem imm_tail (c0 ctx : AssemblerContext) (size : Nat) (v : Int) (hp : ctx.isPass1 = false)
    (h : ∃ pre, ctx.currentLineBytes = c0.currentLineBytes ++ pre) :
    ((if size = 8 then emitByte ctx (toU8 v) else emitWord ctx (toU16 v)).diagnostics
        = ctx.diagnostics)
    ∧ ∃ pre, (if size = 8 then emitByte ctx (toU8 v) else emitWord ctx (toU16 v)).currentLineBytes
        = c0.currentLineBytes ++ pre ++ immediateBytes size v := by
  obtain ⟨pre, hpre⟩ := h
  unfold immediateBytes
  by_cases h8 : size = 8
  · rw [if_pos h8, if_pos h8]
    exact ⟨by simp, pre, by rw [(immBytes_cases ctx v hp).1, hpre]⟩
  · rw [if_neg h8, if_neg h8]
    exact ⟨by simp, pre, by rw [(immBytes_cases ctx v hp).2, hpre]⟩

theorem encodeInstruction_mov_alu (ctx : AssemblerContext) (m : String) (op1 op2 : Operand)
    (line : Nat) (hm : m = "MOV" ∨ isALU m = true) :
    encodeInstruction ctx m op1 op2 line
      = if m = "MOV" then encMOV ctx op1 op2 line else encALU ctx m op1 op2 line := by
  unfold encodeInstruction
  by_cases h : m = "MOV"
  · rw [if_pos h, if_pos h]
  · rw [if_neg h, if_neg h]
    rcases hm with hm | hm
    · exact absurd hm h
    · rw [if_pos hm]

theorem enc_reg_imm8 (ctx : AssemblerContext) (m : String) (op1 op2 : Operand) (line : Nat)
    (hp : ctx.isPass1 = false) (h2 : op2.type = .IMMEDIATE) (hm : m = "MOV" ∨ isALU m = true)
    (h1 : op1.type = .REGISTER) (ht : m ≠ "TEST") (h8 : op1.size = 8) :
    (encodeInstruction ctx m op1 op2 line).1.diagnostics
        = (truncWarn8 ctx line op2.val).diagnostics
    ∧ ∃ pre, (encodeInstruction ctx m op1 op2 line).1.currentLineBytes
        = ctx.currentLineBytes ++ pre ++ [toU8 op2.val] := by
  rw [encodeInstruction_mov_alu ctx m op1 op2 line hm]
  have hpw : (truncWarn8 ctx line op2.val).isPass1 = false := by simp [hp]
  by_cases h : m = "MOV"
  · rw [if_pos h]
    simp only [encMOV, h1, h2, h8, true_and, if_true, if_false, reduceCtorEq, and_false,
      and_self]
    refine ⟨by simp, [(0xB0 + op1.reg) % 256], ?_⟩
    rw [(immBytes_cases _ op2.val (by simp [hp])).1, emitByte_bytes _ _ hpw]
    simp
  · rw [if_neg h]
    simp only [encALU, h1, h2, h8, ht, true_and, if_true, if_false, reduceCtorEq, and_false,
      and_self]
    refine ⟨by simp, [0x80, (0xC0 ||| (aluExt m <<< 3) ||| op1.reg) % 256], ?_⟩
    rw [(immBytes_cases _ op2.val (by simp [hp])).1, emitByte_bytes _ _ (by simp [hp]),
      emitByte_bytes _ _ hpw]
    simp

theorem enc_reg_imm16 (ctx : AssemblerContext) (m : String) (op1 op2 : Operand) (line : Nat)
    (hp : ctx.isPass1 = false) (h2 : op2.type = .IMMEDIATE) (hm : m = "MOV" ∨ isALU m = true)
    (h1 : op1.type = .REGISTER) (ht : m ≠ "TEST") (h8 : op1.size ≠ 8) :
    (encodeInstruction ctx m op1 op2 line).1.diagnostics
        = (truncWarn16 ctx line op2.val).diagnostics
    ∧ ∃ pre, (encodeInstruction ctx m op1 op2 line).1.currentLineBytes
        = ctx.currentLineBytes ++ pre ++ [toU16 op2.val % 256, toU16 op2.val / 256] := by
  rw [encodeInstruction_mov_alu ctx m op1 op2 line hm]
  have hpw : (truncWarn16 ctx line op2.val).isPass1 = false := by simp [hp]
  by_cases h : m = "MOV"
  · rw [if_pos h]
    simp only [encMOV, h1, h2, h8, true_and, if_true, if_false, reduceCtorEq, and_false,
      and_self]
    refine ⟨by simp, [(0xB8 + op1.reg) % 256], ?_⟩
    rw [(immBytes_cases _ op2.val (by simp [hp])).2, emitByte_bytes _ _ hpw]
    simp
  · rw [if_neg h]
    simp only [encALU, h1, h2, h8, ht, true_and, if_true, if_false, reduceCtorEq, and_false,
      and_self]
    refine ⟨by simp, [0x81, (0xC0 ||| (aluExt m <<< 3) ||| op1.reg) % 256], ?_⟩
    rw [(immBytes_cases _ op2.val (by simp [hp])).2, emitByte_bytes _ _ (by simp [hp]),
      emitByte_bytes _ _ hpw]
    simp

theorem enc_test_reg_imm (ctx : AssemblerContext) (op1 op2 : Operand) (line : Nat)
    (hp : ctx.isPass1 = false) (h2 : op2.type = .IMMEDIATE) (h1 : op1.type = .REGISTER) :
    (encodeInstruction ctx "TEST" op1 op2 line).1.diagnostics = ctx.diagnostics
    ∧ ∃ pre, (encodeInstruction ctx "TEST" op1 op2 line).1.currentLineBytes
        = ctx.currentLineBytes ++ pre ++ immediateBytes op1.size op2.val := by
  rw [encodeInstruction_mov_alu ctx "TEST" op1 op2 line (Or.inr (by decide)),
    if_neg (by decide)]
  unfold immediateBytes
  simp only [encALU, h1, h2, true_and, if_true, if_false, reduceCtorEq, and_false, and_self]
  by_cases h8 : op1.size = 8
  · rw [if_pos h8, if_pos h8]
    refine ⟨by simp, [0xF6, (0xC0 ||| (0 <<< 3) ||| op1.reg) % 256], ?_⟩
    rw [(immBytes_cases _ op2.val (by simp [hp])).1, emitByte_bytes _ _ (by simp [hp]),
      emitByte_bytes _ _ hp]
    simp
  · rw [if_neg h8, if_neg h8]
    refine ⟨by simp, [0xF7, (0xC0 ||| (0 <<< 3) ||| op1.reg) % 256], ?_⟩
    rw [(immBytes_cases _ op2.val (by simp [hp])).2, emitByte_bytes _ _ (by simp [hp]),
      emitByte_bytes _ _ hp]
    simp

theorem enc_mem_imm (ctx : AssemblerContext) (m : String) (op1 op2 : Operand) (line : Nat)
    (hp : ctx.isPass1 = false) (h2 : op2.type = .IMMEDIATE) (hm : m = "MOV" ∨ isALU m = true)
    (h1 : op1.type = .MEMORY) (he : op1.hasExplicitSize = true) :
    (encodeInstruction ctx m op1 op2 line).1.diagnostics = ctx.diagnostics
    ∧ ∃ pre, (encodeInstruction ctx m op1 op2 line).1.currentLineBytes
        = ctx.currentLineBytes ++ pre ++ immediateBytes op1.size op2.val := by
  rw [encodeInstruction_mov_alu ctx m op1 op2 line hm]
  have tail : ∀ (b g : Nat),
      ((if op1.size = 8 then emitByte (emitModRM (emitByte ctx b) g op1) (toU8 op2.val)
        else emitWord (emitModRM (emitByte ctx b) g op1) (toU16 op2.val)).diagnostics
          = ctx.diagnostics)
      ∧ ∃ pre, (if op1.size = 8 then emitByte (emitModRM (emitByte ctx b) g op1) (toU8 op2.val)
        else emitWord (emitModRM (emitByte ctx b) g op1) (toU16 op2.val)).currentLineBytes
          = ctx.currentLineBytes ++ pre ++ immediateBytes op1.size op2.val := by
    intro b g
    have hq : (emitModRM (emitByte ctx b) g op1).isPass1 = false := by simp [hp]
    obtain ⟨pre, hpre⟩ := emitModRM_appends (emitByte ctx b) g op1 (by simp [hp])
    have := imm_tail ctx (emitModRM (emitByte ctx b) g op1) op1.size op2.val hq
      ⟨[b % 256] ++ pre, by rw [hpre, emitByte_bytes _ _ hp]; simp⟩
    refine ⟨?_, this.2⟩
    rw [this.1]; simp
  have hsz : (if op1.size ≠ 0 then op1.size else 16) = 8 ↔ op1.size = 8 := by
    by_cases h0 : op1.size = 0
    · simp [h0]
    · simp [h0]
  by_cases h : m = "MOV"
  · rw [if_pos h]
    simp only [encMOV, h1, h2, true_and, if_true, if_false, reduceCtorEq, and_false, false_and,
      and_self, noSizeWarn_explicit _ _ _ _ he]
    exact tail _ 0
  · rw [if_neg h]
    simp only [encALU, h1, h2, true_and, if_true, if_false, reduceCtorEq, and_false, false_and,
      and_self, noSizeWarn_explicit _ _ _ _ he, hsz]
    by_cases ht : m = "TEST"
    · rw [if_pos ht]; exact tail _ 0
    · rw [if_neg ht]; exact tail _ _

/-- C27 fails on the code for memory destinations and for TEST. In pass 2, for MOV and the
two-operand arithmetic and logic mnemonics with an immediate source: a register destination
(TEST apart) gets the WARNING naming `value AND 0xFF` (8-bit, value outside -128..255) resp.
`value AND 0xFFFF` (16-bit, value outside -32768..65535) and the line ends with exactly those
low bits; but `TEST reg, imm` and every form with a sized memory destination log nothing,
whatever the value, and still emit only the low bits. -/
theorem C27_truncation_warnings (ctx : AssemblerContext) (m : String) (op1 op2 : Operand)
    (line : Nat) (hp : ctx.isPass1 = false) (h2 : op2.type = .IMMEDIATE)
    (hm : m = "MOV" ∨ isALU m = true) :
    (op1.type = .REGISTER → m ≠ "TEST" → op1.size = 8 → op2.val < -128 ∨ op2.val > 255 →
      (encodeInstruction ctx m op1 op2 line).1.diagnostics
          = ctx.diagnostics ++ [truncation8 line op2.val]
      ∧ ∃ pre, (encodeInstruction ctx m op1 op2 line).1.currentLineBytes
          = ctx.currentLineBytes ++ pre ++ [toU8 op2.val])
    ∧ (op1.type = .REGISTER → m ≠ "TEST" → op1.size ≠ 8 →
        op2.val < -32768 ∨ op2.val > 65535 →
      (encodeInstruction ctx m op1 op2 line).1.diagnostics
          = ctx.diagnostics ++ [truncation16 line op2.val]
      ∧ ∃ pre, (encodeInstruction ctx m op1 op2 line).1.currentLineBytes
          = ctx.currentLineBytes ++ pre ++ [toU16 op2.val % 256, toU16 op2.val / 256])
    ∧ (op1.type = .REGISTER → m = "TEST" →
      (encodeInstruction ctx m op1 op2 line).1.diagnostics = ctx.diagnostics
      ∧ ∃ pre, (encodeInstruction ctx m op1 op2 line).1.currentLineBytes
          = ctx.currentLineBytes ++ pre ++ immediateBytes op1.size op2.val)
    ∧ (op1.type = .MEMORY → op1.hasExplicitSize = true →
      (encodeInstruction ctx m op1 op2 line).1.diagnostics = ctx.diagnostics
      ∧ ∃ pre, (encodeInstruction ctx m op1 op2 line).1.currentLineBytes
          = ctx.currentLineBytes ++ pre ++ immediateBytes op1.size op2.val) := by
  refine ⟨fun h1 ht h8 hv => ?_, fun h1 ht h8 hv => ?_, fun h1 ht => ?_, fun h1 he => ?_⟩
  · have := enc_reg_imm8 ctx m op1 op2 line hp h2 hm h1 ht h8
    rw [truncWarn8_out ctx line op2.val hp hv] at this
    exact this
  · have := enc_reg_imm16 ctx m op1 op2 line hp h2 hm h1 ht h8
    rw [truncWarn16_out ctx line op2.val hp hv] at this
    exact this
  · subst ht
    exact enc_test_reg_imm ctx op1 op2 line hp h2 h1
  · exact enc_mem_imm ctx m op1 op2 line hp h2 hm h1 he

/-- C27 at `MOV BYTE [BX], 300` and `MOV AL, 300` in pass 2: the register form warns, the
memory form stores 0x2C (300 AND 0xFF) without any diagnostic, also through the whole
assembler. -/
theorem C27_truncation_warnings_witness :
    (encodeInstruction pass2Ctx "MOV" (regOperand 0 8) (immOperand 300) 1).1.diagnostics
        = [truncation8 1 300]
    ∧ (encodeInstruction pass2Ctx "MOV" (byteMemOperand 7 0) (immOperand 300) 1).1.diagnostics
        = []
    ∧ (parseOperand pass2Ctx (tokenize "MOV BYTE [BX], 300" 1) 1).2.2 = byteMemOperand 7 0
    ∧ (assemble ["MOV BYTE [BX], 300"] []).diagnostics = []
    ∧ (assemble ["MOV BYTE [BX], 300"] []).machineCode = [0xC6, 0x07, 0x2C]
    ∧ (assemble ["MOV AL, 300"] []).diagnostics = [truncation8 1 300]
    ∧ (assemble ["TEST AL, 300"] []).diagnostics = []
    ∧ (assemble ["TEST AL, 300"] []).machineCode = [0xF6, 0xC0, 0x2C]
    ∧ (assemble ["ADD WORD [BX], 65535+5"] []).diagnostics = []
    ∧ (assemble ["ADD WORD [BX], 65535+5"] []).machineCode = [0x81, 0x07, 0x04, 0x00] := by
  have h1 := (C27_truncation_warnings pass2Ctx "MOV" (regOperand 0 8) (immOperand 300) 1 rfl rfl
    (Or.inl rfl)).1 (by decide) (by decide) (by decide) (by decide)
  have h2 := (C27_truncation_warnings pass2Ctx "MOV" (byteMemOperand 7 0) (immOperand 300) 1
    rfl rfl (Or.inl rfl)).2.2.2 (by decide) (by decide)
  refine ⟨h1.1, h2.1, by decide, by decide, by decide, by decide, by decide, by decide,
    by decide, by decide⟩

/-! ## C28: duplicate labels -/

theorem symLookup_symInsert (t : List (String × SymbolInfo)) (k : String) (x : SymbolInfo) :
    symLookup (symInsert t k x) k = some x := by
  induction t with
  | nil => simp [symInsert, symLookup]
  | cons p rest ih =>
    obtain ⟨k1, v1⟩ := p
    unfold symInsert
    by_cases h1 : k1 = k
    · rw [if_pos h1]; simp [symLookup, h1]
    · rw [if_neg h1]
      by_cases h2 : k < k1
      · rw [if_pos h2]; simp [symLookup]
      · rw [if_neg h2]; simp [symLookup, h1, ih]

theorem binLoop_none (f : AssemblerContext → Nat → Nat → AssemblerContext × Nat × Int)
    (tokens : List Token) (p n : Nat) (ctx : AssemblerContext) (idx : Nat) (lhs : Int)
    (h : tokens.get? idx = none) : binLoop f tokens p n ctx idx lhs = (ctx, idx, lhs) := by
  cases n with
  | zero => rfl
  | succ n => rw [binLoop, h]

/-- A valid numeric literal that ends the token list is an expression with its value. -/
theorem parseExpr_number_last (ctx : AssemblerContext) (tokens : List Token) (idx p : Nat)
    (t : Token) (v : Int) (r : String) (hg : tokens.get? idx = some t) (ht : t.type = .Number)
    (hn : tokens.get? (idx + 1) = none) (hv : parseNumber t.value = (v, true, r)) :
    parseExpr ctx tokens idx p = (ctx, idx + 1, v) := by
  unfold parseExpr
  rw [parseExpression, hg]
  simp only [ht, reduceCtorEq, or_self, if_false, if_true, hv]
  exact binLoop_none _ tokens p _ ctx (idx + 1) v hn

/-- A line `name EQU literal`: the symbol is (re)assigned and nothing else changes. -/
theorem assembleLine_equ (ctx : AssemblerContext) (name e lit : String) (l1 l2 l3 : Nat)
    (lineNum : Nat) (src : String) (v : Int) (r : String) (he : toUpper e = "EQU")
    (hv : parseNumber lit = (v, true, r)) :
    assembleLine ctx [⟨.Identifier, name, l1⟩, ⟨.Identifier, e, l2⟩, ⟨.Number, lit, l3⟩]
        lineNum src
      = { ctx with currentLineBytes := [],
                   symbolTable := symInsert ctx.symbolTable (toUpper name) ⟨v, true, l1⟩ } := by
  have hx : ∀ c : AssemblerContext, parseExpr c
      [⟨.Identifier, name, l1⟩, ⟨.Identifier, e, l2⟩, ⟨.Number, lit, l3⟩] 2 0 = (c, 3, v) :=
    fun c => parseExpr_number_last c
      [⟨.Identifier, name, l1⟩, ⟨.Identifier, e, l2⟩, ⟨.Number, lit, l3⟩] 2 0
      ⟨.Number, lit, l3⟩ v r rfl rfl rfl hv
  unfold assembleLine
  simp only [List.length_cons, List.length_nil, List.get?_cons_succ, List.get?_cons_zero,
    Option.map_some', Option.getD_some, he, hx]
  simp

/-- A line holding only a label definition: the label part of `assembleLine`. -/
theorem assembleLine_label (ctx : AssemblerContext) (v : String) (line lineNum : Nat)
    (src : String) (hc : lastChar v ≠ ':') (hd : firstChar v ≠ '.') :
    assembleLine ctx [⟨.LabelDef, v, line⟩] lineNum src
      = if ctx.isPass1 then
          { (match symLookup ctx.symbolTable (toUpper v) with
              | some info =>
                if ¬ info.isConstant then
                  logWarning { ctx with currentLineBytes := [] } line
                    ("Label '" ++ toUpper v ++ "' redefined (previous definition at line "
                      ++ Nat.repr info.definedLine ++ ")")
                    "Each label should be defined once. If you need the same name in different scopes, use local labels with '.' prefix inside PROC/ENDP blocks."
                else { ctx with currentLineBytes := [] }
              | none => { ctx with currentLineBytes := [] }) with
            symbolTable := symInsert ctx.symbolTable (toUpper v) ⟨ctx.currentAddress, false, line⟩ }
        else { ctx with currentLineBytes := [] } := by
  unfold assembleLine
  simp only [List.length_cons, List.length_nil, hc, hd, and_false, if_false, if_true,
    List.get?_cons_succ, List.get?_nil, List.get?_cons_zero, Nat.reduceLeDiff, false_and,
    Nat.reduceAdd, ge_iff_le]
  cases hp : ctx.isPass1
  · simp
  · simp only [if_true]
    cases hs : symLookup ctx.symbolTable (toUpper v) with
    | none => simp [hs]
    | some info =>
      cases hi : info.isConstant <;> simp [hs, hi, logWarning]

/-- C28 fails on the code for labels. The redefinition of a label is noticed in pass 1 only:
there a line defining a label the table already holds logs the WARNING "Label ... redefined",
but `main` replaces the diagnostics when pass 2 starts, and in pass 2 the same line logs
nothing, so the warning never reaches the result. The EQU part holds: a line `name EQU value`
logs nothing, whatever the table held, and afterwards the name has the new value. -/
theorem C28_duplicate_label_warning_lost (ctx : AssemblerContext) (v : String)
    (line lineNum : Nat) (src : String) (info : SymbolInfo)
    (hc : lastChar v ≠ ':') (hd : firstChar v ≠ '.')
    (hdef : symLookup ctx.symbolTable (toUpper v) = some info)
    (hlab : info.isConstant = false) :
    (ctx.isPass1 = true →
      (assembleLine ctx [⟨.LabelDef, v, line⟩] lineNum src).diagnostics
        = ctx.diagnostics ++ [⟨"WARNING", line,
            "Label '" ++ toUpper v ++ "' redefined (previous definition at line "
              ++ Nat.repr info.definedLine ++ ")",
            "Each label should be defined once. If you need the same name in different scopes, use local labels with '.' prefix inside PROC/ENDP blocks."⟩])
    ∧ (ctx.isPass1 = false →
      (assembleLine ctx [⟨.LabelDef, v, line⟩] lineNum src).diagnostics = ctx.diagnostics)
    ∧ (∀ lines errs, (startPass2 ctx errs).diagnostics = errs
        ∧ assemble lines errs = runPass lines 0 (startPass2
            (runPass lines 0 { AssemblerContext.init with diagnostics := errs }) errs))
    ∧ (∀ name e lit l1 l2 l3 val r, toUpper e = "EQU" → parseNumber lit = (val, true, r) →
        (assembleLine ctx [⟨.Identifier, name, l1⟩, ⟨.Identifier, e, l2⟩, ⟨.Number, lit, l3⟩]
          lineNum src).diagnostics = ctx.diagnostics
        ∧ symLookup (assembleLine ctx
            [⟨.Identifier, name, l1⟩, ⟨.Identifier, e, l2⟩, ⟨.Number, lit, l3⟩]
            lineNum src).symbolTable (toUpper name) = some ⟨val, true, l1⟩) := by
  refine ⟨fun hp => ?_, fun hp => ?_, fun lines errs => ⟨rfl, rfl⟩,
    fun name e lit l1 l2 l3 val r he hv => ?_⟩
  · rw [assembleLine_label ctx v line lineNum src hc hd, hp, hdef]
    simp [hlab, logWarning]
  · rw [assembleLine_label ctx v line lineNum src hc hd, hp]
    simp
  · rw [assembleLine_equ ctx name e lit l1 l2 l3 lineNum src val r he hv]
    exact ⟨rfl, symLookup_symInsert _ _ _⟩

/-- C28 at the source `L: NOP` / `L: NOP`: pass 1 holds the warning, the result of the
assembly holds no diagnostic; and at `X EQU 1` / `X EQU 2` / `DB X`, which assembles the
byte 2 without diagnostic. -/
theorem C28_duplicate_label_warning_lost_witness :
    (assembleLine (afterPass1 ["L: NOP"]) [⟨.LabelDef, "L", 2⟩] 2 "L:").diagnostics
      = [⟨"WARNING", 2, "Label 'L' redefined (previous definition at line 1)",
          "Each label should be defined once. If you need the same name in different scopes, use local labels with '.' prefix inside PROC/ENDP blocks."⟩]
    ∧ (afterPass1 ["L: NOP", "L: NOP"]).diagnostics
      = [⟨"WARNING", 2, "Label 'L' redefined (previous definition at line 1)",
          "Each label should be defined once. If you need the same name in different scopes, use local labels with '.' prefix inside PROC/ENDP blocks."⟩]
    ∧ (assemble ["L: NOP", "L: NOP"] []).diagnostics = []
    ∧ (assemble ["L: NOP", "L: NOP"] []).machineCode = [0x90, 0x90]
    ∧ (assemble ["X EQU 1", "X EQU 2", "DB X"] []).diagnostics = []
    ∧ (assemble ["X EQU 1", "X EQU 2", "DB X"] []).machineCode = [2] := by
  have h := (C28_duplicate_label_warning_lost (afterPass1 ["L: NOP"]) "L" 2 2 "L:"
    ⟨0, false, 1⟩ (by decide) (by decide) (by decide) rfl).1 (by decide)
  have e : (afterPass1 ["L: NOP"]).diagnostics = [] := by decide
  rw [e] at h
  exact ⟨h, by decide, by decide, by decide, by decide, by decide⟩

/-! ## C29: macro-local labels -/

theorem numeralValue_append (b : Nat) (xs ys : List Char) :
    numeralValue b (xs ++ ys) = numeralValue b xs * b ^ ys.length + numeralValue b ys := by
  unfold numeralValue
  rw [List.reverse_append, List.map_append, Nat.ofDigits_append]
  simp only [List.length_map, List.length_reverse]
  ring

theorem numeralValue_zeros (b m : Nat) : numeralValue b (List.replicate m '0') = 0 := by
  induction m with
  | zero => rfl
  | succ m ih =>
    rw [List.replicate_succ, ← List.singleton_append, numeralValue_append, ih]
    simp [numeralValue, digitOf]

theorem digitChar_facts : ∀ k, k < 16 →
    digitOf (Nat.digitChar k).toUpper = k ∧ (Nat.digitChar k).toUpper ∈ upperHexDigits := by
  decide

theorem toDigitsCore_value : ∀ (fuel n : Nat) (ds : List Char), n < fuel →
    ∃ xs, (Nat.toDigitsCore 16 fuel n ds) = xs ++ ds ∧ xs ≠ []
      ∧ numeralValue 16 (xs.map Char.toUpper) = n
      ∧ ∀ c ∈ xs.map Char.toUpper, c ∈ upperHexDigits := by
  intro fuel
  induction fuel with
  | zero => intro n ds h; omega
  | succ fuel ih =>
    intro n ds h
    have hm := digitChar_facts (n % 16) (Nat.mod_lt _ (by decide))
    unfold Nat.toDigitsCore
    simp only
    by_cases h0 : n / 16 = 0
    · rw [if_pos h0]
      refine ⟨[Nat.digitChar (n % 16)], rfl, by simp, ?_, ?_⟩
      · have : n % 16 = n := by omega
        rw [this] at hm ⊢
        simp [numeralValue, hm.1]
      · simpa using hm.2
    · rw [if_neg h0]
      obtain ⟨xs, e, hne, hv, hc⟩ := ih (n / 16) (Nat.digitChar (n % 16) :: ds) (by omega)
      refine ⟨xs ++ [Nat.digitChar (n % 16)], by rw [e]; simp, by simp, ?_, ?_⟩
      · rw [List.map_append, numeralValue_append, hv]
        simp [numeralValue, hm.1]
        omega
      · intro c hcm
        rw [List.map_append, List.mem_append] at hcm
        rcases hcm with h1 | h1
        · exact hc c h1
        · simp only [List.map_cons, List.map_nil, List.mem_singleton] at h1
          rw [h1]; exact hm.2

/-- The text `hexPad` prints: at least `width` upper-case hexadecimal digits with value `n`. -/
theorem hexPad_spec (width n : Nat) :
    width ≤ (hexPad width n).data.length
    ∧ (∀ c ∈ (hexPad width n).data, c ∈ upperHexDigits)
    ∧ numeralValue 16 (hexPad width n).data = n := by
  obtain ⟨xs, e, _, hv, hc⟩ := toDigitsCore_value (n + 1) n [] (Nat.lt_succ_self n)
  have hd : Nat.toDigits 16 n = xs := by
    unfold Nat.toDigits; rw [e]; simp
  unfold hexPad
  simp only [hd]
  refine ⟨by simp only [List.length_append, List.length_replicate]; omega, ?_, ?_⟩
  · intro c hcm
    rw [List.mem_append] at hcm
    rcases hcm with h1 | h1
    · rw [List.eq_of_mem_replicate h1]; decide
    · exact hc c h1
  · rw [numeralValue_append, numeralValue_zeros, hv]; simp

theorem localLabel_data (n : Nat) : (localLabel n).data = '?' :: '?' :: (hexPad 4 n).data := rfl

theorem localLabel_injective (a b : Nat) (h : localLabel a = localLabel b) : a = b := by
  have h1 : (localLabel a).data = (localLabel b).data := by rw [h]
  rw [localLabel_data, localLabel_data] at h1
  have h2 : (hexPad 4 a).data = (hexPad 4 b).data := by
    simpa using h1
  rw [← (hexPad_spec 4 a).2.2, ← (hexPad_spec 4 b).2.2, h2]

theorem genLocals_eq : ∀ (count counter : Nat),
    genLocals count counter
      = ((List.range count).map (fun l => localLabel (counter + l)), counter + count) := by
  intro count
  induction count with
  | zero => intro counter; rfl
  | succ count ih =>
    intro counter
    rw [genLocals, ih (counter + 1), List.range_succ_eq_map]
    simp only [List.map_cons, List.map_map, Nat.add_zero]
    refine Prod.ext ?_ (by simp only; omega)
    simp only
    congr 1
    apply List.map_congr_left
    intro l _
    simp only [Function.comp]
    congr 1
    omega

theorem takeWhile_word (p : Char → Bool) (w r : List Char) (hw : ∀ c ∈ w, p c = true)
    (hr : ∀ c, r.head? = some c → p c = false) :
    (w ++ r).takeWhile p = w ∧ (w ++ r).dropWhile p = r := by
  induction w with
  | nil =>
    cases r with
    | nil => simp
    | cons c r => simp [List.takeWhile, List.dropWhile, hr c rfl]
  | cons a w ih =>
    have ha := hw a (List.mem_cons_self _ _)
    have := ih (fun c hc => hw c (List.mem_cons_of_mem _ hc))
    simp [List.takeWhile, List.dropWhile, ha, this.1, this.2]

theorem render_head (segs : List Segment) (h : segmentsOk segs = true)
    (hw : ∀ cs rest, segs ≠ .word cs :: rest) :
    ∀ c, (renderSegments segs).head? = some c → isIdentC c = false := by
  intro c hc
  cases segs with
  | nil => simp [renderSegments] at hc
  | cons s rest =>
    cases s with
    | word cs => exact absurd rfl (hw cs rest)
    | sep d =>
      simp only [renderSegments, List.head?_cons, Option.some.injEq] at hc
      subst hc
      simp only [segmentsOk, Bool.and_eq_true, Bool.not_eq_true'] at h
      exact h.1.1.1.1

/-- The loop of `substituteParams` on a line made of words and separators replaces every
word and keeps every separator; one turn per segment. -/
theorem substLoop_segments (P A L R : List String) :
    ∀ (segs : List Segment) (fuel : Nat), segmentsOk segs = true → segs.length ≤ fuel →
      substLoop P A L R fuel false (renderSegments segs)
        = renderSegments (replaceSegments P A L R segs) := by
  intro segs
  induction segs with
  | nil =>
    intro fuel _ _
    cases fuel <;> rfl
  | cons s rest ih =>
    intro fuel hok hf
    obtain ⟨f, rfl⟩ : ∃ f, fuel = f + 1 := ⟨fuel - 1, by simp only [List.length_cons] at hf; omega⟩
    have hf1 : rest.length ≤ f := by simp only [List.length_cons] at hf; omega
    cases s with
    | sep c =>
      simp only [segmentsOk, Bool.and_eq_true, Bool.not_eq_true', bne_iff_ne, ne_eq,
        decide_eq_true_eq, decide_not] at hok
      obtain ⟨⟨⟨⟨h1, h2⟩, h3⟩, h4⟩, h5⟩ := hok
      simp only [renderSegments, replaceSegments]
      rw [substLoop]
      simp only [decide_eq_false_iff_not] at h2 h3 h4
      simp only [h1, h2, h3, h4, false_and, if_false, Bool.false_eq_true]
      rw [ih f h5 hf1]
    | word cs =>
      simp only [segmentsOk, Bool.and_eq_true, bne_iff_ne, ne_eq, decide_eq_true_eq,
        decide_not, List.all_eq_true] at hok
      obtain ⟨⟨⟨h1, h2⟩, h3⟩, h4⟩ := hok
      obtain ⟨c, cs', rfl⟩ : ∃ c cs', cs = c :: cs' := by
        cases cs with
        | nil => simp at h1
        | cons c cs' => exact ⟨c, cs', rfl⟩
      have hnw : ∀ ds r, rest ≠ .word ds :: r := by
        intro ds r e
        rw [e] at h3
        simp at h3
      have htd := takeWhile_word isIdentC (c :: cs') (renderSegments rest) h2
        (render_head rest h4 hnw)
      have hc := h2 c (List.mem_cons_self _ _)
      have hq : c ≠ Char.ofNat 39 := by
        intro e; rw [e] at hc; revert hc; decide
      have hs : c ≠ ';' := by
        intro e; rw [e] at hc; revert hc; decide
      have ha : c ≠ '&' := by
        intro e; rw [e] at hc; revert hc; decide
      simp only [renderSegments, replaceSegments]
      rw [List.cons_append, substLoop]
      simp only [hq, hs, ha, hc, false_and, if_false, if_true, Bool.false_eq_true]
      rw [← List.cons_append, htd.1, htd.2, ih f h4 hf1]

theorem segments_length : ∀ (segs : List Segment), segmentsOk segs = true →
    segs.length ≤ (renderSegments segs).length := by
  intro segs
  induction segs with
  | nil => intro _; simp
  | cons s rest ih =>
    intro h
    cases s with
    | word cs =>
      simp only [segmentsOk, Bool.and_eq_true, bne_iff_ne, ne_eq, decide_eq_true_eq,
        decide_not] at h
      have := ih h.2
      have hne : cs ≠ [] := by simpa using h.1.1.1
      have hl : 0 < cs.length := List.length_pos.2 hne
      simp only [renderSegments, List.length_cons, List.length_append]
      omega
    | sep c =>
      simp only [segmentsOk, Bool.and_eq_true] at h
      have := ih h.2
      simp only [renderSegments, List.length_cons]
      omega

/-- Function `substituteParams` on a line made of words and separators. -/
theorem substituteParams_segments (P A L R : List String) (segs : List Segment)
    (h : segmentsOk segs = true) :
    substituteParams (String.mk (renderSegments segs)) P A L R
      = String.mk (renderSegments (replaceSegments P A L R segs)) := by
  unfold substituteParams
  congr 1
  exact substLoop_segments P A L R segs _ h (segments_length segs h)

/-- A word that names a local (and no parameter) is replaced by the replacement of the first
local with that name. -/
theorem replaceWord_local (P A L R : List String) (w : List Char) (l : Nat)
    (hp : toUpper (String.mk w) ∉ P) (hl : L.indexOf? (toUpper (String.mk w)) = some l) :
    replaceWord P A L R w = (R.getD l "").data := by
  unfold replaceWord
  have : List.indexOf? (toUpper (String.mk w)) P = none := by
    rw [List.indexOf?, List.findIdx?_eq_none_iff]
    intro x hx
    rw [beq_eq_false_iff_ne]
    intro e
    exact hp (e ▸ hx)
  simp only
  rw [this]
  simp only
  rw [hl]

theorem indexOf?_lt (L : List String) (u : String) (l : Nat) (h : L.indexOf? u = some l) :
    l < L.length ∧ L.getD l "" = u := by
  rw [List.indexOf?, List.findIdx?_eq_some_iff_getElem] at h
  obtain ⟨hl, h1, _⟩ := h
  refine ⟨hl, ?_⟩
  rw [List.getD_eq_getElem?_getD, List.getElem?_eq_getElem hl]
  simpa using h1

theorem expandInvocation_lines (st : ExpandState) (i : Nat) (d : MacroDefinition)
    (macroName argStr labelPrefix : String) (k : Nat) :
    (expandInvocation st i d macroName argStr labelPrefix k).2 = k + d.locals.length
    ∧ (expandInvocation st i d macroName argStr labelPrefix k).1.lines
      = st.lines.take i
        ++ ((if labelPrefix.data ≠ [] then [labelPrefix] else [])
            ++ ["; >>> MACRO " ++ macroName]
            ++ d.body.map (fun bodyLine => substituteParams bodyLine d.params
                (parseMacroArguments argStr) d.locals
                ((List.range d.locals.length).map (fun l => localLabel (k + l))))
            ++ ["; <<< END MACRO " ++ macroName])
        ++ st.lines.drop (i + 1) := by
  unfold expandInvocation
  simp only [genLocals_eq, true_and]
  split_ifs <;> rfl

/-- C29. At a macro invocation the replacements of the locals are `??` followed by the
counter, the counter plus one, ... printed by `hexPad 4` (at least four upper-case
hexadecimal digits whose value is the number), and the counter advances by the number of
locals; two such names are equal only for equal numbers; the expansion is the body with
every line passed through `substituteParams` with these replacements; and on a line of words
and separators `substituteParams` replaces every word, a word that names the local number
`l` (and no parameter) by the name made from the counter plus `l`. -/
theorem C29_macro_locals_fresh (st : ExpandState) (i : Nat) (d : MacroDefinition)
    (macroName argStr labelPrefix : String) (k : Nat) :
    ((expandInvocation st i d macroName argStr labelPrefix k).2 = k + d.locals.length
      ∧ (expandInvocation st i d macroName argStr labelPrefix k).1.lines
        = st.lines.take i
          ++ ((if labelPrefix.data ≠ [] then [labelPrefix] else [])
              ++ ["; >>> MACRO " ++ macroName]
              ++ d.body.map (fun bodyLine => substituteParams bodyLine d.params
                  (parseMacroArguments argStr) d.locals
                  ((List.range d.locals.length).map (fun l => localLabel (k + l))))
              ++ ["; <<< END MACRO " ++ macroName])
          ++ st.lines.drop (i + 1))
    ∧ (∀ n, (localLabel n).data = '?' :: '?' :: (hexPad 4 n).data
        ∧ 4 ≤ (hexPad 4 n).data.length ∧ (∀ c ∈ (hexPad 4 n).data, c ∈ upperHexDigits)
        ∧ numeralValue 16 (hexPad 4 n).data = n)
    ∧ (∀ a b, localLabel a = localLabel b → a = b)
    ∧ (∀ A segs, segmentsOk segs = true →
        substituteParams (String.mk (renderSegments segs)) d.params A d.locals
            ((List.range d.locals.length).map (fun l => localLabel (k + l)))
          = String.mk (renderSegments (replaceSegments d.params A d.locals
              ((List.range d.locals.length).map (fun l => localLabel (k + l))) segs)))
    ∧ (∀ A w l, toUpper (String.mk w) ∉ d.params →
        d.locals.indexOf? (toUpper (String.mk w)) = some l →
        replaceWord d.params A d.locals
            ((List.range d.locals.length).map (fun l => localLabel (k + l))) w
          = (localLabel (k + l)).data) := by
  refine ⟨expandInvocation_lines st i d macroName argStr labelPrefix k,
    fun n => ⟨rfl, hexPad_spec 4 n⟩, localLabel_injective,
    fun A segs h => substituteParams_segments _ _ _ _ segs h, fun A w l hp hl => ?_⟩
  rw [replaceWord_local _ _ _ _ w l hp hl]
  have hlt := (indexOf?_lt d.locals _ l hl).1
  rw [List.getD_eq_getElem?_getD, List.getElem?_map, List.getElem?_range hlt]
  rfl

set_option maxRecDepth 100000 in
/-- C29 at a macro with `LOCAL done` invoked twice: the first expansion defines and
references `??0000`, the second `??0001`, the counter ends at 2, and the expanded source
assembles without diagnostic. -/
theorem C29_macro_locals_fresh_witness :
    (phase1 putcSource.length 0 (sourceState putcSource) []).2.1 = [("PUTC", putcDefinition)]
    ∧ replaceWord ["CH"] ["'A'"] ["DONE"] [localLabel 0] "done".data = "??0000".data
    ∧ replaceWord ["CH"] ["'B'"] ["DONE"] [localLabel 1] "done".data = "??0001".data
    ∧ (expandMacros (sourceState putcSource) 0).2 = (2, true)
    ∧ (expandMacros (sourceState putcSource) 0).1.errors = []
    ∧ (expandMacros (sourceState putcSource) 0).1.lines.drop 9
      = ["; >>> MACRO PUTC", "    MOV DL, 'A'", "    CMP DL, 0", "    JE ??0000",
         "    MOV AH, 02h", "    INT 21h", "??0000:", "; <<< END MACRO PUTC",
         "; >>> MACRO PUTC", "    MOV DL, 'B'", "    CMP DL, 0", "    JE ??0001",
         "    MOV AH, 02h", "    INT 21h", "??0001:", "; <<< END MACRO PUTC", "INT 20h"]
    ∧ (assemble (expandMacros (sourceState putcSource) 0).1.lines []).diagnostics = []
    ∧ (assemble (expandMacros (sourceState putcSource) 0).1.lines []).machineCode
      = [0xB2, 0x41, 0x80, 0xFA, 0x00, 0x74, 0x04, 0xB4, 0x02, 0xCD, 0x21,
         0xB2, 0x42, 0x80, 0xFA, 0x00, 0x74, 0x04, 0xB4, 0x02, 0xCD, 0x21, 0xCD, 0x20] := by
  have h0 := (C29_macro_locals_fresh (sourceState putcSource) 9 putcDefinition "PUTC" "'A'" ""
    0).2.2.2.2 ["'A'"] "done".data 0 (by decide) (by decide)
  have h1 := (C29_macro_locals_fresh (sourceState putcSource) 10 putcDefinition "PUTC" "'B'" ""
    1).2.2.2.2 ["'B'"] "done".data 0 (by decide) (by decide)
  have e0 : (localLabel (0 + 0)).data = "??0000".data := by decide
  have e1 : (localLabel (1 + 0)).data = "??0001".data := by decide
  rw [e0] at h0
  rw [e1] at h1
  exact ⟨by decide, h0, h1, by decide, by decide, by decide, by decide!, by decide!⟩

/-! ## C30: reserved macro names -/

theorem get?_middle_str (A B : List String) (t : String) :
    (A ++ t :: B).get? A.length = some t := by
  rw [List.get?_eq_getElem?, List.getElem?_append_right (Nat.le_refl _)]
  simp

theorem phase1_inert (B : List String) :
    ∀ (pre A : List String) (fuel : Nat) (st : ExpandState) (macros : MacroTable),
      st.lines = A ++ pre ++ B → (∀ l ∈ pre, inertLine l = true) →
      phase1 (fuel + pre.length) A.length st macros
        = phase1 fuel (A.length + pre.length) st macros := by
  intro pre
  induction pre with
  | nil => intro A fuel st macros _ _; rfl
  | cons l pre ih =>
    intro A fuel st macros hl hi
    have h1 := hi l (List.mem_cons_self _ _)
    simp only [inertLine, ne_eq, decide_eq_true_eq, Bool.decide_and, Bool.and_eq_true,
      decide_not, Bool.not_eq_true', decide_eq_false_iff_not] at h1
    obtain ⟨e1, e2, e3, e4⟩ := h1
    have hg : st.lines.get? A.length = some l := by
      rw [hl, List.append_assoc, List.cons_append]
      exact get?_middle_str A _ l
    have hlen : fuel + (l :: pre).length = (fuel + pre.length) + 1 := by
      simp only [List.length_cons]; omega
    rw [hlen, phase1, hg]
    simp only [e1, e2, e3, e4, if_false, or_self]
    have := ih (A ++ [l]) fuel st macros (by rw [hl]; simp)
      (fun x hx => hi x (List.mem_cons_of_mem _ hx))
    simp only [List.length_append, List.length_singleton] at this
    rw [this]
    congr 1
    simp only [List.length_cons]; omega

/-- A definition with a reserved name stops phase 1: the error is pushed, the table and the
lines stay as they are. -/
theorem phase1_reserved (fuel i : Nat) (st : ExpandState) (macros : MacroTable) (line : String)
    (hg : st.lines.get? i = some line) (hdef : toUpper (splitMacroLine line).tok2 = "MACRO")
    (hres : isMacroReservedWord (toUpper (splitMacroLine line).tok1) = true) :
    phase1 (fuel + 1) i st macros
      = (st.fail (reservedNameError (st.lineAt i) (toUpper (splitMacroLine line).tok1)),
          macros, false) := by
  rw [phase1, hg]
  simp only [hdef, if_true, hres]
  rfl

set_option maxRecDepth 100000 in
/-- C30 fails on the code for seventeen names. A definition `name MACRO ...` whose name is in
the set of `isMacroReservedWord`, met by phase 1 after lines that define nothing, makes
`expandMacros` fail with "Cannot define macro with reserved name", the lines and the (empty)
macro table unchanged. The set holds every name the specification reserves except DD, RESB,
RESW and fourteen mnemonics of the ISA database, for which the test answers "not reserved". -/
theorem C30_reserved_macro_names (st : ExpandState) (pre post : List String) (defLine : String)
    (k : Nat) (hl : st.lines = pre ++ defLine :: post) (hpre : ∀ l ∈ pre, inertLine l = true)
    (hdef : toUpper (splitMacroLine defLine).tok2 = "MACRO") :
    (isMacroReservedWord (toUpper (splitMacroLine defLine).tok1) = true →
      expandMacros st k
        = (st.fail (reservedNameError (st.lineAt pre.length)
            (toUpper (splitMacroLine defLine).tok1)), k, false)
      ∧ (phase1 st.lines.length 0 st []).2.1 = [])
    ∧ (∀ name ∈ specReservedNames, name ∉ unprotectedNames → isMacroReservedWord name = true)
    ∧ (∀ name ∈ unprotectedNames, name ∈ specReservedNames ∧ isMacroReservedWord name = false) := by
  refine ⟨fun hres => ?_, by decide, by decide⟩
  have hlen : st.lines.length = (post.length + 1) + pre.length := by
    rw [hl]; simp only [List.length_append, List.length_cons]; omega
  have e : phase1 st.lines.length 0 st []
      = (st.fail (reservedNameError (st.lineAt pre.length)
          (toUpper (splitMacroLine defLine).tok1)), [], false) := by
    have h1 := phase1_inert (defLine :: post) pre [] (post.length + 1) st [] (by rw [hl]; simp)
      hpre
    simp only [List.length_nil, Nat.zero_add] at h1
    rw [hlen, h1]
    exact phase1_reserved post.length pre.length st [] defLine
      (by rw [hl]; exact get?_middle_str pre post defLine) hdef hres
  refine ⟨?_, by rw [e]⟩
  unfold expandMacros
  simp only [e]
  rfl

/-- C30 at `DB MACRO`, which is refused, and at `DD MACRO`, which is accepted: the later line
`DD 5` is then expanded as an invocation, and the same holds for every unprotected name. -/
theorem C30_reserved_macro_names_witness :
    expandMacros (sourceState ["NOP", "DB MACRO x", "NOP", "ENDM"]) 0
      = ((sourceState ["NOP", "DB MACRO x", "NOP", "ENDM"]).fail (reservedNameError 2 "DB"),
          0, false)
    ∧ (expandMacros (sourceState ["DD MACRO", "NOP", "ENDM", "DD 5"]) 0).2.2 = true
    ∧ (expandMacros (sourceState ["DD MACRO", "NOP", "ENDM", "DD 5"]) 0).1.errors
      = [⟨"WARNING", 4, "Macro 'DD' invoked with 1 args, expected 0",
          "Extra arguments will be ignored"⟩]
    ∧ (expandMacros (sourceState ["DD MACRO", "NOP", "ENDM", "DD 5"]) 0).1.lines
      = ["; [MACRO DEF] DD MACRO", "; [MACRO DEF] NOP", "; [MACRO DEF] ENDM",
         "; >>> MACRO DD", "NOP", "; <<< END MACRO DD"]
    ∧ ∀ name ∈ unprotectedNames,
        (expandMacros (sourceState [name ++ " MACRO", "NOP", "ENDM"]) 0).2.2 = true
        ∧ (expandMacros (sourceState [name ++ " MACRO", "NOP", "ENDM"]) 0).1.errors = [] := by
  have h := (C30_reserved_macro_names (sourceState ["NOP", "DB MACRO x", "NOP", "ENDM"])
    ["NOP"] ["NOP", "ENDM"] "DB MACRO x" 0 rfl (by decide) (by decide)).1 (by decide)
  exact ⟨h.1, by decide, by decide, by decide, by decide⟩

/-! ## C31: the sweeps of macro expansion -/

theorem iterationLimitError_eq :
    (⟨"ERROR", 0,
      "Macro expansion iteration limit exceeded (" ++ Nat.repr MAX_MACRO_EXPANSION_ITERATIONS
        ++ ")",
      "Check for recursive or mutually-recursive macro invocations"⟩ : Diagnostic)
      = iterationLimitError := by
  decide

/-- What `n` sweeps of phase 2 do: there is a number `k <= n` of sweeps that each expanded
something, after which either the next sweep, still within the `n`, expands nothing (success)
or fails (failure with the state of the failed sweep), or `k = n` and the iteration-limit
error is pushed. -/
theorem phase2_sweeps (macros : MacroTable) :
    ∀ (n : Nat) (st : ExpandState) (c : Nat),
      ∃ k stk ck, k ≤ n ∧ afterSweeps macros k st c = some (stk, ck)
        ∧ ((k < n ∧ expansionSweep macros stk ck stk.lines 0 = .stable
              ∧ phase2 macros n st c = (stk, ck, true))
          ∨ (k < n ∧ ∃ st1, expansionSweep macros stk ck stk.lines 0 = .failed st1
              ∧ phase2 macros n st c = (st1, ck, false))
          ∨ (k = n ∧ phase2 macros n st c = (stk.fail iterationLimitError, ck, false))) := by
  intro n
  induction n with
  | zero =>
    intro st c
    refine ⟨0, st, c, le_refl _, rfl, Or.inr (Or.inr ⟨rfl, ?_⟩)⟩
    unfold phase2
    rw [iterationLimitError_eq]
  | succ n ih =>
    intro st c
    cases hs : expansionSweep macros st c st.lines 0 with
    | stable =>
      refine ⟨0, st, c, Nat.zero_le _, rfl, Or.inl ⟨Nat.succ_pos _, hs, ?_⟩⟩
      unfold phase2
      rw [hs]
    | failed st1 =>
      refine ⟨0, st, c, Nat.zero_le _, rfl, Or.inr (Or.inl ⟨Nat.succ_pos _, st1, hs, ?_⟩)⟩
      unfold phase2
      rw [hs]
    | expanded st1 c1 =>
      obtain ⟨k, stk, ck, hk, ha, h⟩ := ih st1 c1
      have hp : phase2 macros (n + 1) st c = phase2 macros n st1 c1 := by
        conv_lhs => unfold phase2
        rw [hs]
      have ha' : afterSweeps macros (k + 1) st c = some (stk, ck) := by
        unfold afterSweeps
        rw [hs]
        exact ha
      refine ⟨k + 1, stk, ck, Nat.succ_le_succ hk, ha', ?_⟩
      rw [hp]
      rcases h with ⟨h1, h2, h3⟩ | ⟨h1, st2, h2, h3⟩ | ⟨h1, h3⟩
      · exact Or.inl ⟨Nat.succ_lt_succ h1, h2, h3⟩
      · exact Or.inr (Or.inl ⟨Nat.succ_lt_succ h1, st2, h2, h3⟩)
      · exact Or.inr (Or.inr ⟨by rw [h1], h3⟩)

theorem lookup_mem (k : String) (d : MacroDefinition) :
    ∀ (l : MacroTable), List.lookup k l = some d → (k, d) ∈ l := by
  intro l
  induction l with
  | nil => intro h; simp [List.lookup] at h
  | cons p rest ih =>
    intro h
    obtain ⟨k1, d1⟩ := p
    unfold List.lookup at h
    by_cases e : k = k1
    · subst e
      simp only [beq_self_eq_true] at h
      simp only [Option.some.injEq] at h
      rw [h]
      exact List.mem_cons_self _ _
    · have : (k == k1) = false := by simpa using e
      rw [this] at h
      exact List.mem_cons_of_mem _ (ih h)

/-- A sweep that expands something expands exactly one thing: the REPT block, the IRP block
or the macro invocation on one line `i`, the first line of the sweep that holds one. -/
theorem expansionSweep_one (macros : MacroTable) (st : ExpandState) (c : Nat)
    (st1 : ExpandState) (c1 : Nat) :
    ∀ (lines : List String) (i0 : Nat),
      expansionSweep macros st c lines i0 = .expanded st1 c1 →
      ∃ i, i0 ≤ i ∧ i < i0 + lines.length
        ∧ ((st1 = (expandRept st i).1 ∧ (expandRept st i).2 = true ∧ c1 = c)
          ∨ (st1 = (expandIrp st i).1 ∧ (expandIrp st i).2 = true ∧ c1 = c)
          ∨ ∃ d name args label, (name, d) ∈ macros
              ∧ (st1, c1) = expandInvocation st i d name args label c) := by
  intro lines
  induction lines with
  | nil => intro i0 h; simp [expansionSweep] at h
  | cons line rest ih =>
    intro i0 h
    have hrec : expansionSweep macros st c rest (i0 + 1) = .expanded st1 c1 →
        ∃ i, i0 ≤ i ∧ i < i0 + (line :: rest).length
        ∧ ((st1 = (expandRept st i).1 ∧ (expandRept st i).2 = true ∧ c1 = c)
          ∨ (st1 = (expandIrp st i).1 ∧ (expandIrp st i).2 = true ∧ c1 = c)
          ∨ ∃ d name args label, (name, d) ∈ macros
              ∧ (st1, c1) = expandInvocation st i d name args label c) := by
      intro h'
      obtain ⟨i, h1, h2, h3⟩ := ih (i0 + 1) h'
      exact ⟨i, by omega, by simp only [List.length_cons]; omega, h3⟩
    have hlen : i0 < i0 + (line :: rest).length := by simp
    unfold expansionSweep at h
    simp only at h
    by_cases a1 : (macroTrim line).data = [] ∨ firstChar (macroTrim line) = ';'
    · rw [if_pos a1] at h
      exact hrec h
    rw [if_neg a1] at h
    by_cases a2 : toUpper (splitMacroLine line).tok1 = "REPT"
    · rw [if_pos a2] at h
      by_cases a3 : (expandRept st i0).2 = true
      · rw [if_pos a3] at h
        simp only [SweepOutcome.expanded.injEq] at h
        exact ⟨i0, le_refl _, hlen, Or.inl ⟨h.1.symm, a3, h.2.symm⟩⟩
      · rw [if_neg a3] at h
        exact absurd h (by simp)
    rw [if_neg a2] at h
    by_cases a4 : toUpper (splitMacroLine line).tok1 = "IRP"
    · rw [if_pos a4] at h
      by_cases a5 : (expandIrp st i0).2 = true
      · rw [if_pos a5] at h
        simp only [SweepOutcome.expanded.injEq] at h
        exact ⟨i0, le_refl _, hlen, Or.inr (Or.inl ⟨h.1.symm, a5, h.2.symm⟩)⟩
      · rw [if_neg a5] at h
        exact absurd h (by simp)
    rw [if_neg a4] at h
    generalize (if (List.lookup (toUpper (splitMacroLine line).tok1) macros).isSome = true then
        (toUpper (splitMacroLine line).tok1,
         if (splitMacroLine line).rest.data ≠ [] then
           (if (splitMacroLine line).tok2.data ≠ [] then
              (splitMacroLine line).tok2 ++ " " ++ (splitMacroLine line).rest
            else (splitMacroLine line).rest)
         else (splitMacroLine line).tok2,
         "")
      else if (splitMacroLine line).tok1.data ≠ [] ∧ lastChar (splitMacroLine line).tok1 = ':'
          ∧ (List.lookup (toUpper (splitMacroLine line).tok2) macros).isSome = true then
        (toUpper (splitMacroLine line).tok2, (splitMacroLine line).rest,
          (splitMacroLine line).tok1)
      else (("", "", "") : String × String × String)) = p at h
    by_cases a6 : p.1.data ≠ []
    · rw [if_pos a6] at h
      cases hl : List.lookup p.1 macros with
      | none =>
        rw [hl] at h
        exact hrec h
      | some d =>
        rw [hl] at h
        simp only [SweepOutcome.expanded.injEq] at h
        refine ⟨i0, le_refl _, hlen, Or.inr (Or.inr ⟨d, p.1, p.2.1, p.2.2, ?_, ?_⟩)⟩
        · exact lookup_mem _ _ _ hl
        · rw [← h.1, ← h.2]
    · rw [if_neg a6] at h
      exact hrec h

theorem endmLoop_ge : ∀ (l : List String) (i depth e : Nat),
    endmLoop l i depth = some e → i ≤ e := by
  intro l
  induction l with
  | nil => intro i depth e h; simp [endmLoop] at h
  | cons x rest ih =>
    intro i depth e h
    unfold endmLoop at h
    simp only at h
    split_ifs at h with a b c
    · have := ih _ _ _ h; omega
    · simp only [Option.some.injEq] at h; omega
    · have := ih _ _ _ h; omega
    · have := ih _ _ _ h; omega

theorem findMatchingEndm_ge (lines : List String) (i e : Nat)
    (h : findMatchingEndm lines i = some e) : i ≤ e :=
  endmLoop_ge _ _ _ _ h

theorem commentOut_length (lines : List String) (first last : Nat) (h : first ≤ last) :
    (commentOut lines first last).length = lines.length := by
  unfold commentOut
  simp only [List.length_append, List.length_take, List.length_map, List.length_drop]
  omega

/-- Phase 1 has left its loop once the fuel covers the lines that remain: one more turn of
fuel changes nothing. -/
theorem phase1_fuel : ∀ (fuel i : Nat) (st : ExpandState) (macros : MacroTable),
    st.lines.length ≤ i + fuel → phase1 (fuel + 1) i st macros = phase1 fuel i st macros := by
  intro fuel
  induction fuel with
  | zero =>
    intro i st macros h
    have hg : st.lines.get? i = none := by
      rw [List.get?_eq_none]; omega
    conv_lhs => unfold phase1
    rw [hg]
    rfl
  | succ fuel ih =>
    intro i st macros h
    rw [phase1]
    conv_rhs => rw [phase1]
    cases hg : st.lines.get? i with
    | none => rfl
    | some line =>
      simp only
      by_cases a1 : toUpper (splitMacroLine line).tok2 = "MACRO"
      · rw [if_pos a1, if_pos a1]
        by_cases a2 : isMacroReservedWord (toUpper (splitMacroLine line).tok1) = true
        · rw [if_pos a2, if_pos a2]
        · rw [if_neg a2, if_neg a2]
          cases hlk : List.lookup (toUpper (splitMacroLine line).tok1) macros with
          | none =>
            simp only
            cases hf : findMatchingEndm st.lines (i + 1) with
            | none => rfl
            | some e =>
              simp only
              apply ih
              have := findMatchingEndm_ge _ _ _ hf
              show (commentOut st.lines i e).length ≤ _
              rw [commentOut_length _ _ _ (by omega)]
              omega
          | some old =>
            simp only
            have hl : ∀ d, (st.fail d).lines = st.lines := fun _ => rfl
            rw [hl]
            cases hf : findMatchingEndm st.lines (i + 1) with
            | none => rfl
            | some e =>
              simp only
              apply ih
              have := findMatchingEndm_ge _ _ _ hf
              show (commentOut st.lines i e).length ≤ _
              rw [commentOut_length _ _ _ (by omega)]
              omega
      · rw [if_neg a1, if_neg a1]
        by_cases a3 : toUpper (splitMacroLine line).tok1 = "REPT"
            ∨ toUpper (splitMacroLine line).tok1 = "IRP"
        · rw [if_pos a3, if_pos a3]
          cases hf : findMatchingEndm st.lines (i + 1) with
          | none => rfl
          | some e =>
            simp only
            apply ih
            have := findMatchingEndm_ge _ _ _ hf
            omega
        · rw [if_neg a3, if_neg a3]
          by_cases a4 : toUpper (splitMacroLine line).tok1 = "ENDM"
          · rw [if_pos a4, if_pos a4]
          · rw [if_neg a4, if_neg a4]
            apply ih
            omega

theorem phase1_fuel_enough (st : ExpandState) (macros : MacroTable) :
    ∀ (k : Nat), phase1 (st.lines.length + k) 0 st macros
      = phase1 st.lines.length 0 st macros := by
  intro k
  induction k with
  | zero => rfl
  | succ k ih =>
    rw [← ih, ← Nat.add_assoc]
    exact phase1_fuel _ 0 st macros (by omega)

/-- C31. `expandMacros` ends in one of these ways. Phase 1 fails: failure. Phase 1 finds no
definition and no REPT or IRP: success without any sweep. Otherwise there is a number
`k <= 10000` of sweeps that each expanded something, after which either the next sweep,
which is still among the first 10000, expands nothing and the result is success with the
state reached, or that sweep fails and the result is failure, or `k = 10000` and the result
is failure with the iteration-limit error pushed. A sweep that expands something expands
one REPT block, one IRP block or one macro invocation, on one line. Phase 1 itself has left
its loop over the lines: more fuel than the number of lines gives the same result. -/
theorem C31_macro_expansion_terminates (st : ExpandState) (c : Nat) :
    ((phase1 st.lines.length 0 st []).2.2 = false →
      expandMacros st c = ((phase1 st.lines.length 0 st []).1, c, false))
    ∧ ((phase1 st.lines.length 0 st []).2.2 = true →
        ((phase1 st.lines.length 0 st []).2.1.isEmpty = true
          ∧ hasReptIrp (phase1 st.lines.length 0 st []).1.lines = false) →
        expandMacros st c = ((phase1 st.lines.length 0 st []).1, c, true))
    ∧ ((phase1 st.lines.length 0 st []).2.2 = true →
        ¬ ((phase1 st.lines.length 0 st []).2.1.isEmpty = true
          ∧ hasReptIrp (phase1 st.lines.length 0 st []).1.lines = false) →
        ∃ k stk ck, k ≤ 10000
          ∧ afterSweeps (phase1 st.lines.length 0 st []).2.1 k
              (phase1 st.lines.length 0 st []).1 c = some (stk, ck)
          ∧ ((k < 10000
                ∧ expansionSweep (phase1 st.lines.length 0 st []).2.1 stk ck stk.lines 0
                    = .stable
                ∧ expandMacros st c = (stk, ck, true))
            ∨ (k < 10000
                ∧ ∃ st1, expansionSweep (phase1 st.lines.length 0 st []).2.1 stk ck stk.lines 0
                    = .failed st1
                  ∧ expandMacros st c = (st1, ck, false))
            ∨ (k = 10000
                ∧ expandMacros st c = (stk.fail iterationLimitError, ck, false))))
    ∧ (∀ (macros : MacroTable) (st0 : ExpandState) (c0 : Nat) (st1 : ExpandState) (c1 : Nat),
        expansionSweep macros st0 c0 st0.lines 0 = .expanded st1 c1 →
        ∃ i, i < st0.lines.length
          ∧ ((st1 = (expandRept st0 i).1 ∧ (expandRept st0 i).2 = true ∧ c1 = c0)
            ∨ (st1 = (expandIrp st0 i).1 ∧ (expandIrp st0 i).2 = true ∧ c1 = c0)
            ∨ ∃ d name args label, (name, d) ∈ macros
                ∧ (st1, c1) = expandInvocation st0 i d name args label c0))
    ∧ (∀ k, phase1 (st.lines.length + k) 0 st [] = phase1 st.lines.length 0 st []) := by
  refine ⟨?_, ?_, ?_, ?_, phase1_fuel_enough st []⟩
  · intro h
    unfold expandMacros
    simp only [h, Bool.false_eq_true, not_false_eq_true, if_true]
  · intro h h2
    unfold expandMacros
    simp only [h, not_true_eq_false, if_false, h2, Bool.false_eq_true, not_false_eq_true,
      and_self, if_true]
  · intro h h2
    have he : expandMacros st c = phase2 (phase1 st.lines.length 0 st []).2.1
        MAX_MACRO_EXPANSION_ITERATIONS (phase1 st.lines.length 0 st []).1 c := by
      unfold expandMacros
      simp only [h, not_true_eq_false, if_false]
      rw [if_neg]
      intro h3
      apply h2
      refine ⟨h3.1, ?_⟩
      have := h3.2
      simpa using this
    rw [he]
    exact phase2_sweeps _ 10000 _ _
  · intro macros st0 c0 st1 c1 h
    obtain ⟨i, _, h2, h3⟩ := expansionSweep_one macros st0 c0 st1 c1 st0.lines 0 h
    exact ⟨i, by omega, h3⟩

theorem expansionSweep_skip (macros : MacroTable) (st : ExpandState) (c : Nat)
    (rest : List String) :
    ∀ (pre : List String) (i : Nat), (∀ l ∈ pre, skippedLine l = true) →
      expansionSweep macros st c (pre ++ rest) i
        = expansionSweep macros st c rest (i + pre.length) := by
  intro pre
  induction pre with
  | nil => intro i _; rfl
  | cons l pre ih =>
    intro i h
    have h1 := h l (List.mem_cons_self _ _)
    simp only [skippedLine, decide_eq_true_eq] at h1
    rw [List.cons_append]
    conv_lhs => unfold expansionSweep
    simp only
    rw [if_pos h1, ih (i + 1) (fun x hx => h x (List.mem_cons_of_mem _ hx))]
    congr 1
    simp only [List.length_cons]
    omega

theorem expansionSweep_self (st : ExpandState) (c : Nat) (post : List String) (i : Nat) :
    expansionSweep [("M", selfMacro)] st c ("M" :: post) i
      = .expanded (st.splice i i ["; >>> MACRO M", "M", "; <<< END MACRO M"]) c := by
  have e1 : macroTrim "M" = "M" := by decide
  have e2 : splitMacroLine "M" = ⟨"M", "", ""⟩ := by decide
  have e3 : toUpper "M" = "M" := by decide
  have e4 : parseMacroArguments "" = [] := by decide
  have e5 : substituteParams "M" [] [] [] [] = "M" := by decide
  unfold expansionSweep
  simp only [e1, e2, e3]
  rw [if_neg (by decide), if_neg (by decide), if_neg (by decide)]
  have e6 : List.lookup "M" [("M", selfMacro)] = some selfMacro := by decide
  simp only [e6, Option.isSome_some, if_true]
  rw [if_pos (by decide)]
  simp only [expandInvocation, e4, selfMacro, List.length_nil, Nat.lt_irrefl, if_false,
    genLocals, List.map_cons, List.map_nil, e5]
  rfl

theorem selfShape_sweep (st : ExpandState) (c : Nat) (h : SelfShape st) :
    ∃ st1, expansionSweep [("M", selfMacro)] st c st.lines 0 = .expanded st1 c
      ∧ SelfShape st1 ∧ st1.errors = st.errors := by
  obtain ⟨pre, post, hl, hp⟩ := h
  refine ⟨st.splice pre.length pre.length ["; >>> MACRO M", "M", "; <<< END MACRO M"],
    ?_, ?_, rfl⟩
  · rw [hl, expansionSweep_skip _ _ _ _ pre 0 hp, expansionSweep_self, Nat.zero_add]
  · refine ⟨pre ++ ["; >>> MACRO M"], "; <<< END MACRO M" :: post, ?_, ?_⟩
    · simp only [ExpandState.splice, hl]
      simp
    · intro l hm
      rw [List.mem_append] at hm
      rcases hm with hm | hm
      · exact hp l hm
      · rw [List.mem_singleton] at hm
        rw [hm]
        decide

theorem selfShape_afterSweeps :
    ∀ (k : Nat) (st : ExpandState) (c : Nat), SelfShape st →
      ∃ stk, afterSweeps [("M", selfMacro)] k st c = some (stk, c)
        ∧ SelfShape stk ∧ stk.errors = st.errors := by
  intro k
  induction k with
  | zero => intro st c h; exact ⟨st, rfl, h, rfl⟩
  | succ k ih =>
    intro st c h
    obtain ⟨st1, h1, h2, h3⟩ := selfShape_sweep st c h
    obtain ⟨stk, h4, h5, h6⟩ := ih st1 c h2
    refine ⟨stk, ?_, h5, h6.trans h3⟩
    unfold afterSweeps
    rw [h1]
    exact h4

/-- C31 at the source `M MACRO` / `M` / `ENDM` / `M`, a directly recursive macro: every one
of the 10000 sweeps expands the invocation again, and the result is failure with the
iteration-limit error as the only diagnostic; and at the source `NOP`, which succeeds
without a sweep. -/
theorem C31_macro_expansion_terminates_witness :
    (expandMacros (sourceState ["M MACRO", "M", "ENDM", "M"]) 0).2.2 = false
    ∧ (expandMacros (sourceState ["M MACRO", "M", "ENDM", "M"]) 0).1.errors
        = [iterationLimitError]
    ∧ expandMacros (sourceState ["NOP"]) 0 = (sourceState ["NOP"], 0, true) := by
  have h := (C31_macro_expansion_terminates (sourceState ["M MACRO", "M", "ENDM", "M"]) 0).2.2.1
  have hp : phase1 (sourceState ["M MACRO", "M", "ENDM", "M"]).lines.length 0
      (sourceState ["M MACRO", "M", "ENDM", "M"]) []
      = (⟨["; [MACRO DEF] M MACRO", "; [MACRO DEF] M", "; [MACRO DEF] ENDM", "M"],
          [⟨"", 1⟩, ⟨"", 2⟩, ⟨"", 3⟩, ⟨"", 4⟩], []⟩, [("M", selfMacro)], true) := by
    decide
  rw [hp] at h
  obtain ⟨k, stk, ck, _, ha, hc⟩ := h rfl (by decide)
  have hs : SelfShape ⟨["; [MACRO DEF] M MACRO", "; [MACRO DEF] M", "; [MACRO DEF] ENDM", "M"],
      [⟨"", 1⟩, ⟨"", 2⟩, ⟨"", 3⟩, ⟨"", 4⟩], []⟩ :=
    ⟨["; [MACRO DEF] M MACRO", "; [MACRO DEF] M", "; [MACRO DEF] ENDM"], [], rfl, by decide⟩
  obtain ⟨stk', h1, h2, h3⟩ := selfShape_afterSweeps k _ 0 hs
  simp only at ha
  rw [h1] at ha
  simp only [Option.some.injEq, Prod.mk.injEq] at ha
  obtain ⟨ha1, ha2⟩ := ha
  subst ha1
  subst ha2
  obtain ⟨st2, h4, _, _⟩ := selfShape_sweep stk' 0 h2
  refine ⟨?_, ?_, by decide⟩
  · rcases hc with ⟨_, h5, _⟩ | ⟨_, st1, h5, _⟩ | ⟨_, h5⟩
    · rw [h4] at h5; exact absurd h5 (by simp)
    · rw [h4] at h5; exact absurd h5 (by simp)
    · rw [h5]
  · rcases hc with ⟨_, h5, _⟩ | ⟨_, st1, h5, _⟩ | ⟨_, h5⟩
    · rw [h4] at h5; exact absurd h5 (by simp)
    · rw [h4] at h5; exact absurd h5 (by simp)
    · rw [h5]
      show stk'.errors ++ [iterationLimitError] = _
      rw [h3]
      rfl

/-! ## C32: comments and quoted strings in the lexer -/

theorem endsInString_even :
    ∀ (cs : List Char) (s : Bool),
      (cs.count (Char.ofNat 39) + (if s then 1 else 0)) % 2 = 0 → endsInString cs s = false := by
  intro cs
  induction cs with
  | nil => intro s h; cases s <;> simp_all [endsInString]
  | cons c rest ih =>
    intro s h
    cases s
    · unfold endsInString
      by_cases h1 : c = ';'
      · rw [if_pos h1]
      · rw [if_neg h1]
        by_cases h2 : c = Char.ofNat 39
        · rw [if_pos h2]
          apply ih
          rw [h2, List.count_cons_self] at h
          simp only [Bool.false_eq_true, if_false, if_true] at h ⊢
          omega
        · rw [if_neg h2]
          apply ih
          rw [List.count_cons_of_ne (fun e => h2 e.symm)] at h
          exact h
    · unfold endsInString
      by_cases h2 : c = Char.ofNat 39
      · rw [if_pos h2]
        apply ih
        rw [h2, List.count_cons_self] at h
        simp only [Bool.false_eq_true, if_false, if_true] at h ⊢
        omega
      · rw [if_neg h2]
        apply ih
        rw [List.count_cons_of_ne (fun e => h2 e.symm)] at h
        exact h

theorem tokenizeLoop_comment (lineNum : Nat) (b : List Char) :
    ∀ (a : List Char) (tokens : List Token) (cur : String) (s : Bool),
      endsInString a s = false →
      tokenizeLoop lineNum (a ++ ';' :: b) tokens cur s = tokenizeLoop lineNum a tokens cur s := by
  intro a
  induction a with
  | nil =>
    intro tokens cur s h
    simp only [endsInString] at h
    subst h
    simp [tokenizeLoop]
  | cons c rest ih =>
    intro tokens cur s h
    cases s
    · unfold endsInString at h
      rw [List.cons_append]
      unfold tokenizeLoop
      simp only [Bool.false_eq_true, if_false]
      by_cases h1 : c = ';'
      · rw [if_pos h1, if_pos h1]
      · rw [if_neg h1] at h
        rw [if_neg h1, if_neg h1]
        by_cases h2 : c = Char.ofNat 39
        · rw [if_pos h2] at h
          rw [if_pos h2, if_pos h2]
          exact ih _ _ _ h
        · rw [if_neg h2] at h
          rw [if_neg h2, if_neg h2]
          by_cases h3 : isPunct c = true
          · rw [if_pos h3, if_pos h3]
            exact ih _ _ _ h
          · rw [if_neg h3, if_neg h3]
            by_cases h4 : isSpaceC c = true
            · rw [if_pos h4, if_pos h4]
              by_cases h5 : cur.data ≠ []
              · rw [if_pos h5, if_pos h5]
                exact ih _ _ _ h
              · rw [if_neg h5, if_neg h5]
                exact ih _ _ _ h
            · rw [if_neg h4, if_neg h4]
              exact ih _ _ _ h
    · unfold endsInString at h
      rw [List.cons_append]
      unfold tokenizeLoop
      simp only [if_true]
      by_cases h2 : c = Char.ofNat 39
      · rw [if_pos h2] at h
        rw [if_pos h2, if_pos h2]
        exact ih _ _ _ h
      · rw [if_neg h2] at h
        rw [if_neg h2, if_neg h2]
        exact ih _ _ _ h

theorem tokenizeLoop_string (lineNum : Nat) (rest : List Char) :
    ∀ (s : List Char) (tokens : List Token) (cur : String),
      Char.ofNat 39 ∉ s →
      tokenizeLoop lineNum (s ++ Char.ofNat 39 :: rest) tokens cur true
        = tokenizeLoop lineNum rest (tokens ++ [⟨.String, cur ++ String.mk s, lineNum⟩])
            "" false := by
  intro s
  induction s with
  | nil =>
    intro tokens cur _
    rw [List.nil_append]
    conv_lhs => unfold tokenizeLoop
    simp only [if_true]
    have : cur ++ String.mk [] = cur := by
      apply String.ext; simp
    rw [this]
  | cons c s ih =>
    intro tokens cur h
    have hc : c ≠ Char.ofNat 39 := fun e => h (by rw [e]; exact List.mem_cons_self _ _)
    have hs : Char.ofNat 39 ∉ s := fun e => h (List.mem_cons_of_mem _ e)
    rw [List.cons_append]
    conv_lhs => unfold tokenizeLoop
    simp only [if_true, if_neg hc]
    rw [ih _ _ hs]
    have : cur.push c ++ String.mk s = cur ++ String.mk (c :: s) := by
      apply String.ext; simp
    rw [this]

/-- C32. For a prefix `a` holding an even number of single quotes and any text `b`, the line
`a;b` has exactly the tokens of `a`. Inside a quoted string `;` is an ordinary character:
for a text `s` without a single quote, the character loop, outside a string with `cur`
pending, turns the quoted `s` into one String token whose value is `cur` followed by `s`
whole, and the line made of the quoted `s` alone has that one token with value `s`. -/
theorem C32_comments_produce_no_tokens (a b s : String) (lineNum : Nat)
    (tokens : List Token) (cur : String) (rest : List Char)
    (ha : a.data.count (Char.ofNat 39) % 2 = 0) (hs : Char.ofNat 39 ∉ s.data) :
    tokenize (a ++ ";" ++ b) lineNum = tokenize a lineNum
    ∧ tokenizeLoop lineNum (Char.ofNat 39 :: (s.data ++ Char.ofNat 39 :: rest)) tokens cur false
        = tokenizeLoop lineNum rest (tokens ++ [⟨.String, cur ++ s, lineNum⟩]) "" false
    ∧ tokenize ("'" ++ s ++ "'") lineNum = [⟨.String, s, lineNum⟩] := by
  have hq : ∀ (r : List Char) (tk : List Token) (cr : String),
      tokenizeLoop lineNum (Char.ofNat 39 :: (s.data ++ Char.ofNat 39 :: r)) tk cr false
        = tokenizeLoop lineNum r (tk ++ [⟨.String, cr ++ s, lineNum⟩]) "" false := by
    intro r tk cr
    conv_lhs => unfold tokenizeLoop
    simp only [Bool.false_eq_true, if_false, if_true]
    rw [if_neg (by decide)]
    exact tokenizeLoop_string lineNum r s.data tk cr hs
  refine ⟨?_, hq rest tokens cur, ?_⟩
  · unfold tokenize
    have hd : (a ++ ";" ++ b).data = a.data ++ ';' :: b.data := by
      simp [String.data_append]
    rw [hd, tokenizeLoop_comment lineNum b.data a.data [] "" false
      (endsInString_even a.data false (by simpa using ha))]
  · unfold tokenize
    have hd : ("'" ++ s ++ "'").data = Char.ofNat 39 :: (s.data ++ Char.ofNat 39 :: []) := by
      simp [String.data_append]
    rw [hd, hq]
    have he : ("" : String) ++ s = s := by
      apply String.ext; simp
    simp [tokenizeLoop, he]

/-- C32 at the line `DB 'a;b', 1 ; 'c` -- the tokens are those of `DB 'a;b', 1 `, of which
the second is the String token `a;b`. -/
theorem C32_comments_produce_no_tokens_witness :
    tokenize ("DB 'a;b', 1 " ++ ";" ++ " 'c") 1 = tokenize "DB 'a;b', 1 " 1
    ∧ tokenize "DB 'a;b', 1 ; 'c" 1
        = [⟨.Identifier, "DB", 1⟩, ⟨.String, "a;b", 1⟩, ⟨.Comma, ",", 1⟩, ⟨.Number, "1", 1⟩]
    ∧ tokenize ("'" ++ "a;b" ++ "'") 1 = [⟨.String, "a;b", 1⟩]
    ∧ tokenize "MOV AX, 1 ; load" 1 = tokenize "MOV AX, 1 " 1 := by
  have h := C32_comments_produce_no_tokens "DB 'a;b', 1 " " 'c" "a;b" 1 [] "" []
    (by decide) (by decide)
  exact ⟨h.1, by decide, h.2.2, by decide⟩

/-! ## C33: the decoder stays inside the buffer -/

theorem decodeOk_finish (code : List Nat) (current pb : Nat) (r : DecodedInst) (t : Nat)
    (hp : r.prefixBytes = pb) (h : pb + 1 ≤ t ∧ t + current ≤ code.length + pb + 1) :
    DecodeOk code current pb (finish r t) :=
  ⟨hp, fun hv => absurd hv (by simp [finish]), fun _ => h⟩

theorem decodeOk_invalid (code : List Nat) (current pb : Nat) (r : DecodedInst)
    (hp : r.prefixBytes = pb) (hv : r.valid = false) (hs : r.size = 0) :
    DecodeOk code current pb r :=
  ⟨hp, fun _ => hs, fun h => by rw [hv] at h; exact absurd h (by decide)⟩

theorem decodeOk_ite (code : List Nat) (current pb : Nat) (c : Prop) [Decidable c]
    (a b : DecodedInst) (ha : c → DecodeOk code current pb a)
    (hb : ¬ c → DecodeOk code current pb b) :
    DecodeOk code current pb (if c then a else b) := by
  split_ifs with h
  · exact ha h
  · exact hb h

set_option maxHeartbeats 4000000 in
set_option maxRecDepth 100000 in
theorem decodeOpcode_ok (code : List Nat) (offset current : Nat) (inst : DecodedInst)
    (hv : inst.valid = false) (hs : inst.size = 0) (hc : current ≤ code.length) :
    DecodeOk code current inst.prefixBytes (decodeOpcode code offset current inst) := by
  have hb := modRMLength_bound code current
  unfold decodeOpcode
  simp only []
  repeat' (first
    | (apply decodeOk_ite <;> intro _)
    | (apply decodeOk_invalid
       · rfl
       · first | exact hv | rfl
       · exact hs)
    | (apply decodeOk_finish
       · rfl
       · simp only [bytesConsumed_eq, hasBytesAt, decide_eq_true_eq, not_le, not_lt] at *
         omega))
  cases List.lookup inst.opcode simpleNames with
  | none => exact decodeOk_invalid _ _ _ _ rfl hv hs
  | some name =>
    apply decodeOk_finish
    · rfl
    · omega

theorem decodePrefixes_size (code : List Nat) :
    ∀ (n : Nat) (inst : DecodedInst) (current : Nat),
      (decodePrefixes code n inst current).1.size = inst.size := by
  intro n
  induction n with
  | zero => intro inst current; simp [decodePrefixes]
  | succ n ih =>
    intro inst current
    unfold decodePrefixes
    simp only []
    split_ifs <;> first
      | rfl
      | rw [ih]

theorem decodePrefixes_bytes (code : List Nat) :
    ∀ (n : Nat) (inst : DecodedInst) (current : Nat) (i : Nat),
      current ≤ i → i < (decodePrefixes code n inst current).2 →
      readByte code i ∈ [0xF2, 0xF3, 0x26, 0x2E, 0x36, 0x3E] := by
  intro n
  induction n with
  | zero =>
    intro inst current i h1 h2
    simp only [decodePrefixes] at h2
    omega
  | succ n ih =>
    intro inst current i h1 h2
    unfold decodePrefixes at h2
    simp only [] at h2
    by_cases hi : i = current
    · subst hi
      split_ifs at h2 <;> first
        | (simp only [] at h2; omega)
        | (simp only [List.mem_cons, List.mem_singleton, List.not_mem_nil, or_false]; omega)
    · have h3 : current + 1 ≤ i := by omega
      split_ifs at h2 <;> first
        | (exact ih _ _ i h3 h2)
        | (simp only [] at h2; omega)

/-- C33. For every buffer and offset the result of `decodeInstruction` is either invalid
with size 0, or valid with a size of at least `prefixBytes + 1` (the prefixes and the
opcode) that ends inside the buffer: `offset + size <= code.length`; in both cases the
`prefixBytes` bytes at the offset are all prefix bytes (F2, F3, 26, 2E, 36, 3E). -/
theorem C33_decoder_stays_in_buffer (code : List Nat) (offset : Nat) :
    ((decodeInstruction code offset).valid = false → (decodeInstruction code offset).size = 0)
    ∧ ((decodeInstruction code offset).valid = true →
        (decodeInstruction code offset).prefixBytes + 1 ≤ (decodeInstruction code offset).size
        ∧ offset + (decodeInstruction code offset).size ≤ code.length)
    ∧ (∀ i, i < (decodeInstruction code offset).prefixBytes →
        readByte code (offset + i) ∈ [0xF2, 0xF3, 0x26, 0x2E, 0x36, 0x3E]) := by
  unfold decodeInstruction
  by_cases ho : offset ≥ code.length
  · rw [if_pos ho]
    refine ⟨fun _ => rfl, fun h => absurd h (by decide), fun i hi => ?_⟩
    exact absurd hi (by show ¬ i < 0; omega)
  · rw [if_neg ho]
    obtain ⟨h1, h2, h3⟩ := decodePrefixes_inv code code.length DecodedInst.empty offset
    have h4 := decodePrefixes_size code code.length DecodedInst.empty offset
    have h5 := decodePrefixes_bytes code code.length DecodedInst.empty offset
    generalize decodePrefixes code code.length DecodedInst.empty offset = p at h1 h2 h3 h4 h5 ⊢
    obtain ⟨inst, current⟩ := p
    simp only [] at h1 h2 h3 h4 h5 ⊢
    have hpb : (DecodedInst.empty).prefixBytes = 0 := rfl
    have hv0 : (DecodedInst.empty).valid = false := rfl
    have hs0 : (DecodedInst.empty).size = 0 := rfl
    rw [hpb] at h2
    rw [hv0] at h1
    rw [hs0] at h4
    have hbytes : ∀ i, i < inst.prefixBytes →
        readByte code (offset + i) ∈ [0xF2, 0xF3, 0x26, 0x2E, 0x36, 0x3E] :=
      fun i hi => h5 (offset + i) (by omega) (by omega)
    by_cases hh : hasBytesAt code current 1 = true
    · simp only [hh, not_true_eq_false, if_false]
      have hcur : current + 1 ≤ code.length := (hasBytesAt_iff code current 1).mp hh
      obtain ⟨d1, d2, d3⟩ := decodeOpcode_ok code offset (current + 1)
        { inst with opcode := readByte code current } h1 h4 hcur
      simp only [] at d1 d3
      refine ⟨d2, fun hv => ?_, fun i hi => ?_⟩
      · have := d3 hv
        rw [d1]
        omega
      · rw [d1] at hi
        exact hbytes i hi
    · rw [if_pos hh]
      exact ⟨fun _ => h4, fun hv => by rw [h1] at hv; exact absurd hv (by decide), hbytes⟩

/-- C33 at `ES: ADD WORD [BX+1234h], 5678h` (bytes 26 81 87 34 12 78 56: one prefix, the
opcode, the ModR/M byte, two displacement bytes and two immediate bytes, size 7), and at
the same bytes with the last one missing, which do not decode. -/
theorem C33_decoder_stays_in_buffer_witness :
    (decodeInstruction [0x26, 0x81, 0x87, 0x34, 0x12, 0x78, 0x56] 0).valid = true
    ∧ (decodeInstruction [0x26, 0x81, 0x87, 0x34, 0x12, 0x78, 0x56] 0).prefixBytes = 1
    ∧ (decodeInstruction [0x26, 0x81, 0x87, 0x34, 0x12, 0x78, 0x56] 0).size = 7
    ∧ (decodeInstruction [0x26, 0x81, 0x87, 0x34, 0x12, 0x78] 0).valid = false
    ∧ (decodeInstruction [0x26, 0x81, 0x87, 0x34, 0x12, 0x78] 0).size = 0 := by
  have h := C33_decoder_stays_in_buffer [0x26, 0x81, 0x87, 0x34, 0x12, 0x78] 0
  exact ⟨by decide, by decide, by decide, by decide, h.1 (by decide)⟩

/-! ## C34: decoded register indices -/

theorem modrm_register_form (b : Nat) (hb : 0xC0 ≤ b ∧ b < 256) : (b >>> 6) &&& 3 = 3 := by
  obtain ⟨h1, h2⟩ := hb
  interval_cases b <;> rfl

theorem modrm_high_reg (b : Nat) (hb : 0xE0 ≤ b ∧ b < 256) : 4 ≤ (b >>> 3) &&& 7 := by
  obtain ⟨h1, h2⟩ := hb
  interval_cases b <;> decide

theorem decodeOpcode_mov_to_sreg (b : Nat) (rest : List Nat) (offset : Nat)
    (hb : 0xC0 ≤ b ∧ b < 256) :
    decodeOpcode (0x8E :: b :: rest) offset 1 { DecodedInst.empty with opcode := 0x8E }
      = { DecodedInst.empty with
          opcode := 0x8E, valid := true, size := 2, mnemonic := "MOV", wide := true,
          op1 := makeSreg ((b >>> 3) &&& 7),
          op2 := modrmToOperand (decodeModRM (0x8E :: b :: rest) 1 16) 16 } := by
  have hm := modrm_register_form b hb
  simp [decodeOpcode, decodeModRM, hasBytesAt, finish, readByte, DecodedInst.empty, hm]

theorem decodeOpcode_mov_from_sreg (b : Nat) (rest : List Nat) (offset : Nat)
    (hb : 0xC0 ≤ b ∧ b < 256) :
    decodeOpcode (0x8C :: b :: rest) offset 1 { DecodedInst.empty with opcode := 0x8C }
      = { DecodedInst.empty with
          opcode := 0x8C, valid := true, size := 2, mnemonic := "MOV", wide := true,
          op1 := modrmToOperand (decodeModRM (0x8C :: b :: rest) 1 16) 16,
          op2 := makeSreg ((b >>> 3) &&& 7) } := by
  have hm := modrm_register_form b hb
  simp [decodeOpcode, decodeModRM, hasBytesAt, finish, readByte, DecodedInst.empty, hm]

theorem and7_lt (r : Nat) : r &&& 7 < 8 := by
  have := Nat.and_pow_two_sub_one_eq_mod r 3
  simp only [Nat.reducePow, Nat.add_one_sub_one] at this
  rw [this]
  omega

theorem decodeModRM_fields (code : List Nat) (k sz : Nat) :
    (decodeModRM code k sz).reg < 8 ∧ (decodeModRM code k sz).rm < 8 := by
  unfold decodeModRM
  simp only []
  split_ifs <;> simp only [] <;> first
    | exact ⟨and7_lt _, and7_lt _⟩
    | exact ⟨by decide, by decide⟩

theorem ok_makeReg8 (o r : Nat) : OperandOk o (makeReg8 r) :=
  ⟨and7_lt r, fun h => absurd h (by simp [makeReg8])⟩

theorem ok_makeReg16 (o r : Nat) : OperandOk o (makeReg16 r) :=
  ⟨and7_lt r, fun h => absurd h (by simp [makeReg16])⟩

theorem ok_makeImm8 (o v : Nat) : OperandOk o (makeImm8 v) :=
  ⟨by show (0 : Nat) < 8; omega, fun h => absurd h (by simp [makeImm8])⟩

theorem ok_makeImm16 (o v : Nat) : OperandOk o (makeImm16 v) :=
  ⟨by show (0 : Nat) < 8; omega, fun h => absurd h (by simp [makeImm16])⟩

theorem ok_moffsOperand (o a s : Nat) : OperandOk o (moffsOperand a s) :=
  ⟨by show (0 : Nat) < 8; omega, fun h => absurd h (by simp [moffsOperand])⟩

theorem ok_empty (o : Nat) : OperandOk o DecodedOperand.empty :=
  ⟨by show (0 : Nat) < 8; omega, fun h => absurd h (by simp [DecodedOperand.empty])⟩

theorem ok_modrm (o : Nat) (code : List Nat) (k sz sz1 : Nat) :
    OperandOk o (modrmToOperand (decodeModRM code k sz) sz1) := by
  have h := (decodeModRM_fields code k sz).2
  unfold modrmToOperand
  simp only []
  by_cases hr : (decodeModRM code k sz).isReg = true
  · rw [if_pos hr]
    refine ⟨h, fun hk => ?_⟩
    simp only [] at hk
    split_ifs at hk
  · rw [if_neg hr]
    exact ⟨by show (0 : Nat) < 8; omega, fun hk => absurd hk (by simp)⟩

theorem ok_regFromField (o r s : Nat) : OperandOk o (regFromField r s) := by
  unfold regFromField
  split_ifs
  · exact ok_makeReg8 o r
  · exact ok_makeReg16 o r

theorem ok_addSizePrefix (o : Nat) (op : DecodedOperand) (h : OperandOk o op) :
    OperandOk o (addSizePrefix op) := by
  unfold addSizePrefix
  split_ifs
  · exact h
  all_goals exact h

theorem ok_one (o : Nat) : OperandOk o { makeImm8 1 with text := "1" } := ok_makeImm8 o 1

theorem ok_ite (o : Nat) (c : Prop) [Decidable c] (a b : DecodedOperand)
    (ha : OperandOk o a) (hb : OperandOk o b) : OperandOk o (if c then a else b) := by
  split_ifs
  · exact ha
  · exact hb

theorem ok_makeSreg (o r : Nat) (h : r < 4) : OperandOk o (makeSreg r) :=
  ⟨by show r < 8; omega, fun _ => Or.inl h⟩

theorem ok_makeSreg_mov (o : Nat) (code : List Nat) (k sz : Nat) (h : o = 0x8C ∨ o = 0x8E) :
    OperandOk o (makeSreg (decodeModRM code k sz).reg) :=
  ⟨(decodeModRM_fields code k sz).1, fun _ => Or.inr h⟩

theorem regsOk_ite (o : Nat) (c : Prop) [Decidable c] (a b : DecodedInst)
    (ha : c → RegsOk o a) (hb : ¬ c → RegsOk o b) : RegsOk o (if c then a else b) := by
  split_ifs with h
  · exact ha h
  · exact hb h

set_option maxHeartbeats 4000000 in
set_option maxRecDepth 100000 in
theorem decodeOpcode_regsOk (code : List Nat) (offset current : Nat) (inst : DecodedInst)
    (h1 : OperandOk inst.opcode inst.op1) (h2 : OperandOk inst.opcode inst.op2) :
    RegsOk inst.opcode (decodeOpcode code offset current inst) := by
  unfold decodeOpcode
  simp only []
  repeat' (first
    | (apply regsOk_ite <;> intro _)
    | (cases List.lookup inst.opcode simpleNames <;> exact ⟨h1, h2⟩)
    | (refine ⟨?_, ?_⟩ <;> (try simp only [finish]) <;>
        solve
        | repeat' (first
          | with_reducible exact h1
          | with_reducible exact h2
          | with_reducible apply ok_makeReg8
          | with_reducible apply ok_makeReg16
          | with_reducible apply ok_makeImm8
          | with_reducible apply ok_makeImm16
          | with_reducible apply ok_moffsOperand
          | with_reducible apply ok_modrm
          | with_reducible apply ok_regFromField
          | with_reducible apply ok_addSizePrefix
          | with_reducible apply ok_ite
          | with_reducible exact ok_one _
          | (with_reducible apply ok_makeSreg_mov <;>
              first | exact Or.inl (by assumption) | exact Or.inr (by assumption))
          | (with_reducible apply ok_makeSreg; decide))))

theorem decodePrefixes_ops (code : List Nat) :
    ∀ (n : Nat) (inst : DecodedInst) (current : Nat),
      (decodePrefixes code n inst current).1.op1 = inst.op1
      ∧ (decodePrefixes code n inst current).1.op2 = inst.op2 := by
  intro n
  induction n with
  | zero => intro inst current; simp [decodePrefixes]
  | succ n ih =>
    intro inst current
    unfold decodePrefixes
    simp only []
    split_ifs <;> first
      | exact ⟨rfl, rfl⟩
      | exact ih _ _

theorem decodeInstruction_regsOk (code : List Nat) (offset : Nat) :
    RegsOk (readByte code (offset + (decodeInstruction code offset).prefixBytes))
      (decodeInstruction code offset) := by
  unfold decodeInstruction
  by_cases ho : offset ≥ code.length
  · rw [if_pos ho]
    exact ⟨ok_empty _, ok_empty _⟩
  · rw [if_neg ho]
    obtain ⟨h1, h2, h3⟩ := decodePrefixes_inv code code.length DecodedInst.empty offset
    have h4 := decodePrefixes_size code code.length DecodedInst.empty offset
    obtain ⟨h5, h6⟩ := decodePrefixes_ops code code.length DecodedInst.empty offset
    generalize decodePrefixes code code.length DecodedInst.empty offset = p
      at h1 h2 h3 h4 h5 h6 ⊢
    obtain ⟨inst, current⟩ := p
    simp only [] at h1 h2 h3 h4 h5 h6 ⊢
    have hpb : (DecodedInst.empty).prefixBytes = 0 := rfl
    have hv0 : (DecodedInst.empty).valid = false := rfl
    have hs0 : (DecodedInst.empty).size = 0 := rfl
    have ho1 : (DecodedInst.empty).op1 = DecodedOperand.empty := rfl
    have ho2 : (DecodedInst.empty).op2 = DecodedOperand.empty := rfl
    rw [hpb] at h2
    rw [hv0] at h1
    rw [hs0] at h4
    rw [ho1] at h5
    rw [ho2] at h6
    by_cases hh : hasBytesAt code current 1 = true
    · simp only [hh, not_true_eq_false, if_false]
      have hcur : current + 1 ≤ code.length := (hasBytesAt_iff code current 1).mp hh
      obtain ⟨d1, _, _⟩ := decodeOpcode_ok code offset (current + 1)
        { inst with opcode := readByte code current } h1 h4 hcur
      simp only [] at d1
      have hr := decodeOpcode_regsOk code offset (current + 1)
        { inst with opcode := readByte code current }
        (by show OperandOk _ inst.op1; rw [h5]; exact ok_empty _)
        (by show OperandOk _ inst.op2; rw [h6]; exact ok_empty _)
      simp only [] at hr
      rw [d1]
      have : offset + inst.prefixBytes = current := by omega
      rw [this]
      exact hr
    · rw [if_pos hh]
      refine ⟨?_, ?_⟩
      · rw [h5]; exact ok_empty _
      · rw [h6]; exact ok_empty _

/-- C34 fails on the code for the opcodes 8C and 8E. In every result of `decodeInstruction`
the register index of both operands is in 0..7, and the index of an SREG operand is in 0..3
unless the opcode byte is 8C or 8E. For these two, a `MOV` between a segment register and a
register (a ModR/M byte `b` of the register form, C0h..FFh), the instruction is decoded as
valid with an SREG operand whose index is the whole three-bit reg field of `b`, which is
4..7 when `b` is E0h or more; `readOperand` reads the segment-register file at that
index. -/
theorem C34_sreg_index_out_of_range (code : List Nat) (offset : Nat) (pre rest : List Nat)
    (b : Nat) (hb : 0xC0 ≤ b ∧ b < 256) :
    ((decodeInstruction code offset).op1.reg < 8 ∧ (decodeInstruction code offset).op2.reg < 8
      ∧ ((decodeInstruction code offset).op1.kind = .SREG →
          (decodeInstruction code offset).op1.reg < 4
          ∨ readByte code (offset + (decodeInstruction code offset).prefixBytes) = 0x8C
          ∨ readByte code (offset + (decodeInstruction code offset).prefixBytes) = 0x8E)
      ∧ ((decodeInstruction code offset).op2.kind = .SREG →
          (decodeInstruction code offset).op2.reg < 4
          ∨ readByte code (offset + (decodeInstruction code offset).prefixBytes) = 0x8C
          ∨ readByte code (offset + (decodeInstruction code offset).prefixBytes) = 0x8E))
    ∧ ((decodeInstruction (pre ++ 0x8E :: b :: rest) pre.length).valid = true
      ∧ (decodeInstruction (pre ++ 0x8E :: b :: rest) pre.length).mnemonic = "MOV"
      ∧ (decodeInstruction (pre ++ 0x8E :: b :: rest) pre.length).op1.kind = .SREG
      ∧ (decodeInstruction (pre ++ 0x8E :: b :: rest) pre.length).op1.reg = (b >>> 3) &&& 7)
    ∧ ((decodeInstruction (pre ++ 0x8C :: b :: rest) pre.length).valid = true
      ∧ (decodeInstruction (pre ++ 0x8C :: b :: rest) pre.length).mnemonic = "MOV"
      ∧ (decodeInstruction (pre ++ 0x8C :: b :: rest) pre.length).op2.kind = .SREG
      ∧ (decodeInstruction (pre ++ 0x8C :: b :: rest) pre.length).op2.reg = (b >>> 3) &&& 7
      ∧ ∀ cpu mem so,
          readOperand cpu mem (decodeInstruction (pre ++ 0x8C :: b :: rest) pre.length).op2 so
            = cpu.sregs ((b >>> 3) &&& 7))
    ∧ (0xE0 ≤ b → 4 ≤ (b >>> 3) &&& 7) := by
  have h1 := decodeInstruction_at pre 0x8E (b :: rest) (by decide)
  rw [decodeOpcode_mov_to_sreg b rest _ hb] at h1
  have h2 := decodeInstruction_at pre 0x8C (b :: rest) (by decide)
  rw [decodeOpcode_mov_from_sreg b rest _ hb] at h2
  obtain ⟨⟨g1, g2⟩, g3, g4⟩ := decodeInstruction_regsOk code offset
  refine ⟨⟨g1, g3, g2, g4⟩, ?_, ?_, fun h => modrm_high_reg b ⟨h, hb.2⟩⟩
  · rw [h1]; exact ⟨rfl, rfl, rfl, rfl⟩
  · rw [h2]; exact ⟨rfl, rfl, rfl, rfl, fun _ _ _ => rfl⟩

/-- C34 at the bytes 8E E0 (a `MOV` into segment register number 4 from AX) and 8C F8 (a
`MOV` into AX from segment register number 7): both decode as valid. -/
theorem C34_sreg_index_out_of_range_witness :
    (decodeInstruction [0x8E, 0xE0] 0).valid = true
    ∧ (decodeInstruction [0x8E, 0xE0] 0).op1.kind = .SREG
    ∧ (decodeInstruction [0x8E, 0xE0] 0).op1.reg = 4
    ∧ (decodeInstruction [0x8E, 0xE0] 0).op1.text = "???"
    ∧ (decodeInstruction [0x8C, 0xF8] 0).valid = true
    ∧ (decodeInstruction [0x8C, 0xF8] 0).op2.kind = .SREG
    ∧ (decodeInstruction [0x8C, 0xF8] 0).op2.reg = 7 := by
  have h := C34_sreg_index_out_of_range [0x8E, 0xE0] 0 [] [] 0xE0 (by decide)
  exact ⟨h.2.1.1, h.2.1.2.2.1, h.2.1.2.2.2, by decide, by decide, by decide, by decide⟩

/-! ## C35: conditional jumps after CMP -/

theorem testBit15_lt (x : Nat) (h : x < 65536) : x.testBit 15 = decide (32768 ≤ x) := by
  rw [Nat.testBit_to_div_mod]
  congr 1
  apply propext
  norm_num
  omega

theorem sub_res16 (a b : Nat) (ha : a < 65536) (hb : b < 65536) :
    (toU32 ((a : Int) - b) &&& 0xFFFF) % 65536 = (a + 65536 - b) % 65536 := by
  rw [and_65535]
  unfold toU32
  omega

/-- The four flags the conditions read, after `updateFlagsSub`. -/
theorem updateFlagsSub_flags (cpu : CPU) (result dst src : Nat) (wide : Bool) :
    (updateFlagsSub cpu result dst src wide).getFlag CPU.CF = decide (dst < src)
    ∧ (updateFlagsSub cpu result dst src wide).getFlag CPU.ZF
        = decide ((result &&& (if wide then 0xFFFF else 0xFF)) % 65536 = 0)
    ∧ (updateFlagsSub cpu result dst src wide).getFlag CPU.SF
        = decide ((result &&& (if wide then 0xFFFF else 0xFF)) % 65536
            &&& (if wide then 0x8000 else 0x80) ≠ 0)
    ∧ (updateFlagsSub cpu result dst src wide).getFlag CPU.OF
        = decide ((dst ^^^ src)
            &&& (dst ^^^ (result &&& (if wide then 0xFFFF else 0xFF)) % 65536)
            &&& (if wide then 0x8000 else 0x80) ≠ 0) := by
  simp only [updateFlagsSub, CPU.CF, CPU.AF, CPU.ZF, CPU.SF, CPU.PF, CPU.OF]
  simp (disch := omega) only [getFlag_setFlag]
  simp

theorem signed_less_8 (a b : Nat) (ha : a < 256) (hb : b < 256) :
    (decide ((a + 256 - b) % 256 &&& 0x80 ≠ 0)
      != decide ((a ^^^ b) &&& (a ^^^ (a + 256 - b) % 256) &&& 0x80 ≠ 0))
      = decide (signed8 a < signed8 b) := by
  have h := and_bit_ne_zero ((a ^^^ b) &&& (a ^^^ (a + 256 - b) % 256)) 7
  have h' := and_bit_ne_zero ((a + 256 - b) % 256) 7
  rw [show (2 : Nat) ^ 7 = 128 from rfl] at h h'
  have hr : (a + 256 - b) % 256 < 256 := Nat.mod_lt _ (by norm_num)
  rw [Nat.testBit_and, Nat.testBit_xor, Nat.testBit_xor, testBit7_lt a ha, testBit7_lt b hb,
    testBit7_lt _ hr] at h
  rw [testBit7_lt _ hr] at h'
  unfold signed8
  by_cases h1 : 128 ≤ a <;> by_cases h2 : 128 ≤ b <;> by_cases h3 : 128 ≤ (a + 256 - b) % 256 <;>
    simp [h1, h2, h3] at h h' ⊢ <;> simp [h, h'] <;> omega

theorem signed_less_16 (a b : Nat) (ha : a < 65536) (hb : b < 65536) :
    (decide ((a + 65536 - b) % 65536 &&& 0x8000 ≠ 0)
      != decide ((a ^^^ b) &&& (a ^^^ (a + 65536 - b) % 65536) &&& 0x8000 ≠ 0))
      = decide (signed16 a < signed16 b) := by
  have h := and_bit_ne_zero ((a ^^^ b) &&& (a ^^^ (a + 65536 - b) % 65536)) 15
  have h' := and_bit_ne_zero ((a + 65536 - b) % 65536) 15
  rw [show (2 : Nat) ^ 15 = 32768 from rfl] at h h'
  have hr : (a + 65536 - b) % 65536 < 65536 := Nat.mod_lt _ (by norm_num)
  rw [Nat.testBit_and, Nat.testBit_xor, Nat.testBit_xor, testBit15_lt a ha, testBit15_lt b hb,
    testBit15_lt _ hr] at h
  rw [testBit15_lt _ hr] at h'
  unfold signed16
  by_cases h1 : 32768 ≤ a <;> by_cases h2 : 32768 ≤ b <;>
    by_cases h3 : 32768 ≤ (a + 65536 - b) % 65536 <;>
    simp [h1, h2, h3] at h h' ⊢ <;> simp [h, h'] <;> omega

theorem executeInstruction_cmp (s : EmuState) (inst : DecodedInst)
    (h : inst.mnemonic = "CMP") :
    executeInstruction s inst
      = { s with cpu := (execALU s.cpu "CMP" (readOperand s.cpu s.mem inst.op1 inst.segOverride)
            (readOperand s.cpu s.mem inst.op2 inst.segOverride) inst.wide).1 } := by
  unfold executeInstruction
  simp only [h, String.reduceEq, or_true, true_or, if_true]
  simp [execALU]

theorem executeInstruction_jcc (s : EmuState) (inst : DecodedInst)
    (h : inst.mnemonic ∈ ["JZ", "JB", "JBE", "JA", "JNB", "JL", "JLE", "JG", "JGE"])
    (ht : 0 ≤ inst.jumpTarget) :
    executeInstruction s inst
      = if evalCondition s.cpu inst.mnemonic
        then { s with cpu := { s.cpu with ip := toU16 inst.jumpTarget } } else s := by
  simp only [List.mem_cons, List.mem_singleton, List.not_mem_nil, or_false] at h
  rcases h with h | h | h | h | h | h | h | h | h <;>
    simp [executeInstruction, h, ht, firstChar]

theorem conditions_of_flags (cf zf sf ovf : Bool) (a b : Nat) (sa sb : Int)
    (hc : cf = decide (a < b)) (hz : zf = decide (a = b))
    (hl : (sf != ovf) = decide (sa < sb)) (hs : sa = sb ↔ a = b) :
    (cf || zf) = decide (a ≤ b)
    ∧ (!cf && !zf) = decide (a > b)
    ∧ (!cf) = decide (a ≥ b)
    ∧ (zf || (sf != ovf)) = decide (sa ≤ sb)
    ∧ (!zf && (sf == ovf)) = decide (sa > sb)
    ∧ (sf == ovf) = decide (sa ≥ sb) := by
  have hge : (sf == ovf) = !(sf != ovf) := by cases sf <;> cases ovf <;> rfl
  rw [hge, hl, hc, hz]
  by_cases e : a = b
  · have e2 : sa = sb := hs.mpr e
    subst e
    simp [e2]
  · have e2 : sa ≠ sb := fun h => e (hs.mp h)
    by_cases l : sa < sb <;> by_cases c : a < b <;> simp [l, c, e] <;> omega

theorem cmp_conditions (cpu : CPU) (a b res : Nat) (sa sb : Int) (wide : Bool)
    (hres : (toU32 ((a : Int) - b) &&& (if wide then 0xFFFF else 0xFF)) % 65536 = res)
    (hz : res = 0 ↔ a = b)
    (hl : (decide (res &&& (if wide then 0x8000 else 0x80) ≠ 0)
        != decide ((a ^^^ b) &&& (a ^^^ res) &&& (if wide then 0x8000 else 0x80) ≠ 0))
        = decide (sa < sb))
    (hs : sa = sb ↔ a = b) :
    evalCondition (execALU cpu "CMP" a b wide).1 "JZ" = decide (a = b)
    ∧ evalCondition (execALU cpu "CMP" a b wide).1 "JB" = decide (a < b)
    ∧ evalCondition (execALU cpu "CMP" a b wide).1 "JBE" = decide (a ≤ b)
    ∧ evalCondition (execALU cpu "CMP" a b wide).1 "JA" = decide (a > b)
    ∧ evalCondition (execALU cpu "CMP" a b wide).1 "JNB" = decide (a ≥ b)
    ∧ evalCondition (execALU cpu "CMP" a b wide).1 "JL" = decide (sa < sb)
    ∧ evalCondition (execALU cpu "CMP" a b wide).1 "JLE" = decide (sa ≤ sb)
    ∧ evalCondition (execALU cpu "CMP" a b wide).1 "JG" = decide (sa > sb)
    ∧ evalCondition (execALU cpu "CMP" a b wide).1 "JGE" = decide (sa ≥ sb) := by
  obtain ⟨hc, hzf, hsf, hof⟩ := updateFlagsSub_flags cpu (toU32 ((a : Int) - b)) a b wide
  rw [hres] at hzf hsf hof
  have he : (execALU cpu "CMP" a b wide).1
      = updateFlagsSub cpu (toU32 ((a : Int) - b)) a b wide := by
    simp [execALU]
  have hz' : decide (res = 0) = decide (a = b) := by
    congr 1; exact propext hz
  rw [hz'] at hzf
  rw [← hsf, ← hof] at hl
  obtain ⟨h1, h2, h3, h4, h5, h6⟩ := conditions_of_flags _ _ _ _ a b sa sb hc hzf hl hs
  rw [he]
  simp only [evalCondition, String.reduceEq, if_true, if_false]
  exact ⟨hzf, hc, h1, h2, h3, hl, h4, h5, h6⟩

/-- C35. After `CMP a, b` on 16-bit values (`wide`) or on 8-bit values, the condition of JZ
holds iff `a = b`, of JB iff `a < b`, of JBE iff `a <= b`, of JA iff `a > b`, of JNB iff
`a >= b` (unsigned), and the conditions of JL, JLE, JG, JGE hold iff the values read as
two's-complement numbers of that width are in the relation `<`, `<=`, `>`, `>=`;
executing a CMP instruction sets the flags to those of `CMP` on the two operand values, and
executing one of these jumps moves IP to the jump target exactly when its condition holds. -/
theorem C35_conditional_jumps_decide_comparisons (cpu : CPU) (a b : Nat) (wide : Bool)
    (ha : a < (if wide then 65536 else 256)) (hb : b < (if wide then 65536 else 256)) :
    (evalCondition (execALU cpu "CMP" a b wide).1 "JZ" = decide (a = b)
      ∧ evalCondition (execALU cpu "CMP" a b wide).1 "JB" = decide (a < b)
      ∧ evalCondition (execALU cpu "CMP" a b wide).1 "JBE" = decide (a ≤ b)
      ∧ evalCondition (execALU cpu "CMP" a b wide).1 "JA" = decide (a > b)
      ∧ evalCondition (execALU cpu "CMP" a b wide).1 "JNB" = decide (a ≥ b)
      ∧ evalCondition (execALU cpu "CMP" a b wide).1 "JL"
          = decide ((if wide then signed16 a else signed8 a)
              < (if wide then signed16 b else signed8 b))
      ∧ evalCondition (execALU cpu "CMP" a b wide).1 "JLE"
          = decide ((if wide then signed16 a else signed8 a)
              ≤ (if wide then signed16 b else signed8 b))
      ∧ evalCondition (execALU cpu "CMP" a b wide).1 "JG"
          = decide ((if wide then signed16 a else signed8 a)
              > (if wide then signed16 b else signed8 b))
      ∧ evalCondition (execALU cpu "CMP" a b wide).1 "JGE"
          = decide ((if wide then signed16 a else signed8 a)
              ≥ (if wide then signed16 b else signed8 b)))
    ∧ (∀ (s : EmuState) (inst : DecodedInst), inst.mnemonic = "CMP" →
        executeInstruction s inst
          = { s with cpu := (execALU s.cpu "CMP"
                (readOperand s.cpu s.mem inst.op1 inst.segOverride)
                (readOperand s.cpu s.mem inst.op2 inst.segOverride) inst.wide).1 })
    ∧ (∀ (s : EmuState) (inst : DecodedInst),
        inst.mnemonic ∈ ["JZ", "JB", "JBE", "JA", "JNB", "JL", "JLE", "JG", "JGE"] →
        0 ≤ inst.jumpTarget →
        executeInstruction s inst
          = if evalCondition s.cpu inst.mnemonic
            then { s with cpu := { s.cpu with ip := toU16 inst.jumpTarget } } else s) := by
  refine ⟨?_, executeInstruction_cmp, executeInstruction_jcc⟩
  cases wide
  · simp only [Bool.false_eq_true, if_false] at ha hb ⊢
    apply cmp_conditions cpu a b ((a + 256 - b) % 256) (signed8 a) (signed8 b) false
    · exact sub_res8 a b ha hb
    · omega
    · exact signed_less_8 a b ha hb
    · unfold signed8; split_ifs <;> omega
  · simp only [if_true] at ha hb ⊢
    apply cmp_conditions cpu a b ((a + 65536 - b) % 65536) (signed16 a) (signed16 b) true
    · exact sub_res16 a b ha hb
    · omega
    · exact signed_less_16 a b ha hb
    · unfold signed16; split_ifs <;> omega

/-- C35 at `CMP 8000h, 1` on 16-bit values (below as signed, above as unsigned) and at
`CMP 200, 100` on 8-bit values. -/
theorem C35_conditional_jumps_decide_comparisons_witness :
    (evalCondition (execALU CPU.init "CMP" 0x8000 1 true).1 "JL" = true
      ∧ evalCondition (execALU CPU.init "CMP" 0x8000 1 true).1 "JB" = false
      ∧ evalCondition (execALU CPU.init "CMP" 0x8000 1 true).1 "JA" = true
      ∧ evalCondition (execALU CPU.init "CMP" 0x8000 1 true).1 "JZ" = false)
    ∧ (evalCondition (execALU CPU.init "CMP" 200 100 false).1 "JL" = true
      ∧ evalCondition (execALU CPU.init "CMP" 200 100 false).1 "JA" = true
      ∧ evalCondition (execALU CPU.init "CMP" 200 100 false).1 "JGE" = false) := by
  have h := (C35_conditional_jumps_decide_comparisons CPU.init 0x8000 1 true (by decide)
    (by decide)).1
  have g := (C35_conditional_jumps_decide_comparisons CPU.init 200 100 false (by decide)
    (by decide)).1
  refine ⟨⟨?_, ?_, ?_, ?_⟩, ?_, ?_, ?_⟩
  · rw [h.2.2.2.2.2.1]; decide
  · rw [h.2.1]; decide
  · rw [h.2.2.2.1]; decide
  · rw [h.1]; decide
  · rw [g.2.2.2.2.2.1]; decide
  · rw [g.2.2.2.1]; decide
  · rw [g.2.2.2.2.2.2.2.2]; decide

/-! ## C36: JCXZ -/

theorem executeInstruction_jcxz (s : EmuState) (inst : DecodedInst)
    (hm : inst.mnemonic = "JCXZ") (ht : 0 ≤ inst.jumpTarget) :
    executeInstruction s inst = s := by
  simp [executeInstruction, hm, ht, firstChar, evalCondition]

theorem decodeOpcode_jcxz (b : Nat) (rest : List Nat) (offset : Nat) :
    decodeOpcode (0xE3 :: b :: rest) offset 1 { DecodedInst.empty with opcode := 0xE3 }
      = { DecodedInst.empty with
          opcode := 0xE3, valid := true, size := 2, mnemonic := "JCXZ",
          jumpTarget := ((offset : Int) + 2 + (if b ≥ 128 then (b : Int) - 256 else b)) % 65536,
          op1 := makeImm16
            (((offset : Int) + 2 + (if b ≥ 128 then (b : Int) - 256 else b)) % 65536).toNat } := by
  simp [decodeOpcode, hasBytesAt, finish, readSignedByte, readByte, DecodedInst.empty]

/-- C36. A JCXZ instruction (opcode E3 followed by a displacement byte `b`) is decoded as
valid, two bytes long, with mnemonic JCXZ and a jump target in 0..65535; executing the
decoded instruction leaves every emulator state unchanged, whatever CX holds; so a step
from the instruction's address only moves IP to the next instruction, also when CX = 0. -/
theorem C36_jcxz_never_jumps (pre rest : List Nat) (b : Nat) (s : EmuState) :
    (decodeInstruction (pre ++ 0xE3 :: b :: rest) pre.length).valid = true
    ∧ (decodeInstruction (pre ++ 0xE3 :: b :: rest) pre.length).mnemonic = "JCXZ"
    ∧ (decodeInstruction (pre ++ 0xE3 :: b :: rest) pre.length).size = 2
    ∧ (decodeInstruction (pre ++ 0xE3 :: b :: rest) pre.length).jumpTarget
        = ((pre.length : Int) + 2 + (if b ≥ 128 then (b : Int) - 256 else b)) % 65536
    ∧ executeInstruction s (decodeInstruction (pre ++ 0xE3 :: b :: rest) pre.length) = s
    ∧ (s.cpu.ip = pre.length →
        stepState (pre ++ 0xE3 :: b :: rest) s
          = { s with cpu := { s.cpu with ip := (s.cpu.ip + 2) % 65536 } }) := by
  have hd := decodeInstruction_at pre 0xE3 (b :: rest) (by decide)
  rw [decodeOpcode_jcxz] at hd
  have ht : 0 ≤ (decodeInstruction (pre ++ 0xE3 :: b :: rest) pre.length).jumpTarget := by
    rw [hd]; exact Int.emod_nonneg _ (by decide)
  have hm : (decodeInstruction (pre ++ 0xE3 :: b :: rest) pre.length).mnemonic = "JCXZ" := by
    rw [hd]
  refine ⟨by rw [hd], hm, by rw [hd], by rw [hd], executeInstruction_jcxz s _ hm ht, ?_⟩
  intro hip
  unfold stepState
  rw [hip, executeInstruction_jcxz _ _ hm ht, hd]

/-- C36 at the program `JCXZ L` / `NOP` / `L: HLT` (bytes E3 01 90 F4) loaded at 0100h and
started with CX = 0: the decoded jump target is 0103h, and the step leaves IP at 0102h, the
address of the NOP. -/
theorem C36_jcxz_never_jumps_witness :
    (initialState [] EmulatorConfig.default).cpu.regs 1 = 0
    ∧ (initialState [] EmulatorConfig.default).cpu.ip = 0x100
    ∧ (decodeInstruction (List.replicate 256 0 ++ [0xE3, 0x01, 0x90, 0xF4]) 0x100).jumpTarget
        = 0x103
    ∧ (stepState (List.replicate 256 0 ++ [0xE3, 0x01, 0x90, 0xF4])
        (initialState [] EmulatorConfig.default)).cpu.ip = 0x102
    ∧ (assemble ["JCXZ L", "NOP", "L: HLT"] []).machineCode = [0xE3, 0x01, 0x90, 0xF4] := by
  have h := C36_jcxz_never_jumps (List.replicate 256 0) [0x90, 0xF4] 0x01
    (initialState [] EmulatorConfig.default)
  rw [List.length_replicate] at h
  refine ⟨by decide, by decide, ?_, ?_, by decide!⟩
  · exact h.2.2.2.1
  · rw [h.2.2.2.2.2 (by decide)]
    decide

/-! ## C37: ModR/M round trip -/

theorem decodedDisp_congr (mem : Operand) (_hr : -1 ≤ mem.memReg ∧ mem.memReg ≤ 7) :
    (decodedDisp mem - mem.val) % 65536 = 0 := by
  unfold decodedDisp
  by_cases hd : mem.memReg = -1
  · simp only [hd, if_true]
    unfold toU16; omega
  · simp only [hd, if_false]
    by_cases h1 : modOf mem = 1
    · simp [h1]
    · by_cases h2 : modOf mem = 2
      · simp only [h2, if_true]
        unfold toInt16 toU16
        split_ifs <;> omega
      · have := modOf_lt mem
        have h0 : modOf mem = 0 := by omega
        simp only [h0]
        unfold modOf at h0
        simp only at h0
        split_ifs at h0 with ha hc
        omega

theorem toU16_congr (a b : Int) (h : (a - b) % 65536 = 0) : toU16 a = toU16 b := by
  unfold toU16
  congr 1
  omega

theorem calcEffectiveAddress_congr (cpu : CPU) (o1 o2 : DecodedOperand)
    (hm : o1.memRM = o2.memRM) (hd : (o1.disp - o2.disp) % 65536 = 0) :
    calcEffectiveAddress cpu o1 = calcEffectiveAddress cpu o2 := by
  unfold calcEffectiveAddress
  simp only [hm]
  apply toU16_congr
  split_ifs <;> omega

/-- C37. In pass 2, for a register field `g` in 0..7 and a memory operand with R/M code in
-1..7 (-1 being the direct form), any displacement and either value of the symbol flag,
`emitModRM` appends bytes which `decodeModRM` reads back completely: the reg field is `g`,
the operand is a memory operand, the bytes consumed are the bytes emitted, `modrmToOperand`
gives the R/M code of the operand and a displacement congruent to the assembled one modulo
2^16, equal to it for a register-based operand with displacement in -32768..32767, and
`calcEffectiveAddress` gives the same address for the decoded operand as for the assembled
one. -/
theorem C37_modrm_round_trip (ctx : AssemblerContext) (g : Nat) (mem : Operand)
    (rest : List Nat) (sz : Nat) (hp : ctx.isPass1 = false) (hg : g < 8)
    (hr : -1 ≤ mem.memReg ∧ mem.memReg ≤ 7) :
    (emitModRM ctx g mem).currentLineBytes = ctx.currentLineBytes ++ modRMBytes g mem
    ∧ (decodeModRM (modRMBytes g mem ++ rest) 0 sz).reg = g
    ∧ (decodeModRM (modRMBytes g mem ++ rest) 0 sz).isReg = false
    ∧ (decodeModRM (modRMBytes g mem ++ rest) 0 sz).bytesConsumed = (modRMBytes g mem).length
    ∧ (modrmToOperand (decodeModRM (modRMBytes g mem ++ rest) 0 sz) sz).kind = .MEM
    ∧ (modrmToOperand (decodeModRM (modRMBytes g mem ++ rest) 0 sz) sz).memRM = mem.memReg
    ∧ ((modrmToOperand (decodeModRM (modRMBytes g mem ++ rest) 0 sz) sz).disp - mem.val)
        % 65536 = 0
    ∧ (mem.memReg ≠ -1 → -32768 ≤ mem.val → mem.val ≤ 32767 →
        (modrmToOperand (decodeModRM (modRMBytes g mem ++ rest) 0 sz) sz).disp = mem.val)
    ∧ ∀ cpu, calcEffectiveAddress cpu
          (modrmToOperand (decodeModRM (modRMBytes g mem ++ rest) 0 sz) sz)
        = calcEffectiveAddress cpu (assembledOperand mem) := by
  obtain ⟨h1, h2, h3, h4, h5⟩ := decodeModRM_modRMBytes g mem rest sz hg hr
  have hdisp : (modrmToOperand (decodeModRM (modRMBytes g mem ++ rest) 0 sz) sz).disp
      = decodedDisp mem := by
    rw [← h4]
    unfold modrmToOperand
    simp only
    split_ifs <;> rfl
  have hkind : (modrmToOperand (decodeModRM (modRMBytes g mem ++ rest) 0 sz) sz).kind
      = .MEM := by
    unfold modrmToOperand
    simp only [h3]
    rfl
  refine ⟨emitModRM_bytes ctx g mem hp hg hr, h1, h3, h2, hkind, h5, ?_, ?_, ?_⟩
  · rw [hdisp]; exact decodedDisp_congr mem hr
  · intro hne hlo hhi
    rw [hdisp]
    exact decodedDisp_in_range mem (by rw [if_neg hne]; exact ⟨hlo, hhi⟩)
  · intro cpu
    apply calcEffectiveAddress_congr
    · rw [h5]; rfl
    · rw [hdisp]; exact decodedDisp_congr mem hr

/-- C37 at `[BX+SI+4]` with reg field 2 (bytes 50 04), at `[BP]` (bytes 46 00, the zero
displacement being forced), at the direct address 1234h (bytes 16 34 12) and at `[DI-300]`
(bytes 95 D4 FE). -/
theorem C37_modrm_round_trip_witness :
    ((emitModRM pass2Ctx 2 (memOperand 0 4 false)).currentLineBytes = [0x50, 0x04]
      ∧ (decodeModRM ([0x50, 0x04] ++ [0x90]) 0 16).reg = 2
      ∧ (decodeModRM ([0x50, 0x04] ++ [0x90]) 0 16).bytesConsumed = 2
      ∧ (modrmToOperand (decodeModRM ([0x50, 0x04] ++ [0x90]) 0 16) 16).memRM = 0
      ∧ (modrmToOperand (decodeModRM ([0x50, 0x04] ++ [0x90]) 0 16) 16).disp = 4)
    ∧ modRMBytes 2 (memOperand 6 0 false) = [0x56, 0x00]
    ∧ modRMBytes 2 (memOperand (-1) 0x1234 false) = [0x16, 0x34, 0x12]
    ∧ modRMBytes 2 (memOperand 5 (-300) false) = [0x95, 0xD4, 0xFE]
    ∧ (modrmToOperand (decodeModRM [0x95, 0xD4, 0xFE] 0 16) 16).disp = -300
    ∧ modRMBytes 2 (memOperand 7 0 true) = [0x97, 0x00, 0x00] := by
  have h := C37_modrm_round_trip pass2Ctx 2 (memOperand 0 4 false) [0x90] 16 rfl (by decide)
    (by decide)
  have e : modRMBytes 2 (memOperand 0 4 false) = [0x50, 0x04] := by decide
  rw [e] at h
  exact ⟨⟨h.1, h.2.1, h.2.2.2.1, h.2.2.2.2.2.1, h.2.2.2.2.2.2.2.1 (by decide) (by decide)
    (by decide)⟩, by decide, by decide, by decide, by decide, by decide⟩

/-! ## C38: the text cursor -/

theorem advance_cursorOk (v : VRAMState) (mem : Memory) (h : CursorOk v) :
    CursorOk (v.advance mem).1 := by
  obtain ⟨h1, h2, h3, h4⟩ := h
  unfold VRAMState.advance
  simp only [h1, h2]
  split_ifs with a b <;> simp only [CursorOk, h1, h2] <;> refine ⟨trivial, trivial, ?_, ?_⟩ <;>
    omega

theorem ttyCharToVRAM_cursorOk (mem : Memory) (v : VRAMState) (ch : Nat) (h : CursorOk v) :
    CursorOk (ttyCharToVRAM mem v ch).2 := by
  have ha := advance_cursorOk v (v.writeCharAtCursor mem ch v.defaultAttr) h
  obtain ⟨h1, h2, h3, h4⟩ := h
  unfold ttyCharToVRAM
  simp only [h1, h2]
  split_ifs with a b c d e f
  · exact ⟨rfl, rfl, h3, by show 0 < 80; omega⟩
  · simp only [CursorOk, h1, h2]; refine ⟨trivial, trivial, ?_, ?_⟩ <;> omega
  · simp only [CursorOk, h1, h2]; refine ⟨trivial, trivial, ?_, ?_⟩ <;> omega
  · simp only [CursorOk, h1, h2]; refine ⟨trivial, trivial, ?_, ?_⟩ <;> omega
  · exact ⟨h1, h2, h3, h4⟩
  · exact ⟨h1, h2, h3, h4⟩
  · exact ha

theorem handleInt10_cursorOk (s : EmuState) (h : CursorOk s.vram) :
    CursorOk (handleInt10 s).vram := by
  obtain ⟨h1, h2, h3, h4⟩ := h
  unfold handleInt10
  simp only
  by_cases a1 : s.cpu.getReg8 4 = 0x00
  · rw [if_pos a1]
    exact ⟨h1, h2, by show (0 : Nat) < 50; omega, by show (0 : Nat) < 80; omega⟩
  rw [if_neg a1]
  by_cases a2 : s.cpu.getReg8 4 = 0x02
  · rw [if_pos a2]
    by_cases a : s.cpu.getReg8 6 < s.vram.rows ∧ s.cpu.getReg8 2 < s.vram.cols
    · rw [if_pos a]
      rw [h1, h2] at a
      exact ⟨h1, h2, a.1, a.2⟩
    · rw [if_neg a]
      exact ⟨h1, h2, h3, h4⟩
  rw [if_neg a2]
  by_cases a3 : s.cpu.getReg8 4 = 0x03
  · rw [if_pos a3]
    exact ⟨h1, h2, h3, h4⟩
  rw [if_neg a3]
  by_cases a4 : s.cpu.getReg8 4 = 0x06 ∨ s.cpu.getReg8 4 = 0x07
  · rw [if_pos a4]
    split_ifs <;> exact ⟨h1, h2, h3, h4⟩
  rw [if_neg a4]
  by_cases a5 : s.cpu.getReg8 4 = 0x08
  · rw [if_pos a5]
    split_ifs <;> exact ⟨h1, h2, h3, h4⟩
  rw [if_neg a5]
  by_cases a6 : s.cpu.getReg8 4 = 0x09
  · rw [if_pos a6]
    exact ⟨h1, h2, h3, h4⟩
  rw [if_neg a6]
  by_cases a7 : s.cpu.getReg8 4 = 0x0A
  · rw [if_pos a7]
    exact ⟨h1, h2, h3, h4⟩
  rw [if_neg a7]
  by_cases a8 : s.cpu.getReg8 4 = 0x0E
  · rw [if_pos a8]
    exact ttyCharToVRAM_cursorOk _ _ _ ⟨h1, h2, h3, h4⟩
  rw [if_neg a8]
  by_cases a9 : s.cpu.getReg8 4 = 0x0F
  · rw [if_pos a9]
    exact ⟨h1, h2, h3, h4⟩
  rw [if_neg a9]
  exact ⟨h1, h2, h3, h4⟩

theorem putChar_cursorOk (s : EmuState) (ch : Nat) (h : CursorOk s.vram) :
    CursorOk (putChar s ch).vram := by
  unfold putChar
  exact ttyCharToVRAM_cursorOk _ _ _ h

theorem printString_cursorOk (seg off : Nat) :
    ∀ (n i : Nat) (t : Bool) (s : EmuState), CursorOk s.vram →
      CursorOk (printString seg off n i t s).vram := by
  intro n
  induction n with
  | zero => intro i t s h; exact h
  | succ n ih =>
    intro i t s h
    unfold printString
    simp only
    split_ifs
    · exact h
    · exact ih _ _ _ (ttyCharToVRAM_cursorOk _ _ _ h)
    · exact ih _ _ _ (ttyCharToVRAM_cursorOk _ _ _ h)
    · exact ih _ _ _ (ttyCharToVRAM_cursorOk _ _ _ h)

theorem handleInt21_cursorOk (s : EmuState) (h : CursorOk s.vram) :
    CursorOk (handleInt21 s).vram := by
  unfold handleInt21
  simp only
  split_ifs
  all_goals first
    | exact h
    | exact putChar_cursorOk _ _ h
    | exact printString_cursorOk _ _ _ _ _ _ h

theorem initialState_cursorOk (binary : List Nat) (config : EmulatorConfig) :
    CursorOk (initialState binary config).vram := by
  unfold initialState
  exact ⟨rfl, rfl, by show (0 : Nat) < 50; omega, by show (0 : Nat) < 80; omega⟩

theorem screenReachable_cursorOk (s : EmuState) (h : ScreenReachable s) : CursorOk s.vram := by
  induction h with
  | start binary config => exact initialState_cursorOk binary config
  | other s cpu mem io result memDirty _ ih => exact ih
  | teletype s ch _ ih => exact ttyCharToVRAM_cursorOk _ _ _ ih
  | int10 s _ ih => exact handleInt10_cursorOk s ih
  | int21 s _ ih => exact handleInt21_cursorOk s ih

theorem cursorOffset_bound (v : VRAMState) (h : CursorOk v) :
    v.cursorOffset = (v.cursorRow * 80 + v.cursorCol) * 2 ∧ v.cursorOffset + 1 < 8000 := by
  obtain ⟨h1, h2, h3, h4⟩ := h
  unfold VRAMState.cursorOffset
  rw [h2]
  have e1 : (v.cursorRow * 80 + v.cursorCol) % 65536 = v.cursorRow * 80 + v.cursorCol :=
    Nat.mod_eq_of_lt (by omega)
  have e2 : (v.cursorRow * 80 + v.cursorCol) * 2 % 65536 = (v.cursorRow * 80 + v.cursorCol) * 2 :=
    Nat.mod_eq_of_lt (by omega)
  rw [e1, e2]
  omega

/-- C38. In every state reached from an initial emulator state by teletype output, the
INT 10h and INT 21h handlers and changes of the registers, memory and captured I/O, the
screen is 80 by 50 and the cursor is on it: `cursorRow < 50` and `cursorCol < 80`. So the
cursor cell lies below index 8000 of the VRAM buffer and `writeCharAtCursor` stores the
character and the attribute there; and a printable character sent to the teletype at row
49, column 79 is stored, the screen is moved up by one row (160 bytes) with the last row
blanked, and the cursor is left at row 49, column 0. -/
theorem C38_cursor_stays_on_screen (s : EmuState) (h : ScreenReachable s) :
    (s.vram.cursorRow < 50 ∧ s.vram.cursorCol < 80 ∧ s.vram.rows = 50 ∧ s.vram.cols = 80)
    ∧ (s.vram.cursorOffset = (s.vram.cursorRow * 80 + s.vram.cursorCol) * 2
        ∧ s.vram.cursorOffset + 1 < 8000)
    ∧ (∀ (mem : Memory) (ch attr : Nat),
        (s.vram.writeCharAtCursor mem ch attr).vram s.vram.cursorOffset = ch % 256
        ∧ (s.vram.writeCharAtCursor mem ch attr).vram (s.vram.cursorOffset + 1) = attr % 256)
    ∧ (∀ ch, ch ≠ 0x0D → ch ≠ 0x0A → ch ≠ 0x08 → ch ≠ 0x07 →
        s.vram.cursorRow = 49 → s.vram.cursorCol = 79 →
        (ttyCharToVRAM s.mem s.vram ch).2 = { s.vram with cursorRow := 49, cursorCol := 0 }
        ∧ (∀ i, i < 7840 → (ttyCharToVRAM s.mem s.vram ch).1.vram i
            = (s.vram.writeCharAtCursor s.mem ch s.vram.defaultAttr).vram (i + 160))
        ∧ (∀ i, 7840 ≤ i → i < 8000 → (ttyCharToVRAM s.mem s.vram ch).1.vram i
            = if i % 2 = 0 then 32 else s.vram.defaultAttr)) := by
  have hok := screenReachable_cursorOk s h
  obtain ⟨ho1, ho2⟩ := cursorOffset_bound s.vram hok
  obtain ⟨h1, h2, h3, h4⟩ := hok
  refine ⟨⟨h3, h4, h1, h2⟩, ⟨ho1, ho2⟩, ?_, ?_⟩
  · intro mem ch attr
    unfold VRAMState.writeCharAtCursor
    simp only [ho2, if_true, setAt]
    constructor
    · simp
    · simp
  · intro ch c1 c2 c3 c4 hr hc
    have e : ttyCharToVRAM s.mem s.vram ch
        = (s.vram.scrollUp (s.vram.writeCharAtCursor s.mem ch s.vram.defaultAttr) 1,
           { s.vram with cursorRow := 49, cursorCol := 0 }) := by
      unfold ttyCharToVRAM VRAMState.advance
      simp only [c1, c2, c3, c4, if_false, hr, hc, h1, h2]
      rw [if_pos (by decide), if_pos (by decide)]
      simp only [VRAMState.scrollUp, h1, h2]
    rw [e]
    refine ⟨rfl, ?_, ?_⟩
    · intro i hi
      simp only [VRAMState.scrollUp, h1, h2]
      rw [if_pos (by omega)]
    · intro i hi1 hi2
      simp only [VRAMState.scrollUp, h1, h2]
      rw [if_neg (by omega), if_pos (by omega)]
      have : (i - (50 * (80 * 2) - 1 * (80 * 2))) % 2 = i % 2 := by omega
      rw [this]

/-- C38 at the state reached from the initial state by the teletype output of `A`: the
cursor is at row 0, column 1. -/
theorem C38_cursor_stays_on_screen_witness :
    (ttyCharToVRAM (initialState [] EmulatorConfig.default).mem
      (initialState [] EmulatorConfig.default).vram 65).2.cursorRow < 50
    ∧ (ttyCharToVRAM (initialState [] EmulatorConfig.default).mem
        (initialState [] EmulatorConfig.default).vram 65).2.cursorCol < 80
    ∧ (ttyCharToVRAM (initialState [] EmulatorConfig.default).mem
        (initialState [] EmulatorConfig.default).vram 65).2.cursorCol = 1
    ∧ (ttyCharToVRAM (initialState [] EmulatorConfig.default).mem
        (initialState [] EmulatorConfig.default).vram 65).1.vram 0 = 65 := by
  have h := C38_cursor_stays_on_screen _
    (ScreenReachable.teletype _ 65 (ScreenReachable.start [] EmulatorConfig.default))
  exact ⟨h.1.1, h.1.2.1, by decide, by decide⟩

/-! ## C39: listing entries -/

theorem assembleInstruction_accepted (ctx : AssemblerContext) (tokens : List Token) (idx : Nat)
    (m : String) (startAddr : Int) (lineNum : Nat) (sourceLine : String)
    (h : (validateInstruction (parseOperands ctx tokens idx).1 m (parseOperands ctx tokens idx).2.1
      (parseOperands ctx tokens idx).2.2 (tokLine tokens 0)).2 = true) :
    assembleInstruction ctx tokens idx m startAddr lineNum sourceLine
      = encodeAndList (validateInstruction (parseOperands ctx tokens idx).1 m
          (parseOperands ctx tokens idx).2.1 (parseOperands ctx tokens idx).2.2
          (tokLine tokens 0)).1 m (parseOperands ctx tokens idx).2.1
          (parseOperands ctx tokens idx).2.2 (tokLine tokens 0) startAddr lineNum sourceLine := by
  unfold assembleInstruction
  simp only
  change (if ¬ (validateInstruction (parseOperands ctx tokens idx).1 m
      (parseOperands ctx tokens idx).2.1 (parseOperands ctx tokens idx).2.2
      (tokLine tokens 0)).2 = true then _
      else encodeAndList (validateInstruction (parseOperands ctx tokens idx).1 m
          (parseOperands ctx tokens idx).2.1 (parseOperands ctx tokens idx).2.2
          (tokLine tokens 0)).1 m (parseOperands ctx tokens idx).2.1
          (parseOperands ctx tokens idx).2.2 (tokLine tokens 0) startAddr lineNum sourceLine) = _
  rw [if_neg (by rw [h]; decide)]

theorem validateInstruction_accepted (ctx : AssemblerContext) (m : String) (op1 op2 : Operand)
    (line : Nat) (h : (validateInstruction ctx m op1 op2 line).2 = true) :
    (validateInstruction ctx m op1 op2 line).1 = ctx := by
  unfold validateInstruction at h ⊢
  cases hf : isaDB.find? (fun entry => entry.mnemonic = m) with
  | none => rfl
  | some entry =>
    rw [hf] at h
    simp only at h ⊢
    by_cases h1 : entry.validForms.any
        (fun form => ruleMatches op1 form.type1 && ruleMatches op2 form.type2) = true
    · rw [if_pos h1]
    · rw [if_neg h1] at h
      exact absurd h (by simp)

theorem appends_refl (c : AssemblerContext) : Appends c c :=
  ⟨rfl, rfl, [], by simp, by simp⟩

theorem appends_emitByte (c c1 : AssemblerContext) (b : Nat) (h : Appends c c1) :
    Appends c (emitByte c1 b) := by
  obtain ⟨h1, h2, bs, h3, h4⟩ := h
  unfold emitByte
  by_cases hp : c1.isPass1 = true
  · rw [if_neg (by simp [hp])]
    exact ⟨h1, h2, bs, h3, h4⟩
  · rw [if_pos hp]
    exact ⟨h1, h2, bs ++ [b % 256], by simp [h3], by simp [h4]⟩

theorem appends_emitWord (c c1 : AssemblerContext) (w : Nat) (h : Appends c c1) :
    Appends c (emitWord c1 w) := by
  obtain ⟨h1, h2, bs, h3, h4⟩ := h
  unfold emitWord
  simp only
  by_cases hp : c1.isPass1 = true
  · rw [if_neg (by simp [hp])]
    exact ⟨h1, h2, bs, h3, h4⟩
  · rw [if_pos hp]
    exact ⟨h1, h2, bs ++ [(w % 65536) &&& 0xFF, ((w % 65536) >>> 8) &&& 0xFF],
      by simp [h3], by simp [h4]⟩

theorem appends_logError (c c1 : AssemblerContext) (line : Nat) (m h : String)
    (h0 : Appends c c1) : Appends c (logError c1 line m h) := h0

theorem appends_logWarning (c c1 : AssemblerContext) (line : Nat) (m h : String)
    (h0 : Appends c c1) : Appends c (logWarning c1 line m h) := h0

theorem appends_ite (c : AssemblerContext) (p : Prop) [Decidable p] (a b : AssemblerContext)
    (ha : Appends c a) (hb : Appends c b) : Appends c (if p then a else b) := by
  split_ifs
  · exact ha
  · exact hb

theorem appends_branch (c : AssemblerContext) (p : Prop) [Decidable p]
    (a b : AssemblerContext × Bool)
    (ha : Appends c a.1) (hb : Appends c b.1) : Appends c (if p then a else b).1 := by
  split_ifs
  · exact ha
  · exact hb

theorem appends_emitModRM (c c1 : AssemblerContext) (g : Nat) (mem : Operand)
    (h : Appends c c1) : Appends c (emitModRM c1 g mem) := by
  unfold emitModRM
  simp only
  split_ifs
  · exact appends_emitWord _ _ _ (appends_emitByte _ _ _ h)
  · exact appends_emitByte _ _ _ (appends_emitByte _ _ _ h)
  · exact appends_emitWord _ _ _ (appends_emitByte _ _ _ h)
  · exact appends_emitByte _ _ _ h

theorem appends_truncWarn8 (c c1 : AssemblerContext) (line : Nat) (v : Int)
    (h : Appends c c1) : Appends c (truncWarn8 c1 line v) := by
  unfold truncWarn8
  exact appends_ite _ _ _ _ h h

theorem appends_truncWarn16 (c c1 : AssemblerContext) (line : Nat) (v : Int)
    (h : Appends c c1) : Appends c (truncWarn16 c1 line v) := by
  unfold truncWarn16
  exact appends_ite _ _ _ _ h h

theorem appends_noSizeWarn (c c1 : AssemblerContext) (line : Nat) (op : Operand) (ex : String)
    (h : Appends c c1) : Appends c (noSizeWarn c1 line op ex) := by
  unfold noSizeWarn
  exact appends_ite _ _ _ _ h h

theorem encMOV_appends (ctx : AssemblerContext) (op1 op2 : Operand) (line : Nat) :
    Appends ctx (encMOV ctx op1 op2 line).1 := by
  unfold encMOV
  simp only
  repeat' first
    | with_reducible exact appends_refl _
    | with_reducible apply appends_branch
    | with_reducible apply appends_emitByte
    | with_reducible apply appends_emitWord
    | with_reducible apply appends_emitModRM
    | with_reducible apply appends_logError
    | with_reducible apply appends_logWarning
    | with_reducible apply appends_truncWarn8
    | with_reducible apply appends_truncWarn16
    | with_reducible apply appends_noSizeWarn
    | with_reducible apply appends_ite

theorem encALU_appends (ctx : AssemblerContext) (m : String) (op1 op2 : Operand) (line : Nat) :
    Appends ctx (encALU ctx m op1 op2 line).1 := by
  unfold encALU
  simp only
  repeat' first
    | with_reducible exact appends_refl _
    | with_reducible apply appends_branch
    | with_reducible apply appends_emitByte
    | with_reducible apply appends_emitWord
    | with_reducible apply appends_emitModRM
    | with_reducible apply appends_logError
    | with_reducible apply appends_logWarning
    | with_reducible apply appends_truncWarn8
    | with_reducible apply appends_truncWarn16
    | with_reducible apply appends_noSizeWarn
    | with_reducible apply appends_ite

theorem encUnary_appends (ctx : AssemblerContext) (m : String) (op1 : Operand) :
    Appends ctx (encUnary ctx m op1).1 := by
  unfold encUnary
  simp only
  repeat' first
    | with_reducible exact appends_refl _
    | with_reducible apply appends_branch
    | with_reducible apply appends_emitByte
    | with_reducible apply appends_emitModRM
    | with_reducible apply appends_ite

theorem encMulDiv_appends (ctx : AssemblerContext) (m : String) (op1 : Operand) :
    Appends ctx (encMulDiv ctx m op1).1 := by
  unfold encMulDiv
  simp only
  repeat' first
    | with_reducible exact appends_refl _
    | with_reducible apply appends_branch
    | with_reducible apply appends_emitByte
    | with_reducible apply appends_emitModRM
    | with_reducible apply appends_ite

theorem encShift_appends (ctx : AssemblerContext) (m : String) (op1 op2 : Operand)
    (line : Nat) : Appends ctx (encShift ctx m op1 op2 line).1 := by
  unfold encShift
  simp only
  repeat' first
    | with_reducible exact appends_refl _
    | with_reducible apply appends_branch
    | with_reducible apply appends_emitByte
    | with_reducible apply appends_emitModRM
    | with_reducible apply appends_logWarning
    | with_reducible apply appends_ite

theorem encIN_appends (ctx : AssemblerContext) (op1 op2 : Operand) (line : Nat) :
    Appends ctx (encIN ctx op1 op2 line).1 := by
  unfold encIN
  repeat' first
    | with_reducible exact appends_refl _
    | with_reducible apply appends_branch
    | with_reducible apply appends_emitByte
    | with_reducible apply appends_logError

theorem encOUT_appends (ctx : AssemblerContext) (op1 op2 : Operand) (line : Nat) :
    Appends ctx (encOUT ctx op1 op2 line).1 := by
  unfold encOUT
  repeat' first
    | with_reducible exact appends_refl _
    | with_reducible apply appends_branch
    | with_reducible apply appends_emitByte
    | with_reducible apply appends_logError

theorem encLEA_appends (ctx : AssemblerContext) (op1 op2 : Operand) (line : Nat) :
    Appends ctx (encLEA ctx op1 op2 line).1 := by
  unfold encLEA
  repeat' first
    | with_reducible exact appends_refl _
    | with_reducible apply appends_branch
    | with_reducible apply appends_emitByte
    | with_reducible apply appends_emitModRM
    | with_reducible apply appends_logError

theorem encNear_appends (ctx : AssemblerContext) (opcode : Nat) (op1 : Operand) :
    Appends ctx (encNear ctx opcode op1).1 := by
  unfold encNear
  exact appends_emitWord _ _ _ (appends_emitByte _ _ _ (appends_refl _))

theorem encJcc_appends (ctx : AssemblerContext) (m : String) (op1 : Operand) (line : Nat) :
    Appends ctx (encJcc ctx m op1 line).1 := by
  unfold encJcc
  cases jccOpcodes.lookup m with
  | none => exact appends_refl _
  | some opcode =>
    simp only
    repeat' first
      | with_reducible exact appends_refl _
      | with_reducible apply appends_emitByte
      | with_reducible apply appends_logError
      | with_reducible apply appends_ite

theorem encLoop_appends (ctx : AssemblerContext) (m : String) (op1 : Operand) (line : Nat) :
    Appends ctx (encLoop ctx m op1 line).1 := by
  unfold encLoop
  simp only
  repeat' first
    | with_reducible exact appends_refl _
    | with_reducible apply appends_emitByte
    | with_reducible apply appends_logError
    | with_reducible apply appends_ite

theorem encStack_appends (ctx : AssemblerContext) (m : String) (op1 : Operand) (line : Nat) :
    Appends ctx (encStack ctx m op1 line).1 := by
  unfold encStack
  simp only
  repeat' first
    | with_reducible exact appends_refl _
    | with_reducible apply appends_branch
    | with_reducible apply appends_emitByte
    | with_reducible apply appends_emitModRM
    | with_reducible apply appends_logError
    | with_reducible apply appends_ite

theorem encXCHG_appends (ctx : AssemblerContext) (op1 op2 : Operand) :
    Appends ctx (encXCHG ctx op1 op2).1 := by
  unfold encXCHG
  simp only
  repeat' first
    | with_reducible exact appends_refl _
    | with_reducible apply appends_branch
    | with_reducible apply appends_emitByte
    | with_reducible apply appends_emitModRM
    | with_reducible apply appends_ite

theorem encodeInstruction_appends (ctx : AssemblerContext) (m : String) (op1 op2 : Operand)
    (line : Nat) : Appends ctx (encodeInstruction ctx m op1 op2 line).1 := by
  unfold encodeInstruction
  repeat' first
    | with_reducible exact encMOV_appends _ _ _ _
    | with_reducible exact encALU_appends _ _ _ _ _
    | with_reducible exact encUnary_appends _ _ _
    | with_reducible exact encMulDiv_appends _ _ _
    | with_reducible exact encShift_appends _ _ _ _ _
    | with_reducible exact encIN_appends _ _ _ _
    | with_reducible exact encOUT_appends _ _ _ _
    | with_reducible exact encLEA_appends _ _ _ _
    | with_reducible exact encNear_appends _ _ _
    | with_reducible exact encJcc_appends _ _ _ _
    | with_reducible exact encLoop_appends _ _ _ _
    | with_reducible exact encStack_appends _ _ _ _
    | with_reducible exact encXCHG_appends _ _ _
    | with_reducible exact appends_refl _
    | with_reducible apply appends_branch
    | with_reducible apply appends_emitByte
  cases simpleOpcodes.lookup m with
  | none => exact appends_refl _
  | some opcode => exact appends_emitByte _ _ _ (appends_refl _)

theorem appends_trans {a b c : AssemblerContext} (h1 : Appends a b) (h2 : Appends b c) :
    Appends a c := by
  obtain ⟨p1, l1, bs1, m1, c1⟩ := h1
  obtain ⟨p2, l2, bs2, m2, c2⟩ := h2
  exact ⟨p2.trans p1, l2.trans l1, bs1 ++ bs2, by rw [m2, m1, List.append_assoc],
    by rw [c2, c1, List.append_assoc]⟩

theorem emitSegmentPrefixes_appends (ctx : AssemblerContext) (op1 op2 : Operand) :
    Appends ctx (emitSegmentPrefixes ctx op1 op2) := by
  unfold emitSegmentPrefixes
  simp only
  repeat' first
    | with_reducible exact appends_refl _
    | with_reducible apply appends_ite
    | with_reducible apply appends_emitByte

theorem driftCheck_appends (c c1 : AssemblerContext) (m : String) (line0 : Nat)
    (h : Appends c c1) : Appends c (driftCheck c1 m line0) := by
  unfold driftCheck
  exact appends_ite _ _ _ _ h h

theorem encodeAndList_returned (ctx : AssemblerContext) (m : String) (op1 op2 : Operand)
    (line0 : Nat) (startAddr : Int) (lineNum : Nat) (sourceLine : String)
    (h : (encodeInstruction (emitSegmentPrefixes ctx op1 op2) m op1 op2 line0).2 = true) :
    encodeAndList ctx m op1 op2 line0 startAddr lineNum sourceLine
      = (encodeInstruction (emitSegmentPrefixes ctx op1 op2) m op1 op2 line0).1 := by
  unfold encodeAndList
  simp only
  rw [if_pos h]

theorem encodeAndList_listed (ctx : AssemblerContext) (m : String) (op1 op2 : Operand)
    (line0 : Nat) (startAddr : Int) (lineNum : Nat) (sourceLine : String)
    (h : (encodeInstruction (emitSegmentPrefixes ctx op1 op2) m op1 op2 line0).2 = false)
    (hp : ctx.isPass1 = false) :
    ∃ c, encodeAndList ctx m op1 op2 line0 startAddr lineNum sourceLine
        = { c with listing := c.listing ++
              [{ address := startAddr, sourceLine := lineNum, bytes := c.currentLineBytes,
                 sourceCode := sourceLine, size := c.currentLineBytes.length,
                 decoded := decodedText m op1 op2 }] }
      ∧ Appends ctx c := by
  have ha : Appends ctx (driftCheck
      (encodeInstruction (emitSegmentPrefixes ctx op1 op2) m op1 op2 line0).1 m line0) :=
    driftCheck_appends _ _ _ _
      (appends_trans (emitSegmentPrefixes_appends ctx op1 op2)
        (encodeInstruction_appends _ _ _ _ _))
  have hp1 := ha.1
  rw [hp] at hp1
  unfold encodeAndList
  simp only
  rw [if_neg (by rw [h]; decide), if_pos (by rw [hp1]; decide)]
  exact ⟨_, rfl, ha⟩

/-- C39 fails on the code for `INC r16`, `DEC r16` and `TEST reg, imm`. In pass 2, for an
instruction whose operands (`c`, `op1`, `op2` being the result of parsing them) pass
validation, `assembleInstruction` appends some bytes `bs` to the machine code, the same bytes
being the bytes of the line; when the encoder does not return early, exactly one listing
entry is appended, with the start address, the line number and the bytes `bs`; when it
returns early, the listing is left as it was. The encoder returns early, after emitting the
one-byte short form and without any diagnostic, for INC and DEC of a 16-bit register, and
also for TEST of a register with an immediate. -/
theorem C39_listing_misses_short_forms (ctx c : AssemblerContext) (tokens : List Token)
    (idx : Nat) (m : String) (op1 op2 : Operand) (startAddr : Int) (lineNum : Nat)
    (sourceLine : String)
    (hp : ctx.isPass1 = false) (hb : ctx.currentLineBytes = [])
    (hP : parseOperands ctx tokens idx = (c, op1, op2))
    (hv : (validateInstruction c m op1 op2 (tokLine tokens 0)).2 = true) :
    ∃ bs, (assembleInstruction ctx tokens idx m startAddr lineNum sourceLine).machineCode
          = ctx.machineCode ++ bs
      ∧ (assembleInstruction ctx tokens idx m startAddr lineNum sourceLine).currentLineBytes = bs
      ∧ ((encodeInstruction (emitSegmentPrefixes c op1 op2) m op1 op2 (tokLine tokens 0)).2
            = false →
          (assembleInstruction ctx tokens idx m startAddr lineNum sourceLine).listing
            = ctx.listing ++ [⟨startAddr, lineNum, bs, sourceLine, bs.length,
                decodedText m op1 op2⟩])
      ∧ ((encodeInstruction (emitSegmentPrefixes c op1 op2) m op1 op2 (tokLine tokens 0)).2
            = true →
          (assembleInstruction ctx tokens idx m startAddr lineNum sourceLine).listing
            = ctx.listing)
      ∧ ((m = "INC" ∨ m = "DEC") → op1.type = .REGISTER → op1.size = 16 →
          (encodeInstruction (emitSegmentPrefixes c op1 op2) m op1 op2 (tokLine tokens 0)).2
            = true
          ∧ (op1.segmentPrefix = -1 → op2.segmentPrefix = -1 →
              bs = [((if m = "INC" then 0x40 else 0x48) + op1.reg) % 256]
              ∧ (assembleInstruction ctx tokens idx m startAddr lineNum sourceLine).diagnostics
                  = c.diagnostics))
      ∧ (m = "TEST" → op1.type = .REGISTER → op2.type = .IMMEDIATE →
          (encodeInstruction (emitSegmentPrefixes c op1 op2) m op1 op2 (tokLine tokens 0)).2
            = true) := by
  have e1 : (parseOperands ctx tokens idx).1 = c := by rw [hP]
  have e2 : (parseOperands ctx tokens idx).2.1 = op1 := by rw [hP]
  have e3 : (parseOperands ctx tokens idx).2.2 = op2 := by rw [hP]
  have hA := assembleInstruction_accepted ctx tokens idx m startAddr lineNum sourceLine
    (by rw [e1, e2, e3]; exact hv)
  rw [e1, e2, e3, validateInstruction_accepted c m op1 op2 _ hv] at hA
  have hf := parseOperands_frame ctx tokens idx
  rw [e1] at hf
  obtain ⟨f1, f2, _, f4, f5, _⟩ := hf
  have hpc : c.isPass1 = false := by rw [f4, hp]
  have hinc : (m = "INC" ∨ m = "DEC") → op1.type = .REGISTER → op1.size = 16 →
      encodeInstruction (emitSegmentPrefixes c op1 op2) m op1 op2 (tokLine tokens 0)
        = (emitByte (emitSegmentPrefixes c op1 op2)
            ((if m = "INC" then 0x40 else 0x48) + op1.reg), true) := by
    intro hm ht hs
    rcases hm with rfl | rfl <;> simp [encodeInstruction, isALU, encUnary, ht, hs]
  have htest : m = "TEST" → op1.type = .REGISTER → op2.type = .IMMEDIATE →
      (encodeInstruction (emitSegmentPrefixes c op1 op2) m op1 op2 (tokLine tokens 0)).2
        = true := by
    intro hm ht hi
    subst hm
    simp only [encodeInstruction, isALU, encALU, ht, hi]
    simp
    split_ifs <;> rfl
  rw [hA]
  have hpre : Appends c
      (encodeInstruction (emitSegmentPrefixes c op1 op2) m op1 op2 (tokLine tokens 0)).1 :=
    appends_trans (emitSegmentPrefixes_appends c op1 op2) (encodeInstruction_appends _ _ _ _ _)
  cases hr : (encodeInstruction (emitSegmentPrefixes c op1 op2) m op1 op2 (tokLine tokens 0)).2
  · obtain ⟨c2, hc2, _, hl2, bs, hm2, hb2⟩ :=
      encodeAndList_listed c m op1 op2 (tokLine tokens 0) startAddr lineNum sourceLine hr hpc
    rw [f2, hb, List.nil_append] at hb2
    rw [f1] at hm2
    rw [f5] at hl2
    refine ⟨bs, ?_, ?_, ?_, ?_, ?_, ?_⟩
    · rw [hc2]; exact hm2
    · rw [hc2]; exact hb2
    · intro _
      rw [hc2]
      show c2.listing ++ _ = _
      rw [hb2, hl2]
    · intro h; exact absurd h (by decide)
    · intro hm ht hs
      rw [hinc hm ht hs] at hr
      exact absurd hr (by simp)
    · intro hm ht hi
      rw [htest hm ht hi] at hr
      exact absurd hr (by decide)
  · obtain ⟨_, hl2, bs, hm2, hb2⟩ := hpre
    rw [f2, hb, List.nil_append] at hb2
    rw [f1] at hm2
    rw [f5] at hl2
    rw [encodeAndList_returned c m op1 op2 _ startAddr lineNum sourceLine hr]
    refine ⟨bs, hm2, hb2, ?_, ?_, ?_, ?_⟩
    · intro h; exact absurd h (by decide)
    · intro _; exact hl2
    · intro hm ht hs
      refine ⟨rfl, ?_⟩
      intro s1 s2
      have hc : emitSegmentPrefixes c op1 op2 = c := by
        simp [emitSegmentPrefixes, s1, s2]
      rw [hinc hm ht hs, hc] at hb2 ⊢
      refine ⟨?_, ?_⟩
      · rw [← hb2]
        show (emitByte c _).currentLineBytes = _
        rw [emitByte_bytes c _ hpc, f2, hb, List.nil_append]
      · show (emitByte c _).diagnostics = _
        rw [emitByte_diagnostics]
    · intro _ _ _; rfl

/-- C39 at the line `INC AX` in pass 2: the byte 40h is emitted and the listing stays empty;
and the program `INC AX` / `DEC BX` / `TEST AX, 1` / `NOP` assembles without diagnostic to
seven bytes of which the listing holds only the last. -/
theorem C39_listing_misses_short_forms_witness :
    (assembleInstruction pass2Ctx (tokenize "INC AX" 1) 1 "INC" 0 1 "INC AX").machineCode
      = [0x40]
    ∧ (assembleInstruction pass2Ctx (tokenize "INC AX" 1) 1 "INC" 0 1 "INC AX").listing = []
    ∧ (assembleInstruction pass2Ctx (tokenize "INC AX" 1) 1 "INC" 0 1 "INC AX").diagnostics = []
    ∧ (assemble ["INC AX"] []).machineCode = [0x40]
    ∧ (assemble ["INC AX"] []).listing = []
    ∧ (assemble ["INC AX", "DEC BX", "TEST AX, 1", "NOP"] []).diagnostics = []
    ∧ (assemble ["INC AX", "DEC BX", "TEST AX, 1", "NOP"] []).machineCode
        = [0x40, 0x4B, 0xF7, 0xC0, 0x01, 0x00, 0x90]
    ∧ (assemble ["INC AX", "DEC BX", "TEST AX, 1", "NOP"] []).listing
        = [⟨6, 4, [0x90], "NOP", 1, "NOP"⟩] := by
  obtain ⟨bs, h1, _, _, h4, h5, _⟩ := C39_listing_misses_short_forms pass2Ctx
    (parseOperands pass2Ctx (tokenize "INC AX" 1) 1).1 (tokenize "INC AX" 1) 1 "INC"
    (parseOperands pass2Ctx (tokenize "INC AX" 1) 1).2.1
    (parseOperands pass2Ctx (tokenize "INC AX" 1) 1).2.2 0 1 "INC AX" rfl rfl rfl (by decide)
  obtain ⟨h6, h7⟩ := h5 (Or.inl rfl) (by decide) (by decide)
  obtain ⟨h8, h9⟩ := h7 (by decide) (by decide)
  refine ⟨?_, h4 h6, ?_, by decide, by decide, by decide, by decide, by decide⟩
  · rw [h1, h8]; decide
  · rw [h9]; decide

/-! ## C40: conflicting base and index registers -/

theorem memRegOf_isSome (a b c d : Bool) : (memRegOf a b c d).isSome = true := by
  cases a <;> cases b <;> cases c <;> cases d <;> decide

theorem memRegOf_conflict (a b c d : Bool) (h : (c = true ∧ d = true) ∨ (a = true ∧ b = true)) :
    memRegOf a b c d = some (acceptedRM a b c d) := by
  revert h
  cases a <;> cases b <;> cases c <;> cases d <;> decide

end Agent86
